import Mathlib

/-!
# Zeke FAT driver and VFS core: a shallow embedding

Definitions are transcribed from `kern/fs/fatfs/src/ff.c` and `kern/fs/fs.c`.
Machine integers are natural numbers with explicit reductions modulo `2^w`;
memory (sector buffers, the block device) is a function from offsets to bytes;
pointers into the window are offsets, a null pointer is `none` (or address 0
for the volume pointer stored in a lock record).
-/

namespace Zeke

/-! ## Result codes and constants (declared in `ff.h`) -/

/-- Modelled from the spec: the `FRESULT` enumeration of `ff.h` (the header is
not part of the sources at hand), in the order of FatFs R0.10b. -/
inductive FRESULT where
  | FR_OK | FR_DISK_ERR | FR_INT_ERR | FR_NOT_READY | FR_NO_FILE | FR_NO_PATH
  | FR_INVALID_NAME | FR_DENIED | FR_EXIST | FR_INVALID_OBJECT
  | FR_WRITE_PROTECTED | FR_INVALID_DRIVE | FR_NOT_ENABLED | FR_NO_FILESYSTEM
  | FR_MKFS_ABORTED | FR_TIMEOUT | FR_LOCKED | FR_NOT_ENOUGH_CORE
  | FR_TOO_MANY_OPEN_FILES | FR_INVALID_PARAMETER
  deriving DecidableEq, Repr

open FRESULT

/-- Numeric value of a result code, as stored by `ABORT` in `fp->err`. -/
def FRESULT.toNat : FRESULT → Nat
  | FR_OK => 0 | FR_DISK_ERR => 1 | FR_INT_ERR => 2 | FR_NOT_READY => 3
  | FR_NO_FILE => 4 | FR_NO_PATH => 5 | FR_INVALID_NAME => 6 | FR_DENIED => 7
  | FR_EXIST => 8 | FR_INVALID_OBJECT => 9 | FR_WRITE_PROTECTED => 10
  | FR_INVALID_DRIVE => 11 | FR_NOT_ENABLED => 12 | FR_NO_FILESYSTEM => 13
  | FR_MKFS_ABORTED => 14 | FR_TIMEOUT => 15 | FR_LOCKED => 16
  | FR_NOT_ENOUGH_CORE => 17 | FR_TOO_MANY_OPEN_FILES => 18
  | FR_INVALID_PARAMETER => 19

/-- The cast `(FRESULT)fp->err` of a stored error byte. -/
def FRESULT.ofByte : Nat → FRESULT
  | 0 => FR_OK | 1 => FR_DISK_ERR | 2 => FR_INT_ERR | 3 => FR_NOT_READY
  | 4 => FR_NO_FILE | 5 => FR_NO_PATH | 6 => FR_INVALID_NAME | 7 => FR_DENIED
  | 8 => FR_EXIST | 9 => FR_INVALID_OBJECT | 10 => FR_WRITE_PROTECTED
  | 11 => FR_INVALID_DRIVE | 12 => FR_NOT_ENABLED | 13 => FR_NO_FILESYSTEM
  | 14 => FR_MKFS_ABORTED | 15 => FR_TIMEOUT | 16 => FR_LOCKED
  | 17 => FR_NOT_ENOUGH_CORE | 18 => FR_TOO_MANY_OPEN_FILES
  | _ => FR_INVALID_PARAMETER

def FS_FAT12 : Nat := 1
def FS_FAT16 : Nat := 2
def FS_FAT32 : Nat := 3

def FA_READ : Nat := 0x01
def FA_WRITE : Nat := 0x02
def FA_CREATE_NEW : Nat := 0x04
def FA_CREATE_ALWAYS : Nat := 0x08
def FA_OPEN_ALWAYS : Nat := 0x10
def FA__WRITTEN : Nat := 0x20
def FA__DIRTY : Nat := 0x40

def AM_RDO : Nat := 0x01
def AM_VOL : Nat := 0x08
def AM_LFN : Nat := 0x0F
def AM_DIR : Nat := 0x10
def AM_ARC : Nat := 0x20
def AM_MASK : Nat := 0x3F

def NS : Nat := 11
def NS_LOSS : Nat := 0x01
def NS_LFN : Nat := 0x02
def NS_LAST : Nat := 0x04
def NS_BODY : Nat := 0x08
def NS_EXT : Nat := 0x10
def NS_DOT : Nat := 0x20

def MIN_FAT16 : Nat := 4086
def MIN_FAT32 : Nat := 65526

def SZ_DIR : Nat := 32
def LLE : Nat := 0x40
def DDE : Nat := 0xE5
def NDDE : Nat := 0x05

def DIR_Name : Nat := 0
def DIR_Attr : Nat := 11
def DIR_NTres : Nat := 12
def DIR_CrtTime : Nat := 14
def DIR_LstAccDate : Nat := 18
def DIR_FstClusHI : Nat := 20
def DIR_WrtTime : Nat := 22
def DIR_WrtDate : Nat := 24
def DIR_FstClusLO : Nat := 26
def DIR_FileSize : Nat := 28
def LDIR_Ord : Nat := 0
def LDIR_Attr : Nat := 11
def LDIR_Type : Nat := 12
def LDIR_Chksum : Nat := 13
def LDIR_FstClusLO : Nat := 26

/-- The configured maximum long-name length `_MAX_LFN` (set in `ffconf.h`). -/
def _MAX_LFN : Nat := 255

/-! ## Open-file lock table -/

/-- One `FILESEM` record: volume pointer (0 is `NULL`, a blank entry),
directory cluster, directory index and open counter. -/
structure FILESEM where
  fs : Nat
  clu : Nat
  idx : Nat
  ctr : Nat
  deriving DecidableEq, Repr

/-- The fields of a directory object that identify the object in the lock
table: `dp->fs`, `dp->sclust`, `dp->index`. -/
structure LockKey where
  fs : Nat
  sclust : Nat
  index : Nat
  deriving DecidableEq, Repr

/-- The test `Files[i].fs == dp->fs && Files[i].clu == dp->sclust &&
Files[i].idx == dp->index`. -/
def FILESEM.isObj (f : FILESEM) (dp : LockKey) : Bool :=
  f.fs == dp.fs && f.clu == dp.sclust && f.idx == dp.index

/-- The search loop of `chk_lock` from slot `i` on: the slot of the first
occupied entry that matches (or the table size), and the blank-entry flag. -/
def chk_lock_scan (dp : LockKey) : List FILESEM → Nat → Nat → Nat × Nat
  | [], i, be => (i, be)
  | f :: rest, i, be =>
    if f.fs ≠ 0 then
      if f.isObj dp then (i, be) else chk_lock_scan dp rest (i + 1) be
    else chk_lock_scan dp rest (i + 1) 1

/-- Transcription of `chk_lock(dp, acc)` over the table `Files`. -/
def chk_lock (Files : List FILESEM) (dp : LockKey) (acc : Nat) : FRESULT :=
  let r := chk_lock_scan dp Files 0 0
  if r.1 = Files.length then
    if r.2 ≠ 0 ∨ acc = 2 then FR_OK else FR_TOO_MANY_OPEN_FILES
  else
    if acc ≠ 0 ∨ (Files.getD r.1 ⟨0, 0, 0, 0⟩).ctr = 0x100 then FR_LOCKED else FR_OK

/-- The loop `for (i = 0; i < _FS_LOCK && Files[i].fs; i++) ;`. -/
def blank_scan : List FILESEM → Nat → Nat
  | [], i => i
  | f :: rest, i => if f.fs ≠ 0 then blank_scan rest (i + 1) else i

/-- Transcription of `enq_lock()`. -/
def enq_lock (Files : List FILESEM) : Bool :=
  blank_scan Files 0 ≠ Files.length

/-- The first loop of `inc_lock`: slot of the first entry whose three
identifying fields equal those of `dp` (or the table size). -/
def find_scan (dp : LockKey) : List FILESEM → Nat → Nat
  | [], i => i
  | f :: rest, i => if f.isObj dp then i else find_scan dp rest (i + 1)

/-- Transcription of `inc_lock(dp, acc)`: the new table and the returned
index (0 is the internal error). The counter is a 16-bit `WORD`. -/
def inc_lock (Files : List FILESEM) (dp : LockKey) (acc : Nat) : List FILESEM × Nat :=
  let i := find_scan dp Files 0
  let r : Option (List FILESEM × Nat) :=
    if i = Files.length then
      let j := blank_scan Files 0
      if j = Files.length then none
      else some (Files.set j ⟨dp.fs, dp.sclust, dp.index, 0⟩, j)
    else some (Files, i)
  match r with
  | none => (Files, 0)
  | some (F, i) =>
    let e := F.getD i ⟨0, 0, 0, 0⟩
    if acc ≠ 0 ∧ e.ctr ≠ 0 then (F, 0)
    else (F.set i { e with ctr := if acc ≠ 0 then 0x100 else (e.ctr + 1) % 65536 }, i + 1)

/-- Transcription of `dec_lock(i)`; `--i` on the unsigned index wraps for 0. -/
def dec_lock (Files : List FILESEM) (i : Nat) : List FILESEM × FRESULT :=
  let i := (i + 4294967295) % 4294967296
  if i < Files.length then
    let e := Files.getD i ⟨0, 0, 0, 0⟩
    let n := e.ctr
    let n := if n = 0x100 then 0 else n
    let n := if n ≠ 0 then n - 1 else n
    let e := { e with ctr := n }
    let e := if n = 0 then { e with fs := 0 } else e
    (Files.set i e, FR_OK)
  else (Files, FR_INT_ERR)

/-- Transcription of `clear_lock(fs)`. -/
def clear_lock (Files : List FILESEM) (fs : Nat) : List FILESEM :=
  Files.map fun f => if f.fs = fs then { f with fs := 0 } else f

/-! ## Byte-array access macros -/

/-- Modelled from the spec: `LD_WORD(ptr)` of `ff.h`, a 16-bit little-endian
load at offset `o` of the byte array `m`. -/
def LD_WORD (m : Nat → Nat) (o : Nat) : Nat :=
  m o + m (o + 1) * 256

/-- Modelled from the spec: `LD_DWORD(ptr)` of `ff.h`, a 32-bit little-endian
load. -/
def LD_DWORD (m : Nat → Nat) (o : Nat) : Nat :=
  m o + m (o + 1) * 256 + m (o + 2) * 65536 + m (o + 3) * 16777216

/-- Modelled from the spec: `ST_WORD(ptr, val)` of `ff.h`, a 16-bit
little-endian store of the low 16 bits of `v`. -/
def ST_WORD (m : Nat → Nat) (o v : Nat) : Nat → Nat :=
  Function.update (Function.update m o (v % 256)) (o + 1) (v / 256 % 256)

/-- Modelled from the spec: `ST_DWORD(ptr, val)` of `ff.h`, a 32-bit
little-endian store. -/
def ST_DWORD (m : Nat → Nat) (o v : Nat) : Nat → Nat :=
  Function.update (Function.update (Function.update (Function.update m o (v % 256))
    (o + 1) (v / 256 % 256)) (o + 2) (v / 65536 % 256)) (o + 3) (v / 16777216 % 256)

/-- The library call `memset(p + o, c, n)` on a byte array. -/
def memset (m : Nat → Nat) (o c n : Nat) : Nat → Nat :=
  fun k => if o ≤ k ∧ k < o + n then c else m k

/-- The library call `memcpy(dst + o, src + o2, n)` between byte arrays. -/
def memcpy (dst : Nat → Nat) (o : Nat) (src : Nat → Nat) (o2 n : Nat) : Nat → Nat :=
  fun k => if o ≤ k ∧ k < o + n then src (k - o + o2) else dst k

/-! ## Long-name entries and short names -/

/-- The table `LfnOfs[]`: offsets of the 13 characters in an LFN entry. -/
def LfnOfs : List Nat := [1, 3, 5, 7, 9, 14, 16, 18, 20, 22, 24, 28, 30]

/-- The value of `(x - 1) * 13` converted to `unsigned int`. -/
def ordOffset (x : Nat) : Nat := (x * 13 + (4294967296 - 13)) % 4294967296

/-- The `do ... while (++s < 13)` loop of `fit_lfn`, over the remaining
character offsets; the state is the entry, the buffer index and `wc`. -/
def fit_lfn_loop (lfnbuf : Nat → Nat) :
    List Nat → (Nat → Nat) × Nat × Nat → (Nat → Nat) × Nat × Nat
  | [], st => st
  | ofs :: rest, (dir, i, wc) =>
    let wc1 := if wc ≠ 0xFFFF then lfnbuf i else wc
    let i1 := if wc ≠ 0xFFFF then i + 1 else i
    let dir1 := ST_WORD dir ofs wc1
    let wc2 := if wc1 = 0 then 0xFFFF else wc1
    fit_lfn_loop lfnbuf rest (dir1, i1, wc2)

/-- Transcription of `fit_lfn(lfnbuf, dir, ord, sum)`: the entry written. -/
def fit_lfn (lfnbuf : Nat → Nat) (dir : Nat → Nat) (ord sum : Nat) : Nat → Nat :=
  let dir := Function.update dir LDIR_Chksum sum
  let dir := Function.update dir LDIR_Attr AM_LFN
  let dir := Function.update dir LDIR_Type 0
  let dir := ST_WORD dir LDIR_FstClusLO 0
  let r := fit_lfn_loop lfnbuf LfnOfs (dir, ordOffset ord, 0)
  let ord := if r.2.2 = 0xFFFF ∨ lfnbuf r.2.1 = 0 then ord ||| LLE else ord
  Function.update r.1 LDIR_Ord ord

/-- The `do ... while (++s < 13)` loop of `pick_lfn`; `none` is the early
`return 0`. The state is the name buffer, the index and `wc`. -/
def pick_lfn_loop (dir : Nat → Nat) :
    List Nat → (Nat → Nat) × Nat × Nat → Option ((Nat → Nat) × Nat × Nat)
  | [], st => some st
  | ofs :: rest, (lfnbuf, i, wc) =>
    let uc := LD_WORD dir ofs
    if wc ≠ 0 then
      if i ≥ _MAX_LFN then none
      else pick_lfn_loop dir rest (Function.update lfnbuf i uc, i + 1, uc)
    else
      if uc ≠ 0xFFFF then none
      else pick_lfn_loop dir rest (lfnbuf, i, wc)

/-- Transcription of `pick_lfn(lfnbuf, dir)`: the return value (1 succeeded,
0 buffer overflow) and the name buffer afterwards. On an early return the
characters stored so far stay in the buffer; the model returns the buffer
as it was, which no caller reads after a 0. -/
def pick_lfn (lfnbuf : Nat → Nat) (dir : Nat → Nat) : Nat × (Nat → Nat) :=
  match pick_lfn_loop dir LfnOfs (lfnbuf, ordOffset (dir LDIR_Ord &&& 0x3F), 1) with
  | none => (0, lfnbuf)
  | some (buf, i, _) =>
    if dir LDIR_Ord &&& LLE ≠ 0 then
      if i ≥ _MAX_LFN then (0, buf) else (1, Function.update buf i 0)
    else (1, buf)

/-- Transcription of `sum_sfn(dir)`: the `do ... while (--n)` loop over the
11 name bytes, the sum being a `uint8_t`. -/
def sum_sfn_loop (dir : Nat → Nat) : Nat → Nat → Nat → Nat
  | 0, _, sum => sum
  | n + 1, k, sum => sum_sfn_loop dir n (k + 1) ((sum / 2 + sum * 128 + dir k) % 256)

def sum_sfn (dir : Nat → Nat) : Nat := sum_sfn_loop dir 11 0 0

/-- The configuration macro `IsDBCS1(c)` for a single-byte code page. -/
def IsDBCS1 (_c : Nat) : Bool := false

/-- The CRC loop of `gen_numname` over one wide character: 16 steps on the
32-bit register `sr`. -/
def gen_numname_crc_char : Nat → Nat → Nat → Nat
  | 0, _, sr => sr
  | n + 1, wc, sr =>
    let sr := (sr * 2 + wc % 2) % 4294967296
    let sr := if sr &&& 0x10000 ≠ 0 then sr ^^^ 0x11021 else sr
    gen_numname_crc_char n (wc / 2) sr

/-- The loop `while (*lfn)` of `gen_numname` over the characters up to the
terminator. -/
def gen_numname_crc : List Nat → Nat → Nat
  | [], sr => sr
  | wc :: rest, sr => if wc = 0 then sr else gen_numname_crc rest (gen_numname_crc_char 16 wc sr)

/-- The hexadecimal `itoa` loop of `gen_numname` (at most 8 digits of a
32-bit value): the digit buffer `ns` and the index `i` after it. -/
def gen_numname_itoa : Nat → (Nat → Nat) → Nat → Nat → (Nat → Nat) × Nat
  | 0, ns, i, _ => (ns, i)
  | fuel + 1, ns, i, seq =>
    let c := seq % 16 + 0x30
    let c := if c > 0x39 then c + 7 else c
    let ns := Function.update ns i c
    let i := (i + 4294967295) % 4294967296
    let seq := seq / 16
    if seq ≠ 0 then gen_numname_itoa fuel ns i seq else (ns, i)

/-- The loop `for (j = 0; j < i && dst[j] != ' '; j++)` of `gen_numname`
on a single-byte code page. -/
def gen_numname_scan (dst : Nat → Nat) (i : Nat) : Nat → Nat → Nat
  | 0, j => j
  | fuel + 1, j => if j < i ∧ dst j ≠ 0x20 then gen_numname_scan dst i fuel (j + 1) else j

/-- The final `do { dst[j++] = (i < 8) ? ns[i++] : ' '; } while (j < 8)`. -/
def gen_numname_put (ns : Nat → Nat) : Nat → (Nat → Nat) → Nat → Nat → (Nat → Nat)
  | 0, dst, _, _ => dst
  | fuel + 1, dst, i, j =>
    let dst := Function.update dst j (if i < 8 then ns i else 0x20)
    let i := if i < 8 then i + 1 else i
    if j + 1 < 8 then gen_numname_put ns fuel dst i (j + 1) else dst

/-- Transcription of `gen_numname(dst, src, lfn, seq)`; `lfn` is the long
name up to its terminator, the result is the buffer `dst` afterwards. -/
def gen_numname (dst src : Nat → Nat) (lfn : List Nat) (seq : Nat) : Nat → Nat :=
  let dst := memcpy dst 0 src 0 11
  let seq := if seq > 5 then gen_numname_crc lfn seq else seq
  let r := gen_numname_itoa 8 (fun _ => 0) 7 seq
  let ns := Function.update r.1 r.2 0x7E
  let j := gen_numname_scan dst r.2 r.2 0
  gen_numname_put ns 8 dst r.2 j

/-- Modelled from the spec: `ka_isupper` of `kactype.h` (not part of the
sources at hand), the ASCII capital letters. -/
def ka_isupper (c : Nat) : Bool := 0x41 ≤ c && c ≤ 0x5A

/-- Modelled from the spec: `ka_islower` of `kactype.h`, the ASCII small
letters. -/
def ka_islower (c : Nat) : Bool := 0x61 ≤ c && c ≤ 0x7A

/-- The characters of the literal `"\"*:<>\?|\x7F"` (illegal in a long name). -/
def lfnIllegal : List Nat := [0x22, 0x2A, 0x3A, 0x3C, 0x3E, 0x3F, 0x7C, 0x7F]

/-- The characters of the literal `"+,;=[]"` (replaced in a short name). -/
def sfnReplaced : List Nat := [0x2B, 0x2C, 0x3B, 0x3D, 0x5B, 0x5D]

/-- What `create_name` leaves behind on `FR_OK`: the long name buffer, the
12-byte `fn` array and the number of path characters consumed. -/
structure NameResult where
  lfn : Nat → Nat
  fn : Nat → Nat
  consumed : Nat

/-- First loop of `create_name` (LFN configuration, ANSI/OEM API, single-byte
code page): copies the segment into `lfn`. Returns the breaking character,
`si`, the buffer and `di`. The path is a C string: past its end a NUL is read.
`ff_convert` is the code-page conversion function of the configuration. -/
def create_name_seg (ff_convert : Nat → Nat → Nat) :
    List Nat → Nat → (Nat → Nat) → Nat → Except FRESULT (Nat × Nat × (Nat → Nat) × Nat)
  | [], si, lfn, di => .ok (0, si + 1, lfn, di)
  | c :: rest, si, lfn, di =>
    if c < 0x20 ∨ c = 0x2F ∨ c = 0x5C then .ok (c, si + 1, lfn, di)
    else if di ≥ _MAX_LFN then .error FR_INVALID_NAME
    else
      let w := ff_convert (c &&& 0xFF) 1
      if w = 0 then .error FR_INVALID_NAME
      else if w < 0x80 ∧ w ∈ lfnIllegal then .error FR_INVALID_NAME
      else create_name_seg ff_convert rest (si + 1) (Function.update lfn di w) (di + 1)

/-- The loop `while (di) { w = lfn[di-1]; if (w != ' ' && w != '.') break; di--; }`. -/
def create_name_strip (lfn : Nat → Nat) : Nat → Nat
  | 0 => 0
  | di + 1 => if lfn di ≠ 0x20 ∧ lfn di ≠ 0x2E then di + 1 else create_name_strip lfn di

/-- The loop `for (si = 0; lfn[si] == ' ' || lfn[si] == '.'; si++) ;`, which
stops at the terminator `lfn[di]` at the latest. -/
def create_name_lead (lfn : Nat → Nat) : Nat → Nat → Nat
  | 0, si => si
  | fuel + 1, si => if lfn si = 0x20 ∨ lfn si = 0x2E then create_name_lead lfn fuel (si + 1) else si

/-- The loop `while (di && lfn[di - 1] != '.') di--;`. -/
def create_name_ext (lfn : Nat → Nat) : Nat → Nat
  | 0 => 0
  | di + 1 => if lfn di ≠ 0x2E then create_name_ext lfn di else di + 1

/-- State of the short-name loop of `create_name`. -/
structure SfnState where
  fn : Nat → Nat
  si : Nat
  i : Nat
  ni : Nat
  b : Nat
  cf : Nat

/-- The short-name loop of `create_name` (`for (;;)` reading `lfn[si++]`),
with `_EXCVT` defined and `_DF1S = 0`. `none` when the fuel runs out. -/
def create_name_sfn (ff_convert : Nat → Nat → Nat) (ExCvt : Nat → Nat) (lfn : Nat → Nat) (di : Nat) :
    Nat → SfnState → Option SfnState
  | 0, _ => none
  | fuel + 1, st =>
    let w := lfn st.si
    let si := st.si + 1
    if w = 0 then some { st with si := si }
    else if w = 0x20 ∨ (w = 0x2E ∧ si ≠ di) then
      create_name_sfn ff_convert ExCvt lfn di fuel { st with si := si, cf := st.cf ||| (NS_LOSS ||| NS_LFN) }
    else if st.i ≥ st.ni ∨ si = di then
      if st.ni = 11 then some { st with si := si, cf := st.cf ||| (NS_LOSS ||| NS_LFN) }
      else
        let cf := if si ≠ di then st.cf ||| (NS_LOSS ||| NS_LFN) else st.cf
        if si > di then some { st with si := si, cf := cf }
        else create_name_sfn ff_convert ExCvt lfn di fuel
          { st with si := di, i := 8, ni := 11, b := st.b * 4 % 256, cf := cf }
    else
      let w1 := if w ≥ 0x80 then
          (let v := ff_convert w 0; if v ≠ 0 then ExCvt (v - 0x80) else v) else w
      let cf := if w ≥ 0x80 then st.cf ||| NS_LFN else st.cf
      let bad : Bool := w1 = 0 ∨ w1 ∈ sfnReplaced
      let w2 := if bad then 0x5F else if ka_isupper w1 then w1
                else if ka_islower w1 then w1 - 0x20 else w1
      let cf := if bad then cf ||| (NS_LOSS ||| NS_LFN) else cf
      let b := if bad then st.b else if ka_isupper w1 then st.b ||| 2
               else if ka_islower w1 then st.b ||| 1 else st.b
      create_name_sfn ff_convert ExCvt lfn di fuel
        { st with fn := Function.update st.fn st.i (w2 % 256), si := si, i := st.i + 1, b := b, cf := cf }

/-- The flags `create_name` derives from the collected case bits `b`:
`NS_LFN` when body or extension mixes capital and small letters, otherwise
the NT flags `NS_BODY` and `NS_EXT` for a body or extension in small letters. -/
def create_name_flags (cf b : Nat) : Nat :=
  let cf := if b &&& 0x0C = 0x0C ∨ b &&& 0x03 = 0x03 then cf ||| NS_LFN else cf
  if cf &&& NS_LFN = 0 then
    (let cf1 := if b &&& 0x03 = 0x01 then cf ||| NS_EXT else cf
     if b &&& 0x0C = 0x04 then cf1 ||| NS_BODY else cf1)
  else cf

/-- Transcription of `create_name(dp, &path)` (LFN configuration): `lfn0` and
`fn0` are the buffers `dp->lfn` and `dp->fn` before the call. `none` only if
the short-name loop ran out of fuel. -/
def create_name (ff_convert : Nat → Nat → Nat) (ExCvt : Nat → Nat)
    (lfn0 fn0 : Nat → Nat) (path : List Nat) : Option (FRESULT × NameResult) :=
  let p := path.dropWhile fun c => c = 0x2F ∨ c = 0x5C
  match create_name_seg ff_convert p 0 lfn0 0 with
  | .error e => some (e, ⟨lfn0, fn0, 0⟩)
  | .ok (w, si, lfn, di) =>
    let consumed := (path.length - p.length) + si
    let cf := if w < 0x20 then NS_LAST else 0
    let di := create_name_strip lfn di
    if di = 0 then some (FR_INVALID_NAME, ⟨lfn, fn0, consumed⟩)
    else
      let lfn := Function.update lfn di 0
      let fn := memset fn0 0 0x20 11
      let si := create_name_lead lfn di 0
      let cf := if si ≠ 0 then cf ||| (NS_LOSS ||| NS_LFN) else cf
      let di := create_name_ext lfn di
      match create_name_sfn ff_convert ExCvt lfn di (_MAX_LFN + 2) ⟨fn, si, 0, 8, 0, cf⟩ with
      | none => none
      | some st =>
        let fn := if st.fn 0 = DDE then Function.update st.fn 0 NDDE else st.fn
        let b := if st.ni = 8 then st.b * 4 % 256 else st.b
        some (FR_OK, ⟨lfn, Function.update fn NS (create_name_flags st.cf b), consumed⟩)

/-- The loop `while (i < 11)` of `get_fileinfo` that copies the short name:
the characters appended to `fno->fname` for the entry bytes `i, i+1, ...`
(LFN configuration, ANSI/OEM API). -/
def get_fileinfo_sfn (dir : Nat → Nat) : Nat → Nat → List Nat
  | 0, _ => []
  | fuel + 1, i =>
    if i < 11 then
      let c := dir i
      let i := i + 1
      if c = 0x20 then get_fileinfo_sfn dir fuel i
      else
        let c := if c = NDDE then DDE else c
        let dot : List Nat := if i = 9 then [0x2E] else []
        let c := if ka_isupper c ∧ dir DIR_NTres &&& (if i ≥ 9 then NS_EXT else NS_BODY) ≠ 0
                 then c + 0x20 else c
        dot ++ c :: get_fileinfo_sfn dir fuel i
    else []

/-- The directory entry that `dir_register` writes for the short name: a
cleared 32-byte entry with the 11 name bytes and the NT flags. -/
def sfn_entry (dir fn : Nat → Nat) : Nat → Nat :=
  let dir := memset dir 0 0 SZ_DIR
  let dir := memcpy dir 0 fn 0 11
  Function.update dir DIR_NTres (fn NS &&& (NS_BODY ||| NS_EXT))

/-! ## Block device, volume object and sector window -/

/-- 32-bit unsigned addition (`DWORD`, `unsigned int`). -/
def add32 (a b : Nat) : Nat := (a + b) % 4294967296

/-- 32-bit unsigned subtraction, wrapping below zero. -/
def sub32 (a b : Nat) : Nat := (a % 4294967296 + 4294967296 - b % 4294967296) % 4294967296

/-- The block device behind `fatfs_disk_read` / `fatfs_disk_write` (its
implementation is outside the driver): the bytes of every sector and, for
each sector, whether a read or a write of it reports an error; whether the
`CTRL_SYNC` ioctl fails; the status bytes returned by `fatfs_disk_status`
and `fatfs_disk_initialize`; and the sector size reported by the
`IOCTL_GETBLKSIZE` ioctl (`none` when that ioctl fails). -/
structure Disk where
  data : Nat → Nat → Nat
  rfail : Nat → Bool
  wfail : Nat → Bool
  syncfail : Bool
  stat : Nat
  init_stat : Nat
  blksize : Option Nat

/-- One-sector `fatfs_disk_read`: `none` is a non-zero `DRESULT`. -/
def disk_read (d : Disk) (sector : Nat) : Option (Nat → Nat) :=
  if d.rfail sector then none else some (d.data sector)

/-- One-sector `fatfs_disk_write`: `none` is a non-zero `DRESULT` (nothing
is stored then). -/
def disk_write (d : Disk) (buf : Nat → Nat) (sector : Nat) : Option Disk :=
  if d.wfail sector then none
  else some { d with data := Function.update d.data sector buf }

/-- The volume object `FATFS` together with the device bound to `fs->drv`.
`sobj` is the volume mutex, modelled as a hold counter; `sobj_timeout` tells
whether `mtx_lock` on it reports a failure. -/
structure FATFS where
  fs_type : Nat
  csize : Nat
  n_fats : Nat
  wflag : Nat
  fsi_flag : Nat
  id : Nat
  n_rootdir : Nat
  ssize : Nat
  readonly : Bool
  sobj : Nat
  sobj_timeout : Bool
  last_clust : Nat
  free_clust : Nat
  n_fatent : Nat
  fsize : Nat
  volbase : Nat
  fatbase : Nat
  dirbase : Nat
  database : Nat
  winsect : Nat
  win : Nat → Nat
  disk : Disk

/-- The mirror loop of `sync_window`: `for (nf = fs->n_fats; nf >= 2; nf--)`,
whose write results are ignored. -/
def sync_window_mirror (fsize : Nat) (win : Nat → Nat) : Nat → Nat → Disk → Disk
  | 0, _, d => d
  | nf + 1, wsect, d =>
    if nf + 1 ≥ 2 then
      let wsect := add32 wsect fsize
      let d := match disk_write d win wsect with
        | some d1 => d1
        | none => d
      sync_window_mirror fsize win nf wsect d
    else d

/-- Transcription of `sync_window(fs)`. -/
def sync_window (fs : FATFS) : FATFS × FRESULT :=
  if fs.wflag ≠ 0 then
    let wsect := fs.winsect
    match disk_write fs.disk fs.win wsect with
    | none => (fs, FR_DISK_ERR)
    | some d =>
      let fs := { fs with disk := d, wflag := 0 }
      if sub32 wsect fs.fatbase < fs.fsize then
        ({ fs with disk := sync_window_mirror fs.fsize fs.win fs.n_fats wsect fs.disk }, FR_OK)
      else (fs, FR_OK)
  else (fs, FR_OK)

/-- Transcription of `move_window(fs, sector)`. -/
def move_window (fs : FATFS) (sector : Nat) : FATFS × FRESULT :=
  if sector ≠ fs.winsect then
    let r := if ¬ fs.readonly then sync_window fs else (fs, FR_OK)
    if r.2 ≠ FR_OK then (r.1, FR_DISK_ERR)
    else
      match disk_read r.1.disk sector with
      | none => (r.1, FR_DISK_ERR)
      | some buf => ({ r.1 with win := buf, winsect := sector }, FR_OK)
  else (fs, FR_OK)

/-- Transcription of `clust2sect(fs, clst)`. -/
def clust2sect (fs : FATFS) (clst : Nat) : Nat :=
  let clst := sub32 clst 2
  if clst ≥ sub32 fs.n_fatent 2 then 0
  else add32 (clst * fs.csize % 4294967296) fs.database

/-! ## FAT access -/

/-- Transcription of `get_fat(fs, clst)`: the volume afterwards (the window
may have moved) and the value returned. -/
def get_fat (fs : FATFS) (clst : Nat) : FATFS × Nat :=
  if clst < 2 ∨ clst ≥ fs.n_fatent then (fs, 1)
  else if fs.fs_type = FS_FAT12 then
    let bc := add32 clst (clst / 2)
    let r := move_window fs (add32 fs.fatbase (bc / fs.ssize))
    if r.2 ≠ FR_OK then (r.1, 0xFFFFFFFF)
    else
      let wc := r.1.win (bc % fs.ssize)
      let bc := add32 bc 1
      let r := move_window r.1 (add32 fs.fatbase (bc / fs.ssize))
      if r.2 ≠ FR_OK then (r.1, 0xFFFFFFFF)
      else
        let wc := wc ||| (r.1.win (bc % fs.ssize) <<< 8)
        (r.1, if clst &&& 1 ≠ 0 then wc >>> 4 else wc &&& 0xFFF)
  else if fs.fs_type = FS_FAT16 then
    let r := move_window fs (add32 fs.fatbase (clst / (fs.ssize / 2)))
    if r.2 ≠ FR_OK then (r.1, 0xFFFFFFFF)
    else (r.1, LD_WORD r.1.win (clst * 2 % 4294967296 % fs.ssize))
  else if fs.fs_type = FS_FAT32 then
    let r := move_window fs (add32 fs.fatbase (clst / (fs.ssize / 4)))
    if r.2 ≠ FR_OK then (r.1, 0xFFFFFFFF)
    else (r.1, LD_DWORD r.1.win (clst * 4 % 4294967296 % fs.ssize) &&& 0x0FFFFFFF)
  else (fs, 1)

/-- Transcription of `put_fat(fs, clst, val)`. -/
def put_fat (fs : FATFS) (clst val : Nat) : FATFS × FRESULT :=
  if clst < 2 ∨ clst ≥ fs.n_fatent then (fs, FR_INT_ERR)
  else if fs.fs_type = FS_FAT12 then
    let bc := add32 clst (clst / 2)
    let r := move_window fs (add32 fs.fatbase (bc / fs.ssize))
    if r.2 ≠ FR_OK then ({ r.1 with wflag := 1 }, r.2)
    else
      let fs1 : FATFS := r.1
      let o := bc % fs.ssize
      let v := if clst &&& 1 ≠ 0 then ((fs1.win o &&& 0x0F) ||| ((val % 256) <<< 4)) % 256
               else val % 256
      let fs1 : FATFS := { fs1 with win := Function.update fs1.win o v, wflag := 1 }
      let bc := add32 bc 1
      let r := move_window fs1 (add32 fs.fatbase (bc / fs.ssize))
      if r.2 ≠ FR_OK then ({ r.1 with wflag := 1 }, r.2)
      else
        let fs2 : FATFS := r.1
        let o := bc % fs.ssize
        let v := if clst &&& 1 ≠ 0 then (val >>> 4) % 256
                 else (fs2.win o &&& 0xF0) ||| ((val >>> 8) % 256 &&& 0x0F)
        ({ fs2 with win := Function.update fs2.win o v, wflag := 1 }, FR_OK)
  else if fs.fs_type = FS_FAT16 then
    let r := move_window fs (add32 fs.fatbase (clst / (fs.ssize / 2)))
    if r.2 ≠ FR_OK then ({ r.1 with wflag := 1 }, r.2)
    else
      ({ r.1 with win := ST_WORD r.1.win (clst * 2 % 4294967296 % fs.ssize) (val % 65536),
                  wflag := 1 }, FR_OK)
  else if fs.fs_type = FS_FAT32 then
    let r := move_window fs (add32 fs.fatbase (clst / (fs.ssize / 4)))
    if r.2 ≠ FR_OK then ({ r.1 with wflag := 1 }, r.2)
    else
      let o := clst * 4 % 4294967296 % fs.ssize
      let val := val ||| (LD_DWORD r.1.win o &&& 0xF0000000)
      ({ r.1 with win := ST_DWORD r.1.win o val, wflag := 1 }, FR_OK)
  else ({ fs with wflag := 1 }, FR_INT_ERR)

/-- The loop `while (clst < fs->n_fatent)` of `remove_chain` (`_USE_ERASE`
off). `none` when the fuel runs out. -/
def remove_chain_loop : Nat → FATFS → Nat → Option (FATFS × FRESULT)
  | 0, _, _ => none
  | fuel + 1, fs, clst =>
    if clst < fs.n_fatent then
      let g := get_fat fs clst
      let nxt := g.2
      if nxt = 0 then some (g.1, FR_OK)
      else if nxt = 1 then some (g.1, FR_INT_ERR)
      else if nxt = 0xFFFFFFFF then some (g.1, FR_DISK_ERR)
      else
        let p := put_fat g.1 clst 0
        if p.2 ≠ FR_OK then some p
        else
          let fs1 : FATFS := if p.1.free_clust ≠ 0xFFFFFFFF then
              { p.1 with free_clust := add32 p.1.free_clust 1, fsi_flag := p.1.fsi_flag ||| 1 }
            else p.1
          remove_chain_loop fuel fs1 nxt
    else some (fs, FR_OK)

/-- Transcription of `remove_chain(fs, clst)`; the loop is given as many
rounds as the FAT has entries, plus one. -/
def remove_chain (fs : FATFS) (clst : Nat) : Option (FATFS × FRESULT) :=
  if clst < 2 ∨ clst ≥ fs.n_fatent then some (fs, FR_INT_ERR)
  else remove_chain_loop (fs.n_fatent + 1) fs clst

/-- The scan loop `for (;;)` of `create_chain`: `inl` is a `return` from
inside the loop, `inr` the free cluster found at `break`. `none` when the
fuel runs out. -/
def create_chain_scan (scl : Nat) : Nat → FATFS → Nat → Option (FATFS × (Nat ⊕ Nat))
  | 0, _, _ => none
  | fuel + 1, fs, ncl =>
    let ncl := add32 ncl 1
    if ncl ≥ fs.n_fatent ∧ 2 > scl then some (fs, .inl 0)
    else
      let ncl := if ncl ≥ fs.n_fatent then 2 else ncl
      let g := get_fat fs ncl
      let cs := g.2
      if cs = 0 then some (g.1, .inr ncl)
      else if cs = 0xFFFFFFFF ∨ cs = 1 then some (g.1, .inl cs)
      else if ncl = scl then some (g.1, .inl 0)
      else create_chain_scan scl fuel g.1 ncl

/-- Transcription of `create_chain(fs, clst)`: the volume afterwards and the
value returned. The scan is given as many rounds as the FAT has entries,
plus one. -/
def create_chain (fs : FATFS) (clst : Nat) : Option (FATFS × Nat) :=
  let start : FATFS × (Nat ⊕ Nat) :=
    if clst = 0 then
      let scl := fs.last_clust
      (fs, .inr (if scl = 0 ∨ scl ≥ fs.n_fatent then 1 else scl))
    else
      let g := get_fat fs clst
      let cs := g.2
      if cs < 2 then (g.1, .inl 1)
      else if cs = 0xFFFFFFFF then (g.1, .inl cs)
      else if cs < fs.n_fatent then (g.1, .inl cs)
      else (g.1, .inr clst)
  match start with
  | (fs0, .inl v) => some (fs0, v)
  | (fs0, .inr scl) =>
    match create_chain_scan scl (fs.n_fatent + 1) fs0 scl with
    | none => none
    | some (fs1, .inl v) => some (fs1, v)
    | some (fs1, .inr ncl) =>
      let p := put_fat fs1 ncl 0x0FFFFFFF
      let p := if p.2 = FR_OK ∧ clst ≠ 0 then put_fat p.1 clst ncl else p
      if p.2 = FR_OK then
        let fs2 : FATFS := { p.1 with last_clust := ncl }
        let fs2 : FATFS := if fs2.free_clust ≠ 0xFFFFFFFF then
            { fs2 with free_clust := sub32 fs2.free_clust 1, fsi_flag := fs2.fsi_flag ||| 1 }
          else fs2
        some (fs2, ncl)
      else some (p.1, if p.2 = FR_DISK_ERR then 0xFFFFFFFF else 1)

/-! ## Directory objects -/

/-- The directory object `FF_DIR`. `fs` is the address of the volume object
(the volume itself is passed alongside), `dir` the offset of the current
entry in `fs->win` (`none` is a null pointer), `lfn` the long-name buffer
(`none` is a null pointer). -/
structure FF_DIR where
  fs : Nat
  id : Nat
  index : Nat
  sclust : Nat
  clust : Nat
  sect : Nat
  dir : Option Nat
  fn : Nat → Nat
  lfn : Option (Nat → Nat)
  lfn_idx : Nat
  lockid : Nat
  ino : Nat

/-- The lock-table key of a directory object. -/
def FF_DIR.key (dp : FF_DIR) : LockKey := ⟨dp.fs, dp.sclust, dp.index⟩

/-- The byte `dp->dir[k]`, read through the window. -/
def dirByte (fs : FATFS) (dp : FF_DIR) (k : Nat) : Nat :=
  fs.win (dp.dir.getD 0 + k)

/-- The 32-byte entry `dp->dir` as a byte array of its own. -/
def dirEntry (fs : FATFS) (dp : FF_DIR) : Nat → Nat :=
  fun k => fs.win (dp.dir.getD 0 + k)

/-- Store a 32-byte entry at `dp->dir` in the window. -/
def putEntry (fs : FATFS) (dp : FF_DIR) (e : Nat → Nat) : FATFS :=
  { fs with win := memcpy fs.win (dp.dir.getD 0) e 0 SZ_DIR }

/-- The cluster-following loop of `dir_sdi`. `none` when the fuel runs out
(a cluster holding no entries). -/
def dir_sdi_follow (ic : Nat) : Nat → FATFS → Nat → Nat → Option (FATFS × (FRESULT ⊕ (Nat × Nat)))
  | 0, _, _, _ => none
  | fuel + 1, fs, clst, idx =>
    if idx ≥ ic then
      let g := get_fat fs clst
      let clst := g.2
      if clst = 0xFFFFFFFF then some (g.1, .inl FR_DISK_ERR)
      else if clst < 2 ∨ clst ≥ g.1.n_fatent then some (g.1, .inl FR_INT_ERR)
      else dir_sdi_follow ic fuel g.1 clst (idx - ic)
    else some (fs, .inr (clst, idx))

/-- Transcription of `dir_sdi(dp, idx)`. -/
def dir_sdi (fs : FATFS) (dp : FF_DIR) (idx : Nat) : Option (FATFS × FF_DIR × FRESULT) :=
  let dp : FF_DIR := { dp with index := idx % 65536 }
  let clst := dp.sclust
  if clst = 1 ∨ clst ≥ fs.n_fatent then some (fs, dp, FR_INT_ERR)
  else
    let clst := if clst = 0 ∧ fs.fs_type = FS_FAT32 then fs.dirbase else clst
    let fin (fs : FATFS) (clst sect idx : Nat) : FATFS × FF_DIR × FRESULT :=
      let dp : FF_DIR := { dp with clust := clst }
      if sect = 0 then (fs, dp, FR_INT_ERR)
      else (fs, { dp with sect := add32 sect (idx / (fs.ssize / SZ_DIR)),
                          dir := some (idx % (fs.ssize / SZ_DIR) * SZ_DIR) }, FR_OK)
    if clst = 0 then
      if idx ≥ fs.n_rootdir then some (fs, dp, FR_INT_ERR)
      else some (fin fs clst fs.dirbase idx)
    else
      let ic := fs.ssize / SZ_DIR * fs.csize
      match dir_sdi_follow ic (idx + 1) fs clst idx with
      | none => none
      | some (fs1, .inl e) => some (fs1, dp, e)
      | some (fs1, .inr (clst, idx)) => some (fin fs1 clst (clust2sect fs1 clst) idx)

/-- The loop of `dir_next` that fills a new cluster with zeros:
`for (c = 0; c < csize; c++) { wflag = 1; if (sync_window(fs)) return
FR_DISK_ERR; winsect++; }`. -/
def dir_next_fill : Nat → FATFS → FATFS × FRESULT
  | 0, fs => (fs, FR_OK)
  | n + 1, fs =>
    let r := sync_window { fs with wflag := 1 }
    if r.2 ≠ FR_OK then (r.1, FR_DISK_ERR)
    else dir_next_fill n { r.1 with winsect := add32 r.1.winsect 1 }

/-- Transcription of `dir_next(dp, stretch)`. -/
def dir_next (fs : FATFS) (dp : FF_DIR) (stretch : Bool) : Option (FATFS × FF_DIR × FRESULT) :=
  let i := dp.index + 1
  if i &&& 0xFFFF = 0 ∨ dp.sect = 0 then some (fs, dp, FR_NO_FILE)
  else
    let done (fs : FATFS) (dp : FF_DIR) : Option (FATFS × FF_DIR × FRESULT) :=
      some (fs, { dp with index := i % 65536,
                          dir := some (i % (fs.ssize / SZ_DIR) * SZ_DIR) }, FR_OK)
    if i % (fs.ssize / SZ_DIR) = 0 then
      let dp : FF_DIR := { dp with sect := add32 dp.sect 1 }
      if dp.clust = 0 then
        if i ≥ fs.n_rootdir then some (fs, dp, FR_NO_FILE) else done fs dp
      else if (i / (fs.ssize / SZ_DIR)) &&& (sub32 fs.csize 1) = 0 then
        let g := get_fat fs dp.clust
        let clst := g.2
        let fs := g.1
        if clst ≤ 1 then some (fs, dp, FR_INT_ERR)
        else if clst = 0xFFFFFFFF then some (fs, dp, FR_DISK_ERR)
        else if clst ≥ fs.n_fatent then
          if ¬ fs.readonly then
            if ¬ stretch then some (fs, dp, FR_NO_FILE)
            else
              match create_chain fs dp.clust with
              | none => none
              | some (fs, clst) =>
                if clst = 0 then some (fs, dp, FR_DENIED)
                else if clst = 1 then some (fs, dp, FR_INT_ERR)
                else if clst = 0xFFFFFFFF then some (fs, dp, FR_DISK_ERR)
                else
                  let r := sync_window fs
                  if r.2 ≠ FR_OK then some (r.1, dp, FR_DISK_ERR)
                  else
                    let fs : FATFS := { r.1 with win := memset r.1.win 0 0 r.1.ssize,
                                                 winsect := clust2sect r.1 clst }
                    let f := dir_next_fill fs.csize fs
                    if f.2 ≠ FR_OK then some (f.1, dp, FR_DISK_ERR)
                    else
                      let fs : FATFS := { f.1 with winsect := sub32 f.1.winsect f.1.csize }
                      done fs { dp with clust := clst, sect := clust2sect fs clst }
          else some (fs, dp, FR_NO_FILE)
        else done fs { dp with clust := clst, sect := clust2sect fs clst }
      else done fs dp
    else done fs dp

/-- The `do ... while (res == FR_OK)` loop of `dir_alloc`; `n` counts the
contiguous blank entries seen. `none` when the fuel runs out. -/
def dir_alloc_loop (nent : Nat) : Nat → FATFS → FF_DIR → Nat → Option (FATFS × FF_DIR × FRESULT)
  | 0, _, _, _ => none
  | fuel + 1, fs, dp, n =>
    let m := move_window fs dp.sect
    if m.2 ≠ FR_OK then some (m.1, dp, m.2)
    else
      let blank : Bool := dirByte m.1 dp 0 = DDE ∨ dirByte m.1 dp 0 = 0
      if blank ∧ add32 n 1 = nent then some (m.1, dp, FR_OK)
      else
        let n := if blank then add32 n 1 else 0
        match dir_next m.1 dp true with
        | none => none
        | some (fs1, dp1, r) =>
          if r = FR_OK then dir_alloc_loop nent fuel fs1 dp1 n else some (fs1, dp1, r)

/-- Transcription of `dir_alloc(dp, nent)`; the index is a 16-bit value, so
the loop gets 65536 rounds plus one. -/
def dir_alloc (fs : FATFS) (dp : FF_DIR) (nent : Nat) : Option (FATFS × FF_DIR × FRESULT) :=
  match dir_sdi fs dp 0 with
  | none => none
  | some (fs, dp, r) =>
    let fix (x : FATFS × FF_DIR × FRESULT) : FATFS × FF_DIR × FRESULT :=
      if x.2.2 = FR_NO_FILE then (x.1, x.2.1, FR_DENIED) else x
    if r = FR_OK then (dir_alloc_loop nent 65537 fs dp 0).map fix
    else some (fix (fs, dp, r))

/-- Transcription of `ld_clust(fs, dir)` on a 32-byte entry. -/
def ld_clust (fs : FATFS) (dir : Nat → Nat) : Nat :=
  let cl := LD_WORD dir DIR_FstClusLO
  if fs.fs_type = FS_FAT32 then cl ||| (LD_WORD dir DIR_FstClusHI <<< 16) else cl

/-- Transcription of `st_clust(dir, cl)`. -/
def st_clust (dir : Nat → Nat) (cl : Nat) : Nat → Nat :=
  ST_WORD (ST_WORD dir DIR_FstClusLO cl) DIR_FstClusHI (cl >>> 16)

/-- The `do ... while (++s < 13)` loop of `cmp_lfn`; `none` is the early
`return 0`. The state is the buffer index and `wc`. `ff_wtoupper` is the
wide upper-case function of the configuration. -/
def cmp_lfn_loop (ff_wtoupper : Nat → Nat) (lfnbuf dir : Nat → Nat) :
    List Nat → Nat × Nat → Option (Nat × Nat)
  | [], st => some st
  | ofs :: rest, (i, wc) =>
    let uc := LD_WORD dir ofs
    if wc ≠ 0 then
      let wc := ff_wtoupper uc
      if i ≥ _MAX_LFN ∨ wc ≠ ff_wtoupper (lfnbuf i) then none
      else cmp_lfn_loop ff_wtoupper lfnbuf dir rest (i + 1, wc)
    else
      if uc ≠ 0xFFFF then none
      else cmp_lfn_loop ff_wtoupper lfnbuf dir rest (i, wc)

/-- Transcription of `cmp_lfn(lfnbuf, dir)`: 1 matched, 0 not matched. -/
def cmp_lfn (ff_wtoupper : Nat → Nat) (lfnbuf dir : Nat → Nat) : Nat :=
  match cmp_lfn_loop ff_wtoupper lfnbuf dir LfnOfs (ordOffset (dir LDIR_Ord &&& 0xBF), 1) with
  | none => 0
  | some (i, wc) =>
    if dir LDIR_Ord &&& LLE ≠ 0 ∧ wc ≠ 0 ∧ lfnbuf i ≠ 0 then 0 else 1

/-- The library call `memcmp(a, b, n) == 0`. -/
def memeq (a b : Nat → Nat) (n : Nat) : Bool :=
  (List.range n).all fun k => a k == b k

/-- The `do ... while (res == FR_OK)` loop of `dir_find` (LFN
configuration); `ord` and `sum` are the local 8-bit variables. `none` when
the fuel runs out. -/
def dir_find_loop (ff_wtoupper : Nat → Nat) :
    Nat → FATFS → FF_DIR → Nat → Nat → Option (FATFS × FF_DIR × FRESULT)
  | 0, _, _, _, _ => none
  | fuel + 1, fs, dp, ord, sum =>
    let m := move_window fs dp.sect
    if m.2 ≠ FR_OK then some (m.1, dp, m.2)
    else
      let fs := m.1
      let dir := dirEntry fs dp
      let c := dir DIR_Name
      if c = 0 then some (fs, dp, FR_NO_FILE)
      else
        let a := dir DIR_Attr &&& AM_MASK
        let step : Option (FF_DIR × Nat × Nat) :=
          if c = DDE ∨ (a &&& AM_VOL ≠ 0 ∧ a ≠ AM_LFN) then
            some ({ dp with lfn_idx := 0xFFFF }, 0xFF, sum)
          else if a = AM_LFN then
            match dp.lfn with
            | none => some (dp, ord, sum)
            | some lfn =>
              let sum1 := if c &&& LLE ≠ 0 then dir LDIR_Chksum else sum
              let c1 := if c &&& LLE ≠ 0 then c &&& 0xBF else c
              let ord1 := if c &&& LLE ≠ 0 then c1 else ord
              let dp1 : FF_DIR := if c &&& LLE ≠ 0 then { dp with lfn_idx := dp.index } else dp
              let ord2 := if c1 = ord1 ∧ sum1 = dir LDIR_Chksum ∧ cmp_lfn ff_wtoupper lfn dir ≠ 0
                          then (ord1 + 255) % 256 else 0xFF
              some (dp1, ord2, sum1)
          else
            if ord = 0 ∧ sum = sum_sfn dir then none
            else if dp.fn NS &&& NS_LOSS = 0 ∧ memeq dir dp.fn 11 then none
            else some ({ dp with lfn_idx := 0xFFFF }, 0xFF, sum)
        match step with
        | none => some (fs, dp, FR_OK)
        | some (dp1, ord1, sum1) =>
          match dir_next fs dp1 false with
          | none => none
          | some (fs2, dp2, r) =>
            if r = FR_OK then dir_find_loop ff_wtoupper fuel fs2 dp2 ord1 sum1
            else some (fs2, dp2, r)

/-- Transcription of `dir_find(dp)`. -/
def dir_find (ff_wtoupper : Nat → Nat) (fs : FATFS) (dp : FF_DIR) :
    Option (FATFS × FF_DIR × FRESULT) :=
  match dir_sdi fs dp 0 with
  | none => none
  | some (fs, dp, r) =>
    if r ≠ FR_OK then some (fs, dp, r)
    else dir_find_loop ff_wtoupper 65537 fs { dp with lfn_idx := 0xFFFF } 0xFF 0xFF

/-- The loop `for (n = 1; n < 100; n++)` of `dir_register` that looks for a
numbered name not yet in the directory: the volume, the directory object,
the last `dir_find` result and the final `n`. -/
def dir_register_numname (ff_wtoupper : Nat → Nat) (sn : Nat → Nat) (lfn : List Nat) :
    Nat → Nat → FATFS → FF_DIR → FRESULT → Option (FATFS × FF_DIR × FRESULT × Nat)
  | 0, n, fs, dp, res => some (fs, dp, res, n)
  | fuel + 1, n, fs, dp, res =>
    if n < 100 then
      let dp : FF_DIR := { dp with fn := gen_numname dp.fn sn lfn n }
      match dir_find ff_wtoupper fs dp with
      | none => none
      | some (fs1, dp1, r) =>
        if r ≠ FR_OK then some (fs1, dp1, r, n)
        else dir_register_numname ff_wtoupper sn lfn fuel (n + 1) fs1 dp1 r
    else some (fs, dp, res, n)

/-- The loop `for (n = 0; lfn[n]; n++) ;` on a buffer holding a terminated
name of at most `_MAX_LFN` characters. -/
def lfn_len (lfn : Nat → Nat) : Nat → Nat → Nat
  | 0, n => n
  | fuel + 1, n => if lfn n ≠ 0 then lfn_len lfn fuel (n + 1) else n

/-- The long name in the buffer as a list, up to the terminator. -/
def lfn_chars (lfn : Nat → Nat) : List Nat :=
  (List.range (lfn_len lfn (_MAX_LFN + 1) 0)).map lfn

/-- The loop of `dir_register` that stores the LFN entries, bottom first:
`do { move_window; fit_lfn(..., nent, sum); wflag = 1; dir_next } while
(res == FR_OK && --nent)`. -/
def dir_register_lfn (lfn : Nat → Nat) (sum : Nat) :
    Nat → FATFS → FF_DIR → Nat → Option (FATFS × FF_DIR × FRESULT)
  | 0, _, _, _ => none
  | fuel + 1, fs, dp, nent =>
    let m := move_window fs dp.sect
    if m.2 ≠ FR_OK then some (m.1, dp, m.2)
    else
      let fs1 : FATFS := { putEntry m.1 dp (fit_lfn lfn (dirEntry m.1 dp) (nent % 256) sum)
                           with wflag := 1 }
      match dir_next fs1 dp false with
      | none => none
      | some (fs2, dp2, r) =>
        if r = FR_OK ∧ sub32 nent 1 ≠ 0 then dir_register_lfn lfn sum fuel fs2 dp2 (sub32 nent 1)
        else some (fs2, dp2, r)

/-- Transcription of `dir_register(dp)` (LFN configuration). -/
def dir_register (ff_wtoupper : Nat → Nat) (fs : FATFS) (dp : FF_DIR) :
    Option (FATFS × FF_DIR × FRESULT) :=
  let sn := dp.fn
  let lfn := dp.lfn
  let lfnb : Nat → Nat := lfn.getD (fun _ => 0)
  let numbered : Option (FATFS × FF_DIR × Option FRESULT) :=
    if sn NS &&& NS_LOSS ≠ 0 then
      let dp0 : FF_DIR := { dp with fn := Function.update dp.fn NS 0, lfn := none }
      match dir_register_numname ff_wtoupper sn (lfn_chars lfnb) 99 1 fs dp0 FR_OK with
      | none => none
      | some (fs1, dp1, r, n) =>
        if n = 100 then some (fs1, dp1, some FR_DENIED)
        else if r ≠ FR_NO_FILE then some (fs1, dp1, some r)
        else some (fs1, { dp1 with fn := Function.update dp1.fn NS (sn NS), lfn := lfn }, none)
    else some (fs, dp, none)
  match numbered with
  | none => none
  | some (fs, dp, some e) => some (fs, dp, e)
  | some (fs, dp, none) =>
    let nent := if sn NS &&& NS_LFN ≠ 0 then (lfn_len lfnb (_MAX_LFN + 1) 0 + 25) / 13 else 1
    match dir_alloc fs dp nent with
    | none => none
    | some (fs, dp, r) =>
      let nent := nent - 1
      let lfnStage : Option (FATFS × FF_DIR × FRESULT) :=
        if r = FR_OK ∧ nent ≠ 0 then
          match dir_sdi fs dp (sub32 dp.index nent) with
          | none => none
          | some (fs, dp, r) =>
            if r = FR_OK then dir_register_lfn lfnb (sum_sfn dp.fn) nent fs dp nent
            else some (fs, dp, r)
        else some (fs, dp, r)
      match lfnStage with
      | none => none
      | some (fs, dp, r) =>
        if r = FR_OK then
          let m := move_window fs dp.sect
          if m.2 = FR_OK then
            some ({ putEntry m.1 dp (sfn_entry (dirEntry m.1 dp) dp.fn) with wflag := 1 }, dp, FR_OK)
          else some (m.1, dp, m.2)
        else some (fs, dp, r)

/-- The `do ... while (res == FR_OK)` loop of `dir_remove` (LFN
configuration); `i` is the index of the short entry. -/
def dir_remove_loop (i : Nat) : Nat → FATFS → FF_DIR → Option (FATFS × FF_DIR × FRESULT)
  | 0, _, _ => none
  | fuel + 1, fs, dp =>
    let m := move_window fs dp.sect
    if m.2 ≠ FR_OK then some (m.1, dp, m.2)
    else
      let e := Function.update (memset (dirEntry m.1 dp) 0 0 SZ_DIR) 0 DDE
      let fs1 : FATFS := { putEntry m.1 dp e with wflag := 1 }
      if dp.index ≥ i then some (fs1, dp, FR_OK)
      else
        match dir_next fs1 dp false with
        | none => none
        | some (fs2, dp2, r) =>
          if r = FR_OK then dir_remove_loop i fuel fs2 dp2 else some (fs2, dp2, r)

/-- Transcription of `dir_remove(dp)` (LFN configuration). -/
def dir_remove (fs : FATFS) (dp : FF_DIR) : Option (FATFS × FF_DIR × FRESULT) :=
  let i := dp.index
  match dir_sdi fs dp (if dp.lfn_idx = 0xFFFF then i else dp.lfn_idx) with
  | none => none
  | some (fs, dp, r) =>
    if r = FR_OK then
      (dir_remove_loop i 65537 fs dp).map fun x =>
        if x.2.2 = FR_NO_FILE then (x.1, x.2.1, FR_INT_ERR) else x
    else some (fs, dp, r)

/-! ## Mounting -/

def STA_NOINIT : Nat := 0x01
def STA_PROTECT : Nat := 0x04
def _MIN_SS : Nat := 512
def _MAX_SS : Nat := 4096

def BPB_BytsPerSec : Nat := 11
def BPB_SecPerClus : Nat := 13
def BPB_RsvdSecCnt : Nat := 14
def BPB_NumFATs : Nat := 16
def BPB_RootEntCnt : Nat := 17
def BPB_TotSec16 : Nat := 19
def BPB_FATSz16 : Nat := 22
def BPB_TotSec32 : Nat := 32
def BS_FilSysType : Nat := 54
def BPB_FATSz32 : Nat := 36
def BPB_RootClus : Nat := 44
def BPB_FSInfo : Nat := 48
def BS_FilSysType32 : Nat := 82
def FSI_LeadSig : Nat := 0
def FSI_StrucSig : Nat := 484
def FSI_Free_Count : Nat := 488
def FSI_Nxt_Free : Nat := 492
def MBR_Table : Nat := 446
def SZ_PTE : Nat := 16
def BS_55AA : Nat := 510

/-- The macro `lock_fs(fs)`, i.e. `mtx_lock(&fs->sobj)`: the volume with the
hold counter raised, and whether the call failed. -/
def lock_fs (fs : FATFS) : FATFS × Bool :=
  if fs.sobj_timeout then (fs, true) else ({ fs with sobj := fs.sobj + 1 }, false)

/-- Transcription of `unlock_fs(fs, res)` for a non-null `fs`. -/
def unlock_fs (fs : FATFS) (res : FRESULT) : FATFS :=
  if res ≠ FR_NOT_ENABLED ∧ res ≠ FR_INVALID_DRIVE ∧ res ≠ FR_INVALID_OBJECT ∧ res ≠ FR_TIMEOUT
  then { fs with sobj := fs.sobj - 1 } else fs

/-- Transcription of `check_fs(fs, sect)`. -/
def check_fs (fs : FATFS) (sect : Nat) : FATFS × Nat :=
  let fs : FATFS := { fs with wflag := 0, winsect := 0xFFFFFFFF }
  let m := move_window fs sect
  if m.2 ≠ FR_OK then (m.1, 3)
  else if LD_WORD m.1.win BS_55AA ≠ 0xAA55 then (m.1, 2)
  else if LD_DWORD m.1.win BS_FilSysType &&& 0xFFFFFF = 0x544146 then (m.1, 0)
  else if LD_DWORD m.1.win BS_FilSysType32 &&& 0xFFFFFF = 0x544146 then (m.1, 0)
  else (m.1, 1)

/-- The partition loop of `find_volume`:
`do { bsect = br[i]; fmt = bsect ? check_fs(fs, bsect) : 2; }
while (!LD2PT(vol) && fmt && ++i < 4)`. -/
def find_volume_part (ld2pt : Nat) (br : Nat → Nat) : Nat → FATFS → Nat → FATFS × Nat × Nat
  | 0, fs, i => (fs, br i, 2)
  | fuel + 1, fs, i =>
    let bsect := br i
    let c := if bsect ≠ 0 then check_fs fs bsect else (fs, 2)
    if ld2pt = 0 ∧ c.2 ≠ 0 ∧ i + 1 < 4 then find_volume_part ld2pt br fuel c.1 (i + 1)
    else (c.1, bsect, c.2)

/-- The module state of the driver: the mount-id counter `Fsid` and the
lock table `Files`. -/
structure Module where
  Fsid : Nat
  Files : List FILESEM

/-- The BPB field `fasize` as first read: `BPB_FATSz16`, or `BPB_FATSz32`
when that is zero. -/
def bpb_fsize (w : Nat → Nat) : Nat :=
  if LD_WORD w BPB_FATSz16 = 0 then LD_DWORD w BPB_FATSz32 else LD_WORD w BPB_FATSz16

/-- The BPB field `tsect`: `BPB_TotSec16`, or `BPB_TotSec32` when that is
zero. -/
def bpb_tsect (w : Nat → Nat) : Nat :=
  if LD_WORD w BPB_TotSec16 = 0 then LD_DWORD w BPB_TotSec32 else LD_WORD w BPB_TotSec16

/-- The local `fasize` after `fasize *= fs->n_fats` (a `DWORD`). -/
def bpb_fasize (w : Nat → Nat) : Nat := bpb_fsize w * w BPB_NumFATs % 4294967296

/-- The local `sysect`: reserved, FAT and root-directory sectors. -/
def bpb_sysect (w : Nat → Nat) (ss : Nat) : Nat :=
  add32 (add32 (LD_WORD w BPB_RsvdSecCnt) (bpb_fasize w)) (LD_WORD w BPB_RootEntCnt / (ss / SZ_DIR))

/-- The local `nclst`: the number of clusters. -/
def bpb_nclst (w : Nat → Nat) (ss : Nat) : Nat :=
  (bpb_tsect w - bpb_sysect w ss) / w BPB_SecPerClus

/-- The local `fmt`: the FAT sub-type chosen from the cluster count. -/
def bpb_fmt (nclst : Nat) : Nat :=
  if nclst ≥ MIN_FAT32 then FS_FAT32 else if nclst ≥ MIN_FAT16 then FS_FAT16 else FS_FAT12

/-- The local `szbfat`: the FAT size needed, in bytes. -/
def bpb_szbfat (fmt n_fatent : Nat) : Nat :=
  if fmt = FS_FAT32 then n_fatent * 4 % 4294967296
  else if fmt = FS_FAT16 then n_fatent * 2 % 4294967296
  else add32 (n_fatent * 3 % 4294967296 / 2) (n_fatent &&& 1)

/-- The volume object after `fs->fsize`, `fs->n_fats` were assigned. -/
def fv_stage1 (fs : FATFS) : FATFS :=
  { fs with fsize := bpb_fsize fs.win, n_fats := fs.win BPB_NumFATs }

/-- The volume object after `fs->csize` was assigned. -/
def fv_stage2 (fs : FATFS) : FATFS :=
  { fv_stage1 fs with csize := fs.win BPB_SecPerClus }

/-- The volume object after `fs->n_rootdir` was assigned. -/
def fv_stage3 (fs : FATFS) : FATFS :=
  { fv_stage2 fs with n_rootdir := LD_WORD fs.win BPB_RootEntCnt }

/-- The volume object after the "Boundaries and Limits" assignments. -/
def fv_stage4 (fs : FATFS) (bsect : Nat) : FATFS :=
  { fv_stage3 fs with n_fatent := add32 (bpb_nclst fs.win fs.ssize) 2, volbase := bsect,
                      fatbase := add32 bsect (LD_WORD fs.win BPB_RsvdSecCnt),
                      database := add32 bsect (bpb_sysect fs.win fs.ssize) }

/-- The volume object after `fs->dirbase` was assigned. -/
def fv_stage5 (fs : FATFS) (bsect : Nat) : FATFS :=
  { fv_stage4 fs bsect with
      dirbase := if bpb_fmt (bpb_nclst fs.win fs.ssize) = FS_FAT32 then LD_DWORD fs.win BPB_RootClus
                 else add32 (add32 bsect (LD_WORD fs.win BPB_RsvdSecCnt)) (bpb_fasize fs.win) }

/-- The block `if (!fs->readonly) { ... }` of `find_volume` that initialises
the allocation hints and loads FSINFO (`_FS_NOFSINFO = 0`). -/
def fv_fsinfo (fs : FATFS) (fmt bsect : Nat) : FATFS :=
  if ¬ fs.readonly then
    let fs1 : FATFS := { fs with last_clust := 0xFFFFFFFF, free_clust := 0xFFFFFFFF, fsi_flag := 0x80 }
    if fmt = FS_FAT32 ∧ LD_WORD fs.win BPB_FSInfo = 1 ∧ (move_window fs1 (add32 bsect 1)).2 = FR_OK then
      let fs2 : FATFS := { (move_window fs1 (add32 bsect 1)).1 with fsi_flag := 0 }
      if LD_WORD fs2.win BS_55AA = 0xAA55 ∧ LD_DWORD fs2.win FSI_LeadSig = 0x41615252 ∧
         LD_DWORD fs2.win FSI_StrucSig = 0x61417272 then
        { fs2 with free_clust := LD_DWORD fs2.win FSI_Free_Count,
                   last_clust := LD_DWORD fs2.win FSI_Nxt_Free }
      else fs2
    else if fmt = FS_FAT32 ∧ LD_WORD fs.win BPB_FSInfo = 1 then (move_window fs1 (add32 bsect 1)).1
    else fs1
  else fs

/-- The volume object at the successful end of `find_volume`: allocation
hints initialised, `fs->fs_type` and `fs->id` assigned. -/
def fv_mounted (fs : FATFS) (fmt bsect fsid : Nat) : FATFS :=
  { fv_fsinfo (fv_stage5 fs bsect) fmt bsect with fs_type := fmt, id := fsid }

/-- The part of `find_volume` after a FAT boot sector was found at `bsect`
(from "An FAT volume is found" on); `fsaddr` is the address of the volume
object, used in the lock table. The window `fs.win` holds the boot sector. -/
def find_volume_init (md : Module) (fsaddr : Nat) (fs : FATFS) (bsect : Nat) :
    Module × FATFS × FRESULT :=
  let w := fs.win
  let nclst := bpb_nclst w fs.ssize
  let fmt := bpb_fmt nclst
  if LD_WORD w BPB_BytsPerSec ≠ fs.ssize then (md, fs, FR_NO_FILESYSTEM)
  else if w BPB_NumFATs ≠ 1 ∧ w BPB_NumFATs ≠ 2 then (md, fv_stage1 fs, FR_NO_FILESYSTEM)
  else if w BPB_SecPerClus = 0 ∨ w BPB_SecPerClus &&& (w BPB_SecPerClus - 1) ≠ 0 then
    (md, fv_stage2 fs, FR_NO_FILESYSTEM)
  else if LD_WORD w BPB_RootEntCnt % (fs.ssize / SZ_DIR) ≠ 0 then (md, fv_stage3 fs, FR_NO_FILESYSTEM)
  else if LD_WORD w BPB_RsvdSecCnt = 0 then (md, fv_stage3 fs, FR_NO_FILESYSTEM)
  else if bpb_tsect w < bpb_sysect w fs.ssize then (md, fv_stage3 fs, FR_NO_FILESYSTEM)
  else if nclst = 0 then (md, fv_stage3 fs, FR_NO_FILESYSTEM)
  else if fmt = FS_FAT32 ∧ LD_WORD w BPB_RootEntCnt ≠ 0 then (md, fv_stage4 fs bsect, FR_NO_FILESYSTEM)
  else if fmt ≠ FS_FAT32 ∧ LD_WORD w BPB_RootEntCnt = 0 then (md, fv_stage4 fs bsect, FR_NO_FILESYSTEM)
  else if bpb_fsize w < add32 (bpb_szbfat fmt (add32 nclst 2)) (fs.ssize - 1) / fs.ssize then
    (md, fv_stage5 fs bsect, FR_NO_FILESYSTEM)
  else
    let fsid := (md.Fsid + 1) % 65536
    ({ Fsid := fsid, Files := clear_lock md.Files fsaddr }, fv_mounted fs fmt bsect fsid, FR_OK)

/-- The probe of `find_volume` for a FAT boot sector: sector 0 as SFD, then
the partitions of the MBR. Returns the volume, `bsect` and `fmt`. -/
def find_volume_probe (ld2pt : Nat) (fs : FATFS) : FATFS × Nat × Nat :=
  let c := check_fs fs 0
  if c.2 = 1 ∨ (c.2 = 0 ∧ ld2pt ≠ 0) then
    let br : Nat → Nat := fun i =>
      if c.1.win (MBR_Table + i * SZ_PTE + 4) ≠ 0
      then LD_DWORD c.1.win (MBR_Table + i * SZ_PTE + 8) else 0
    find_volume_part ld2pt br 4 c.1 (if ld2pt ≠ 0 then ld2pt - 1 else ld2pt)
  else (c.1, 0, c.2)

/-- The part of `find_volume` that mounts the volume, from
`fs->fs_type = 0` on. -/
def find_volume_mount (ld2pt : Nat) (md : Module) (fsaddr : Nat) (fs : FATFS) (wmode : Nat) :
    Module × FATFS × FRESULT :=
  let fs0 : FATFS := { fs with fs_type := 0 }
  if fs0.disk.init_stat &&& STA_NOINIT ≠ 0 then (md, fs0, FR_NOT_READY)
  else if ¬ fs0.readonly ∧ wmode ≠ 0 ∧ fs0.disk.init_stat &&& STA_PROTECT ≠ 0 then
    (md, fs0, FR_WRITE_PROTECTED)
  else
    match fs0.disk.blksize with
    | none => (md, fs0, FR_DISK_ERR)
    | some ss =>
      if ss < _MIN_SS ∨ ss > _MAX_SS then (md, { fs0 with ssize := ss }, FR_DISK_ERR)
      else if (find_volume_probe ld2pt { fs0 with ssize := ss }).2.2 = 3 then
        (md, (find_volume_probe ld2pt { fs0 with ssize := ss }).1, FR_DISK_ERR)
      else if (find_volume_probe ld2pt { fs0 with ssize := ss }).2.2 ≠ 0 then
        (md, (find_volume_probe ld2pt { fs0 with ssize := ss }).1, FR_NO_FILESYSTEM)
      else find_volume_init md fsaddr (find_volume_probe ld2pt { fs0 with ssize := ss }).1
             (find_volume_probe ld2pt { fs0 with ssize := ss }).2.1

/-- Transcription of `find_volume(fs, vol, wmode)` for a non-null `fs`;
`ld2pt` is the value of the configuration macro `LD2PT(vol)`. -/
def find_volume (ld2pt : Nat) (md : Module) (fsaddr : Nat) (fs : FATFS) (vol : Int) (wmode : Nat) :
    Module × FATFS × FRESULT :=
  if vol < 0 then (md, fs, FR_INVALID_DRIVE)
  else if (lock_fs fs).2 then (md, (lock_fs fs).1, FR_TIMEOUT)
  else if (lock_fs fs).1.fs_type ≠ 0 ∧ (lock_fs fs).1.disk.stat &&& STA_NOINIT = 0 then
    if ¬ (lock_fs fs).1.readonly ∧ wmode &&& FA_READ ≠ 0 ∧ (lock_fs fs).1.disk.stat &&& STA_PROTECT ≠ 0
    then (md, (lock_fs fs).1, FR_WRITE_PROTECTED) else (md, (lock_fs fs).1, FR_OK)
  else find_volume_mount ld2pt md fsaddr (lock_fs fs).1 wmode

/-! ## Path following -/

/-- The configuration the driver is built with, and the helper functions it
links against (none of them is part of the sources at hand): the code-page
conversion `ff_convert`, the wide upper-case function `ff_wtoupper`, the
table `ExCvt`, `_VOLUMES`, the macro `LD2PT`, the clock `get_fattime`, and
whether `kmalloc` of the name buffer fails. -/
structure Config where
  ff_convert : Nat → Nat → Nat
  ff_wtoupper : Nat → Nat
  ExCvt : Nat → Nat
  volumes : Nat
  ld2pt : Nat
  fattime : Nat
  nomem : Bool

/-- The loop of `get_ldnumber` that looks for a `:`; the characters before
it, and whether one was found (LFN configuration: stops below `' '`). -/
def get_ldnumber_scan : List Nat → Nat → Nat × Bool
  | [], n => (n, false)
  | c :: rest, n =>
    if c ≥ 0x20 ∧ c ≠ 0x3A then get_ldnumber_scan rest (n + 1) else (n, c = 0x3A)

/-- Transcription of `get_ldnumber(&path)` for a non-null path: the drive
number (-1 invalid) and the path afterwards. -/
def get_ldnumber (volumes : Nat) (path : List Nat) : Int × List Nat :=
  let r := get_ldnumber_scan path 0
  if r.2 then
    let i := sub32 (path.getD 0 0) 0x30
    if i < 10 ∧ r.1 = 1 ∧ i < volumes then ((i : Int), path.drop 2) else (-1, path)
  else (0, path)

/-- The segment loop of `follow_path`. `none` when the fuel runs out. -/
def follow_path_loop (cfg : Config) :
    Nat → FATFS → FF_DIR → List Nat → Option (FATFS × FF_DIR × FRESULT)
  | 0, _, _, _ => none
  | fuel + 1, fs, dp, path =>
    match create_name cfg.ff_convert cfg.ExCvt (dp.lfn.getD (fun _ => 0)) dp.fn path with
    | none => none
    | some (r, nm) =>
      let dp : FF_DIR := { dp with fn := nm.fn, lfn := dp.lfn.map fun _ => nm.lfn }
      if r ≠ FR_OK then some (fs, dp, r)
      else
        match dir_find cfg.ff_wtoupper fs dp with
        | none => none
        | some (fs, dp, r) =>
          let ns := dp.fn NS
          if r ≠ FR_OK then
            some (fs, dp, if r = FR_NO_FILE ∧ ns &&& NS_LAST = 0 then FR_NO_PATH else r)
          else if ns &&& NS_LAST ≠ 0 then some (fs, dp, FR_OK)
          else if dirByte fs dp DIR_Attr &&& AM_DIR = 0 then some (fs, dp, FR_NO_PATH)
          else
            follow_path_loop cfg fuel fs { dp with sclust := ld_clust fs (dirEntry fs dp) }
              (path.drop nm.consumed)

/-- Transcription of `follow_path(dp, path)`. -/
def follow_path (cfg : Config) (fs : FATFS) (dp : FF_DIR) (path : List Nat) :
    Option (FATFS × FF_DIR × FRESULT) :=
  let path := if path.getD 0 0 = 0x2F ∨ path.getD 0 0 = 0x5C then path.drop 1 else path
  let dp : FF_DIR := { dp with sclust := 0 }
  if path.getD 0 0 < 0x20 then
    (dir_sdi fs dp 0).map fun x => (x.1, { x.2.1 with dir := none }, x.2.2)
  else follow_path_loop cfg (path.length + 1) fs dp path

/-- Transcription of `sync_fs(fs)`. -/
def sync_fs (fs : FATFS) : FATFS × FRESULT :=
  let r := sync_window fs
  if r.2 = FR_OK then
    let fs := r.1
    let fs : FATFS :=
      if fs.fs_type = FS_FAT32 ∧ fs.fsi_flag = 1 then
        let w := memset fs.win 0 0 fs.ssize
        let w := ST_WORD w BS_55AA 0xAA55
        let w := ST_DWORD w FSI_LeadSig 0x41615252
        let w := ST_DWORD w FSI_StrucSig 0x61417272
        let w := ST_DWORD w FSI_Free_Count fs.free_clust
        let w := ST_DWORD w FSI_Nxt_Free fs.last_clust
        let sect := add32 fs.volbase 1
        let d := match disk_write fs.disk w sect with
          | some d => d
          | none => fs.disk
        { fs with win := w, winsect := sect, disk := d, fsi_flag := 0 }
      else fs
    (fs, if fs.disk.syncfail then FR_DISK_ERR else FR_OK)
  else r

/-! ## File objects -/

/-- The file object `FF_FIL` (`_USE_FASTSEEK` off). `fs` is the address of
the volume object (0 is `NULL`), `dir_ptr` the offset of the directory entry
in the window. -/
structure FF_FIL where
  fs : Nat
  id : Nat
  flag : Nat
  err : Nat
  fptr : Nat
  fsize : Nat
  sclust : Nat
  clust : Nat
  dsect : Nat
  dir_sect : Nat
  dir_ptr : Option Nat
  lockid : Nat
  ino : Nat
  buf : Nat → Nat

/-- Transcription of `validate(obj)` for a file object whose `fs` field, if
not null, points to the volume `fs`. -/
def validate (fs : FATFS) (fp : FF_FIL) : FATFS × FRESULT :=
  if fp.fs = 0 ∨ fs.fs_type = 0 ∨ fs.id ≠ fp.id ∨ fs.disk.stat &&& STA_NOINIT ≠ 0
  then (fs, FR_INVALID_OBJECT)
  else
    let l := lock_fs fs
    if l.2 then (l.1, FR_TIMEOUT) else (l.1, FR_OK)

/-- The macro `LEAVE_FF(fp->fs, res)`: `unlock_fs` tests the pointer. -/
def leave_ff (fs : FATFS) (fp : FF_FIL) (res : FRESULT) : FATFS :=
  if fp.fs ≠ 0 then unlock_fs fs res else fs

/-- Read of `cc` consecutive sectors: `fatfs_disk_read(drv, buf, sect,
cc * SS)`. -/
def disk_read_n (d : Disk) (ss sect cc : Nat) : Option (Nat → Nat) :=
  if (List.range cc).any (fun k => d.rfail (add32 sect k)) then none
  else some fun j => d.data (add32 sect (j / ss)) (j % ss)

/-- Write of `cc` consecutive sectors from `buf + off`. -/
def disk_write_n (d : Disk) (ss : Nat) (buf : Nat → Nat) (off sect cc : Nat) : Option Disk :=
  if (List.range cc).any (fun k => d.wfail (add32 sect k)) then none
  else
    let data : Nat → Nat → Nat := fun s j =>
      if sub32 s sect < cc then buf (off + sub32 s sect * ss + j) else d.data s j
    some { d with data := data }

/-- Loop state of `f_read` and `f_write`: the volume, the file object, the
caller's buffer, the offset of `rbuff`/`wbuff` in it, the byte counter and
the bytes still to transfer. -/
structure RWState where
  fs : FATFS
  fp : FF_FIL
  buff : Nat → Nat
  off : Nat
  cnt : Nat
  todo : Nat

/-- The macro `ABORT(fs, res)` inside a transfer loop. -/
def rw_abort (st : RWState) (res : FRESULT) : RWState × FRESULT :=
  let fp : FF_FIL := { st.fp with err := res.toNat }
  ({ st with fp := fp, fs := leave_ff st.fs fp res }, res)

/-- The loop advance `buff += n, fp->fptr += n, *cnt += n, todo -= n`. -/
def rw_advance (st : RWState) (n : Nat) : RWState :=
  { st with off := st.off + n, fp := { st.fp with fptr := add32 st.fp.fptr n },
            cnt := add32 st.cnt n, todo := sub32 st.todo n }

/-- The loop of `f_read`. `inl` is a return through `ABORT`, `inr` the state
at loop exit. `none` when the fuel runs out. -/
def f_read_loop : Nat → RWState → Option ((RWState × FRESULT) ⊕ RWState)
  | 0, _ => none
  | fuel + 1, st =>
    if st.todo = 0 then some (.inr st)
    else
      let ss := st.fs.ssize
      let partial_ (st : RWState) : Option ((RWState × FRESULT) ⊕ RWState) :=
        let rcnt := ss - st.fp.fptr % ss
        let rcnt := if rcnt > st.todo then st.todo else rcnt
        f_read_loop fuel
          (rw_advance { st with buff := memcpy st.buff st.off st.fp.buf (st.fp.fptr % ss) rcnt } rcnt)
      if st.fp.fptr % ss = 0 then
        let csect := (st.fp.fptr / ss &&& sub32 st.fs.csize 1) % 256
        let pick : RWState × Option FRESULT :=
          if csect = 0 then
            let g := if st.fp.fptr = 0 then (st.fs, st.fp.sclust) else get_fat st.fs st.fp.clust
            let st : RWState := { st with fs := g.1 }
            if g.2 < 2 then (st, some FR_INT_ERR)
            else if g.2 = 0xFFFFFFFF then (st, some FR_DISK_ERR)
            else ({ st with fp := { st.fp with clust := g.2 } }, none)
          else (st, none)
        match pick with
        | (st, some e) => some (.inl (rw_abort st e))
        | (st, none) =>
          let fs := st.fs
          let fp := st.fp
          let sect := clust2sect fs fp.clust
          if sect = 0 then some (.inl (rw_abort st FR_INT_ERR))
          else
            let sect := add32 sect csect
            let cc := st.todo / ss
            if cc ≠ 0 then
              let cc := if csect + cc > fs.csize then fs.csize - csect else cc
              match disk_read_n fs.disk ss sect cc with
              | none => some (.inl (rw_abort st FR_DISK_ERR))
              | some data =>
                let buff := memcpy st.buff st.off data 0 (cc * ss)
                let buff := if ¬ fs.readonly ∧ fp.flag &&& FA__DIRTY ≠ 0 ∧ sub32 fp.dsect sect < cc
                  then memcpy buff (st.off + sub32 fp.dsect sect * ss) fp.buf 0 ss else buff
                f_read_loop fuel (rw_advance { st with buff := buff } (ss * cc))
            else
              let load : (FATFS × FF_FIL) ⊕ (FATFS × FF_FIL) :=
                if fp.dsect ≠ sect then
                  let wb : Option (FATFS × FF_FIL) :=
                    if ¬ fs.readonly ∧ fp.flag &&& FA__DIRTY ≠ 0 then
                      match disk_write fs.disk fp.buf fp.dsect with
                      | none => none
                      | some d => some ({ fs with disk := d },
                                        { fp with flag := fp.flag &&& (255 - FA__DIRTY) })
                    else some (fs, fp)
                  match wb with
                  | none => .inl (fs, fp)
                  | some (fs, fp) =>
                    match disk_read fs.disk sect with
                    | none => .inl (fs, fp)
                    | some b => .inr (fs, { fp with buf := b })
                else .inr (fs, fp)
              match load with
              | .inl (fs, fp) => some (.inl (rw_abort { st with fs := fs, fp := fp } FR_DISK_ERR))
              | .inr (fs, fp) => partial_ { st with fs := fs, fp := { fp with dsect := sect } }
      else partial_ st

/-- Transcription of `f_read(fp, buff, btr, br)`: the volume, the file
object, the caller's buffer, `*br` and the result. -/
def f_read (fs : FATFS) (fp : FF_FIL) (buff : Nat → Nat) (btr : Nat) :
    Option (FATFS × FF_FIL × (Nat → Nat) × Nat × FRESULT) :=
  let v := validate fs fp
  if v.2 ≠ FR_OK then some (leave_ff v.1 fp v.2, fp, buff, 0, v.2)
  else if fp.err ≠ 0 then
    some (leave_ff v.1 fp (FRESULT.ofByte fp.err), fp, buff, 0, FRESULT.ofByte fp.err)
  else if fp.flag &&& FA_READ = 0 then some (leave_ff v.1 fp FR_DENIED, fp, buff, 0, FR_DENIED)
  else
    let remain := sub32 fp.fsize fp.fptr
    let btr := if btr > remain then remain else btr
    match f_read_loop (btr + 1) ⟨v.1, fp, buff, 0, 0, btr⟩ with
    | none => none
    | some (.inl (st, e)) => some (st.fs, st.fp, st.buff, st.cnt, e)
    | some (.inr st) => some (leave_ff st.fs st.fp FR_OK, st.fp, st.buff, st.cnt, FR_OK)

/-- The loop of `f_write`. `inl` is a return through `ABORT`, `inr` the
state at loop exit (also on `break` when no cluster could be allocated).
`none` when the fuel runs out. -/
def f_write_loop : Nat → RWState → Option ((RWState × FRESULT) ⊕ RWState)
  | 0, _ => none
  | fuel + 1, st =>
    if st.todo = 0 then some (.inr st)
    else
      let ss := st.fs.ssize
      let partial_ (st : RWState) : Option ((RWState × FRESULT) ⊕ RWState) :=
        let wcnt := ss - st.fp.fptr % ss
        let wcnt := if wcnt > st.todo then st.todo else wcnt
        let fp : FF_FIL := { st.fp with buf := memcpy st.fp.buf (st.fp.fptr % ss) st.buff st.off wcnt,
                                        flag := st.fp.flag ||| FA__DIRTY }
        f_write_loop fuel (rw_advance { st with fp := fp } wcnt)
      if st.fp.fptr % ss = 0 then
        let csect := (st.fp.fptr / ss &&& sub32 st.fs.csize 1) % 256
        -- cluster boundary: follow or stretch the chain
        let pick : Option (RWState × Option (Option FRESULT)) :=
          if csect = 0 then
            let g : Option (FATFS × Nat) :=
              if st.fp.fptr = 0 then
                if st.fp.sclust = 0 then create_chain st.fs 0 else some (st.fs, st.fp.sclust)
              else create_chain st.fs st.fp.clust
            match g with
            | none => none
            | some (fs, clst) =>
              let st : RWState := { st with fs := fs }
              if clst = 0 then some (st, some none)
              else if clst = 1 then some (st, some (some FR_INT_ERR))
              else if clst = 0xFFFFFFFF then some (st, some (some FR_DISK_ERR))
              else
                let fp : FF_FIL := { st.fp with clust := clst }
                let fp : FF_FIL := if fp.sclust = 0 then { fp with sclust := clst } else fp
                some ({ st with fp := fp }, none)
          else some (st, none)
        match pick with
        | none => none
        | some (st, some none) => some (.inr st)
        | some (st, some (some e)) => some (.inl (rw_abort st e))
        | some (st, none) =>
          -- write back the sector cache
          let wb : Option RWState :=
            if st.fp.flag &&& FA__DIRTY ≠ 0 then
              match disk_write st.fs.disk st.fp.buf st.fp.dsect with
              | none => none
              | some d => some { st with fs := { st.fs with disk := d },
                                         fp := { st.fp with flag := st.fp.flag &&& (255 - FA__DIRTY) } }
            else some st
          match wb with
          | none => some (.inl (rw_abort st FR_DISK_ERR))
          | some st =>
            let fs := st.fs
            let fp := st.fp
            let sect := clust2sect fs fp.clust
            if sect = 0 then some (.inl (rw_abort st FR_INT_ERR))
            else
              let sect := add32 sect csect
              let cc := st.todo / ss
              if cc ≠ 0 then
                let cc := if csect + cc > fs.csize then fs.csize - csect else cc
                match disk_write_n fs.disk ss st.buff st.off sect cc with
                | none => some (.inl (rw_abort st FR_DISK_ERR))
                | some d =>
                  let fp : FF_FIL :=
                    if sub32 fp.dsect sect < cc then
                      { fp with buf := memcpy fp.buf 0 st.buff (st.off + sub32 fp.dsect sect * ss) ss,
                                flag := fp.flag &&& (255 - FA__DIRTY) }
                    else fp
                  f_write_loop fuel (rw_advance { st with fs := { fs with disk := d }, fp := fp } (ss * cc))
              else
                let load : Option FF_FIL :=
                  if fp.dsect ≠ sect ∧ fp.fptr < fp.fsize then
                    match disk_read fs.disk sect with
                    | none => none
                    | some b => some { fp with buf := b }
                  else some fp
                match load with
                | none => some (.inl (rw_abort st FR_DISK_ERR))
                | some fp => partial_ { st with fp := { fp with dsect := sect } }
      else partial_ st

/-- Transcription of `f_write(fp, buff, btw, bw)`: the volume, the file
object, `*bw` and the result. -/
def f_write (fs : FATFS) (fp : FF_FIL) (buff : Nat → Nat) (btw : Nat) :
    Option (FATFS × FF_FIL × Nat × FRESULT) :=
  let v := validate fs fp
  if v.2 ≠ FR_OK then some (leave_ff v.1 fp v.2, fp, 0, v.2)
  else if fp.err ≠ 0 then
    some (leave_ff v.1 fp (FRESULT.ofByte fp.err), fp, 0, FRESULT.ofByte fp.err)
  else if fp.flag &&& FA_WRITE = 0 then some (leave_ff v.1 fp FR_DENIED, fp, 0, FR_DENIED)
  else
    let btw := if add32 fp.fptr btw < fp.fptr then 0 else btw
    match f_write_loop (btw + 1) ⟨v.1, fp, buff, 0, 0, btw⟩ with
    | none => none
    | some (.inl (st, e)) => some (st.fs, st.fp, st.cnt, e)
    | some (.inr st) =>
      let fp : FF_FIL := if st.fp.fptr > st.fp.fsize then { st.fp with fsize := st.fp.fptr } else st.fp
      let fp : FF_FIL := { fp with flag := fp.flag ||| FA__WRITTEN }
      some (leave_ff st.fs fp FR_OK, fp, st.cnt, FR_OK)

/-- The write-back of the sector cache of a file object when it is dirty:
`if (fp->flag & FA__DIRTY) { if (fatfs_disk_write(...)) <error>;
fp->flag &= ~FA__DIRTY; }`. `none` is the device error. -/
def fil_writeback (fs : FATFS) (fp : FF_FIL) : Option (FATFS × FF_FIL) :=
  if fp.flag &&& FA__DIRTY ≠ 0 then
    match disk_write fs.disk fp.buf fp.dsect with
    | none => none
    | some d => some ({ fs with disk := d }, { fp with flag := fp.flag &&& (255 - FA__DIRTY) })
  else some (fs, fp)

/-- The directory entry as `f_sync` rewrites it: archive bit, size, start
cluster, write time, cleared access date. -/
def f_sync_entry (tm : Nat) (fp : FF_FIL) (dir : Nat → Nat) : Nat → Nat :=
  ST_WORD (ST_DWORD (st_clust (ST_DWORD (Function.update dir DIR_Attr (dir DIR_Attr ||| AM_ARC))
    DIR_FileSize fp.fsize) fp.sclust) DIR_WrtTime tm) DIR_LstAccDate 0

/-- The part of `f_sync` that updates the directory entry and syncs the
volume, after the sector cache was written back. -/
def f_sync_dir (tm : Nat) (fs : FATFS) (fp : FF_FIL) : FATFS × FF_FIL × FRESULT :=
  if (move_window fs fp.dir_sect).2 ≠ FR_OK then
    (leave_ff (move_window fs fp.dir_sect).1 fp (move_window fs fp.dir_sect).2, fp,
     (move_window fs fp.dir_sect).2)
  else
    let m := (move_window fs fp.dir_sect).1
    let o := fp.dir_ptr.getD 0
    let fp1 : FF_FIL := { fp with flag := fp.flag &&& (255 - FA__WRITTEN) }
    let r := sync_fs { m with win := memcpy m.win o (f_sync_entry tm fp fun k => m.win (o + k)) 0 SZ_DIR,
                              wflag := 1 }
    (leave_ff r.1 fp1 r.2, fp1, r.2)

/-- Transcription of `f_sync(fp)`; `tm` is the value of `get_fattime()`. -/
def f_sync (tm : Nat) (fs : FATFS) (fp : FF_FIL) : FATFS × FF_FIL × FRESULT :=
  if (validate fs fp).2 ≠ FR_OK then (leave_ff (validate fs fp).1 fp (validate fs fp).2, fp, (validate fs fp).2)
  else if fp.flag &&& FA__WRITTEN ≠ 0 then
    match fil_writeback (validate fs fp).1 fp with
    | none => (leave_ff (validate fs fp).1 fp FR_DISK_ERR, fp, FR_DISK_ERR)
    | some (fs1, fp1) => f_sync_dir tm fs1 fp1
  else (leave_ff (validate fs fp).1 fp FR_OK, fp, FR_OK)

/-- Transcription of `f_close(fp)`: the lock table, the volume, the file
object and the result. -/
def f_close (tm : Nat) (Files : List FILESEM) (fs : FATFS) (fp : FF_FIL) :
    List FILESEM × FATFS × FF_FIL × FRESULT :=
  let v := validate fs fp
  if v.2 ≠ FR_OK then (Files, v.1, fp, v.2)
  else
    let s : FATFS × FF_FIL × FRESULT := if ¬ v.1.readonly then f_sync tm v.1 fp else (v.1, fp, FR_OK)
    if s.2.2 ≠ FR_OK then (Files, s.1, s.2.1, s.2.2)
    else
      let d := dec_lock Files s.2.1.lockid
      let fp : FF_FIL := if d.2 = FR_OK then { s.2.1 with fs := 0 } else s.2.1
      (d.1, unlock_fs s.1 FR_OK, fp, d.2)

/-- What `f_open` leaves behind: the module state, the volume, the file
object and the result; `nullread` tells that the function read a byte of a
directory entry through a null `dir` pointer (the other fields then show the
state at that point). -/
structure OpenResult where
  md : Module
  fs : FATFS
  fp : FF_FIL
  res : FRESULT
  nullread : Bool

/-- A blank directory object for the volume at address `fsaddr`, with the
name buffers installed by `INIT_BUF`. -/
def FF_DIR.init (fsaddr : Nat) : FF_DIR :=
  ⟨fsaddr, 0, 0, 0, 0, 0, none, fun _ => 0, some fun _ => 0, 0, 0, 0⟩

/-- The macro `GET_INO(dp)`. -/
def GET_INO (fs : FATFS) (dp : FF_DIR) : Nat :=
  add32 dp.index (ld_clust fs (dirEntry fs dp))

/-- Transcription of `f_open(fp, fs, path, mode)` for non-null `fp` and
`fs`; `fsaddr` is the address of the volume object. `none` when a loop ran
out of fuel. -/
def f_open (cfg : Config) (md : Module) (fsaddr : Nat) (fs : FATFS) (fp : FF_FIL)
    (path : List Nat) (mode : Nat) : Option OpenResult :=
  let fp : FF_FIL := { fp with fs := 0 }
  let mode := mode &&& (FA_READ ||| FA_WRITE ||| FA_CREATE_ALWAYS ||| FA_OPEN_ALWAYS ||| FA_CREATE_NEW)
  let ld := get_ldnumber cfg.volumes path
  let path := ld.2
  let v := find_volume cfg.ld2pt md fsaddr fs ld.1 mode
  let md := v.1
  let fs := v.2.1
  if v.2.2 ≠ FR_OK then some ⟨md, unlock_fs fs v.2.2, fp, v.2.2, false⟩
  else if cfg.nomem then some ⟨md, unlock_fs fs FR_NOT_ENOUGH_CORE, fp, FR_NOT_ENOUGH_CORE, false⟩
  else
    match follow_path cfg fs (FF_DIR.init fsaddr) path with
    | none => none
    | some (fs, dj, res) =>
      let acc (mode : Nat) : Nat := if mode &&& (255 - FA_READ) ≠ 0 then 1 else 0
      let res := if mode &&& FA_WRITE ≠ 0 ∧ res = FR_OK then
          (if dj.dir = none then FR_INVALID_NAME else chk_lock md.Files dj.key (acc mode))
        else res
      -- create or open
      let stage : Option (FATFS × FF_DIR × FRESULT × Nat × Bool) :=
        if mode &&& (FA_CREATE_ALWAYS ||| FA_OPEN_ALWAYS ||| FA_CREATE_NEW) ≠ 0 then
          let pre : Option (FATFS × FF_DIR × FRESULT × Nat × Bool) :=
            if res ≠ FR_OK then
              let reg : Option (FATFS × FF_DIR × FRESULT) :=
                if res = FR_NO_FILE then
                  if enq_lock md.Files then dir_register cfg.ff_wtoupper fs dj
                  else some (fs, dj, FR_TOO_MANY_OPEN_FILES)
                else some (fs, dj, res)
              reg.map fun x => (x.1, x.2.1, x.2.2, mode ||| FA_CREATE_ALWAYS, false)
            else if dj.dir = none then some (fs, dj, res, mode, true)
            else if dirByte fs dj DIR_Attr &&& (AM_RDO ||| AM_DIR) ≠ 0 then
              some (fs, dj, FR_DENIED, mode, false)
            else if mode &&& FA_CREATE_NEW ≠ 0 then some (fs, dj, FR_EXIST, mode, false)
            else some (fs, dj, res, mode, false)
          match pre with
          | none => none
          | some (fs, dj, res, mode, nr) =>
            if nr then some (fs, dj, res, mode, true)
            else if res = FR_OK ∧ mode &&& FA_CREATE_ALWAYS ≠ 0 then
              if dj.dir = none then some (fs, dj, res, mode, true)
              else
                let dir := dirEntry fs dj
                let dir := ST_DWORD dir DIR_CrtTime cfg.fattime
                let dir := Function.update dir DIR_Attr 0
                let dir := ST_DWORD dir DIR_FileSize 0
                let cl := ld_clust fs dir
                let dir := st_clust dir 0
                let fs : FATFS := { putEntry fs dj dir with wflag := 1 }
                if cl ≠ 0 then
                  let dw := fs.winsect
                  match remove_chain fs cl with
                  | none => none
                  | some (fs, r) =>
                    if r = FR_OK then
                      let m := move_window { fs with last_clust := sub32 cl 1 } dw
                      some (m.1, dj, m.2, mode, false)
                    else some (fs, dj, r, mode, false)
                else some (fs, dj, res, mode, false)
            else some (fs, dj, res, mode, false)
        else
          if res = FR_OK then
            if dj.dir = none then some (fs, dj, res, mode, true)
            else if dirByte fs dj DIR_Attr &&& AM_DIR ≠ 0 then some (fs, dj, FR_NO_FILE, mode, false)
            else if mode &&& FA_WRITE ≠ 0 ∧ dirByte fs dj DIR_Attr &&& AM_RDO ≠ 0 then
              some (fs, dj, FR_DENIED, mode, false)
            else some (fs, dj, res, mode, false)
          else some (fs, dj, res, mode, false)
      match stage with
      | none => none
      | some (fs, _, res, _, true) => some ⟨md, fs, fp, res, true⟩
      | some (fs, dj, res, mode, false) =>
        let mode := if res = FR_OK ∧ mode &&& FA_CREATE_ALWAYS ≠ 0 then mode ||| FA__WRITTEN else mode
        let l := if res = FR_OK then inc_lock md.Files dj.key (acc mode) else (md.Files, fp.lockid)
        let fp : FF_FIL := if res = FR_OK then
            { fp with dir_sect := fs.winsect, dir_ptr := dj.dir, lockid := l.2 } else fp
        let md : Module := { md with Files := l.1 }
        let res := if res = FR_OK ∧ l.2 = 0 then FR_INT_ERR else res
        let res := if mode &&& FA_READ ≠ 0 ∧ res = FR_OK then
            (if dj.dir = none then FR_INVALID_NAME
             else if dirByte fs dj DIR_Attr &&& AM_DIR ≠ 0 then FR_NO_FILE else res)
          else res
        if res = FR_OK then
          if dj.dir = none then some ⟨md, fs, fp, res, true⟩
          else
            let fp : FF_FIL := { fp with flag := mode, err := 0, ino := GET_INO fs dj,
                                         sclust := ld_clust fs (dirEntry fs dj),
                                         fsize := LD_DWORD (dirEntry fs dj) DIR_FileSize,
                                         fptr := 0, dsect := 0, fs := fsaddr, id := fs.id }
            some ⟨md, unlock_fs fs res, fp, res, false⟩
        else some ⟨md, unlock_fs fs res, fp, res, false⟩

/-- The cluster-following loop of `f_lseek` (`while (ofs > bcs)`): `inl` is
an `ABORT`, `inr` carries the cluster and the remaining offset;
`none` when the fuel runs out. -/
def f_lseek_follow (bcs : Nat) :
    Nat → FATFS → FF_FIL → Nat → Nat → Option (FATFS × FF_FIL × (FRESULT ⊕ (Nat × Nat)))
  | 0, _, _, _, _ => none
  | fuel + 1, fs, fp, clst, ofs =>
    if ofs > bcs then
      let g : Option (FATFS × Nat) :=
        if ¬ fs.readonly ∧ fp.flag &&& FA_WRITE ≠ 0 then create_chain fs clst
        else some (get_fat fs clst)
      match g with
      | none => none
      | some (fs, c) =>
        if (¬ fs.readonly ∧ fp.flag &&& FA_WRITE ≠ 0) ∧ c = 0 then some (fs, fp, .inr (c, bcs))
        else if c = 0xFFFFFFFF then some (fs, fp, .inl FR_DISK_ERR)
        else if c ≤ 1 ∨ c ≥ fs.n_fatent then some (fs, fp, .inl FR_INT_ERR)
        else f_lseek_follow bcs fuel fs { fp with clust := c, fptr := add32 fp.fptr bcs } c (ofs - bcs)
    else some (fs, fp, .inr (clst, ofs))

/-- Transcription of `f_lseek(fp, ofs)` (normal seek). -/
def f_lseek (fs : FATFS) (fp : FF_FIL) (ofs : Nat) : Option (FATFS × FF_FIL × FRESULT) :=
  let v := validate fs fp
  if v.2 ≠ FR_OK then some (leave_ff v.1 fp v.2, fp, v.2)
  else if fp.err ≠ 0 then some (leave_ff v.1 fp (FRESULT.ofByte fp.err), fp, FRESULT.ofByte fp.err)
  else
    let fs := v.1
    let abort (fs : FATFS) (fp : FF_FIL) (e : FRESULT) : Option (FATFS × FF_FIL × FRESULT) :=
      let fp : FF_FIL := { fp with err := e.toNat }
      some (leave_ff fs fp e, fp, e)
    let ofs := if fs.readonly then (if ofs > fp.fsize then fp.fsize else ofs)
               else if ofs > fp.fsize ∧ fp.flag &&& FA_WRITE = 0 then fp.fsize else ofs
    let ifptr := fp.fptr
    let fp : FF_FIL := { fp with fptr := 0 }
    -- the seek proper: volume, file object, `nsect`, or an abort
    let seek : Option (FATFS × FF_FIL × (FRESULT ⊕ Nat)) :=
      if ofs ≠ 0 then
        let bcs := fs.csize * fs.ssize % 4294967296
        let start : Option (FATFS × FF_FIL × (FRESULT ⊕ (Nat × Nat))) :=
          if ifptr > 0 ∧ (ofs - 1) / bcs ≥ (ifptr - 1) / bcs then
            let f := (ifptr - 1) &&& (4294967295 - sub32 bcs 1)
            some (fs, { fp with fptr := f }, .inr (fp.clust, ofs - f))
          else
            let clst := fp.sclust
            if ¬ fs.readonly ∧ clst = 0 then
              match create_chain fs 0 with
              | none => none
              | some (fs, c) =>
                if c = 1 then some (fs, fp, .inl FR_INT_ERR)
                else if c = 0xFFFFFFFF then some (fs, fp, .inl FR_DISK_ERR)
                else some (fs, { fp with sclust := c, clust := c }, .inr (c, ofs))
            else some (fs, { fp with clust := clst }, .inr (clst, ofs))
        match start with
        | none => none
        | some (fs, fp, .inl e) => some (fs, fp, .inl e)
        | some (fs, fp, .inr (clst, ofs)) =>
          if clst ≠ 0 then
            match f_lseek_follow bcs (ofs + 1) fs fp clst ofs with
            | none => none
            | some (fs, fp, .inl e) => some (fs, fp, .inl e)
            | some (fs, fp, .inr (clst, ofs)) =>
              let fp : FF_FIL := { fp with fptr := add32 fp.fptr ofs }
              if ofs % fs.ssize ≠ 0 then
                let nsect := clust2sect fs clst
                if nsect = 0 then some (fs, fp, .inl FR_INT_ERR)
                else some (fs, fp, .inr (add32 nsect (ofs / fs.ssize)))
              else some (fs, fp, .inr 0)
          else some (fs, fp, .inr 0)
      else some (fs, fp, .inr 0)
    match seek with
    | none => none
    | some (fs, fp, .inl e) => abort fs fp e
    | some (fs, fp, .inr nsect) =>
      let fill : (FATFS × FF_FIL) ⊕ (FATFS × FF_FIL) :=
        if fp.fptr % fs.ssize ≠ 0 ∧ nsect ≠ fp.dsect then
          let wb : Option (FATFS × FF_FIL) :=
            if ¬ fs.readonly ∧ fp.flag &&& FA__DIRTY ≠ 0 then
              match disk_write fs.disk fp.buf fp.dsect with
              | none => none
              | some d => some ({ fs with disk := d }, { fp with flag := fp.flag &&& (255 - FA__DIRTY) })
            else some (fs, fp)
          match wb with
          | none => .inl (fs, fp)
          | some (fs, fp) =>
            match disk_read fs.disk nsect with
            | none => .inl (fs, fp)
            | some b => .inr (fs, { fp with buf := b, dsect := nsect })
        else .inr (fs, fp)
      match fill with
      | .inl (fs, fp) => abort fs fp FR_DISK_ERR
      | .inr (fs, fp) =>
        let fp : FF_FIL := if ¬ fs.readonly ∧ fp.fptr > fp.fsize then
            { fp with fsize := fp.fptr, flag := fp.flag ||| FA__WRITTEN } else fp
        some (leave_ff fs fp FR_OK, fp, FR_OK)

/-- Transcription of `f_truncate(fp)`. -/
def f_truncate (fs : FATFS) (fp : FF_FIL) : Option (FATFS × FF_FIL × FRESULT) :=
  let v := validate fs fp
  let res := if v.2 = FR_OK then
      (if fp.err ≠ 0 then FRESULT.ofByte fp.err
       else if fp.flag &&& FA_WRITE = 0 then FR_DENIED else FR_OK)
    else v.2
  let fs := v.1
  if res = FR_OK then
    let body : Option (FATFS × FF_FIL × FRESULT) :=
      if fp.fsize > fp.fptr then
        let fp : FF_FIL := { fp with fsize := fp.fptr, flag := fp.flag ||| FA__WRITTEN }
        let cut : Option (FATFS × FF_FIL × FRESULT) :=
          if fp.fptr = 0 then
            (remove_chain fs fp.sclust).map fun x => (x.1, { fp with sclust := 0 }, x.2)
          else
            let g := get_fat fs fp.clust
            let ncl := g.2
            let res := if ncl = 1 then FR_INT_ERR else if ncl = 0xFFFFFFFF then FR_DISK_ERR else FR_OK
            if res = FR_OK ∧ ncl < g.1.n_fatent then
              let p := put_fat g.1 fp.clust 0x0FFFFFFF
              if p.2 = FR_OK then (remove_chain p.1 ncl).map fun x => (x.1, fp, x.2)
              else some (p.1, fp, p.2)
            else some (g.1, fp, res)
        match cut with
        | none => none
        | some (fs, fp, res) =>
          if res = FR_OK ∧ fp.flag &&& FA__DIRTY ≠ 0 then
            match disk_write fs.disk fp.buf fp.dsect with
            | none => some (fs, fp, FR_DISK_ERR)
            | some d => some ({ fs with disk := d },
                              { fp with flag := fp.flag &&& (255 - FA__DIRTY) }, FR_OK)
          else some (fs, fp, res)
      else some (fs, fp, res)
    body.map fun x =>
      let fp : FF_FIL := if x.2.2 ≠ FR_OK then { x.2.1 with err := x.2.2.toNat } else x.2.1
      (leave_ff x.1 fp x.2.2, fp, x.2.2)
  else some (leave_ff fs fp res, fp, res)

/-! ## Concrete volumes used in examples -/

/-- A byte array given by the list of its first bytes, zero beyond. -/
def bytes (l : List Nat) : Nat → Nat := fun i => l.getD i 0

/-- A device without faults holding the given sectors. -/
def mkDisk (data : Nat → Nat → Nat) : Disk :=
  ⟨data, fun _ => false, fun _ => false, false, 0, 0, some 512⟩

/-- Root-directory sector of the example volume: the file `HELLO.TXT`
(archive attribute, first cluster 2, size 5). -/
def exDirSector : Nat → Nat :=
  bytes [0x48, 0x45, 0x4C, 0x4C, 0x4F, 0x20, 0x20, 0x20, 0x54, 0x58, 0x54, 0x20,
         0, 0, 0, 0, 0, 0, 0, 0, 0, 0, 0, 0, 0, 0, 2, 0, 5, 0, 0, 0]

/-- FAT sector of the example volume: cluster 2 is an end of chain. -/
def exFatSector : Nat → Nat := bytes [0xF8, 0xFF, 0xFF, 0xFF, 0x0F]

/-- Data sector of cluster 2 of the example volume: the text `hello`. -/
def exDataSector : Nat → Nat := bytes [0x68, 0x65, 0x6C, 0x6C, 0x6F]

/-- The device of the example volume: FAT in sector 1, root directory in
sector 2, data from sector 3 on. -/
def exDisk : Disk :=
  mkDisk fun s => if s = 1 then exFatSector else if s = 2 then exDirSector
                  else if s = 3 then exDataSector else fun _ => 0

/-- A mounted FAT12 volume with 8 clusters of one 512-byte sector, one FAT
copy and a 16-entry root directory. -/
def exVol : FATFS :=
  { fs_type := FS_FAT12, csize := 1, n_fats := 1, wflag := 0, fsi_flag := 0, id := 1,
    n_rootdir := 16, ssize := 512, readonly := false, sobj := 0, sobj_timeout := false,
    last_clust := 0xFFFFFFFF, free_clust := 0xFFFFFFFF, n_fatent := 10, fsize := 1,
    volbase := 0, fatbase := 1, dirbase := 2, database := 3, winsect := 0xFFFFFFFF,
    win := fun _ => 0, disk := exDisk }

/-- A configuration in which the code-page functions act as the identity on
ASCII and `ff_wtoupper` raises the ASCII small letters. -/
def exCfg : Config :=
  { ff_convert := fun w _ => w,
    ff_wtoupper := fun w => if 0x61 ≤ w ∧ w ≤ 0x7A then w - 0x20 else w,
    ExCvt := fun w => w, volumes := 1, ld2pt := 0, fattime := 0, nomem := false }

/-- A blank file object. -/
def exFil : FF_FIL := ⟨0, 0, 0, 0, 0, 0, 0, 0, 0, 0, none, 0, 0, fun _ => 0⟩

/-- The address of the example volume object. -/
def exAddr : Nat := 100

/-- The path `/hello.txt`. -/
def exPath : List Nat := [0x2F, 0x68, 0x65, 0x6C, 0x6C, 0x6F, 0x2E, 0x74, 0x78, 0x74]

/-- A boot sector that `find_volume` accepts although its cluster count is
`0xFFFFFFFE`: 512-byte sectors, one sector per cluster, one reserved sector,
one FAT of size 0, no root entries, `BPB_TotSec32 = 0xFFFFFFFF`, root
cluster 2; with the signature `0xAA55` at offset 510 and the string `FAT` at
`BS_FilSysType32`. -/
def hugeBoot : Nat → Nat := fun i =>
  if i = 510 then 0x55 else if i = 511 then 0xAA
  else if i = 82 then 0x46 else if i = 83 then 0x41 else if i = 84 then 0x54
  else bytes [0, 0, 0, 0, 0, 0, 0, 0, 0, 0, 0, 0x00, 0x02, 1, 1, 0, 1, 0, 0, 0, 0, 0, 0, 0,
              0, 0, 0, 0, 0, 0, 0, 0, 0xFF, 0xFF, 0xFF, 0xFF, 0, 0, 0, 0, 0, 0, 0, 0, 2, 0, 0, 0] i

/-- An unmounted volume object on a device whose sector 0 is `hugeBoot` and
whose other sectors are blank. -/
def hugeVol : FATFS :=
  { exVol with fs_type := 0,
               disk := mkDisk fun s => if s = 0 then hugeBoot else fun _ => 0 }

/-- The example device with writes to sector 3 (the data sector) failing. -/
def exDiskWriteFail : Disk := { exDisk with wfail := fun s => s = 3 }

/-- A handle on `HELLO.TXT` of the example volume, opened for reading and
writing, written to, with a dirty sector cache for sector 3; `err` is the
sticky error flag. -/
def exOpenFil (err : Nat) : FF_FIL :=
  { fs := exAddr, id := 1, flag := FA_READ ||| FA_WRITE ||| FA__WRITTEN ||| FA__DIRTY, err := err,
    fptr := 5, fsize := 5, sclust := 2, clust := 2, dsect := 3, dir_sect := 2, dir_ptr := some 0,
    lockid := 1, ino := 2, buf := bytes [0x48, 0x45, 0x4C, 0x4C, 0x4F] }

/-- The example volume on the device whose writes to sector 3 fail. -/
def exVolWriteFail : FATFS := { exVol with disk := exDiskWriteFail }

/-- A lock table whose first entry is held by a writer of `HELLO.TXT`. -/
def exFilesWriter : List FILESEM := [⟨exAddr, 0, 0, 0x100⟩, ⟨0, 0, 0, 0⟩]

/-! ## VFS mount stack (`kern/fs/fs.c`) -/

/-- Return values of the VFS functions: 0, the negated errno values the
source names, or a value passed through from a driver. -/
inductive VfsRet where
  | zero
  | ENOTSUP
  | EINVAL
  | ENOMEM
  | ENOENT
  | ENOTDIR
  | EBADF
  | EPERM
  | EDOM
  | driver (code : Int)
  deriving DecidableEq, Repr

/-- The mount links of all vnodes: `vn_next_mountpoint` and
`vn_prev_mountpoint`, vnodes being named by their addresses (0 is `NULL`). -/
structure MountLinks where
  next : Nat → Nat
  prev : Nat → Nat

/-- The fields of `struct fs_superblock` that mounting uses: the root vnode,
the mount point, and the result of the `umount` handler (`none` when the
handler pointer is null). -/
structure Superblock where
  root : Nat
  mountpoint : Nat
  umount : Option VfsRet

/-- What `fs_by_name` and the driver's `mount` function give `fs_mount`: no
such file system, a driver without `mount`, a mount error, or a populated
superblock. -/
inductive MountOutcome where
  | nofs
  | nomount
  | failed (err : Int)
  | mounted (sb : Superblock)

/-- Transcription of `get_base_vnode(vn)`; `none` when the fuel runs out. -/
def get_base_vnode (l : MountLinks) : Nat → Nat → Option Nat
  | 0, _ => none
  | fuel + 1, vn => if l.prev vn ≠ vn then get_base_vnode l fuel (l.prev vn) else some vn

/-- Transcription of `get_top_vnode(vn)`; `none` when the fuel runs out. -/
def get_top_vnode (l : MountLinks) : Nat → Nat → Option Nat
  | 0, _ => none
  | fuel + 1, vn => if l.next vn ≠ vn then get_top_vnode l fuel (l.next vn) else some vn

/-- Transcription of `fs_mount(target, source, fsname, flags, parm,
parm_len)`, given what the registry and the driver return: the links, the
superblock as written back (`sb->mountpoint`), and the return value. `none`
when `get_top_vnode` runs out of fuel. -/
def fs_mount (fuel : Nat) (l : MountLinks) (target : Nat) (drv : MountOutcome) :
    Option (MountLinks × Option Superblock × VfsRet) :=
  match drv with
  | .nofs => some (l, none, .ENOTSUP)
  | .nomount => some (l, none, .ENOTSUP)
  | .failed e => some (l, none, .driver e)
  | .mounted sb =>
    match get_top_vnode l fuel target with
    | none => none
    | some target =>
      let root := sb.root
      let l1 : MountLinks := { l with next := Function.update l.next target root }
      let l2 : MountLinks := { l1 with prev := Function.update l1.prev root target }
      let l3 : MountLinks := { l2 with next := Function.update l2.next root root }
      some (l3, some { sb with mountpoint := target }, .zero)

/-- Transcription of `fs_umount(sb)`; the handler `sb->umount` is taken to
leave the mount links alone. -/
def fs_umount (l : MountLinks) (sb : Superblock) : MountLinks × VfsRet :=
  match sb.umount with
  | none => (l, .ENOTSUP)
  | some r =>
    let root := sb.root
    if l.prev root = root then (l, .EINVAL)
    else
      let prev := l.prev root
      let next := l.next root
      let l1 : MountLinks :=
        if next ≠ 0 ∧ next ≠ root then
          { next := Function.update l.next prev (l.next root),
            prev := Function.update l.prev next prev }
        else { l with next := Function.update l.next prev prev }
      let l2 : MountLinks := { l1 with next := Function.update l1.next root root }
      let l3 : MountLinks := { l2 with prev := Function.update l2.prev root root }
      (l3, r)

/-! ## Path lookup and permission check (`fs.c`) -/

/-- Constants of `fcntl.h`, `unistd.h`, `limits.h` and `sys/stat.h` that the
functions below use; their values are not part of the sources at hand.
`S_ISDIR` is the macro of that name applied to a mode word. -/
structure VfsConsts where
  PATH_MAX : Nat
  O_DIRECTORY : Nat
  O_ACCMODE : Nat
  AT_FDARG : Nat
  AT_SYMLINK_NOFOLLOW : Nat
  R_OK : Nat
  W_OK : Nat
  X_OK : Nat
  S_IRUSR : Nat
  S_IRGRP : Nat
  S_IROTH : Nat
  S_IWUSR : Nat
  S_IWGRP : Nat
  S_IWOTH : Nat
  S_IXUSR : Nat
  S_IXGRP : Nat
  S_IXOTH : Nat
  S_ISDIR : Nat → Bool

/-- The vnodes as the lookup code sees them: whether `vnode_ops` is set, the
driver's `lookup` handler (its return value and the vnode it stores through
its third argument, if it stores one), the mode word `vn_mode`, and whether
`kstrdup` fails. -/
structure Vnodes where
  has_ops : Nat → Bool
  lookup : Nat → List Nat → VfsRet × Option Nat
  vn_mode : Nat → Nat
  nomem : Bool

/-- Modelled from the spec: `kstrtok(path, PATH_DELIMS, &lasts)` called until
it returns null, with the path separators `/` (0x2F) and `\` (0x5C) of
section 4.2 as delimiters: the non-empty components of the path in order. -/
def kstrtok_all (path : List Nat) : List (List Nat) :=
  (path.splitOnP fun c => c == 0x2F || c == 0x5C).filter fun t => t ≠ []

/-- Modelled from the spec: `strlenn(str, max)`, the length of the string
counted up to `max`. -/
def strlenn (str : List Nat) (max : Nat) : Nat := min str.length max

/-- The character `str[i]` of a NUL-terminated string given by its
characters before the terminator. -/
def charAt (str : List Nat) (i : Nat) : Nat := str.getD i 0

/-- The part of the `do` loop body of `lookup_vnode` from the label `again`
on, for one component: the new `*result` on success, the return value and
`*result` on `goto out`. `none` when the fuel for the retries or for the
walks along the mount links runs out. -/
def lookup_again (vs : Vnodes) (l : MountLinks) (nodename : List Nat) :
    Nat → Nat → Nat → Option ((VfsRet × Nat) ⊕ Nat)
  | 0, _, _ => none
  | fuel + 1, result, vnode0 =>
    let r := vs.lookup result nodename
    let retval := r.1
    let vnode := r.2.getD vnode0
    if retval ≠ .zero ∧ retval ≠ .EDOM then some (.inl (retval, result))
    else if vnode = 0 then some (.inl (.ENOENT, result))
    else if retval = .EDOM ∧ nodename = [0x2E, 0x2E] ∧ l.prev vnode ≠ vnode then
      match get_base_vnode l (fuel + 1) vnode with
      | none => none
      | some base => lookup_again vs l nodename fuel base base
    else
      match get_top_vnode l (fuel + 1) vnode with
      | none => none
      | some top => some (.inr top)

/-- The `do ... while` loop of `lookup_vnode` over the components. -/
def lookup_loop (vs : Vnodes) (l : MountLinks) (fuel : Nat) :
    List (List Nat) → Nat → Option (VfsRet × Nat)
  | [], result => some (.zero, result)
  | nodename :: rest, result =>
    if nodename = [0x2E] then lookup_loop vs l fuel rest result
    else
      match lookup_again vs l nodename fuel result 0 with
      | none => none
      | some (.inl e) => some e
      | some (.inr v) => lookup_loop vs l fuel rest v

/-- Transcription of `lookup_vnode(result, root, str, oflags)` for non-null
`result` and `str`: the return value and the vnode stored in `*result`
(`none` when nothing was stored). Reference counts are left out. -/
def lookup_vnode (c : VfsConsts) (vs : Vnodes) (l : MountLinks) (fuel : Nat)
    (root : Nat) (str : List Nat) (oflags : Nat) : Option (VfsRet × Option Nat) :=
  if root = 0 ∨ vs.has_ops root = false then some (.EINVAL, none)
  else if vs.nomem then some (.ENOMEM, none)
  else
    match kstrtok_all (str.take c.PATH_MAX) with
    | [] => some (.EINVAL, none)
    | toks =>
      match lookup_loop vs l fuel toks root with
      | none => none
      | some (e, v) =>
        if e ≠ .zero then some (e, some v)
        else if oflags &&& c.O_DIRECTORY ≠ 0 ∧ c.S_ISDIR (vs.vn_mode v) = false then
          some (.ENOTDIR, some v)
        else some (.zero, some v)

/-- What `fs_namei_proc` reads of the current process: its root and working
directory and, for each descriptor, the vnode of the open file (`none` when
`fs_fildes_ref` returns null). -/
structure Proc where
  croot : Nat
  cwd : Nat
  files : Nat → Option Nat

/-- Transcription of `fs_namei_proc(result, fd, path, atflags)`. -/
def fs_namei_proc (c : VfsConsts) (vs : Vnodes) (l : MountLinks) (fuel : Nat)
    (proc : Proc) (fd : Nat) (path : List Nat) (atflags : Nat) : Option (VfsRet × Option Nat) :=
  let oflags := atflags &&& c.AT_SYMLINK_NOFOLLOW
  if charAt path 0 = 0 then some (.EINVAL, none)
  else
    let run (start : Nat) (path : List Nat) : Option (VfsRet × Option Nat) :=
      let oflags := if charAt path (strlenn path c.PATH_MAX) = 0x2F then oflags ||| c.O_DIRECTORY
                    else oflags
      lookup_vnode c vs l fuel start path oflags
    if charAt path 0 = 0x2F then
      let path := path.drop 1
      if charAt path 0 = 0 then some (.zero, some proc.croot)
      else run proc.croot path
    else if atflags &&& c.AT_FDARG ≠ 0 then
      match proc.files fd with
      | none => some (.EBADF, none)
      | some v => run v path
    else run proc.cwd path

/-- The fields of `struct stat` that `chkperm` reads. -/
structure Stat where
  st_mode : Nat
  st_uid : Nat
  st_gid : Nat

/-- The mask `req_perm` that `chkperm` builds for one access kind. -/
def req_perm (stat : Stat) (euid egid usr grp oth : Nat) : Nat :=
  let r := 0
  let r := if stat.st_uid = euid then r ||| usr else r
  let r := if stat.st_gid = egid then r ||| grp else r
  r ||| oth

/-- Transcription of `chkperm(stat, euid, egid, oflags)`. -/
def chkperm (c : VfsConsts) (stat : Stat) (euid egid oflags : Nat) : VfsRet :=
  let oflags := oflags &&& c.O_ACCMODE
  if oflags &&& c.R_OK ≠ 0 ∧
      req_perm stat euid egid c.S_IRUSR c.S_IRGRP c.S_IROTH &&& stat.st_mode = 0 then .EPERM
  else if oflags &&& c.W_OK ≠ 0 ∧
      req_perm stat euid egid c.S_IWUSR c.S_IWGRP c.S_IWOTH &&& stat.st_mode = 0 then .EPERM
  else if (oflags &&& c.X_OK ≠ 0 ∨ c.S_ISDIR stat.st_mode = true) ∧
      req_perm stat euid egid c.S_IXUSR c.S_IXGRP c.S_IXOTH &&& stat.st_mode = 0 then .EPERM
  else .zero

/-- Transcription of `chkperm_vnode(vnode, euid, egid, oflags)`; `vstat` is
the `stat` handler of the vnode: its return value and the record it fills. -/
def chkperm_vnode (c : VfsConsts) (vstat : Nat → VfsRet × Stat) (vnode euid egid oflags : Nat) :
    VfsRet :=
  if (vstat vnode).1 ≠ .zero then (vstat vnode).1
  else chkperm c (vstat vnode).2 euid egid oflags

/-- Transcription of `chkperm_vnode_curproc(vnode, oflags)`, given the
effective ids in `curproc->cred`. -/
def chkperm_vnode_curproc (c : VfsConsts) (vstat : Nat → VfsRet × Stat) (euid egid : Nat)
    (vnode oflags : Nat) : VfsRet :=
  chkperm_vnode c vstat vnode euid egid oflags

/-- The usual values of the constants: `PATH_MAX` 4096, the POSIX mode bits
and access kinds, and a directory test on the file-type bits. -/
def posixConsts : VfsConsts :=
  { PATH_MAX := 4096, O_DIRECTORY := 0x100, O_ACCMODE := 7, AT_FDARG := 0x4000,
    AT_SYMLINK_NOFOLLOW := 0x400, R_OK := 4, W_OK := 2, X_OK := 1,
    S_IRUSR := 0x100, S_IRGRP := 0x20, S_IROTH := 4, S_IWUSR := 0x80, S_IWGRP := 0x10,
    S_IWOTH := 2, S_IXUSR := 0x40, S_IXGRP := 8, S_IXOTH := 1,
    S_ISDIR := fun m => m &&& 0xF000 = 0x4000 }

/-- Mount links in which every vnode is self-linked. -/
def selfLinks : MountLinks := ⟨fun v => v, fun v => v⟩

/-- Example vnodes: every vnode has operations, directory 1 holds the
regular file `f` (vnode 5) and nothing else. -/
def exVnodes : Vnodes :=
  { has_ops := fun _ => true,
    lookup := fun dir name => if dir = 1 ∧ name = [0x66] then (.zero, some 5) else (.ENOENT, none),
    vn_mode := fun v => if v = 5 then 0x8000 else 0x4000,
    nomem := false }

/-- A process whose root and working directory are vnode 1 and that has no
open files. -/
def exProc : Proc := ⟨1, 1, fun _ => none⟩

/-- Well-formed mount links: every non-self `next` edge has the inverse
`prev` edge and conversely, no link of a non-null vnode is null, and both
kinds of edges descend along a rank, so that no chain is cyclic. -/
def MountLinks.wf (l : MountLinks) : Prop :=
  (∀ v, l.next v ≠ v → l.prev (l.next v) = v) ∧
  (∀ v, l.prev v ≠ v → l.next (l.prev v) = v) ∧
  (∀ v, v ≠ 0 → l.next v ≠ 0 ∧ l.prev v ≠ 0) ∧
  (∃ rn : Nat → Nat, ∀ v, l.next v ≠ v → rn (l.next v) < rn v) ∧
  (∃ rp : Nat → Nat, ∀ v, l.prev v ≠ v → rp (l.prev v) < rp v)

/-- One call of `fs_mount` on a non-null target, the driver returning, if it
returns a superblock, one whose root vnode is non-null and self-linked on
both links, or one call of `fs_umount` on a superblock with a non-null root
vnode. -/
def mountStep (l l1 : MountLinks) : Prop :=
  (∃ fuel target drv res, target ≠ 0 ∧
    (∀ sb, drv = MountOutcome.mounted sb →
      sb.root ≠ 0 ∧ l.next sb.root = sb.root ∧ l.prev sb.root = sb.root) ∧
    fs_mount fuel l target drv = some res ∧ res.1 = l1) ∨
  (∃ sb : Superblock, sb.root ≠ 0 ∧ (fs_umount l sb).1 = l1)

/-- A superblock with root vnode 2 and an unmount handler that succeeds. -/
def exSb : Superblock := ⟨2, 0, some .zero⟩

/-- The mount links after the same file system (root vnode 2) has been
mounted on vnode 1 and then on vnode 3, starting from self-linked vnodes. -/
def mountTwice : Option MountLinks :=
  (fs_mount 10 selfLinks 1 (.mounted exSb)).bind fun r =>
    (fs_mount 10 r.1 3 (.mounted exSb)).map fun r1 => r1.1

/-! ## Auxiliary notions for statements about names -/

/-- A character allowed in a short name in strict 8.3 form: printable ASCII
other than space, the dot, the path separators and the characters that
`create_name` rejects or replaces. -/
def sfnLegal (c : Nat) : Prop :=
  0x21 ≤ c ∧ c ≤ 0x7E ∧
  c ∉ [0x22, 0x2A, 0x2B, 0x2C, 0x2E, 0x2F, 0x3A, 0x3B, 0x3C, 0x3D, 0x3E, 0x3F, 0x5B, 0x5C, 0x5D, 0x7C]

instance (c : Nat) : Decidable (sfnLegal c) := by unfold sfnLegal; infer_instance

/-- The letters of a list are all of one case: no capital or no small letter. -/
def oneCase (l : List Nat) : Prop :=
  (∀ c ∈ l, ka_isupper c = false) ∨ (∀ c ∈ l, ka_islower c = false)

/-- A name in strict 8.3 form with body `body` and extension `ext` (no dot
when the extension is empty). -/
def name83 (body ext : List Nat) : List Nat :=
  body ++ (if ext = [] then [] else 0x2E :: ext)

/-- A small letter raised, any other character unchanged. -/
def upc (c : Nat) : Nat := if ka_islower c then c - 0x20 else c

/-- The case bits `create_name` collects for a character: 2 for a capital,
1 for a small letter. -/
def caseBits (c : Nat) : Nat := if ka_isupper c then 2 else if ka_islower c then 1 else 0

/-- The bytes `l` stored from index `i` on, first to last. -/
def writeList (m : Nat → Nat) : Nat → List Nat → Nat → Nat
  | _, [] => m
  | i, c :: l => writeList (Function.update m i c) (i + 1) l


/-- The state of the short-name loop after it has stored the characters `l`. -/
def sfnRun (st : SfnState) : List Nat → SfnState
  | [] => st
  | c :: l => sfnRun { st with fn := Function.update st.fn st.i (upc c), si := st.si + 1,
                               i := st.i + 1, b := st.b ||| caseBits c } l


/-- A character that the first loop of `create_name` copies unchanged under
the conversion function `cv`. -/
def segPlain (cv : Nat → Nat → Nat) (c : Nat) : Prop :=
  0x20 ≤ c ∧ c < 0x80 ∧ c ≠ 0x2F ∧ c ≠ 0x5C ∧ c ∉ lfnIllegal ∧ cv c 1 = c

/-- The case bits `create_name` has collected after the characters `l`. -/
def bitsOf (l : List Nat) : Nat := l.foldl (fun b c => b ||| caseBits c) 0


/-! ## Auxiliary notions for statements about the volume -/

/-- A faithful block device: no read and no write of a sector fails. -/
def Disk.faithful (d : Disk) : Prop := (∀ s, d.rfail s = false) ∧ (∀ s, d.wfail s = false)

/-- The byte `k` of sector `s` as the driver sees it: the byte in the window
when the window holds that sector, the byte on the device otherwise. -/
def view (fs : FATFS) (s k : Nat) : Nat :=
  if s = fs.winsect then fs.win k else fs.disk.data s k

/-- A clean window holds the bytes of its sector. -/
def FATFS.coherent (fs : FATFS) : Prop :=
  fs.wflag = 0 → ∀ k, fs.win k = fs.disk.data fs.winsect k

/-- The sectors of the second and later FAT copies, which `sync_window`
overwrites when it mirrors a sector of the first copy. -/
def mirrorArea (fs : FATFS) (s : Nat) : Prop :=
  fs.fatbase + fs.fsize ≤ s ∧ s < fs.fatbase + fs.n_fats * fs.fsize

/-- A writable volume on a faithful device with at least one FAT, whose FAT
copies do not wrap around the 32-bit sector space and whose window is
coherent. -/
structure FATFS.good (fs : FATFS) : Prop where
  writable : fs.readonly = false
  faithful : fs.disk.faithful
  fats : 1 ≤ fs.n_fats
  nowrap : fs.fatbase + fs.n_fats * fs.fsize ≤ 4294967296
  winsect_lt : fs.winsect < 4294967296
  coherent : fs.coherent


/-- The example volume with a full root directory: every byte of the root
directory sector is `0x41`. -/
def fullVol : FATFS :=
  { exVol with disk := mkDisk fun s => if s = 2 then fun _ => 0x41 else fun _ => 0 }

/-- A directory object for the root directory of a volume. -/
def rootDir : FF_DIR :=
  ⟨exAddr, 1, 0, 0, 0, 0, none, fun _ => 0x20, none, 0, 0, 0⟩


/-- Read-mode `inc_lock` of the same object `n` times in a row; the flag
tells whether every call returned a non-zero index. -/
def inc_lock_reads (dp : LockKey) : Nat → List FILESEM → List FILESEM × Bool
  | 0, F => (F, true)
  | n + 1, F =>
    if (inc_lock F dp 0).2 = 0 then ((inc_lock F dp 0).1, false)
    else inc_lock_reads dp n (inc_lock F dp 0).1


/-- The long-name buffer holding `n` letters `a` and then zeros. -/
def longName (n : Nat) : Nat → Nat := fun i => if i < n then 0x61 else 0


/-! ## Auxiliary notions for statements about the FAT -/

/-- The fields of the volume object other than the window and the device. -/
def FATFS.meta (fs : FATFS) :=
  (fs.fs_type, fs.csize, fs.n_fats, fs.fsi_flag, fs.id, fs.n_rootdir, fs.ssize, fs.readonly,
   fs.sobj, fs.sobj_timeout, fs.last_clust, fs.free_clust, fs.n_fatent, fs.fsize, fs.volbase,
   fs.fatbase, fs.dirbase, fs.database)

/-- Byte `b` of the first FAT copy, as the driver sees it. -/
def fbyte (fs : FATFS) (b : Nat) : Nat :=
  view fs (fs.fatbase + b / fs.ssize) (b % fs.ssize)

/-- The value of FAT entry `c` computed from the bytes of the first FAT copy
as `get_fat` does for an in-range cluster. -/
def fatVal (fs : FATFS) (c : Nat) : Nat :=
  if fs.fs_type = FS_FAT12 then
    if c &&& 1 ≠ 0 then (fbyte fs (c + c / 2) ||| (fbyte fs (c + c / 2 + 1) <<< 8)) >>> 4
    else (fbyte fs (c + c / 2) ||| (fbyte fs (c + c / 2 + 1) <<< 8)) &&& 0xFFF
  else if fs.fs_type = FS_FAT16 then fbyte fs (c * 2) + fbyte fs (c * 2 + 1) * 256
  else (fbyte fs (c * 4) + fbyte fs (c * 4 + 1) * 256 + fbyte fs (c * 4 + 2) * 65536 +
        fbyte fs (c * 4 + 3) * 16777216) &&& 0x0FFFFFFF

/-- The number of bytes the FAT entries `0 .. n_fatent - 1` take. -/
def fatBytes (fs : FATFS) : Nat :=
  if fs.fs_type = FS_FAT12 then (fs.n_fatent * 3 + 1) / 2
  else if fs.fs_type = FS_FAT16 then fs.n_fatent * 2
  else fs.n_fatent * 4

/-- A good volume of one of the three FAT subtypes whose FAT entries all lie
in the first FAT copy, with a sector size that is a positive multiple of 4
and at most 2^30 entries. -/
structure FATFS.fatOk (fs : FATFS) : Prop where
  good : fs.good
  subtype : fs.fs_type = FS_FAT12 ∨ fs.fs_type = FS_FAT16 ∨ fs.fs_type = FS_FAT32
  ssize_pos : 0 < fs.ssize
  ssize_mul : fs.ssize % 4 = 0
  entries : fs.n_fatent ≤ 1073741824
  fits : fatBytes fs ≤ fs.fsize * fs.ssize

/-- Every byte of the window and of the device is below 256. -/
def FATFS.bytesOk (fs : FATFS) : Prop :=
  (∀ k, fs.win k < 256) ∧ ∀ s k, fs.disk.data s k < 256

/-- The volume `fs1` is `fs` after window moves: a good volume with the
same fields whose sectors outside the mirrored FAT copies read the same. -/
def FATFS.moved (fs fs1 : FATFS) : Prop :=
  fs1.good ∧ fs1.meta = fs.meta ∧ (fs.bytesOk → fs1.bytesOk) ∧
  ∀ s k, ¬ mirrorArea fs s → view fs1 s k = view fs s k


/-- The 32-bit word stored at FAT byte `b` and the three bytes after it. -/
def fdword (fs : FATFS) (b : Nat) : Nat :=
  fbyte fs b + fbyte fs (b + 1) * 256 + fbyte fs (b + 2) * 65536 + fbyte fs (b + 3) * 16777216

/-- The bytes of the first FAT copy after `put_fat(fs, c, v)`, in terms of
the bytes before. -/
def putBytes (fs : FATFS) (c v : Nat) (b : Nat) : Nat :=
  if fs.fs_type = FS_FAT12 then
    if b = c + c / 2 then
      (if c &&& 1 ≠ 0 then ((fbyte fs (c + c / 2) &&& 0x0F) ||| ((v % 256) <<< 4)) % 256
       else v % 256)
    else if b = c + c / 2 + 1 then
      (if c &&& 1 ≠ 0 then (v >>> 4) % 256
       else (fbyte fs (c + c / 2 + 1) &&& 0xF0) ||| ((v >>> 8) % 256 &&& 0x0F))
    else fbyte fs b
  else if fs.fs_type = FS_FAT16 then
    if b = c * 2 then v % 65536 % 256
    else if b = c * 2 + 1 then v % 65536 / 256 % 256
    else fbyte fs b
  else
    if b = c * 4 then (v ||| (fdword fs (c * 4) &&& 0xF0000000)) % 256
    else if b = c * 4 + 1 then (v ||| (fdword fs (c * 4) &&& 0xF0000000)) / 256 % 256
    else if b = c * 4 + 2 then (v ||| (fdword fs (c * 4) &&& 0xF0000000)) / 65536 % 256
    else if b = c * 4 + 3 then (v ||| (fdword fs (c * 4) &&& 0xF0000000)) / 16777216 % 256
    else fbyte fs b


/-- A FAT12 volume whose FAT takes two 512-byte sectors, so that entry 341
(FAT bytes 511 and 512) lies in both; every byte of the device is zero. -/
def twoSectorFat : FATFS :=
  { exVol with n_fatent := 400, fsize := 2, dirbase := 3, database := 4,
               disk := mkDisk fun _ _ => 0 }

/-- A FAT32 volume with 128 entries in one 512-byte FAT sector; every byte of
the device is `0xFF`, so every entry has its reserved bits set. -/
def fat32Vol : FATFS :=
  { exVol with fs_type := FS_FAT32, n_fatent := 128, n_rootdir := 0,
               win := fun _ => 0xFF, disk := mkDisk fun _ _ => 0xFF }


/-- The value `v` cut to the width of a FAT entry of the volume: 12, 16 or
28 bits. -/
def fatMask (fs : FATFS) (v : Nat) : Nat :=
  if fs.fs_type = FS_FAT12 then v &&& 0xFFF
  else if fs.fs_type = FS_FAT16 then v &&& 0xFFFF else v &&& 0x0FFFFFFF

/-- The volume object after `create_chain` has updated the allocation hints
for the new cluster `n`: `last_clust = n` and, when `free_clust` is known,
`free_clust - 1` and the FSINFO-dirty bit. -/
def allocHints (fs : FATFS) (n : Nat) : FATFS :=
  { fs with last_clust := n,
            free_clust := if fs.free_clust ≠ 0xFFFFFFFF then sub32 fs.free_clust 1 else fs.free_clust,
            fsi_flag := if fs.free_clust ≠ 0xFFFFFFFF then fs.fsi_flag ||| 1 else fs.fsi_flag }


/-- A FAT12 volume of minimal size, two clusters, in which cluster 2 is the
end of a chain and cluster 3 is the only free one; `lc` is the `last_clust`
hint. -/
def oneFreeVol (lc : Nat) : FATFS :=
  { exVol with n_fatent := 4, last_clust := lc, free_clust := 1,
               disk := mkDisk fun s => if s = 1 then bytes [0xF8, 0xFF, 0xFF, 0xFF, 0x0F, 0x00]
                                       else fun _ => 0 }


/-- The allocation of a chain as the callers of `create_chain` do it: `k`
calls, each stretching the chain at the cluster the call before returned
(`last`, 0 for a new chain); `acc` collects the clusters in chain order.
`none` when a call does not return a cluster (0, 1 or `0xFFFFFFFF`). -/
def stretch_chain : Nat → FATFS → Nat → List Nat → Option (FATFS × List Nat)
  | 0, fs, _, acc => some (fs, acc)
  | k + 1, fs, last, acc =>
    match create_chain fs last with
    | none => none
    | some (fs1, n) =>
      if n < 2 ∨ n = 0xFFFFFFFF then none else stretch_chain k fs1 n (acc ++ [n])

/-- A chain of `k` clusters built by `create_chain(fs, 0)` followed by
`k - 1` stretches. -/
def build_chain (fs : FATFS) (k : Nat) : Option (FATFS × List Nat) :=
  stretch_chain k fs 0 []

/-- The clusters of the list form a chain in the FAT: each entry holds the
next cluster of the list and the entry of the last one is at least
`n_fatent`. -/
def isChain (fs : FATFS) : List Nat → Prop
  | [] => True
  | [c] => fs.n_fatent ≤ fatVal fs c
  | c :: c2 :: rest => fatVal fs c = c2 ∧ isChain fs (c2 :: rest)

/-- A FAT32 volume with `0x10000000` FAT entries, so that the end-of-chain
value `0x0FFFFFFF` is the number of its last cluster: clusters 2 and
`0x0FFFFFFF` hold end-of-chain marks, every other cluster is free. -/
def eocVol : FATFS :=
  { exVol with fs_type := FS_FAT32, n_fatent := 0x10000000, fsize := 0x200000, n_rootdir := 0,
               dirbase := 2, database := 0x200001, last_clust := 2, free_clust := 5,
               disk := mkDisk fun s =>
                 if s = 1 then bytes [0xF8, 0xFF, 0xFF, 0x0F, 0xFF, 0xFF, 0xFF, 0x0F,
                                      0xFF, 0xFF, 0xFF, 0x0F]
                 else if s = 0x200000 then
                   fun k => if k = 508 ∨ k = 509 ∨ k = 510 then 0xFF else if k = 511 then 0x0F else 0
                 else fun _ => 0 }


/-- The volume `twoSectorFat` with a known count of 10 free clusters. -/
def freeVol : FATFS := { twoSectorFat with free_clust := 10 }


/-! ## Write log of `dir_register` -/

/-- The 32 bytes of a directory entry as a list. -/
def entryBytes (e : Nat → Nat) : List Nat := (List.range SZ_DIR).map e

/-- The sector of entry `i` of the static root directory. -/
def rootSect (fs : FATFS) (i : Nat) : Nat := fs.dirbase + i / (fs.ssize / SZ_DIR)

/-- The offset of entry `i` of the static root directory in its sector. -/
def rootOff (fs : FATFS) (i : Nat) : Nat := i % (fs.ssize / SZ_DIR) * SZ_DIR

/-- The 32 bytes of entry `i` of the static root directory, as the driver
sees them. -/
def rootEntry (fs : FATFS) (i : Nat) : List Nat :=
  (List.range SZ_DIR).map fun k => view fs (rootSect fs i) (rootOff fs i + k)

/-- A writable FAT12 or FAT16 volume on a faithful device with the geometry
`find_volume` establishes: a static root directory of at least one and fewer
than 65536 entries filling whole sectors, placed behind the FAT copies, no sector number
beyond 32 bits. -/
structure FATFS.rootOk (fs : FATFS) : Prop where
  good : fs.good
  subtype : fs.fs_type ≠ FS_FAT32
  entries : 0 < fs.n_fatent
  persect : 0 < fs.ssize / SZ_DIR
  aligned : fs.n_rootdir % (fs.ssize / SZ_DIR) = 0
  nonempty : 0 < fs.n_rootdir
  small : fs.n_rootdir < 65536
  dirbase_ne : fs.dirbase ≠ 0
  nowrap : fs.dirbase + fs.n_rootdir / (fs.ssize / SZ_DIR) < 4294967296
  behind : fs.fatbase + fs.n_fats * fs.fsize ≤ fs.dirbase

/-- The directory object `dp` set to entry `i` of the static root directory
of `fs`. -/
def FF_DIR.setRoot (dp : FF_DIR) (fs : FATFS) (i : Nat) : FF_DIR :=
  { dp with index := i, sect := rootSect fs i, dir := some (rootOff fs i) }

/-- The entry `dir_remove` leaves: `0xE5` followed by 31 zero bytes. -/
def deletedEntry : List Nat := DDE :: List.replicate 31 0

/-- A directory object for the root directory holding the short name `A`
(no long-name entries needed). -/
def shortDir : FF_DIR :=
  { rootDir with fn := bytes [0x41, 0x20, 0x20, 0x20, 0x20, 0x20, 0x20, 0x20, 0x20, 0x20, 0x20],
                 lfn := some (bytes [0x41]), lfn_idx := 0xFFFF }

/-- A directory object for the root directory whose name buffers are as
`create_name` leaves them for the path segment `path`, starting from blank
buffers. -/
def namedDir (path : List Nat) : FF_DIR :=
  match create_name exCfg.ff_convert exCfg.ExCvt (fun _ => 0) (fun _ => 0) path with
  | some (_, r) => { rootDir with fn := r.fn, lfn := some r.lfn, lfn_idx := 0xFFFF }
  | none => rootDir

/-- A volume with two FAT copies of one sector each whose dirty window holds
the first FAT sector, on a device that refuses writes to sector 2, the
sector of the second copy. -/
def mirrorFailVol : FATFS :=
  { exVol with n_fats := 2, dirbase := 3, database := 4, winsect := 1, wflag := 1,
               win := fun _ => 0xAA,
               disk := { mkDisk (fun _ _ => 0) with wfail := fun s => s = 2 } }

/-- The example volume on a device that fails to read sector 3, with the
root directory sector loaded in the window. -/
def readFailVol : FATFS :=
  { exVol with winsect := 2, win := exDirSector,
               disk := { exDisk with rfail := fun s => s = 3 } }

/-- A FAT32 boot sector whose FAT size in bytes wraps in 32 bits: 512-byte
sectors, one sector per cluster, one reserved sector, one FAT of one sector,
no root entries, `BPB_TotSec32 = 0x40000002`, root cluster 2; with the
signature `0xAA55` and the string `FAT` at `BS_FilSysType32`. The cluster
count is `0x40000000`. -/
def wrapBoot : Nat → Nat := fun i =>
  if i = 510 then 0x55 else if i = 511 then 0xAA
  else if i = 82 then 0x46 else if i = 83 then 0x41 else if i = 84 then 0x54
  else bytes [0, 0, 0, 0, 0, 0, 0, 0, 0, 0, 0, 0x00, 0x02, 1, 1, 0, 1, 0, 0, 0, 0, 0, 0, 0,
              0, 0, 0, 0, 0, 0, 0, 0, 0x02, 0, 0, 0x40, 1, 0, 0, 0, 0, 0, 0, 0, 2, 0, 0, 0] i

/-- An unmounted volume object on a device whose sector 0 is `wrapBoot` and
whose other sectors are blank. -/
def wrapVol : FATFS :=
  { exVol with fs_type := 0,
               disk := mkDisk fun s => if s = 0 then wrapBoot else fun _ => 0 }

/-- Transcription of the head of `f_unlink(fs, path)`, up to and including the
statement `dclst = ld_clust(dj.fs, dir)`: the result code at that point, and
whether `ld_clust` read the cluster fields through a null `dir`. The flag is
`false` when the statement is not reached; `none` when a loop ran out of
fuel. -/
def f_unlink_head (cfg : Config) (md : Module) (fsaddr : Nat) (fs : FATFS) (path : List Nat) :
    Option (FRESULT × Bool) :=
  let ld := get_ldnumber cfg.volumes path
  let v := find_volume cfg.ld2pt md fsaddr fs ld.1 1
  if v.2.2 ≠ FR_OK then some (v.2.2, false)
  else if cfg.nomem then some (FR_NOT_ENOUGH_CORE, false)
  else
    match follow_path cfg v.2.1 (FF_DIR.init fsaddr) ld.2 with
    | none => none
    | some (fs, dj, res) =>
      let res := if res = FR_OK then chk_lock v.1.Files dj.key 2 else res
      if res = FR_OK then
        let res := if dj.dir = none then FR_INVALID_NAME
          else if dirByte fs dj DIR_Attr &&& AM_RDO ≠ 0 then FR_DENIED else res
        some (res, dj.dir = none)
      else some (res, false)

/-! ## Reference counts (`fs.c`) -/

/-- The calls that change a vnode reference count, in the order they are
made: `vref`, `vrele`, the driver's `delete_vnode` called from `vrele`, and
the reference a driver's `lookup` hands over with the vnode it returns. -/
inductive RefEvent where
  | vref (v : Nat)
  | vrele (v : Nat)
  | delete_vnode (v : Nat)
  | handover (v : Nat)
  deriving DecidableEq, Repr

/-- The reference counts `vn_refcount` of all vnodes and the record of the
calls made so far. -/
structure RefState where
  refcount : Nat → Int
  log : List RefEvent

/-- Transcription of `vref(vnode)`: a negative count is left alone (the call
returns `-ENOLINK`), otherwise the count is incremented. -/
def vref (s : RefState) (vnode : Nat) : RefState :=
  if s.refcount vnode < 0 then { s with log := s.log ++ [.vref vnode] }
  else { refcount := Function.update s.refcount vnode (s.refcount vnode + 1),
         log := s.log ++ [.vref vnode] }

/-- Transcription of `vrele(vnode)`: `atomic_dec` gives back the count from
before the decrement in `prev`, and `delete_vnode` is called when
`prev <= 1`. -/
def vrele (s : RefState) (vnode : Nat) : RefState :=
  let prev := s.refcount vnode
  let s1 : RefState := { refcount := Function.update s.refcount vnode (prev - 1),
                         log := s.log ++ [.vrele vnode] }
  if prev ≤ 1 then { s1 with log := s1.log ++ [.delete_vnode vnode] } else s1

/-- The reference that the driver's `lookup` hands over on the vnode it
stores. -/
def handover (s : RefState) (v : Nat) : RefState :=
  { refcount := Function.update s.refcount v (s.refcount v + 1), log := s.log ++ [.handover v] }

/-- The part of the `do` loop body of `lookup_vnode` from the label `again`
on, with the reference counts. The driver's `lookup` hands over one reference
on the vnode it stores when it returns 0; `edom_ref` tells whether it also
does so when it returns `-EDOM`. `none` when the fuel runs out. -/
def lookup_again_ref (vs : Vnodes) (edom_ref : Bool) (l : MountLinks) (nodename : List Nat) :
    Nat → RefState → Nat → Nat → Option (RefState × ((VfsRet × Nat) ⊕ Nat))
  | 0, _, _, _ => none
  | fuel + 1, s, result, vnode0 =>
    let orig_vn := result
    let r := vs.lookup result nodename
    let retval := r.1
    let vnode := r.2.getD vnode0
    let s : RefState :=
      match r.2 with
      | some v => if retval = .zero ∨ (retval = .EDOM ∧ edom_ref = true) then handover s v else s
      | none => s
    let s : RefState := if retval = .zero then vrele s orig_vn else s
    if retval ≠ .zero ∧ retval ≠ .EDOM then some (s, .inl (retval, result))
    else if vnode = 0 then some (s, .inl (.ENOENT, result))
    else if retval = .EDOM ∧ nodename = [0x2E, 0x2E] ∧ l.prev vnode ≠ vnode then
      match get_base_vnode l (fuel + 1) vnode with
      | none => none
      | some base => lookup_again_ref vs edom_ref l nodename fuel (vref s base) base base
    else
      match get_top_vnode l (fuel + 1) vnode with
      | none => none
      | some top => some (vref (vrele s vnode) top, .inr top)

/-- The `do ... while` loop of `lookup_vnode` over the components, with the
reference counts. -/
def lookup_loop_ref (vs : Vnodes) (edom_ref : Bool) (l : MountLinks) (fuel : Nat) :
    List (List Nat) → RefState → Nat → Option (RefState × VfsRet × Nat)
  | [], s, result => some (s, .zero, result)
  | nodename :: rest, s, result =>
    if nodename = [0x2E] then lookup_loop_ref vs edom_ref l fuel rest s result
    else
      match lookup_again_ref vs edom_ref l nodename fuel s result 0 with
      | none => none
      | some (s, .inl e) => some (s, e)
      | some (s, .inr v) => lookup_loop_ref vs edom_ref l fuel rest s v

/-- Transcription of `lookup_vnode(result, root, str, oflags)` with the
reference counts: the counts and calls afterwards, the return value and the
vnode stored in `*result`. -/
def lookup_vnode_ref (c : VfsConsts) (vs : Vnodes) (edom_ref : Bool) (l : MountLinks) (fuel : Nat)
    (s : RefState) (root : Nat) (str : List Nat) (oflags : Nat) :
    Option (RefState × VfsRet × Option Nat) :=
  if root = 0 ∨ vs.has_ops root = false then some (s, .EINVAL, none)
  else if vs.nomem then some (s, .ENOMEM, none)
  else
    match kstrtok_all (str.take c.PATH_MAX) with
    | [] => some (s, .EINVAL, none)
    | toks =>
      match lookup_loop_ref vs edom_ref l fuel toks (vref s root) root with
      | none => none
      | some (s, e, v) =>
        if e ≠ .zero then some (s, e, some v)
        else if oflags &&& c.O_DIRECTORY ≠ 0 ∧ c.S_ISDIR (vs.vn_mode v) = false then
          some (vrele s v, .ENOTDIR, some v)
        else some (s, .zero, some v)

/-- Constants for the examples: `PATH_MAX = 4096`, `O_DIRECTORY = 0x20`, the
other flags unused. -/
def exConsts : VfsConsts :=
  { PATH_MAX := 4096, O_DIRECTORY := 0x20, O_ACCMODE := 3, AT_FDARG := 0x40,
    AT_SYMLINK_NOFOLLOW := 0x100, R_OK := 4, W_OK := 2, X_OK := 1,
    S_IRUSR := 0x100, S_IRGRP := 0x20, S_IROTH := 4, S_IWUSR := 0x80, S_IWGRP := 0x10,
    S_IWOTH := 2, S_IXUSR := 0x40, S_IXGRP := 8, S_IXOTH := 1,
    S_ISDIR := fun m => m &&& 0xF000 = 0x4000 }

/-- Mount links without any mount: every vnode is its own neighbour. -/
def noMounts : MountLinks := ⟨fun v => v, fun v => v⟩

/-- A directory, vnode 1, with the entry `a`, vnode 2; every other name is
answered with a driver error -2 and no vnode. -/
def oneChild : Vnodes :=
  { has_ops := fun _ => true,
    lookup := fun dir name =>
      if dir = 1 ∧ name = [0x61] then (.zero, some 2) else (.driver (-2), none),
    vn_mode := fun _ => 0x4000,
    nomem := false }

/-- Reference counts before a lookup in `oneChild`: the directory is held
once, the child is not in memory (count 0 before the driver hands it
over). -/
def oneChildRefs : RefState := ⟨fun v => if v = 1 then 1 else 0, []⟩

/-- A file system mounted on vnode 3: its root is vnode 1, whose `..` is
answered with `-EDOM` and the root itself; `..` of vnode 3 is the directory 4. -/
def mountedRoot : Vnodes :=
  { has_ops := fun _ => true,
    lookup := fun dir name =>
      if dir = 1 ∧ name = [0x2E, 0x2E] then (.EDOM, some 1)
      else if dir = 3 ∧ name = [0x2E, 0x2E] then (.zero, some 4)
      else (.driver (-2), none),
    vn_mode := fun _ => 0x4000,
    nomem := false }

/-- The mount links of `mountedRoot`: vnode 1 is stacked on vnode 3. -/
def mountedLinks : MountLinks :=
  ⟨fun v => if v = 3 then 1 else v, fun v => if v = 1 then 3 else v⟩

/-- Reference counts before a lookup in `mountedRoot`: the vnodes 1, 3 and 4
are held 5 times each. -/
def mountedRefs : RefState := ⟨fun _ => 5, []⟩

/-! ## File descriptors (`fs.c`) -/

/-- The fields of `file_t` that `fs_fildes_ref` uses. -/
structure FileRec where
  refcount : Int
  vnode : Nat
  kfreeable : Bool
  deriving DecidableEq, Repr

/-- The process file table `files_t`: the field `count` and the pointer
words `files->fd[i]` for every index `i`, those outside `0 .. count - 1`
being the memory around the array (`none` is a null pointer). -/
structure FilesTable where
  count : Int
  fd : Int → Option FileRec

/-- What `fs_fildes_ref` returns and does: the table afterwards, the file
returned (`none` for `NULL`), the indices `i` for which `files->fd[i]` was
read and written, whether the record was freed, and the vnode released. -/
structure FildesRef where
  files : FilesTable
  file : Option FileRec
  reads : List Int
  writes : List Int
  kfreed : Bool
  released : Option Nat

/-- Transcription of `fs_fildes_ref(files, fd, count)` for non-null `files`.
The declaration of `files_t` is not part of the sources at hand:
`count_signed` tells whether the field `count` has a signed type, so that
`fd >= files->count` compares as `int`, or an unsigned 32-bit type, so that
`fd` is converted to unsigned first. `atomic_add` gives back the count from
before the addition. -/
def fs_fildes_ref (count_signed : Bool) (files : FilesTable) (fd : Int) (count : Int) : FildesRef :=
  if (if count_signed then fd ≥ files.count else fd % 4294967296 ≥ files.count) then
    ⟨files, none, [], [], false, none⟩
  else
    match files.fd fd with
    | none => ⟨files, none, [fd], [], false, none⟩
    | some file =>
      let old_refcount := file.refcount
      let file : FileRec := { file with refcount := old_refcount + count }
      if old_refcount + count ≤ 0 then
        ⟨{ files with fd := Function.update files.fd fd none }, none, [fd], [fd],
          file.kfreeable, some file.vnode⟩
      else
        ⟨{ files with fd := Function.update files.fd fd (some file) }, some file, [fd], [],
          false, none⟩

/-- A file table with one slot holding an open file on vnode 7; the word in
front of the array, `fd[-1]`, holds the address of a record on vnode 9. -/
def exFiles : FilesTable :=
  ⟨1, fun i => if i = 0 then some ⟨1, 7, true⟩ else if i = -1 then some ⟨1, 9, false⟩ else none⟩

/-- A FAT12 volume with two clusters that form a loop: the entry of cluster 2
is 3 and the entry of cluster 3 is 2. -/
def cycleVol : FATFS :=
  { exVol with n_fatent := 4, free_clust := 0,
               disk := mkDisk fun s => if s = 1 then bytes [0xF8, 0xFF, 0xFF, 0x03, 0x20, 0x00]
                                       else fun _ => 0 }

/-! ## Rename -/

/-- The volume `fs1` is `fs` after accesses to the FAT: the device status is
the same, the window is where it was or on a sector of the first FAT copy,
and the sectors outside the FAT copies read the same. -/
def FATFS.fatRel (fs fs1 : FATFS) : Prop :=
  fs1.disk.stat = fs.disk.stat ∧
  (fs1.winsect = fs.winsect ∨ (fs.fatbase ≤ fs1.winsect ∧ fs1.winsect < fs.fatbase + fs.fsize)) ∧
  ∀ s k, (s < fs.fatbase ∨ fs.fatbase + fs.n_fats * fs.fsize ≤ s) → view fs1 s k = view fs s k

/-- The window of `x` is where the window of `fs` is, or on a sector of the
first FAT copy of `fs`. -/
def winAt (fs x : FATFS) : Prop :=
  x.winsect = fs.winsect ∨ (fs.fatbase ≤ x.winsect ∧ x.winsect < fs.fatbase + fs.fsize)

/-- A volume on which file data can be transferred: a well-formed FAT whose
end-of-chain value is not a cluster number, a cluster size that is a power of
two up to 128 sectors, a sector size that is a power of two below 65536, the
FAT copies before the data area, the data area inside the 32-bit sector
space, an initialised drive and a volume mutex that can be taken. -/
structure FATFS.dataOk (fs : FATFS) : Prop where
  fat : fs.fatOk
  bytes : fs.bytesOk
  hmax : (fs.fs_type = FS_FAT12 → fs.n_fatent ≤ 0xFFF) ∧
      (fs.fs_type = FS_FAT16 → fs.n_fatent ≤ 0xFFFF) ∧
      (fs.fs_type = FS_FAT32 → fs.n_fatent ≤ 0x0FFFFFFF)
  csize_pow : ∃ k, k ≤ 7 ∧ fs.csize = 2 ^ k
  ssize_pow : ∃ j, j ≤ 15 ∧ fs.ssize = 2 ^ j
  fat_before : fs.fatbase + fs.n_fats * fs.fsize ≤ fs.database
  data_end : fs.database + (fs.n_fatent - 2) * fs.csize ≤ 4294967296
  ready : fs.disk.stat &&& STA_NOINIT = 0
  lockable : fs.sobj_timeout = false

/-- The sector `s` belongs to a cluster of the list `L`. -/
def inChain (fs : FATFS) (L : List Nat) (s : Nat) : Prop :=
  ∃ c k, c ∈ L ∧ k < fs.csize ∧ s = fs.database + (c - 2) * fs.csize + k

/-- The device sector that holds sector `i` of a file whose cluster chain is
`L`. -/
def secAt (fs : FATFS) (L : List Nat) (i : Nat) : Nat :=
  fs.database + (L.getD (i / fs.csize) 0 - 2) * fs.csize + i % fs.csize

/-- The device sector that holds byte `p` of a file whose cluster chain is
`L`. -/
def secOf (fs : FATFS) (L : List Nat) (p : Nat) : Nat := secAt fs L (p / fs.ssize)

/-- The fields of the volume object that describe the layout of the volume
and its identity. -/
def FATFS.geo (fs : FATFS) :=
  (fs.fs_type, fs.csize, fs.n_fats, fs.id, fs.ssize, fs.readonly, fs.sobj_timeout, fs.n_fatent,
   fs.fsize, fs.fatbase, fs.database)

/-- Byte `k` of sector `s` as the file object sees it: the byte in its sector
cache when the cache holds that sector, the byte on the device otherwise. -/
def cdata (fs : FATFS) (fp : FF_FIL) (s k : Nat) : Nat :=
  if s = fp.dsect then fp.buf k else fs.disk.data s k

/-- Byte `p` of the file with cluster chain `L`, as the file object sees
it. -/
def fileByte (fs : FATFS) (fp : FF_FIL) (L : List Nat) (p : Nat) : Nat :=
  cdata fs fp (secOf fs L p) (p % fs.ssize)

/-- A file object open for reading and writing on the volume `fs`, whose
cluster chain is `L`; the clause that ties `fp->clust` to the file pointer is
left to `FilOk`. The window of the volume holds no sector of the chain or of
a free cluster; the sector cache of the file object is empty (`dsect` is 0)
or holds a sector of the chain, and agrees with the device when it is
clean. -/
structure FilBase (fs : FATFS) (fp : FF_FIL) (L : List Nat) : Prop where
  vol : fs.dataOk
  fsnz : fp.fs ≠ 0
  idok : fs.id = fp.id
  noerr : fp.err = 0
  rd : fp.flag &&& FA_READ ≠ 0
  wr : fp.flag &&& FA_WRITE ≠ 0
  fsize32 : fp.fsize < 4294967296
  cached : fp.dsect ≠ 0 → inChain fs L fp.dsect
  nodup : L.Nodup
  inrange : ∀ c ∈ L, 2 ≤ c ∧ c < fs.n_fatent
  chain : isChain fs L
  head : fp.sclust = L.headD 0
  clean : fp.flag &&& FA__DIRTY = 0 → fp.dsect ≠ 0 →
    ∀ k, k < fs.ssize → fp.buf k = fs.disk.data fp.dsect k
  dirty : fp.flag &&& FA__DIRTY ≠ 0 → fp.dsect ≠ 0
  bufb : ∀ k, fp.buf k < 256
  win : ∀ c k, 2 ≤ c → c < fs.n_fatent → (c ∈ L ∨ fatVal fs c = 0) → k < fs.csize →
    fs.database + (c - 2) * fs.csize + k ≠ fs.winsect
  fptr_le : fp.fptr ≤ L.length * (fs.csize * fs.ssize)
  cur : fp.fptr % fs.ssize ≠ 0 → fp.dsect = secOf fs L fp.fptr

/-- A file object open for reading and writing on the volume `fs`, whose
cluster chain is `L` and whose file pointer lies inside the chain:
`fp->clust` is the cluster of the byte before the file pointer. -/
structure FilOk (fs : FATFS) (fp : FF_FIL) (L : List Nat) : Prop where
  base : FilBase fs fp L
  clust : 0 < fp.fptr → fp.clust = L.getD ((fp.fptr - 1) / (fs.csize * fs.ssize)) 0

/-- The invariant of the write loop of `f_write`: the caller's buffer is
`buff`, the loop has stored the bytes `buff[0 .. off)` at the file offsets
`O .. O + off`, `T` bytes are to be written in total, and the file size is
still `fsz`. -/
def WriteInv (buff : Nat → Nat) (O T fsz : Nat) (st : RWState) (L : List Nat) : Prop :=
  st.buff = buff ∧ st.fp.fptr = O + st.off ∧ st.cnt = st.off ∧ st.off + st.todo = T ∧
  st.fp.fsize = fsz ∧
  ∀ p, O ≤ p → p < st.fp.fptr → fileByte st.fs st.fp L p = buff (p - O)

/-- The outcome of the write loop of `f_write`: an abort with an error, or a
loop exit at which the written and the remaining bytes add up to `T`; when
nothing remains, the file object is well formed with the file pointer at
`O + T` and the file holds the `T` bytes of `buff` from offset `O` on. -/
def WritePost (buff : Nat → Nat) (O T fsz : Nat) : (RWState × FRESULT) ⊕ RWState → Prop
  | .inl (_, e) => e ≠ FR_OK
  | .inr st => st.cnt + st.todo = T ∧
      (st.todo = 0 → ∃ L, FilOk st.fs st.fp L ∧ st.fp.fptr = O + T ∧ st.fp.fsize = fsz ∧
        ∀ p, O ≤ p → p < O + T → fileByte st.fs st.fp L p = buff (p - O))

/-- The invariant of the read loop of `f_read`: the file holds the bytes `C`,
the loop has copied the bytes at the file offsets `O .. O + off` to the
caller's buffer, `T` bytes are to be read in total, and the range to read
lies inside the cluster chain. -/
def ReadInv (C : Nat → Nat) (O T : Nat) (st : RWState) (L : List Nat) : Prop :=
  st.fp.fptr = O + st.off ∧ st.cnt = st.off ∧ st.off + st.todo = T ∧
  O + T ≤ L.length * (st.fs.csize * st.fs.ssize) ∧
  (∀ p, p < L.length * (st.fs.csize * st.fs.ssize) → fileByte st.fs st.fp L p = C p) ∧
  ∀ k, k < st.off → st.buff k = C (O + k)

/-- The outcome of the read loop of `f_read`: a loop exit (no abort) with
`T` bytes counted and the bytes `C` of the file from offset `O` on in the
caller's buffer. -/
def ReadPost (C : Nat → Nat) (O T : Nat) : (RWState × FRESULT) ⊕ RWState → Prop
  | .inl _ => False
  | .inr st => st.cnt = T ∧ ∀ k, k < T → st.buff k = C (O + k)

/-- A file object on the volume `oneFreeVol`, open for reading and writing on
a file of 510 bytes in cluster 2, with the file pointer at the end of the
file and the (clean) sector cache on the sector of that cluster. -/
def tailFil : FF_FIL :=
  { exFil with fs := exAddr, id := 1, flag := FA_READ ||| FA_WRITE, fptr := 510, fsize := 510,
               sclust := 2, clust := 2, dsect := 3 }

/-! ## Auxiliary notions for statements about mounting -/

/-- The probe of `find_volume` as it runs when the volume `fs` is mounted on
a device with sector size `ss`: the volume object after the probe, the
sector number `bsect` and the value `fmt`. -/
def find_volume_boot (ld2pt : Nat) (fs : FATFS) (ss : Nat) : FATFS × Nat × Nat :=
  find_volume_probe ld2pt { { (lock_fs fs).1 with fs_type := 0 } with ssize := ss }

/-- The boot sector that `find_volume` parses: the window after the probe. -/
def find_volume_bpb (ld2pt : Nat) (fs : FATFS) (ss : Nat) : Nat → Nat :=
  (find_volume_boot ld2pt fs ss).1.win

/-- A boot sector for 512-byte sectors with one sector per cluster, one
reserved sector and one FAT: root-entry count `re`, FAT size `f16` in
`BPB_FATSz16` and `f32` in `BPB_FATSz32`, `BPB_TotSec32 = ts`, root cluster
2, the string `FAT` at `BS_FilSysType32` and the signature `0xAA55`. -/
def bootOf (re f16 f32 ts : Nat) : Nat → Nat := fun i =>
  if i = 510 then 0x55 else if i = 511 then 0xAA
  else if i = 82 then 0x46 else if i = 83 then 0x41 else if i = 84 then 0x54
  else bytes [0, 0, 0, 0, 0, 0, 0, 0, 0, 0, 0, 0x00, 0x02, 1, 1, 0, 1,
              re % 256, re / 256 % 256, 0, 0, 0, f16 % 256, f16 / 256 % 256,
              0, 0, 0, 0, 0, 0, 0, 0,
              ts % 256, ts / 256 % 256, ts / 65536 % 256, ts / 16777216 % 256,
              f32 % 256, f32 / 256 % 256, f32 / 65536 % 256, f32 / 16777216 % 256,
              0, 0, 0, 0, 2, 0, 0, 0] i

/-- An unmounted volume object on a device whose sector 0 is `boot` and whose
other sectors are blank. -/
def volOf (boot : Nat → Nat) : FATFS :=
  { exVol with fs_type := 0, disk := mkDisk fun s => if s = 0 then boot else fun _ => 0 }

/-! ## Ghost trace of `dir_register` -/

/-- The part of `dir_register(dp)` after `dir_alloc`, whose result is `r`:
the LFN entries and the short entry. `lfnb` is the LFN buffer and `nent` the
number of entries the name needs. -/
def dir_register_fill (lfnb : Nat → Nat) (nent : Nat) (fs : FATFS) (dp : FF_DIR) (r : FRESULT) :
    Option (FATFS × FF_DIR × FRESULT) :=
  let nent := nent - 1
  let lfnStage : Option (FATFS × FF_DIR × FRESULT) :=
    if r = FR_OK ∧ nent ≠ 0 then
      match dir_sdi fs dp (sub32 dp.index nent) with
      | none => none
      | some (fs, dp, r) =>
        if r = FR_OK then dir_register_lfn lfnb (sum_sfn dp.fn) nent fs dp nent
        else some (fs, dp, r)
    else some (fs, dp, r)
  match lfnStage with
  | none => none
  | some (fs, dp, r) =>
    if r = FR_OK then
      let m := move_window fs dp.sect
      if m.2 = FR_OK then
        some ({ putEntry m.1 dp (sfn_entry (dirEntry m.1 dp) dp.fn) with wflag := 1 }, dp, FR_OK)
      else some (m.1, dp, m.2)
    else some (fs, dp, r)

/-- The part of `dir_register(dp)` after the short name is settled:
`dir_alloc`, then the LFN entries and the short entry. -/
def dir_register_store (lfnb : Nat → Nat) (nent : Nat) (fs : FATFS) (dp : FF_DIR) :
    Option (FATFS × FF_DIR × FRESULT) :=
  match dir_alloc fs dp nent with
  | none => none
  | some (fs, dp, r) => dir_register_fill lfnb nent fs dp r

/-- The volume `fs1` is `fs` after directory operations that leave the
first FAT copy and the sectors before it alone: a good volume with the same
fields in which those sectors read the same. -/
def FATFS.sysRel (fs fs1 : FATFS) : Prop :=
  fs1.good ∧ fs1.meta = fs.meta ∧ ∀ s k, s < fs.fatbase + fs.fsize → view fs1 s k = view fs s k

/-- The directory object `dp` set to entry `i` of a directory, which lies in
cluster `c` and sector `s`. -/
def FF_DIR.setAt (dp : FF_DIR) (fs : FATFS) (c s i : Nat) : FF_DIR :=
  { dp with index := i, clust := c, sect := s, dir := some (rootOff fs i) }

/-- The 32 bytes of the directory entry with index `i` in sector `s`, as the
driver sees them. -/
def entryAt (fs : FATFS) (s i : Nat) : List Nat :=
  (List.range SZ_DIR).map fun k => view fs s (rootOff fs i + k)

/-- A directory of `cap` entries (start cluster `sclust`, 0 for the root)
whose entry `i` lies in cluster `clustOf i` and sector `sectOf i`, on the
volume `fs0` and on every volume that differs from it outside the first FAT
copy only: the sectors lie behind the FAT copies, different entries lie at
different places, `dir_sdi` finds every entry and `dir_next` steps from each
entry to the next. -/
structure DirWalk (fs0 : FATFS) (sclust cap : Nat) (clustOf sectOf : Nat → Nat) : Prop where
  good : fs0.good
  cap_le : cap ≤ 65536
  persect : 0 < fs0.ssize / SZ_DIR
  sect_lt : ∀ i, i < cap → sectOf i < 4294967296
  behind : ∀ i, i < cap → fs0.fatbase + fs0.n_fats * fs0.fsize ≤ sectOf i
  inj : ∀ i j, i < cap → j < cap → sectOf i = sectOf j →
    i % (fs0.ssize / SZ_DIR) = j % (fs0.ssize / SZ_DIR) → i = j
  sdi : ∀ (fs1 : FATFS) (dp : FF_DIR) (i : Nat), fs0.sysRel fs1 → dp.sclust = sclust → i < cap →
    ∃ fs2, dir_sdi fs1 dp i = some (fs2, dp.setAt fs0 (clustOf i) (sectOf i) i, FR_OK) ∧
      fs1.moved fs2
  next : ∀ (fs1 : FATFS) (dp : FF_DIR) (i : Nat) (s : Bool), fs0.sysRel fs1 → i + 1 < cap →
    ∃ fs2, dir_next fs1 (dp.setAt fs0 (clustOf i) (sectOf i) i) s =
        some (fs2, dp.setAt fs0 (clustOf (i + 1)) (sectOf (i + 1)) (i + 1), FR_OK) ∧
      fs1.moved fs2

/-- The number of directory entries in a cluster. -/
def dirIc (fs : FATFS) : Nat := fs.ssize / SZ_DIR * fs.csize

/-- The cluster of entry `i` of a directory whose cluster chain is `L`. -/
def chainClust (fs : FATFS) (L : List Nat) (i : Nat) : Nat := L.getD (i / dirIc fs) 0

/-- The sector of entry `i` of a directory whose cluster chain is `L`. -/
def chainSect (fs : FATFS) (L : List Nat) (i : Nat) : Nat :=
  fs.database + (chainClust fs L i - 2) * fs.csize + i % dirIc fs / (fs.ssize / SZ_DIR)

/-- A directory held in the cluster chain `L` (a sub-directory with start
cluster `sclust`, or the root directory of a FAT32 volume with `sclust = 0`)
on a volume with a well-formed FAT: the chain starts at the start cluster,
its clusters are in range and pairwise different, the FAT links each to the
next and marks the last as the end of the chain; the end-of-chain value is
not a cluster number, the cluster size is a power of two up to 128 sectors,
a sector holds at least one entry, and the data area lies behind the FAT
copies inside the 32-bit sector space. -/
structure ChainOk (fs : FATFS) (sclust : Nat) (L : List Nat) : Prop where
  fat : fs.fatOk
  hmax : (fs.fs_type = FS_FAT12 → fs.n_fatent ≤ 0xFFF) ∧
      (fs.fs_type = FS_FAT16 → fs.n_fatent ≤ 0xFFFF) ∧
      (fs.fs_type = FS_FAT32 → fs.n_fatent ≤ 0x0FFFFFFF)
  csize_pow : ∃ k, k ≤ 7 ∧ fs.csize = 2 ^ k
  persect : 0 < fs.ssize / SZ_DIR
  fat_before : fs.fatbase + fs.n_fats * fs.fsize ≤ fs.database
  data_end : fs.database + (fs.n_fatent - 2) * fs.csize ≤ 4294967296
  start : L.head? = some (if sclust = 0 ∧ fs.fs_type = FS_FAT32 then fs.dirbase else sclust)
  nodup : L.Nodup
  inrange : ∀ c ∈ L, 2 ≤ c ∧ c < fs.n_fatent
  chain : isChain fs L

/-- A directory on the volume `fs`: the static root directory of a FAT12 or
FAT16 volume (`L` is empty) or a directory held in the cluster chain `L`,
on a volume whose bytes are bytes. -/
def DirOk (fs : FATFS) (sclust : Nat) (L : List Nat) : Prop :=
  (L = [] ∧ sclust = 0 ∧ fs.rootOk) ∨ (ChainOk fs sclust L ∧ fs.bytesOk)

/-- The number of entries of a directory that the 16-bit index reaches. -/
def dirCap (fs : FATFS) (L : List Nat) : Nat :=
  if L = [] then fs.n_rootdir else min (L.length * dirIc fs) 65536

/-- The sector of entry `i` of a directory. -/
def dirSect (fs : FATFS) (L : List Nat) (i : Nat) : Nat :=
  if L = [] then rootSect fs i else chainSect fs L i

/-- The 32 bytes of entry `i` of a directory, as the driver sees them. -/
def dirEnt (fs : FATFS) (L : List Nat) (i : Nat) : List Nat := entryAt fs (dirSect fs L i) i

/-- The example volume with a sub-directory `D` in cluster 2 whose 16
entries are all in use (each holds the short name `A` with the archive
attribute); cluster 3 and the clusters after it are free. -/
def fullSubVol : FATFS :=
  { exVol with
      disk := mkDisk fun s =>
        if s = 1 then bytes [0xF8, 0xFF, 0xFF, 0xFF, 0x0F, 0x00]
        else if s = 2 then
          bytes [0x44, 0x20, 0x20, 0x20, 0x20, 0x20, 0x20, 0x20, 0x20, 0x20, 0x20, 0x10,
                 0, 0, 0, 0, 0, 0, 0, 0, 0, 0, 0, 0, 0, 0, 2, 0, 0, 0, 0, 0]
        else if s = 3 then fun k =>
          if k < 512 then
            bytes [0x41, 0x20, 0x20, 0x20, 0x20, 0x20, 0x20, 0x20, 0x20, 0x20, 0x20, 0x20,
                   0, 0, 0, 0, 0, 0, 0, 0, 0, 0, 0, 0, 0, 0, 0, 0, 0, 0, 0, 0] (k % 32)
          else 0
        else fun _ => 0 }

/-! # Theorems -/

/-! ## Lock table lemmas -/

theorem find_scan_none (dp : LockKey) (l : List FILESEM) (i : Nat)
    (h : ∀ f ∈ l, f.isObj dp = false) : find_scan dp l i = i + l.length := by
  induction l generalizing i with
  | nil => simp [find_scan]
  | cons f rest ih =>
    have hf := h f (List.mem_cons_self _ _)
    simp only [find_scan, hf, Bool.false_eq_true, if_false, List.length_cons]
    rw [ih _ (fun g hg => h g (List.mem_cons_of_mem _ hg))]
    omega

theorem blank_scan_lt (l : List FILESEM) (i : Nat) (h : ∃ f ∈ l, f.fs = 0) :
    blank_scan l i < i + l.length := by
  induction l generalizing i with
  | nil => simp at h
  | cons f rest ih =>
    simp only [blank_scan, List.length_cons]
    split
    · rename_i hf
      have : ∃ g ∈ rest, g.fs = 0 := by
        obtain ⟨g, hg, hg0⟩ := h
        rcases List.mem_cons.mp hg with rfl | hg
        · exact absurd hg0 hf
        · exact ⟨g, hg, hg0⟩
      have := ih (i + 1) this
      omega
    · omega

theorem inc_dec_lock (Files : List FILESEM) (dp : LockKey) (acc : Nat)
    (hlen : Files.length < 4294967296)
    (hnone : ∀ f ∈ Files, f.isObj dp = false)
    (hblank : ∃ f ∈ Files, f.fs = 0)
    (hacc : acc = 0 ∨ acc = 1) :
    (inc_lock Files dp acc).2 ≠ 0 ∧
    (dec_lock (inc_lock Files dp acc).1 (inc_lock Files dp acc).2).2 = FR_OK ∧
    (dec_lock (inc_lock Files dp acc).1 (inc_lock Files dp acc).2).1
      = Files.set ((inc_lock Files dp acc).2 - 1) ⟨0, dp.sclust, dp.index, 0⟩ ∧
    (inc_lock Files dp acc).2 - 1 < Files.length := by
  have h1 := find_scan_none dp Files 0 hnone
  have h2 := blank_scan_lt Files 0 hblank
  simp only [Nat.zero_add] at h1 h2
  have hj : blank_scan Files 0 ≠ Files.length := by omega
  have hinc : inc_lock Files dp acc =
      ((Files.set (blank_scan Files 0) ⟨dp.fs, dp.sclust, dp.index, 0⟩).set (blank_scan Files 0)
        ⟨dp.fs, dp.sclust, dp.index, if acc ≠ 0 then 0x100 else 1⟩, blank_scan Files 0 + 1) := by
    simp only [inc_lock, h1, if_true, hj, if_false]
    rw [List.getD_eq_getElem _ _ (by simpa using h2)]
    simp
  rw [hinc]
  refine ⟨by simp, ?_, ?_, by simpa using h2⟩
  · simp only [dec_lock]
    have : (blank_scan Files 0 + 1 + 4294967295) % 4294967296 = blank_scan Files 0 := by omega
    rw [this]
    simp [h2]
  · simp only [dec_lock]
    have : (blank_scan Files 0 + 1 + 4294967295) % 4294967296 = blank_scan Files 0 := by omega
    rw [this]
    simp only [List.length_set, h2, if_true, Nat.add_sub_cancel]
    rw [List.getD_eq_getElem _ _ (by simpa using h2)]
    rcases hacc with rfl | rfl <;> simp

/-! ## Frame lemmas for the sector window -/

@[simp] theorem sync_window_fs_type (fs : FATFS) : (sync_window fs).1.fs_type = fs.fs_type := by
  unfold sync_window
  dsimp only
  repeat' (first | split_ifs | split)
  all_goals rfl

@[simp] theorem sync_window_csize (fs : FATFS) : (sync_window fs).1.csize = fs.csize := by
  unfold sync_window
  dsimp only
  repeat' (first | split_ifs | split)
  all_goals rfl

@[simp] theorem sync_window_n_fats (fs : FATFS) : (sync_window fs).1.n_fats = fs.n_fats := by
  unfold sync_window
  dsimp only
  repeat' (first | split_ifs | split)
  all_goals rfl

@[simp] theorem sync_window_fsi_flag (fs : FATFS) : (sync_window fs).1.fsi_flag = fs.fsi_flag := by
  unfold sync_window
  dsimp only
  repeat' (first | split_ifs | split)
  all_goals rfl

@[simp] theorem sync_window_id (fs : FATFS) : (sync_window fs).1.id = fs.id := by
  unfold sync_window
  dsimp only
  repeat' (first | split_ifs | split)
  all_goals rfl

@[simp] theorem sync_window_n_rootdir (fs : FATFS) : (sync_window fs).1.n_rootdir = fs.n_rootdir := by
  unfold sync_window
  dsimp only
  repeat' (first | split_ifs | split)
  all_goals rfl

@[simp] theorem sync_window_ssize (fs : FATFS) : (sync_window fs).1.ssize = fs.ssize := by
  unfold sync_window
  dsimp only
  repeat' (first | split_ifs | split)
  all_goals rfl

@[simp] theorem sync_window_readonly (fs : FATFS) : (sync_window fs).1.readonly = fs.readonly := by
  unfold sync_window
  dsimp only
  repeat' (first | split_ifs | split)
  all_goals rfl

@[simp] theorem sync_window_sobj (fs : FATFS) : (sync_window fs).1.sobj = fs.sobj := by
  unfold sync_window
  dsimp only
  repeat' (first | split_ifs | split)
  all_goals rfl

@[simp] theorem sync_window_sobj_timeout (fs : FATFS) : (sync_window fs).1.sobj_timeout = fs.sobj_timeout := by
  unfold sync_window
  dsimp only
  repeat' (first | split_ifs | split)
  all_goals rfl

@[simp] theorem sync_window_last_clust (fs : FATFS) : (sync_window fs).1.last_clust = fs.last_clust := by
  unfold sync_window
  dsimp only
  repeat' (first | split_ifs | split)
  all_goals rfl

@[simp] theorem sync_window_free_clust (fs : FATFS) : (sync_window fs).1.free_clust = fs.free_clust := by
  unfold sync_window
  dsimp only
  repeat' (first | split_ifs | split)
  all_goals rfl

@[simp] theorem sync_window_n_fatent (fs : FATFS) : (sync_window fs).1.n_fatent = fs.n_fatent := by
  unfold sync_window
  dsimp only
  repeat' (first | split_ifs | split)
  all_goals rfl

@[simp] theorem sync_window_fsize (fs : FATFS) : (sync_window fs).1.fsize = fs.fsize := by
  unfold sync_window
  dsimp only
  repeat' (first | split_ifs | split)
  all_goals rfl

@[simp] theorem sync_window_volbase (fs : FATFS) : (sync_window fs).1.volbase = fs.volbase := by
  unfold sync_window
  dsimp only
  repeat' (first | split_ifs | split)
  all_goals rfl

@[simp] theorem sync_window_fatbase (fs : FATFS) : (sync_window fs).1.fatbase = fs.fatbase := by
  unfold sync_window
  dsimp only
  repeat' (first | split_ifs | split)
  all_goals rfl

@[simp] theorem sync_window_dirbase (fs : FATFS) : (sync_window fs).1.dirbase = fs.dirbase := by
  unfold sync_window
  dsimp only
  repeat' (first | split_ifs | split)
  all_goals rfl

@[simp] theorem sync_window_database (fs : FATFS) : (sync_window fs).1.database = fs.database := by
  unfold sync_window
  dsimp only
  repeat' (first | split_ifs | split)
  all_goals rfl

@[simp] theorem sync_window_win (fs : FATFS) : (sync_window fs).1.win = fs.win := by
  unfold sync_window
  dsimp only
  repeat' (first | split_ifs | split)
  all_goals rfl

@[simp] theorem sync_window_winsect (fs : FATFS) : (sync_window fs).1.winsect = fs.winsect := by
  unfold sync_window
  dsimp only
  repeat' (first | split_ifs | split)
  all_goals rfl

@[simp] theorem move_window_fs_type (fs : FATFS) (s : Nat) : (move_window fs s).1.fs_type = fs.fs_type := by
  unfold move_window
  dsimp only
  repeat' (first | split_ifs | split)
  all_goals first | rfl | exact sync_window_fs_type fs

@[simp] theorem move_window_csize (fs : FATFS) (s : Nat) : (move_window fs s).1.csize = fs.csize := by
  unfold move_window
  dsimp only
  repeat' (first | split_ifs | split)
  all_goals first | rfl | exact sync_window_csize fs

@[simp] theorem move_window_n_fats (fs : FATFS) (s : Nat) : (move_window fs s).1.n_fats = fs.n_fats := by
  unfold move_window
  dsimp only
  repeat' (first | split_ifs | split)
  all_goals first | rfl | exact sync_window_n_fats fs

@[simp] theorem move_window_fsi_flag (fs : FATFS) (s : Nat) : (move_window fs s).1.fsi_flag = fs.fsi_flag := by
  unfold move_window
  dsimp only
  repeat' (first | split_ifs | split)
  all_goals first | rfl | exact sync_window_fsi_flag fs

@[simp] theorem move_window_id (fs : FATFS) (s : Nat) : (move_window fs s).1.id = fs.id := by
  unfold move_window
  dsimp only
  repeat' (first | split_ifs | split)
  all_goals first | rfl | exact sync_window_id fs

@[simp] theorem move_window_n_rootdir (fs : FATFS) (s : Nat) : (move_window fs s).1.n_rootdir = fs.n_rootdir := by
  unfold move_window
  dsimp only
  repeat' (first | split_ifs | split)
  all_goals first | rfl | exact sync_window_n_rootdir fs

@[simp] theorem move_window_ssize (fs : FATFS) (s : Nat) : (move_window fs s).1.ssize = fs.ssize := by
  unfold move_window
  dsimp only
  repeat' (first | split_ifs | split)
  all_goals first | rfl | exact sync_window_ssize fs

@[simp] theorem move_window_readonly (fs : FATFS) (s : Nat) : (move_window fs s).1.readonly = fs.readonly := by
  unfold move_window
  dsimp only
  repeat' (first | split_ifs | split)
  all_goals first | rfl | exact sync_window_readonly fs

@[simp] theorem move_window_sobj (fs : FATFS) (s : Nat) : (move_window fs s).1.sobj = fs.sobj := by
  unfold move_window
  dsimp only
  repeat' (first | split_ifs | split)
  all_goals first | rfl | exact sync_window_sobj fs

@[simp] theorem move_window_sobj_timeout (fs : FATFS) (s : Nat) : (move_window fs s).1.sobj_timeout = fs.sobj_timeout := by
  unfold move_window
  dsimp only
  repeat' (first | split_ifs | split)
  all_goals first | rfl | exact sync_window_sobj_timeout fs

@[simp] theorem move_window_last_clust (fs : FATFS) (s : Nat) : (move_window fs s).1.last_clust = fs.last_clust := by
  unfold move_window
  dsimp only
  repeat' (first | split_ifs | split)
  all_goals first | rfl | exact sync_window_last_clust fs

@[simp] theorem move_window_free_clust (fs : FATFS) (s : Nat) : (move_window fs s).1.free_clust = fs.free_clust := by
  unfold move_window
  dsimp only
  repeat' (first | split_ifs | split)
  all_goals first | rfl | exact sync_window_free_clust fs

@[simp] theorem move_window_n_fatent (fs : FATFS) (s : Nat) : (move_window fs s).1.n_fatent = fs.n_fatent := by
  unfold move_window
  dsimp only
  repeat' (first | split_ifs | split)
  all_goals first | rfl | exact sync_window_n_fatent fs

@[simp] theorem move_window_fsize (fs : FATFS) (s : Nat) : (move_window fs s).1.fsize = fs.fsize := by
  unfold move_window
  dsimp only
  repeat' (first | split_ifs | split)
  all_goals first | rfl | exact sync_window_fsize fs

@[simp] theorem move_window_volbase (fs : FATFS) (s : Nat) : (move_window fs s).1.volbase = fs.volbase := by
  unfold move_window
  dsimp only
  repeat' (first | split_ifs | split)
  all_goals first | rfl | exact sync_window_volbase fs

@[simp] theorem move_window_fatbase (fs : FATFS) (s : Nat) : (move_window fs s).1.fatbase = fs.fatbase := by
  unfold move_window
  dsimp only
  repeat' (first | split_ifs | split)
  all_goals first | rfl | exact sync_window_fatbase fs

@[simp] theorem move_window_dirbase (fs : FATFS) (s : Nat) : (move_window fs s).1.dirbase = fs.dirbase := by
  unfold move_window
  dsimp only
  repeat' (first | split_ifs | split)
  all_goals first | rfl | exact sync_window_dirbase fs

@[simp] theorem move_window_database (fs : FATFS) (s : Nat) : (move_window fs s).1.database = fs.database := by
  unfold move_window
  dsimp only
  repeat' (first | split_ifs | split)
  all_goals first | rfl | exact sync_window_database fs

/-! ## Mounting lemmas -/

theorem check_fs_fs_type (fs : FATFS) (s : Nat) : (check_fs fs s).1.fs_type = fs.fs_type := by
  unfold check_fs
  dsimp only
  repeat' (first | split_ifs | split)
  all_goals simp

theorem find_volume_part_fs_type (ld2pt : Nat) (br : Nat → Nat) (n : Nat) (fs : FATFS) (i : Nat) :
    (find_volume_part ld2pt br n fs i).1.fs_type = fs.fs_type := by
  induction n generalizing fs i with
  | zero => rfl
  | succ n ih =>
    unfold find_volume_part
    dsimp only
    split_ifs <;> simp [ih, check_fs_fs_type]

theorem find_volume_init_cases (md : Module) (a : Nat) (fs : FATFS) (bsect : Nat) :
    ((find_volume_init md a fs bsect).2.2 = FR_OK ∧
      (find_volume_init md a fs bsect).2.1 =
        fv_mounted fs (bpb_fmt (bpb_nclst fs.win fs.ssize)) bsect ((md.Fsid + 1) % 65536) ∧
      (find_volume_init md a fs bsect).1 = ⟨(md.Fsid + 1) % 65536, clear_lock md.Files a⟩ ∧
      LD_WORD fs.win BPB_BytsPerSec = fs.ssize ∧
      (fs.win BPB_NumFATs = 1 ∨ fs.win BPB_NumFATs = 2) ∧
      (fs.win BPB_SecPerClus ≠ 0 ∧ fs.win BPB_SecPerClus &&& (fs.win BPB_SecPerClus - 1) = 0) ∧
      LD_WORD fs.win BPB_RootEntCnt % (fs.ssize / SZ_DIR) = 0 ∧
      LD_WORD fs.win BPB_RsvdSecCnt ≠ 0) ∨
    ((find_volume_init md a fs bsect).2.2 = FR_NO_FILESYSTEM ∧
     (find_volume_init md a fs bsect).2.1.fs_type = fs.fs_type ∧
     (find_volume_init md a fs bsect).1 = md) := by
  unfold find_volume_init
  dsimp only
  by_cases h1 : LD_WORD fs.win BPB_BytsPerSec ≠ fs.ssize
  · rw [if_pos h1]; right; exact ⟨rfl, rfl, rfl⟩
  rw [if_neg h1]
  by_cases h2 : fs.win BPB_NumFATs ≠ 1 ∧ fs.win BPB_NumFATs ≠ 2
  · rw [if_pos h2]; right; exact ⟨rfl, rfl, rfl⟩
  rw [if_neg h2]
  by_cases h3 : fs.win BPB_SecPerClus = 0 ∨ fs.win BPB_SecPerClus &&& (fs.win BPB_SecPerClus - 1) ≠ 0
  · rw [if_pos h3]; right; exact ⟨rfl, rfl, rfl⟩
  rw [if_neg h3]
  by_cases h4 : LD_WORD fs.win BPB_RootEntCnt % (fs.ssize / SZ_DIR) ≠ 0
  · rw [if_pos h4]; right; exact ⟨rfl, rfl, rfl⟩
  rw [if_neg h4]
  by_cases h5 : LD_WORD fs.win BPB_RsvdSecCnt = 0
  · rw [if_pos h5]; right; exact ⟨rfl, rfl, rfl⟩
  rw [if_neg h5]
  by_cases h6 : bpb_tsect fs.win < bpb_sysect fs.win fs.ssize
  · rw [if_pos h6]; right; exact ⟨rfl, rfl, rfl⟩
  rw [if_neg h6]
  by_cases h7 : bpb_nclst fs.win fs.ssize = 0
  · rw [if_pos h7]; right; exact ⟨rfl, rfl, rfl⟩
  rw [if_neg h7]
  by_cases h8 : bpb_fmt (bpb_nclst fs.win fs.ssize) = FS_FAT32 ∧ LD_WORD fs.win BPB_RootEntCnt ≠ 0
  · rw [if_pos h8]; right; exact ⟨rfl, rfl, rfl⟩
  rw [if_neg h8]
  by_cases h9 : bpb_fmt (bpb_nclst fs.win fs.ssize) ≠ FS_FAT32 ∧ LD_WORD fs.win BPB_RootEntCnt = 0
  · rw [if_pos h9]; right; exact ⟨rfl, rfl, rfl⟩
  rw [if_neg h9]
  by_cases h10 : bpb_fsize fs.win <
      add32 (bpb_szbfat (bpb_fmt (bpb_nclst fs.win fs.ssize)) (add32 (bpb_nclst fs.win fs.ssize) 2))
        (fs.ssize - 1) / fs.ssize
  · rw [if_pos h10]; right; exact ⟨rfl, rfl, rfl⟩
  rw [if_neg h10]
  left
  refine ⟨rfl, rfl, rfl, not_not.mp h1, ?_, ?_, not_not.mp h4, h5⟩
  · by_contra hc; exact h2 ⟨fun h => hc (Or.inl h), fun h => hc (Or.inr h)⟩
  · exact ⟨fun h => h3 (Or.inl h), by_contra fun h => h3 (Or.inr h)⟩

theorem find_volume_probe_fs_type (ld2pt : Nat) (fs : FATFS) :
    (find_volume_probe ld2pt fs).1.fs_type = fs.fs_type := by
  unfold find_volume_probe
  dsimp only
  split_ifs <;> simp [find_volume_part_fs_type, check_fs_fs_type]

theorem find_volume_mount_nofs (ld2pt : Nat) (md : Module) (a : Nat) (fs : FATFS) (wmode : Nat) :
    (find_volume_mount ld2pt md a fs wmode).2.2 = FR_NO_FILESYSTEM →
    (find_volume_mount ld2pt md a fs wmode).2.1.fs_type = 0 := by
  unfold find_volume_mount
  dsimp only
  split_ifs
  · intro h; exact absurd h (by simp)
  · intro h; exact absurd h (by simp)
  · split
    · intro h; exact absurd h (by simp)
    · split_ifs
      · intro h; exact absurd h (by simp)
      · intro h; exact absurd h (by simp)
      · intro _; simp [find_volume_probe_fs_type]
      · intro h
        rcases find_volume_init_cases md a _ _ with hc | hc
        · rw [hc.1] at h; exact absurd h (by simp)
        · rw [hc.2.1]; simp [find_volume_probe_fs_type]

theorem find_volume_nofs (ld2pt : Nat) (md : Module) (a : Nat) (fs : FATFS) (vol : Int) (wmode : Nat) :
    (find_volume ld2pt md a fs vol wmode).2.2 = FR_NO_FILESYSTEM →
    (find_volume ld2pt md a fs vol wmode).2.1.fs_type = 0 := by
  unfold find_volume
  split_ifs
  · intro h; exact absurd h (by simp)
  · intro h; exact absurd h (by simp)
  · intro h; exact absurd h (by simp)
  · intro h; exact absurd h (by simp)
  · exact find_volume_mount_nofs _ _ _ _ _

set_option maxRecDepth 100000

/-! ## Claims on the lock table -/

/-- C6: in a lock table where the object of `dp` has no occupied entry and some
slot is blank, `inc_lock(dp, acc)` with `acc` 0 or 1 returns a non-zero id;
`dec_lock` of that id returns `FR_OK`, leaves no occupied entry for the object,
leaves the slot blank with counter zero, and changes no other slot. -/
theorem C6_inc_dec_lock_roundtrip (Files : List FILESEM) (dp : LockKey) (acc : Nat)
    (hlen : Files.length < 4294967296) (hfs : dp.fs ≠ 0)
    (hnone : ∀ f ∈ Files, f.fs ≠ 0 → f.isObj dp = false)
    (hblank : ∃ f ∈ Files, f.fs = 0)
    (hacc : acc = 0 ∨ acc = 1) :
    (inc_lock Files dp acc).2 ≠ 0 ∧
    (dec_lock (inc_lock Files dp acc).1 (inc_lock Files dp acc).2).2 = FR_OK ∧
    (∀ f ∈ (dec_lock (inc_lock Files dp acc).1 (inc_lock Files dp acc).2).1,
        f.fs ≠ 0 → f.isObj dp = false) ∧
    (((dec_lock (inc_lock Files dp acc).1 (inc_lock Files dp acc).2).1.getD
        ((inc_lock Files dp acc).2 - 1) ⟨1, 1, 1, 1⟩).fs = 0 ∧
     ((dec_lock (inc_lock Files dp acc).1 (inc_lock Files dp acc).2).1.getD
        ((inc_lock Files dp acc).2 - 1) ⟨1, 1, 1, 1⟩).ctr = 0) ∧
    (∀ j, j ≠ (inc_lock Files dp acc).2 - 1 →
        (dec_lock (inc_lock Files dp acc).1 (inc_lock Files dp acc).2).1.get? j = Files.get? j) := by
  have hnone' : ∀ f ∈ Files, f.isObj dp = false := by
    intro f hf
    by_cases h0 : f.fs = 0
    · simp only [FILESEM.isObj, h0]
      have : (0 == dp.fs) = false := by simpa using fun h => hfs h.symm
      simp [this]
    · exact hnone f hf h0
  obtain ⟨h1, h2, h3, h4⟩ := inc_dec_lock Files dp acc hlen hnone' hblank hacc
  refine ⟨h1, h2, ?_, ?_, ?_⟩
  · rw [h3]
    intro f hf hf0
    rcases List.mem_or_eq_of_mem_set hf with hm | rfl
    · exact hnone f hm hf0
    · exact absurd rfl hf0
  · rw [h3, List.getD_eq_getElem _ _ (by simpa using h4)]
    simp
  · intro j hj
    rw [h3]
    simp only [List.get?_eq_getElem?]
    rw [List.getElem?_set_ne (Ne.symm hj)]

/-- Witness for C6: a table of one blank slot, a read-mode open. -/
theorem C6_inc_dec_lock_roundtrip_witness :
    (inc_lock [⟨0, 0, 0, 0⟩] ⟨exAddr, 0, 0⟩ 0).2 ≠ 0 ∧
    (dec_lock (inc_lock [⟨0, 0, 0, 0⟩] ⟨exAddr, 0, 0⟩ 0).1
      (inc_lock [⟨0, 0, 0, 0⟩] ⟨exAddr, 0, 0⟩ 0).2).2 = FR_OK :=
  have h := C6_inc_dec_lock_roundtrip [⟨0, 0, 0, 0⟩] ⟨exAddr, 0, 0⟩ 0 (by decide) (by decide)
    (by decide) (by decide) (by decide)
  ⟨h.1, h.2.1⟩

/-- C5 (the code departs from the claim): on the example volume, with the lock
entry of `HELLO.TXT` held by a writer (counter 0x100), a read-only `f_open` of
the same file returns `FR_OK` and raises the counter to 0x101. -/
theorem C5_open_readonly_while_writer :
    (f_open exCfg ⟨1, [⟨exAddr, 0, 0, 0x100⟩, ⟨0, 0, 0, 0⟩]⟩ exAddr exVol exFil exPath FA_READ).map
      (fun r => (r.res, r.md.Files, r.nullread)) =
    some (FR_OK, [⟨exAddr, 0, 0, 0x101⟩, ⟨0, 0, 0, 0⟩], false) := by
  decide

/-! ## Claims on long-name entries -/

/-- C7 (the code departs from the claim): for a long name of 254 characters
`A`, the top LFN entry (ordinal 20, flagged last) written by `fit_lfn` is
refused by `pick_lfn`, which returns 0. -/
theorem C7_pick_lfn_rejects_length_254 :
    (fit_lfn (bytes (List.replicate 254 0x41)) (fun _ => 0) 20 0) LDIR_Ord = 20 ||| LLE ∧
    (pick_lfn (fun _ => 0) (fit_lfn (bytes (List.replicate 254 0x41)) (fun _ => 0) 20 0)).1 = 0 := by
  decide

/-! ## Claims on mounting -/

/-- A byte is a power of two exactly when it is non-zero and `x & (x - 1)` is
zero. -/
theorem byte_pow2 : ∀ x : Fin 256, (x.val ≠ 0 ∧ x.val &&& (x.val - 1) = 0) →
    ∃ k : Fin 8, x.val = 2 ^ k.val := by
  decide

theorem lock_fs_fields (fs : FATFS) :
    (lock_fs fs).1.fs_type = fs.fs_type ∧ (lock_fs fs).1.disk = fs.disk ∧
    (lock_fs fs).1.readonly = fs.readonly := by
  unfold lock_fs
  split_ifs <;> exact ⟨rfl, rfl, rfl⟩

theorem lock_fs_ok (fs : FATFS) (h : fs.sobj_timeout = false) : (lock_fs fs).2 = false := by
  unfold lock_fs
  rw [h]
  rfl

/-- A successful `find_volume_mount` went through the probe with `fmt = 0`
and ended in `find_volume_init` on the probed boot sector. -/
theorem find_volume_mount_ok (ld2pt : Nat) (md : Module) (a : Nat) (fs : FATFS) (wmode ss : Nat)
    (hss : fs.disk.blksize = some ss)
    (h : (find_volume_mount ld2pt md a fs wmode).2.2 = FR_OK) :
    (find_volume_probe ld2pt { { fs with fs_type := 0 } with ssize := ss }).2.2 = 0 ∧
    find_volume_mount ld2pt md a fs wmode =
      find_volume_init md a (find_volume_probe ld2pt { { fs with fs_type := 0 } with ssize := ss }).1
        (find_volume_probe ld2pt { { fs with fs_type := 0 } with ssize := ss }).2.1 := by
  unfold find_volume_mount at h ⊢
  dsimp only at h ⊢
  by_cases h1 : fs.disk.init_stat &&& STA_NOINIT ≠ 0
  · rw [if_pos h1] at h; simp at h
  rw [if_neg h1] at h ⊢
  by_cases h2 : ¬ fs.readonly ∧ wmode ≠ 0 ∧ fs.disk.init_stat &&& STA_PROTECT ≠ 0
  · rw [if_pos h2] at h; simp at h
  rw [if_neg h2] at h ⊢
  rw [hss] at h ⊢
  dsimp only at h ⊢
  by_cases h3 : ss < _MIN_SS ∨ ss > _MAX_SS
  · rw [if_pos h3] at h; simp at h
  rw [if_neg h3] at h ⊢
  by_cases h4 : (find_volume_probe ld2pt { { fs with fs_type := 0 } with ssize := ss }).2.2 = 3
  · rw [if_pos h4] at h; simp at h
  rw [if_neg h4] at h ⊢
  by_cases h5 : (find_volume_probe ld2pt { { fs with fs_type := 0 } with ssize := ss }).2.2 ≠ 0
  · rw [if_pos h5] at h; simp at h
  rw [if_neg h5]
  exact ⟨not_not.mp h5, rfl⟩

/-- A call of `find_volume` that mounts the volume and succeeds went through
the probe with `fmt = 0` and ended in `find_volume_init` on the probed boot
sector. -/
theorem find_volume_ok (ld2pt : Nat) (md : Module) (a : Nat) (fs : FATFS) (vol : Int)
    (wmode ss : Nat) (hnew : fs.fs_type = 0 ∨ fs.disk.stat &&& STA_NOINIT ≠ 0)
    (hss : fs.disk.blksize = some ss)
    (h : (find_volume ld2pt md a fs vol wmode).2.2 = FR_OK) :
    (find_volume_boot ld2pt fs ss).2.2 = 0 ∧
    find_volume ld2pt md a fs vol wmode =
      find_volume_init md a (find_volume_boot ld2pt fs ss).1 (find_volume_boot ld2pt fs ss).2.1 := by
  obtain ⟨l1, l2, l3⟩ := lock_fs_fields fs
  unfold find_volume at h ⊢
  by_cases h1 : vol < 0
  · rw [if_pos h1] at h; simp at h
  rw [if_neg h1] at h ⊢
  by_cases h2 : (lock_fs fs).2 = true
  · rw [if_pos h2] at h; simp at h
  rw [if_neg h2] at h ⊢
  rw [if_neg (by
    rw [l1, l2]
    intro hc
    rcases hnew with hn | hn
    · exact hc.1 hn
    · exact hn hc.2)] at h ⊢
  exact find_volume_mount_ok ld2pt md a (lock_fs fs).1 wmode ss (by rw [l2]; exact hss) h

theorem find_volume_mount_reach (ld2pt : Nat) (md : Module) (a : Nat) (fs : FATFS) (wmode ss : Nat)
    (hinit : fs.disk.init_stat &&& STA_NOINIT = 0)
    (hprot : fs.readonly = true ∨ wmode = 0 ∨ fs.disk.init_stat &&& STA_PROTECT = 0)
    (hss : fs.disk.blksize = some ss) (hss1 : _MIN_SS ≤ ss) (hss2 : ss ≤ _MAX_SS)
    (hfat : (find_volume_probe ld2pt { { fs with fs_type := 0 } with ssize := ss }).2.2 = 0) :
    find_volume_mount ld2pt md a fs wmode =
      find_volume_init md a (find_volume_probe ld2pt { { fs with fs_type := 0 } with ssize := ss }).1
        (find_volume_probe ld2pt { { fs with fs_type := 0 } with ssize := ss }).2.1 := by
  unfold find_volume_mount
  dsimp only
  rw [if_neg (by rw [hinit]; decide)]
  rw [if_neg (by
    intro hc
    rcases hprot with hp | hp | hp
    · exact hc.1 hp
    · exact hc.2.1 hp
    · exact hc.2.2 hp)]
  rw [hss]
  dsimp only
  rw [if_neg (by intro hc; rcases hc with hc | hc <;> omega)]
  by_cases h4 : (find_volume_probe ld2pt { { fs with fs_type := 0 } with ssize := ss }).2.2 = 3
  · rw [hfat] at h4; exact absurd h4 (by decide)
  rw [if_neg h4]
  by_cases h5 : (find_volume_probe ld2pt { { fs with fs_type := 0 } with ssize := ss }).2.2 ≠ 0
  · exact absurd hfat h5
  rw [if_neg h5]

/-- When nothing stops `find_volume` before the probe and the probe finds a
FAT boot sector, the result is that of `find_volume_init` on the probed
boot sector. -/
theorem find_volume_reach (ld2pt : Nat) (md : Module) (a : Nat) (fs : FATFS) (vol : Int)
    (wmode ss : Nat) (hvol : 0 ≤ vol) (hlock : fs.sobj_timeout = false)
    (hnew : fs.fs_type = 0 ∨ fs.disk.stat &&& STA_NOINIT ≠ 0)
    (hinit : fs.disk.init_stat &&& STA_NOINIT = 0)
    (hprot : fs.readonly = true ∨ wmode = 0 ∨ fs.disk.init_stat &&& STA_PROTECT = 0)
    (hss : fs.disk.blksize = some ss) (hss1 : _MIN_SS ≤ ss) (hss2 : ss ≤ _MAX_SS)
    (hfat : (find_volume_boot ld2pt fs ss).2.2 = 0) :
    find_volume ld2pt md a fs vol wmode =
      find_volume_init md a (find_volume_boot ld2pt fs ss).1 (find_volume_boot ld2pt fs ss).2.1 := by
  obtain ⟨l1, l2, l3⟩ := lock_fs_fields fs
  unfold find_volume
  rw [if_neg (by omega), if_neg (by rw [lock_fs_ok fs hlock]; decide)]
  rw [if_neg (by
    rw [l1, l2]
    intro hc
    rcases hnew with hn | hn
    · exact hc.1 hn
    · exact hn hc.2)]
  exact find_volume_mount_reach ld2pt md a (lock_fs fs).1 wmode ss (by rw [l2]; exact hinit)
    (by rw [l2, l3]; exact hprot) (by rw [l2]; exact hss) hss1 hss2 hfat

theorem sync_window_clean (fs : FATFS) (h : fs.wflag = 0) : sync_window fs = (fs, FR_OK) := by
  unfold sync_window
  rw [if_neg (by rw [h]; decide)]

/-- The outcome of `check_fs`: the device and the sector size are untouched,
and unless the read failed or the sector number is `0xFFFFFFFF` the window
holds the sector. -/
theorem check_fs_facts (fs : FATFS) (s : Nat) :
    (check_fs fs s).1.disk = fs.disk ∧ (check_fs fs s).1.ssize = fs.ssize ∧
    ((check_fs fs s).2 ≠ 3 → s ≠ 0xFFFFFFFF → (check_fs fs s).1.win = fs.disk.data s) := by
  have hm : (move_window { fs with wflag := 0, winsect := 0xFFFFFFFF } s).1.disk = fs.disk ∧
      (move_window { fs with wflag := 0, winsect := 0xFFFFFFFF } s).1.ssize = fs.ssize ∧
      ((move_window { fs with wflag := 0, winsect := 0xFFFFFFFF } s).2 = FR_OK → s ≠ 0xFFFFFFFF →
        (move_window { fs with wflag := 0, winsect := 0xFFFFFFFF } s).1.win = fs.disk.data s) := by
    unfold move_window
    dsimp only
    by_cases hs : s ≠ 0xFFFFFFFF
    · rw [if_pos hs]
      have hr : (if ¬ fs.readonly = true then
          sync_window { fs with wflag := 0, winsect := 0xFFFFFFFF }
          else ({ fs with wflag := 0, winsect := 0xFFFFFFFF }, FR_OK)) =
          ({ fs with wflag := 0, winsect := 0xFFFFFFFF }, FR_OK) := by
        split_ifs
        · exact sync_window_clean { fs with wflag := 0, winsect := 0xFFFFFFFF } rfl
        · rfl
      rw [hr]
      dsimp only
      rw [if_neg (by decide)]
      unfold disk_read
      by_cases hf : fs.disk.rfail s = true
      · rw [if_pos hf]
        exact ⟨rfl, rfl, fun h => by simp at h⟩
      · rw [if_neg hf]
        exact ⟨rfl, rfl, fun _ _ => rfl⟩
    · rw [if_neg hs]
      exact ⟨rfl, rfl, fun _ h => absurd h hs⟩
  obtain ⟨m1, m2, m3⟩ := hm
  unfold check_fs
  dsimp only
  by_cases h1 : (move_window { fs with wflag := 0, winsect := 0xFFFFFFFF } s).2 ≠ FR_OK
  · rw [if_pos h1]
    exact ⟨m1, m2, fun h => absurd rfl h⟩
  · rw [if_neg h1]
    have hok := not_not.mp h1
    split_ifs <;> exact ⟨m1, m2, fun _ hs => m3 hok hs⟩

theorem find_volume_part_facts (ld2pt : Nat) (br : Nat → Nat) :
    ∀ (n : Nat) (fs : FATFS) (i : Nat),
      (find_volume_part ld2pt br n fs i).1.disk = fs.disk ∧
      (find_volume_part ld2pt br n fs i).1.ssize = fs.ssize ∧
      ((find_volume_part ld2pt br n fs i).2.2 = 0 →
        (find_volume_part ld2pt br n fs i).2.1 ≠ 0xFFFFFFFF →
        (find_volume_part ld2pt br n fs i).1.win =
          fs.disk.data (find_volume_part ld2pt br n fs i).2.1) := by
  intro n
  induction n with
  | zero =>
    intro fs i
    exact ⟨rfl, rfl, fun h => by simp [find_volume_part] at h⟩
  | succ n ih =>
    intro fs i
    obtain ⟨c1, c2, c3⟩ := check_fs_facts fs (br i)
    rw [find_volume_part]
    by_cases hb : br i ≠ 0
    · rw [if_pos hb]
      by_cases hc : ld2pt = 0 ∧ (check_fs fs (br i)).2 ≠ 0 ∧ i + 1 < 4
      · rw [if_pos hc]
        obtain ⟨e1, e2, e3⟩ := ih (check_fs fs (br i)).1 (i + 1)
        refine ⟨e1.trans c1, e2.trans c2, fun h1 h2 => ?_⟩
        rw [e3 h1 h2, c1]
      · rw [if_neg hc]
        refine ⟨c1, c2, fun h1 h2 => c3 (by rw [h1]; decide) h2⟩
    · rw [if_neg hb]
      by_cases hc : ld2pt = 0 ∧ (2 : Nat) ≠ 0 ∧ i + 1 < 4
      · rw [if_pos hc]
        exact ih fs (i + 1)
      · rw [if_neg hc]
        exact ⟨rfl, rfl, fun h => by simp at h⟩

/-- The probe leaves the device as it is; when it finds a FAT boot sector
(`fmt = 0`) at a sector number other than `0xFFFFFFFF`, the window holds
that sector of the device. -/
theorem find_volume_probe_facts (ld2pt : Nat) (fs : FATFS) :
    (find_volume_probe ld2pt fs).1.disk = fs.disk ∧
    (find_volume_probe ld2pt fs).1.ssize = fs.ssize ∧
    ((find_volume_probe ld2pt fs).2.2 = 0 → (find_volume_probe ld2pt fs).2.1 ≠ 0xFFFFFFFF →
      (find_volume_probe ld2pt fs).1.win = fs.disk.data (find_volume_probe ld2pt fs).2.1) := by
  obtain ⟨c1, c2, c3⟩ := check_fs_facts fs 0
  unfold find_volume_probe
  dsimp only
  by_cases h : (check_fs fs 0).2 = 1 ∨ ((check_fs fs 0).2 = 0 ∧ ld2pt ≠ 0)
  · rw [if_pos h]
    obtain ⟨e1, e2, e3⟩ := find_volume_part_facts ld2pt
      (fun i => if (check_fs fs 0).1.win (MBR_Table + i * SZ_PTE + 4) ≠ 0
        then LD_DWORD (check_fs fs 0).1.win (MBR_Table + i * SZ_PTE + 8) else 0)
      4 (check_fs fs 0).1 (if ld2pt ≠ 0 then ld2pt - 1 else ld2pt)
    refine ⟨e1.trans c1, e2.trans c2, fun h1 h2 => ?_⟩
    rw [e3 h1 h2, c1]
  · rw [if_neg h]
    exact ⟨c1, c2, fun h1 _ => c3 (by rw [show (check_fs fs 0).2 = 0 from h1]; decide) (by decide)⟩

theorem find_volume_boot_facts (ld2pt : Nat) (fs : FATFS) (ss : Nat) :
    (find_volume_boot ld2pt fs ss).1.ssize = ss ∧
    ((find_volume_boot ld2pt fs ss).2.2 = 0 → (find_volume_boot ld2pt fs ss).2.1 ≠ 0xFFFFFFFF →
      find_volume_bpb ld2pt fs ss = fs.disk.data (find_volume_boot ld2pt fs ss).2.1) := by
  obtain ⟨e1, e2, e3⟩ := find_volume_probe_facts ld2pt
    { { (lock_fs fs).1 with fs_type := 0 } with ssize := ss }
  refine ⟨e2, fun h1 h2 => ?_⟩
  unfold find_volume_bpb
  have := e3 h1 h2
  rw [(lock_fs_fields fs).2.1] at this
  exact this

/-- What a successful `find_volume_init` has checked and assigned. -/
theorem find_volume_init_ok (md : Module) (a : Nat) (fs : FATFS) (bsect : Nat)
    (h : (find_volume_init md a fs bsect).2.2 = FR_OK) :
    (find_volume_init md a fs bsect).2.1 =
      fv_mounted fs (bpb_fmt (bpb_nclst fs.win fs.ssize)) bsect ((md.Fsid + 1) % 65536) ∧
    (find_volume_init md a fs bsect).1 = ⟨(md.Fsid + 1) % 65536, clear_lock md.Files a⟩ ∧
    bpb_sysect fs.win fs.ssize ≤ bpb_tsect fs.win ∧ bpb_nclst fs.win fs.ssize ≠ 0 := by
  unfold find_volume_init at h ⊢
  dsimp only at h ⊢
  by_cases h1 : LD_WORD fs.win BPB_BytsPerSec ≠ fs.ssize
  · rw [if_pos h1] at h; simp at h
  rw [if_neg h1] at h ⊢
  by_cases h2 : fs.win BPB_NumFATs ≠ 1 ∧ fs.win BPB_NumFATs ≠ 2
  · rw [if_pos h2] at h; simp at h
  rw [if_neg h2] at h ⊢
  by_cases h3 : fs.win BPB_SecPerClus = 0 ∨ fs.win BPB_SecPerClus &&& (fs.win BPB_SecPerClus - 1) ≠ 0
  · rw [if_pos h3] at h; simp at h
  rw [if_neg h3] at h ⊢
  by_cases h4 : LD_WORD fs.win BPB_RootEntCnt % (fs.ssize / SZ_DIR) ≠ 0
  · rw [if_pos h4] at h; simp at h
  rw [if_neg h4] at h ⊢
  by_cases h5 : LD_WORD fs.win BPB_RsvdSecCnt = 0
  · rw [if_pos h5] at h; simp at h
  rw [if_neg h5] at h ⊢
  by_cases h6 : bpb_tsect fs.win < bpb_sysect fs.win fs.ssize
  · rw [if_pos h6] at h; simp at h
  rw [if_neg h6] at h ⊢
  by_cases h7 : bpb_nclst fs.win fs.ssize = 0
  · rw [if_pos h7] at h; simp at h
  rw [if_neg h7] at h ⊢
  by_cases h8 : bpb_fmt (bpb_nclst fs.win fs.ssize) = FS_FAT32 ∧ LD_WORD fs.win BPB_RootEntCnt ≠ 0
  · rw [if_pos h8] at h; simp at h
  rw [if_neg h8] at h ⊢
  by_cases h9 : bpb_fmt (bpb_nclst fs.win fs.ssize) ≠ FS_FAT32 ∧ LD_WORD fs.win BPB_RootEntCnt = 0
  · rw [if_pos h9] at h; simp at h
  rw [if_neg h9] at h ⊢
  by_cases h10 : bpb_fsize fs.win <
      add32 (bpb_szbfat (bpb_fmt (bpb_nclst fs.win fs.ssize)) (add32 (bpb_nclst fs.win fs.ssize) 2))
        (fs.ssize - 1) / fs.ssize
  · rw [if_pos h10] at h; simp at h
  rw [if_neg h10]
  exact ⟨rfl, rfl, Nat.le_of_not_lt h6, h7⟩

/-- C12: when `find_volume` gets as far as the probe (the volume is not yet
mounted, the lock is taken, the device initialises, is not write protected
against the access and reports a sector size in range) and the probe finds
a FAT boot sector whose BPB has a bytes-per-sector value other than the
device sector size, a cluster size that is no power of two (zero included),
a FAT count other than 1 or 2, a root-entry count that is no multiple of the
entries per sector, or a zero reserved-sector count, then `find_volume`
returns `FR_NO_FILESYSTEM`, leaves `fs_type = 0` and does not touch the
mount counter and the lock table. The probed boot sector is the sector
`bsect` of the device. -/
theorem C12_find_volume_rejects_bad_bpb (ld2pt : Nat) (md : Module) (a : Nat) (fs : FATFS)
    (vol : Int) (wmode ss : Nat) (hvol : 0 ≤ vol) (hlock : fs.sobj_timeout = false)
    (hnew : fs.fs_type = 0 ∨ fs.disk.stat &&& STA_NOINIT ≠ 0)
    (hinit : fs.disk.init_stat &&& STA_NOINIT = 0)
    (hprot : fs.readonly = true ∨ wmode = 0 ∨ fs.disk.init_stat &&& STA_PROTECT = 0)
    (hss : fs.disk.blksize = some ss) (hss1 : _MIN_SS ≤ ss) (hss2 : ss ≤ _MAX_SS)
    (hfat : (find_volume_boot ld2pt fs ss).2.2 = 0)
    (hbyte : find_volume_bpb ld2pt fs ss BPB_SecPerClus < 256)
    (hbad : LD_WORD (find_volume_bpb ld2pt fs ss) BPB_BytsPerSec ≠ ss ∨
            (∀ k, find_volume_bpb ld2pt fs ss BPB_SecPerClus ≠ 2 ^ k) ∨
            (find_volume_bpb ld2pt fs ss BPB_NumFATs ≠ 1 ∧
              find_volume_bpb ld2pt fs ss BPB_NumFATs ≠ 2) ∨
            LD_WORD (find_volume_bpb ld2pt fs ss) BPB_RootEntCnt % (ss / SZ_DIR) ≠ 0 ∨
            LD_WORD (find_volume_bpb ld2pt fs ss) BPB_RsvdSecCnt = 0) :
    (find_volume ld2pt md a fs vol wmode).2.2 = FR_NO_FILESYSTEM ∧
    (find_volume ld2pt md a fs vol wmode).2.1.fs_type = 0 ∧
    (find_volume ld2pt md a fs vol wmode).1 = md ∧
    ((find_volume_boot ld2pt fs ss).2.1 ≠ 0xFFFFFFFF →
      find_volume_bpb ld2pt fs ss = fs.disk.data (find_volume_boot ld2pt fs ss).2.1) := by
  have heq := find_volume_reach ld2pt md a fs vol wmode ss hvol hlock hnew hinit hprot hss hss1 hss2
    hfat
  obtain ⟨b1, b2⟩ := find_volume_boot_facts ld2pt fs ss
  have hw : (find_volume_boot ld2pt fs ss).1.win = find_volume_bpb ld2pt fs ss := rfl
  have hno : (find_volume ld2pt md a fs vol wmode).2.2 = FR_NO_FILESYSTEM ∧
      (find_volume ld2pt md a fs vol wmode).1 = md := by
    rw [heq]
    rcases find_volume_init_cases md a (find_volume_boot ld2pt fs ss).1
      (find_volume_boot ld2pt fs ss).2.1 with hc | hc
    · exfalso
      obtain ⟨_, _, _, c1, c2, c3, c4, c5⟩ := hc
      rw [b1] at c1 c4
      rw [hw] at c1 c2 c3 c4 c5
      rcases hbad with hb | hb | hb | hb | hb
      · exact hb c1
      · obtain ⟨k, hk⟩ := byte_pow2 ⟨find_volume_bpb ld2pt fs ss BPB_SecPerClus, hbyte⟩ c3
        exact hb k hk
      · rcases c2 with c2 | c2
        · exact hb.1 c2
        · exact hb.2 c2
      · exact hb c4
      · exact c5 hb
    · exact ⟨hc.1, hc.2.2⟩
  exact ⟨hno.1, find_volume_nofs ld2pt md a fs vol wmode hno.1, hno.2, b2 hfat⟩

/-- Witness for C12: FAT boot sectors that `find_volume` would mount, each
with one BPB field spoilt: 1024 bytes per sector on a device with 512, a
cluster size of 0 and of 3 sectors, three FATs, a root-entry count of 17,
no reserved sector. -/
theorem C12_find_volume_rejects_bad_bpb_witness :
    (find_volume 0 ⟨0, []⟩ exAddr (volOf (bootOf 16 12 0 4099)) 0 0).2.2 = FR_OK ∧
    (find_volume 0 ⟨0, []⟩ exAddr
      (volOf (Function.update (bootOf 16 12 0 4099) 12 4)) 0 0).2.2 = FR_NO_FILESYSTEM ∧
    (find_volume 0 ⟨0, []⟩ exAddr
      (volOf (Function.update (bootOf 16 12 0 4099) 13 0)) 0 0).2.2 = FR_NO_FILESYSTEM ∧
    (find_volume 0 ⟨0, []⟩ exAddr
      (volOf (Function.update (bootOf 16 12 0 4099) 13 3)) 0 0).2.2 = FR_NO_FILESYSTEM ∧
    (find_volume 0 ⟨0, []⟩ exAddr
      (volOf (Function.update (bootOf 16 12 0 4099) 16 3)) 0 0).2.2 = FR_NO_FILESYSTEM ∧
    (find_volume 0 ⟨0, []⟩ exAddr
      (volOf (Function.update (bootOf 16 12 0 4099) 17 17)) 0 0).2.2 = FR_NO_FILESYSTEM ∧
    (find_volume 0 ⟨0, []⟩ exAddr
      (volOf (Function.update (bootOf 16 12 0 4099) 14 0)) 0 0).2.2 = FR_NO_FILESYSTEM ∧
    (find_volume 0 ⟨0, []⟩ exAddr
      (volOf (Function.update (bootOf 16 12 0 4099) 14 0)) 0 0).2.1.fs_type = 0 :=
  have hp0 : ∀ k : Nat, (0 : Nat) ≠ 2 ^ k := fun k => (Nat.two_pow_pos k).ne
  have hp3 : ∀ k : Nat, (3 : Nat) ≠ 2 ^ k := fun k => by
    cases k with
    | zero => decide
    | succ k => rw [Nat.pow_succ]; omega
  have h14 := C12_find_volume_rejects_bad_bpb 0 ⟨0, []⟩ exAddr
      (volOf (Function.update (bootOf 16 12 0 4099) 14 0)) 0 0 512 (by decide) rfl (Or.inl rfl)
      (by decide) (Or.inr (Or.inl rfl)) rfl (by decide) (by decide) (by decide) (by decide)
      (Or.inr (Or.inr (Or.inr (Or.inr (by decide)))))
  ⟨by decide,
   (C12_find_volume_rejects_bad_bpb 0 ⟨0, []⟩ exAddr
      (volOf (Function.update (bootOf 16 12 0 4099) 12 4)) 0 0 512 (by decide) rfl (Or.inl rfl)
      (by decide) (Or.inr (Or.inl rfl)) rfl (by decide) (by decide) (by decide) (by decide)
      (Or.inl (by decide))).1,
   (C12_find_volume_rejects_bad_bpb 0 ⟨0, []⟩ exAddr
      (volOf (Function.update (bootOf 16 12 0 4099) 13 0)) 0 0 512 (by decide) rfl (Or.inl rfl)
      (by decide) (Or.inr (Or.inl rfl)) rfl (by decide) (by decide) (by decide) (by decide)
      (Or.inr (Or.inl hp0))).1,
   (C12_find_volume_rejects_bad_bpb 0 ⟨0, []⟩ exAddr
      (volOf (Function.update (bootOf 16 12 0 4099) 13 3)) 0 0 512 (by decide) rfl (Or.inl rfl)
      (by decide) (Or.inr (Or.inl rfl)) rfl (by decide) (by decide) (by decide) (by decide)
      (Or.inr (Or.inl hp3))).1,
   (C12_find_volume_rejects_bad_bpb 0 ⟨0, []⟩ exAddr
      (volOf (Function.update (bootOf 16 12 0 4099) 16 3)) 0 0 512 (by decide) rfl (Or.inl rfl)
      (by decide) (Or.inr (Or.inl rfl)) rfl (by decide) (by decide) (by decide) (by decide)
      (Or.inr (Or.inr (Or.inl (by decide))))).1,
   (C12_find_volume_rejects_bad_bpb 0 ⟨0, []⟩ exAddr
      (volOf (Function.update (bootOf 16 12 0 4099) 17 17)) 0 0 512 (by decide) rfl (Or.inl rfl)
      (by decide) (Or.inr (Or.inl rfl)) rfl (by decide) (by decide) (by decide) (by decide)
      (Or.inr (Or.inr (Or.inr (Or.inl (by decide)))))).1,
   h14.1, h14.2.1⟩

/-- Counterexample to C19 as stated: with the 16-bit counter `Fsid` at 65535,
`find_volume` mounts the volume and assigns the identifier 0, which is not
greater than the identifiers assigned before, and `validate` accepts a stale
handle that carries the identifier 0. -/
theorem C19_counterexample :
    (find_volume 0 ⟨65535, []⟩ exAddr hugeVol 0 0).2.2 = FR_OK ∧
    (find_volume 0 ⟨65535, []⟩ exAddr hugeVol 0 0).2.1.id = 0 ∧
    (find_volume 0 ⟨65535, []⟩ exAddr hugeVol 0 0).1.Fsid = 0 ∧
    (validate (find_volume 0 ⟨65535, []⟩ exAddr hugeVol 0 0).2.1
      { exFil with fs := exAddr, id := 0 }).2 = FR_OK := by
  decide

/-- C19 (amended): while the 16-bit counter `Fsid` is below 65535, no call of
`find_volume` lowers it, and a call that mounts the volume successfully
raises it by one and assigns the new value as identifier, strictly greater
than the counter before; `validate` then returns `FR_INVALID_OBJECT` for
every handle whose identifier is at most the old counter value. -/
theorem C19_mount_id_fresh (ld2pt : Nat) (md : Module) (a : Nat) (fs : FATFS) (vol : Int)
    (wmode : Nat) (hw : md.Fsid < 65535) :
    md.Fsid ≤ (find_volume ld2pt md a fs vol wmode).1.Fsid ∧
    ((fs.fs_type = 0 ∨ fs.disk.stat &&& STA_NOINIT ≠ 0) →
      (find_volume ld2pt md a fs vol wmode).2.2 = FR_OK →
      (find_volume ld2pt md a fs vol wmode).2.1.id = md.Fsid + 1 ∧
      (find_volume ld2pt md a fs vol wmode).1.Fsid = md.Fsid + 1 ∧
      md.Fsid < (find_volume ld2pt md a fs vol wmode).2.1.id ∧
      ∀ fp : FF_FIL, fp.id ≤ md.Fsid →
        (validate (find_volume ld2pt md a fs vol wmode).2.1 fp).2 = FR_INVALID_OBJECT) := by
  have hmod : (md.Fsid + 1) % 65536 = md.Fsid + 1 := Nat.mod_eq_of_lt (by omega)
  have hinit : ∀ fs1 b, md.Fsid ≤ (find_volume_init md a fs1 b).1.Fsid := by
    intro fs1 b
    rcases find_volume_init_cases md a fs1 b with hc | hc
    · rw [hc.2.2.1]
      show md.Fsid ≤ (md.Fsid + 1) % 65536
      omega
    · rw [hc.2.2]
  constructor
  · unfold find_volume
    split_ifs
    · exact Nat.le_refl _
    · exact Nat.le_refl _
    · exact Nat.le_refl _
    · exact Nat.le_refl _
    · unfold find_volume_mount
      dsimp only
      split_ifs
      · exact Nat.le_refl _
      · exact Nat.le_refl _
      · split
        · exact Nat.le_refl _
        · split_ifs
          · exact Nat.le_refl _
          · exact Nat.le_refl _
          · exact Nat.le_refl _
          · exact hinit _ _
  · intro hnew h
    cases hb : fs.disk.blksize with
    | none =>
      exfalso
      obtain ⟨l1, l2, l3⟩ := lock_fs_fields fs
      unfold find_volume at h
      by_cases h1 : vol < 0
      · rw [if_pos h1] at h; simp at h
      rw [if_neg h1] at h
      by_cases h2 : (lock_fs fs).2 = true
      · rw [if_pos h2] at h; simp at h
      rw [if_neg h2] at h
      rw [if_neg (by
        rw [l1, l2]
        intro hc
        rcases hnew with hn | hn
        · exact hc.1 hn
        · exact hn hc.2)] at h
      unfold find_volume_mount at h
      dsimp only at h
      rw [l2, hb] at h
      dsimp only at h
      split_ifs at h
    | some ss =>
      obtain ⟨-, heq⟩ := find_volume_ok ld2pt md a fs vol wmode ss hnew hb h
      rw [heq] at h ⊢
      obtain ⟨k1, k2, -, -⟩ := find_volume_init_ok md a _ _ h
      have hid : (find_volume_init md a (find_volume_boot ld2pt fs ss).1
          (find_volume_boot ld2pt fs ss).2.1).2.1.id = md.Fsid + 1 := by
        rw [k1]
        simp only [fv_mounted]
        exact hmod
      refine ⟨hid, ?_, by omega, ?_⟩
      · rw [k2]
        exact hmod
      · intro fp hfp
        unfold validate
        rw [if_pos]
        right; right; left
        omega

/-- Witness for C19: the first mount of the volume with boot sector
`hugeBoot` raises the counter from 0 to 1 and gets the identifier 1. -/
theorem C19_mount_id_fresh_witness :
    (find_volume 0 ⟨0, []⟩ exAddr hugeVol 0 0).2.2 = FR_OK ∧
    (find_volume 0 ⟨0, []⟩ exAddr hugeVol 0 0).2.1.id = 0 + 1 ∧
    (find_volume 0 ⟨0, []⟩ exAddr hugeVol 0 0).1.Fsid = 0 + 1 :=
  have h := (C19_mount_id_fresh 0 ⟨0, []⟩ exAddr hugeVol 0 0 (by decide)).2 (Or.inl rfl) (by decide)
  ⟨by decide, h.1, h.2.1⟩

/-! ## Claims on file handles -/

/-- The three outcomes of `validate`. -/
theorem validate_cases (fs : FATFS) (fp : FF_FIL) :
    validate fs fp = (fs, FR_INVALID_OBJECT) ∨ validate fs fp = (fs, FR_TIMEOUT) ∨
    (validate fs fp = ({ fs with sobj := fs.sobj + 1 }, FR_OK) ∧ fp.fs ≠ 0 ∧
      fs.fs_type ≠ 0 ∧ fs.id = fp.id) := by
  unfold validate lock_fs
  by_cases hv : fp.fs = 0 ∨ fs.fs_type = 0 ∨ fs.id ≠ fp.id ∨ fs.disk.stat &&& STA_NOINIT ≠ 0
  · left; rw [if_pos hv]
  · rw [if_neg hv]
    by_cases ht : fs.sobj_timeout = true
    · right; left; simp [ht]
    · right; right
      refine ⟨by simp [ht], fun h => hv (Or.inl h), fun h => hv (Or.inr (Or.inl h)), ?_⟩
      by_contra h
      exact hv (Or.inr (Or.inr (Or.inl h)))

/-- Releasing the mutex after taking it gives the volume back. -/
theorem unlock_after_lock (fs : FATFS) (res : FRESULT)
    (hr : res ≠ FR_NOT_ENABLED ∧ res ≠ FR_INVALID_DRIVE ∧ res ≠ FR_INVALID_OBJECT ∧ res ≠ FR_TIMEOUT) :
    unlock_fs { fs with sobj := fs.sobj + 1 } res = fs := by
  unfold unlock_fs
  rw [if_pos hr]
  cases fs
  simp

/-- The stored error codes `FR_DISK_ERR` and `FR_INT_ERR` are errors that
release the mutex. -/
theorem ofByte_err (n : Nat) (he : n = 1 ∨ n = 2) :
    FRESULT.ofByte n ≠ FR_OK ∧ (FRESULT.ofByte n ≠ FR_NOT_ENABLED ∧
      FRESULT.ofByte n ≠ FR_INVALID_DRIVE ∧ FRESULT.ofByte n ≠ FR_INVALID_OBJECT ∧
      FRESULT.ofByte n ≠ FR_TIMEOUT) := by
  rcases he with h | h <;> subst h <;> decide

/-- Counterexample to C16 as stated: on a handle whose error flag is set,
`f_sync` does not test the flag; it returns `FR_OK` and writes the cached
sector and the directory entry to the device. -/
theorem C16_counterexample :
    (f_sync 0 exVol (exOpenFil 1)).2.2 = FR_OK ∧
    (f_sync 0 exVol (exOpenFil 1)).1.disk.data 3 0 ≠ exVol.disk.data 3 0 := by
  decide

/-- C16 (amended): once the error flag of a handle holds the code stored by an
aborted operation (`FR_DISK_ERR` or `FR_INT_ERR`), `f_read`, `f_write`,
`f_lseek` and `f_truncate` return an error, leave the volume (device
included) and the handle as they were, transfer nothing and report a byte
count of 0. -/
theorem C16_err_flag_gates (fs : FATFS) (fp : FF_FIL) (buff : Nat → Nat) (n : Nat)
    (he : fp.err = 1 ∨ fp.err = 2) :
    (∃ e, e ≠ FR_OK ∧ f_read fs fp buff n = some (fs, fp, buff, 0, e)) ∧
    (∃ e, e ≠ FR_OK ∧ f_write fs fp buff n = some (fs, fp, 0, e)) ∧
    (∃ e, e ≠ FR_OK ∧ f_lseek fs fp n = some (fs, fp, e)) ∧
    (∃ e, e ≠ FR_OK ∧ f_truncate fs fp = some (fs, fp, e)) := by
  obtain ⟨hne, hrel⟩ := ofByte_err fp.err he
  have herr : fp.err ≠ 0 := by rcases he with h | h <;> omega
  rcases validate_cases fs fp with hv | hv | ⟨hv, hfs, _⟩
  · refine ⟨⟨FR_INVALID_OBJECT, by decide, ?_⟩, ⟨FR_INVALID_OBJECT, by decide, ?_⟩,
      ⟨FR_INVALID_OBJECT, by decide, ?_⟩, ⟨FR_INVALID_OBJECT, by decide, ?_⟩⟩
    · simp [f_read, hv, leave_ff, unlock_fs]
    · simp [f_write, hv, leave_ff, unlock_fs]
    · simp [f_lseek, hv, leave_ff, unlock_fs]
    · simp [f_truncate, hv, leave_ff, unlock_fs]
  · refine ⟨⟨FR_TIMEOUT, by decide, ?_⟩, ⟨FR_TIMEOUT, by decide, ?_⟩,
      ⟨FR_TIMEOUT, by decide, ?_⟩, ⟨FR_TIMEOUT, by decide, ?_⟩⟩
    · simp [f_read, hv, leave_ff, unlock_fs]
    · simp [f_write, hv, leave_ff, unlock_fs]
    · simp [f_lseek, hv, leave_ff, unlock_fs]
    · simp [f_truncate, hv, leave_ff, unlock_fs]
  · have hu := unlock_after_lock fs _ hrel
    refine ⟨⟨_, hne, ?_⟩, ⟨_, hne, ?_⟩, ⟨_, hne, ?_⟩, ⟨_, hne, ?_⟩⟩
    · simp [f_read, hv, leave_ff, herr, hfs, hu]
    · simp [f_write, hv, leave_ff, herr, hfs, hu]
    · simp [f_lseek, hv, leave_ff, herr, hfs, hu]
    · simp [f_truncate, hv, leave_ff, herr, hfs, hu, hne]

/-- Witness for C16: the example handle with its error flag at `FR_DISK_ERR`. -/
theorem C16_err_flag_gates_witness :
    ∃ e, e ≠ FR_OK ∧ f_read exVol (exOpenFil 1) (fun _ => 0) 4 = some (exVol, exOpenFil 1, fun _ => 0, 0, e) :=
  (C16_err_flag_gates exVol (exOpenFil 1) (fun _ => 0) 4 (Or.inl rfl)).1

/-- The write-back of the sector cache keeps the volume pointer of the handle. -/
theorem fil_writeback_fp_fs (fs : FATFS) (fp : FF_FIL) (fs1 : FATFS) (fp1 : FF_FIL)
    (h : fil_writeback fs fp = some (fs1, fp1)) : fp1.fs = fp.fs := by
  unfold fil_writeback at h
  split_ifs at h
  · split at h
    · exact absurd h (by simp)
    · simp only [Option.some.injEq, Prod.mk.injEq] at h
      rw [← h.2]
  · simp only [Option.some.injEq, Prod.mk.injEq] at h
    rw [← h.2]

/-- The volume pointer of a handle is not touched by `f_sync`. -/
theorem f_sync_fp_fs (tm : Nat) (fs : FATFS) (fp : FF_FIL) : (f_sync tm fs fp).2.1.fs = fp.fs := by
  unfold f_sync
  split_ifs
  · rfl
  · split
    · rfl
    · rename_i fs1 fp1 hw
      have := fil_writeback_fp_fs _ _ _ _ hw
      unfold f_sync_dir
      split_ifs
      · exact this
      · exact this
  · rfl

/-- Counterexample to C17 as stated: when the write-back of the dirty sector
fails, `f_close` returns `FR_DISK_ERR`, the handle keeps its volume pointer
and the writer's lock entry stays in the table. -/
theorem C17_counterexample :
    (f_close 0 exFilesWriter exVolWriteFail (exOpenFil 0)).2.2.2 = FR_DISK_ERR ∧
    (f_close 0 exFilesWriter exVolWriteFail (exOpenFil 0)).2.2.1.fs = exAddr ∧
    (f_close 0 exFilesWriter exVolWriteFail (exOpenFil 0)).1 = exFilesWriter := by
  decide

/-- C17 (amended): when `f_close` is called on a valid handle of a writable
volume and the sync it performs fails, `f_close` returns that error, the
handle is not invalidated (its volume pointer is kept) and the lock table is
unchanged. -/
theorem C17_close_sync_error (tm : Nat) (Files : List FILESEM) (fs : FATFS) (fp : FF_FIL)
    (hv : (validate fs fp).2 = FR_OK) (hrw : fs.readonly = false)
    (hs : (f_sync tm (validate fs fp).1 fp).2.2 ≠ FR_OK) :
    (f_close tm Files fs fp).2.2.2 = (f_sync tm (validate fs fp).1 fp).2.2 ∧
    (f_close tm Files fs fp).2.2.1.fs = fp.fs ∧
    (f_close tm Files fs fp).1 = Files := by
  have hro : (validate fs fp).1.readonly = false := by
    rcases validate_cases fs fp with h | h | ⟨h, _⟩ <;> rw [h] <;> exact hrw
  have hsync := f_sync_fp_fs tm (validate fs fp).1 fp
  unfold f_close
  simp only [hv, hro, ne_eq, not_true_eq_false, if_false, Bool.false_eq_true, not_false_eq_true,
    if_true]
  rw [if_pos hs]
  exact ⟨rfl, hsync, rfl⟩

/-- Witness for C17: the example handle on the device whose write fails. -/
theorem C17_close_sync_error_witness :
    (f_close 0 exFilesWriter exVolWriteFail (exOpenFil 0)).2.2.1.fs = (exOpenFil 0).fs :=
  (C17_close_sync_error 0 exFilesWriter exVolWriteFail (exOpenFil 0) (by decide) (by decide)
    (by decide)).2.1

/-- C18 (the code departs from the claim): when the sync inside `f_close`
fails, `f_close` returns `FR_DISK_ERR` with the hold counter of the volume
mutex one above its value at entry. -/
theorem C18_close_leaves_mutex_held :
    (f_close 0 exFilesWriter exVolWriteFail (exOpenFil 0)).2.2.2 = FR_DISK_ERR ∧
    (f_close 0 exFilesWriter exVolWriteFail (exOpenFil 0)).2.1.sobj = exVolWriteFail.sobj + 1 := by
  decide

/-! ## Claims on the mount stack -/

/-- C20: for a target with nothing mounted on it, a fresh self-linked root and
a superblock with an umount handler, `fs_mount` succeeds and `fs_umount` of
the superblock restores the links: the target's next is the target again, its
prev is unchanged, the root is self-linked on both sides, every other vnode
keeps its links; so a target self-linked on both sides is so afterwards. -/
theorem C20_mount_umount_restores (fuel : Nat) (l : MountLinks) (target : Nat) (sb : Superblock)
    (r : VfsRet) (hfuel : 0 < fuel) (ht : l.next target = target)
    (hrn : l.next sb.root = sb.root) (hrp : l.prev sb.root = sb.root)
    (hne : sb.root ≠ target) (hum : sb.umount = some r) :
    ∃ l1 sb1, fs_mount fuel l target (.mounted sb) = some (l1, some sb1, .zero) ∧
      sb1.mountpoint = target ∧
      (fs_umount l1 sb1).2 = r ∧
      (fs_umount l1 sb1).1.next target = target ∧
      (fs_umount l1 sb1).1.prev target = l.prev target ∧
      (fs_umount l1 sb1).1.next sb.root = sb.root ∧
      (fs_umount l1 sb1).1.prev sb.root = sb.root ∧
      (∀ v, (fs_umount l1 sb1).1.next v = l.next v ∧ (fs_umount l1 sb1).1.prev v = l.prev v) ∧
      (l.prev target = target →
        (fs_umount l1 sb1).1.prev target = target ∧ (fs_umount l1 sb1).1.next target = target) := by
  obtain ⟨k, rfl⟩ : ∃ k, fuel = k + 1 := ⟨fuel - 1, by omega⟩
  have htop : get_top_vnode l (k + 1) target = some target := by
    simp [get_top_vnode, ht]
  refine ⟨{ next := Function.update (Function.update l.next target sb.root) sb.root sb.root,
             prev := Function.update l.prev sb.root target },
          { sb with mountpoint := target }, by simp only [fs_mount, htop], rfl, ?_⟩
  have hne' : target ≠ sb.root := fun h => hne h.symm
  have hnext : ∀ v, (fs_umount
      { next := Function.update (Function.update l.next target sb.root) sb.root sb.root,
        prev := Function.update l.prev sb.root target }
      { sb with mountpoint := target }).1.next v = l.next v := by
    intro v
    simp only [fs_umount, hum, Function.update_same, hne', if_false, ne_eq, not_true_eq_false,
      and_false]
    by_cases h1 : v = sb.root
    · subst h1; simp [hrn]
    · by_cases h2 : v = target
      · subst h2; simp [h1, ht]
      · simp [h1, h2]
  have hprev : ∀ v, (fs_umount
      { next := Function.update (Function.update l.next target sb.root) sb.root sb.root,
        prev := Function.update l.prev sb.root target }
      { sb with mountpoint := target }).1.prev v = l.prev v := by
    intro v
    simp only [fs_umount, hum, Function.update_same, hne', if_false, ne_eq, not_true_eq_false,
      and_false]
    by_cases h1 : v = sb.root
    · subst h1; simp [hrp]
    · simp [h1]
  refine ⟨?_, ?_, ?_, ?_, ?_, fun v => ⟨hnext v, hprev v⟩, fun h => ⟨?_, ?_⟩⟩
  · simp [fs_umount, hum, hne']
  · rw [hnext, ht]
  · rw [hprev]
  · rw [hnext, hrn]
  · rw [hprev, hrp]
  · rw [hprev, h]
  · rw [hnext, ht]

/-- Witness for C20: vnode 1 as target, vnode 2 as the new root, all vnodes
self-linked. -/
theorem C20_mount_umount_restores_witness :
    ∃ l1 sb1, fs_mount 1 ⟨id, id⟩ 1 (.mounted ⟨2, 0, some .zero⟩) = some (l1, some sb1, .zero) ∧
      sb1.mountpoint = 1 ∧ (fs_umount l1 sb1).2 = .zero ∧ (fs_umount l1 sb1).1.next 1 = 1 := by
  obtain ⟨l1, sb1, h1, h2, h3, h4, _⟩ := C20_mount_umount_restores 1 ⟨id, id⟩ 1 ⟨2, 0, some .zero⟩
    .zero (by decide) rfl rfl rfl (by decide) rfl
  exact ⟨l1, sb1, h1, h2, h3, h4⟩


theorem writeList_apply (m : Nat → Nat) (i : Nat) (l : List Nat) (x : Nat) :
    writeList m i l x = if i ≤ x ∧ x < i + l.length then l.getD (x - i) 0 else m x := by
  induction l generalizing m i with
  | nil =>
    simp only [writeList, List.length_nil, Nat.add_zero]
    rw [if_neg (by omega)]
  | cons c l ih =>
    simp only [writeList, ih, List.length_cons]
    by_cases h1 : i + 1 ≤ x ∧ x < i + 1 + l.length
    · rw [if_pos h1, if_pos (by omega)]
      obtain ⟨k, hk⟩ : ∃ k, x - i = k + 1 := ⟨x - i - 1, by omega⟩
      rw [hk, List.getD_cons_succ]
      congr 1; omega
    · rw [if_neg h1]
      by_cases h2 : x = i
      · subst h2; simp
      · rw [Function.update_noteq h2, if_neg (by omega)]

theorem land_255 (c : Nat) (h : c < 256) : c &&& 0xFF = c := by
  have : c &&& 0xFF = c % 256 := Nat.and_pow_two_sub_one_eq_mod c 8
  rw [this]; exact Nat.mod_eq_of_lt h

theorem create_name_seg_plain (cv : Nat → Nat → Nat) (l rest : List Nat) (si : Nat) (lfn : Nat → Nat)
    (di : Nat) (hl : ∀ c ∈ l, segPlain cv c) (hlen : di + l.length ≤ _MAX_LFN) :
    create_name_seg cv (l ++ rest) si lfn di =
      create_name_seg cv rest (si + l.length) (writeList lfn di l) (di + l.length) := by
  induction l generalizing si lfn di with
  | nil => simp [writeList]
  | cons c l ih =>
    obtain ⟨h1, h2, h3, h4, h5, h6⟩ := hl c (List.mem_cons_self _ _)
    simp only [List.length_cons] at hlen
    simp only [List.cons_append, create_name_seg, writeList, List.length_cons]
    rw [if_neg (by omega), if_neg (by unfold _MAX_LFN at *; omega), land_255 c (by omega), h6]
    rw [if_neg (by omega), if_neg (by intro h; exact h5 h.2)]
    simp only [List.append_eq]
    rw [ih (si + 1) _ (di + 1) (fun c hc => hl c (List.mem_cons_of_mem _ hc)) (by omega)]
    congr 1 <;> omega


theorem sfnLegal_facts (c : Nat) (h : sfnLegal c) :
    c ≠ 0 ∧ c ≠ 0x20 ∧ c ≠ 0x2E ∧ c < 0x80 ∧ c ∉ sfnReplaced ∧ c ∉ lfnIllegal ∧ c ≠ 0x2F ∧ c ≠ 0x5C := by
  obtain ⟨h1, h2, h3⟩ := h
  simp only [List.mem_cons, List.mem_singleton, not_or, List.not_mem_nil, or_false] at h3
  simp only [sfnReplaced, lfnIllegal, List.mem_cons, List.mem_singleton, not_or, List.not_mem_nil, or_false]
  omega

theorem create_name_sfn_step (cv : Nat → Nat → Nat) (Ex : Nat → Nat) (lfn : Nat → Nat) (di fuel : Nat)
    (st : SfnState) (hw : sfnLegal (lfn st.si)) (hi : st.i < st.ni) (hsi : st.si + 1 ≠ di) :
    create_name_sfn cv Ex lfn di (fuel + 1) st =
      create_name_sfn cv Ex lfn di fuel
        { st with fn := Function.update st.fn st.i (upc (lfn st.si)), si := st.si + 1,
                  i := st.i + 1, b := st.b ||| caseBits (lfn st.si) } := by
  obtain ⟨h0, h1, h2, h3, h4, -, -, -⟩ := sfnLegal_facts _ hw
  rw [create_name_sfn]
  simp only []
  rw [if_neg h0, if_neg (by intro h; rcases h with h | h; exact h1 h; exact h2 h.1),
    if_neg (by intro h; rcases h with h | h; omega; exact hsi h)]
  rw [if_neg (by omega : ¬ lfn st.si ≥ 0x80)]
  have hbad : (decide (lfn st.si = 0 ∨ lfn st.si ∈ sfnReplaced)) = false := by
    simp [h0, h4]
  simp only [hbad, Bool.false_eq_true, if_false]
  have hu : ∀ w, w < 128 → (if ka_isupper w = true then w
      else if ka_islower w = true then w - 0x20 else w) % 256 = upc w := by
    intro w hw
    unfold upc ka_isupper ka_islower
    simp only [Bool.and_eq_true, decide_eq_true_eq]
    split_ifs <;> omega
  have hb : (if ka_isupper (lfn st.si) = true then st.b ||| 2
      else if ka_islower (lfn st.si) = true then st.b ||| 1 else st.b) = st.b ||| caseBits (lfn st.si) := by
    unfold caseBits
    split_ifs <;> simp
  rw [hu _ h3, hb, if_neg (by omega : ¬ lfn st.si ≥ 128)]

theorem create_name_sfn_run (cv : Nat → Nat → Nat) (Ex : Nat → Nat) (lfn : Nat → Nat) (di : Nat)
    (l : List Nat) (fuel : Nat) (st : SfnState)
    (hl : ∀ c ∈ l, sfnLegal c)
    (hlfn : ∀ k, k < l.length → lfn (st.si + k) = l.getD k 0)
    (hi : st.i + l.length ≤ st.ni)
    (hsi : ∀ k, k < l.length → st.si + k + 1 ≠ di) :
    create_name_sfn cv Ex lfn di (fuel + l.length) st =
      create_name_sfn cv Ex lfn di fuel (sfnRun st l) := by
  induction l generalizing st fuel with
  | nil => simp [sfnRun]
  | cons c l ih =>
    have h0 : lfn st.si = c := by simpa using hlfn 0 (by simp)
    simp only [List.length_cons] at hi
    have hf : fuel + (l.length + 1) = (fuel + l.length) + 1 := by omega
    rw [List.length_cons, hf,
      create_name_sfn_step cv Ex lfn di (fuel + l.length) st (by rw [h0]; exact hl c (List.mem_cons_self _ _))
        (by omega) (by simpa using hsi 0 (by simp))]
    rw [h0, sfnRun]
    apply ih
    · exact fun c hc => hl c (List.mem_cons_of_mem _ hc)
    · intro k hk
      have := hlfn (k + 1) (by simp; omega)
      simp only [List.getD_cons_succ] at this
      rw [← this]; congr 1; simp only []; omega
    · simp only []; omega
    · intro k hk
      have := hsi (k + 1) (by simp; omega)
      simp only []; omega

theorem sfnRun_fields (st : SfnState) (l : List Nat) :
    (sfnRun st l).fn = writeList st.fn st.i (l.map upc) ∧ (sfnRun st l).si = st.si + l.length ∧
    (sfnRun st l).i = st.i + l.length ∧ (sfnRun st l).ni = st.ni ∧ (sfnRun st l).cf = st.cf ∧
    (sfnRun st l).b = l.foldl (fun b c => b ||| caseBits c) st.b := by
  induction l generalizing st with
  | nil => simp [sfnRun, writeList]
  | cons c l ih =>
    obtain ⟨h1, h2, h3, h4, h5, h6⟩ := ih ⟨Function.update st.fn st.i (upc c), st.si + 1, st.i + 1, st.ni, st.b ||| caseBits c, st.cf⟩
    simp only [sfnRun, h1, h2, h3, h4, h5, h6, List.map_cons, writeList, List.length_cons, List.foldl_cons]
    refine ⟨trivial, ?_, ?_, trivial, trivial, trivial⟩ <;> omega


theorem getD_mem_of_lt (l : List Nat) (k : Nat) (h : k < l.length) : l.getD k 0 ∈ l := by
  rw [List.getD_eq_getElem l 0 h]
  exact List.getElem_mem h

theorem create_name_strip_last (lfn : Nat → Nat) (n : Nat)
    (h1 : lfn n ≠ 0x20) (h2 : lfn n ≠ 0x2E) : create_name_strip lfn (n + 1) = n + 1 := by
  rw [create_name_strip, if_pos ⟨h1, h2⟩]

theorem create_name_lead_none (lfn : Nat → Nat) (fuel : Nat)
    (h1 : lfn 0 ≠ 0x20) (h2 : lfn 0 ≠ 0x2E) : create_name_lead lfn fuel 0 = 0 := by
  cases fuel with
  | zero => rfl
  | succ f => rw [create_name_lead, if_neg (by intro h; rcases h with h | h; exact h1 h; exact h2 h)]

theorem create_name_ext_none (lfn : Nat → Nat) (n : Nat)
    (h : ∀ k, k < n → lfn k ≠ 0x2E) : create_name_ext lfn n = 0 := by
  induction n with
  | zero => rfl
  | succ n ih =>
    rw [create_name_ext, if_pos (h n (by omega))]
    exact ih (fun k hk => h k (by omega))

theorem create_name_ext_dot (lfn : Nat → Nat) (p q : Nat)
    (hp : lfn p = 0x2E) (h : ∀ k, p < k → k < p + 1 + q → lfn k ≠ 0x2E) :
    create_name_ext lfn (p + 1 + q) = p + 1 := by
  induction q with
  | zero => rw [Nat.add_zero, create_name_ext, if_neg (by simp [hp])]
  | succ q ih =>
    rw [← Nat.add_assoc, create_name_ext, if_pos (h _ (by omega) (by omega))]
    exact ih (fun k h1 h2 => h k h1 (by omega))

theorem name83_length (body ext : List Nat) :
    (name83 body ext).length = body.length + (if ext = [] then 0 else ext.length + 1) := by
  unfold name83; split_ifs <;> simp

theorem name83_getD_body (body ext : List Nat) (k : Nat) (h : k < body.length) :
    (name83 body ext).getD k 0 = body.getD k 0 := by
  unfold name83; exact List.getD_append _ _ _ _ h

theorem name83_getD_dot (body ext : List Nat) (h : ext ≠ []) :
    (name83 body ext).getD body.length 0 = 0x2E := by
  unfold name83; rw [if_neg h, List.getD_append_right _ _ _ _ (le_refl _)]; simp

theorem name83_getD_ext (body ext : List Nat) (k : Nat) (h : ext ≠ []) :
    (name83 body ext).getD (body.length + 1 + k) 0 = ext.getD k 0 := by
  unfold name83
  rw [if_neg h, List.getD_append_right _ _ _ _ (by omega)]
  have : body.length + 1 + k - body.length = k + 1 := by omega
  rw [this, List.getD_cons_succ]

theorem sfnLegal_segPlain (cv : Nat → Nat → Nat) (hcv : ∀ c, c < 0x80 → cv c 1 = c) (c : Nat)
    (h : sfnLegal c) : segPlain cv c := by
  obtain ⟨h0, h1, h2, h3, h4, h5, h6, h7⟩ := sfnLegal_facts c h
  exact ⟨h.1.trans' (by norm_num), h3, h6, h7, h5, hcv c h3⟩

theorem dot_segPlain (cv : Nat → Nat → Nat) (hcv : ∀ c, c < 0x80 → cv c 1 = c) : segPlain cv 0x2E :=
  ⟨by norm_num, by norm_num, by norm_num, by norm_num, by simp [lfnIllegal], hcv _ (by norm_num)⟩

theorem name83_segPlain (cv : Nat → Nat → Nat) (hcv : ∀ c, c < 0x80 → cv c 1 = c) (body ext : List Nat)
    (hb : ∀ c ∈ body, sfnLegal c) (he : ∀ c ∈ ext, sfnLegal c) :
    ∀ c ∈ name83 body ext, segPlain cv c := by
  intro c hc
  unfold name83 at hc
  rw [List.mem_append] at hc
  rcases hc with hc | hc
  · exact sfnLegal_segPlain cv hcv c (hb c hc)
  · split_ifs at hc with h
    · simp at hc
    · rcases List.mem_cons.1 hc with hc | hc
      · rw [hc]; exact dot_segPlain cv hcv
      · exact sfnLegal_segPlain cv hcv c (he c hc)


theorem foldl_caseBits (l : List Nat) (b0 : Nat) :
    l.foldl (fun b c => b ||| caseBits c) b0 = b0 ||| bitsOf l := by
  unfold bitsOf
  induction l generalizing b0 with
  | nil => simp
  | cons c l ih =>
    simp only [List.foldl_cons]
    rw [ih (b0 ||| caseBits c), ih (0 ||| caseBits c), Nat.zero_or, Nat.lor_assoc]

theorem bitsOf_cons (c : Nat) (l : List Nat) : bitsOf (c :: l) = caseBits c ||| bitsOf l := by
  unfold bitsOf
  rw [List.foldl_cons, foldl_caseBits, Nat.zero_or]
  rfl

theorem bitsOf_no_upper (l : List Nat) (h : ∀ c ∈ l, ka_isupper c = false) :
    (bitsOf l = 0 ∧ ∀ c ∈ l, ka_islower c = false) ∨ bitsOf l = 1 := by
  induction l with
  | nil => left; exact ⟨rfl, by simp⟩
  | cons c l ih =>
    have hc := h c (List.mem_cons_self _ _)
    rw [bitsOf_cons]
    unfold caseBits
    rw [hc]
    rcases ih (fun c hc => h c (List.mem_cons_of_mem _ hc)) with ⟨h0, h1⟩ | h1
    · rw [h0]
      by_cases hl : ka_islower c = true
      · right; simp [hl]
      · left; simp only [Bool.not_eq_true] at hl
        refine ⟨by simp [hl], ?_⟩
        intro d hd
        rcases List.mem_cons.1 hd with hd | hd
        · rw [hd]; exact hl
        · exact h1 d hd
    · right; rw [h1]
      by_cases hl : ka_islower c = true
      · simp [hl]
      · simp [hl]

theorem bitsOf_no_lower (l : List Nat) (h : ∀ c ∈ l, ka_islower c = false) :
    bitsOf l = 0 ∨ bitsOf l = 2 := by
  induction l with
  | nil => left; rfl
  | cons c l ih =>
    have hc := h c (List.mem_cons_self _ _)
    rw [bitsOf_cons]
    unfold caseBits
    rw [hc]
    rcases ih (fun c hc => h c (List.mem_cons_of_mem _ hc)) with h0 | h0 <;> rw [h0] <;>
      by_cases hu : ka_isupper c = true <;> simp [hu]

theorem bitsOf_oneCase (l : List Nat) (h : oneCase l) :
    (bitsOf l = 1 ∧ ∀ c ∈ l, ka_isupper c = false) ∨
    ((bitsOf l = 0 ∨ bitsOf l = 2) ∧ ∀ c ∈ l, ka_islower c = false) := by
  rcases h with h | h
  · rcases bitsOf_no_upper l h with ⟨h0, h1⟩ | h1
    · right; exact ⟨Or.inl h0, h1⟩
    · left; exact ⟨h1, h⟩
  · right; exact ⟨bitsOf_no_lower l h, h⟩

theorem create_name_sfn_noext (cv : Nat → Nat → Nat) (Ex : Nat → Nat) (lfn : Nat → Nat)
    (body : List Nat) (fn : Nat → Nat) (cf : Nat)
    (hb : ∀ c ∈ body, sfnLegal c) (hlen : body.length ≤ 8)
    (hL : ∀ k, k < body.length → lfn k = body.getD k 0) (hend : lfn body.length = 0) :
    create_name_sfn cv Ex lfn 0 (_MAX_LFN + 2) ⟨fn, 0, 0, 8, 0, cf⟩ =
      some ⟨writeList fn 0 (body.map upc), body.length + 1, body.length, 8, bitsOf body, cf⟩ := by
  have hf : _MAX_LFN + 2 = (256 - body.length + 1) + body.length := by unfold _MAX_LFN; omega
  rw [hf, create_name_sfn_run cv Ex lfn 0 body _ _ hb (by simpa using hL) (by simpa using hlen)
    (by intro k _; simp)]
  obtain ⟨h1, h2, h3, h4, h5, h6⟩ := sfnRun_fields ⟨fn, 0, 0, 8, 0, cf⟩ body
  simp only [Nat.zero_add] at h1 h2 h3 h4 h5 h6
  rw [create_name_sfn]
  simp only []
  rw [h2, hend, if_pos rfl, h1, h3, h4, h5, h6, foldl_caseBits, Nat.zero_or]

theorem create_name_sfn_ext (cv : Nat → Nat → Nat) (Ex : Nat → Nat) (lfn : Nat → Nat)
    (body ext : List Nat) (fn : Nat → Nat) (cf : Nat)
    (hb : ∀ c ∈ body, sfnLegal c) (hlen : body.length ≤ 8)
    (he : ∀ c ∈ ext, sfnLegal c) (helen : ext.length ≤ 3)
    (hL : ∀ k, k < body.length → lfn k = body.getD k 0) (hdot : lfn body.length = 0x2E)
    (hE : ∀ k, k < ext.length → lfn (body.length + 1 + k) = ext.getD k 0)
    (hend : lfn (body.length + 1 + ext.length) = 0) :
    create_name_sfn cv Ex lfn (body.length + 1) (_MAX_LFN + 2) ⟨fn, 0, 0, 8, 0, cf⟩ =
      some ⟨writeList (writeList fn 0 (body.map upc)) 8 (ext.map upc), body.length + 1 + ext.length + 1,
        8 + ext.length, 11, (bitsOf body * 4 % 256) ||| bitsOf ext, cf⟩ := by
  have hf : _MAX_LFN + 2 = ((256 - body.length - ext.length - 1 + 1) + ext.length + 1) + body.length := by
    unfold _MAX_LFN; omega
  rw [hf, create_name_sfn_run cv Ex lfn (body.length + 1) body _ _ hb (by simpa using hL) (by simpa using hlen)
    (by intro k hk; simp; omega)]
  obtain ⟨h1, h2, h3, h4, h5, h6⟩ := sfnRun_fields ⟨fn, 0, 0, 8, 0, cf⟩ body
  simp only [Nat.zero_add] at h1 h2 h3 h4 h5 h6
  rw [create_name_sfn]
  simp only []
  rw [h2, hdot, if_neg (by norm_num), if_neg (by simp), if_pos (Or.inr rfl), h4, if_neg (by norm_num),
    if_neg (by simp)]
  simp only [ne_eq, not_true_eq_false, if_false, h1, h5, h6, foldl_caseBits, Nat.zero_or]
  rw [create_name_sfn_run cv Ex lfn (body.length + 1) ext _ _ he (by simpa using hE) (by simp only []; omega)
    (by intro k hk; simp; omega)]
  obtain ⟨g1, g2, g3, g4, g5, g6⟩ := sfnRun_fields
    ⟨writeList fn 0 (body.map upc), body.length + 1, 8, 11, bitsOf body * 4 % 256, cf⟩ ext
  simp only [] at g1 g2 g3 g4 g5 g6
  rw [create_name_sfn]
  simp only []
  rw [g2, hend, if_pos rfl, g1, g3, g4, g5, g6, foldl_caseBits]


theorem upc_lt (c : Nat) (h : c < 0x80) : upc c < 0x80 := by
  unfold upc; split_ifs <;> omega

theorem create_name_83 (cv : Nat → Nat → Nat) (Ex : Nat → Nat) (lfn0 fn0 : Nat → Nat)
    (body ext : List Nat) (hcv : ∀ c, c < 0x80 → cv c 1 = c)
    (hb : ∀ c ∈ body, sfnLegal c) (hb1 : body ≠ []) (hlen : body.length ≤ 8)
    (he : ∀ c ∈ ext, sfnLegal c) (helen : ext.length ≤ 3) :
    create_name cv Ex lfn0 fn0 (name83 body ext) =
      some (FR_OK,
        ⟨Function.update (writeList lfn0 0 (name83 body ext)) (name83 body ext).length 0,
         Function.update (writeList (writeList (memset fn0 0 0x20 11) 0 (body.map upc)) 8 (ext.map upc)) NS
           (create_name_flags (if 0 < 0x20 then NS_LAST else 0) ((bitsOf body * 4 % 256) ||| bitsOf ext)),
         (name83 body ext).length + 1⟩) := by
  obtain ⟨c0, body1, rfl⟩ := List.exists_cons_of_ne_nil hb1
  have hc0 := sfnLegal_facts c0 (hb c0 (List.mem_cons_self _ _))
  have hdrop : (name83 (c0 :: body1) ext).dropWhile (fun c => decide (c = 0x2F ∨ c = 0x5C)) =
      name83 (c0 :: body1) ext := by
    unfold name83
    rw [List.cons_append, List.dropWhile_cons_of_neg]
    simp [hc0.2.2.2.2.2.2.1, hc0.2.2.2.2.2.2.2]
  have hnlen := name83_length (c0 :: body1) ext
  have hn255 : 0 + (name83 (c0 :: body1) ext).length ≤ _MAX_LFN := by
    rw [hnlen]; unfold _MAX_LFN; split_ifs <;> omega
  have hseg : create_name_seg cv (name83 (c0 :: body1) ext) 0 lfn0 0 =
      .ok (0, (name83 (c0 :: body1) ext).length + 1, writeList lfn0 0 (name83 (c0 :: body1) ext),
        (name83 (c0 :: body1) ext).length) := by
    have h := create_name_seg_plain cv (name83 (c0 :: body1) ext) [] 0 lfn0 0
      (name83_segPlain cv hcv _ _ hb he) hn255
    rw [List.append_nil] at h
    rw [h]
    simp only [create_name_seg, Nat.zero_add]
  -- the long-name buffer
  have hLlt : ∀ k, k < (name83 (c0 :: body1) ext).length →
      writeList lfn0 0 (name83 (c0 :: body1) ext) k = (name83 (c0 :: body1) ext).getD k 0 := by
    intro k hk
    rw [writeList_apply, if_pos ⟨Nat.zero_le _, by omega⟩, Nat.sub_zero]
  generalize writeList lfn0 0 (name83 (c0 :: body1) ext) = L at *
  generalize (name83 (c0 :: body1) ext).length = n at *
  have hUlt : ∀ k, k < n → Function.update L n 0 k = (name83 (c0 :: body1) ext).getD k 0 := by
    intro k hk
    rw [Function.update_noteq (by omega), hLlt k hk]
  have hUb : ∀ k, k < (c0 :: body1).length → Function.update L n 0 k = (c0 :: body1).getD k 0 := by
    intro k hk
    rw [hUlt k (by rw [hnlen]; omega), name83_getD_body _ _ _ hk]
  have hU0 : Function.update L n 0 0 = c0 := by simpa using hUb 0 (by simp)
  unfold create_name
  simp only [hdrop]
  rw [hseg]
  simp only [Nat.sub_self, Nat.zero_add]
  by_cases hext : ext = []
  · -- no extension
    subst hext
    have hn1 : n = body1.length + 1 := by rw [hnlen]; simp
    have hlast : sfnLegal (L body1.length) := by
      rw [hLlt _ (by omega), name83_getD_body _ _ _ (by simp)]
      exact hb _ (getD_mem_of_lt _ _ (by simp))
    have hl := sfnLegal_facts _ hlast
    subst hn1
    rw [create_name_strip_last L _ hl.2.1 hl.2.2.1]
    rw [if_neg (by omega), create_name_lead_none _ _ (by rw [hU0]; exact hc0.2.1) (by rw [hU0]; exact hc0.2.2.1)]
    rw [create_name_ext_none _ _ (by
      intro k hk
      rw [hUb k (by simpa using hk)]
      exact (sfnLegal_facts _ (hb _ (getD_mem_of_lt _ _ (by simpa using hk)))).2.2.1)]
    simp only [ne_eq, not_true_eq_false, if_false]
    rw [create_name_sfn_noext cv Ex _ (c0 :: body1) _ _ hb hlen hUb (by simp)]
    simp only [if_true]
    have hfn0 : writeList (memset fn0 0 32 11) 0 (List.map upc (c0 :: body1)) 0 ≠ DDE := by
      rw [writeList_apply, if_pos (by simp)]
      simp only [Nat.sub_zero, List.map_cons, List.getD_cons_zero]
      have := upc_lt c0 hc0.2.2.2.1
      unfold DDE; omega
    rw [if_neg hfn0]
    have hb0 : bitsOf [] = 0 := rfl
    rw [hb0, Nat.or_zero]
    rfl
  · -- with an extension
    have hn1 : n = body1.length + 1 + 1 + (ext.length - 1) + 1 := by
      rw [hnlen, if_neg hext]
      have : ext.length ≠ 0 := fun h => hext (List.length_eq_zero.1 h)
      simp only [List.length_cons]; omega
    have hepos : 0 < ext.length := List.length_pos.2 hext
    have hlast : sfnLegal (L (body1.length + 1 + 1 + (ext.length - 1))) := by
      rw [hLlt _ (by omega)]
      have := name83_getD_ext (c0 :: body1) ext (ext.length - 1) hext
      simp only [List.length_cons] at this
      rw [this]
      exact he _ (getD_mem_of_lt _ _ (by omega))
    have hl := sfnLegal_facts _ hlast
    subst hn1
    rw [create_name_strip_last L _ hl.2.1 hl.2.2.1]
    rw [if_neg (by omega), create_name_lead_none _ _ (by rw [hU0]; exact hc0.2.1) (by rw [hU0]; exact hc0.2.2.1)]
    have hUe : ∀ k, k < ext.length →
        Function.update L (body1.length + 1 + 1 + (ext.length - 1) + 1) 0 ((c0 :: body1).length + 1 + k) =
          ext.getD k 0 := by
      intro k hk
      rw [hUlt _ (by simp only [List.length_cons]; omega), name83_getD_ext _ _ _ hext]
    have hUdot : Function.update L (body1.length + 1 + 1 + (ext.length - 1) + 1) 0 (c0 :: body1).length = 0x2E := by
      rw [hUlt _ (by simp only [List.length_cons]; omega), name83_getD_dot _ _ hext]
    have hq : body1.length + 1 + 1 + (ext.length - 1) + 1 = (c0 :: body1).length + 1 + ext.length := by
      simp only [List.length_cons]; omega
    rw [hq] at hUe hUdot ⊢
    rw [create_name_ext_dot _ _ _ hUdot (by
      intro k hk1 hk2
      obtain ⟨j, rfl⟩ : ∃ j, k = (c0 :: body1).length + 1 + j := ⟨k - (c0 :: body1).length - 1, by omega⟩
      rw [hUe j (by omega)]
      exact (sfnLegal_facts _ (he _ (getD_mem_of_lt _ _ (by omega)))).2.2.1)]
    simp only [ne_eq, not_true_eq_false, if_false]
    rw [create_name_sfn_ext cv Ex _ (c0 :: body1) ext _ _ hb hlen he helen
      (by intro k hk; rw [← hq]; exact hUb k hk) hUdot hUe (by simp)]
    simp only []
    have hfn0 : writeList (writeList (memset fn0 0 32 11) 0 (List.map upc (c0 :: body1))) 8 (List.map upc ext) 0 ≠ DDE := by
      rw [writeList_apply, if_neg (by omega), writeList_apply, if_pos (by simp)]
      simp only [Nat.sub_zero, List.map_cons, List.getD_cons_zero]
      have := upc_lt c0 hc0.2.2.2.1
      unfold DDE; omega
    rw [if_neg hfn0, if_neg (show ¬ (11 = 8) by norm_num)]


theorem gf_skip (dir : Nat → Nat) (fuel i : Nat) (hi : i < 11) (h : dir i = 0x20) :
    get_fileinfo_sfn dir (fuel + 1) i = get_fileinfo_sfn dir fuel (i + 1) := by
  rw [get_fileinfo_sfn, if_pos hi]
  simp only [h, if_true]

theorem gf_skip_run (dir : Nat → Nat) (m fuel i : Nat) (hi : i + m ≤ 11)
    (h : ∀ k, k < m → dir (i + k) = 0x20) :
    get_fileinfo_sfn dir (fuel + m) i = get_fileinfo_sfn dir fuel (i + m) := by
  induction m generalizing i with
  | zero => rfl
  | succ m ih =>
    rw [← Nat.add_assoc, gf_skip dir _ i (by omega) (by simpa using h 0 (by omega)),
      ih (i + 1) (by omega) (fun k hk => by have := h (k + 1) (by omega); rwa [Nat.add_assoc, Nat.add_comm 1 k])]
    congr 1; omega

theorem gf_emit (dir : Nat → Nat) (fuel i : Nat) (hi : i < 11) (h1 : dir i ≠ 0x20) (h2 : dir i ≠ NDDE) :
    get_fileinfo_sfn dir (fuel + 1) i =
      (if i + 1 = 9 then [0x2E] else []) ++
        (if ka_isupper (dir i) ∧ dir DIR_NTres &&& (if i + 1 ≥ 9 then NS_EXT else NS_BODY) ≠ 0
          then dir i + 0x20 else dir i) :: get_fileinfo_sfn dir fuel (i + 1) := by
  rw [get_fileinfo_sfn, if_pos hi]
  simp only [h1, h2, if_false]

theorem ka_isupper_iff (c : Nat) : ka_isupper c = true ↔ (0x41 ≤ c ∧ c ≤ 0x5A) := by
  unfold ka_isupper; simp

theorem ka_islower_iff (c : Nat) : ka_islower c = true ↔ (0x61 ≤ c ∧ c ≤ 0x7A) := by
  unfold ka_islower; simp

theorem upc_restore (c : Nat) (flag : Prop) [Decidable flag]
    (h1 : flag → ka_isupper c = false) (h2 : ¬ flag → ka_islower c = false) :
    (if ka_isupper (upc c) ∧ flag then upc c + 0x20 else upc c) = c := by
  unfold upc
  by_cases hlow : ka_islower c = true
  · have hf : flag := by
      by_contra hf
      rw [h2 hf] at hlow
      exact Bool.false_ne_true hlow
    have hr := (ka_islower_iff c).1 hlow
    rw [if_pos hlow, if_pos ⟨(ka_isupper_iff _).2 (by omega), hf⟩]
    omega
  · rw [if_neg hlow]
    by_cases hf : flag
    · rw [if_neg (by rw [h1 hf]; simp)]
    · rw [if_neg (fun h => hf h.2)]

theorem upc_facts (c : Nat) (hc : sfnLegal c) : upc c ≠ 0x20 ∧ upc c ≠ NDDE := by
  obtain ⟨h1, h2, -⟩ := hc
  unfold upc ka_islower NDDE
  simp only [Bool.and_eq_true, decide_eq_true_eq]
  split_ifs <;> omega

theorem gf_run (dir : Nat → Nat) (l : List Nat) (fuel i F : Nat)
    (hl : ∀ c ∈ l, sfnLegal c)
    (hd : ∀ k, k < l.length → dir (i + k) = upc (l.getD k 0))
    (hF : (i + l.length ≤ 8 ∧ F = NS_BODY) ∨ (9 ≤ i ∧ i + l.length ≤ 11 ∧ F = NS_EXT))
    (h1 : dir DIR_NTres &&& F ≠ 0 → ∀ c ∈ l, ka_isupper c = false)
    (h2 : ¬ dir DIR_NTres &&& F ≠ 0 → ∀ c ∈ l, ka_islower c = false) :
    get_fileinfo_sfn dir (fuel + l.length) i = l ++ get_fileinfo_sfn dir fuel (i + l.length) := by
  induction l generalizing i with
  | nil => rfl
  | cons c l ih =>
    have hc := hl c (List.mem_cons_self _ _)
    have hdc : dir i = upc c := by simpa using hd 0 (by simp)
    have hfl : (if i + 1 ≥ 9 then NS_EXT else NS_BODY) = F := by
      simp only [List.length_cons] at hF
      rcases hF with ⟨a, b⟩ | ⟨a, -, b⟩
      · rw [if_neg (by omega), b]
      · rw [if_pos (by omega), b]
    have hnd : ¬ (i + 1 = 9) := by
      simp only [List.length_cons] at hF
      rcases hF with ⟨a, -⟩ | ⟨a, -, -⟩ <;> omega
    simp only [List.length_cons] at hF ⊢
    rw [← Nat.add_assoc, gf_emit dir _ i (by omega) (by rw [hdc]; exact (upc_facts c hc).1)
      (by rw [hdc]; exact (upc_facts c hc).2), if_neg hnd, hfl, hdc,
      upc_restore c _ (fun h => h1 h c (List.mem_cons_self _ _)) (fun h => h2 h c (List.mem_cons_self _ _))]
    rw [ih (i + 1) (fun c hc => hl c (List.mem_cons_of_mem _ hc))
      (fun k hk => by
        have := hd (k + 1) (by simp; omega)
        rw [List.getD_cons_succ] at this
        rw [← this]; congr 1; omega)
      (by rcases hF with ⟨a, b⟩ | ⟨a, a2, b⟩
          · left; exact ⟨by omega, b⟩
          · right; exact ⟨by omega, by omega, b⟩)
      (fun h c hc => h1 h c (List.mem_cons_of_mem _ hc))
      (fun h c hc => h2 h c (List.mem_cons_of_mem _ hc))]
    simp only [List.nil_append, List.cons_append]
    have e : i + 1 + l.length = i + (l.length + 1) := by omega
    rw [e]

theorem gf_end (dir : Nat → Nat) (fuel : Nat) : get_fileinfo_sfn dir fuel 11 = [] := by
  cases fuel with
  | zero => rfl
  | succ f => rw [get_fileinfo_sfn, if_neg (by omega)]

theorem create_name_flags_nt (bb be : Nat) (hb : bb ≤ 2) (he : be ≤ 2) :
    ((create_name_flags NS_LAST ((bb * 4 % 256) ||| be) &&& (NS_BODY ||| NS_EXT)) &&& NS_BODY ≠ 0 ↔ bb = 1) ∧
    ((create_name_flags NS_LAST ((bb * 4 % 256) ||| be) &&& (NS_BODY ||| NS_EXT)) &&& NS_EXT ≠ 0 ↔ be = 1) ∧
    create_name_flags NS_LAST ((bb * 4 % 256) ||| be) &&& (NS_LOSS ||| NS_LFN) = 0 := by
  interval_cases bb <;> interval_cases be <;> decide

theorem sfn_entry_name (dir fn : Nat → Nat) (k : Nat) (hk : k < 11) : sfn_entry dir fn k = fn k := by
  unfold sfn_entry memcpy memset DIR_NTres
  rw [Function.update_noteq (by omega)]
  simp [hk]

theorem sfn_entry_nt (dir fn : Nat → Nat) :
    sfn_entry dir fn DIR_NTres = fn NS &&& (NS_BODY ||| NS_EXT) := by
  unfold sfn_entry
  simp


theorem getD_map_upc (l : List Nat) (k : Nat) : (l.map upc).getD k 0 = upc (l.getD k 0) := by
  induction l generalizing k with
  | nil => rfl
  | cons c l ih =>
    cases k with
    | zero => rfl
    | succ k => simp only [List.map_cons, List.getD_cons_succ]; exact ih k

/-- C10: a name in strict 8.3 form whose body letters are of one case and
whose extension letters are of one case is accepted by `create_name` with
neither `NS_LOSS` nor `NS_LFN` set, and `get_fileinfo` on the short entry
registered from it (name bytes `fn[0..10]`, NT byte
`fn[NS] & (NS_BODY | NS_EXT)`) gives back exactly the original name. -/
theorem C10_strict_83_roundtrip (cv : Nat → Nat → Nat) (Ex : Nat → Nat) (lfn0 fn0 dir0 : Nat → Nat)
    (body ext : List Nat) (hcv : ∀ c, c < 0x80 → cv c 1 = c)
    (hb : ∀ c ∈ body, sfnLegal c) (hb1 : body ≠ []) (hlen : body.length ≤ 8)
    (he : ∀ c ∈ ext, sfnLegal c) (helen : ext.length ≤ 3)
    (hcb : oneCase body) (hce : oneCase ext) :
    ∃ r, create_name cv Ex lfn0 fn0 (name83 body ext) = some (FR_OK, r) ∧
      r.fn NS &&& (NS_LOSS ||| NS_LFN) = 0 ∧
      get_fileinfo_sfn (sfn_entry dir0 r.fn) 11 0 = name83 body ext := by
  have hbb := bitsOf_oneCase body hcb
  have hbe := bitsOf_oneCase ext hce
  have hnt := create_name_flags_nt (bitsOf body) (bitsOf ext)
    (by rcases hbb with h | ⟨h | h, -⟩ <;> omega) (by rcases hbe with h | ⟨h | h, -⟩ <;> omega)
  refine ⟨_, create_name_83 cv Ex lfn0 fn0 body ext hcv hb hb1 hlen he helen, ?_, ?_⟩
  all_goals simp only [if_pos (show 0 < 0x20 by norm_num)]
  all_goals generalize create_name_flags NS_LAST ((bitsOf body * 4 % 256) ||| bitsOf ext) = f at hnt ⊢
  · rw [Function.update_same]; exact hnt.2.2
  · generalize hdir : sfn_entry dir0 (Function.update (writeList (writeList (memset fn0 0 0x20 11) 0 (body.map upc)) 8
      (ext.map upc)) NS f) = dir
    have hname : ∀ k, k < 11 → dir k =
        writeList (writeList (memset fn0 0 0x20 11) 0 (body.map upc)) 8 (ext.map upc) k := by
      intro k hk
      rw [← hdir, sfn_entry_name _ _ k hk, Function.update_noteq (by unfold NS; omega)]
    have hNT : dir DIR_NTres = f &&& (NS_BODY ||| NS_EXT) := by
      rw [← hdir, sfn_entry_nt, Function.update_same]
    have hdb : ∀ k, k < body.length → dir (0 + k) = upc (body.getD k 0) := by
      intro k hk
      rw [Nat.zero_add, hname k (by omega), writeList_apply, if_neg (by omega), writeList_apply,
        if_pos (by simp; omega), Nat.sub_zero, getD_map_upc]
    have hds : ∀ k, k < 8 - body.length → dir (0 + body.length + k) = 0x20 := by
      intro k hk
      rw [Nat.zero_add, hname _ (by omega), writeList_apply, if_neg (by omega), writeList_apply,
        if_neg (by simp), memset, if_pos (by omega)]
    have hde : ∀ k, k < ext.length → dir (8 + k) = upc (ext.getD k 0) := by
      intro k hk
      rw [hname _ (by omega), writeList_apply, if_pos (by simp; omega), Nat.add_sub_cancel_left, getD_map_upc]
    have hdes : ∀ k, k < 3 - ext.length → dir (8 + ext.length + k) = 0x20 := by
      intro k hk
      rw [hname _ (by omega), writeList_apply, if_neg (by simp), writeList_apply,
        if_neg (by simp; omega), memset, if_pos (by omega)]
    have hB1 : dir DIR_NTres &&& NS_BODY ≠ 0 → ∀ c ∈ body, ka_isupper c = false := by
      rw [hNT]; intro h
      have h1 := hnt.1.1 h
      rcases hbb with ⟨-, h2⟩ | ⟨h2, -⟩
      · exact h2
      · omega
    have hB2 : ¬ dir DIR_NTres &&& NS_BODY ≠ 0 → ∀ c ∈ body, ka_islower c = false := by
      rw [hNT]; intro h
      rcases hbb with ⟨h2, -⟩ | ⟨-, h2⟩
      · exact absurd (hnt.1.2 h2) h
      · exact h2
    have hE1 : dir DIR_NTres &&& NS_EXT ≠ 0 → ∀ c ∈ ext, ka_isupper c = false := by
      rw [hNT]; intro h
      have h1 := hnt.2.1.1 h
      rcases hbe with ⟨-, h2⟩ | ⟨h2, -⟩
      · exact h2
      · omega
    have hE2 : ¬ dir DIR_NTres &&& NS_EXT ≠ 0 → ∀ c ∈ ext, ka_islower c = false := by
      rw [hNT]; intro h
      rcases hbe with ⟨h2, -⟩ | ⟨-, h2⟩
      · exact absurd (hnt.2.1.2 h2) h
      · exact h2
    have hf : 11 = (3 + (8 - body.length)) + body.length := by omega
    rw [hf, gf_run dir body _ 0 NS_BODY hb hdb (Or.inl ⟨by omega, rfl⟩) hB1 hB2,
      gf_skip_run dir (8 - body.length) 3 _ (by omega) hds]
    have h8 : 0 + body.length + (8 - body.length) = 8 := by omega
    rw [h8]
    unfold name83
    cases ext with
    | nil =>
      rw [if_pos rfl]
      have := gf_skip_run dir 3 0 8 (by omega) (by simpa using hdes)
      simp only [Nat.zero_add] at this
      rw [this, gf_end]
    | cons e0 ext1 =>
      rw [if_neg (by simp)]
      have he0 := he e0 (List.mem_cons_self _ _)
      have hd8 : dir 8 = upc e0 := by simpa using hde 0 (by simp)
      simp only [List.length_cons] at helen hdes
      rw [gf_emit dir 2 8 (by omega) (by rw [hd8]; exact (upc_facts e0 he0).1)
        (by rw [hd8]; exact (upc_facts e0 he0).2), hd8, if_pos (show 8 + 1 = 9 from rfl), if_pos (show 8 + 1 ≥ 9 by omega),
        upc_restore e0 _ (fun h => hE1 h e0 (List.mem_cons_self _ _))
          (fun h => hE2 h e0 (List.mem_cons_self _ _))]
      have hf2 : 2 = (2 - ext1.length) + ext1.length := by omega
      rw [hf2, gf_run dir ext1 _ 9 NS_EXT (fun c hc => he c (List.mem_cons_of_mem _ hc))
        (fun k hk => by
          have := hde (k + 1) (by simp; omega)
          rw [List.getD_cons_succ] at this
          rw [← this]; congr 1; omega)
        (Or.inr ⟨by omega, by omega, rfl⟩)
        (fun h c hc => hE1 h c (List.mem_cons_of_mem _ hc))
        (fun h c hc => hE2 h c (List.mem_cons_of_mem _ hc))]
      have hfin := gf_skip_run dir (2 - ext1.length) 0 (9 + ext1.length) (by omega)
        (fun k hk => by
          have := hdes k (by omega)
          rw [← this]; congr 1; omega)
      rw [Nat.zero_add] at hfin
      have h11 : 9 + ext1.length + (2 - ext1.length) = 11 := by omega
      rw [hfin, h11, gf_end]
      simp

theorem C10_strict_83_roundtrip_witness :
    ∃ r, create_name (fun w _ => w) (fun c => c) (fun _ => 0) (fun _ => 0) [0x68, 0x69, 0x2E, 0x74] =
        some (FR_OK, r) ∧
      r.fn NS &&& (NS_LOSS ||| NS_LFN) = 0 ∧
      get_fileinfo_sfn (sfn_entry (fun _ => 0) r.fn) 11 0 = [0x68, 0x69, 0x2E, 0x74] :=
  C10_strict_83_roundtrip (fun w _ => w) (fun c => c) (fun _ => 0) (fun _ => 0) (fun _ => 0)
    [0x68, 0x69] [0x74] (by intros; rfl) (by decide) (by decide) (by decide) (by decide) (by decide)
    (Or.inl (by decide)) (Or.inl (by decide))


theorem create_name_sfn_mylong (cv : Nat → Nat → Nat) (Ex : Nat → Nat) (U fn : Nat → Nat) (di : Nat)
    (hdi : di = 13 ∨ di = 15)
    (h : ∀ k, k < 11 → U k = [0x4D, 0x79, 0x20, 0x4C, 0x6F, 0x6E, 0x67, 0x20, 0x4E, 0x61, 0x6D].getD k 0)
    (hd0 : U di = 0x74) (hd1 : U (di + 1) = 0x78) (hd2 : U (di + 2) = 0x74) (hd3 : U (di + 3) = 0) :
    ∃ st, create_name_sfn cv Ex U di (_MAX_LFN + 2) ⟨fn, 0, 0, 8, 0, 4⟩ = some st ∧
      (∀ k, k < 11 → st.fn k = [0x4D, 0x59, 0x4C, 0x4F, 0x4E, 0x47, 0x4E, 0x41, 0x54, 0x58, 0x54].getD k 0) ∧
      st.ni = 11 ∧ st.b = 13 ∧ st.cf = 7 := by
  have h0 := h 0 (by norm_num)
  have h1 := h 1 (by norm_num)
  have h2 := h 2 (by norm_num)
  have h3 := h 3 (by norm_num)
  have h4 := h 4 (by norm_num)
  have h5 := h 5 (by norm_num)
  have h6 := h 6 (by norm_num)
  have h7 := h 7 (by norm_num)
  have h8 := h 8 (by norm_num)
  have h9 := h 9 (by norm_num)
  have h10 := h 10 (by norm_num)
  simp only [List.getD_cons_zero, List.getD_cons_succ] at h0 h1 h2 h3 h4 h5 h6 h7 h8 h9 h10
  rcases hdi with rfl | rfl
  · simp only [Nat.reduceAdd] at hd1 hd2 hd3
    simp [create_name_sfn, _MAX_LFN, h0, h1, h2, h3, h4, h5, h6, h7, h8, h9, h10, hd0, hd1, hd2, hd3,
      sfnReplaced, ka_isupper, ka_islower, NS_LOSS, NS_LFN]
    intro k hk
    interval_cases k <;> simp [Function.update_apply]
  · simp only [Nat.reduceAdd] at hd1 hd2 hd3
    simp [create_name_sfn, _MAX_LFN, h0, h1, h2, h3, h4, h5, h6, h7, h8, h9, h10, hd0, hd1, hd2, hd3,
      sfnReplaced, ka_isupper, ka_islower, NS_LOSS, NS_LFN]
    intro k hk
    interval_cases k <;> simp [Function.update_apply]


theorem create_name_plain (cv : Nat → Nat → Nat) (Ex : Nat → Nat) (lfn0 fn0 : Nat → Nat)
    (P : List Nat) (n di : Nat) (st : SfnState)
    (hn : P.length = n + 1) (hlen : n + 1 ≤ _MAX_LFN)
    (hplain : ∀ c ∈ P, segPlain cv c)
    (hfirst : P.getD 0 0 ≠ 0x20 ∧ P.getD 0 0 ≠ 0x2E)
    (hlast : P.getD n 0 ≠ 0x20 ∧ P.getD n 0 ≠ 0x2E)
    (hext : create_name_ext (Function.update (writeList lfn0 0 P) (n + 1) 0) (n + 1) = di)
    (hsfn : create_name_sfn cv Ex (Function.update (writeList lfn0 0 P) (n + 1) 0) di (_MAX_LFN + 2)
      ⟨memset fn0 0 0x20 11, 0, 0, 8, 0, 4⟩ = some st) :
    create_name cv Ex lfn0 fn0 P = some (FR_OK,
      ⟨Function.update (writeList lfn0 0 P) (n + 1) 0,
       Function.update (if st.fn 0 = DDE then Function.update st.fn 0 NDDE else st.fn) NS
         (create_name_flags st.cf (if st.ni = 8 then st.b * 4 % 256 else st.b)),
       n + 2⟩) := by
  obtain ⟨c0, P1, rfl⟩ : ∃ c0 P1, P = c0 :: P1 := by
    cases P with
    | nil => simp at hn
    | cons c0 P1 => exact ⟨c0, P1, rfl⟩
  have hc0 := hplain c0 (List.mem_cons_self _ _)
  have hdrop : (c0 :: P1).dropWhile (fun c => decide (c = 0x2F ∨ c = 0x5C)) = c0 :: P1 := by
    rw [List.dropWhile_cons_of_neg]
    simp [hc0.2.2.1, hc0.2.2.2.1]
  have hseg : create_name_seg cv (c0 :: P1) 0 lfn0 0 = .ok (0, n + 1 + 1, writeList lfn0 0 (c0 :: P1), n + 1) := by
    have h := create_name_seg_plain cv (c0 :: P1) [] 0 lfn0 0 hplain (by rw [hn]; omega)
    rw [List.append_nil] at h
    rw [h, hn]
    simp only [create_name_seg, Nat.zero_add]
  have hLlt : ∀ k, k < n + 1 → writeList lfn0 0 (c0 :: P1) k = (c0 :: P1).getD k 0 := by
    intro k hk
    rw [writeList_apply, if_pos ⟨Nat.zero_le _, by omega⟩, Nat.sub_zero]
  unfold create_name
  simp only [hdrop]
  rw [hseg]
  simp only [hn, Nat.sub_self, Nat.zero_add]
  generalize writeList lfn0 0 (c0 :: P1) = L at *
  rw [create_name_strip_last L n (by rw [hLlt n (by omega)]; exact hlast.1)
    (by rw [hLlt n (by omega)]; exact hlast.2)]
  have hU0 : Function.update L (n + 1) 0 0 = (c0 :: P1).getD 0 0 := by
    rw [Function.update_noteq (by omega), hLlt 0 (by omega)]
  rw [if_neg (by omega), create_name_lead_none _ _ (by rw [hU0]; exact hfirst.1) (by rw [hU0]; exact hfirst.2),
    hext]
  simp only [ne_eq, not_true_eq_false, if_false, if_pos (show 0 < 32 by norm_num)]
  have e4 : NS_LAST = 4 := rfl
  rw [e4, hsfn]


theorem create_name_mylong_aux (cv : Nat → Nat → Nat) (Ex : Nat → Nat) (lfn0 fn0 : Nat → Nat)
    (hcv : ∀ c, c < 0x80 → cv c 1 = c) (P : List Nat) (n di : Nat)
    (hn : P.length = n + 1) (hlen : n + 1 ≤ _MAX_LFN) (hdi : di = 13 ∨ di = 15) (hdn : di + 3 = n + 1)
    (hchars : ∀ c ∈ P, c ∈ [0x4D, 0x79, 0x20, 0x4C, 0x6F, 0x6E, 0x67, 0x4E, 0x61, 0x6D, 0x65, 0x2E, 0x74,
      0x78, 0x41, 0x42])
    (hvals : P.getD 0 0 = 0x4D ∧ P.getD n 0 = 0x74 ∧ P.getD (di - 1) 0 = 0x2E ∧ P.getD di 0 = 0x74 ∧
      P.getD (di + 1) 0 = 0x78 ∧ P.getD (di + 2) 0 = 0x74 ∧
      (∀ k, k < 11 → P.getD k 0 =
        [0x4D, 0x79, 0x20, 0x4C, 0x6F, 0x6E, 0x67, 0x20, 0x4E, 0x61, 0x6D].getD k 0)) :
    ∃ r, create_name cv Ex lfn0 fn0 P = some (FR_OK, r) ∧
      (∀ k, k < 11 → r.fn k = [0x4D, 0x59, 0x4C, 0x4F, 0x4E, 0x47, 0x4E, 0x41, 0x54, 0x58, 0x54].getD k 0) ∧
      r.fn NS &&& NS_LOSS ≠ 0 := by
  have hplain : ∀ c ∈ P, segPlain cv c := by
    intro c hc
    have hc2 := hchars c hc
    simp only [List.mem_cons, List.mem_singleton, List.not_mem_nil, or_false] at hc2
    refine ⟨by omega, by omega, by omega, by omega, ?_, hcv c (by omega)⟩
    simp only [lfnIllegal, List.mem_cons, List.mem_singleton, List.not_mem_nil, or_false]
    omega
  have hU : ∀ k, k < n + 1 → Function.update (writeList lfn0 0 P) (n + 1) 0 k = P.getD k 0 := by
    intro k hk
    rw [Function.update_noteq (by omega), writeList_apply, if_pos ⟨Nat.zero_le _, by omega⟩, Nat.sub_zero]
  have hUe : Function.update (writeList lfn0 0 P) (n + 1) 0 (di + 3) = 0 := by
    rw [hdn, Function.update_same]
  obtain ⟨v0, vn, vdot, vd0, vd1, vd2, vpre⟩ := hvals
  have hext : create_name_ext (Function.update (writeList lfn0 0 P) (n + 1) 0) (n + 1) = di := by
    have e : n + 1 = (di - 1) + 1 + 3 := by omega
    have e2 : di = (di - 1) + 1 := by omega
    rw [e2]
    conv_lhs => rw [e]
    apply create_name_ext_dot
    · rw [← e, hU _ (by omega), vdot]
    · intro k hk1 hk2
      rw [← e, hU k (by omega)]
      obtain rfl | rfl | rfl : k = di ∨ k = di + 1 ∨ k = di + 2 := by omega
      · rw [vd0]; norm_num
      · rw [vd1]; norm_num
      · rw [vd2]; norm_num
  obtain ⟨st, hst, hfn, hni, hb, hcf⟩ := create_name_sfn_mylong cv Ex
    (Function.update (writeList lfn0 0 P) (n + 1) 0) (memset fn0 0 0x20 11) di hdi
    (fun k hk => by rw [hU k (by omega), vpre k hk])
    (by rw [hU _ (by omega), vd0]) (by rw [hU _ (by omega), vd1]) (by rw [hU _ (by omega), vd2]) hUe
  refine ⟨_, create_name_plain cv Ex lfn0 fn0 P n di st hn hlen hplain
    (by rw [v0]; norm_num) (by rw [vn]; norm_num) hext hst, ?_, ?_⟩
  · intro k hk
    have h0 := hfn 0 (by norm_num)
    simp only [List.getD_cons_zero] at h0
    show Function.update _ NS _ k = _
    rw [Function.update_noteq (by unfold NS; omega), if_neg (by rw [h0]; decide)]
    exact hfn k hk
  · simp only [Function.update_same, hni, hb, hcf]
    decide

theorem create_name_mylong (cv : Nat → Nat → Nat) (Ex : Nat → Nat) (lfn0 fn0 : Nat → Nat)
    (hcv : ∀ c, c < 0x80 → cv c 1 = c) (mid : List Nat)
    (hmid : mid = [] ∨ mid = [0x20, 0x41] ∨ mid = [0x20, 0x42]) :
    ∃ r, create_name cv Ex lfn0 fn0
        ([0x4D, 0x79, 0x20, 0x4C, 0x6F, 0x6E, 0x67, 0x20, 0x4E, 0x61, 0x6D, 0x65] ++ mid ++
          [0x2E, 0x74, 0x78, 0x74]) = some (FR_OK, r) ∧
      (∀ k, k < 11 → r.fn k = [0x4D, 0x59, 0x4C, 0x4F, 0x4E, 0x47, 0x4E, 0x41, 0x54, 0x58, 0x54].getD k 0) ∧
      r.fn NS &&& NS_LOSS ≠ 0 := by
  rcases hmid with rfl | rfl | rfl
  · exact create_name_mylong_aux cv Ex lfn0 fn0 hcv _ 15 13 rfl (by decide) (Or.inl rfl) rfl
      (by decide) (by decide)
  · exact create_name_mylong_aux cv Ex lfn0 fn0 hcv _ 17 15 rfl (by decide) (Or.inr rfl) rfl
      (by decide) (by decide)
  · exact create_name_mylong_aux cv Ex lfn0 fn0 hcv _ 17 15 rfl (by decide) (Or.inr rfl) rfl
      (by decide) (by decide)


theorem gen_numname_scan_stop (D : Nat → Nat) (i b : Nat)
    (h1 : ∀ j, j < b → D j ≠ 0x20) (h2 : b < i → D b = 0x20) :
    ∀ fuel j, j ≤ min b i → min b i ≤ j + fuel → gen_numname_scan D i fuel j = min b i := by
  intro fuel
  induction fuel with
  | zero => intro j hj hf; rw [gen_numname_scan]; omega
  | succ fuel ih =>
    intro j hj hf
    rw [gen_numname_scan]
    by_cases hlt : j < min b i
    · rw [if_pos ⟨by omega, h1 j (by omega)⟩]
      exact ih (j + 1) (by omega) (by omega)
    · have hj2 : j = min b i := by omega
      rw [if_neg]
      · exact hj2
      · rintro ⟨ha, hb⟩
        have : b < i := by omega
        have hjb : j = b := by omega
        rw [hjb] at hb
        exact hb (h2 this)

theorem gen_numname_itoa_small (seq : Nat) (h1 : 1 ≤ seq) (h5 : seq ≤ 5) :
    gen_numname_itoa 8 (fun _ => 0) 7 seq = (Function.update (fun _ => 0) 7 (0x30 + seq), 6) := by
  interval_cases seq <;> simp [gen_numname_itoa]

theorem gen_numname_small (dst src : Nat → Nat) (lfn : List Nat) (seq b : Nat)
    (hs1 : 1 ≤ seq) (hs5 : seq ≤ 5) (hb : b ≤ 8)
    (h1 : ∀ j, j < b → src j ≠ 0x20) (h2 : ∀ j, b ≤ j → j < 8 → src j = 0x20) :
    (∀ j, j < min b 6 → gen_numname dst src lfn seq j = src j) ∧
    gen_numname dst src lfn seq (min b 6) = 0x7E ∧
    gen_numname dst src lfn seq (min b 6 + 1) = 0x30 + seq ∧
    (∀ j, min b 6 + 2 ≤ j → j < 8 → gen_numname dst src lfn seq j = 0x20) ∧
    (∀ j, 8 ≤ j → j < 11 → gen_numname dst src lfn seq j = src j) := by
  have hD : ∀ j, j < 11 → memcpy dst 0 src 0 11 j = src j := by
    intro j hj
    unfold memcpy
    simp [hj]
  unfold gen_numname
  rw [if_neg (by omega), gen_numname_itoa_small seq hs1 hs5]
  rw [gen_numname_scan_stop (memcpy dst 0 src 0 11) 6 b
    (fun j hj => by rw [hD j (by omega)]; exact h1 j hj)
    (fun h => by rw [hD b (by omega)]; exact h2 b (le_refl _) (by omega)) 6 0 (by omega) (by omega)]
  generalize memcpy dst 0 src 0 11 = D at hD ⊢
  have hm : min b 6 ≤ 6 := Nat.min_le_right _ _
  generalize min b 6 = m at hm ⊢
  interval_cases m <;>
    refine ⟨fun j hj => ?_, ?_, ?_, fun j hj1 hj2 => ?_, fun j hj1 hj2 => ?_⟩ <;>
    (try interval_cases j) <;>
    simp [gen_numname_put, Function.update_apply, hD]


/-- C9: for a sequence number 1..5 and a space-padded short name whose body
has `b` non-space characters, `gen_numname` keeps the first `min b 6` body
characters, appends `~` and the digit, pads the body with spaces and keeps
the extension. The long names "My Long Name.txt", "My Long Name A.txt" and
"My Long Name B.txt" get the base name `MYLONGNA TXT` with `NS_LOSS` from
`create_name`, which `gen_numname` turns into `MYLONG~1TXT` for 1 and
`MYLONG~2TXT` for 2 (`ff_convert` being the identity on ASCII). -/
theorem C9_gen_numname_tail (cv : Nat → Nat → Nat) (Ex : Nat → Nat) (lfn0 fn0 dst src : Nat → Nat)
    (lfn : List Nat) (seq b : Nat) (hcv : ∀ c, c < 0x80 → cv c 1 = c)
    (hs1 : 1 ≤ seq) (hs5 : seq ≤ 5) (hb : b ≤ 8)
    (h1 : ∀ j, j < b → src j ≠ 0x20) (h2 : ∀ j, b ≤ j → j < 8 → src j = 0x20) :
    ((∀ j, j < min b 6 → gen_numname dst src lfn seq j = src j) ∧
      gen_numname dst src lfn seq (min b 6) = 0x7E ∧
      gen_numname dst src lfn seq (min b 6 + 1) = 0x30 + seq ∧
      (∀ j, min b 6 + 2 ≤ j → j < 8 → gen_numname dst src lfn seq j = 0x20) ∧
      (∀ j, 8 ≤ j → j < 11 → gen_numname dst src lfn seq j = src j)) ∧
    (∀ mid, mid = [] ∨ mid = [0x20, 0x41] ∨ mid = [0x20, 0x42] →
      ∃ r, create_name cv Ex lfn0 fn0
          ([0x4D, 0x79, 0x20, 0x4C, 0x6F, 0x6E, 0x67, 0x20, 0x4E, 0x61, 0x6D, 0x65] ++ mid ++
            [0x2E, 0x74, 0x78, 0x74]) = some (FR_OK, r) ∧
        (∀ k, k < 11 → r.fn k = [0x4D, 0x59, 0x4C, 0x4F, 0x4E, 0x47, 0x4E, 0x41, 0x54, 0x58, 0x54].getD k 0) ∧
        r.fn NS &&& NS_LOSS ≠ 0 ∧
        (∀ k, k < 11 → gen_numname dst r.fn lfn 1 k =
          [0x4D, 0x59, 0x4C, 0x4F, 0x4E, 0x47, 0x7E, 0x31, 0x54, 0x58, 0x54].getD k 0) ∧
        (∀ k, k < 11 → gen_numname dst r.fn lfn 2 k =
          [0x4D, 0x59, 0x4C, 0x4F, 0x4E, 0x47, 0x7E, 0x32, 0x54, 0x58, 0x54].getD k 0)) := by
  refine ⟨gen_numname_small dst src lfn seq b hs1 hs5 hb h1 h2, ?_⟩
  intro mid hmid
  obtain ⟨r, hr, hfn, hloss⟩ := create_name_mylong cv Ex lfn0 fn0 hcv mid hmid
  have hns : ∀ j, j < 8 → r.fn j ≠ 0x20 := by
    intro j hj
    rw [hfn j (by omega)]
    interval_cases j <;> decide
  have key : ∀ s, 1 ≤ s → s ≤ 5 → ∀ k, k < 11 → gen_numname dst r.fn lfn s k =
      [0x4D, 0x59, 0x4C, 0x4F, 0x4E, 0x47, 0x7E, 0x30 + s, 0x54, 0x58, 0x54].getD k 0 := by
    intro s hs1 hs5 k hk
    obtain ⟨g1, g2, g3, g4, g5⟩ := gen_numname_small dst r.fn lfn s 8 hs1 hs5 (le_refl _) hns
      (fun j h1 h2 => absurd h2 (by omega))
    have e : min 8 6 = 6 := rfl
    rw [e] at g1 g2 g3 g4
    by_cases h6 : k < 6
    · rw [g1 k h6, hfn k hk]
      interval_cases k <;> rfl
    · by_cases h8 : 8 ≤ k
      · rw [g5 k h8 hk, hfn k hk]
        interval_cases k <;> rfl
      · obtain rfl | rfl : k = 6 ∨ k = 7 := by omega
        · rw [g2]; rfl
        · rw [g3]; rfl
  exact ⟨r, hr, hfn, hloss, key 1 (by norm_num) (by norm_num), key 2 (by norm_num) (by norm_num)⟩

theorem C9_gen_numname_tail_witness :
    gen_numname (fun _ => 0) (fun k => [0x48, 0x49, 0x20, 0x20, 0x20, 0x20, 0x20, 0x20, 0x54, 0x58, 0x54].getD k 0)
      [] 3 2 = 0x7E ∧
    gen_numname (fun _ => 0) (fun k => [0x48, 0x49, 0x20, 0x20, 0x20, 0x20, 0x20, 0x20, 0x54, 0x58, 0x54].getD k 0)
      [] 3 3 = 0x33 :=
  have h := (C9_gen_numname_tail (fun w _ => w) (fun c => c) (fun _ => 0) (fun _ => 0) (fun _ => 0)
    (fun k => [0x48, 0x49, 0x20, 0x20, 0x20, 0x20, 0x20, 0x20, 0x54, 0x58, 0x54].getD k 0) [] 3 2
    (by intros; rfl) (by decide) (by decide) (by decide) (by decide) (by decide)).1
  ⟨h.2.1, h.2.2.1⟩


theorem disk_write_faithful (d : Disk) (buf : Nat → Nat) (s : Nat) (hf : d.faithful) :
    disk_write d buf s = some { d with data := Function.update d.data s buf } := by
  unfold disk_write
  rw [hf.2 s]
  rfl

theorem disk_read_faithful (d : Disk) (s : Nat) (hf : d.faithful) :
    disk_read d s = some (d.data s) := by
  unfold disk_read
  rw [hf.1 s]
  rfl

theorem sync_window_mirror_spec (fsize : Nat) (win : Nat → Nat) :
    ∀ (nf wsect : Nat) (d : Disk) (lo : Nat), d.faithful → lo ≤ wsect → wsect < lo + fsize →
      lo + nf * fsize ≤ 4294967296 →
      (sync_window_mirror fsize win nf wsect d).faithful ∧
      ∀ s, (s < lo + fsize ∨ lo + nf * fsize ≤ s) →
        (sync_window_mirror fsize win nf wsect d).data s = d.data s := by
  intro nf
  induction nf with
  | zero => intro wsect d lo hf _ _ _; exact ⟨hf, fun _ _ => rfl⟩
  | succ nf ih =>
    intro wsect d lo hf h1 h2 h3
    rw [sync_window_mirror]
    by_cases h : nf + 1 ≥ 2
    · rw [if_pos h]
      obtain ⟨m, rfl⟩ : ∃ m, nf = m + 1 := ⟨nf - 1, by omega⟩
      have e1 : (m + 1 + 1) * fsize = m * fsize + fsize + fsize := by ring
      have e2 : (m + 1) * fsize = m * fsize + fsize := by ring
      rw [e1] at h3
      have hadd : add32 wsect fsize = wsect + fsize := by
        unfold add32; exact Nat.mod_eq_of_lt (by omega)
      simp only [hadd, disk_write_faithful d win _ hf]
      obtain ⟨g1, g2⟩ := ih (wsect + fsize) { d with data := Function.update d.data (wsect + fsize) win }
        (lo + fsize) hf (by omega) (by omega) (by rw [e2]; omega)
      refine ⟨g1, fun s hs => ?_⟩
      rw [g2 s (by rw [e2]; rw [e1] at hs; omega)]
      have : s ≠ wsect + fsize := by rw [e1] at hs; omega
      simp only [Function.update_noteq this]
    · rw [if_neg h]
      exact ⟨hf, fun _ _ => rfl⟩

theorem sync_window_good (fs : FATFS) (hg : fs.good) :
    (sync_window fs).2 = FR_OK ∧ (sync_window fs).1.wflag = 0 ∧ (sync_window fs).1.good ∧
    ∀ s k, ¬ mirrorArea fs s → view (sync_window fs).1 s k = view fs s k := by
  obtain ⟨hw, hf, hfa, hn, hws, hc⟩ := hg
  unfold sync_window
  by_cases h0 : fs.wflag ≠ 0
  · rw [if_pos h0]
    simp only [disk_write_faithful fs.disk fs.win _ hf]
    by_cases hm : sub32 fs.winsect fs.fatbase < fs.fsize
    · rw [if_pos hm]
      have hge : fs.fatbase ≤ fs.winsect ∧ fs.winsect < fs.fatbase + fs.fsize := by
        unfold sub32 at hm
        have hn2 : fs.fsize ≤ fs.n_fats * fs.fsize := Nat.le_mul_of_pos_left _ hfa
        omega
      obtain ⟨g1, g2⟩ := sync_window_mirror_spec fs.fsize fs.win fs.n_fats fs.winsect
        { fs.disk with data := Function.update fs.disk.data fs.winsect fs.win } fs.fatbase hf
        hge.1 hge.2 hn
      refine ⟨rfl, rfl, ⟨hw, g1, hfa, hn, hws, ?_⟩, ?_⟩
      · intro _ k
        show fs.win k = _
        rw [g2 fs.winsect (Or.inl hge.2)]
        simp
      · intro s k hs
        unfold view
        simp only []
        by_cases e : s = fs.winsect
        · rw [if_pos e, if_pos e]
        · rw [if_neg e, if_neg e, g2 s (by unfold mirrorArea at hs; omega)]
          simp only [Function.update_noteq e]
    · rw [if_neg hm]
      refine ⟨rfl, rfl, ⟨hw, hf, hfa, hn, hws, ?_⟩, ?_⟩
      · intro _ k
        show fs.win k = Function.update fs.disk.data fs.winsect fs.win fs.winsect k
        simp
      · intro s k hs
        unfold view
        simp only []
        by_cases e : s = fs.winsect
        · rw [if_pos e, if_pos e]
        · rw [if_neg e, if_neg e]
          simp only [Function.update_noteq e]
  · rw [if_neg h0]
    simp only [ne_eq, not_not] at h0
    exact ⟨rfl, h0, ⟨hw, hf, hfa, hn, hws, hc⟩, fun _ _ _ => rfl⟩

theorem move_window_good (fs : FATFS) (s : Nat) (hg : fs.good) (hs : s < 4294967296) :
    (move_window fs s).2 = FR_OK ∧ (move_window fs s).1.winsect = s ∧ (move_window fs s).1.good ∧
    (∀ s1 k, ¬ mirrorArea fs s1 → view (move_window fs s).1 s1 k = view fs s1 k) ∧
    (move_window fs s).1.wflag = (if s = fs.winsect then fs.wflag else 0) := by
  unfold move_window
  by_cases h : s ≠ fs.winsect
  · obtain ⟨g1, g2, g3, g4⟩ := sync_window_good fs hg
    have hwin := sync_window_winsect fs
    have hro : (if ¬ fs.readonly = true then sync_window fs else (fs, FR_OK)) = sync_window fs := by
      rw [hg.writable]; simp
    rw [if_pos h]
    simp only [hro]
    rw [if_neg (by rw [g1]; simp), disk_read_faithful _ _ g3.faithful]
    simp only []
    refine ⟨trivial, trivial, ⟨g3.writable, g3.faithful, g3.fats, g3.nowrap, hs, fun _ _ => rfl⟩, ?_, ?_⟩
    · intro s1 k hs1
      rw [← g4 s1 k hs1]
      unfold view
      simp only []
      by_cases e : s1 = s
      · rw [if_pos e, if_neg (by rw [hwin, e]; exact h), e]
      · rw [if_neg e]
        by_cases e2 : s1 = (sync_window fs).1.winsect
        · rw [if_pos e2, e2]
          exact (g3.coherent g2 k).symm
        · rw [if_neg e2]
    · rw [if_neg h]; exact g2
  · simp only [ne_eq, not_not] at h
    rw [if_neg (by simp [h])]
    exact ⟨rfl, h.symm, hg, fun _ _ _ => rfl, by rw [if_pos h]⟩

theorem move_window_win (fs : FATFS) (s : Nat) (hg : fs.good) (hs : s < 4294967296)
    (hm : ¬ mirrorArea fs s) (k : Nat) : (move_window fs s).1.win k = view fs s k := by
  obtain ⟨-, g2, -, g4, -⟩ := move_window_good fs s hg hs
  rw [← g4 s k hm]
  unfold view
  rw [if_pos g2.symm]


theorem land_65535 (i : Nat) : i &&& 0xFFFF = i % 65536 := Nat.and_pow_two_sub_one_eq_mod i 16

theorem dir_next_root (fs : FATFS) (dp : FF_DIR) (stretch : Bool)
    (hc : dp.clust = 0) (hi : dp.index + 1 < 65536) (hs : dp.sect ≠ 0) (hsect : dp.sect + 1 < 4294967296) :
    dir_next fs dp stretch =
      if (dp.index + 1) % (fs.ssize / SZ_DIR) = 0 ∧ dp.index + 1 ≥ fs.n_rootdir then
        some (fs, { dp with sect := dp.sect + 1 }, FR_NO_FILE)
      else
        some (fs, { dp with sect := if (dp.index + 1) % (fs.ssize / SZ_DIR) = 0 then dp.sect + 1 else dp.sect,
                            index := dp.index + 1,
                            dir := some ((dp.index + 1) % (fs.ssize / SZ_DIR) * SZ_DIR) }, FR_OK) := by
  have hadd : add32 dp.sect 1 = dp.sect + 1 := by unfold add32; exact Nat.mod_eq_of_lt hsect
  have hmod : (dp.index + 1) % 65536 = dp.index + 1 := Nat.mod_eq_of_lt hi
  unfold dir_next
  dsimp only
  rw [land_65535, hmod, hadd, hc, if_neg (by omega)]
  by_cases h1 : (dp.index + 1) % (fs.ssize / SZ_DIR) = 0
  · rw [if_pos h1, if_pos rfl]
    by_cases h2 : dp.index + 1 ≥ fs.n_rootdir
    · rw [if_pos h2, if_pos ⟨h1, h2⟩]
    · rw [if_neg h2, if_neg (fun h => h2 h.2), if_pos h1, h1]
  · rw [if_neg h1, if_neg (fun h => h1 h.1), if_neg h1]


theorem mirrorArea_move_window (fs : FATFS) (s t : Nat) :
    mirrorArea (move_window fs s).1 t ↔ mirrorArea fs t := by
  unfold mirrorArea
  simp

theorem succ_div_of_mod (i E : Nat) :
    (i + 1) / E = if (i + 1) % E = 0 then i / E + 1 else i / E := by
  rw [Nat.succ_div]
  by_cases h : (i + 1) % E = 0
  · rw [if_pos h, if_pos (Nat.dvd_of_mod_eq_zero h)]
  · rw [if_neg h, if_neg (fun hd => h (Nat.mod_eq_zero_of_dvd hd)), Nat.add_zero]

theorem dir_alloc_loop_full (nent : Nat) :
    ∀ (fuel : Nat) (fs : FATFS) (dp : FF_DIR) (n : Nat), fs.good →
      0 < fs.ssize / SZ_DIR → fs.n_rootdir % (fs.ssize / SZ_DIR) = 0 → fs.n_rootdir < 65536 →
      fs.dirbase ≠ 0 → fs.dirbase + fs.n_rootdir / (fs.ssize / SZ_DIR) < 4294967296 →
      dp.index < fs.n_rootdir → dp.sect = fs.dirbase + dp.index / (fs.ssize / SZ_DIR) →
      dp.dir = some (dp.index % (fs.ssize / SZ_DIR) * SZ_DIR) → dp.clust = 0 →
      (∀ j, j ≤ fs.n_rootdir / (fs.ssize / SZ_DIR) → ¬ mirrorArea fs (fs.dirbase + j)) →
      (∀ i, i < fs.n_rootdir →
        view fs (fs.dirbase + i / (fs.ssize / SZ_DIR)) (i % (fs.ssize / SZ_DIR) * SZ_DIR) ≠ DDE ∧
        view fs (fs.dirbase + i / (fs.ssize / SZ_DIR)) (i % (fs.ssize / SZ_DIR) * SZ_DIR) ≠ 0) →
      fs.n_rootdir - dp.index ≤ fuel →
      ∃ fs1 dp1, dir_alloc_loop nent fuel fs dp n = some (fs1, dp1, FR_NO_FILE) ∧
        dp1.index = fs.n_rootdir - 1 ∧
        (∀ s k, ¬ mirrorArea fs s → view fs1 s k = view fs s k) ∧
        fs1.free_clust = fs.free_clust ∧ fs1.last_clust = fs.last_clust ∧ fs1.good := by
  intro fuel
  induction fuel with
  | zero => intro fs dp n _ _ _ _ _ _ hidx _ _ _ _ _ hf; omega
  | succ fuel ih =>
    intro fs dp n hg hE hal hn hdb hnw hidx hsect hdir hcl hroot hfull hf
    have hdivle : dp.index / (fs.ssize / SZ_DIR) ≤ fs.n_rootdir / (fs.ssize / SZ_DIR) :=
      Nat.div_le_div_right (le_of_lt hidx)
    have hs0 : dp.sect ≠ 0 ∧ dp.sect + 1 < 4294967296 + 1 ∧ dp.sect < 4294967296 := by
      rw [hsect]
      generalize dp.index / (fs.ssize / SZ_DIR) = q at hdivle ⊢
      generalize fs.n_rootdir / (fs.ssize / SZ_DIR) = Q at hdivle hnw
      omega
    have hslt : dp.sect < 4294967296 := hs0.2.2
    have hqlt : dp.index / (fs.ssize / SZ_DIR) < fs.n_rootdir / (fs.ssize / SZ_DIR) := by
      rw [Nat.div_lt_iff_lt_mul hE, Nat.div_mul_cancel (Nat.dvd_of_mod_eq_zero hal)]
      exact hidx
    have hs1 : dp.sect + 1 < 4294967296 := by
      rw [hsect]
      generalize dp.index / (fs.ssize / SZ_DIR) = q at hqlt ⊢
      generalize fs.n_rootdir / (fs.ssize / SZ_DIR) = Q at hqlt hnw
      omega
    obtain ⟨m1, m2, m3, m4, m5⟩ := move_window_good fs dp.sect hg hslt
    have hnm : ¬ mirrorArea fs dp.sect := by rw [hsect]; exact hroot _ hdivle
    have hbyte : dirByte (move_window fs dp.sect).1 dp 0 =
        view fs (fs.dirbase + dp.index / (fs.ssize / SZ_DIR)) (dp.index % (fs.ssize / SZ_DIR) * SZ_DIR) := by
      unfold dirByte
      rw [hdir, move_window_win fs dp.sect hg hslt hnm, hsect]
      simp
    obtain ⟨hb1, hb2⟩ := hfull dp.index hidx
    rw [dir_alloc_loop]
    simp only []
    rw [if_neg (by rw [m1]; simp), hbyte]
    have hblank : (decide (view fs (fs.dirbase + dp.index / (fs.ssize / SZ_DIR))
        (dp.index % (fs.ssize / SZ_DIR) * SZ_DIR) = DDE ∨
        view fs (fs.dirbase + dp.index / (fs.ssize / SZ_DIR))
        (dp.index % (fs.ssize / SZ_DIR) * SZ_DIR) = 0)) = false := by
      simp [hb1, hb2]
    simp only [hblank, Bool.false_eq_true, false_and, if_false]
    rw [dir_next_root _ dp true hcl (by omega) hs0.1 hs1]
    simp only [move_window_ssize, move_window_n_rootdir]
    have hsd := succ_div_of_mod dp.index (fs.ssize / SZ_DIR)
    by_cases hend : (dp.index + 1) % (fs.ssize / SZ_DIR) = 0 ∧ dp.index + 1 ≥ fs.n_rootdir
    · rw [if_pos hend]
      simp only []
      refine ⟨_, _, rfl, ?_, m4, by simp, by simp, m3⟩
      show dp.index = _
      omega
    · rw [if_neg hend]
      simp only [if_true]
      have hlt : dp.index + 1 < fs.n_rootdir := by
        by_contra hcon
        have : dp.index + 1 = fs.n_rootdir := by omega
        exact hend ⟨by rw [this]; exact hal, by omega⟩
      obtain ⟨fs1, dp1, e1, e2, e3, e4, e5, e6⟩ := ih (move_window fs dp.sect).1
        { dp with sect := if (dp.index + 1) % (fs.ssize / SZ_DIR) = 0 then dp.sect + 1 else dp.sect,
                  index := dp.index + 1,
                  dir := some ((dp.index + 1) % (fs.ssize / SZ_DIR) * SZ_DIR) } 0 m3
        (by simpa using hE) (by simpa using hal) (by simpa using hn) (by simpa using hdb)
        (by simpa using hnw) (by simpa using hlt)
        (by
          simp only [move_window_ssize, move_window_dirbase]
          rw [hsd, hsect]
          split_ifs
          · rw [Nat.add_assoc]
          · rfl)
        (by simp) hcl
        (by
          intro j hj
          rw [mirrorArea_move_window]
          simp only [move_window_dirbase]
          exact hroot j (by simpa using hj))
        (by
          intro i hi
          simp only [move_window_ssize, move_window_dirbase, move_window_n_rootdir] at hi ⊢
          have hnm2 : ¬ mirrorArea fs (fs.dirbase + i / (fs.ssize / SZ_DIR)) :=
            hroot _ (Nat.div_le_div_right (le_of_lt hi))
          rw [m4 _ _ hnm2]
          exact hfull i hi)
        (by simp only [move_window_n_rootdir]; omega)
      refine ⟨fs1, dp1, e1, ?_, ?_, ?_, ?_, e6⟩
      · simpa using e2
      · intro s k hs
        rw [e3 s k (by rw [mirrorArea_move_window]; exact hs), m4 s k hs]
      · simpa using e4
      · simpa using e5


theorem chk_lock_scan_nomatch (dp : LockKey) (l : List FILESEM) (i be : Nat)
    (h : ∀ f ∈ l, f.fs ≠ 0 → f.isObj dp = false) :
    chk_lock_scan dp l i be = (i + l.length, if ∃ f ∈ l, f.fs = 0 then 1 else be) := by
  induction l generalizing i be with
  | nil => simp [chk_lock_scan]
  | cons f rest ih =>
    have hrest : ∀ g ∈ rest, g.fs ≠ 0 → g.isObj dp = false :=
      fun g hg => h g (List.mem_cons_of_mem _ hg)
    rw [chk_lock_scan]
    by_cases hf : f.fs ≠ 0
    · rw [if_pos hf, h f (List.mem_cons_self _ _) hf]
      simp only [Bool.false_eq_true, if_false]
      rw [ih _ _ hrest]
      simp only [List.length_cons, List.mem_cons, exists_eq_or_imp]
      have : ¬ f.fs = 0 := hf
      simp only [this, false_or]
      congr 1; omega
    · rw [if_neg hf, ih _ _ hrest]
      simp only [ne_eq, not_not] at hf
      simp only [List.length_cons, List.mem_cons, exists_eq_or_imp, hf, true_or, if_true]
      congr 1
      · omega
      · split_ifs <;> rfl

theorem chk_lock_scan_match (dp : LockKey) (pre : List FILESEM) (e : FILESEM) (post : List FILESEM)
    (i be : Nat) (h : ∀ f ∈ pre, f.fs ≠ 0 → f.isObj dp = false)
    (he : e.fs ≠ 0) (hm : e.isObj dp = true) :
    (chk_lock_scan dp (pre ++ e :: post) i be).1 = i + pre.length := by
  induction pre generalizing i be with
  | nil => simp [chk_lock_scan, he, hm]
  | cons f rest ih =>
    have hrest : ∀ g ∈ rest, g.fs ≠ 0 → g.isObj dp = false :=
      fun g hg => h g (List.mem_cons_of_mem _ hg)
    rw [List.cons_append, chk_lock_scan]
    by_cases hf : f.fs ≠ 0
    · rw [if_pos hf, h f (List.mem_cons_self _ _) hf]
      simp only [Bool.false_eq_true, if_false]
      rw [ih _ _ hrest, List.length_cons]; omega
    · rw [if_neg hf, ih _ _ hrest, List.length_cons]; omega

theorem inc_lock_fresh (Files : List FILESEM) (dp : LockKey) (acc : Nat)
    (hnone : ∀ f ∈ Files, f.isObj dp = false) (hblank : ∃ f ∈ Files, f.fs = 0) :
    inc_lock Files dp acc =
      (Files.set (blank_scan Files 0) ⟨dp.fs, dp.sclust, dp.index, if acc ≠ 0 then 0x100 else 1⟩,
        blank_scan Files 0 + 1) ∧
    blank_scan Files 0 < Files.length := by
  have h1 := find_scan_none dp Files 0 hnone
  have h2 := blank_scan_lt Files 0 hblank
  simp only [Nat.zero_add] at h1 h2
  have hj : blank_scan Files 0 ≠ Files.length := by omega
  refine ⟨?_, h2⟩
  simp only [inc_lock, h1, if_true, hj, if_false]
  rw [List.getD_eq_getElem _ _ (by simpa using h2)]
  simp

/-- C28: `chk_lock` is a function of the table: without an occupied entry
for the object it returns `FR_OK` when a blank slot exists or `acc = 2` and
`FR_TOO_MANY_OPEN_FILES` otherwise; with one it returns `FR_LOCKED` when
`acc` is non-zero or the counter of the first such entry is `0x100`, and
`FR_OK` otherwise. After a read-mode `inc_lock` of an object that was not
open, `chk_lock(dp, 2)` returns `FR_LOCKED`, and after the matching
`dec_lock` it returns `FR_OK`. -/
theorem C28_chk_lock_decides (Files : List FILESEM) (dp : LockKey) (acc : Nat)
    (hlen : Files.length < 4294967296) (hfs : dp.fs ≠ 0) :
    ((∀ f ∈ Files, f.fs ≠ 0 → f.isObj dp = false) →
      chk_lock Files dp acc =
        if (∃ f ∈ Files, f.fs = 0) ∨ acc = 2 then FR_OK else FR_TOO_MANY_OPEN_FILES) ∧
    (∀ pre e post, Files = pre ++ e :: post → (∀ f ∈ pre, f.fs ≠ 0 → f.isObj dp = false) →
      e.fs ≠ 0 → e.isObj dp = true →
      chk_lock Files dp acc = if acc ≠ 0 ∨ e.ctr = 0x100 then FR_LOCKED else FR_OK) ∧
    ((∀ f ∈ Files, f.fs ≠ 0 → f.isObj dp = false) → (∃ f ∈ Files, f.fs = 0) →
      (inc_lock Files dp 0).2 ≠ 0 ∧
      chk_lock (inc_lock Files dp 0).1 dp 2 = FR_LOCKED ∧
      chk_lock (dec_lock (inc_lock Files dp 0).1 (inc_lock Files dp 0).2).1 dp 2 = FR_OK) := by
  have part1 : ∀ (F : List FILESEM) (a : Nat), (∀ f ∈ F, f.fs ≠ 0 → f.isObj dp = false) →
      chk_lock F dp a = if (∃ f ∈ F, f.fs = 0) ∨ a = 2 then FR_OK else FR_TOO_MANY_OPEN_FILES := by
    intro F a h
    unfold chk_lock
    simp only [chk_lock_scan_nomatch dp F 0 0 h, Nat.zero_add, if_true]
    by_cases hb : ∃ f ∈ F, f.fs = 0
    · simp [hb]
    · simp [hb]
  have part2 : ∀ (F : List FILESEM) (a : Nat) pre e post, F = pre ++ e :: post →
      (∀ f ∈ pre, f.fs ≠ 0 → f.isObj dp = false) → e.fs ≠ 0 → e.isObj dp = true →
      chk_lock F dp a = if a ≠ 0 ∨ e.ctr = 0x100 then FR_LOCKED else FR_OK := by
    intro F a pre e post hF h he hm
    subst hF
    unfold chk_lock
    have hs := chk_lock_scan_match dp pre e post 0 0 h he hm
    rw [Nat.zero_add] at hs
    simp only [hs]
    rw [if_neg (by simp)]
    have : (pre ++ e :: post).getD pre.length ⟨0, 0, 0, 0⟩ = e := by
      rw [List.getD_append_right _ _ _ _ (le_refl _)]; simp
    rw [this]
  refine ⟨part1 Files acc, part2 Files acc, fun hnone hblank => ?_⟩
  have hnone2 : ∀ f ∈ Files, f.isObj dp = false := by
    intro f hf
    by_cases h0 : f.fs = 0
    · unfold FILESEM.isObj
      have : (f.fs == dp.fs) = false := by
        rw [h0]; simp; exact fun h => hfs h.symm
      simp [this]
    · exact hnone f hf h0
  obtain ⟨k1, k2, k3, k4⟩ := inc_dec_lock Files dp 0 hlen hnone2 hblank (Or.inl rfl)
  refine ⟨k1, ?_, ?_⟩
  · obtain ⟨e1, e2⟩ := inc_lock_fresh Files dp 0 hnone2 hblank
    rw [e1]
    simp only []
    rw [List.set_eq_take_append_cons_drop, if_pos e2]
    rw [part2 _ 2 _ _ _ rfl (fun f hf hf0 => hnone f (List.mem_of_mem_take hf) hf0) hfs
      (by simp [FILESEM.isObj])]
    simp
  · rw [k3]
    rw [part1 _ 2 ?_]
    · simp
    · intro f hf hf0
      rcases List.mem_or_eq_of_mem_set hf with h | h
      · exact hnone f h hf0
      · rw [h] at hf0; exact absurd rfl hf0


theorem C28_chk_lock_decides_witness :
    (inc_lock [⟨0, 0, 0, 0⟩, ⟨0, 0, 0, 0⟩] ⟨7, 3, 4⟩ 0).2 ≠ 0 ∧
    chk_lock (inc_lock [⟨0, 0, 0, 0⟩, ⟨0, 0, 0, 0⟩] ⟨7, 3, 4⟩ 0).1 ⟨7, 3, 4⟩ 2 = FR_LOCKED ∧
    chk_lock (dec_lock (inc_lock [⟨0, 0, 0, 0⟩, ⟨0, 0, 0, 0⟩] ⟨7, 3, 4⟩ 0).1
      (inc_lock [⟨0, 0, 0, 0⟩, ⟨0, 0, 0, 0⟩] ⟨7, 3, 4⟩ 0).2).1 ⟨7, 3, 4⟩ 2 = FR_OK :=
  (C28_chk_lock_decides [⟨0, 0, 0, 0⟩, ⟨0, 0, 0, 0⟩] ⟨7, 3, 4⟩ 0 (by decide) (by decide)).2.2
    (by decide) (by decide)


/-- C29: 256 successful read-mode `inc_lock` calls for one object, starting
from a blank table, leave its counter at `0x100` although no write-mode
call was made; `chk_lock` then refuses a further reader with `FR_LOCKED`,
and a single `dec_lock` blanks the entry while 255 of the returned ids are
still outstanding. -/
theorem C29_reader_count_overflow :
    inc_lock_reads ⟨1, 2, 3⟩ 256 [⟨0, 0, 0, 0⟩] = ([⟨1, 2, 3, 0x100⟩], true) ∧
    chk_lock [⟨1, 2, 3, 0x100⟩] ⟨1, 2, 3⟩ 0 = FR_LOCKED ∧
    (dec_lock [⟨1, 2, 3, 0x100⟩] 1).1 = [⟨0, 2, 3, 0⟩] := by
  decide


theorem lor_eq_zero (a b : Nat) : a ||| b = 0 ↔ a = 0 ∧ b = 0 := by
  constructor
  · intro h
    have hb : ∀ i, (a ||| b).testBit i = false := by intro i; rw [h]; simp
    constructor
    · apply Nat.eq_of_testBit_eq
      intro i
      have := hb i
      rw [Nat.testBit_or, Bool.or_eq_false_iff] at this
      rw [this.1]; simp
    · apply Nat.eq_of_testBit_eq
      intro i
      have := hb i
      rw [Nat.testBit_or, Bool.or_eq_false_iff] at this
      rw [this.2]; simp
  · rintro ⟨rfl, rfl⟩; rfl

theorem req_perm_and (stat : Stat) (euid egid usr grp oth : Nat) :
    req_perm stat euid egid usr grp oth &&& stat.st_mode = 0 ↔
      ¬ (oth &&& stat.st_mode ≠ 0 ∨ (stat.st_gid = egid ∧ grp &&& stat.st_mode ≠ 0) ∨
         (stat.st_uid = euid ∧ usr &&& stat.st_mode ≠ 0)) := by
  unfold req_perm
  simp only [Nat.zero_or]
  by_cases hu : stat.st_uid = euid <;> by_cases hg : stat.st_gid = egid <;>
    simp only [hu, hg, if_true, if_false, Nat.and_distrib_right, lor_eq_zero, Nat.zero_or,
      Nat.zero_and, true_and, false_and, or_false, false_or, not_or, ne_eq, not_not] <;>
    tauto

theorem chkperm_core (rR aR rW aW rX aX : Prop) [Decidable (rR ∧ ¬ aR)] [Decidable (rW ∧ ¬ aW)]
    [Decidable (rX ∧ ¬ aX)] :
    ((if rR ∧ ¬ aR then VfsRet.EPERM else if rW ∧ ¬ aW then VfsRet.EPERM
        else if rX ∧ ¬ aX then VfsRet.EPERM else VfsRet.zero) = VfsRet.zero ↔
      (rR → aR) ∧ (rW → aW) ∧ (rX → aX)) ∧
    ((if rR ∧ ¬ aR then VfsRet.EPERM else if rW ∧ ¬ aW then VfsRet.EPERM
        else if rX ∧ ¬ aX then VfsRet.EPERM else VfsRet.zero) = VfsRet.zero ∨
     (if rR ∧ ¬ aR then VfsRet.EPERM else if rW ∧ ¬ aW then VfsRet.EPERM
        else if rX ∧ ¬ aX then VfsRet.EPERM else VfsRet.zero) = VfsRet.EPERM) := by
  by_cases h1 : rR ∧ ¬ aR
  · rw [if_pos h1]
    exact ⟨⟨(fun h => by cases h), fun h => absurd (h.1 h1.1) h1.2⟩, Or.inr rfl⟩
  · rw [if_neg h1]
    by_cases h2 : rW ∧ ¬ aW
    · rw [if_pos h2]
      exact ⟨⟨(fun h => by cases h), fun h => absurd (h.2.1 h2.1) h2.2⟩, Or.inr rfl⟩
    · rw [if_neg h2]
      by_cases h3 : rX ∧ ¬ aX
      · rw [if_pos h3]
        exact ⟨⟨(fun h => by cases h), fun h => absurd (h.2.2 h3.1) h3.2⟩, Or.inr rfl⟩
      · rw [if_neg h3]
        refine ⟨⟨fun _ => ⟨fun r => ?_, fun r => ?_, fun r => ?_⟩, fun _ => rfl⟩, Or.inl rfl⟩
        · by_contra hn; exact h1 ⟨r, hn⟩
        · by_contra hn; exact h2 ⟨r, hn⟩
        · by_contra hn; exact h3 ⟨r, hn⟩

/-- C24: `chkperm` returns 0 exactly when every access kind requested in
`oflags` (read, write, execute), and execute for a directory in any case,
has its permission bit set in the mode word for others, or for the group
when `st_gid = egid`, or for the owner when `st_uid = euid`; otherwise it
returns `-EPERM`. -/
theorem C24_chkperm_iff (c : VfsConsts) (stat : Stat) (euid egid oflags : Nat) :
    (chkperm c stat euid egid oflags = .zero ↔
      ((oflags &&& c.O_ACCMODE) &&& c.R_OK ≠ 0 →
        (c.S_IROTH &&& stat.st_mode ≠ 0 ∨ (stat.st_gid = egid ∧ c.S_IRGRP &&& stat.st_mode ≠ 0) ∨
          (stat.st_uid = euid ∧ c.S_IRUSR &&& stat.st_mode ≠ 0))) ∧
      ((oflags &&& c.O_ACCMODE) &&& c.W_OK ≠ 0 →
        (c.S_IWOTH &&& stat.st_mode ≠ 0 ∨ (stat.st_gid = egid ∧ c.S_IWGRP &&& stat.st_mode ≠ 0) ∨
          (stat.st_uid = euid ∧ c.S_IWUSR &&& stat.st_mode ≠ 0))) ∧
      (((oflags &&& c.O_ACCMODE) &&& c.X_OK ≠ 0 ∨ c.S_ISDIR stat.st_mode = true) →
        (c.S_IXOTH &&& stat.st_mode ≠ 0 ∨ (stat.st_gid = egid ∧ c.S_IXGRP &&& stat.st_mode ≠ 0) ∨
          (stat.st_uid = euid ∧ c.S_IXUSR &&& stat.st_mode ≠ 0)))) ∧
    (chkperm c stat euid egid oflags = .zero ∨ chkperm c stat euid egid oflags = .EPERM) := by
  unfold chkperm
  simp only [req_perm_and]
  exact chkperm_core _ _ _ _ _ _

/-- C25: with effective uid 0, `chkperm`, and `chkperm_vnode_curproc` built
on it, still return `-EPERM` for an object whose mode word is 0 and that
the caller does not own by group, as soon as read access is requested:
there is no bypass for uid 0 in them. -/
theorem C25_chkperm_root_denied (c : VfsConsts) (vstat : Nat → VfsRet × Stat) (vnode egid oflags : Nat)
    (hok : (vstat vnode).1 = .zero) (hmode : (vstat vnode).2.st_mode = 0)
    (hr : (oflags &&& c.O_ACCMODE) &&& c.R_OK ≠ 0) :
    chkperm c (vstat vnode).2 0 egid oflags = .EPERM ∧
    chkperm_vnode_curproc c vstat 0 egid vnode oflags = .EPERM := by
  have h1 : chkperm c (vstat vnode).2 0 egid oflags = .EPERM := by
    unfold chkperm
    simp only [hmode, Nat.and_zero, and_true]
    rw [if_pos hr]
  refine ⟨h1, ?_⟩
  unfold chkperm_vnode_curproc chkperm_vnode
  rw [if_neg (by rw [hok]; simp), h1]

theorem C25_chkperm_root_denied_witness :
    chkperm posixConsts ⟨0, 5, 5⟩ 0 0 4 = .EPERM ∧
    chkperm_vnode_curproc posixConsts (fun _ => (.zero, ⟨0, 5, 5⟩)) 0 0 1 4 = .EPERM :=
  C25_chkperm_root_denied posixConsts (fun _ => (.zero, ⟨0, 5, 5⟩)) 1 0 4 rfl rfl (by decide)


theorem get_top_vnode_top (l : MountLinks) (fuel v t : Nat)
    (h : get_top_vnode l fuel v = some t) : l.next t = t := by
  induction fuel generalizing v with
  | zero => simp [get_top_vnode] at h
  | succ fuel ih =>
    rw [get_top_vnode] at h
    by_cases hn : l.next v ≠ v
    · rw [if_pos hn] at h; exact ih _ h
    · rw [if_neg hn] at h
      simp only [ne_eq, not_not] at hn
      cases h; exact hn

/-- C23: a path that ends with `/` and names a regular file is resolved by
`fs_namei_proc` with return value 0 and the vnode of the file: the test
`path[strlenn(path, PATH_MAX)] == '/'` reads the terminator of the path, so
`O_DIRECTORY` is not forced. -/
theorem C23_trailing_slash_not_enforced :
    fs_namei_proc posixConsts exVnodes selfLinks 10 exProc 0 [0x66, 0x2F] 0 = some (.zero, some 5) ∧
    posixConsts.S_ISDIR (exVnodes.vn_mode 5) = false ∧
    charAt [0x66, 0x2F] (strlenn [0x66, 0x2F] posixConsts.PATH_MAX) = 0 := by
  decide


theorem get_top_vnode_rank (l : MountLinks) (rn : Nat → Nat)
    (h : ∀ v, l.next v ≠ v → rn (l.next v) < rn v) :
    ∀ k v, rn v < k → ∃ t, get_top_vnode l k v = some t ∧ l.next t = t := by
  intro k
  induction k with
  | zero => intro v hv; omega
  | succ k ih =>
    intro v hv
    rw [get_top_vnode]
    by_cases hn : l.next v ≠ v
    · rw [if_pos hn]
      exact ih _ (by have := h v hn; omega)
    · rw [if_neg hn]
      simp only [ne_eq, not_not] at hn
      exact ⟨v, rfl, hn⟩

theorem get_base_vnode_rank (l : MountLinks) (rp : Nat → Nat)
    (h : ∀ v, l.prev v ≠ v → rp (l.prev v) < rp v) :
    ∀ k v, rp v < k → ∃ t, get_base_vnode l k v = some t ∧ l.prev t = t := by
  intro k
  induction k with
  | zero => intro v hv; omega
  | succ k ih =>
    intro v hv
    rw [get_base_vnode]
    by_cases hn : l.prev v ≠ v
    · rw [if_pos hn]
      exact ih _ (by have := h v hn; omega)
    · rw [if_neg hn]
      simp only [ne_eq, not_not] at hn
      exact ⟨v, rfl, hn⟩

theorem get_top_vnode_ne_zero (l : MountLinks) (hN : ∀ v, v ≠ 0 → l.next v ≠ 0 ∧ l.prev v ≠ 0) :
    ∀ k v t, v ≠ 0 → get_top_vnode l k v = some t → t ≠ 0 := by
  intro k
  induction k with
  | zero => intro v t _ h; simp [get_top_vnode] at h
  | succ k ih =>
    intro v t hv h
    rw [get_top_vnode] at h
    by_cases hn : l.next v ≠ v
    · rw [if_pos hn] at h
      exact ih _ t (hN v hv).1 h
    · rw [if_neg hn] at h
      cases h; exact hv

theorem selfLinks_wf : selfLinks.wf :=
  ⟨fun _ h => absurd rfl h, fun _ h => absurd rfl h, fun _ hv => ⟨hv, hv⟩,
   ⟨fun _ => 0, fun _ h => absurd rfl h⟩, ⟨fun _ => 0, fun _ h => absurd rfl h⟩⟩

theorem mount_links_wf (l : MountLinks) (t r : Nat) (hw : l.wf)
    (ht : l.next t = t) (ht0 : t ≠ 0) (hr0 : r ≠ 0) (hrn : l.next r = r) (hrp : l.prev r = r) :
    MountLinks.wf ⟨Function.update (Function.update l.next t r) r r, Function.update l.prev r t⟩ := by
  obtain ⟨E1, E2, N, ⟨rn, hrnk⟩, ⟨rp, hrpk⟩⟩ := hw
  by_cases hrt : r = t
  · subst hrt
    have e1 : Function.update (Function.update l.next r r) r r = l.next := by
      funext v
      by_cases hv : v = r
      · rw [hv]; simp [hrn]
      · simp [Function.update_noteq hv]
    have e2 : Function.update l.prev r r = l.prev := by
      funext v
      by_cases hv : v = r
      · rw [hv]; simp [hrp]
      · simp [Function.update_noteq hv]
    rw [e1, e2]
    exact ⟨E1, E2, N, ⟨rn, hrnk⟩, ⟨rp, hrpk⟩⟩
  · have htr : t ≠ r := fun h => hrt h.symm
    have nx_r : Function.update (Function.update l.next t r) r r r = r := by simp
    have nx_t : Function.update (Function.update l.next t r) r r t = r := by
      rw [Function.update_noteq htr]; simp
    have nx_o : ∀ v, v ≠ r → v ≠ t → Function.update (Function.update l.next t r) r r v = l.next v := by
      intro v h1 h2
      rw [Function.update_noteq h1, Function.update_noteq h2]
    have pv_r : Function.update l.prev r t r = t := by simp
    have pv_o : ∀ v, v ≠ r → Function.update l.prev r t v = l.prev v := by
      intro v h1
      rw [Function.update_noteq h1]
    refine ⟨?_, ?_, ?_, ⟨fun v => if v = r then 0 else rn v + 1, ?_⟩,
      ⟨fun v => if v = r then rp t + 1 else rp v, ?_⟩⟩
    · intro v hv
      simp only [] at hv ⊢
      by_cases h1 : v = r
      · rw [h1, nx_r] at hv; exact absurd rfl hv
      · by_cases h2 : v = t
        · rw [h2, nx_t, pv_r]
        · rw [nx_o v h1 h2] at hv ⊢
          have hne : l.next v ≠ r := by
            intro hc
            have := E1 v hv
            rw [hc, hrp] at this
            exact h1 this.symm
          rw [pv_o _ hne]
          exact E1 v hv
    · intro v hv
      simp only [] at hv ⊢
      by_cases h1 : v = r
      · rw [h1, pv_r, nx_t]
      · rw [pv_o v h1] at hv ⊢
        have hne : l.prev v ≠ r := by
          intro hc
          have := E2 v hv
          rw [hc, hrn] at this
          exact h1 this.symm
        have hne2 : l.prev v ≠ t := by
          intro hc
          have := E2 v hv
          rw [hc, ht] at this
          exact hv (hc.trans this)
        rw [nx_o _ hne hne2]
        exact E2 v hv
    · intro v hv
      simp only []
      by_cases h1 : v = r
      · rw [h1, nx_r, pv_r]; exact ⟨hr0, ht0⟩
      · rw [pv_o v h1]
        by_cases h2 : v = t
        · rw [h2, nx_t]; exact ⟨hr0, (N t ht0).2⟩
        · rw [nx_o v h1 h2]; exact N v hv
    · intro v hv
      simp only [] at hv ⊢
      by_cases h1 : v = r
      · rw [h1, nx_r] at hv; exact absurd rfl hv
      · by_cases h2 : v = t
        · rw [h2, nx_t, if_pos rfl, if_neg htr]; omega
        · rw [nx_o v h1 h2] at hv ⊢
          have hne : l.next v ≠ r := by
            intro hc
            have := E1 v hv
            rw [hc, hrp] at this
            exact h1 this.symm
          rw [if_neg hne, if_neg h1]
          have := hrnk v hv
          omega
    · intro v hv
      simp only [] at hv ⊢
      by_cases h1 : v = r
      · rw [h1, pv_r, if_neg htr, if_pos rfl]; omega
      · rw [pv_o v h1] at hv ⊢
        have hne : l.prev v ≠ r := by
          intro hc
          have := E2 v hv
          rw [hc, hrn] at this
          exact h1 this.symm
        rw [if_neg hne, if_neg h1]
        exact hrpk v hv


theorem umount_links_wf_mid (l : MountLinks) (r : Nat) (hw : l.wf) (hr0 : r ≠ 0)
    (hp : l.prev r ≠ r) (hn : l.next r ≠ r) :
    MountLinks.wf ⟨Function.update (Function.update l.next (l.prev r) (l.next r)) r r,
      Function.update (Function.update l.prev (l.next r) (l.prev r)) r r⟩ := by
  obtain ⟨E1, E2, N, ⟨rn, hrnk⟩, ⟨rp, hrpk⟩⟩ := hw
  have hnp : l.next (l.prev r) = r := E2 r hp
  have hpn : l.prev (l.next r) = r := E1 r hn
  have hpn_ne : l.prev r ≠ l.next r := by
    intro hc
    have h1 := hrnk r hn
    have h2 := hrnk (l.prev r) (by rw [hnp]; exact fun h => hp h.symm)
    rw [hnp] at h2
    rw [← hc] at h1
    omega
  generalize hpd : l.prev r = p at *
  generalize hnd : l.next r = n at *
  have hpr : p ≠ r := hp
  have hnr : n ≠ r := hn
  have nx_r : Function.update (Function.update l.next p n) r r r = r := by simp
  have nx_p : Function.update (Function.update l.next p n) r r p = n := by
    rw [Function.update_noteq hpr]; simp
  have nx_o : ∀ v, v ≠ r → v ≠ p → Function.update (Function.update l.next p n) r r v = l.next v := by
    intro v h1 h2
    rw [Function.update_noteq h1, Function.update_noteq h2]
  have pv_r : Function.update (Function.update l.prev n p) r r r = r := by simp
  have pv_n : Function.update (Function.update l.prev n p) r r n = p := by
    rw [Function.update_noteq hnr]; simp
  have pv_o : ∀ v, v ≠ r → v ≠ n → Function.update (Function.update l.prev n p) r r v = l.prev v := by
    intro v h1 h2
    rw [Function.update_noteq h1, Function.update_noteq h2]
  have nx_ne : ∀ v, v ≠ r → v ≠ p → l.next v ≠ v → l.next v ≠ r ∧ l.next v ≠ n := by
    intro v h1 h2 hv
    have e := E1 v hv
    constructor
    · intro hc; rw [hc, hpd] at e; exact h2 e.symm
    · intro hc; rw [hc, hpn] at e; exact h1 e.symm
  have pv_ne : ∀ v, v ≠ r → v ≠ n → l.prev v ≠ v → l.prev v ≠ r ∧ l.prev v ≠ p := by
    intro v h1 h2 hv
    have e := E2 v hv
    constructor
    · intro hc; rw [hc, hnd] at e; exact h2 e.symm
    · intro hc; rw [hc, hnp] at e; exact h1 e.symm
  have hp0 : p ≠ 0 := by rw [← hpd]; exact (N r hr0).2
  have hn0 : n ≠ 0 := by rw [← hnd]; exact (N r hr0).1
  refine ⟨?_, ?_, ?_, ⟨rn, ?_⟩, ⟨rp, ?_⟩⟩
  · intro v hv
    simp only [] at hv ⊢
    by_cases h1 : v = r
    · rw [h1, nx_r] at hv; exact absurd rfl hv
    · by_cases h2 : v = p
      · rw [h2, nx_p, pv_n]
      · rw [nx_o v h1 h2] at hv ⊢
        obtain ⟨a, b⟩ := nx_ne v h1 h2 hv
        rw [pv_o _ a b]
        exact E1 v hv
  · intro v hv
    simp only [] at hv ⊢
    by_cases h1 : v = r
    · rw [h1, pv_r] at hv; exact absurd rfl hv
    · by_cases h2 : v = n
      · rw [h2, pv_n, nx_p]
      · rw [pv_o v h1 h2] at hv ⊢
        obtain ⟨a, b⟩ := pv_ne v h1 h2 hv
        rw [nx_o _ a b]
        exact E2 v hv
  · intro v hv
    simp only []
    constructor
    · by_cases h1 : v = r
      · rw [h1, nx_r]; exact hr0
      · by_cases h2 : v = p
        · rw [h2, nx_p]; exact hn0
        · rw [nx_o v h1 h2]; exact (N v hv).1
    · by_cases h1 : v = r
      · rw [h1, pv_r]; exact hr0
      · by_cases h2 : v = n
        · rw [h2, pv_n]; exact hp0
        · rw [pv_o v h1 h2]; exact (N v hv).2
  · intro v hv
    simp only [] at hv ⊢
    by_cases h1 : v = r
    · rw [h1, nx_r] at hv; exact absurd rfl hv
    · by_cases h2 : v = p
      · rw [h2, nx_p]
        have a := hrnk r (by rw [hnd]; exact hnr)
        have b := hrnk p (by rw [hnp]; exact fun h => hpr h.symm)
        rw [hnd] at a
        rw [hnp] at b
        omega
      · rw [nx_o v h1 h2] at hv ⊢
        exact hrnk v hv
  · intro v hv
    simp only [] at hv ⊢
    by_cases h1 : v = r
    · rw [h1, pv_r] at hv; exact absurd rfl hv
    · by_cases h2 : v = n
      · rw [h2, pv_n]
        have a := hrpk r (by rw [hpd]; exact hpr)
        have b := hrpk n (by rw [hpn]; exact fun h => hnr h.symm)
        rw [hpd] at a
        rw [hpn] at b
        omega
      · rw [pv_o v h1 h2] at hv ⊢
        exact hrpk v hv

theorem umount_links_wf_top (l : MountLinks) (r : Nat) (hw : l.wf) (hr0 : r ≠ 0)
    (hp : l.prev r ≠ r) (hn : l.next r = r) :
    MountLinks.wf ⟨Function.update (Function.update l.next (l.prev r) (l.prev r)) r r,
      Function.update l.prev r r⟩ := by
  obtain ⟨E1, E2, N, ⟨rn, hrnk⟩, ⟨rp, hrpk⟩⟩ := hw
  have hnp : l.next (l.prev r) = r := E2 r hp
  generalize hpd : l.prev r = p at *
  have hpr : p ≠ r := hp
  have nx_r : Function.update (Function.update l.next p p) r r r = r := by simp
  have nx_p : Function.update (Function.update l.next p p) r r p = p := by
    rw [Function.update_noteq hpr]; simp
  have nx_o : ∀ v, v ≠ r → v ≠ p → Function.update (Function.update l.next p p) r r v = l.next v := by
    intro v h1 h2
    rw [Function.update_noteq h1, Function.update_noteq h2]
  have pv_r : Function.update l.prev r r r = r := by simp
  have pv_o : ∀ v, v ≠ r → Function.update l.prev r r v = l.prev v := by
    intro v h1
    rw [Function.update_noteq h1]
  have hp0 : p ≠ 0 := by rw [← hpd]; exact (N r hr0).2
  refine ⟨?_, ?_, ?_, ⟨rn, ?_⟩, ⟨rp, ?_⟩⟩
  · intro v hv
    simp only [] at hv ⊢
    by_cases h1 : v = r
    · rw [h1, nx_r] at hv; exact absurd rfl hv
    · by_cases h2 : v = p
      · rw [h2, nx_p] at hv; exact absurd rfl hv
      · rw [nx_o v h1 h2] at hv ⊢
        have e := E1 v hv
        have a : l.next v ≠ r := by
          intro hc; rw [hc, hpd] at e; exact h2 e.symm
        rw [pv_o _ a]
        exact e
  · intro v hv
    simp only [] at hv ⊢
    by_cases h1 : v = r
    · rw [h1, pv_r] at hv; exact absurd rfl hv
    · rw [pv_o v h1] at hv ⊢
      have e := E2 v hv
      have a : l.prev v ≠ r := by
        intro hc; rw [hc, hn] at e; exact h1 e.symm
      have b : l.prev v ≠ p := by
        intro hc; rw [hc, hnp] at e; exact h1 e.symm
      rw [nx_o _ a b]
      exact e
  · intro v hv
    simp only []
    constructor
    · by_cases h1 : v = r
      · rw [h1, nx_r]; exact hr0
      · by_cases h2 : v = p
        · rw [h2, nx_p]; exact hp0
        · rw [nx_o v h1 h2]; exact (N v hv).1
    · by_cases h1 : v = r
      · rw [h1, pv_r]; exact hr0
      · rw [pv_o v h1]; exact (N v hv).2
  · intro v hv
    simp only [] at hv ⊢
    by_cases h1 : v = r
    · rw [h1, nx_r] at hv; exact absurd rfl hv
    · by_cases h2 : v = p
      · rw [h2, nx_p] at hv; exact absurd rfl hv
      · rw [nx_o v h1 h2] at hv ⊢
        exact hrnk v hv
  · intro v hv
    simp only [] at hv ⊢
    by_cases h1 : v = r
    · rw [h1, pv_r] at hv; exact absurd rfl hv
    · rw [pv_o v h1] at hv ⊢
      exact hrpk v hv


theorem mountStep_wf (l l1 : MountLinks) (hw : l.wf) (hs : mountStep l l1) : l1.wf := by
  rcases hs with ⟨fuel, target, drv, res, ht0, hdrv, hm, rfl⟩ | ⟨sb, hr0, rfl⟩
  · cases drv with
    | nofs => simp only [fs_mount, Option.some.injEq] at hm; rw [← hm]; exact hw
    | nomount => simp only [fs_mount, Option.some.injEq] at hm; rw [← hm]; exact hw
    | failed e => simp only [fs_mount, Option.some.injEq] at hm; rw [← hm]; exact hw
    | mounted sb =>
      obtain ⟨hr0, hrn, hrp⟩ := hdrv sb rfl
      simp only [fs_mount] at hm
      cases ht : get_top_vnode l fuel target with
      | none => rw [ht] at hm; simp at hm
      | some t =>
        rw [ht] at hm
        simp only [Option.some.injEq] at hm
        rw [← hm]
        exact mount_links_wf l t sb.root hw (get_top_vnode_top l fuel target t ht)
          (get_top_vnode_ne_zero l hw.2.2.1 fuel target t ht0 ht) hr0 hrn hrp
  · unfold fs_umount
    cases hu : sb.umount with
    | none => exact hw
    | some r0 =>
      simp only []
      by_cases hp : l.prev sb.root = sb.root
      · rw [if_pos hp]; exact hw
      · rw [if_neg hp]
        by_cases hn : l.next sb.root ≠ 0 ∧ l.next sb.root ≠ sb.root
        · rw [if_pos hn]
          exact umount_links_wf_mid l sb.root hw hr0 hp hn.2
        · rw [if_neg hn]
          have hn2 : l.next sb.root = sb.root := by
            by_contra hc
            exact hn ⟨(hw.2.2.1 sb.root hr0).1, hc⟩
          exact umount_links_wf_top l sb.root hw hr0 hp hn2

/-- C21 (counterexample): mounting a file system whose root is vnode 2 on
vnode 1 and then again on vnode 3 leaves the edge `1.next = 2` without its
inverse: `2.prev` is 3. -/
theorem C21_counterexample :
    (mountTwice.map fun l => (l.next 1, l.prev 2)) = some (2, 3) := by
  decide

/-- C21 (amended): starting from self-linked vnodes, after any sequence of
`fs_mount` calls on non-null targets whose driver returns a superblock with
a non-null root vnode that is self-linked on both links, and `fs_umount`
calls, every non-self edge `v.next = w` has the inverse edge `w.prev = v`,
`get_top_vnode` and `get_base_vnode` return on every vnode, with a vnode
self-linked on `next` and on `prev`, and `fs_mount` returns. -/
theorem C21_mount_links_wf (l : MountLinks)
    (h : Relation.ReflTransGen mountStep selfLinks l) :
    (∀ v, l.next v ≠ v → l.prev (l.next v) = v) ∧
    (∀ v, ∃ k t, get_top_vnode l k v = some t ∧ l.next t = t) ∧
    (∀ v, ∃ k t, get_base_vnode l k v = some t ∧ l.prev t = t) ∧
    (∀ target drv, ∃ fuel res, fs_mount fuel l target drv = some res) := by
  have hw : l.wf := by
    induction h with
    | refl => exact selfLinks_wf
    | tail _ hs ih => exact mountStep_wf _ _ ih hs
  obtain ⟨E1, -, -, ⟨rn, hrn⟩, ⟨rp, hrp⟩⟩ := hw
  have htop : ∀ v, ∃ k t, get_top_vnode l k v = some t ∧ l.next t = t := fun v =>
    ⟨rn v + 1, get_top_vnode_rank l rn hrn (rn v + 1) v (by omega)⟩
  refine ⟨E1, htop, fun v => ⟨rp v + 1, get_base_vnode_rank l rp hrp (rp v + 1) v (by omega)⟩, ?_⟩
  intro target drv
  cases drv with
  | nofs => exact ⟨0, _, rfl⟩
  | nomount => exact ⟨0, _, rfl⟩
  | failed e => exact ⟨0, _, rfl⟩
  | mounted sb =>
    obtain ⟨k, t, ht, -⟩ := htop target
    refine ⟨k, (⟨Function.update (Function.update l.next t sb.root) sb.root sb.root,
      Function.update l.prev sb.root t⟩, some { sb with mountpoint := t }, .zero), ?_⟩
    simp only [fs_mount, ht]

theorem C21_mount_links_wf_witness :
    ∃ k t, get_top_vnode ⟨Function.update (Function.update selfLinks.next 1 2) 2 2,
        Function.update selfLinks.prev 2 1⟩ k 1 = some t ∧
      (Function.update (Function.update selfLinks.next 1 2) 2 2) t = t :=
  (C21_mount_links_wf _ (Relation.ReflTransGen.single (Or.inl ⟨10, 1, .mounted exSb, _, by decide,
    fun sb hsb => by cases hsb; exact ⟨by decide, rfl, rfl⟩, rfl, rfl⟩))).2.1 1


theorem writeList_replicate (n : Nat) :
    writeList (fun _ => 0) 0 (List.replicate n 0x61) = longName n := by
  funext i
  rw [writeList_apply]
  unfold longName
  simp only [List.length_replicate, Nat.zero_add, Nat.zero_le, true_and, Nat.sub_zero]
  by_cases h : i < n
  · rw [if_pos h, if_pos h, List.getD_eq_getElem _ _ (by simpa using h)]
    simp
  · rw [if_neg h, if_neg h]

/-- C30: the first loop of `create_name` accepts the name of 255 letters
`a` and leaves it in the long-name buffer, yet the last LFN entry that
`fit_lfn` writes for it (ordinal 20: characters 247 to 254 and the
terminator) is not matched by `cmp_lfn` against the same buffer: `cmp_lfn`
returns 0. For 254 letters the last entry is matched. -/
theorem C30_cmp_lfn_rejects_length_255 :
    create_name_seg exCfg.ff_convert (List.replicate 255 0x61) 0 (fun _ => 0) 0 =
      .ok (0, 256, longName 255, 255) ∧
    cmp_lfn exCfg.ff_wtoupper (longName 255) (fit_lfn (longName 255) (fun _ => 0) 20 0) = 0 ∧
    cmp_lfn exCfg.ff_wtoupper (longName 254) (fit_lfn (longName 254) (fun _ => 0) 20 0) = 1 := by
  refine ⟨?_, by decide, by decide⟩
  have h := create_name_seg_plain exCfg.ff_convert (List.replicate 255 0x61) [] 0 (fun _ => 0) 0
    (by
      intro c hc
      rw [List.eq_of_mem_replicate hc]
      exact ⟨by decide, by decide, by decide, by decide, by decide, rfl⟩)
    (by simp [_MAX_LFN])
  rw [List.append_nil] at h
  rw [h, writeList_replicate]
  simp [create_name_seg]


theorem sync_window_mirror_bytes (fsize : Nat) (win : Nat → Nat) (hw : ∀ k, win k < 256) :
    ∀ (nf wsect : Nat) (d : Disk), (∀ s k, d.data s k < 256) →
      ∀ s k, (sync_window_mirror fsize win nf wsect d).data s k < 256 := by
  intro nf
  induction nf with
  | zero => intro wsect d hd s k; exact hd s k
  | succ nf ih =>
    intro wsect d hd s k
    rw [sync_window_mirror]
    by_cases h : nf + 1 ≥ 2
    · rw [if_pos h]
      apply ih
      intro s1 k1
      unfold disk_write
      split_ifs
      · exact hd s1 k1
      · simp only []
        by_cases e : s1 = add32 wsect fsize
        · rw [e]; simp only [Function.update_same]; exact hw k1
        · simp only [Function.update_noteq e]; exact hd s1 k1
    · rw [if_neg h]; exact hd s k

theorem sync_window_bytes (fs : FATFS) (hb : fs.bytesOk) : (sync_window fs).1.bytesOk := by
  obtain ⟨hw, hd⟩ := hb
  refine ⟨by rw [sync_window_win]; exact hw, ?_⟩
  unfold sync_window
  by_cases h0 : fs.wflag ≠ 0
  · rw [if_pos h0]
    unfold disk_write
    by_cases hf : fs.disk.wfail fs.winsect = true
    · simp only [hf, if_true]; exact hd
    · simp only [hf, Bool.false_eq_true, if_false]
      have hd1 : ∀ s k, Function.update fs.disk.data fs.winsect fs.win s k < 256 := by
        intro s k
        by_cases e : s = fs.winsect
        · rw [e]; simp only [Function.update_same]; exact hw k
        · simp only [Function.update_noteq e]; exact hd s k
      by_cases hm : sub32 fs.winsect fs.fatbase < fs.fsize
      · rw [if_pos hm]
        exact sync_window_mirror_bytes fs.fsize fs.win hw fs.n_fats fs.winsect _ hd1
      · rw [if_neg hm]; exact hd1
  · rw [if_neg h0]; exact hd

theorem move_window_bytes (fs : FATFS) (s : Nat) (hb : fs.bytesOk) : (move_window fs s).1.bytesOk := by
  unfold move_window
  by_cases h : s ≠ fs.winsect
  · rw [if_pos h]
    have hr : (if ¬ fs.readonly = true then sync_window fs else (fs, FR_OK)).1.bytesOk := by
      split_ifs
      · exact hb
      · exact sync_window_bytes fs hb
    generalize (if ¬ fs.readonly = true then sync_window fs else (fs, FR_OK)) = r at hr
    simp only []
    split_ifs
    · exact hr
    · unfold disk_read
      split_ifs
      · exact hr
      · exact ⟨fun k => hr.2 s k, hr.2⟩
  · rw [if_neg h]; exact hb

theorem move_window_meta (fs : FATFS) (s : Nat) : (move_window fs s).1.meta = fs.meta := by
  simp [FATFS.meta]

theorem mirrorArea_of_meta (fs fs1 : FATFS) (h : fs1.meta = fs.meta) (s : Nat) :
    mirrorArea fs1 s ↔ mirrorArea fs s := by
  simp only [FATFS.meta, Prod.mk.injEq] at h
  unfold mirrorArea
  rw [h.2.2.1, h.2.2.2.2.2.2.2.2.2.2.2.2.2.1, h.2.2.2.2.2.2.2.2.2.2.2.2.2.2.2.1]

theorem moved_refl (fs : FATFS) (hg : fs.good) : fs.moved fs :=
  ⟨hg, rfl, fun h => h, fun _ _ _ => rfl⟩

theorem moved_trans (a b c : FATFS) (h1 : a.moved b) (h2 : b.moved c) : a.moved c := by
  obtain ⟨g1, m1, b1, v1⟩ := h1
  obtain ⟨g2, m2, b2, v2⟩ := h2
  refine ⟨g2, m2.trans m1, fun h => b2 (b1 h), fun s k hs => ?_⟩
  rw [v2 s k (by rw [mirrorArea_of_meta a b m1]; exact hs), v1 s k hs]

theorem move_window_moved (fs : FATFS) (s : Nat) (hg : fs.good) (hs : s < 4294967296) :
    (move_window fs s).2 = FR_OK ∧ (move_window fs s).1.winsect = s ∧ fs.moved (move_window fs s).1 := by
  obtain ⟨m1, m2, m3, m4, -⟩ := move_window_good fs s hg hs
  exact ⟨m1, m2, m3, move_window_meta fs s, move_window_bytes fs s, m4⟩


theorem div_mod_scaled (k m c r : Nat) (hm : 0 < m) (hr : r < k) :
    (k * c + r) / (k * m) = c / m ∧ (k * c + r) % (k * m) = k * (c % m) + r := by
  have hk : 0 < k := by omega
  have hkm : 0 < k * m := Nat.mul_pos hk hm
  have hlt : c % m < m := Nat.mod_lt _ hm
  have h1 : k * (c % m) + k ≤ k * m := by
    have : c % m + 1 ≤ m := hlt
    calc k * (c % m) + k = k * (c % m + 1) := by ring
      _ ≤ k * m := Nat.mul_le_mul_left k this
  have h2 : k * (c % m) + r + k * m * (c / m) = k * c + r := by
    have := Nat.mod_add_div c m
    calc k * (c % m) + r + k * m * (c / m) = k * (c % m + m * (c / m)) + r := by ring
      _ = k * c + r := by rw [this]
  exact (Nat.div_mod_unique hkm).2 ⟨h2, by omega⟩

theorem meta_fields (a b : FATFS) (h : b.meta = a.meta) :
    b.fs_type = a.fs_type ∧ b.n_fats = a.n_fats ∧ b.ssize = a.ssize ∧ b.n_fatent = a.n_fatent ∧
    b.fsize = a.fsize ∧ b.fatbase = a.fatbase ∧ b.last_clust = a.last_clust ∧
    b.free_clust = a.free_clust ∧ b.fsi_flag = a.fsi_flag ∧ b.readonly = a.readonly := by
  simp only [FATFS.meta, Prod.mk.injEq] at h
  obtain ⟨h1, h2, h3, h4, h5, h6, h7, h8, h9, h10, h11, h12, h13, h14, h15, h16, h17, h18⟩ := h
  exact ⟨h1, h3, h7, h13, h14, h16, h11, h12, h4, h8⟩

theorem fat_sector (fs : FATFS) (hok : fs.fatOk) (b : Nat) (hb : b < fs.fsize * fs.ssize) :
    add32 fs.fatbase (b / fs.ssize) = fs.fatbase + b / fs.ssize ∧
    fs.fatbase + b / fs.ssize < 4294967296 ∧ ¬ mirrorArea fs (fs.fatbase + b / fs.ssize) := by
  have h1 : b / fs.ssize < fs.fsize := Nat.div_lt_of_lt_mul (by rw [Nat.mul_comm]; exact hb)
  have h2 : fs.fsize ≤ fs.n_fats * fs.fsize := Nat.le_mul_of_pos_left _ hok.good.fats
  have h3 := hok.good.nowrap
  refine ⟨?_, by omega, ?_⟩
  · unfold add32; exact Nat.mod_eq_of_lt (by omega)
  · unfold mirrorArea; omega

theorem fbyte_moved (fs fs1 : FATFS) (hok : fs.fatOk) (hm : fs.moved fs1) (b : Nat)
    (hb : b < fs.fsize * fs.ssize) : fbyte fs1 b = fbyte fs b := by
  obtain ⟨-, m, -, v⟩ := hm
  obtain ⟨-, -, e3, -, -, e6, -⟩ := meta_fields fs fs1 m
  unfold fbyte
  rw [e3, e6]
  exact v _ _ (fat_sector fs hok b hb).2.2

/-- Moving the window of a later state `fs1` to the FAT sector of byte `b`
succeeds and shows the bytes of that sector. -/
theorem move_window_fat (fs fs1 : FATFS) (hok : fs.fatOk) (hm : fs.moved fs1) (b : Nat)
    (hb : b < fs.fsize * fs.ssize) :
    (move_window fs1 (fs.fatbase + b / fs.ssize)).2 = FR_OK ∧
    (move_window fs1 (fs.fatbase + b / fs.ssize)).1.winsect = fs.fatbase + b / fs.ssize ∧
    fs.moved (move_window fs1 (fs.fatbase + b / fs.ssize)).1 ∧
    ∀ k, (move_window fs1 (fs.fatbase + b / fs.ssize)).1.win k = view fs (fs.fatbase + b / fs.ssize) k := by
  obtain ⟨s1, s2, s3⟩ := fat_sector fs hok b hb
  obtain ⟨r1, r2, r3⟩ := move_window_moved fs1 _ hm.1 s2
  have hmv := moved_trans fs fs1 _ hm r3
  refine ⟨r1, r2, hmv, fun k => ?_⟩
  rw [← hmv.2.2.2 _ k s3]
  unfold view
  rw [if_pos r2.symm]


theorem fatOk_ssize (fs : FATFS) (hok : fs.fatOk) :
    ∃ q, 0 < q ∧ fs.ssize = 4 * q ∧ fs.ssize / 2 = 2 * q ∧ fs.ssize / 4 = q := by
  have h1 := hok.ssize_pos
  have h2 := hok.ssize_mul
  exact ⟨fs.ssize / 4, by omega, by omega, by omega, rfl⟩

theorem get_fat_spec (fs : FATFS) (hok : fs.fatOk) (c : Nat) (h2 : 2 ≤ c) (hc : c < fs.n_fatent) :
    (get_fat fs c).2 = fatVal fs c ∧ fs.moved (get_fat fs c).1 := by
  have hent := hok.entries
  have hfit := hok.fits
  obtain ⟨q, hq, hs4, hs2, hs1⟩ := fatOk_ssize fs hok
  unfold get_fat
  rw [if_neg (by omega)]
  by_cases h12 : fs.fs_type = FS_FAT12
  · rw [if_pos h12]
    have hfb : fatBytes fs = (fs.n_fatent * 3 + 1) / 2 := by unfold fatBytes; rw [if_pos h12]
    have hbc : add32 c (c / 2) = c + c / 2 := by unfold add32; exact Nat.mod_eq_of_lt (by omega)
    have hbc1 : add32 (c + c / 2) 1 = c + c / 2 + 1 := by
      unfold add32; exact Nat.mod_eq_of_lt (by omega)
    have hb0 : c + c / 2 < fs.fsize * fs.ssize := by omega
    have hb1 : c + c / 2 + 1 < fs.fsize * fs.ssize := by omega
    simp only [hbc, hbc1, (fat_sector fs hok _ hb0).1, (fat_sector fs hok _ hb1).1]
    obtain ⟨a1, a2, a3, a4⟩ := move_window_fat fs fs hok (moved_refl fs hok.good) _ hb0
    obtain ⟨b1, b2, b3, b4⟩ := move_window_fat fs _ hok a3 _ hb1
    rw [if_neg (by rw [a1]; simp), if_neg (by rw [b1]; simp)]
    simp only [a4, b4]
    refine ⟨?_, b3⟩
    unfold fatVal fbyte
    rw [if_pos h12]
  · rw [if_neg h12]
    by_cases h16 : fs.fs_type = FS_FAT16
    · rw [if_pos h16]
      have hfb : fatBytes fs = fs.n_fatent * 2 := by
        unfold fatBytes; rw [if_neg h12, if_pos h16]
      have hb0 : c * 2 < fs.fsize * fs.ssize := by omega
      have hm2 : c * 2 % 4294967296 = c * 2 := Nat.mod_eq_of_lt (by omega)
      have e0 := div_mod_scaled 2 (2 * q) c 0 (by omega) (by omega)
      have e1 := div_mod_scaled 2 (2 * q) c 1 (by omega) (by omega)
      have hss : fs.ssize = 2 * (2 * q) := by omega
      have hsec : fs.fatbase + c / (2 * q) = fs.fatbase + c * 2 / fs.ssize := by
        rw [hss, Nat.mul_comm c 2]; have := e0.1; rw [Nat.add_zero] at this; rw [this]
      rw [hs2, hm2]
      have hsec2 : add32 fs.fatbase (c / (2 * q)) = fs.fatbase + c * 2 / fs.ssize := by
        rw [← (fat_sector fs hok _ hb0).1, hss, Nat.mul_comm c 2]
        have := e0.1; rw [Nat.add_zero] at this; rw [this]
      rw [hsec2]
      obtain ⟨a1, a2, a3, a4⟩ := move_window_fat fs fs hok (moved_refl fs hok.good) _ hb0
      rw [if_neg (by rw [a1]; simp)]
      refine ⟨?_, a3⟩
      simp only []
      unfold LD_WORD fatVal fbyte
      rw [if_neg h12, if_pos h16, a4, a4]
      have x0 : c * 2 % fs.ssize + 1 = (c * 2 + 1) % fs.ssize := by
        rw [hss, Nat.mul_comm c 2]
        have := e0.2; rw [Nat.add_zero] at this
        rw [this, e1.2]
      have x1 : (c * 2 + 1) / fs.ssize = c * 2 / fs.ssize := by
        rw [hss, Nat.mul_comm c 2]
        have := e0.1; rw [Nat.add_zero] at this
        rw [this, e1.1]
      rw [x0, x1]
    · rw [if_neg h16]
      have h32 : fs.fs_type = FS_FAT32 := by
        rcases hok.subtype with h | h | h
        · exact absurd h h12
        · exact absurd h h16
        · exact h
      rw [if_pos h32]
      have hfb : fatBytes fs = fs.n_fatent * 4 := by
        unfold fatBytes; rw [if_neg h12, if_neg h16]
      have hb0 : c * 4 < fs.fsize * fs.ssize := by omega
      have hm4 : c * 4 % 4294967296 = c * 4 := Nat.mod_eq_of_lt (by omega)
      have e0 := div_mod_scaled 4 q c 0 hq (by omega)
      have e1 := div_mod_scaled 4 q c 1 hq (by omega)
      have e2 := div_mod_scaled 4 q c 2 hq (by omega)
      have e3 := div_mod_scaled 4 q c 3 hq (by omega)
      rw [Nat.add_zero] at e0
      rw [hs1, hm4]
      have hsec2 : add32 fs.fatbase (c / q) = fs.fatbase + c * 4 / fs.ssize := by
        rw [← (fat_sector fs hok _ hb0).1, hs4, Nat.mul_comm c 4, e0.1]
      rw [hsec2]
      obtain ⟨a1, a2, a3, a4⟩ := move_window_fat fs fs hok (moved_refl fs hok.good) _ hb0
      rw [if_neg (by rw [a1]; simp)]
      refine ⟨?_, a3⟩
      simp only []
      unfold LD_DWORD fatVal fbyte
      rw [if_neg h12, if_neg h16, a4, a4, a4, a4]
      have y1 : c * 4 % fs.ssize + 1 = (c * 4 + 1) % fs.ssize ∧ (c * 4 + 1) / fs.ssize = c * 4 / fs.ssize := by
        rw [hs4, Nat.mul_comm c 4, e0.2, e1.2, e0.1, e1.1]; exact ⟨rfl, rfl⟩
      have y2 : c * 4 % fs.ssize + 2 = (c * 4 + 2) % fs.ssize ∧ (c * 4 + 2) / fs.ssize = c * 4 / fs.ssize := by
        rw [hs4, Nat.mul_comm c 4, e0.2, e2.2, e0.1, e2.1]; exact ⟨rfl, rfl⟩
      have y3 : c * 4 % fs.ssize + 3 = (c * 4 + 3) % fs.ssize ∧ (c * 4 + 3) / fs.ssize = c * 4 / fs.ssize := by
        rw [hs4, Nat.mul_comm c 4, e0.2, e3.2, e0.1, e3.1]; exact ⟨rfl, rfl⟩
      rw [y1.1, y2.1, y3.1, y1.2, y2.2, y3.2]


theorem setwin_good (fs : FATFS) (w : Nat → Nat) (hg : fs.good) :
    FATFS.good { fs with win := w, wflag := 1 } ∧
    FATFS.meta { fs with win := w, wflag := 1 } = fs.meta ∧
    (fs.bytesOk → (∀ k, w k < 256) → FATFS.bytesOk { fs with win := w, wflag := 1 }) ∧
    ∀ s k, view { fs with win := w, wflag := 1 } s k = if s = fs.winsect then w k else view fs s k := by
  refine ⟨⟨hg.writable, hg.faithful, hg.fats, hg.nowrap, hg.winsect_lt, fun h => absurd h (by simp)⟩,
    rfl, fun hb hw => ⟨hw, hb.2⟩, fun s k => ?_⟩
  unfold view
  simp only []
  split_ifs <;> rfl

theorem fat_pos_unique (ssize b b1 : Nat) :
    (b / ssize = b1 / ssize ∧ b % ssize = b1 % ssize) ↔ b = b1 := by
  constructor
  · rintro ⟨h1, h2⟩
    have e1 := Nat.div_add_mod b ssize
    have e2 := Nat.div_add_mod b1 ssize
    rw [h1, h2] at e1
    omega
  · rintro rfl; exact ⟨rfl, rfl⟩

theorem fatOk_of_meta (fs fs1 : FATFS) (hok : fs.fatOk) (hg : fs1.good) (hm : fs1.meta = fs.meta) :
    fs1.fatOk := by
  obtain ⟨e1, e2, e3, e4, e5, e6, -⟩ := meta_fields fs fs1 hm
  refine ⟨hg, by rw [e1]; exact hok.subtype, by rw [e3]; exact hok.ssize_pos,
    by rw [e3]; exact hok.ssize_mul, by rw [e4]; exact hok.entries, ?_⟩
  have : fatBytes fs1 = fatBytes fs := by unfold fatBytes; rw [e1, e4]
  rw [this, e5, e3]; exact hok.fits

/-- Storing a new window content after moving the window to the FAT sector
of byte `b0`. -/
theorem fat_store (fs : FATFS) (hok : fs.fatOk) (b0 : Nat) (hb : b0 < fs.fsize * fs.ssize)
    (w : Nat → Nat) (fs1 : FATFS)
    (h1 : fs1 = { (move_window fs (fs.fatbase + b0 / fs.ssize)).1 with win := w, wflag := 1 }) :
    fs1.fatOk ∧ fs1.meta = fs.meta ∧ (fs.bytesOk → (∀ k, w k < 256) → fs1.bytesOk) ∧
    ∀ s k, ¬ mirrorArea fs s →
      view fs1 s k = if s = fs.fatbase + b0 / fs.ssize then w k else view fs s k := by
  obtain ⟨a1, a2, a3, a4⟩ := move_window_fat fs fs hok (moved_refl fs hok.good) b0 hb
  obtain ⟨g1, g2, g3, g4⟩ := setwin_good (move_window fs (fs.fatbase + b0 / fs.ssize)).1 w a3.1
  subst h1
  have hmeta := g2.trans a3.2.1
  refine ⟨fatOk_of_meta fs _ hok g1 hmeta, hmeta, fun hbo hw => g3 (a3.2.2.1 hbo) hw, fun s k hs => ?_⟩
  rw [g4 s k, a2]
  split_ifs
  · rfl
  · exact a3.2.2.2 s k hs


theorem fbyte_after_store (fs fs1 : FATFS) (hok : fs.fatOk) (b0 : Nat) (w : Nat → Nat)
    (hmeta : fs1.meta = fs.meta)
    (hview : ∀ s k, ¬ mirrorArea fs s →
      view fs1 s k = if s = fs.fatbase + b0 / fs.ssize then w k else view fs s k)
    (b : Nat) (hb : b < fs.fsize * fs.ssize) :
    fbyte fs1 b = if b / fs.ssize = b0 / fs.ssize then w (b % fs.ssize) else fbyte fs b := by
  obtain ⟨-, -, e3, -, -, e6, -⟩ := meta_fields fs fs1 hmeta
  unfold fbyte
  rw [e3, e6, hview _ _ (fat_sector fs hok b hb).2.2]
  by_cases h : b / fs.ssize = b0 / fs.ssize
  · rw [if_pos (by rw [h]), if_pos h]
  · rw [if_neg (by omega), if_neg h]

theorem view_after_store (fs fs1 : FATFS) (b0 : Nat) (hb0 : b0 < fs.fsize * fs.ssize)
    (w : Nat → Nat)
    (hview : ∀ s k, ¬ mirrorArea fs s →
      view fs1 s k = if s = fs.fatbase + b0 / fs.ssize then w k else view fs s k)
    (s k : Nat) (hs : ¬ mirrorArea fs s) (hout : s < fs.fatbase ∨ fs.fatbase + fs.fsize ≤ s) :
    view fs1 s k = view fs s k := by
  rw [hview s k hs, if_neg]
  have h1 : b0 / fs.ssize < fs.fsize := Nat.div_lt_of_lt_mul (by rw [Nat.mul_comm]; exact hb0)
  generalize b0 / fs.ssize = q at h1 ⊢
  omega

theorem put_fat_spec16 (fs : FATFS) (hok : fs.fatOk) (c v : Nat) (h2 : 2 ≤ c) (hc : c < fs.n_fatent)
    (h16 : fs.fs_type = FS_FAT16) :
    (put_fat fs c v).2 = FR_OK ∧ (put_fat fs c v).1.fatOk ∧ (put_fat fs c v).1.meta = fs.meta ∧
    (fs.bytesOk → (put_fat fs c v).1.bytesOk) ∧
    (∀ s k, ¬ mirrorArea fs s → (s < fs.fatbase ∨ fs.fatbase + fs.fsize ≤ s) →
      view (put_fat fs c v).1 s k = view fs s k) ∧
    (∀ b, b < fs.fsize * fs.ssize → fbyte (put_fat fs c v).1 b = putBytes fs c v b) := by
  have hent := hok.entries
  have hfit := hok.fits
  obtain ⟨q, hq, hs4, hs2, hs1⟩ := fatOk_ssize fs hok
  have h12 : ¬ fs.fs_type = FS_FAT12 := by rw [h16]; decide
  have hfb : fatBytes fs = fs.n_fatent * 2 := by
    unfold fatBytes; rw [if_neg h12, if_pos h16]
  have hb0 : c * 2 < fs.fsize * fs.ssize := by omega
  have hm2 : c * 2 % 4294967296 = c * 2 := Nat.mod_eq_of_lt (by omega)
  have e0 := div_mod_scaled 2 (2 * q) c 0 (by omega) (by omega)
  have e1 := div_mod_scaled 2 (2 * q) c 1 (by omega) (by omega)
  rw [Nat.add_zero] at e0
  have hss : fs.ssize = 2 * (2 * q) := by omega
  have hsec2 : add32 fs.fatbase (c / (2 * q)) = fs.fatbase + c * 2 / fs.ssize := by
    rw [← (fat_sector fs hok _ hb0).1, hss, Nat.mul_comm c 2, e0.1]
  have x0 : c * 2 % fs.ssize + 1 = (c * 2 + 1) % fs.ssize := by
    rw [hss, Nat.mul_comm c 2, e0.2, e1.2]
  have x1 : (c * 2 + 1) / fs.ssize = c * 2 / fs.ssize := by
    rw [hss, Nat.mul_comm c 2, e0.1, e1.1]
  obtain ⟨a1, a2, a3, a4⟩ := move_window_fat fs fs hok (moved_refl fs hok.good) _ hb0
  have hput : put_fat fs c v = ({ (move_window fs (fs.fatbase + c * 2 / fs.ssize)).1 with
      win := ST_WORD (move_window fs (fs.fatbase + c * 2 / fs.ssize)).1.win (c * 2 % fs.ssize) (v % 65536),
      wflag := 1 }, FR_OK) := by
    unfold put_fat
    rw [if_neg (by omega), if_neg h12, if_pos h16, hs2, hm2, hsec2, if_neg (by rw [a1]; simp)]
  rw [hput]
  obtain ⟨k1, k2, k3, k4⟩ := fat_store fs hok (c * 2) hb0 _ _ rfl
  have hwb : ∀ k, ST_WORD (move_window fs (fs.fatbase + c * 2 / fs.ssize)).1.win (c * 2 % fs.ssize)
      (v % 65536) k = if k = c * 2 % fs.ssize + 1 then v % 65536 / 256 % 256
        else if k = c * 2 % fs.ssize then v % 65536 % 256
        else view fs (fs.fatbase + c * 2 / fs.ssize) k := by
    intro k
    unfold ST_WORD
    simp only [Function.update_apply, a4]
  refine ⟨rfl, k1, k2, fun hbo => k3 hbo (fun k => ?_), fun s k hs hout =>
    view_after_store fs _ (c * 2) hb0 _ k4 s k hs hout, fun b hb => ?_⟩
  · rw [hwb]
    split_ifs
    · exact Nat.mod_lt _ (by norm_num)
    · exact Nat.mod_lt _ (by norm_num)
    · rw [← a4]; exact (a3.2.2.1 hbo).1 k
  · rw [fbyte_after_store fs _ hok (c * 2) _ k2 k4 b hb]
    unfold putBytes
    rw [if_neg h12, if_pos h16]
    by_cases hs : b / fs.ssize = c * 2 / fs.ssize
    · rw [if_pos hs, hwb]
      by_cases hb1 : b = c * 2 + 1
      · rw [if_pos (by rw [hb1, x0]), if_neg (by omega), if_pos hb1]
      · have n1 : ¬ b % fs.ssize = c * 2 % fs.ssize + 1 := by
          intro h
          rw [x0] at h
          rw [← x1] at hs
          exact hb1 ((fat_pos_unique fs.ssize b (c * 2 + 1)).1 ⟨hs, h⟩)
        rw [if_neg n1]
        by_cases hb2 : b = c * 2
        · rw [if_pos (by rw [hb2]), if_pos hb2]
        · have n2 : ¬ b % fs.ssize = c * 2 % fs.ssize := by
            intro h
            exact hb2 ((fat_pos_unique fs.ssize b (c * 2)).1 ⟨hs, h⟩)
          rw [if_neg n2, if_neg hb2, if_neg hb1]
          unfold fbyte
          rw [hs]
    · rw [if_neg hs, if_neg (by intro h; rw [h] at hs; exact hs rfl),
        if_neg (by intro h; rw [h, x1] at hs; exact hs rfl)]


theorem put_fat_spec32 (fs : FATFS) (hok : fs.fatOk) (c v : Nat) (h2 : 2 ≤ c) (hc : c < fs.n_fatent)
    (h32 : fs.fs_type = FS_FAT32) :
    (put_fat fs c v).2 = FR_OK ∧ (put_fat fs c v).1.fatOk ∧ (put_fat fs c v).1.meta = fs.meta ∧
    (fs.bytesOk → (put_fat fs c v).1.bytesOk) ∧
    (∀ s k, ¬ mirrorArea fs s → (s < fs.fatbase ∨ fs.fatbase + fs.fsize ≤ s) →
      view (put_fat fs c v).1 s k = view fs s k) ∧
    (∀ b, b < fs.fsize * fs.ssize → fbyte (put_fat fs c v).1 b = putBytes fs c v b) := by
  have hent := hok.entries
  have hfit := hok.fits
  obtain ⟨q, hq, hs4, hs2, hs1⟩ := fatOk_ssize fs hok
  have h12 : ¬ fs.fs_type = FS_FAT12 := by rw [h32]; decide
  have h16 : ¬ fs.fs_type = FS_FAT16 := by rw [h32]; decide
  have hfb : fatBytes fs = fs.n_fatent * 4 := by
    unfold fatBytes; rw [if_neg h12, if_neg h16]
  have hb0 : c * 4 < fs.fsize * fs.ssize := by omega
  have hm4 : c * 4 % 4294967296 = c * 4 := Nat.mod_eq_of_lt (by omega)
  have e0 := div_mod_scaled 4 q c 0 hq (by omega)
  have e1 := div_mod_scaled 4 q c 1 hq (by omega)
  have e2 := div_mod_scaled 4 q c 2 hq (by omega)
  have e3 := div_mod_scaled 4 q c 3 hq (by omega)
  rw [Nat.add_zero] at e0
  have hsec2 : add32 fs.fatbase (c / q) = fs.fatbase + c * 4 / fs.ssize := by
    rw [← (fat_sector fs hok _ hb0).1, hs4, Nat.mul_comm c 4, e0.1]
  have y1 : c * 4 % fs.ssize + 1 = (c * 4 + 1) % fs.ssize ∧ (c * 4 + 1) / fs.ssize = c * 4 / fs.ssize := by
    rw [hs4, Nat.mul_comm c 4, e0.2, e1.2, e0.1, e1.1]; exact ⟨rfl, rfl⟩
  have y2 : c * 4 % fs.ssize + 2 = (c * 4 + 2) % fs.ssize ∧ (c * 4 + 2) / fs.ssize = c * 4 / fs.ssize := by
    rw [hs4, Nat.mul_comm c 4, e0.2, e2.2, e0.1, e2.1]; exact ⟨rfl, rfl⟩
  have y3 : c * 4 % fs.ssize + 3 = (c * 4 + 3) % fs.ssize ∧ (c * 4 + 3) / fs.ssize = c * 4 / fs.ssize := by
    rw [hs4, Nat.mul_comm c 4, e0.2, e3.2, e0.1, e3.1]; exact ⟨rfl, rfl⟩
  obtain ⟨a1, a2, a3, a4⟩ := move_window_fat fs fs hok (moved_refl fs hok.good) _ hb0
  have hld : LD_DWORD (move_window fs (fs.fatbase + c * 4 / fs.ssize)).1.win (c * 4 % fs.ssize) =
      fdword fs (c * 4) := by
    unfold LD_DWORD fdword fbyte
    rw [a4, a4, a4, a4, y1.1, y2.1, y3.1, y1.2, y2.2, y3.2]
  have hput : put_fat fs c v = ({ (move_window fs (fs.fatbase + c * 4 / fs.ssize)).1 with
      win := ST_DWORD (move_window fs (fs.fatbase + c * 4 / fs.ssize)).1.win (c * 4 % fs.ssize) (v ||| (fdword fs (c * 4) &&& 0xF0000000)),
      wflag := 1 }, FR_OK) := by
    unfold put_fat
    rw [if_neg (by omega), if_neg h12, if_neg h16, if_pos h32, hs1, hm4, hsec2,
      if_neg (by rw [a1]; simp)]
    simp only [hld]
  rw [hput]
  obtain ⟨val, hv⟩ : ∃ val, val = v ||| (fdword fs (c * 4) &&& 0xF0000000) := ⟨_, rfl⟩
  rw [← hv]
  obtain ⟨k1, k2, k3, k4⟩ := fat_store fs hok (c * 4) hb0 _ _ rfl
  have hwb : ∀ k, ST_DWORD (move_window fs (fs.fatbase + c * 4 / fs.ssize)).1.win (c * 4 % fs.ssize)
      val k = if k = c * 4 % fs.ssize + 3 then val / 16777216 % 256
        else if k = c * 4 % fs.ssize + 2 then val / 65536 % 256
        else if k = c * 4 % fs.ssize + 1 then val / 256 % 256
        else if k = c * 4 % fs.ssize then val % 256
        else view fs (fs.fatbase + c * 4 / fs.ssize) k := by
    intro k
    unfold ST_DWORD
    simp only [Function.update_apply, a4]
  refine ⟨rfl, k1, k2, fun hbo => k3 hbo (fun k => ?_), fun s k hs hout =>
    view_after_store fs _ (c * 4) hb0 _ k4 s k hs hout, fun b hb => ?_⟩
  · rw [hwb]
    split_ifs
    · exact Nat.mod_lt _ (by norm_num)
    · exact Nat.mod_lt _ (by norm_num)
    · exact Nat.mod_lt _ (by norm_num)
    · exact Nat.mod_lt _ (by norm_num)
    · rw [← a4]; exact (a3.2.2.1 hbo).1 k
  · rw [fbyte_after_store fs _ hok (c * 4) _ k2 k4 b hb]
    unfold putBytes
    rw [if_neg h12, if_neg h16, ← hv]
    by_cases hs : b / fs.ssize = c * 4 / fs.ssize
    · rw [if_pos hs, hwb]
      have p0 : b % fs.ssize = c * 4 % fs.ssize ↔ b = c * 4 :=
        ⟨fun h => (fat_pos_unique fs.ssize b (c * 4)).1 ⟨hs, h⟩, fun h => by rw [h]⟩
      have p1 : b % fs.ssize = c * 4 % fs.ssize + 1 ↔ b = c * 4 + 1 := by
        rw [y1.1]
        exact ⟨fun h => (fat_pos_unique fs.ssize b (c * 4 + 1)).1 ⟨by rw [hs, y1.2], h⟩, fun h => by rw [h]⟩
      have p2 : b % fs.ssize = c * 4 % fs.ssize + 2 ↔ b = c * 4 + 2 := by
        rw [y2.1]
        exact ⟨fun h => (fat_pos_unique fs.ssize b (c * 4 + 2)).1 ⟨by rw [hs, y2.2], h⟩, fun h => by rw [h]⟩
      have p3 : b % fs.ssize = c * 4 % fs.ssize + 3 ↔ b = c * 4 + 3 := by
        rw [y3.1]
        exact ⟨fun h => (fat_pos_unique fs.ssize b (c * 4 + 3)).1 ⟨by rw [hs, y3.2], h⟩, fun h => by rw [h]⟩
      simp only [p0, p1, p2, p3]
      have hfb2 : view fs (fs.fatbase + c * 4 / fs.ssize) (b % fs.ssize) = fbyte fs b := by
        unfold fbyte; rw [hs]
      rw [hfb2]
      split_ifs <;> first | rfl | omega
    · rw [if_neg hs, if_neg (by intro h; rw [h] at hs; exact hs rfl),
        if_neg (by intro h; rw [h, y1.2] at hs; exact hs rfl),
        if_neg (by intro h; rw [h, y2.2] at hs; exact hs rfl),
        if_neg (by intro h; rw [h, y3.2] at hs; exact hs rfl)]

theorem fat_store_byte (fs : FATFS) (hok : fs.fatOk) (b0 : Nat) (hb0 : b0 < fs.fsize * fs.ssize)
    (x : Nat) (fs1 : FATFS)
    (h1 : fs1 = { (move_window fs (fs.fatbase + b0 / fs.ssize)).1 with win := Function.update (move_window fs (fs.fatbase + b0 / fs.ssize)).1.win (b0 % fs.ssize) x, wflag := 1 }) :
    fs1.fatOk ∧ fs1.meta = fs.meta ∧ (fs.bytesOk → x < 256 → fs1.bytesOk) ∧
    (∀ s k, ¬ mirrorArea fs s → (s < fs.fatbase ∨ fs.fatbase + fs.fsize ≤ s) →
      view fs1 s k = view fs s k) ∧
    ∀ b, b < fs.fsize * fs.ssize → fbyte fs1 b = if b = b0 then x else fbyte fs b := by
  obtain ⟨a1, a2, a3, a4⟩ := move_window_fat fs fs hok (moved_refl fs hok.good) _ hb0
  obtain ⟨k1, k2, k3, k4⟩ := fat_store fs hok b0 hb0 _ _ h1
  refine ⟨k1, k2, fun hbo hx => k3 hbo (fun k => ?_), fun s k hs hout =>
    view_after_store fs _ b0 hb0 _ k4 s k hs hout, fun b hb => ?_⟩
  · rw [Function.update_apply]
    split_ifs
    · exact hx
    · exact (a3.2.2.1 hbo).1 k
  · rw [fbyte_after_store fs _ hok b0 _ k2 k4 b hb, Function.update_apply, a4]
    by_cases hs : b / fs.ssize = b0 / fs.ssize
    · rw [if_pos hs]
      by_cases hb1 : b = b0
      · rw [if_pos (by rw [hb1]), if_pos hb1]
      · rw [if_neg (fun h => hb1 ((fat_pos_unique fs.ssize b b0).1 ⟨hs, h⟩)), if_neg hb1]
        unfold fbyte
        rw [hs]
    · rw [if_neg hs, if_neg (by intro h; rw [h] at hs; exact hs rfl)]


theorem put_fat_spec12 (fs : FATFS) (hok : fs.fatOk) (c v : Nat) (h2 : 2 ≤ c) (hc : c < fs.n_fatent)
    (h12 : fs.fs_type = FS_FAT12) :
    (put_fat fs c v).2 = FR_OK ∧ (put_fat fs c v).1.fatOk ∧ (put_fat fs c v).1.meta = fs.meta ∧
    (fs.bytesOk → (put_fat fs c v).1.bytesOk) ∧
    (∀ s k, ¬ mirrorArea fs s → (s < fs.fatbase ∨ fs.fatbase + fs.fsize ≤ s) →
      view (put_fat fs c v).1 s k = view fs s k) ∧
    (∀ b, b < fs.fsize * fs.ssize → fbyte (put_fat fs c v).1 b = putBytes fs c v b) := by
  have hent := hok.entries
  have hfit := hok.fits
  have hfb : fatBytes fs = (fs.n_fatent * 3 + 1) / 2 := by unfold fatBytes; rw [if_pos h12]
  have hbc : add32 c (c / 2) = c + c / 2 := by unfold add32; exact Nat.mod_eq_of_lt (by omega)
  have hbc1 : add32 (c + c / 2) 1 = c + c / 2 + 1 := by
    unfold add32; exact Nat.mod_eq_of_lt (by omega)
  have hb0 : c + c / 2 < fs.fsize * fs.ssize := by omega
  have hb1 : c + c / 2 + 1 < fs.fsize * fs.ssize := by omega
  obtain ⟨a1, a2, a3, a4⟩ := move_window_fat fs fs hok (moved_refl fs hok.good) _ hb0
  obtain ⟨v1, hv1⟩ : ∃ v1, v1 = if c &&& 1 ≠ 0 then ((fbyte fs (c + c / 2) &&& 0x0F) ||| ((v % 256) <<< 4)) % 256 else v % 256 := ⟨_, rfl⟩
  obtain ⟨fs1, hfs1⟩ : ∃ fs1 : FATFS, fs1 = { (move_window fs (fs.fatbase + (c + c / 2) / fs.ssize)).1 with win := Function.update (move_window fs (fs.fatbase + (c + c / 2) / fs.ssize)).1.win ((c + c / 2) % fs.ssize) v1, wflag := 1 } := ⟨_, rfl⟩
  obtain ⟨k1, k2, k3, k4, k5⟩ := fat_store_byte fs hok _ hb0 v1 fs1 hfs1
  obtain ⟨m1, m2, m3, m4, m5, m6, m7⟩ := meta_fields fs fs1 k2
  have hb1f : c + c / 2 + 1 < fs1.fsize * fs1.ssize := by rw [m5, m3]; exact hb1
  obtain ⟨b1, b2, b3, b4⟩ := move_window_fat fs1 fs1 k1 (moved_refl fs1 k1.good) _ hb1f
  rw [m6, m3] at b1 b2 b3 b4
  have hw2 : (move_window fs1 (fs.fatbase + (c + c / 2 + 1) / fs.ssize)).1.win ((c + c / 2 + 1) % fs.ssize) =
      fbyte fs (c + c / 2 + 1) := by
    have := k5 _ hb1
    rw [if_neg (by omega)] at this
    rw [b4, ← this]
    unfold fbyte
    rw [m6, m3]
  obtain ⟨v2, hv2⟩ : ∃ v2, v2 = if c &&& 1 ≠ 0 then (v >>> 4) % 256 else (fbyte fs (c + c / 2 + 1) &&& 0xF0) ||| ((v >>> 8) % 256 &&& 0x0F) := ⟨_, rfl⟩
  obtain ⟨fs2, hfs2⟩ : ∃ fs2 : FATFS, fs2 = { (move_window fs1 (fs1.fatbase + (c + c / 2 + 1) / fs1.ssize)).1 with win := Function.update (move_window fs1 (fs1.fatbase + (c + c / 2 + 1) / fs1.ssize)).1.win ((c + c / 2 + 1) % fs1.ssize) v2, wflag := 1 } := ⟨_, rfl⟩
  obtain ⟨n1, n2, n3, n4, n5⟩ := fat_store_byte fs1 k1 _ hb1f v2 fs2 hfs2
  have hput : put_fat fs c v = (fs2, FR_OK) := by
    unfold put_fat
    rw [if_neg (by omega), if_pos h12]
    simp only [hbc, hbc1, (fat_sector fs hok _ hb0).1, (fat_sector fs hok _ hb1).1]
    rw [if_neg (by rw [a1]; simp)]
    have e1 : (move_window fs (fs.fatbase + (c + c / 2) / fs.ssize)).1.win ((c + c / 2) % fs.ssize) = fbyte fs (c + c / 2) := by
      rw [a4]; rfl
    rw [e1, ← hv1, ← hfs1, if_neg (by rw [b1]; simp), hw2, ← hv2, hfs2, m6, m3]
  rw [hput]
  have hv1lt : v1 < 256 := by
    rw [hv1]; split_ifs
    · exact Nat.mod_lt _ (by norm_num)
    · exact Nat.mod_lt _ (by norm_num)
  have hv2lt : v2 < 256 := by
    rw [hv2]; split_ifs
    · exact Nat.mod_lt _ (by norm_num)
    · have x1 : fbyte fs (c + c / 2 + 1) &&& 0xF0 < 2 ^ 8 :=
        Nat.lt_of_le_of_lt Nat.and_le_right (by norm_num)
      have x2 : (v >>> 8) % 256 &&& 0x0F < 2 ^ 8 :=
        Nat.lt_of_le_of_lt Nat.and_le_right (by norm_num)
      exact Nat.or_lt_two_pow x1 x2
  refine ⟨rfl, n1, n2.trans k2, fun hbo => n3 (k3 hbo hv1lt) hv2lt, fun s k hs hout => ?_,
    fun b hb => ?_⟩
  · rw [n4 s k ((mirrorArea_of_meta fs fs1 k2 s).not.2 hs) (by rw [m6, m5]; exact hout),
      k4 s k hs hout]
  · rw [n5 b (by rw [m5, m3]; exact hb), k5 b hb]
    unfold putBytes
    rw [if_pos h12, ← hv1, ← hv2]
    split_ifs <;> first | rfl | omega

theorem put_fat_spec (fs : FATFS) (hok : fs.fatOk) (c v : Nat) (h2 : 2 ≤ c) (hc : c < fs.n_fatent) :
    (put_fat fs c v).2 = FR_OK ∧ (put_fat fs c v).1.fatOk ∧ (put_fat fs c v).1.meta = fs.meta ∧
    (fs.bytesOk → (put_fat fs c v).1.bytesOk) ∧
    (∀ s k, ¬ mirrorArea fs s → (s < fs.fatbase ∨ fs.fatbase + fs.fsize ≤ s) →
      view (put_fat fs c v).1 s k = view fs s k) ∧
    (∀ b, b < fs.fsize * fs.ssize → fbyte (put_fat fs c v).1 b = putBytes fs c v b) := by
  rcases hok.subtype with h | h | h
  · exact put_fat_spec12 fs hok c v h2 hc h
  · exact put_fat_spec16 fs hok c v h2 hc h
  · exact put_fat_spec32 fs hok c v h2 hc h


theorem and_high (n a b m : Nat) (hb : b < 2 ^ n) :
    (2 ^ n * a + b) &&& (2 ^ n * m) = 2 ^ n * (a &&& m) := by
  apply Nat.eq_of_testBit_eq
  intro j
  rw [Nat.testBit_and, Nat.testBit_mul_pow_two_add a hb, Nat.testBit_mul_pow_two,
    Nat.testBit_mul_pow_two, Nat.testBit_and]
  by_cases h : j < n
  · rw [if_pos h]
    have : ¬ j ≥ n := by omega
    simp [this]
  · rw [if_neg h]
    have : j ≥ n := by omega
    simp [this]

theorem or_low (n v h : Nat) : (v ||| 2 ^ n * h) % 2 ^ n = v % 2 ^ n := by
  apply Nat.eq_of_testBit_eq
  intro j
  rw [Nat.testBit_mod_two_pow, Nat.testBit_mod_two_pow, Nat.testBit_or, Nat.testBit_mul_pow_two]
  by_cases h : j < n
  · have : ¬ j ≥ n := by omega
    simp [this]
  · simp [h]

theorem and_F0 (x : Nat) : x &&& 0xF0 = 16 * (x / 16 % 16) := by
  have h := and_high 4 (x / 16) (x % 16) 15 (Nat.mod_lt _ (by norm_num))
  have e : 2 ^ 4 * (x / 16) + x % 16 = x := by omega
  rw [e] at h
  have h2 := Nat.and_pow_two_sub_one_eq_mod (x / 16) 4
  norm_num at h h2
  rw [h, h2]

theorem and_F0000000 (x : Nat) : x &&& 0xF0000000 = 268435456 * (x / 268435456 % 16) := by
  have h := and_high 28 (x / 268435456) (x % 268435456) 15 (Nat.mod_lt _ (by norm_num))
  have e : 2 ^ 28 * (x / 268435456) + x % 268435456 = x := by omega
  rw [e] at h
  have h2 := Nat.and_pow_two_sub_one_eq_mod (x / 268435456) 4
  norm_num at h h2
  rw [h, h2]

theorem and_0F (x : Nat) : x &&& 0x0F = x % 16 := Nat.and_pow_two_sub_one_eq_mod x 4

theorem and_FFF (x : Nat) : x &&& 0xFFF = x % 4096 := Nat.and_pow_two_sub_one_eq_mod x 12

theorem and_FFFF (x : Nat) : x &&& 0xFFFF = x % 65536 := Nat.and_pow_two_sub_one_eq_mod x 16

theorem and_0FFFFFFF (x : Nat) : x &&& 0x0FFFFFFF = x % 268435456 :=
  Nat.and_pow_two_sub_one_eq_mod x 28

theorem or_shl8 (a b : Nat) (ha : a < 256) : a ||| (b <<< 8) = a + b * 256 := by
  rw [Nat.shiftLeft_eq, Nat.or_comm, Nat.mul_comm b]
  have := Nat.mul_add_lt_is_or (show a < 2 ^ 8 by omega) b
  rw [← this]; omega

theorem or_nib (a b : Nat) (hb : b < 16) : (16 * a) ||| b = 16 * a + b := by
  have := Nat.mul_add_lt_is_or (show b < 2 ^ 4 by omega) a
  rw [show (16 : Nat) = 2 ^ 4 by norm_num, ← this]

theorem or_shl4 (a b : Nat) (ha : a < 16) : a ||| (b <<< 4) = a + b * 16 := by
  rw [Nat.shiftLeft_eq, Nat.or_comm, Nat.mul_comm b]
  have := Nat.mul_add_lt_is_or (show a < 2 ^ 4 by omega) b
  rw [← this]; omega

theorem or_hi28 (v h : Nat) (hv : v < 268435456) : v ||| (268435456 * h) = 268435456 * h + v := by
  have := Nat.mul_add_lt_is_or (show v < 2 ^ 28 by omega) h
  rw [Nat.or_comm, show (268435456 : Nat) = 2 ^ 28 by norm_num, ← this]


theorem fbyte_lt (fs : FATFS) (hb : fs.bytesOk) (b : Nat) : fbyte fs b < 256 := by
  unfold fbyte view
  split_ifs
  · exact hb.1 _
  · exact hb.2 _ _

theorem fatVal_put_same (fs : FATFS) (hok : fs.fatOk) (c v : Nat) (h2 : 2 ≤ c)
    (hc : c < fs.n_fatent) :
    fatVal (put_fat fs c v).1 c =
      if fs.fs_type = FS_FAT12 then v &&& 0xFFF
      else if fs.fs_type = FS_FAT16 then v &&& 0xFFFF else v &&& 0x0FFFFFFF := by
  obtain ⟨p1, p2, p3, p4, p5, p6⟩ := put_fat_spec fs hok c v h2 hc
  obtain ⟨m1, -⟩ := meta_fields fs _ p3
  have hent := hok.entries
  have hfit := hok.fits
  unfold fatVal
  rw [m1]
  by_cases h12 : fs.fs_type = FS_FAT12
  · rw [if_pos h12, if_pos h12]
    have hfb : fatBytes fs = (fs.n_fatent * 3 + 1) / 2 := by unfold fatBytes; rw [if_pos h12]
    have e0 := p6 (c + c / 2) (by omega)
    have e1 := p6 (c + c / 2 + 1) (by omega)
    unfold putBytes at e0 e1
    rw [if_pos h12, if_pos rfl] at e0
    rw [if_pos h12, if_neg (by omega), if_pos rfl] at e1
    rw [e0, e1, Nat.and_one_is_mod, and_FFF v]
    by_cases hodd : c % 2 ≠ 0
    · rw [if_pos hodd, if_pos hodd, if_pos hodd, or_shl8 _ _ (Nat.mod_lt _ (by norm_num)),
        Nat.shiftRight_eq_div_pow, Nat.shiftRight_eq_div_pow, and_0F,
        or_shl4 _ _ (Nat.mod_lt _ (by norm_num))]
      norm_num
      omega
    · rw [if_neg hodd, if_neg hodd, if_neg hodd, or_shl8 _ _ (Nat.mod_lt _ (by norm_num)),
        and_FFF, Nat.shiftRight_eq_div_pow, and_F0, and_0F,
        or_nib _ _ (Nat.mod_lt _ (by norm_num))]
      norm_num
      omega
  · rw [if_neg h12, if_neg h12]
    by_cases h16 : fs.fs_type = FS_FAT16
    · rw [if_pos h16, if_pos h16]
      have hfb : fatBytes fs = fs.n_fatent * 2 := by unfold fatBytes; rw [if_neg h12, if_pos h16]
      have e0 := p6 (c * 2) (by omega)
      have e1 := p6 (c * 2 + 1) (by omega)
      unfold putBytes at e0 e1
      rw [if_neg h12, if_pos h16, if_pos rfl] at e0
      rw [if_neg h12, if_pos h16, if_neg (by omega), if_pos rfl] at e1
      rw [e0, e1, and_FFFF]
      omega
    · rw [if_neg h16, if_neg h16]
      have hfb : fatBytes fs = fs.n_fatent * 4 := by unfold fatBytes; rw [if_neg h12, if_neg h16]
      have e0 := p6 (c * 4) (by omega)
      have e1 := p6 (c * 4 + 1) (by omega)
      have e2 := p6 (c * 4 + 2) (by omega)
      have e3 := p6 (c * 4 + 3) (by omega)
      unfold putBytes at e0 e1 e2 e3
      rw [if_neg h12, if_neg h16, if_pos rfl] at e0
      rw [if_neg h12, if_neg h16, if_neg (by omega), if_pos rfl] at e1
      rw [if_neg h12, if_neg h16, if_neg (by omega), if_neg (by omega), if_pos rfl] at e2
      rw [if_neg h12, if_neg h16, if_neg (by omega), if_neg (by omega), if_neg (by omega),
        if_pos rfl] at e3
      rw [e0, e1, e2, e3, and_0FFFFFFF, and_0FFFFFFF, and_F0000000]
      have hl := or_low 28 v (fdword fs (c * 4) / 268435456 % 16)
      norm_num at hl
      rw [← hl]
      generalize v ||| 268435456 * (fdword fs (c * 4) / 268435456 % 16) = val
      omega

theorem fatVal_put_other (fs : FATFS) (hok : fs.fatOk) (hbo : fs.bytesOk) (c v : Nat) (h2 : 2 ≤ c)
    (hc : c < fs.n_fatent) (d : Nat) (hd : d < fs.n_fatent) (hne : d ≠ c) :
    fatVal (put_fat fs c v).1 d = fatVal fs d := by
  obtain ⟨p1, p2, p3, p4, p5, p6⟩ := put_fat_spec fs hok c v h2 hc
  obtain ⟨m1, -⟩ := meta_fields fs _ p3
  have hent := hok.entries
  have hfit := hok.fits
  have hlt := fbyte_lt fs hbo
  have hlt1 := fbyte_lt _ (p4 hbo)
  unfold fatVal
  rw [m1]
  by_cases h12 : fs.fs_type = FS_FAT12
  · rw [if_pos h12, if_pos h12]
    have hfb : fatBytes fs = (fs.n_fatent * 3 + 1) / 2 := by unfold fatBytes; rw [if_pos h12]
    rw [or_shl8 _ _ (hlt1 _), or_shl8 _ _ (hlt _)]
    have e0 := p6 (d + d / 2) (by omega)
    have e1 := p6 (d + d / 2 + 1) (by omega)
    unfold putBytes at e0 e1
    rw [if_pos h12] at e0 e1
    rw [Nat.and_one_is_mod] at e0 e1 ⊢
    rw [and_FFF, and_FFF, Nat.shiftRight_eq_div_pow, Nat.shiftRight_eq_div_pow]
    by_cases ha : c % 2 = 0 ∧ d = c + 1
    · have x0 : d + d / 2 = c + c / 2 + 1 := by omega
      have hodd : d % 2 ≠ 0 := by omega
      have hev : ¬ c % 2 ≠ 0 := by omega
      rw [x0] at e0 e1 ⊢
      rw [if_neg (by omega), if_pos rfl, if_neg hev, and_F0, and_0F,
        or_nib _ _ (Nat.mod_lt _ (by norm_num))] at e0
      rw [if_neg (by omega), if_neg (by omega)] at e1
      rw [e0, e1, if_pos hodd, if_pos hodd]
      have := hlt (c + c / 2 + 1)
      norm_num
      omega
    · by_cases hb : c % 2 = 1 ∧ d + 1 = c
      · have x0 : c + c / 2 = d + d / 2 + 1 := by omega
        have hev : ¬ d % 2 ≠ 0 := by omega
        have hodd : c % 2 ≠ 0 := by omega
        rw [x0] at e0 e1
        rw [if_neg (by omega), if_neg (by omega)] at e0
        rw [if_pos rfl, if_pos hodd, and_0F, or_shl4 _ _ (Nat.mod_lt _ (by norm_num))] at e1
        rw [e0, e1, if_neg hev, if_neg hev]
        have := hlt (d + d / 2 + 1)
        omega
      · rw [if_neg (by omega), if_neg (by omega)] at e0 e1
        rw [e0, e1]
  · rw [if_neg h12, if_neg h12]
    by_cases h16 : fs.fs_type = FS_FAT16
    · rw [if_pos h16, if_pos h16]
      have hfb : fatBytes fs = fs.n_fatent * 2 := by unfold fatBytes; rw [if_neg h12, if_pos h16]
      have e0 := p6 (d * 2) (by omega)
      have e1 := p6 (d * 2 + 1) (by omega)
      unfold putBytes at e0 e1
      rw [if_neg h12, if_pos h16, if_neg (by omega), if_neg (by omega)] at e0 e1
      rw [e0, e1]
    · rw [if_neg h16, if_neg h16]
      have hfb : fatBytes fs = fs.n_fatent * 4 := by unfold fatBytes; rw [if_neg h12, if_neg h16]
      have e0 := p6 (d * 4) (by omega)
      have e1 := p6 (d * 4 + 1) (by omega)
      have e2 := p6 (d * 4 + 2) (by omega)
      have e3 := p6 (d * 4 + 3) (by omega)
      unfold putBytes at e0 e1 e2 e3
      rw [if_neg h12, if_neg h16, if_neg (by omega), if_neg (by omega), if_neg (by omega),
        if_neg (by omega)] at e0 e1 e2 e3
      rw [e0, e1, e2, e3]

theorem fdword_put_reserved (fs : FATFS) (hok : fs.fatOk) (hbo : fs.bytesOk) (c v : Nat)
    (h2 : 2 ≤ c) (hc : c < fs.n_fatent) (h32 : fs.fs_type = FS_FAT32) (hv : v ≤ 0x0FFFFFFF) :
    fdword (put_fat fs c v).1 (c * 4) &&& 0xF0000000 = fdword fs (c * 4) &&& 0xF0000000 := by
  obtain ⟨p1, p2, p3, p4, p5, p6⟩ := put_fat_spec fs hok c v h2 hc
  have hent := hok.entries
  have hfit := hok.fits
  have h12 : ¬ fs.fs_type = FS_FAT12 := by rw [h32]; decide
  have h16 : ¬ fs.fs_type = FS_FAT16 := by rw [h32]; decide
  have hfb : fatBytes fs = fs.n_fatent * 4 := by unfold fatBytes; rw [if_neg h12, if_neg h16]
  have e0 := p6 (c * 4) (by omega)
  have e1 := p6 (c * 4 + 1) (by omega)
  have e2 := p6 (c * 4 + 2) (by omega)
  have e3 := p6 (c * 4 + 3) (by omega)
  unfold putBytes at e0 e1 e2 e3
  rw [if_neg h12, if_neg h16, if_pos rfl] at e0
  rw [if_neg h12, if_neg h16, if_neg (by omega), if_pos rfl] at e1
  rw [if_neg h12, if_neg h16, if_neg (by omega), if_neg (by omega), if_pos rfl] at e2
  rw [if_neg h12, if_neg h16, if_neg (by omega), if_neg (by omega), if_neg (by omega),
    if_pos rfl] at e3
  have hd : fdword fs (c * 4) < 4294967296 := by
    unfold fdword
    have a0 := fbyte_lt fs hbo (c * 4)
    have a1 := fbyte_lt fs hbo (c * 4 + 1)
    have a2 := fbyte_lt fs hbo (c * 4 + 2)
    have a3 := fbyte_lt fs hbo (c * 4 + 3)
    omega
  rw [and_F0000000, and_F0000000]
  rw [and_F0000000, or_hi28 _ _ (by omega)] at e0 e1 e2 e3
  obtain ⟨val, hval⟩ : ∃ val, val = 268435456 * (fdword fs (c * 4) / 268435456 % 16) + v :=
    ⟨_, rfl⟩
  rw [← hval] at e0 e1 e2 e3
  have hnew : fdword (put_fat fs c v).1 (c * 4) = val % 4294967296 := by
    unfold fdword
    rw [e0, e1, e2, e3]
    omega
  rw [hnew, hval]
  generalize fdword fs (c * 4) = dd at hd ⊢
  omega


/-- C2: on a writable volume of any of the three FAT subtypes on a faithful
device, `put_fat(fs, c, v)` for an in-range cluster `c` returns `FR_OK` and a
following `get_fat(fs, c)` returns `v` masked to the entry width. -/
theorem C2_put_then_get_fat (fs : FATFS) (hok : fs.fatOk) (c v : Nat) (h2 : 2 ≤ c)
    (hc : c < fs.n_fatent) :
    (put_fat fs c v).2 = FR_OK ∧
    (get_fat (put_fat fs c v).1 c).2 =
      if fs.fs_type = FS_FAT12 then v &&& 0xFFF
      else if fs.fs_type = FS_FAT16 then v &&& 0xFFFF else v &&& 0x0FFFFFFF := by
  obtain ⟨p1, p2, p3, -⟩ := put_fat_spec fs hok c v h2 hc
  obtain ⟨-, -, -, m4, -⟩ := meta_fields fs _ p3
  refine ⟨p1, ?_⟩
  rw [(get_fat_spec _ p2 c h2 (by rw [m4]; exact hc)).1]
  exact fatVal_put_same fs hok c v h2 hc

theorem C2_put_then_get_fat_witness :
    (put_fat twoSectorFat 341 0xABC).2 = FR_OK ∧
    (get_fat (put_fat twoSectorFat 341 0xABC).1 341).2 =
      if twoSectorFat.fs_type = FS_FAT12 then 0xABC &&& 0xFFF
      else if twoSectorFat.fs_type = FS_FAT16 then 0xABC &&& 0xFFFF else 0xABC &&& 0x0FFFFFFF :=
  C2_put_then_get_fat twoSectorFat
    ⟨⟨rfl, ⟨fun _ => rfl, fun _ => rfl⟩, by decide, by decide, by decide, fun _ _ => rfl⟩,
      Or.inl rfl, by decide, by decide, by decide, by decide⟩
    341 0xABC (by decide) (by decide)

/-- C3: a `put_fat(fs, c, v)` on a volume whose bytes are bytes leaves the
value `get_fat` returns for every other in-range cluster unchanged, and on
FAT32, for `v <= 0x0FFFFFFF`, leaves the upper four bits of the stored 32-bit
entry `c` unchanged. -/
theorem C3_put_fat_frame (fs : FATFS) (hok : fs.fatOk) (hbo : fs.bytesOk) (c v : Nat)
    (h2 : 2 ≤ c) (hc : c < fs.n_fatent) :
    (put_fat fs c v).2 = FR_OK ∧
    (∀ d, 2 ≤ d → d < fs.n_fatent → d ≠ c →
      (get_fat (put_fat fs c v).1 d).2 = (get_fat fs d).2) ∧
    (fs.fs_type = FS_FAT32 → v ≤ 0x0FFFFFFF →
      fdword (put_fat fs c v).1 (c * 4) &&& 0xF0000000 = fdword fs (c * 4) &&& 0xF0000000) := by
  obtain ⟨p1, p2, p3, -⟩ := put_fat_spec fs hok c v h2 hc
  obtain ⟨-, -, -, m4, -⟩ := meta_fields fs _ p3
  refine ⟨p1, fun d hd2 hd hne => ?_, fun h32 hv => fdword_put_reserved fs hok hbo c v h2 hc h32 hv⟩
  rw [(get_fat_spec _ p2 d hd2 (by rw [m4]; exact hd)).1, (get_fat_spec fs hok d hd2 hd).1]
  exact fatVal_put_other fs hok hbo c v h2 hc d hd hne

theorem C3_put_fat_frame_witness :
    (put_fat fat32Vol 5 0x123).2 = FR_OK ∧
    (∀ d, 2 ≤ d → d < fat32Vol.n_fatent → d ≠ 5 →
      (get_fat (put_fat fat32Vol 5 0x123).1 d).2 = (get_fat fat32Vol d).2) ∧
    (fat32Vol.fs_type = FS_FAT32 → 0x123 ≤ 0x0FFFFFFF →
      fdword (put_fat fat32Vol 5 0x123).1 (5 * 4) &&& 0xF0000000 =
        fdword fat32Vol (5 * 4) &&& 0xF0000000) :=
  C3_put_fat_frame fat32Vol
    ⟨⟨rfl, ⟨fun _ => rfl, fun _ => rfl⟩, by decide, by decide, by decide, fun _ _ => rfl⟩,
      Or.inr (Or.inr rfl), by decide, by decide, by decide, by decide⟩
    ⟨fun _ => (by decide : (255 : Nat) < 256), fun _ _ => (by decide : (255 : Nat) < 256)⟩ 5 0x123 (by decide) (by decide)


theorem fatVal_moved (fs fs1 : FATFS) (hok : fs.fatOk) (hm : fs.moved fs1) (d : Nat)
    (hd : d < fs.n_fatent) : fatVal fs1 d = fatVal fs d := by
  obtain ⟨m1, -⟩ := meta_fields fs fs1 hm.2.1
  have hent := hok.entries
  have hfit := hok.fits
  unfold fatVal
  rw [m1]
  unfold fatBytes at hfit
  by_cases h12 : fs.fs_type = FS_FAT12
  · rw [if_pos h12] at hfit
    rw [if_pos h12, if_pos h12, fbyte_moved fs fs1 hok hm _ (show d + d / 2 < _ by omega),
      fbyte_moved fs fs1 hok hm _ (show d + d / 2 + 1 < _ by omega)]
  · rw [if_neg h12, if_neg h12]
    rw [if_neg h12] at hfit
    by_cases h16 : fs.fs_type = FS_FAT16
    · rw [if_pos h16] at hfit
      rw [if_pos h16, if_pos h16, fbyte_moved fs fs1 hok hm _ (show d * 2 < _ by omega),
        fbyte_moved fs fs1 hok hm _ (show d * 2 + 1 < _ by omega)]
    · rw [if_neg h16] at hfit
      rw [if_neg h16, if_neg h16, fbyte_moved fs fs1 hok hm _ (show d * 4 < _ by omega),
        fbyte_moved fs fs1 hok hm _ (show d * 4 + 1 < _ by omega),
        fbyte_moved fs fs1 hok hm _ (show d * 4 + 2 < _ by omega),
        fbyte_moved fs fs1 hok hm _ (show d * 4 + 3 < _ by omega)]

theorem fatVal_le (fs : FATFS) (hbo : fs.bytesOk) (d : Nat) : fatVal fs d ≤ 0x0FFFFFFF := by
  have hlt := fbyte_lt fs hbo
  unfold fatVal
  split_ifs
  · rw [or_shl8 _ _ (hlt _), Nat.shiftRight_eq_div_pow]
    have a := hlt (d + d / 2)
    have b := hlt (d + d / 2 + 1)
    norm_num
    omega
  · rw [or_shl8 _ _ (hlt _), and_FFF]
    omega
  · have a := hlt (d * 2)
    have b := hlt (d * 2 + 1)
    omega
  · rw [and_0FFFFFFF]
    omega

/-- `get_fat` on an in-range cluster of a well-formed volume returns the
entry and leaves a well-formed volume with the same fields and entries. -/
theorem get_fat_ok (fs : FATFS) (hok : fs.fatOk) (hbo : fs.bytesOk) (c : Nat) (h2 : 2 ≤ c)
    (hc : c < fs.n_fatent) :
    (get_fat fs c).2 = fatVal fs c ∧ (get_fat fs c).1.fatOk ∧ (get_fat fs c).1.bytesOk ∧
    (get_fat fs c).1.meta = fs.meta ∧
    ∀ d, d < fs.n_fatent → fatVal (get_fat fs c).1 d = fatVal fs d := by
  obtain ⟨g1, g2⟩ := get_fat_spec fs hok c h2 hc
  exact ⟨g1, fatOk_of_meta fs _ hok g2.1 g2.2.1, g2.2.2.1 hbo, g2.2.1,
    fun d hd => fatVal_moved fs _ hok g2 d hd⟩

/-- `put_fat` on an in-range cluster of a well-formed volume succeeds, sets
that entry and leaves a well-formed volume with the same fields and the same
other entries. -/
theorem put_fat_ok (fs : FATFS) (hok : fs.fatOk) (hbo : fs.bytesOk) (c v : Nat) (h2 : 2 ≤ c)
    (hc : c < fs.n_fatent) :
    (put_fat fs c v).2 = FR_OK ∧ (put_fat fs c v).1.fatOk ∧ (put_fat fs c v).1.bytesOk ∧
    (put_fat fs c v).1.meta = fs.meta ∧
    fatVal (put_fat fs c v).1 c = (if fs.fs_type = FS_FAT12 then v &&& 0xFFF
      else if fs.fs_type = FS_FAT16 then v &&& 0xFFFF else v &&& 0x0FFFFFFF) ∧
    ∀ d, d < fs.n_fatent → d ≠ c → fatVal (put_fat fs c v).1 d = fatVal fs d := by
  obtain ⟨p1, p2, p3, p4, -⟩ := put_fat_spec fs hok c v h2 hc
  exact ⟨p1, p2, p4 hbo, p3, fatVal_put_same fs hok c v h2 hc,
    fun d hd hne => fatVal_put_other fs hok hbo c v h2 hc d hd hne⟩

theorem hints_ok (fs : FATFS) (hok : fs.fatOk) (hbo : fs.bytesOk) (a b f : Nat) :
    FATFS.fatOk { fs with last_clust := a, free_clust := b, fsi_flag := f } ∧
    FATFS.bytesOk { fs with last_clust := a, free_clust := b, fsi_flag := f } ∧
    ∀ d, fatVal { fs with last_clust := a, free_clust := b, fsi_flag := f } d = fatVal fs d :=
  ⟨⟨⟨hok.good.writable, hok.good.faithful, hok.good.fats, hok.good.nowrap, hok.good.winsect_lt,
      hok.good.coherent⟩, hok.subtype, hok.ssize_pos, hok.ssize_mul, hok.entries, hok.fits⟩,
    hbo, fun _ => rfl⟩

theorem create_chain_scan_spec (fs : FATFS) (scl : Nat) (hok : fs.fatOk) (hs1 : 1 ≤ scl)
    (hs2 : scl = 1 ∨ scl < fs.n_fatent) :
    ∀ (fuel ncl : Nat) (fs1 : FATFS), fs1.fatOk → fs1.bytesOk → fs1.meta = fs.meta →
      (∀ d, d < fs.n_fatent → fatVal fs1 d = fatVal fs d) →
      1 ≤ ncl → (ncl < fs.n_fatent ∨ ncl = scl) →
      (scl ≤ ncl → 2 ≤ scl → fs.n_fatent - 1 - ncl + (scl - 1) ≤ fuel) →
      (scl ≤ ncl → scl < 2 → fs.n_fatent - 1 - ncl + 1 ≤ fuel) →
      (ncl < scl → scl - ncl ≤ fuel) →
      ∃ fs2 r, create_chain_scan scl fuel fs1 ncl = some (fs2, r) ∧ fs2.fatOk ∧ fs2.bytesOk ∧
        fs2.meta = fs.meta ∧ (∀ d, d < fs.n_fatent → fatVal fs2 d = fatVal fs d) ∧
        ((∃ n, r = Sum.inr n ∧ 2 ≤ n ∧ n < fs.n_fatent ∧ fatVal fs n = 0 ∧
            ((scl ≤ ncl ∧ (ncl < n ∨ n ≤ scl)) ∨ (ncl < scl ∧ ncl < n ∧ n ≤ scl))) ∨
         (r = Sum.inl 0 ∧ ∀ d, 2 ≤ d → d < fs.n_fatent →
            ((scl ≤ ncl ∧ (ncl < d ∨ d ≤ scl)) ∨ (ncl < scl ∧ ncl < d ∧ d ≤ scl)) →
            fatVal fs d ≠ 0) ∨
         (r = Sum.inl 1 ∧ ∃ d, 2 ≤ d ∧ d < fs.n_fatent ∧ fatVal fs d = 1)) := by
  have hent := hok.entries
  intro fuel
  induction fuel with
  | zero =>
    intro ncl fs1 _ _ _ _ h1 h2 r1 r2 r3
    exfalso
    omega
  | succ fuel ih =>
    intro ncl fs1 hok1 hbo1 hm1 hv1 h1 h2 r1 r2 r3
    obtain ⟨-, -, -, m4, -⟩ := meta_fields fs fs1 hm1
    have hadd : add32 ncl 1 = ncl + 1 := by unfold add32; exact Nat.mod_eq_of_lt (by omega)
    rw [create_chain_scan]
    simp only [hadd, m4]
    by_cases hA : ncl + 1 ≥ fs.n_fatent ∧ 2 > scl
    · rw [if_pos hA]
      refine ⟨fs1, Sum.inl 0, rfl, hok1, hbo1, hm1, hv1, Or.inr (Or.inl ⟨rfl, ?_⟩)⟩
      intro d hd2 hd hU
      omega
    · rw [if_neg hA]
      obtain ⟨n2, hn2⟩ : ∃ n2, n2 = if ncl + 1 ≥ fs.n_fatent then 2 else ncl + 1 := ⟨_, rfl⟩
      rw [← hn2]
      have hn2a : 2 ≤ n2 := by rw [hn2]; split_ifs <;> omega
      have hn2b : n2 < fs.n_fatent := by rw [hn2]; split_ifs <;> omega
      have hn2c : (ncl + 1 ≥ fs.n_fatent ∧ n2 = 2) ∨ (ncl + 1 < fs.n_fatent ∧ n2 = ncl + 1) := by
        rw [hn2]; split_ifs <;> omega
      obtain ⟨g1, g2, g3, g4, g5⟩ := get_fat_ok fs1 hok1 hbo1 n2 hn2a (by rw [m4]; exact hn2b)
      rw [m4] at g5
      have hcs : (get_fat fs1 n2).2 = fatVal fs n2 := by rw [g1, hv1 n2 hn2b]
      have hle := fatVal_le fs1 hbo1 n2
      rw [hv1 n2 hn2b] at hle
      have hv2 : ∀ d, d < fs.n_fatent → fatVal (get_fat fs1 n2).1 d = fatVal fs d :=
        fun d hd => by rw [g5 d hd, hv1 d hd]
      rw [hcs]
      by_cases hz : fatVal fs n2 = 0
      · rw [if_pos hz]
        refine ⟨_, _, rfl, g2, g3, g4.trans hm1, hv2, Or.inl ⟨n2, rfl, hn2a, hn2b, hz, ?_⟩⟩
        omega
      · rw [if_neg hz]
        by_cases he : fatVal fs n2 = 0xFFFFFFFF ∨ fatVal fs n2 = 1
        · rw [if_pos he]
          have h1v : fatVal fs n2 = 1 := by omega
          rw [h1v]
          exact ⟨_, _, rfl, g2, g3, g4.trans hm1, hv2, Or.inr (Or.inr ⟨rfl, n2, hn2a, hn2b, h1v⟩)⟩
        · rw [if_neg he]
          by_cases hsc : n2 = scl
          · rw [if_pos hsc]
            refine ⟨_, _, rfl, g2, g3, g4.trans hm1, hv2, Or.inr (Or.inl ⟨rfl, ?_⟩)⟩
            intro d hd2 hd hU
            have : d = n2 := by omega
            rw [this]; exact hz
          · rw [if_neg hsc]
            obtain ⟨fs2, r, e1, e2, e3, e4, e5, e6⟩ := ih n2 (get_fat fs1 n2).1 g2 g3 (g4.trans hm1)
              hv2 (by omega) (Or.inl hn2b) (by omega) (by omega) (by omega)
            refine ⟨fs2, r, e1, e2, e3, e4, e5, ?_⟩
            rcases e6 with ⟨n, q1, q2, q3, q4, q5⟩ | ⟨q1, q2⟩ | ⟨q1, q2⟩
            · exact Or.inl ⟨n, q1, q2, q3, q4, by omega⟩
            · refine Or.inr (Or.inl ⟨q1, fun d hd2 hd hU => ?_⟩)
              by_cases hdn : d = n2
              · rw [hdn]; exact hz
              · exact q2 d hd2 hd (by omega)
            · exact Or.inr (Or.inr ⟨q1, q2⟩)


theorem allocHints_meta (fs p : FATFS) (n : Nat) (hm : p.meta = fs.meta) :
    FATFS.meta (if p.free_clust ≠ 0xFFFFFFFF then
        { p with last_clust := n, free_clust := sub32 p.free_clust 1, fsi_flag := p.fsi_flag ||| 1 }
      else { p with last_clust := n }) = (allocHints fs n).meta := by
  simp only [FATFS.meta, Prod.mk.injEq] at hm
  obtain ⟨h1, h2, h3, h4, h5, h6, h7, h8, h9, h10, h11, h12, h13, h14, h15, h16, h17, h18⟩ := hm
  unfold allocHints
  rw [h12]
  by_cases hf : fs.free_clust ≠ 0xFFFFFFFF
  · rw [if_pos hf, if_pos hf, if_pos hf]
    simp only [FATFS.meta, h1, h2, h3, h4, h5, h6, h7, h8, h9, h10, h11, h12, h13, h14, h15, h16,
      h17, h18]
  · rw [if_neg hf, if_neg hf, if_neg hf]
    simp only [FATFS.meta, h1, h2, h3, h4, h5, h6, h7, h8, h9, h10, h11, h12, h13, h14, h15, h16,
      h17, h18]

theorem create_chain_tail (fs fs2 : FATFS) (clst n : Nat) (hok2 : fs2.fatOk) (hbo2 : fs2.bytesOk)
    (hm : fs2.meta = fs.meta) (hcl : clst = 0 ∨ (2 ≤ clst ∧ clst < fs.n_fatent)) (hn2 : 2 ≤ n)
    (hn : n < fs.n_fatent) (hne : n ≠ clst) :
    ∃ fs3, (let p := put_fat fs2 n 0x0FFFFFFF
      let p := if p.2 = FR_OK ∧ clst ≠ 0 then put_fat p.1 clst n else p
      if p.2 = FR_OK then
        let fs2 : FATFS := { p.1 with last_clust := n }
        let fs2 : FATFS := if fs2.free_clust ≠ 0xFFFFFFFF then
            { fs2 with free_clust := sub32 fs2.free_clust 1, fsi_flag := fs2.fsi_flag ||| 1 }
          else fs2
        some (fs2, n)
      else some (p.1, if p.2 = FR_DISK_ERR then 0xFFFFFFFF else 1)) = some (fs3, n) ∧
      fs3.fatOk ∧ fs3.bytesOk ∧ fs3.meta = (allocHints fs n).meta ∧
      fatVal fs3 n = fatMask fs 0x0FFFFFFF ∧ (clst ≠ 0 → fatVal fs3 clst = fatMask fs n) ∧
      ∀ d, d < fs.n_fatent → d ≠ n → d ≠ clst → fatVal fs3 d = fatVal fs2 d := by
  obtain ⟨m1, -, -, m4, -⟩ := meta_fields fs fs2 hm
  obtain ⟨p1, p2, p3, p4, p5, p6⟩ := put_fat_ok fs2 hok2 hbo2 n 0x0FFFFFFF hn2 (by rw [m4]; exact hn)
  rw [m1] at p5
  rw [m4] at p6
  obtain ⟨q, hq⟩ : ∃ q, q = (if (put_fat fs2 n 0x0FFFFFFF).2 = FR_OK ∧ clst ≠ 0 then
      put_fat (put_fat fs2 n 0x0FFFFFFF).1 clst n else put_fat fs2 n 0x0FFFFFFF) := ⟨_, rfl⟩
  have hq' : q.2 = FR_OK ∧ q.1.fatOk ∧ q.1.bytesOk ∧ q.1.meta = fs.meta ∧
      fatVal q.1 n = fatMask fs 0x0FFFFFFF ∧ (clst ≠ 0 → fatVal q.1 clst = fatMask fs n) ∧
      ∀ d, d < fs.n_fatent → d ≠ n → d ≠ clst → fatVal q.1 d = fatVal fs2 d := by
    by_cases h0 : clst = 0
    · rw [if_neg (by simp [h0])] at hq
      rw [hq]
      exact ⟨p1, p2, p3, p4.trans hm, p5, fun h => absurd h0 h, fun d hd h1 _ => p6 d hd h1⟩
    · rw [if_pos ⟨p1, h0⟩] at hq
      obtain ⟨k1, -, -, k4, -⟩ := meta_fields fs2 _ p4
      have hc : 2 ≤ clst ∧ clst < fs.n_fatent := by omega
      obtain ⟨r1, r2, r3, r4, r5, r6⟩ := put_fat_ok _ p2 p3 clst n hc.1
        (by rw [k4, m4]; exact hc.2)
      rw [k1, m1] at r5
      rw [k4, m4] at r6
      rw [hq]
      refine ⟨r1, r2, r3, (r4.trans p4).trans hm, ?_, fun _ => r5, fun d hd h1 h2 => ?_⟩
      · rw [r6 n hn hne]; exact p5
      · rw [r6 d hd h2]; exact p6 d hd h1
  obtain ⟨q1, q2, q3, q4, q5, q6, q7⟩ := hq'
  obtain ⟨x1, x2, x3⟩ := hints_ok q.1 q2 q3 n (sub32 q.1.free_clust 1) (q.1.fsi_flag ||| 1)
  obtain ⟨y1, y2, y3⟩ := hints_ok q.1 q2 q3 n q.1.free_clust q.1.fsi_flag
  refine ⟨if q.1.free_clust ≠ 0xFFFFFFFF then
        { q.1 with last_clust := n, free_clust := sub32 q.1.free_clust 1, fsi_flag := q.1.fsi_flag ||| 1 }
      else { q.1 with last_clust := n }, ?_, ?_, ?_, allocHints_meta fs q.1 n q4, ?_, ?_, ?_⟩
  · simp only []
    rw [← hq, if_pos q1]
  · split_ifs
    · exact x1
    · exact y1
  · split_ifs
    · exact x2
    · exact y2
  · split_ifs
    · rw [x3]; exact q5
    · rw [y3]; exact q5
  · intro h
    split_ifs
    · rw [x3]; exact q6 h
    · rw [y3]; exact q6 h
  · intro d hd h1 h2
    split_ifs
    · rw [x3]; exact q7 d hd h1 h2
    · rw [y3]; exact q7 d hd h1 h2

theorem create_chain_spec (fs : FATFS) (hok : fs.fatOk) (hbo : fs.bytesOk) (clst : Nat)
    (hcl : clst = 0 ∨ (2 ≤ clst ∧ clst < fs.n_fatent)) :
    ∃ fs1 r, create_chain fs clst = some (fs1, r) ∧ fs1.fatOk ∧ fs1.bytesOk ∧
      ((clst ≠ 0 ∧ fatVal fs clst < fs.n_fatent ∧
          r = (if fatVal fs clst < 2 then 1 else fatVal fs clst) ∧ fs1.meta = fs.meta ∧
          ∀ d, d < fs.n_fatent → fatVal fs1 d = fatVal fs d) ∨
       ((clst = 0 ∨ fs.n_fatent ≤ fatVal fs clst) ∧
         ((r = 0 ∧ (∀ d, 2 ≤ d → d < fs.n_fatent → fatVal fs d ≠ 0) ∧ fs1.meta = fs.meta ∧
             ∀ d, d < fs.n_fatent → fatVal fs1 d = fatVal fs d) ∨
          (r = 1 ∧ (∃ d, 2 ≤ d ∧ d < fs.n_fatent ∧ fatVal fs d = 1) ∧ fs1.meta = fs.meta ∧
             ∀ d, d < fs.n_fatent → fatVal fs1 d = fatVal fs d) ∨
          (2 ≤ r ∧ r < fs.n_fatent ∧ fatVal fs r = 0 ∧ fs1.meta = (allocHints fs r).meta ∧
             fatVal fs1 r = fatMask fs 0x0FFFFFFF ∧ (clst ≠ 0 → fatVal fs1 clst = fatMask fs r) ∧
             ∀ d, d < fs.n_fatent → d ≠ r → d ≠ clst → fatVal fs1 d = fatVal fs d)))) := by
  have key : ∀ (fs0 : FATFS) (scl : Nat), fs0.fatOk → fs0.bytesOk → fs0.meta = fs.meta →
      (∀ d, d < fs.n_fatent → fatVal fs0 d = fatVal fs d) → 1 ≤ scl →
      (scl = 1 ∨ scl < fs.n_fatent) → (clst ≠ 0 → scl = clst ∧ fs.n_fatent ≤ fatVal fs clst) →
      ∃ fs1 r, (match create_chain_scan scl (fs.n_fatent + 1) fs0 scl with
        | none => none
        | some (fs1, .inl v) => some (fs1, v)
        | some (fs1, .inr ncl) =>
          let p := put_fat fs1 ncl 0x0FFFFFFF
          let p := if p.2 = FR_OK ∧ clst ≠ 0 then put_fat p.1 clst ncl else p
          if p.2 = FR_OK then
            let fs2 : FATFS := { p.1 with last_clust := ncl }
            let fs2 : FATFS := if fs2.free_clust ≠ 0xFFFFFFFF then
                { fs2 with free_clust := sub32 fs2.free_clust 1, fsi_flag := fs2.fsi_flag ||| 1 }
              else fs2
            some (fs2, ncl)
          else some (p.1, if p.2 = FR_DISK_ERR then 0xFFFFFFFF else 1)) = some (fs1, r) ∧
        fs1.fatOk ∧ fs1.bytesOk ∧
         ((r = 0 ∧ (∀ d, 2 ≤ d → d < fs.n_fatent → fatVal fs d ≠ 0) ∧ fs1.meta = fs.meta ∧
             ∀ d, d < fs.n_fatent → fatVal fs1 d = fatVal fs d) ∨
          (r = 1 ∧ (∃ d, 2 ≤ d ∧ d < fs.n_fatent ∧ fatVal fs d = 1) ∧ fs1.meta = fs.meta ∧
             ∀ d, d < fs.n_fatent → fatVal fs1 d = fatVal fs d) ∨
          (2 ≤ r ∧ r < fs.n_fatent ∧ fatVal fs r = 0 ∧ fs1.meta = (allocHints fs r).meta ∧
             fatVal fs1 r = fatMask fs 0x0FFFFFFF ∧ (clst ≠ 0 → fatVal fs1 clst = fatMask fs r) ∧
             ∀ d, d < fs.n_fatent → d ≠ r → d ≠ clst → fatVal fs1 d = fatVal fs d)) := by
    intro fs0 scl hok0 hbo0 hm0 hv0 hs1 hs2 hsc
    obtain ⟨fs2, r, e1, e2, e3, e4, e5, e6⟩ := create_chain_scan_spec fs scl hok hs1 hs2
      (fs.n_fatent + 1) scl fs0 hok0 hbo0 hm0 hv0 hs1 (by omega) (by omega) (by omega) (by omega)
    rw [e1]
    rcases e6 with ⟨n, q1, q2, q3, q4, -⟩ | ⟨q1, q2⟩ | ⟨q1, q2⟩
    · subst q1
      have hne : n ≠ clst := by
        intro h
        by_cases h0 : clst = 0
        · omega
        · have := (hsc h0).2
          rw [← h, q4] at this
          omega
      obtain ⟨fs3, t1, t2, t3, t4, t5, t6, t7⟩ := create_chain_tail fs fs2 clst n e2 e3 e4 hcl q2 q3 hne
      refine ⟨fs3, n, t1, t2, t3, Or.inr (Or.inr ⟨q2, q3, q4, t4, t5, t6, fun d hd h1 h2 => ?_⟩)⟩
      rw [t7 d hd h1 h2, e5 d hd]
    · subst q1
      exact ⟨fs2, 0, rfl, e2, e3, Or.inl ⟨rfl, fun d hd2 hd => q2 d hd2 hd (by omega), e4, e5⟩⟩
    · subst q1
      exact ⟨fs2, 1, rfl, e2, e3, Or.inr (Or.inl ⟨rfl, q2, e4, e5⟩)⟩
  unfold create_chain
  by_cases h0 : clst = 0
  · simp only [if_pos h0]
    obtain ⟨fs1, r, k1, k2, k3, k4⟩ := key fs (if fs.last_clust = 0 ∨ fs.last_clust ≥ fs.n_fatent
      then 1 else fs.last_clust) hok hbo rfl (fun _ _ => rfl) (by split_ifs <;> omega)
      (by split_ifs <;> omega) (fun h => absurd h0 h)
    exact ⟨fs1, r, k1, k2, k3, Or.inr ⟨Or.inl h0, k4⟩⟩
  · have hc : 2 ≤ clst ∧ clst < fs.n_fatent := by omega
    obtain ⟨g1, g2, g3, g4, g5⟩ := get_fat_ok fs hok hbo clst hc.1 hc.2
    have hle := fatVal_le fs hbo clst
    simp only [if_neg h0, g1]
    by_cases hA : fatVal fs clst < 2
    · rw [if_pos hA]
      exact ⟨_, 1, rfl, g2, g3, Or.inl ⟨h0, by omega, by rw [if_pos hA], g4, g5⟩⟩
    · rw [if_neg hA, if_neg (by omega)]
      by_cases hB : fatVal fs clst < fs.n_fatent
      · rw [if_pos hB]
        exact ⟨_, _, rfl, g2, g3, Or.inl ⟨h0, hB, by rw [if_neg hA], g4, g5⟩⟩
      · rw [if_neg hB]
        obtain ⟨fs1, r, k1, k2, k3, k4⟩ := key (get_fat fs clst).1 clst g2 g3 g4 g5 (by omega)
          (Or.inr hc.2) (fun _ => ⟨rfl, by omega⟩)
        exact ⟨fs1, r, k1, k2, k3, Or.inr ⟨Or.inr (by omega), k4⟩⟩


theorem get_fat_val (fs : FATFS) (hok : fs.fatOk) (d : Nat) :
    (get_fat fs d).2 = if d < 2 ∨ d ≥ fs.n_fatent then 1 else fatVal fs d := by
  by_cases h : d < 2 ∨ d ≥ fs.n_fatent
  · rw [if_pos h]
    unfold get_fat
    rw [if_pos h]
  · rw [if_neg h]
    exact (get_fat_spec fs hok d (by omega) (by omega)).1

theorem fatMask_small (fs : FATFS) (hok : fs.fatOk)
    (hmax : (fs.fs_type = FS_FAT12 → fs.n_fatent ≤ 0xFFF) ∧
      (fs.fs_type = FS_FAT16 → fs.n_fatent ≤ 0xFFFF) ∧
      (fs.fs_type = FS_FAT32 → fs.n_fatent ≤ 0x0FFFFFFF)) (n : Nat) (hn : n < fs.n_fatent) :
    fatMask fs n = n := by
  unfold fatMask
  rcases hok.subtype with h | h | h
  · have := hmax.1 h
    rw [if_pos h, and_FFF]; omega
  · have := hmax.2.1 h
    rw [if_neg (by rw [h]; decide), if_pos h, and_FFFF]; omega
  · have := hmax.2.2 h
    rw [if_neg (by rw [h]; decide), if_neg (by rw [h]; decide), and_0FFFFFFF]; omega

theorem fatMask_eoc (fs : FATFS)
    (hmax : (fs.fs_type = FS_FAT12 → fs.n_fatent ≤ 0xFFF) ∧
      (fs.fs_type = FS_FAT16 → fs.n_fatent ≤ 0xFFFF) ∧
      (fs.fs_type = FS_FAT32 → fs.n_fatent ≤ 0x0FFFFFFF)) (hok : fs.fatOk) :
    fs.n_fatent ≤ fatMask fs 0x0FFFFFFF := by
  unfold fatMask
  rcases hok.subtype with h | h | h
  · rw [if_pos h]; exact hmax.1 h
  · rw [if_neg (by rw [h]; decide), if_pos h]; exact hmax.2.1 h
  · rw [if_neg (by rw [h]; decide), if_neg (by rw [h]; decide)]; exact hmax.2.2 h

theorem bytes_lt (l : List Nat) (h : ∀ x ∈ l, x < 256) (k : Nat) : bytes l k < 256 := by
  unfold bytes
  rw [List.getD_eq_getElem?_getD]
  cases hk : l[k]? with
  | none => simp
  | some x =>
    simp only [Option.getD_some]
    exact h x (List.getElem?_mem hk)

theorem oneFreeVol_ok (lc : Nat) : (oneFreeVol lc).fatOk ∧ (oneFreeVol lc).bytesOk := by
  refine ⟨⟨⟨rfl, ⟨fun _ => rfl, fun _ => rfl⟩, (by decide : 1 ≤ 1),
        (by decide : 1 + 1 * 1 ≤ 4294967296), (by decide : 0xFFFFFFFF < 4294967296),
        fun _ _ => rfl⟩,
      Or.inl rfl, (by decide : 0 < 512), (by decide : 512 % 4 = 0),
      (by decide : 4 ≤ 1073741824), (by decide : (4 * 3 + 1) / 2 ≤ 1 * 512)⟩,
    fun _ => (by decide : (0 : Nat) < 256), fun s k => ?_⟩
  show (if s = 1 then bytes [0xF8, 0xFF, 0xFF, 0xFF, 0x0F, 0x00] else fun _ => 0) k < 256
  split_ifs
  · exact bytes_lt _ (by decide) k
  · exact (by decide : (0 : Nat) < 256)

/-- C26: on a well-formed writable volume on a faithful device whose
`n_fatent` does not exceed the end-of-chain value of its FAT width,
`create_chain(fs, clst)` returns. When `clst` is 0 or its entry is an
end-of-chain value and the result `n` is at least 2, then `n` is an in-range
cluster whose entry was 0, afterwards `get_fat(n)` is at least `n_fatent`,
`get_fat(clst) = n` when `clst` is not 0, `last_clust = n`, a known
`free_clust` is one less (in 32-bit arithmetic) with bit 0 of `fsi_flag`
set, and no other FAT entry has changed. When `clst` is followed by a
cluster, that successor is returned and no FAT entry and no hint changes. -/
theorem C26_create_chain_post (fs : FATFS) (hok : fs.fatOk) (hbo : fs.bytesOk) (clst : Nat)
    (hcl : clst = 0 ∨ (2 ≤ clst ∧ clst < fs.n_fatent))
    (hmax : (fs.fs_type = FS_FAT12 → fs.n_fatent ≤ 0xFFF) ∧
      (fs.fs_type = FS_FAT16 → fs.n_fatent ≤ 0xFFFF) ∧
      (fs.fs_type = FS_FAT32 → fs.n_fatent ≤ 0x0FFFFFFF)) :
    ∃ fs1 n, create_chain fs clst = some (fs1, n) ∧
      ((clst = 0 ∨ fs.n_fatent ≤ (get_fat fs clst).2) → 2 ≤ n →
        n < fs.n_fatent ∧ (get_fat fs n).2 = 0 ∧ fs.n_fatent ≤ (get_fat fs1 n).2 ∧
        (clst ≠ 0 → (get_fat fs1 clst).2 = n) ∧ fs1.last_clust = n ∧
        (fs.free_clust ≠ 0xFFFFFFFF →
          fs1.free_clust = sub32 fs.free_clust 1 ∧ fs1.fsi_flag = fs.fsi_flag ||| 1) ∧
        ∀ d, d ≠ n → d ≠ clst → (get_fat fs1 d).2 = (get_fat fs d).2) ∧
      (clst ≠ 0 → 2 ≤ (get_fat fs clst).2 → (get_fat fs clst).2 < fs.n_fatent →
        n = (get_fat fs clst).2 ∧ (∀ d, (get_fat fs1 d).2 = (get_fat fs d).2) ∧
        fs1.last_clust = fs.last_clust ∧ fs1.free_clust = fs.free_clust ∧
        fs1.fsi_flag = fs.fsi_flag) := by
  have hin : clst ≠ 0 → ¬ (clst < 2 ∨ clst ≥ fs.n_fatent) := by omega
  obtain ⟨fs1, r, e1, e2, e3, e4⟩ := create_chain_spec fs hok hbo clst hcl
  refine ⟨fs1, r, e1, ?_, ?_⟩
  · intro hA hr
    have hcs : clst = 0 ∨ fs.n_fatent ≤ fatVal fs clst := by
      rcases hA with h | h
      · exact Or.inl h
      · rw [get_fat_val fs hok clst] at h
        split_ifs at h with hc
        · omega
        · exact Or.inr h
    rcases e4 with ⟨h0, h1, -⟩ | ⟨-, h⟩
    · omega
    · rcases h with ⟨h, -⟩ | ⟨h, -⟩ | ⟨a1, a2, a3, a4, a5, a6, a7⟩
      · omega
      · omega
      · obtain ⟨m1, -, -, m4, -, -, m7, m8, m9, -⟩ := meta_fields _ fs1 a4
        have hN : fs1.n_fatent = fs.n_fatent := m4
        refine ⟨a2, ?_, ?_, ?_, m7, ?_, ?_⟩
        · rw [get_fat_val fs hok r, if_neg (by omega)]; exact a3
        · rw [get_fat_val fs1 e2 r, hN, if_neg (by omega), a5]
          exact fatMask_eoc fs hmax hok
        · intro hc
          rw [get_fat_val fs1 e2 clst, hN, if_neg (by omega), a6 hc]
          exact fatMask_small fs hok hmax r a2
        · intro hf
          rw [m8, m9]
          unfold allocHints
          simp only [if_pos hf, and_self]
        · intro d hd1 hd2
          rw [get_fat_val fs1 e2 d, get_fat_val fs hok d, hN]
          split_ifs with hd
          · rfl
          · exact a7 d (by omega) hd1 hd2
  · intro h0 h1 h2
    rw [get_fat_val fs hok clst, if_neg (hin h0)] at h1 h2
    rcases e4 with ⟨-, b1, b2, b3, b4⟩ | ⟨h, -⟩
    · obtain ⟨-, -, -, m4, -, -, m7, m8, m9, -⟩ := meta_fields fs fs1 b3
      rw [if_neg (by omega)] at b2
      refine ⟨?_, fun d => ?_, m7, m8, m9⟩
      · rw [get_fat_val fs hok clst, if_neg (hin h0)]; exact b2
      · rw [get_fat_val fs1 e2 d, get_fat_val fs hok d, m4]
        split_ifs with hd
        · rfl
        · exact b4 d (by omega)
    · omega


theorem C26_create_chain_post_witness :
    ∃ fs1 n, create_chain (oneFreeVol 0) 2 = some (fs1, n) ∧
      ((2 = 0 ∨ (oneFreeVol 0).n_fatent ≤ (get_fat (oneFreeVol 0) 2).2) → 2 ≤ n →
        n < (oneFreeVol 0).n_fatent ∧ (get_fat (oneFreeVol 0) n).2 = 0 ∧
        (oneFreeVol 0).n_fatent ≤ (get_fat fs1 n).2 ∧
        (2 ≠ 0 → (get_fat fs1 2).2 = n) ∧ fs1.last_clust = n ∧
        ((oneFreeVol 0).free_clust ≠ 0xFFFFFFFF →
          fs1.free_clust = sub32 (oneFreeVol 0).free_clust 1 ∧
          fs1.fsi_flag = (oneFreeVol 0).fsi_flag ||| 1) ∧
        ∀ d, d ≠ n → d ≠ 2 → (get_fat fs1 d).2 = (get_fat (oneFreeVol 0) d).2) ∧
      (2 ≠ 0 → 2 ≤ (get_fat (oneFreeVol 0) 2).2 →
        (get_fat (oneFreeVol 0) 2).2 < (oneFreeVol 0).n_fatent →
        n = (get_fat (oneFreeVol 0) 2).2 ∧
        (∀ d, (get_fat fs1 d).2 = (get_fat (oneFreeVol 0) d).2) ∧
        fs1.last_clust = (oneFreeVol 0).last_clust ∧ fs1.free_clust = (oneFreeVol 0).free_clust ∧
        fs1.fsi_flag = (oneFreeVol 0).fsi_flag) :=
  C26_create_chain_post (oneFreeVol 0) (oneFreeVol_ok 0).1 (oneFreeVol_ok 0).2 2
    (Or.inr ⟨by decide, by decide⟩) ⟨fun _ => by decide, fun h => absurd h (by decide),
      fun h => absurd h (by decide)⟩

/-- C27, the claim fails on a volume of minimal size: with cluster 3 the only
free cluster of a two-cluster volume, `create_chain(fs, 0)` returns 3 for
every value of the `last_clust` hint, and so does `create_chain(fs, 2)` on
the end-of-chain cluster 2. -/
theorem C27_counterexample :
    (get_fat (oneFreeVol 0) 2).2 = 0xFFF ∧ (get_fat (oneFreeVol 0) 3).2 = 0 ∧
    (∀ lc, lc < 6 → (create_chain (oneFreeVol lc) 0).map Prod.snd = some 3) ∧
    (∀ lc, lc < 6 → (create_chain (oneFreeVol lc) 2).map Prod.snd = some 3) := by
  decide

/-- C27 amended: on a well-formed writable volume on a faithful device in
which some cluster of 2..n_fatent-1 has a free entry and none of them reads
1, `create_chain(fs, clst)` with `clst = 0` or `clst` an end-of-chain cluster
returns, and what it returns is not 0 but an in-range cluster whose entry was
free. -/
theorem C27_free_cluster_found (fs : FATFS) (hok : fs.fatOk) (hbo : fs.bytesOk) (clst : Nat)
    (hcl : clst = 0 ∨ (2 ≤ clst ∧ clst < fs.n_fatent))
    (heoc : clst = 0 ∨ fs.n_fatent ≤ (get_fat fs clst).2)
    (hfree : ∃ d, 2 ≤ d ∧ d < fs.n_fatent ∧ (get_fat fs d).2 = 0)
    (hmal : ∀ d, 2 ≤ d → d < fs.n_fatent → (get_fat fs d).2 ≠ 1) :
    ∃ fs1 n, create_chain fs clst = some (fs1, n) ∧ 2 ≤ n ∧ n < fs.n_fatent ∧
      (get_fat fs n).2 = 0 := by
  have hin : clst ≠ 0 → ¬ (clst < 2 ∨ clst ≥ fs.n_fatent) := by omega
  have hgv : ∀ d, 2 ≤ d → d < fs.n_fatent → (get_fat fs d).2 = fatVal fs d := fun d h2 hd =>
    (get_fat_spec fs hok d h2 hd).1
  obtain ⟨fs1, r, e1, e2, e3, e4⟩ := create_chain_spec fs hok hbo clst hcl
  refine ⟨fs1, r, e1, ?_⟩
  rcases e4 with ⟨h0, h1, -⟩ | ⟨-, h⟩
  · exfalso
    rcases heoc with h | h
    · exact h0 h
    · rw [get_fat_val fs hok clst, if_neg (hin h0)] at h
      exact absurd h1 (Nat.not_lt.2 h)
  · rcases h with ⟨-, h, -⟩ | ⟨-, h, -⟩ | ⟨a1, a2, a3, -⟩
    · exfalso
      obtain ⟨d, d1, d2, d3⟩ := hfree
      rw [hgv d d1 d2] at d3
      exact h d d1 d2 d3
    · exfalso
      obtain ⟨d, d1, d2, d3⟩ := h
      exact hmal d d1 d2 (by rw [hgv d d1 d2]; exact d3)
    · exact ⟨a1, a2, by rw [hgv r a1 a2]; exact a3⟩

theorem C27_free_cluster_found_witness :
    ∃ fs1 n, create_chain (oneFreeVol 3) 0 = some (fs1, n) ∧ 2 ≤ n ∧ n < (oneFreeVol 3).n_fatent ∧
      (get_fat (oneFreeVol 3) n).2 = 0 :=
  C27_free_cluster_found (oneFreeVol 3) (oneFreeVol_ok 3).1 (oneFreeVol_ok 3).2 0 (Or.inl rfl)
    (Or.inl rfl) ⟨3, by decide, by decide, by decide⟩ (by decide)


theorem isChain_ne_zero (fs : FATFS) (hN : 1 ≤ fs.n_fatent) :
    ∀ l : List Nat, isChain fs l → (∀ c ∈ l, 2 ≤ c) → ∀ c ∈ l, fatVal fs c ≠ 0
  | [], _, _, c, hc => by cases hc
  | [a], h, _, c, hc => by
    have : c = a := by simpa using hc
    subst this
    have h1 : fs.n_fatent ≤ fatVal fs c := h
    omega
  | a :: b :: rest, h, h2, c, hc => by
    have h1 : fatVal fs a = b ∧ isChain fs (b :: rest) := h
    rcases List.mem_cons.1 hc with e | e
    · subst e
      have := h2 b (by simp)
      omega
    · exact isChain_ne_zero fs hN (b :: rest) h1.2 (fun x hx => h2 x (List.mem_cons_of_mem _ hx)) c e

theorem isChain_congr (fs fs1 : FATFS) (hN : fs1.n_fatent = fs.n_fatent) :
    ∀ l : List Nat, isChain fs l → (∀ c ∈ l, fatVal fs1 c = fatVal fs c) → isChain fs1 l
  | [], _, _ => trivial
  | [a], h, he => by
    have h1 : fs.n_fatent ≤ fatVal fs a := h
    show fs1.n_fatent ≤ fatVal fs1 a
    rw [hN, he a (by simp)]; exact h1
  | a :: b :: rest, h, he => by
    have h1 : fatVal fs a = b ∧ isChain fs (b :: rest) := h
    show fatVal fs1 a = b ∧ isChain fs1 (b :: rest)
    exact ⟨by rw [he a (by simp)]; exact h1.1,
      isChain_congr fs fs1 hN (b :: rest) h1.2 (fun c hc => he c (List.mem_cons_of_mem _ hc))⟩

theorem isChain_snoc (fs fs1 : FATFS) (n : Nat) (hN : fs1.n_fatent = fs.n_fatent)
    (heoc : fs1.n_fatent ≤ fatVal fs1 n) :
    ∀ l : List Nat, isChain fs l → l.Nodup →
      (∀ a, l.getLast? = some a → fatVal fs1 a = n) →
      (∀ c ∈ l, l.getLast? ≠ some c → fatVal fs1 c = fatVal fs c) → isChain fs1 (l ++ [n])
  | [], _, _, _, _ => heoc
  | [a], _, _, hl, _ => by
    show fatVal fs1 a = n ∧ fs1.n_fatent ≤ fatVal fs1 n
    exact ⟨hl a rfl, heoc⟩
  | a :: b :: rest, h, hnd, hl, ho => by
    have h1 : fatVal fs a = b ∧ isChain fs (b :: rest) := h
    have hnd2 := List.nodup_cons.1 hnd
    have hlast : (a :: b :: rest).getLast? = (b :: rest).getLast? := by
      simp [List.getLast?_cons_cons]
    show fatVal fs1 a = b ∧ isChain fs1 ((b :: rest) ++ [n])
    refine ⟨?_, isChain_snoc fs fs1 n hN heoc (b :: rest) h1.2 hnd2.2 (fun x hx => hl x (by rw [hlast]; exact hx))
      (fun c hc hne => ho c (List.mem_cons_of_mem _ hc) (by rw [hlast]; exact hne))⟩
    rw [ho a (by simp) ?_]
    · exact h1.1
    · rw [hlast]
      intro hx
      exact hnd2.1 (List.mem_of_mem_getLast? hx)

theorem free_hint_ok (fs : FATFS) (hok : fs.fatOk) (hbo : fs.bytesOk) (b f : Nat) :
    FATFS.fatOk { fs with free_clust := b, fsi_flag := f } ∧
    FATFS.bytesOk { fs with free_clust := b, fsi_flag := f } ∧
    ∀ d, fatVal { fs with free_clust := b, fsi_flag := f } d = fatVal fs d :=
  hints_ok fs hok hbo fs.last_clust b f

/-- One round of the loop of `remove_chain` on a cluster whose entry is
neither 0, 1 nor `0xFFFFFFFF`: the entry is cleared, a known `free_clust` is
incremented, and the loop goes on at the successor. -/
theorem remove_chain_loop_step (fs : FATFS) (hok : fs.fatOk) (hbo : fs.bytesOk) (c f1 : Nat)
    (h2 : 2 ≤ c) (hc : c < fs.n_fatent) (hv : 2 ≤ fatVal fs c)
    (hfree : fs.free_clust + 1 ≤ 0xFFFFFFFE) :
    ∃ fsn, remove_chain_loop (f1 + 1) fs c = remove_chain_loop f1 fsn (fatVal fs c) ∧
      fsn.fatOk ∧ fsn.bytesOk ∧ fsn.n_fatent = fs.n_fatent ∧ fsn.fs_type = fs.fs_type ∧
      fsn.free_clust = fs.free_clust + 1 ∧ fatVal fsn c = 0 ∧
      ∀ d, d < fs.n_fatent → d ≠ c → fatVal fsn d = fatVal fs d := by
  obtain ⟨g1, g2, g3, g4, g5⟩ := get_fat_ok fs hok hbo c h2 hc
  obtain ⟨m1, -, -, m4, -, -, m7, m8, m9, -⟩ := meta_fields fs _ g4
  obtain ⟨p1, p2, p3, p4, p5, p6⟩ := put_fat_ok _ g2 g3 c 0 h2 (by rw [m4]; exact hc)
  obtain ⟨k1, -, -, k4, -, -, k7, k8, k9, -⟩ := meta_fields _ _ p4
  have hle := fatVal_le fs hbo c
  have hfk : (put_fat (get_fat fs c).1 c 0).1.free_clust ≠ 0xFFFFFFFF := by
    rw [k8, m8]; omega
  obtain ⟨x1, x2, x3⟩ := free_hint_ok _ p2 p3 (add32 (put_fat (get_fat fs c).1 c 0).1.free_clust 1)
    ((put_fat (get_fat fs c).1 c 0).1.fsi_flag ||| 1)
  have hfr : add32 (put_fat (get_fat fs c).1 c 0).1.free_clust 1 = fs.free_clust + 1 := by
    rw [k8, m8]
    unfold add32
    omega
  have hz : fatVal (put_fat (get_fat fs c).1 c 0).1 c = 0 := by
    rw [p5]; split_ifs <;> rfl
  refine ⟨_, ?_, x1, x2, k4.trans m4, k1.trans m1, hfr, by rw [x3]; exact hz, fun d hd hdc => ?_⟩
  · rw [remove_chain_loop]
    simp only [g1]
    rw [if_pos hc, if_neg (by omega), if_neg (by omega), if_neg (by omega),
      if_neg (by rw [p1]; simp), if_pos hfk]
  · rw [x3, p6 d (by rw [m4]; exact hd) hdc, g5 d hd]

theorem remove_chain_loop_spec :
    ∀ (rest : List Nat) (c : Nat) (fs : FATFS) (fuel : Nat), fs.fatOk → fs.bytesOk →
      (c :: rest).Nodup → (∀ d ∈ c :: rest, 2 ≤ d ∧ d < fs.n_fatent) → isChain fs (c :: rest) →
      fs.free_clust + (rest.length + 1) ≤ 0xFFFFFFFE → rest.length + 2 ≤ fuel →
      ∃ fs2, remove_chain_loop fuel fs c = some (fs2, FR_OK) ∧ fs2.fatOk ∧ fs2.bytesOk ∧
        fs2.n_fatent = fs.n_fatent ∧ fs2.fs_type = fs.fs_type ∧
        fs2.free_clust = fs.free_clust + (rest.length + 1) ∧
        (∀ d ∈ c :: rest, fatVal fs2 d = 0) ∧
        (∀ d, d < fs.n_fatent → d ∉ c :: rest → fatVal fs2 d = fatVal fs d) := by
  intro rest
  induction rest with
  | nil =>
    intro c fs fuel hok hbo hnd hr hch hfree hfuel
    obtain ⟨f1, rfl⟩ : ∃ f1, fuel = f1 + 2 := ⟨fuel - 2, by rw [List.length_nil] at hfuel; omega⟩
    rw [List.length_nil] at hfree ⊢
    have hc := hr c (List.mem_cons_self _ _)
    have heoc : fs.n_fatent ≤ fatVal fs c := hch
    obtain ⟨fsn, s1, s2, s3, s4, s5, s6, s7, s8⟩ := remove_chain_loop_step fs hok hbo c (f1 + 1)
      hc.1 hc.2 (by omega) (by omega)
    rw [s1, remove_chain_loop, if_neg (by rw [s4]; omega)]
    refine ⟨fsn, rfl, s2, s3, s4, s5, s6, fun d hd => ?_, fun d hd hnc => ?_⟩
    · have : d = c := by simpa using hd
      rw [this]; exact s7
    · have hdc : d ≠ c := by simpa using hnc
      exact s8 d hd hdc
  | cons c2 rest ih =>
    intro c fs fuel hok hbo hnd hr hch hfree hfuel
    rw [List.length_cons] at hfree hfuel ⊢
    obtain ⟨f1, rfl⟩ : ∃ f1, fuel = f1 + 1 := ⟨fuel - 1, by omega⟩
    have hc := hr c (List.mem_cons_self _ _)
    have hc2 := hr c2 (List.mem_cons_of_mem _ (List.mem_cons_self _ _))
    have hlink : fatVal fs c = c2 ∧ isChain fs (c2 :: rest) := hch
    have hnd2 := List.nodup_cons.1 hnd
    obtain ⟨fsn, s1, s2, s3, s4, s5, s6, s7, s8⟩ := remove_chain_loop_step fs hok hbo c f1
      hc.1 hc.2 (by omega) (by omega)
    obtain ⟨fs2, e1, e2, e3, e4, e4t, e5, e6, e7⟩ := ih c2 fsn f1 s2 s3 hnd2.2
      (fun d hd => by rw [s4]; exact hr d (List.mem_cons_of_mem _ hd))
      (isChain_congr fs fsn s4 (c2 :: rest) hlink.2
        (fun d hd => s8 d (hr d (List.mem_cons_of_mem _ hd)).2 (fun h => hnd2.1 (h ▸ hd))))
      (by omega) (by omega)
    rw [s1, hlink.1, e1]
    refine ⟨fs2, rfl, e2, e3, e4.trans s4, e4t.trans s5, by omega, fun d hd => ?_,
      fun d hd hnc => ?_⟩
    · rcases List.mem_cons.1 hd with h | h
      · rw [h, e7 c (by rw [s4]; exact hc.2) hnd2.1]; exact s7
      · exact e6 d h
    · have hdc : d ≠ c := fun h => hnc (by rw [h]; exact List.mem_cons_self _ _)
      have hdr : d ∉ c2 :: rest := fun h => hnc (List.mem_cons_of_mem _ h)
      rw [e7 d (by rw [s4]; exact hd) hdr, s8 d hd hdc]


theorem isChain_last (fs : FATFS) :
    ∀ (l : List Nat) (a : Nat), isChain fs l → l.getLast? = some a → fs.n_fatent ≤ fatVal fs a
  | [], _, _, h => by cases h
  | [c], a, hc, h => by
    have : c = a := by simpa using h
    rw [← this]; exact hc
  | c :: c2 :: rest, a, hc, h => by
    have h1 : fatVal fs c = c2 ∧ isChain fs (c2 :: rest) := hc
    rw [List.getLast?_cons_cons] at h
    exact isChain_last fs (c2 :: rest) a h1.2 h

theorem stretch_chain_spec (fs : FATFS)
    (hmax : (fs.fs_type = FS_FAT12 → fs.n_fatent ≤ 0xFFF) ∧
      (fs.fs_type = FS_FAT16 → fs.n_fatent ≤ 0xFFFF) ∧
      (fs.fs_type = FS_FAT32 → fs.n_fatent ≤ 0x0FFFFFFF))
    (hF : fs.free_clust < 0xFFFFFFFF) :
    ∀ (k : Nat) (fsj : FATFS) (last : Nat) (acc : List Nat) (fs1 : FATFS) (cs : List Nat),
      fsj.fatOk → fsj.bytesOk → fsj.fs_type = fs.fs_type → fsj.n_fatent = fs.n_fatent →
      fsj.free_clust + acc.length = fs.free_clust → acc.length + k ≤ fs.free_clust →
      acc.Nodup → (∀ c ∈ acc, 2 ≤ c ∧ c < fs.n_fatent ∧ fatVal fs c = 0) → isChain fsj acc →
      (∀ d, 2 ≤ d → d < fs.n_fatent → d ∉ acc → fatVal fsj d = fatVal fs d) →
      (acc = [] → last = 0) → (∀ l, acc.getLast? = some l → last = l) →
      stretch_chain k fsj last acc = some (fs1, cs) →
      fs1.fatOk ∧ fs1.bytesOk ∧ fs1.fs_type = fs.fs_type ∧ fs1.n_fatent = fs.n_fatent ∧
      fs1.free_clust + cs.length = fs.free_clust ∧ cs.length = acc.length + k ∧ cs.Nodup ∧
      (∀ c ∈ cs, 2 ≤ c ∧ c < fs.n_fatent ∧ fatVal fs c = 0) ∧ isChain fs1 cs ∧
      (∀ d, 2 ≤ d → d < fs.n_fatent → d ∉ cs → fatVal fs1 d = fatVal fs d) := by
  intro k
  induction k with
  | zero =>
    intro fsj last acc fs1 cs a1 a2 a3 a4 a5 a6 a7 a8 a9 a10 a11 a12 h
    rw [stretch_chain] at h
    simp only [Option.some.injEq, Prod.mk.injEq] at h
    obtain ⟨h1, h2⟩ := h
    subst h1
    subst h2
    exact ⟨a1, a2, a3, a4, a5, rfl, a7, a8, a9, a10⟩
  | succ k ih =>
    intro fsj last acc fs1 cs a1 a2 a3 a4 a5 a6 a7 a8 a9 a10 a11 a12 h
    have hmaxj : (fsj.fs_type = FS_FAT12 → fsj.n_fatent ≤ 0xFFF) ∧
        (fsj.fs_type = FS_FAT16 → fsj.n_fatent ≤ 0xFFFF) ∧
        (fsj.fs_type = FS_FAT32 → fsj.n_fatent ≤ 0x0FFFFFFF) := by
      rw [a3, a4]; exact hmax
    have hlast : last = 0 ∨ (2 ≤ last ∧ last < fsj.n_fatent) := by
      cases hgl : acc.getLast? with
      | none => exact Or.inl (a11 (List.getLast?_eq_none_iff.1 hgl))
      | some l =>
        have hl := a12 l hgl
        have hm := a8 l (List.mem_of_mem_getLast? hgl)
        rw [hl, a4]
        exact Or.inr ⟨hm.1, hm.2.1⟩
    rw [stretch_chain] at h
    obtain ⟨fsx, r, e1, e2, e3, e4⟩ := create_chain_spec fsj a1 a2 last hlast
    rw [e1] at h
    simp only [] at h
    by_cases hr : r < 2 ∨ r = 0xFFFFFFFF
    · rw [if_pos hr] at h
      cases h
    · rw [if_neg hr] at h
      rcases e4 with ⟨q0, q1, -⟩ | ⟨-, ⟨q, -⟩ | ⟨q, -⟩ | ⟨b1, b2, b3, b4, b5, b6, b7⟩⟩
      · exfalso
        cases hgl : acc.getLast? with
        | none => exact q0 (a11 (List.getLast?_eq_none_iff.1 hgl))
        | some l =>
          have := isChain_last fsj acc l a9 hgl
          rw [← a12 l hgl] at this
          omega
      · exfalso
        exact hr (Or.inl (by rw [q]; decide))
      · exfalso
        exact hr (Or.inl (by rw [q]; decide))
      · have hrn : r ∉ acc := fun hm =>
          isChain_ne_zero fsj (by omega) acc a9 (fun c hc => (a8 c hc).1) r hm b3
        obtain ⟨m1, -, -, m4, -, -, m7, m8, m9, -⟩ := meta_fields (allocHints fsj r) fsx b4
        have t1 : fsx.fs_type = fsj.fs_type := m1
        have t4 : fsx.n_fatent = fsj.n_fatent := m4
        have t8 : fsx.free_clust + 1 = fsj.free_clust := by
          rw [m8]
          unfold allocHints
          simp only []
          rw [if_pos (by omega)]
          unfold sub32
          omega
        have hlen : (acc ++ [r]).length = acc.length + 1 := by simp
        have hr0 : fatVal fs r = 0 := by
          rw [← a10 r b1 (by rw [← a4]; exact b2) hrn]; exact b3
        have heoc : fsx.n_fatent ≤ fatVal fsx r := by
          rw [b5, t4]; exact fatMask_eoc fsj hmaxj a1
        have hres := ih fsx r (acc ++ [r]) fs1 cs e2 e3 (t1.trans a3) (t4.trans a4)
          (by rw [hlen]; omega) (by rw [hlen]; omega)
          (by
            rw [List.nodup_append]
            refine ⟨a7, List.nodup_singleton r, ?_⟩
            intro x hx hx2
            have : x = r := by simpa using hx2
            exact hrn (this ▸ hx))
          (by
            intro c hc
            rcases List.mem_append.1 hc with hc | hc
            · exact a8 c hc
            · have : c = r := by simpa using hc
              rw [this]
              exact ⟨b1, by rw [← a4]; exact b2, hr0⟩)
          (isChain_snoc fsj fsx r t4 heoc acc a9 a7
            (by
              intro a ha
              have hla := a12 a ha
              have hm := a8 a (List.mem_of_mem_getLast? ha)
              rw [← hla, b6 (by omega)]
              exact fatMask_small fsj a1 hmaxj r b2)
            (by
              intro c hc hne
              have hm := a8 c hc
              refine b7 c (by rw [a4]; exact hm.2.1) (fun hx => hrn (hx ▸ hc)) ?_
              intro hx
              cases hgl : acc.getLast? with
              | none => exact absurd (List.getLast?_eq_none_iff.1 hgl) (List.ne_nil_of_mem hc)
              | some l =>
                have := a12 l hgl
                exact hne (by rw [hgl, hx, this])))
          (by
            intro d hd2 hd hnd
            have h1 : d ∉ acc := fun hx => hnd (List.mem_append_left _ hx)
            have h2 : d ≠ r := fun hx => hnd (by rw [hx]; simp)
            rw [← a10 d hd2 hd h1]
            refine b7 d (by rw [a4]; exact hd) h2 ?_
            intro hx
            cases hgl : acc.getLast? with
            | none =>
              have := a11 (List.getLast?_eq_none_iff.1 hgl)
              omega
            | some l =>
              have := a12 l hgl
              exact h1 (by rw [hx, this]; exact List.mem_of_mem_getLast? hgl))
          (by intro hx; simp at hx)
          (by intro l hl; simpa using hl)
          h
        obtain ⟨r1, r2, r3, r4, r5, r6, r7, r8, r9, r10⟩ := hres
        exact ⟨r1, r2, r3, r4, r5, by rw [r6, hlen]; omega, r7, r8, r9, r10⟩


theorem nodup_length_le (l : List Nat) (N : Nat) (hnd : l.Nodup) (h : ∀ c ∈ l, c < N) :
    l.length ≤ N := by
  have hs : l ⊆ List.range N := fun c hc => List.mem_range.2 (h c hc)
  have := (List.subperm_of_subset hnd hs).length_le
  rw [List.length_range] at this
  exact this

/-- C4, the claim fails on a FAT32 volume with `0x10000000` FAT entries: the
chain of one cluster that `create_chain(fs, 0)` builds is cluster 3, marked
with `0x0FFFFFFF`, which is below `n_fatent`; `remove_chain(fs, 3)` returns
`FR_OK` but goes on to cluster `0x0FFFFFFF`, clears its entry too, and
leaves `free_clust` at 6 instead of 5. -/
theorem C4_counterexample :
    eocVol.free_clust = 5 ∧ (get_fat eocVol 0x0FFFFFFF).2 = 0x0FFFFFFF ∧
    ((build_chain eocVol 1).bind fun a =>
      (remove_chain a.1 3).map fun r =>
        (a.2, r.2, r.1.free_clust, (get_fat r.1 3).2, (get_fat r.1 0x0FFFFFFF).2)) =
      some ([3], FR_OK, 6, 0, 0) := by
  decide

/-- C4 amended: on a well-formed writable volume on a faithful device whose
`n_fatent` does not exceed the end-of-chain value of its FAT width and whose
`free_clust` hint is known and at least `k`, for the chain `first :: rest`
of `k` clusters built by `create_chain(fs, 0)` and `k - 1` stretches,
`remove_chain(fs, first)` returns `FR_OK`, the entries of the clusters of
the chain, non-zero before, are 0 afterwards, every other entry is
unchanged, so that every entry reads as before the allocation, and
`free_clust` has its value from before the allocation. -/
theorem C4_remove_chain_restores (fs : FATFS) (hok : fs.fatOk) (hbo : fs.bytesOk)
    (hmax : (fs.fs_type = FS_FAT12 → fs.n_fatent ≤ 0xFFF) ∧
      (fs.fs_type = FS_FAT16 → fs.n_fatent ≤ 0xFFFF) ∧
      (fs.fs_type = FS_FAT32 → fs.n_fatent ≤ 0x0FFFFFFF))
    (k : Nat) (hfree : fs.free_clust ≠ 0xFFFFFFFF) (h32 : fs.free_clust < 4294967296)
    (hkf : k ≤ fs.free_clust) (first : Nat) (rest : List Nat)
    (hb : (build_chain fs k).map Prod.snd = some (first :: rest)) :
    ∃ fs1 fs2, build_chain fs k = some (fs1, first :: rest) ∧ (first :: rest).length = k ∧
      remove_chain fs1 first = some (fs2, FR_OK) ∧
      (∀ d ∈ first :: rest, (get_fat fs1 d).2 ≠ 0 ∧ (get_fat fs2 d).2 = 0) ∧
      (∀ d, d ∉ first :: rest → (get_fat fs2 d).2 = (get_fat fs1 d).2) ∧
      (∀ d, (get_fat fs2 d).2 = (get_fat fs d).2) ∧ fs2.free_clust = fs.free_clust := by
  cases hbc : build_chain fs k with
  | none => rw [hbc] at hb; cases hb
  | some p =>
    obtain ⟨fs1, cs⟩ := p
    rw [hbc] at hb
    simp only [Option.map_some', Option.some.injEq] at hb
    subst hb
    unfold build_chain at hbc
    obtain ⟨r1, r2, r3, r4, r5, r6, r7, r8, r9, r10⟩ := stretch_chain_spec fs hmax (by omega) k fs 0 []
      fs1 (first :: rest) hok hbo rfl rfl (by simp) (by simpa using hkf) List.nodup_nil
      (fun c hc => by cases hc) trivial (fun _ _ _ _ => rfl) (fun _ => rfl)
      (fun l hl => by cases hl) hbc
    have hf := r8 first (List.mem_cons_self _ _)
    have hlen := nodup_length_le (first :: rest) fs.n_fatent r7 (fun c hc => (r8 c hc).2.1)
    rw [List.length_cons] at hlen r5 r6
    rw [List.length_nil] at r6
    obtain ⟨fs2, e1, e2, e3, e4, e4t, e5, e6, e7⟩ := remove_chain_loop_spec rest first fs1
      (fs1.n_fatent + 1) r1 r2 r7 (fun d hd => by rw [r4]; exact ⟨(r8 d hd).1, (r8 d hd).2.1⟩) r9
      (by omega) (by rw [r4]; omega)
    rw [r4] at e7
    have hg2 : ∀ d, (get_fat fs2 d).2 = if d < 2 ∨ d ≥ fs.n_fatent then 1 else fatVal fs2 d := by
      intro d; rw [get_fat_val fs2 e2 d, e4, r4]
    have hg1 : ∀ d, (get_fat fs1 d).2 = if d < 2 ∨ d ≥ fs.n_fatent then 1 else fatVal fs1 d := by
      intro d; rw [get_fat_val fs1 r1 d, r4]
    refine ⟨fs1, fs2, rfl, by rw [List.length_cons]; omega, ?_, ?_, ?_, ?_, by omega⟩
    · unfold remove_chain
      rw [if_neg (by rw [r4]; omega)]
      exact e1
    · intro d hd
      have hr := r8 d hd
      rw [hg1, hg2, if_neg (by omega), if_neg (by omega)]
      exact ⟨isChain_ne_zero fs1 (by omega) _ r9 (fun c hc => (r8 c hc).1) d hd, e6 d hd⟩
    · intro d hd
      rw [hg1, hg2]
      split_ifs with h
      · rfl
      · exact e7 d (by omega) hd
    · intro d
      rw [hg2, get_fat_val fs hok d]
      split_ifs with h
      · rfl
      · by_cases hd : d ∈ first :: rest
        · rw [e6 d hd, (r8 d hd).2.2]
        · rw [e7 d (by omega) hd, r10 d (by omega) (by omega) hd]

theorem C4_remove_chain_restores_witness :
    ∃ fs1 fs2, build_chain freeVol 3 = some (fs1, 2 :: [3, 4]) ∧ (2 :: [3, 4]).length = 3 ∧
      remove_chain fs1 2 = some (fs2, FR_OK) ∧
      (∀ d ∈ 2 :: [3, 4], (get_fat fs1 d).2 ≠ 0 ∧ (get_fat fs2 d).2 = 0) ∧
      (∀ d, d ∉ 2 :: [3, 4] → (get_fat fs2 d).2 = (get_fat fs1 d).2) ∧
      (∀ d, (get_fat fs2 d).2 = (get_fat freeVol d).2) ∧ fs2.free_clust = freeVol.free_clust :=
  C4_remove_chain_restores freeVol
    ⟨⟨rfl, ⟨fun _ => rfl, fun _ => rfl⟩, by decide, by decide, by decide, fun _ _ => rfl⟩,
      Or.inl rfl, by decide, by decide, by decide, by decide⟩
    ⟨fun _ => (by decide : (0 : Nat) < 256), fun _ _ => (by decide : (0 : Nat) < 256)⟩
    ⟨fun _ => by decide, fun h => absurd h (by decide), fun h => absurd h (by decide)⟩
    3 (by decide) (by decide) (by decide) 2 [3, 4] (by decide)


theorem meta_fields_root (a b : FATFS) (h : b.meta = a.meta) :
    b.fs_type = a.fs_type ∧ b.ssize = a.ssize ∧ b.n_rootdir = a.n_rootdir ∧
    b.dirbase = a.dirbase ∧ b.n_fatent = a.n_fatent ∧ b.n_fats = a.n_fats ∧ b.fsize = a.fsize ∧
    b.fatbase = a.fatbase := by
  simp only [FATFS.meta, Prod.mk.injEq] at h
  obtain ⟨h1, h2, h3, h4, h5, h6, h7, h8, h9, h10, h11, h12, h13, h14, h15, h16, h17, h18⟩ := h
  exact ⟨h1, h7, h6, h17, h13, h3, h14, h16⟩

theorem rootOk_of_meta (fs fs1 : FATFS) (hr : fs.rootOk) (hg : fs1.good) (hm : fs1.meta = fs.meta) :
    fs1.rootOk := by
  obtain ⟨e1, e2, e3, e4, e5, e6, e7, e8⟩ := meta_fields_root fs fs1 hm
  exact ⟨hg, by rw [e1]; exact hr.subtype, by rw [e5]; exact hr.entries,
    by rw [e2]; exact hr.persect, by rw [e2, e3]; exact hr.aligned, by rw [e3]; exact hr.nonempty,
    by rw [e3]; exact hr.small,
    by rw [e4]; exact hr.dirbase_ne, by rw [e2, e3, e4]; exact hr.nowrap,
    by rw [e4, e6, e7, e8]; exact hr.behind⟩

theorem rootSect_facts (fs : FATFS) (hr : fs.rootOk) (i : Nat) (hi : i < fs.n_rootdir) :
    rootSect fs i ≠ 0 ∧ rootSect fs i + 1 < 4294967296 ∧ ¬ mirrorArea fs (rootSect fs i) ∧
    fs.dirbase ≤ rootSect fs i ∧ rootSect fs i < fs.dirbase + fs.n_rootdir / (fs.ssize / SZ_DIR) := by
  have h1 := hr.dirbase_ne
  have h2 := hr.nowrap
  have h3 := hr.behind
  have h4 : i / (fs.ssize / SZ_DIR) < fs.n_rootdir / (fs.ssize / SZ_DIR) := by
    have ha := hr.aligned
    have hp := hr.persect
    obtain ⟨q, hq⟩ := Nat.dvd_of_mod_eq_zero ha
    rw [hq, Nat.mul_div_cancel_left _ hp]
    exact Nat.div_lt_of_lt_mul (by rw [← hq]; exact hi)
  unfold rootSect mirrorArea
  generalize i / (fs.ssize / SZ_DIR) = a at h4
  generalize fs.n_rootdir / (fs.ssize / SZ_DIR) = b at h2 h4
  generalize fs.n_fats * fs.fsize = c at h3
  omega

theorem dir_sdi_root (fs fs1 : FATFS) (hr : fs.rootOk) (hm : fs1.meta = fs.meta) (dp : FF_DIR)
    (hsc : dp.sclust = 0) (i : Nat) (hi : i < fs.n_rootdir) :
    dir_sdi fs1 dp i = some (fs1, FF_DIR.setRoot { dp with clust := 0 } fs i, FR_OK) := by
  obtain ⟨e1, e2, e3, e4, e5, -⟩ := meta_fields_root fs fs1 hm
  have hs := hr.small
  have hmod : i % 65536 = i := Nat.mod_eq_of_lt (by omega)
  obtain ⟨f1, f2, -⟩ := rootSect_facts fs hr i hi
  have hadd : add32 fs.dirbase (i / (fs.ssize / SZ_DIR)) = rootSect fs i := by
    unfold add32 rootSect
    unfold rootSect at f2
    exact Nat.mod_eq_of_lt (by omega)
  unfold dir_sdi
  dsimp only
  have hc0 : (if (0 : Nat) = 0 ∧ fs.fs_type = FS_FAT32 then fs.dirbase else 0) = 0 :=
    if_neg (fun h => hr.subtype h.2)
  rw [hsc, e5, if_neg (by have := hr.entries; omega), e1, e4, hc0, if_pos rfl, e3,
    if_neg (by omega), if_neg hr.dirbase_ne, e2, hadd, hmod]
  rfl

theorem dir_next_at (fs fs1 : FATFS) (hr : fs.rootOk) (hm : fs1.meta = fs.meta) (dp : FF_DIR)
    (hc : dp.clust = 0) (i : Nat) (hi : i < fs.n_rootdir) (s : Bool) :
    (i + 1 < fs.n_rootdir →
      dir_next fs1 (dp.setRoot fs i) s = some (fs1, dp.setRoot fs (i + 1), FR_OK)) ∧
    (¬ i + 1 < fs.n_rootdir →
      ∃ dp1, dir_next fs1 (dp.setRoot fs i) s = some (fs1, dp1, FR_NO_FILE)) := by
  obtain ⟨e1, e2, e3, e4, e5, -⟩ := meta_fields_root fs fs1 hm
  have hs := hr.small
  obtain ⟨f1, f2, -⟩ := rootSect_facts fs hr i hi
  have hnx := dir_next_root fs1 (dp.setRoot fs i) s hc (by show i + 1 < 65536; omega) f1 f2
  rw [e2, e3] at hnx
  have hidx : (dp.setRoot fs i).index = i := rfl
  rw [hidx] at hnx
  constructor
  · intro h1
    rw [hnx, if_neg (fun h => by omega)]
    have hsec : (if (i + 1) % (fs.ssize / SZ_DIR) = 0 then (dp.setRoot fs i).sect + 1
        else (dp.setRoot fs i).sect) = rootSect fs (i + 1) := by
      show (if (i + 1) % (fs.ssize / SZ_DIR) = 0 then rootSect fs i + 1 else rootSect fs i) = _
      unfold rootSect
      rw [succ_div_of_mod i (fs.ssize / SZ_DIR)]
      split_ifs <;> rfl
    rw [hsec]
    rfl
  · intro h1
    have hal : (i + 1) % (fs.ssize / SZ_DIR) = 0 := by
      have : i + 1 = fs.n_rootdir := by omega
      rw [this]; exact hr.aligned
    rw [hnx, if_pos ⟨hal, by omega⟩]
    exact ⟨_, rfl⟩


theorem root_move (fs fs1 : FATFS) (hr : fs.rootOk) (hg : fs1.good) (hm : fs1.meta = fs.meta)
    (i : Nat) (hi : i < fs.n_rootdir) :
    (move_window fs1 (rootSect fs i)).2 = FR_OK ∧
    (move_window fs1 (rootSect fs i)).1.winsect = rootSect fs i ∧
    (move_window fs1 (rootSect fs i)).1.good ∧
    (move_window fs1 (rootSect fs i)).1.meta = fs.meta ∧
    (∀ s k, ¬ mirrorArea fs s → view (move_window fs1 (rootSect fs i)).1 s k = view fs1 s k) ∧
    ∀ k, (move_window fs1 (rootSect fs i)).1.win k = view fs1 (rootSect fs i) k := by
  obtain ⟨f1, f2, f3, -⟩ := rootSect_facts fs hr i hi
  obtain ⟨a1, a2, a3, a4, a5, a6⟩ := move_window_moved fs1 (rootSect fs i) hg (by omega)
  have hv : ∀ s k, ¬ mirrorArea fs s → view (move_window fs1 (rootSect fs i)).1 s k = view fs1 s k :=
    fun s k hs => a6 s k (by rw [mirrorArea_of_meta fs fs1 hm]; exact hs)
  refine ⟨a1, a2, a3, a4.trans hm, hv, fun k => ?_⟩
  rw [← hv _ k f3]
  unfold view
  rw [if_pos a2.symm]

theorem dir_alloc_loop_root (fs : FATFS) (hr : fs.rootOk) (dp : FF_DIR) (hc : dp.clust = 0)
    (nent : Nat) :
    ∀ (fuel : Nat) (fs1 : FATFS) (i n : Nat) (fs2 : FATFS) (dp2 : FF_DIR),
      fs.moved fs1 → i < fs.n_rootdir → n ≤ i →
      (∀ t, t < n → (view fs (rootSect fs (i - 1 - t)) (rootOff fs (i - 1 - t)) = DDE ∨
        view fs (rootSect fs (i - 1 - t)) (rootOff fs (i - 1 - t)) = 0)) →
      dir_alloc_loop nent fuel fs1 (dp.setRoot fs i) n = some (fs2, dp2, FR_OK) →
      ∃ j, i ≤ j ∧ j < fs.n_rootdir ∧ nent ≤ j + 1 ∧ 1 ≤ nent ∧ dp2 = dp.setRoot fs j ∧
        fs.moved fs2 ∧ fs2.winsect = rootSect fs j ∧
        ∀ t, t < nent → (view fs (rootSect fs (j - t)) (rootOff fs (j - t)) = DDE ∨
          view fs (rootSect fs (j - t)) (rootOff fs (j - t)) = 0) := by
  intro fuel
  induction fuel with
  | zero => intro fs1 i n fs2 dp2 _ _ _ _ h; cases h
  | succ fuel ih =>
    intro fs1 i n fs2 dp2 hmv hi hn hbl h
    have hs := hr.small
    obtain ⟨f1, f2, f3, -⟩ := rootSect_facts fs hr i hi
    obtain ⟨m1, m2, m3, m4, m5, m6⟩ := root_move fs fs1 hr hmv.1 hmv.2.1 i hi
    obtain ⟨a1, a2, a3⟩ := move_window_moved fs1 (rootSect fs i) hmv.1 (by omega)
    have hmv2 : fs.moved (move_window fs1 (rootSect fs i)).1 := moved_trans fs fs1 _ hmv a3
    have hbyte : dirByte (move_window fs1 (rootSect fs i)).1 (dp.setRoot fs i) 0 =
        view fs (rootSect fs i) (rootOff fs i) := by
      unfold dirByte
      show (move_window fs1 (rootSect fs i)).1.win (rootOff fs i + 0) = _
      rw [Nat.add_zero, m6, hmv.2.2.2 _ _ f3]
    have hadd : add32 n 1 = n + 1 := by unfold add32; exact Nat.mod_eq_of_lt (by omega)
    rw [dir_alloc_loop] at h
    simp only [] at h
    have hsectx : (dp.setRoot fs i).sect = rootSect fs i := rfl
    rw [hsectx, if_neg (by rw [m1]; simp), hbyte, hadd] at h
    by_cases hb : view fs (rootSect fs i) (rootOff fs i) = DDE ∨ view fs (rootSect fs i) (rootOff fs i) = 0
    · have hdec : decide (view fs (rootSect fs i) (rootOff fs i) = DDE ∨
          view fs (rootSect fs i) (rootOff fs i) = 0) = true := by simp [hb]
      simp only [hdec, true_and, if_true] at h
      by_cases he : n + 1 = nent
      · rw [if_pos he] at h
        simp only [Option.some.injEq, Prod.mk.injEq] at h
        obtain ⟨h1, h2, -⟩ := h
        refine ⟨i, Nat.le_refl _, hi, by omega, by omega, h2.symm, by rw [← h1]; exact hmv2,
          by rw [← h1]; exact m2, fun t ht => ?_⟩
        by_cases ht0 : t = 0
        · rw [ht0]; exact hb
        · have := hbl (t - 1) (by omega)
          have e : i - 1 - (t - 1) = i - t := by omega
          rw [e] at this
          exact this
      · rw [if_neg he] at h
        by_cases hnx : i + 1 < fs.n_rootdir
        · rw [(dir_next_at fs _ hr m4 dp hc i hi true).1 hnx] at h
          simp only [if_true] at h
          obtain ⟨j, j1, j2, j3, j4, j5, j6, j7, j8⟩ := ih _ (i + 1) (n + 1) fs2 dp2 hmv2 hnx (by omega)
            (fun t ht => by
              by_cases ht0 : t = 0
              · rw [ht0]; exact hb
              · have := hbl (t - 1) (by omega)
                have e : i - 1 - (t - 1) = i + 1 - 1 - t := by omega
                rw [e] at this
                exact this) h
          exact ⟨j, by omega, j2, j3, j4, j5, j6, j7, j8⟩
        · obtain ⟨dpx, hx⟩ := (dir_next_at fs _ hr m4 dp hc i hi true).2 hnx
          rw [hx] at h
          simp at h
    · have hdec : decide (view fs (rootSect fs i) (rootOff fs i) = DDE ∨
          view fs (rootSect fs i) (rootOff fs i) = 0) = false := by simp [hb]
      simp only [hdec, Bool.false_eq_true, false_and, if_false] at h
      by_cases hnx : i + 1 < fs.n_rootdir
      · rw [(dir_next_at fs _ hr m4 dp hc i hi true).1 hnx] at h
        simp only [if_true] at h
        obtain ⟨j, j1, j2, j3, j4, j5, j6, j7, j8⟩ := ih _ (i + 1) 0 fs2 dp2 hmv2 hnx (by omega)
          (fun t ht => by omega) h
        exact ⟨j, by omega, j2, j3, j4, j5, j6, j7, j8⟩
      · obtain ⟨dpx, hx⟩ := (dir_next_at fs _ hr m4 dp hc i hi true).2 hnx
        rw [hx] at h
        simp at h


theorem entryBytes_deleted (e : Nat → Nat) :
    entryBytes (Function.update (memset e 0 0 SZ_DIR) 0 DDE) = deletedEntry := by
  rfl

theorem dir_alloc_root (fs : FATFS) (hr : fs.rootOk) (dp : FF_DIR) (hsc : dp.sclust = 0)
    (nent : Nat) (fs2 : FATFS) (dp2 : FF_DIR)
    (h : dir_alloc fs dp nent = some (fs2, dp2, FR_OK)) :
    ∃ j, j < fs.n_rootdir ∧ nent ≤ j + 1 ∧ 1 ≤ nent ∧
      dp2 = FF_DIR.setRoot { dp with clust := 0 } fs j ∧ fs.moved fs2 ∧
      fs2.winsect = rootSect fs j ∧
      ∀ t, t < nent → (view fs (rootSect fs (j - t)) (rootOff fs (j - t)) = DDE ∨
        view fs (rootSect fs (j - t)) (rootOff fs (j - t)) = 0) := by
  unfold dir_alloc at h
  rw [dir_sdi_root fs fs hr rfl dp hsc 0 hr.nonempty] at h
  simp only [if_true] at h
  cases hl : dir_alloc_loop nent 65537 fs (FF_DIR.setRoot { dp with clust := 0 } fs 0) 0 with
  | none => rw [hl] at h; cases h
  | some x =>
    obtain ⟨fsa, dpa, ra⟩ := x
    rw [hl] at h
    simp only [Option.map_some', Option.some.injEq] at h
    by_cases hra : ra = FR_NO_FILE
    · rw [if_pos hra] at h
      simp at h
    · rw [if_neg hra] at h
      simp only [Prod.mk.injEq] at h
      obtain ⟨h1, h2, h3⟩ := h
      subst h1
      subst h2
      subst h3
      obtain ⟨j, j1, j2, j3, j4, j5, j6, j7, j8⟩ := dir_alloc_loop_root fs hr { dp with clust := 0 } rfl
        nent 65537 fs 0 0 fsa dpa (moved_refl fs hr.good) hr.nonempty (Nat.le_refl _)
        (fun t ht => by omega) hl
      exact ⟨j, j2, j3, j4, j5, j6, j7, j8⟩


/-- A `dir_next` that returns leaves the name buffers, the start cluster and
the LFN index of the directory object as they are. -/
theorem dir_next_keep (fs : FATFS) (dp : FF_DIR) (s : Bool) :
    ∀ r, dir_next fs dp s = some r →
      r.2.1.fn = dp.fn ∧ r.2.1.sclust = dp.sclust ∧ r.2.1.lfn = dp.lfn ∧
      r.2.1.lfn_idx = dp.lfn_idx := by
  intro r h
  unfold dir_next at h
  dsimp only at h
  by_cases c1 : dp.index + 1 &&& 65535 = 0 ∨ dp.sect = 0
  · rw [if_pos c1] at h; cases h; exact ⟨rfl, rfl, rfl, rfl⟩
  rw [if_neg c1] at h
  by_cases c2 : (dp.index + 1) % (fs.ssize / SZ_DIR) = 0
  swap
  · rw [if_neg c2] at h; cases h; exact ⟨rfl, rfl, rfl, rfl⟩
  rw [if_pos c2] at h
  by_cases c3 : dp.clust = 0
  · rw [if_pos c3] at h
    by_cases c4 : dp.index + 1 ≥ fs.n_rootdir
    · rw [if_pos c4] at h; cases h; exact ⟨rfl, rfl, rfl, rfl⟩
    · rw [if_neg c4] at h; cases h; exact ⟨rfl, rfl, rfl, rfl⟩
  rw [if_neg c3] at h
  by_cases c5 : (dp.index + 1) / (fs.ssize / SZ_DIR) &&& sub32 fs.csize 1 = 0
  swap
  · rw [if_neg c5] at h; cases h; exact ⟨rfl, rfl, rfl, rfl⟩
  rw [if_pos c5] at h
  by_cases c6 : (get_fat fs dp.clust).2 ≤ 1
  · rw [if_pos c6] at h; cases h; exact ⟨rfl, rfl, rfl, rfl⟩
  rw [if_neg c6] at h
  by_cases c7 : (get_fat fs dp.clust).2 = 4294967295
  · rw [if_pos c7] at h; cases h; exact ⟨rfl, rfl, rfl, rfl⟩
  rw [if_neg c7] at h
  by_cases c8 : (get_fat fs dp.clust).2 ≥ (get_fat fs dp.clust).1.n_fatent
  swap
  · rw [if_neg c8] at h; cases h; exact ⟨rfl, rfl, rfl, rfl⟩
  rw [if_pos c8] at h
  by_cases c9 : ¬ (get_fat fs dp.clust).1.readonly = true
  swap
  · rw [if_neg c9] at h; cases h; exact ⟨rfl, rfl, rfl, rfl⟩
  rw [if_pos c9] at h
  by_cases c10 : ¬ s = true
  · rw [if_pos c10] at h; cases h; exact ⟨rfl, rfl, rfl, rfl⟩
  rw [if_neg c10] at h
  cases hcc : create_chain (get_fat fs dp.clust).1 dp.clust with
  | none => rw [hcc] at h; cases h
  | some x =>
    obtain ⟨fsc, clst⟩ := x
    rw [hcc] at h
    dsimp only at h
    by_cases d1 : clst = 0
    · rw [if_pos d1] at h; cases h; exact ⟨rfl, rfl, rfl, rfl⟩
    rw [if_neg d1] at h
    by_cases d2 : clst = 1
    · rw [if_pos d2] at h; cases h; exact ⟨rfl, rfl, rfl, rfl⟩
    rw [if_neg d2] at h
    by_cases d3 : clst = 4294967295
    · rw [if_pos d3] at h; cases h; exact ⟨rfl, rfl, rfl, rfl⟩
    rw [if_neg d3] at h
    by_cases d4 : (sync_window fsc).2 ≠ FR_OK
    · rw [if_pos d4] at h; cases h; exact ⟨rfl, rfl, rfl, rfl⟩
    rw [if_neg d4] at h
    split_ifs at h
    · cases h; exact ⟨rfl, rfl, rfl, rfl⟩
    · cases h; exact ⟨rfl, rfl, rfl, rfl⟩

/-- The part of one round of `dir_find` after the entry was examined, in
the static root directory. -/
theorem dir_find_tail_root (w : Nat → Nat) (fs : FATFS) (hr : fs.rootOk) (fuel : Nat)
    (ih : ∀ (fs1 : FATFS) (dp : FF_DIR) (i ord sum : Nat),
      dp.clust = 0 → fs.moved fs1 → i < fs.n_rootdir → fs.n_rootdir - i ≤ fuel →
      ∃ fs2 dp2 r, dir_find_loop w fuel fs1 (dp.setRoot fs i) ord sum = some (fs2, dp2, r) ∧
        fs.moved fs2 ∧ (r = FR_OK ∨ r = FR_NO_FILE) ∧
        dp2.sclust = dp.sclust ∧ dp2.fn = dp.fn ∧ dp2.lfn = dp.lfn)
    (fs1 : FATFS) (dp : FF_DIR) (i : Nat) (hc : dp.clust = 0) (hmv : fs.moved fs1)
    (hi : i < fs.n_rootdir) (hf : fs.n_rootdir - i ≤ fuel + 1)
    (step : Option (FF_DIR × Nat × Nat))
    (hstep : ∀ x, step = some x → ∃ li, x.1 = { dp.setRoot fs i with lfn_idx := li }) :
    ∃ fs2 dp2 r,
      (match step with
       | none => some (fs1, dp.setRoot fs i, FR_OK)
       | some (dp1, ord1, sum1) =>
         match dir_next fs1 dp1 false with
         | none => none
         | some (fs2, dp2, r) =>
           if r = FR_OK then dir_find_loop w fuel fs2 dp2 ord1 sum1
           else some (fs2, dp2, r)) = some (fs2, dp2, r) ∧
      fs.moved fs2 ∧ (r = FR_OK ∨ r = FR_NO_FILE) ∧
      dp2.sclust = dp.sclust ∧ dp2.fn = dp.fn ∧ dp2.lfn = dp.lfn := by
  cases step with
  | none => exact ⟨_, _, _, rfl, hmv, Or.inl rfl, rfl, rfl, rfl⟩
  | some x =>
    obtain ⟨dp1, ord1, sum1⟩ := x
    obtain ⟨li, hli⟩ := hstep _ rfl
    dsimp only at hli ⊢
    subst hli
    have hset : ({ dp.setRoot fs i with lfn_idx := li } : FF_DIR) =
        FF_DIR.setRoot { dp with lfn_idx := li } fs i := rfl
    rw [hset]
    by_cases hnx : i + 1 < fs.n_rootdir
    · rw [(dir_next_at fs fs1 hr hmv.2.1 { dp with lfn_idx := li } hc i hi false).1 hnx]
      dsimp only
      rw [if_pos rfl]
      obtain ⟨fs2, dp2, r, e1, e2, e3, e4, e5, e6⟩ := ih fs1 { dp with lfn_idx := li } (i + 1) ord1 sum1
        hc hmv hnx (by omega)
      exact ⟨fs2, dp2, r, e1, e2, e3, e4, e5, e6⟩
    · obtain ⟨dpx, hx⟩ := (dir_next_at fs fs1 hr hmv.2.1 { dp with lfn_idx := li } hc i hi false).2 hnx
      obtain ⟨k1, k2, k3, -⟩ := dir_next_keep fs1 (FF_DIR.setRoot { dp with lfn_idx := li } fs i) false
        _ hx
      rw [hx]
      dsimp only
      rw [if_neg (by decide)]
      exact ⟨_, _, _, rfl, hmv, Or.inr rfl, k2, k1, k3⟩


/-- The loop of `dir_find` in the static root directory runs to its end: it
returns `FR_OK` or `FR_NO_FILE` and only moves the window. -/
theorem dir_find_loop_root (w : Nat → Nat) (fs : FATFS) (hr : fs.rootOk) :
    ∀ (fuel : Nat) (fs1 : FATFS) (dp : FF_DIR) (i ord sum : Nat),
      dp.clust = 0 → fs.moved fs1 → i < fs.n_rootdir → fs.n_rootdir - i ≤ fuel →
      ∃ fs2 dp2 r, dir_find_loop w fuel fs1 (dp.setRoot fs i) ord sum = some (fs2, dp2, r) ∧
        fs.moved fs2 ∧ (r = FR_OK ∨ r = FR_NO_FILE) ∧
        dp2.sclust = dp.sclust ∧ dp2.fn = dp.fn ∧ dp2.lfn = dp.lfn := by
  intro fuel
  induction fuel with
  | zero => intro fs1 dp i ord sum _ _ hi hf; omega
  | succ fuel ih =>
    intro fs1 dp i ord sum hc hmv hi hf
    obtain ⟨f1, f2, f3, -⟩ := rootSect_facts fs hr i hi
    obtain ⟨m1, m2, m3, m4, m5, m6⟩ := root_move fs fs1 hr hmv.1 hmv.2.1 i hi
    have hmv2 : fs.moved (move_window fs1 (rootSect fs i)).1 :=
      moved_trans fs fs1 _ hmv (move_window_moved fs1 (rootSect fs i) hmv.1 (by omega)).2.2
    have hsectx : (dp.setRoot fs i).sect = rootSect fs i := rfl
    rw [dir_find_loop]
    dsimp only
    rw [hsectx, if_neg (by rw [m1]; simp)]
    by_cases hc0 : dirEntry (move_window fs1 (rootSect fs i)).1 (dp.setRoot fs i) DIR_Name = 0
    · rw [if_pos hc0]
      exact ⟨_, _, _, rfl, hmv2, Or.inr rfl, rfl, rfl, rfl⟩
    rw [if_neg hc0]
    refine dir_find_tail_root w fs hr fuel ih (move_window fs1 (rootSect fs i)).1 dp i hc hmv2 hi hf
      _ ?_
    intro x hx
    obtain ⟨e, he⟩ : ∃ e, e = dirEntry (move_window fs1 (rootSect fs i)).1 (dp.setRoot fs i) :=
      ⟨_, rfl⟩
    rw [← he] at hx
    by_cases c1 : e DIR_Name = DDE ∨ e DIR_Attr &&& AM_MASK &&& AM_VOL ≠ 0 ∧ e DIR_Attr &&& AM_MASK ≠ AM_LFN
    · rw [if_pos c1, Option.some.injEq] at hx
      rw [← hx]
      exact ⟨_, rfl⟩
    rw [if_neg c1] at hx
    by_cases c2 : e DIR_Attr &&& AM_MASK = AM_LFN
    · rw [if_pos c2] at hx
      split at hx
      · rw [Option.some.injEq] at hx
        rw [← hx]
        exact ⟨(dp.setRoot fs i).lfn_idx, rfl⟩
      · rw [Option.some.injEq] at hx
        rw [← hx]
        dsimp only
        split_ifs
        · exact ⟨_, rfl⟩
        · exact ⟨(dp.setRoot fs i).lfn_idx, rfl⟩
    rw [if_neg c2] at hx
    by_cases c3 : ord = 0 ∧ sum = sum_sfn e
    · rw [if_pos c3] at hx; cases hx
    rw [if_neg c3] at hx
    by_cases c4 : (dp.setRoot fs i).fn NS &&& NS_LOSS = 0 ∧ memeq e (dp.setRoot fs i).fn 11 = true
    · rw [if_pos c4] at hx; cases hx
    rw [if_neg c4, Option.some.injEq] at hx
    rw [← hx]
    exact ⟨_, rfl⟩

/-- `dir_find` in the static root directory returns `FR_OK` or `FR_NO_FILE`
and only moves the window. -/
theorem dir_find_root (w : Nat → Nat) (fs fs1 : FATFS) (hr : fs.rootOk) (hmv : fs.moved fs1)
    (dp : FF_DIR) (hsc : dp.sclust = 0) :
    ∃ fs2 dp2 r, dir_find w fs1 dp = some (fs2, dp2, r) ∧
      fs.moved fs2 ∧ (r = FR_OK ∨ r = FR_NO_FILE) ∧
      dp2.sclust = 0 ∧ dp2.fn = dp.fn ∧ dp2.lfn = dp.lfn := by
  unfold dir_find
  rw [dir_sdi_root fs fs1 hr hmv.2.1 dp hsc 0 hr.nonempty]
  dsimp only
  rw [if_neg (by decide)]
  have hset : ({ FF_DIR.setRoot { dp with clust := 0 } fs 0 with lfn_idx := 0xFFFF } : FF_DIR) =
      FF_DIR.setRoot { dp with clust := 0, lfn_idx := 0xFFFF } fs 0 := rfl
  rw [hset]
  obtain ⟨fs2, dp2, r, e1, e2, e3, e4, e5, e6⟩ := dir_find_loop_root w fs hr 65537 fs1
    { dp with clust := 0, lfn_idx := 0xFFFF } 0 0xFF 0xFF rfl hmv hr.nonempty
    (by have := hr.small; omega)
  exact ⟨fs2, dp2, r, e1, e2, e3, e4.trans hsc, e5, e6⟩

/-- The search for a free numbered name in the static root directory runs to
its end and only moves the window: it stops with `n = 100` after 99
collisions or with `FR_NO_FILE` at the first name not in the directory. -/
theorem dir_register_numname_root (w : Nat → Nat) (fs : FATFS) (hr : fs.rootOk)
    (sn : Nat → Nat) (lfn : List Nat) :
    ∀ (fuel n : Nat) (fs1 : FATFS) (dp : FF_DIR) (res : FRESULT),
      n + fuel = 100 → fs.moved fs1 → dp.sclust = 0 →
      ∃ fs2 dp2 r n2, dir_register_numname w sn lfn fuel n fs1 dp res = some (fs2, dp2, r, n2) ∧
        fs.moved fs2 ∧ dp2.sclust = 0 ∧ dp2.lfn = dp.lfn ∧ (n2 = 100 ∨ r = FR_NO_FILE) := by
  intro fuel
  induction fuel with
  | zero =>
    intro n fs1 dp res hn hmv hsc
    exact ⟨fs1, dp, res, n, rfl, hmv, hsc, rfl, Or.inl (by omega)⟩
  | succ fuel ih =>
    intro n fs1 dp res hn hmv hsc
    rw [dir_register_numname]
    rw [if_pos (by omega)]
    dsimp only
    obtain ⟨fs2, dp2, r, e1, e2, e3, e4, e5, e6⟩ := dir_find_root w fs fs1 hr hmv
      { dp with fn := gen_numname dp.fn sn lfn n } hsc
    rw [e1]
    dsimp only
    by_cases hr0 : r ≠ FR_OK
    · rw [if_pos hr0]
      refine ⟨fs2, dp2, r, n, rfl, e2, e4, e6, Or.inr ?_⟩
      rcases e3 with h | h
      · exact absurd h hr0
      · exact h
    · rw [if_neg hr0]
      obtain ⟨fs3, dp3, r3, n3, g1, g2, g3, g4, g5⟩ := ih (n + 1) fs2 dp2 r (by omega) e2 e4
      exact ⟨fs3, dp3, r3, n3, g1, g2, g3, g4.trans e6, g5⟩


/-- `dir_alloc` on a static root directory without a blank entry, on a
volume reached by window moves: `FR_DENIED` at the last entry, nothing
allocated and nothing written. -/
theorem dir_alloc_full_root (fs fs1 : FATFS) (hr : fs.rootOk) (hmv : fs.moved fs1) (dp : FF_DIR)
    (hsc : dp.sclust = 0) (nent : Nat)
    (hfull : ∀ i, i < fs.n_rootdir →
      view fs (rootSect fs i) (rootOff fs i) ≠ DDE ∧ view fs (rootSect fs i) (rootOff fs i) ≠ 0) :
    ∃ fs2 dp2, dir_alloc fs1 dp nent = some (fs2, dp2, FR_DENIED) ∧
      dp2.index = fs.n_rootdir - 1 ∧
      (∀ s k, ¬ mirrorArea fs s → view fs2 s k = view fs s k) ∧
      fs2.free_clust = fs.free_clust ∧ fs2.last_clust = fs.last_clust := by
  obtain ⟨e1, e2, e3, e4, e5, e6, e7, e8⟩ := meta_fields_root fs fs1 hmv.2.1
  obtain ⟨-, -, -, -, -, -, g7, g8, -, -⟩ := meta_fields fs fs1 hmv.2.1
  have hr1 : fs1.rootOk := rootOk_of_meta fs fs1 hr hmv.1 hmv.2.1
  have hS : ∀ i, rootSect fs1 i = rootSect fs i := fun i => by unfold rootSect; rw [e2, e4]
  have hO : ∀ i, rootOff fs1 i = rootOff fs i := fun i => by unfold rootOff; rw [e2]
  obtain ⟨fs2, dp2, a1, a2, a3, a4, a5, -⟩ := dir_alloc_loop_full nent 65537 fs1
    (FF_DIR.setRoot { dp with clust := 0 } fs 0) 0 hmv.1 hr1.persect hr1.aligned hr1.small
    hr1.dirbase_ne hr1.nowrap (show 0 < fs1.n_rootdir from hr1.nonempty)
    (show rootSect fs 0 = rootSect fs1 0 from (hS 0).symm)
    (show some (rootOff fs 0) = some (rootOff fs1 0) by rw [hO 0]) rfl
    (by
      intro j hj
      have := (rootSect_facts fs1 hr1 0 hr1.nonempty).2.2.1
      have hb := hr1.behind
      unfold mirrorArea
      generalize fs1.n_fats * fs1.fsize = c at hb
      omega)
    (by
      intro i hi
      rw [e3] at hi
      have hnm := (rootSect_facts fs hr i hi).2.2.1
      have h1 := hmv.2.2.2 (rootSect fs i) (rootOff fs i) hnm
      have h2 := hfull i hi
      rw [← h1, ← hS i, ← hO i] at h2
      exact h2)
    (by show fs1.n_rootdir - 0 ≤ 65537; have := hr1.small; omega)
  refine ⟨fs2, dp2, ?_, by rw [a2, e3], fun s k hs => ?_, by rw [a4, g8], by rw [a5, g7]⟩
  · unfold dir_alloc
    rw [dir_sdi_root fs fs1 hr hmv.2.1 dp hsc 0 hr.nonempty]
    dsimp only
    rw [if_pos rfl, a1]
    rfl
  · rw [a3 s k (by rw [mirrorArea_of_meta fs fs1 hmv.2.1]; exact hs), hmv.2.2.2 s k hs]

/-- C13: on a FAT12/16 volume whose static root directory holds no blank
entry, `dir_alloc` on the root returns `FR_DENIED` after the entry with
index `n_rootdir - 1`, and `dir_register` of any name there returns
`FR_DENIED` as well, after the same walk of `dir_alloc` unless the name
needs a numbered short name and all 99 candidates are in the directory; in
every case the cluster hints are untouched and every byte of every sector
outside the FAT copies reads as before, so that no cluster is allocated and
no directory entry modified. -/
theorem C13_full_root_denied (wt : Nat → Nat) (fs : FATFS) (dp : FF_DIR) (nent : Nat)
    (hg : fs.good) (hfat : fs.fs_type ≠ FS_FAT32) (hsc : dp.sclust = 0) (hnf : 0 < fs.n_fatent)
    (hE : 0 < fs.ssize / SZ_DIR) (hal : fs.n_rootdir % (fs.ssize / SZ_DIR) = 0)
    (hn0 : 0 < fs.n_rootdir) (hn : fs.n_rootdir < 65536) (hdb : fs.dirbase ≠ 0)
    (hnw : fs.dirbase + fs.n_rootdir / (fs.ssize / SZ_DIR) < 4294967296)
    (hgeo : fs.fatbase + fs.n_fats * fs.fsize ≤ fs.dirbase)
    (hfull : ∀ i, i < fs.n_rootdir →
      view fs (fs.dirbase + i / (fs.ssize / SZ_DIR)) (i % (fs.ssize / SZ_DIR) * SZ_DIR) ≠ DDE ∧
      view fs (fs.dirbase + i / (fs.ssize / SZ_DIR)) (i % (fs.ssize / SZ_DIR) * SZ_DIR) ≠ 0) :
    (∃ fs1 dp1, dir_alloc fs dp nent = some (fs1, dp1, FR_DENIED) ∧
      dp1.index = fs.n_rootdir - 1 ∧
      (∀ s k, ¬ mirrorArea fs s → view fs1 s k = view fs s k) ∧
      fs1.free_clust = fs.free_clust ∧ fs1.last_clust = fs.last_clust) ∧
    (∃ fs1 dp1, dir_register wt fs dp = some (fs1, dp1, FR_DENIED) ∧
      (∀ s k, ¬ mirrorArea fs s → view fs1 s k = view fs s k) ∧
      fs1.free_clust = fs.free_clust ∧ fs1.last_clust = fs.last_clust ∧
      (dp1.index = fs.n_rootdir - 1 ∨
        (dp.fn NS &&& NS_LOSS ≠ 0 ∧
          (dir_register_numname wt dp.fn (lfn_chars (dp.lfn.getD fun _ => 0)) 99 1 fs
            { dp with fn := Function.update dp.fn NS 0, lfn := none } FR_OK).map
              (fun x => x.2.2.2) = some 100))) := by
  have hr : fs.rootOk := ⟨hg, hfat, hnf, hE, hal, hn0, hn, hdb, hnw, hgeo⟩
  have hfull2 : ∀ i, i < fs.n_rootdir →
      view fs (rootSect fs i) (rootOff fs i) ≠ DDE ∧ view fs (rootSect fs i) (rootOff fs i) ≠ 0 :=
    hfull
  have key := fun fs1 hmv dp1 hsc1 ne => dir_alloc_full_root fs fs1 hr hmv dp1 hsc1 ne hfull2
  refine ⟨key fs (moved_refl fs hg) dp hsc nent, ?_⟩
  unfold dir_register
  dsimp only
  by_cases hl : dp.fn NS &&& NS_LOSS ≠ 0
  · rw [if_pos hl]
    obtain ⟨fs2, dp2, r, n2, e1, e2, e3, e4, e5⟩ := dir_register_numname_root wt fs hr dp.fn
      (lfn_chars (dp.lfn.getD fun _ => 0)) 99 1 fs
      { dp with fn := Function.update dp.fn NS 0, lfn := none } FR_OK rfl (moved_refl fs hg) hsc
    obtain ⟨-, -, -, -, -, -, g7, g8, -, -⟩ := meta_fields fs fs2 e2.2.1
    rw [e1]
    dsimp only
    by_cases h100 : n2 = 100
    · rw [if_pos h100]
      exact ⟨fs2, dp2, rfl, e2.2.2.2, g8, g7, Or.inr ⟨hl, by rw [h100]; rfl⟩⟩
    · rw [if_neg h100]
      have hrn : r = FR_NO_FILE := by
        rcases e5 with h | h
        · exact absurd h h100
        · exact h
      rw [if_neg (by rw [hrn]; decide)]
      dsimp only
      obtain ⟨fs3, dp3, a1, a2, a3, a4, a5⟩ := key fs2 e2
        { dp2 with fn := Function.update dp2.fn NS (dp.fn NS), lfn := dp.lfn } e3
        (if dp.fn NS &&& NS_LFN ≠ 0
          then (lfn_len (dp.lfn.getD fun _ => 0) (_MAX_LFN + 1) 0 + 25) / 13 else 1)
      rw [a1]
      dsimp only
      rw [if_neg (fun h => absurd h.1 (by decide))]
      dsimp only
      rw [if_neg (by decide)]
      exact ⟨fs3, dp3, rfl, a3, a4, a5, Or.inl a2⟩
  · rw [if_neg hl]
    dsimp only
    obtain ⟨fs3, dp3, a1, a2, a3, a4, a5⟩ := key fs (moved_refl fs hg) dp hsc
      (if dp.fn NS &&& NS_LFN ≠ 0
        then (lfn_len (dp.lfn.getD fun _ => 0) (_MAX_LFN + 1) 0 + 25) / 13 else 1)
    rw [a1]
    dsimp only
    rw [if_neg (fun h => absurd h.1 (by decide))]
    dsimp only
    rw [if_neg (by decide)]
    exact ⟨fs3, dp3, rfl, a3, a4, a5, Or.inl a2⟩

/-- Witness for C13: on the example volume with a full root directory of 16
entries, `dir_alloc` and `dir_register` of the name of 14 letters `a` as
`create_name` prepares it, which needs a numbered short name, return
`FR_DENIED` at index 15. -/
theorem C13_full_root_denied_witness :
    (dir_alloc fullVol rootDir 1).map (fun x => (x.2.2, x.2.1.index)) = some (FR_DENIED, 15) ∧
    (dir_register exCfg.ff_wtoupper fullVol (namedDir (List.replicate 14 0x61))).map (fun x => (x.2.2, x.2.1.index)) =
      some (FR_DENIED, 15) ∧
    (namedDir (List.replicate 14 0x61)).fn NS &&& NS_LOSS ≠ 0 ∧
    ∃ fs1 dp1, dir_register exCfg.ff_wtoupper fullVol (namedDir (List.replicate 14 0x61)) = some (fs1, dp1, FR_DENIED) ∧
      (∀ s k, ¬ mirrorArea fullVol s → view fs1 s k = view fullVol s k) ∧
      fs1.free_clust = fullVol.free_clust ∧ fs1.last_clust = fullVol.last_clust ∧
      (dp1.index = fullVol.n_rootdir - 1 ∨
        ((namedDir (List.replicate 14 0x61)).fn NS &&& NS_LOSS ≠ 0 ∧
          (dir_register_numname exCfg.ff_wtoupper (namedDir (List.replicate 14 0x61)).fn
            (lfn_chars ((namedDir (List.replicate 14 0x61)).lfn.getD fun _ => 0)) 99 1 fullVol
            { namedDir (List.replicate 14 0x61) with fn := Function.update (namedDir (List.replicate 14 0x61)).fn NS 0, lfn := none } FR_OK).map
              (fun x => x.2.2.2) = some 100)) :=
  ⟨by decide, by decide, by decide,
   (C13_full_root_denied exCfg.ff_wtoupper fullVol (namedDir (List.replicate 14 0x61)) 1
    ⟨rfl, ⟨fun _ => rfl, fun _ => rfl⟩, by decide, by decide, by decide, fun _ _ => rfl⟩
    (by decide) rfl (by decide) (by decide) (by decide) (by decide) (by decide) (by decide)
    (by decide) (by decide) (by decide)).2⟩

/-- C14, the claim fails: registering the short name `A` in the root
directory of the example volume and removing it again leaves entry 1, all
zeros before, as `0xE5` followed by zeros. -/
theorem C14_counterexample :
    rootEntry exVol 1 = List.replicate 32 0 ∧
    ((dir_register exCfg.ff_wtoupper exVol shortDir).bind fun a =>
      (dir_remove a.1 a.2.1).map fun b => (a.2.2, a.2.1.index, b.2.2, rootEntry b.1 1)) =
      some (FR_OK, 1, FR_OK, deletedEntry) := by
  decide

/-- C33: on a device that refuses the write to the second FAT copy,
`sync_window` of a dirty first-copy FAT sector still returns `FR_OK` and
clears the dirty flag: the first copy holds the window bytes, the second
copy does not. -/
theorem C33_mirror_write_ignored :
    sub32 mirrorFailVol.winsect mirrorFailVol.fatbase < mirrorFailVol.fsize ∧
    (sync_window mirrorFailVol).2 = FR_OK ∧ (sync_window mirrorFailVol).1.wflag = 0 ∧
    (sync_window mirrorFailVol).1.disk.data 1 0 = mirrorFailVol.win 0 ∧
    (sync_window mirrorFailVol).1.disk.data (1 + mirrorFailVol.fsize) 0 ≠ mirrorFailVol.win 0 := by
  decide

/-- C34: whenever `move_window` returns `FR_DISK_ERR`, `winsect` still names
the sector that was loaded before the call and the window buffer is the one
from before the call: the window is not invalidated. -/
theorem C34_window_not_invalidated (fs : FATFS) (s : Nat)
    (h : (move_window fs s).2 = FR_DISK_ERR) :
    (move_window fs s).1.winsect = fs.winsect ∧ (move_window fs s).1.win = fs.win := by
  unfold move_window at h ⊢
  by_cases h1 : s ≠ fs.winsect
  · rw [if_pos h1] at h ⊢
    dsimp only at h ⊢
    by_cases h2 : (if ¬ fs.readonly = true then sync_window fs else (fs, FR_OK)).2 ≠ FR_OK
    · rw [if_pos h2]
      by_cases h3 : ¬ fs.readonly = true
      · rw [if_pos h3]; simp
      · rw [if_neg h3]; simp
    · rw [if_neg h2] at h ⊢
      cases hr : disk_read (if ¬ fs.readonly = true then sync_window fs else (fs, FR_OK)).1.disk s with
      | none =>
        simp only []
        by_cases h3 : ¬ fs.readonly = true
        · rw [if_pos h3]; simp
        · rw [if_neg h3]; simp
      | some b =>
        rw [hr] at h
        simp at h
  · rw [if_neg h1] at h
    simp at h

theorem C34_window_not_invalidated_witness :
    (move_window readFailVol 3).1.winsect = readFailVol.winsect ∧
    (move_window readFailVol 3).1.win = readFailVol.win :=
  C34_window_not_invalidated readFailVol 3 (by decide)

/-- C37: `find_volume` mounts the volume `wrapVol` as FAT32 with
`n_fatent = 0x40000002` and `fsize = 1` (the FAT size `n_fatent * 4` wraps to 8
in 32 bits, so the size test passes); for cluster 128, which is in range, the
FAT-relative sector offset `4 * 128 / SS` is 1, not smaller than `fsize`, and
`get_fat` moves the window to the sector behind the FAT, the first data
sector. -/
theorem C37_fat_offset_beyond_fsize :
    (find_volume 0 ⟨0, []⟩ exAddr wrapVol 0 0).2.2 = FR_OK ∧
    (find_volume 0 ⟨0, []⟩ exAddr wrapVol 0 0).2.1.fs_type = FS_FAT32 ∧
    (find_volume 0 ⟨0, []⟩ exAddr wrapVol 0 0).2.1.n_fatent = 0x40000002 ∧
    (find_volume 0 ⟨0, []⟩ exAddr wrapVol 0 0).2.1.fsize = 1 ∧
    (2 ≤ 128 ∧ 128 < (find_volume 0 ⟨0, []⟩ exAddr wrapVol 0 0).2.1.n_fatent) ∧
    ¬ (4 * 128 % 4294967296 / (find_volume 0 ⟨0, []⟩ exAddr wrapVol 0 0).2.1.ssize
        < (find_volume 0 ⟨0, []⟩ exAddr wrapVol 0 0).2.1.fsize) ∧
    (get_fat (find_volume 0 ⟨0, []⟩ exAddr wrapVol 0 0).2.1 128).1.winsect
      = (find_volume 0 ⟨0, []⟩ exAddr wrapVol 0 0).2.1.fatbase
        + (find_volume 0 ⟨0, []⟩ exAddr wrapVol 0 0).2.1.fsize ∧
    (get_fat (find_volume 0 ⟨0, []⟩ exAddr wrapVol 0 0).2.1 128).1.winsect
      = (find_volume 0 ⟨0, []⟩ exAddr wrapVol 0 0).2.1.database := by
  decide

/-- C40: on the example volume the path `/` resolves to the root directory
with a null entry pointer; `f_open` in read-only mode then reads the attribute
byte through the null pointer, and `f_unlink` reads the cluster fields through
it after it has set `FR_INVALID_NAME`. With `FA_WRITE` set `f_open` returns
`FR_INVALID_NAME` without such a read. -/
theorem C40_null_entry_read :
    (follow_path exCfg exVol (FF_DIR.init exAddr) [0x2F]).map (fun r => (r.2.1.dir, r.2.2))
      = some (none, FR_OK) ∧
    (f_open exCfg ⟨1, [⟨0, 0, 0, 0⟩]⟩ exAddr exVol exFil [0x2F] FA_READ).map (fun r => r.nullread)
      = some true ∧
    f_unlink_head exCfg ⟨1, [⟨0, 0, 0, 0⟩]⟩ exAddr exVol [0x2F] = some (FR_INVALID_NAME, true) ∧
    (f_open exCfg ⟨1, [⟨0, 0, 0, 0⟩]⟩ exAddr exVol exFil [0x2F] (FA_READ ||| FA_WRITE)).map
        (fun r => (r.res, r.nullread)) = some (FR_INVALID_NAME, false) := by
  decide

/-- C35: in the directory `oneChild` the child `a` (vnode 2) is the top of its
mount stack and holds only the reference handed over by the driver's lookup;
`lookup_vnode` of `a` returns vnode 2 after having called `vrele` on it before
`vref`: the count falls to zero and `delete_vnode` is invoked on the vnode that
is then returned. -/
theorem C35_child_deleted_before_vref :
    noMounts.next 2 = 2 ∧
    (lookup_vnode_ref exConsts oneChild false noMounts 8 oneChildRefs 1 [0x61] 0).map
        (fun r => (r.2.1, r.2.2, r.1.log, r.1.refcount 2)) =
      some (.zero, some 2,
        [.vref 1, .handover 2, .vrele 1, .vrele 2, .delete_vnode 2, .vref 2], 1) := by
  decide

/-- C38: a lookup that fails leaves a reference behind: looking up the missing
name `x` in `oneChild` returns the driver's error and the start vnode 1 has one
reference more than before. A successful lookup of `..` from the mounted root 1
returns vnode 4 with one reference more, leaves the mount point 3 as it was, and
leaves one reference more on the mounted root 1 (two more when the driver hands
over a reference with `-EDOM`). -/
theorem C38_references_left_behind :
    oneChildRefs.refcount 1 = 1 ∧
    (lookup_vnode_ref exConsts oneChild false noMounts 8 oneChildRefs 1 [0x78] 0).map
        (fun r => (r.2.1, r.2.2, r.1.refcount 1, r.1.log)) =
      some (.driver (-2), some 1, 2, [.vref 1]) ∧
    mountedRefs.refcount 1 = 5 ∧
    (lookup_vnode_ref exConsts mountedRoot false mountedLinks 8 mountedRefs 1 [0x2E, 0x2E] 0).map
        (fun r => (r.2.1, r.2.2, r.1.refcount 4, r.1.refcount 3, r.1.refcount 1)) =
      some (.zero, some 4, 6, 5, 6) ∧
    (lookup_vnode_ref exConsts mountedRoot true mountedLinks 8 mountedRefs 1 [0x2E, 0x2E] 0).map
        (fun r => (r.2.1, r.2.2, r.1.refcount 4, r.1.refcount 3, r.1.refcount 1)) =
      some (.zero, some 4, 6, 5, 7) :=
  ⟨by decide, by decide, by decide, by decide, by decide⟩

/-- C39: with a signed `count` field, `fs_fildes_ref` on a negative descriptor
passes the only test `fd >= files->count`, reads the word `files->fd[fd]` in
front of the array and, when that word points to a record whose count stays
positive, returns that record instead of `NULL` and changes its count. Every
`fd >= files->count` is answered with `NULL` without a read or a write; with an
unsigned 32-bit `count` of at most `2^31` the same holds for negative `fd`. -/
theorem C39_negative_fd_reads (files : FilesTable) (fd count : Int) (hfd : fd < 0)
    (hmin : -2147483648 ≤ fd) (hc : 0 ≤ files.count) :
    (fs_fildes_ref true files fd count).reads = [fd] ∧
    (∀ f, files.fd fd = some f → 0 < f.refcount + count →
      (fs_fildes_ref true files fd count).file = some { f with refcount := f.refcount + count }) ∧
    (∀ f, files.fd fd = some f → f.refcount + count ≤ 0 →
      (fs_fildes_ref true files fd count).writes = [fd]) ∧
    (∀ fd2, fd2 ≥ files.count →
      (fs_fildes_ref true files fd2 count).file = none ∧
      (fs_fildes_ref true files fd2 count).reads = [] ∧
      (fs_fildes_ref true files fd2 count).writes = []) ∧
    (files.count ≤ 2147483648 →
      (fs_fildes_ref false files fd count).file = none ∧
      (fs_fildes_ref false files fd count).reads = [] ∧
      (fs_fildes_ref false files fd count).writes = []) := by
  have hlt : ¬ fd ≥ files.count := by omega
  refine ⟨?_, fun f hf hpos => ?_, fun f hf hneg => ?_, fun fd2 h2 => ?_, fun hcnt => ?_⟩
  · cases hx : files.fd fd with
    | none => simp [fs_fildes_ref, hlt, hx]
    | some f =>
      by_cases hz : f.refcount + count ≤ 0
      · simp [fs_fildes_ref, hlt, hx, hz]
      · simp [fs_fildes_ref, hlt, hx, hz]
  · have hz : ¬ f.refcount + count ≤ 0 := by omega
    simp [fs_fildes_ref, hlt, hf, hz]
  · simp [fs_fildes_ref, hlt, hf, hneg]
  · simp [fs_fildes_ref, h2]
  · have hu : fd % 4294967296 ≥ files.count := by omega
    simp [fs_fildes_ref, hu]

/-- Witness for C39: descriptor -1 on the one-slot table `exFiles`. -/
theorem C39_negative_fd_reads_witness :
    (fs_fildes_ref true exFiles (-1) 1).reads = [-1] ∧
    (fs_fildes_ref true exFiles (-1) 1).file = some ⟨2, 9, false⟩ :=
  ⟨(C39_negative_fd_reads exFiles (-1) 1 (by decide) (by decide) (by decide)).1,
   (C39_negative_fd_reads exFiles (-1) 1 (by decide) (by decide) (by decide)).2.1 ⟨1, 9, false⟩
     (by decide) (by decide)⟩

/-- One round of the loop of `remove_chain` on a cluster whose entry is
neither 0 nor 1: the entry is cleared, `free_clust` is incremented unless it
is unknown, and the loop goes on at the successor. -/
theorem remove_chain_loop_round (fs : FATFS) (hok : fs.fatOk) (hbo : fs.bytesOk) (c : Nat)
    (h2 : 2 ≤ c) (hc : c < fs.n_fatent) (hv : 2 ≤ fatVal fs c) :
    ∃ fsn, (∀ f1, remove_chain_loop (f1 + 1) fs c = remove_chain_loop f1 fsn (fatVal fs c)) ∧
      fsn.fatOk ∧ fsn.bytesOk ∧ fsn.n_fatent = fs.n_fatent ∧
      fsn.free_clust = (if fs.free_clust ≠ 0xFFFFFFFF then add32 fs.free_clust 1
        else fs.free_clust) ∧
      fatVal fsn c = 0 ∧
      ∀ d, d < fs.n_fatent → d ≠ c → fatVal fsn d = fatVal fs d := by
  obtain ⟨g1, g2, g3, g4, g5⟩ := get_fat_ok fs hok hbo c h2 hc
  obtain ⟨m1, -, -, m4, -, -, m7, m8, m9, -⟩ := meta_fields fs _ g4
  obtain ⟨p1, p2, p3, p4, p5, p6⟩ := put_fat_ok _ g2 g3 c 0 h2 (by rw [m4]; exact hc)
  obtain ⟨k1, -, -, k4, -, -, k7, k8, k9, -⟩ := meta_fields _ _ p4
  have hle := fatVal_le fs hbo c
  have hz : fatVal (put_fat (get_fat fs c).1 c 0).1 c = 0 := by
    rw [p5]; split_ifs <;> rfl
  have hstep : ∀ f1, remove_chain_loop (f1 + 1) fs c = remove_chain_loop f1
      (if (put_fat (get_fat fs c).1 c 0).1.free_clust ≠ 0xFFFFFFFF then
        { (put_fat (get_fat fs c).1 c 0).1 with
          free_clust := add32 (put_fat (get_fat fs c).1 c 0).1.free_clust 1,
          fsi_flag := (put_fat (get_fat fs c).1 c 0).1.fsi_flag ||| 1 }
       else (put_fat (get_fat fs c).1 c 0).1) (fatVal fs c) := by
    intro f1
    rw [remove_chain_loop]
    simp only [g1]
    rw [if_pos hc, if_neg (by omega), if_neg (by omega), if_neg (by omega),
      if_neg (by rw [p1]; simp)]
  by_cases hfk : (put_fat (get_fat fs c).1 c 0).1.free_clust ≠ 0xFFFFFFFF
  · obtain ⟨x1, x2, x3⟩ := free_hint_ok _ p2 p3
      (add32 (put_fat (get_fat fs c).1 c 0).1.free_clust 1)
      ((put_fat (get_fat fs c).1 c 0).1.fsi_flag ||| 1)
    rw [if_pos hfk] at hstep
    refine ⟨_, hstep, x1, x2, k4.trans m4, ?_, by rw [x3]; exact hz, fun d hd hdc => ?_⟩
    · rw [if_pos (by rw [← m8, ← k8]; exact hfk)]
      show add32 (put_fat (get_fat fs c).1 c 0).1.free_clust 1 = _
      rw [k8, m8]
    · rw [x3, p6 d (by rw [m4]; exact hd) hdc, g5 d hd]
  · rw [if_neg hfk] at hstep
    refine ⟨_, hstep, p2, p3, k4.trans m4, ?_, hz, fun d hd hdc => ?_⟩
    · rw [if_neg (by rw [← m8, ← k8]; exact hfk), k8, m8]
    · rw [p6 d (by rw [m4]; exact hd) hdc, g5 d hd]

/-- The loop of `remove_chain` returns within one round more than there are
non-free entries among the clusters `2 .. n_fatent - 1`, whatever the FAT
holds. -/
theorem remove_chain_loop_total : ∀ (m : Nat) (fs : FATFS) (c : Nat), fs.fatOk → fs.bytesOk →
    2 ≤ c → ((Finset.Ico 2 fs.n_fatent).filter (fun d => fatVal fs d ≠ 0)).card ≤ m →
    ∃ fs2 res, (∀ fuel, m + 1 ≤ fuel → remove_chain_loop fuel fs c = some (fs2, res)) ∧
      (res = FR_OK ∨ res = FR_INT_ERR) ∧
      ((∀ d, 2 ≤ d → d < fs.n_fatent → fatVal fs d ≠ 1) → res = FR_OK) ∧
      (fs.free_clust + m ≤ 0xFFFFFFFE →
        fs.free_clust ≤ fs2.free_clust ∧ fs2.free_clust ≤ fs.free_clust + m) := by
  intro m
  induction m with
  | zero =>
    intro fs c hok hbo h2 hcard
    by_cases hc : c < fs.n_fatent
    · obtain ⟨g1, g2, g3, g4, g5⟩ := get_fat_ok fs hok hbo c h2 hc
      obtain ⟨-, -, -, -, -, -, -, m8, -, -⟩ := meta_fields fs _ g4
      have hv0 : fatVal fs c = 0 := by
        by_contra hne
        have hmem : c ∈ (Finset.Ico 2 fs.n_fatent).filter (fun d => fatVal fs d ≠ 0) :=
          Finset.mem_filter.mpr ⟨Finset.mem_Ico.mpr ⟨h2, hc⟩, hne⟩
        have := Finset.card_pos.mpr ⟨c, hmem⟩
        omega
      refine ⟨(get_fat fs c).1, FR_OK, fun fuel hf => ?_, Or.inl rfl, fun _ => rfl, fun _ => ?_⟩
      · obtain ⟨f1, rfl⟩ : ∃ f1, fuel = f1 + 1 := ⟨fuel - 1, by omega⟩
        rw [remove_chain_loop]
        simp only [g1]
        rw [if_pos hc, if_pos hv0]
      · rw [m8]; omega
    · refine ⟨fs, FR_OK, fun fuel hf => ?_, Or.inl rfl, fun _ => rfl, fun _ => by omega⟩
      obtain ⟨f1, rfl⟩ : ∃ f1, fuel = f1 + 1 := ⟨fuel - 1, by omega⟩
      rw [remove_chain_loop]
      simp only []
      rw [if_neg hc]
  | succ m ih =>
    intro fs c hok hbo h2 hcard
    by_cases hc : c < fs.n_fatent
    · obtain ⟨g1, g2, g3, g4, g5⟩ := get_fat_ok fs hok hbo c h2 hc
      obtain ⟨-, -, -, -, -, -, -, m8, -, -⟩ := meta_fields fs _ g4
      by_cases hv0 : fatVal fs c = 0
      · refine ⟨(get_fat fs c).1, FR_OK, fun fuel hf => ?_, Or.inl rfl, fun _ => rfl, fun _ => ?_⟩
        · obtain ⟨f1, rfl⟩ : ∃ f1, fuel = f1 + 1 := ⟨fuel - 1, by omega⟩
          rw [remove_chain_loop]
          simp only [g1]
          rw [if_pos hc, if_pos hv0]
        · rw [m8]; omega
      by_cases hv1 : fatVal fs c = 1
      · refine ⟨(get_fat fs c).1, FR_INT_ERR, fun fuel hf => ?_, Or.inr rfl,
          fun hno => absurd hv1 (hno c h2 hc), fun _ => ?_⟩
        · obtain ⟨f1, rfl⟩ : ∃ f1, fuel = f1 + 1 := ⟨fuel - 1, by omega⟩
          rw [remove_chain_loop]
          simp only [g1]
          rw [if_pos hc, if_neg hv0, if_pos hv1]
        · rw [m8]; omega
      have hv : 2 ≤ fatVal fs c := by omega
      obtain ⟨fsn, r1, r2, r3, r4, r5, r6, r7⟩ := remove_chain_loop_round fs hok hbo c h2 hc hv
      have hsub : (Finset.Ico 2 fsn.n_fatent).filter (fun d => fatVal fsn d ≠ 0) ⊆
          ((Finset.Ico 2 fs.n_fatent).filter (fun d => fatVal fs d ≠ 0)).erase c := by
        intro d hd
        rw [Finset.mem_filter, Finset.mem_Ico, r4] at hd
        have hdc : d ≠ c := fun h => hd.2 (by rw [h]; exact r6)
        rw [Finset.mem_erase, Finset.mem_filter, Finset.mem_Ico]
        refine ⟨hdc, hd.1, ?_⟩
        rw [← r7 d hd.1.2 hdc]
        exact hd.2
      have hmem : c ∈ (Finset.Ico 2 fs.n_fatent).filter (fun d => fatVal fs d ≠ 0) :=
        Finset.mem_filter.mpr ⟨Finset.mem_Ico.mpr ⟨h2, hc⟩, hv0⟩
      have hcard2 : ((Finset.Ico 2 fsn.n_fatent).filter (fun d => fatVal fsn d ≠ 0)).card ≤ m := by
        have h1 := Finset.card_le_card hsub
        rw [Finset.card_erase_of_mem hmem] at h1
        omega
      obtain ⟨fs2, res, i1, i2, i3, i4⟩ := ih fsn (fatVal fs c) r2 r3 hv hcard2
      refine ⟨fs2, res, fun fuel hf => ?_, i2, fun hno => i3 (fun d hd2 hdn => ?_), fun hfree => ?_⟩
      · obtain ⟨f1, rfl⟩ : ∃ f1, fuel = f1 + 1 := ⟨fuel - 1, by omega⟩
        rw [r1 f1]
        exact i1 f1 (by omega)
      · rw [r4] at hdn
        by_cases hdc : d = c
        · rw [hdc, r6]; decide
        · rw [r7 d hdn hdc]; exact hno d hd2 hdn
      · have hfc : fsn.free_clust = fs.free_clust + 1 := by
          rw [r5, if_pos (by omega)]
          unfold add32
          omega
        have := i4 (by omega)
        omega
    · refine ⟨fs, FR_OK, fun fuel hf => ?_, Or.inl rfl, fun _ => rfl, fun _ => by omega⟩
      obtain ⟨f1, rfl⟩ : ∃ f1, fuel = f1 + 1 := ⟨fuel - 1, by omega⟩
      rw [remove_chain_loop]
      simp only []
      rw [if_neg hc]

/-- C36: on a well-formed writable volume on a faithful device,
`remove_chain(fs, clst)` returns for every content of the FAT, loops
included: its loop returns within `n_fatent - 1` rounds, of which all but the
last free one cluster, so at most `n_fatent - 2` clusters are freed (a known
`free_clust` grows by at most that much); the result is `FR_OK` or
`FR_INT_ERR`, and it is `FR_OK` whenever no entry reads 1, a cluster that is
visited again reading as free. -/
theorem C36_remove_chain_terminates (fs : FATFS) (hok : fs.fatOk) (hbo : fs.bytesOk) (clst : Nat)
    (h2 : 2 ≤ clst) (hc : clst < fs.n_fatent) :
    ∃ fs2 res, remove_chain fs clst = some (fs2, res) ∧
      remove_chain_loop (fs.n_fatent - 1) fs clst = some (fs2, res) ∧
      (res = FR_OK ∨ res = FR_INT_ERR) ∧
      ((∀ d, 2 ≤ d → d < fs.n_fatent → fatVal fs d ≠ 1) → res = FR_OK) ∧
      (fs.free_clust + (fs.n_fatent - 2) ≤ 0xFFFFFFFE →
        fs.free_clust ≤ fs2.free_clust ∧ fs2.free_clust ≤ fs.free_clust + (fs.n_fatent - 2)) := by
  have hcard : ((Finset.Ico 2 fs.n_fatent).filter (fun d => fatVal fs d ≠ 0)).card
      ≤ fs.n_fatent - 2 := by
    have := Finset.card_filter_le (Finset.Ico 2 fs.n_fatent) (fun d => fatVal fs d ≠ 0)
    rw [Nat.card_Ico] at this
    exact this
  obtain ⟨fs2, res, i1, i2, i3, i4⟩ :=
    remove_chain_loop_total (fs.n_fatent - 2) fs clst hok hbo h2 hcard
  refine ⟨fs2, res, ?_, i1 _ (by omega), i2, i3, i4⟩
  unfold remove_chain
  rw [if_neg (by omega)]
  exact i1 _ (by omega)

theorem cycleVol_ok : cycleVol.fatOk ∧ cycleVol.bytesOk := by
  refine ⟨⟨⟨rfl, ⟨fun _ => rfl, fun _ => rfl⟩, (by decide : 1 ≤ 1),
        (by decide : 1 + 1 * 1 ≤ 4294967296), (by decide : 0xFFFFFFFF < 4294967296),
        fun _ _ => rfl⟩,
      Or.inl rfl, (by decide : 0 < 512), (by decide : 512 % 4 = 0),
      (by decide : 4 ≤ 1073741824), (by decide : (4 * 3 + 1) / 2 ≤ 1 * 512)⟩,
    fun _ => (by decide : (0 : Nat) < 256), fun s k => ?_⟩
  show (if s = 1 then bytes [0xF8, 0xFF, 0xFF, 0x03, 0x20, 0x00] else fun _ => 0) k < 256
  split_ifs
  · exact bytes_lt _ (by decide) k
  · exact (by decide : (0 : Nat) < 256)

/-- Witness for C36: on the volume `cycleVol`, whose clusters 2 and 3 form a
loop, `remove_chain(fs, 2)` returns `FR_OK` with both clusters freed. -/
theorem C36_remove_chain_terminates_witness :
    (remove_chain cycleVol 2).map (fun r => (r.2, fatVal r.1 2, fatVal r.1 3, r.1.free_clust))
      = some (FR_OK, 0, 0, 2) ∧
    ∃ fs2 res, remove_chain cycleVol 2 = some (fs2, res) ∧
      remove_chain_loop (cycleVol.n_fatent - 1) cycleVol 2 = some (fs2, res) ∧
      (res = FR_OK ∨ res = FR_INT_ERR) ∧
      ((∀ d, 2 ≤ d → d < cycleVol.n_fatent → fatVal cycleVol d ≠ 1) → res = FR_OK) ∧
      (cycleVol.free_clust + (cycleVol.n_fatent - 2) ≤ 0xFFFFFFFE →
        cycleVol.free_clust ≤ fs2.free_clust ∧
        fs2.free_clust ≤ cycleVol.free_clust + (cycleVol.n_fatent - 2)) :=
  ⟨by decide, C36_remove_chain_terminates cycleVol cycleVol_ok.1 cycleVol_ok.2 2 (by decide)
    (by decide)⟩

/-- The first loop of `create_name` stores only non-zero characters and at
most `_MAX_LFN` of them. -/
theorem create_name_seg_nonzero (cv : Nat → Nat → Nat) :
    ∀ (p : List Nat) (si : Nat) (lfn : Nat → Nat) (di w si1 : Nat) (lfn1 : Nat → Nat) (di1 : Nat),
      (∀ k, k < di → lfn k ≠ 0) → di ≤ _MAX_LFN →
      create_name_seg cv p si lfn di = .ok (w, si1, lfn1, di1) →
      (∀ k, k < di1 → lfn1 k ≠ 0) ∧ di1 ≤ _MAX_LFN := by
  intro p
  induction p with
  | nil =>
    intro si lfn di w si1 lfn1 di1 h0 hd h
    simp only [create_name_seg, Except.ok.injEq, Prod.mk.injEq] at h
    obtain ⟨-, -, h3, h4⟩ := h
    subst h3; subst h4
    exact ⟨h0, hd⟩
  | cons c rest ih =>
    intro si lfn di w si1 lfn1 di1 h0 hd h
    rw [create_name_seg] at h
    by_cases h1 : c < 0x20 ∨ c = 0x2F ∨ c = 0x5C
    · rw [if_pos h1] at h
      simp only [Except.ok.injEq, Prod.mk.injEq] at h
      obtain ⟨-, -, h3, h4⟩ := h
      subst h3; subst h4
      exact ⟨h0, hd⟩
    · rw [if_neg h1] at h
      by_cases h2 : di ≥ _MAX_LFN
      · rw [if_pos h2] at h; cases h
      · rw [if_neg h2] at h
        dsimp only at h
        by_cases h3 : cv (c &&& 0xFF) 1 = 0
        · rw [if_pos h3] at h; cases h
        · rw [if_neg h3] at h
          by_cases h4 : cv (c &&& 0xFF) 1 < 0x80 ∧ cv (c &&& 0xFF) 1 ∈ lfnIllegal
          · rw [if_pos h4] at h; cases h
          · rw [if_neg h4] at h
            refine ih _ _ _ _ _ _ _ (fun k hk => ?_) (by omega) h
            by_cases hkd : k = di
            · rw [hkd, Function.update_same]; exact h3
            · rw [Function.update_noteq hkd]; exact h0 k (by omega)

theorem create_name_seg_error (cv : Nat → Nat → Nat) :
    ∀ (p : List Nat) (si : Nat) (lfn : Nat → Nat) (di : Nat) (e : FRESULT),
      create_name_seg cv p si lfn di = .error e → e = FR_INVALID_NAME := by
  intro p
  induction p with
  | nil => intro si lfn di e h; simp [create_name_seg] at h
  | cons c rest ih =>
    intro si lfn di e h
    rw [create_name_seg] at h
    by_cases h1 : c < 0x20 ∨ c = 0x2F ∨ c = 0x5C
    · rw [if_pos h1] at h; cases h
    rw [if_neg h1] at h
    by_cases h2 : di ≥ _MAX_LFN
    · rw [if_pos h2] at h; cases h; rfl
    rw [if_neg h2] at h
    dsimp only at h
    by_cases h3 : cv (c &&& 0xFF) 1 = 0
    · rw [if_pos h3] at h; cases h; rfl
    rw [if_neg h3] at h
    by_cases h4 : cv (c &&& 0xFF) 1 < 0x80 ∧ cv (c &&& 0xFF) 1 ∈ lfnIllegal
    · rw [if_pos h4] at h; cases h; rfl
    rw [if_neg h4] at h
    exact ih _ _ _ _ h

theorem create_name_strip_spec (lfn : Nat → Nat) :
    ∀ n, create_name_strip lfn n ≤ n ∧
      (create_name_strip lfn n ≠ 0 →
        lfn (create_name_strip lfn n - 1) ≠ 0x20 ∧ lfn (create_name_strip lfn n - 1) ≠ 0x2E) := by
  intro n
  induction n with
  | zero => exact ⟨Nat.le_refl _, fun h => absurd rfl h⟩
  | succ n ih =>
    rw [create_name_strip]
    by_cases h : lfn n ≠ 0x20 ∧ lfn n ≠ 0x2E
    · rw [if_pos h]
      exact ⟨Nat.le_refl _, fun _ => h⟩
    · rw [if_neg h]
      exact ⟨by omega, ih.2⟩

theorem create_name_lead_spec (lfn : Nat → Nat) :
    ∀ (fuel si k : Nat), si ≤ k → k ≤ si + fuel → lfn k ≠ 0x20 → lfn k ≠ 0x2E →
      lfn (create_name_lead lfn fuel si) ≠ 0x20 ∧ lfn (create_name_lead lfn fuel si) ≠ 0x2E ∧
      create_name_lead lfn fuel si ≤ k := by
  intro fuel
  induction fuel with
  | zero =>
    intro si k h1 h2 h3 h4
    have : k = si := by omega
    subst this
    exact ⟨h3, h4, Nat.le_refl _⟩
  | succ f ih =>
    intro si k h1 h2 h3 h4
    rw [create_name_lead]
    by_cases h : lfn si = 0x20 ∨ lfn si = 0x2E
    · rw [if_pos h]
      have hne : k ≠ si := by
        intro hk
        rw [hk] at h3 h4
        rcases h with h | h
        · exact h3 h
        · exact h4 h
      exact ih (si + 1) k (by omega) (by omega) h3 h4
    · rw [if_neg h]
      exact ⟨fun hx => h (Or.inl hx), fun hx => h (Or.inr hx), h1⟩

theorem create_name_ext_spec (lfn : Nat → Nat) :
    ∀ n, create_name_ext lfn n ≤ n ∧
      (create_name_ext lfn n ≠ 0 → lfn (create_name_ext lfn n - 1) = 0x2E) := by
  intro n
  induction n with
  | zero => exact ⟨Nat.le_refl _, fun h => absurd rfl h⟩
  | succ n ih =>
    rw [create_name_ext]
    by_cases h : lfn n ≠ 0x2E
    · rw [if_pos h]
      exact ⟨by omega, ih.2⟩
    · rw [if_neg h]
      exact ⟨Nat.le_refl _, fun _ => by simpa using h⟩

/-- Once a byte has been stored, the short-name loop of `create_name` does not
touch `fn[0]` again. -/
theorem create_name_sfn_keeps_first (cv : Nat → Nat → Nat) (Ex : Nat → Nat) (lfn : Nat → Nat)
    (di : Nat) :
    ∀ (fuel : Nat) (st st1 : SfnState),
      create_name_sfn cv Ex lfn di fuel st = some st1 → 1 ≤ st.i → st1.fn 0 = st.fn 0 := by
  intro fuel
  induction fuel with
  | zero => intro st st1 h _; rw [create_name_sfn] at h; cases h
  | succ f ih =>
    intro st st1 h hi
    rw [create_name_sfn] at h
    dsimp only at h
    by_cases h1 : lfn st.si = 0
    · rw [if_pos h1] at h
      cases h; rfl
    rw [if_neg h1] at h
    by_cases h2 : lfn st.si = 0x20 ∨ (lfn st.si = 0x2E ∧ st.si + 1 ≠ di)
    · rw [if_pos h2] at h
      have hx := ih _ _ h hi
      exact hx
    rw [if_neg h2] at h
    by_cases h3 : st.i ≥ st.ni ∨ st.si + 1 = di
    · rw [if_pos h3] at h
      by_cases h4 : st.ni = 11
      · rw [if_pos h4] at h
        cases h; rfl
      rw [if_neg h4] at h
      by_cases h5 : st.si + 1 > di
      · rw [if_pos h5] at h
        cases h; rfl
      rw [if_neg h5] at h
      have hx := ih _ _ h (by decide : 1 ≤ 8)
      exact hx
    rw [if_neg h3] at h
    have := ih _ _ h (show 1 ≤ st.i + 1 by omega)
    rw [this]
    show Function.update st.fn st.i _ 0 = st.fn 0
    rw [Function.update_noteq (by omega)]

/-- The short-name loop of `create_name` returns when the buffer has its
terminator at `T` and the fuel covers the characters left. -/
theorem create_name_sfn_total (cv : Nat → Nat → Nat) (Ex : Nat → Nat) (lfn : Nat → Nat)
    (di T : Nat) (hT : lfn T = 0) (hdi : di ≤ T) :
    ∀ (fuel : Nat) (st : SfnState), st.si ≤ T → T + 1 - st.si ≤ fuel →
      ∃ st1, create_name_sfn cv Ex lfn di fuel st = some st1 := by
  intro fuel
  induction fuel with
  | zero => intro st h1 h2; omega
  | succ f ih =>
    intro st hs hf
    rw [create_name_sfn]
    dsimp only
    by_cases h1 : lfn st.si = 0
    · rw [if_pos h1]; exact ⟨_, rfl⟩
    rw [if_neg h1]
    have hlt : st.si < T := by
      rcases Nat.lt_or_ge st.si T with h | h
      · exact h
      · have : st.si = T := by omega
        rw [this] at h1
        exact absurd hT h1
    by_cases h2 : lfn st.si = 0x20 ∨ (lfn st.si = 0x2E ∧ st.si + 1 ≠ di)
    · rw [if_pos h2]
      exact ih _ (by show st.si + 1 ≤ T; omega) (by show T + 1 - (st.si + 1) ≤ f; omega)
    rw [if_neg h2]
    by_cases h3 : st.i ≥ st.ni ∨ st.si + 1 = di
    · rw [if_pos h3]
      by_cases h4 : st.ni = 11
      · rw [if_pos h4]; exact ⟨_, rfl⟩
      rw [if_neg h4]
      by_cases h5 : st.si + 1 > di
      · rw [if_pos h5]; exact ⟨_, rfl⟩
      rw [if_neg h5]
      exact ih _ (by show di ≤ T; omega) (by show T + 1 - di ≤ f; omega)
    rw [if_neg h3]
    exact ih _ (by show st.si + 1 ≤ T; omega) (by show T + 1 - (st.si + 1) ≤ f; omega)

/-- The first byte that the short-name loop of `create_name` stores, when it
starts on a character that is neither NUL, space nor dot. -/
theorem create_name_sfn_first (cv : Nat → Nat → Nat) (Ex : Nat → Nat) (lfn : Nat → Nat)
    (di : Nat) (hEx : ∀ x, Ex x < 256 ∧ Ex x ≠ 0x20) (fuel : Nat) (st st1 : SfnState)
    (hi : st.i = 0) (hni : st.ni = 8) (h0 : lfn st.si ≠ 0) (hsp : lfn st.si ≠ 0x20)
    (hdot : lfn st.si ≠ 0x2E) (hdi : st.si + 1 ≠ di)
    (h : create_name_sfn cv Ex lfn di fuel st = some st1) :
    st1.fn 0 ≠ 0 ∧ st1.fn 0 ≠ 0x20 ∧ st1.fn 0 < 256 := by
  obtain ⟨f, rfl⟩ : ∃ f, fuel = f + 1 := by
    cases fuel with
    | zero => rw [create_name_sfn] at h; cases h
    | succ f => exact ⟨f, rfl⟩
  rw [create_name_sfn] at h
  dsimp only at h
  rw [if_neg h0, if_neg (by rintro (hx | hx); exact hsp hx; exact hdot hx.1),
    if_neg (by rw [hi, hni]; rintro (hx | hx); omega; exact hdi hx)] at h
  have hk := create_name_sfn_keeps_first cv Ex lfn di f _ _ h (show 1 ≤ st.i + 1 by omega)
  rw [hk]
  show Function.update st.fn st.i _ 0 ≠ 0 ∧ Function.update st.fn st.i _ 0 ≠ 0x20 ∧
    Function.update st.fn st.i _ 0 < 256
  rw [hi, Function.update_same]
  obtain ⟨w, hw⟩ : ∃ w, w = lfn st.si := ⟨_, rfl⟩
  rw [← hw] at h0 hsp hdot ⊢
  obtain ⟨w1, hw1⟩ : ∃ w1, w1 = (if w ≥ 0x80 then
      (if cv w 0 ≠ 0 then Ex (cv w 0 - 0x80) else cv w 0) else w) := ⟨_, rfl⟩
  rw [← hw1]
  have hw1p : w1 = 0 ∨ (w1 < 256 ∧ w1 ≠ 0x20) := by
    rw [hw1]
    by_cases ha : w ≥ 0x80
    · rw [if_pos ha]
      by_cases hb : cv w 0 ≠ 0
      · rw [if_pos hb]; exact Or.inr (hEx _)
      · rw [if_neg hb]; exact Or.inl (by simpa using hb)
    · rw [if_neg ha]
      exact Or.inr ⟨by omega, hsp⟩
  by_cases hbad : (decide (w1 = 0 ∨ w1 ∈ sfnReplaced)) = true
  · rw [if_pos hbad]
    decide
  · rw [if_neg hbad]
    have hnz : w1 ≠ 0 := by
      intro hz
      apply hbad
      simp [hz]
    rcases hw1p with hz | ⟨hlt, hns⟩
    · exact absurd hz hnz
    by_cases hu : ka_isupper w1 = true
    · rw [if_pos hu, Nat.mod_eq_of_lt hlt]
      exact ⟨hnz, hns, hlt⟩
    · rw [if_neg hu]
      by_cases hl : ka_islower w1 = true
      · rw [if_pos hl]
        unfold ka_islower at hl
        simp only [Bool.and_eq_true, decide_eq_true_eq] at hl
        omega
      · rw [if_neg hl, Nat.mod_eq_of_lt hlt]
        exact ⟨hnz, hns, hlt⟩

/-- C32: with a table `ExCvt` of bytes none of which is a space, `create_name`
returns for every path, and whenever it returns `FR_OK` the first byte of the
short name is neither `0x00`, `0x20` nor `0xE5`; the byte `0x05`, which stands
for a first byte `0xE5`, is given back as `0xE5` by the name loop of
`get_fileinfo`. -/
theorem C32_first_byte (cv : Nat → Nat → Nat) (Ex : Nat → Nat) (lfn0 fn0 : Nat → Nat)
    (path : List Nat) (hEx : ∀ x, Ex x < 256 ∧ Ex x ≠ 0x20) :
    (∃ x, create_name cv Ex lfn0 fn0 path = some x) ∧
    ∀ r, create_name cv Ex lfn0 fn0 path = some (FR_OK, r) →
      r.fn 0 ≠ 0x00 ∧ r.fn 0 ≠ 0x20 ∧ r.fn 0 ≠ 0xE5 ∧
      (r.fn 0 = 0x05 → ∀ dir, (get_fileinfo_sfn (sfn_entry dir r.fn) 11 0).head? = some 0xE5) := by
  unfold create_name
  dsimp only
  cases hseg : create_name_seg cv (path.dropWhile fun c => c = 0x2F ∨ c = 0x5C) 0 lfn0 0 with
  | error e =>
    refine ⟨⟨_, rfl⟩, fun r hr => ?_⟩
    have he := create_name_seg_error cv _ _ _ _ e hseg
    subst he
    simp at hr
  | ok x =>
    obtain ⟨w, si, lfn, di⟩ := x
    dsimp only
    obtain ⟨n1, n2⟩ := create_name_seg_nonzero cv _ 0 lfn0 0 w si lfn di
      (fun k hk => by omega) (by decide) hseg
    obtain ⟨s1, s2⟩ := create_name_strip_spec lfn di
    by_cases hd0 : create_name_strip lfn di = 0
    · rw [if_pos hd0]
      exact ⟨⟨_, rfl⟩, fun r hr => by simp at hr⟩
    rw [if_neg hd0]
    obtain ⟨T, hTd⟩ : ∃ T, T = create_name_strip lfn di := ⟨_, rfl⟩
    rw [← hTd] at s1 s2 hd0 ⊢
    obtain ⟨s3, s4⟩ := s2 hd0
    obtain ⟨U, hU⟩ : ∃ U, U = Function.update lfn T 0 := ⟨_, rfl⟩
    rw [← hU]
    have hUT : U T = 0 := by rw [hU, Function.update_same]
    have hUlt : ∀ k, k < T → U k = lfn k := fun k hk => by
      rw [hU, Function.update_noteq (by omega)]
    obtain ⟨l1, l2, l3⟩ := create_name_lead_spec U T 0 (T - 1) (by omega) (by omega)
      (by rw [hUlt _ (by omega)]; exact s3) (by rw [hUlt _ (by omega)]; exact s4)
    obtain ⟨e1, e2⟩ := create_name_ext_spec U T
    obtain ⟨S, hS⟩ : ∃ S, S = create_name_lead U T 0 := ⟨_, rfl⟩
    obtain ⟨E, hE⟩ : ∃ E, E = create_name_ext U T := ⟨_, rfl⟩
    rw [← hS] at l1 l2 l3 ⊢
    rw [← hE] at e1 e2 ⊢
    have hS0 : U S ≠ 0 := by
      rw [hUlt S (by omega)]
      exact n1 S (by omega)
    have hSE : S + 1 ≠ E := by
      intro hx
      have := e2 (by omega)
      rw [← hx] at this
      exact l2 (by simpa using this)
    have hfuel : T + 1 - S ≤ _MAX_LFN + 2 := by
      have : T ≤ 255 := by unfold _MAX_LFN at n2; omega
      unfold _MAX_LFN
      omega
    obtain ⟨st1, hst⟩ := create_name_sfn_total cv Ex U E T hUT e1 (_MAX_LFN + 2)
      ⟨memset fn0 0 0x20 11, S, 0, 8, 0,
        if S ≠ 0 then (if w < 0x20 then NS_LAST else 0) ||| (NS_LOSS ||| NS_LFN)
        else (if w < 0x20 then NS_LAST else 0)⟩ (by show S ≤ T; omega) hfuel
    rw [hst]
    dsimp only
    refine ⟨⟨_, rfl⟩, fun r hr => ?_⟩
    obtain ⟨f1, f2, f3⟩ := create_name_sfn_first cv Ex U E hEx _ _ st1 rfl rfl hS0 l1 l2 hSE hst
    simp only [Option.some.injEq, Prod.mk.injEq, true_and] at hr
    subst hr
    have hfn : (Function.update (if st1.fn 0 = DDE then Function.update st1.fn 0 NDDE else st1.fn) NS
        (create_name_flags st1.cf (if st1.ni = 8 then st1.b * 4 % 256 else st1.b))) 0 =
        if st1.fn 0 = DDE then NDDE else st1.fn 0 := by
      rw [Function.update_noteq (by decide)]
      split_ifs
      · rw [Function.update_same]
      · rfl
    dsimp only
    rw [hfn]
    refine ⟨?_, ?_, ?_, fun h5 dir => ?_⟩
    · split_ifs
      · decide
      · exact f1
    · split_ifs
      · decide
      · exact f2
    · split_ifs with hx
      · decide
      · exact hx
    · have he : sfn_entry dir (Function.update
          (if st1.fn 0 = DDE then Function.update st1.fn 0 NDDE else st1.fn) NS
          (create_name_flags st1.cf (if st1.ni = 8 then st1.b * 4 % 256 else st1.b))) 0 = 0x05 := by
        unfold sfn_entry memcpy DIR_NTres
        rw [Function.update_noteq (by decide), if_pos (by omega)]
        rw [Nat.zero_sub, Nat.zero_add, hfn]
        exact h5
      rw [get_fileinfo_sfn, if_pos (by decide)]
      simp only [he]
      rw [if_neg (by decide)]
      simp [NDDE, DDE, ka_isupper]

/-- Witness for C32: with the identity conversion and a table that keeps
`0xE5`, the name made of the single character `0xE5` gets the first byte
`0x05`, which `get_fileinfo` gives back as `0xE5`. -/
theorem C32_first_byte_witness :
    (create_name (fun w _ => w) (fun x => if x < 128 then x + 0x80 else 0x80) (fun _ => 0)
        (fun _ => 0) [0xE5]).map (fun x => (x.1, x.2.fn 0)) = some (FR_OK, 0x05) ∧
    ((∃ x, create_name (fun w _ => w) (fun x => if x < 128 then x + 0x80 else 0x80) (fun _ => 0)
        (fun _ => 0) [0xE5] = some x) ∧
    ∀ r, create_name (fun w _ => w) (fun x => if x < 128 then x + 0x80 else 0x80) (fun _ => 0)
        (fun _ => 0) [0xE5] = some (FR_OK, r) →
      r.fn 0 ≠ 0x00 ∧ r.fn 0 ≠ 0x20 ∧ r.fn 0 ≠ 0xE5 ∧
      (r.fn 0 = 0x05 →
        ∀ dir, (get_fileinfo_sfn (sfn_entry dir r.fn) 11 0).head? = some 0xE5)) :=
  ⟨by decide, C32_first_byte (fun w _ => w) (fun x => if x < 128 then x + 0x80 else 0x80)
    (fun _ => 0) (fun _ => 0) [0xE5] (fun x => by dsimp only; split_ifs <;> omega)⟩

theorem lfn_len_le (lfn : Nat → Nat) : ∀ (fuel n : Nat), lfn_len lfn fuel n ≤ n + fuel := by
  intro fuel
  induction fuel with
  | zero => intro n; exact Nat.le_refl _
  | succ f ih =>
    intro n
    rw [lfn_len]
    split_ifs
    · have := ih (n + 1); omega
    · omega

/-- A successful `dir_next` moves to the next higher index. -/
theorem dir_next_index (fs : FATFS) (dp : FF_DIR) (s : Bool) (fs1 : FATFS) (dp1 : FF_DIR)
    (h : dir_next fs dp s = some (fs1, dp1, FR_OK)) (hi : dp.index < 65536) :
    dp1.index = dp.index + 1 ∧ dp1.index < 65536 := by
  have key : ∀ (x : FATFS × FF_DIR × FRESULT), x.2.1.index = (dp.index + 1) % 65536 →
      ¬ (dp.index + 1 &&& 65535 = 0 ∨ dp.sect = 0) → some x = some (fs1, dp1, FR_OK) →
        (dp1.index = dp.index + 1 ∧ dp1.index < 65536) := by
    intro x hxi hc hx
    rw [Option.some.injEq] at hx
    rw [hx] at hxi
    have h0 : (dp.index + 1) % 65536 ≠ 0 := by
      intro h0
      exact hc (Or.inl (by rw [land_65535]; exact h0))
    dsimp only at hxi
    omega
  unfold dir_next at h
  dsimp only at h
  by_cases c1 : dp.index + 1 &&& 65535 = 0 ∨ dp.sect = 0
  · rw [if_pos c1] at h; simp at h
  rw [if_neg c1] at h
  by_cases c2 : (dp.index + 1) % (fs.ssize / SZ_DIR) = 0
  swap
  · rw [if_neg c2] at h; exact key _ rfl c1 h
  rw [if_pos c2] at h
  by_cases c3 : dp.clust = 0
  · rw [if_pos c3] at h
    by_cases c4 : dp.index + 1 ≥ fs.n_rootdir
    · rw [if_pos c4] at h; simp at h
    · rw [if_neg c4] at h; exact key _ rfl c1 h
  rw [if_neg c3] at h
  by_cases c5 : (dp.index + 1) / (fs.ssize / SZ_DIR) &&& sub32 fs.csize 1 = 0
  swap
  · rw [if_neg c5] at h; exact key _ rfl c1 h
  rw [if_pos c5] at h
  by_cases c6 : (get_fat fs dp.clust).2 ≤ 1
  · rw [if_pos c6] at h; simp at h
  rw [if_neg c6] at h
  by_cases c7 : (get_fat fs dp.clust).2 = 4294967295
  · rw [if_pos c7] at h; simp at h
  rw [if_neg c7] at h
  by_cases c8 : (get_fat fs dp.clust).2 ≥ (get_fat fs dp.clust).1.n_fatent
  swap
  · rw [if_neg c8] at h; exact key _ rfl c1 h
  rw [if_pos c8] at h
  by_cases c9 : ¬ (get_fat fs dp.clust).1.readonly = true
  swap
  · rw [if_neg c9] at h; simp at h
  rw [if_pos c9] at h
  by_cases c10 : ¬ s = true
  · rw [if_pos c10] at h; simp at h
  rw [if_neg c10] at h
  cases hcc : create_chain (get_fat fs dp.clust).1 dp.clust with
  | none => rw [hcc] at h; cases h
  | some x =>
    obtain ⟨fsc, clst⟩ := x
    rw [hcc] at h
    dsimp only at h
    by_cases d1 : clst = 0
    · rw [if_pos d1] at h; simp at h
    rw [if_neg d1] at h
    by_cases d2 : clst = 1
    · rw [if_pos d2] at h; simp at h
    rw [if_neg d2] at h
    by_cases d3 : clst = 4294967295
    · rw [if_pos d3] at h; simp at h
    rw [if_neg d3] at h
    by_cases d4 : (sync_window fsc).2 ≠ FR_OK
    · rw [if_pos d4] at h; simp at h
    rw [if_neg d4] at h
    split_ifs at h
    · simp at h
    · exact key _ rfl c1 h

/-- Whatever `dir_sdi` returns, the index of the directory object is the
requested one as a 16-bit value. -/
theorem dir_sdi_index (fs : FATFS) (dp : FF_DIR) (idx : Nat) (fs1 : FATFS) (dp1 : FF_DIR)
    (r : FRESULT) (h : dir_sdi fs dp idx = some (fs1, dp1, r)) : dp1.index = idx % 65536 := by
  have key : ∀ (x : FATFS × FF_DIR × FRESULT), x.2.1.index = idx % 65536 →
      some x = some (fs1, dp1, r) → dp1.index = idx % 65536 := by
    intro x hx he
    rw [Option.some.injEq] at he
    rw [he] at hx
    exact hx
  unfold dir_sdi at h
  dsimp only at h
  by_cases c1 : dp.sclust = 1 ∨ dp.sclust ≥ fs.n_fatent
  · rw [if_pos c1] at h; exact key _ rfl h
  rw [if_neg c1] at h
  by_cases c2 : (if dp.sclust = 0 ∧ fs.fs_type = FS_FAT32 then fs.dirbase else dp.sclust) = 0
  · rw [if_pos c2] at h
    by_cases c3 : idx ≥ fs.n_rootdir
    · rw [if_pos c3] at h; exact key _ rfl h
    · rw [if_neg c3] at h
      refine key _ ?_ h
      dsimp only
      split_ifs <;> rfl
  rw [if_neg c2] at h
  split at h
  · cases h
  · exact key _ rfl h
  · refine key _ ?_ h
    dsimp only
    split_ifs <;> rfl

/-- In the loop of `dir_alloc` the count of blank entries never exceeds the
index, so on success the `nent` entries end at the index reached. -/
theorem dir_alloc_loop_index (nent : Nat) :
    ∀ (fuel : Nat) (fs : FATFS) (dp : FF_DIR) (n : Nat) (fs1 : FATFS) (dp1 : FF_DIR),
      dp.index < 65536 → n ≤ dp.index →
      dir_alloc_loop nent fuel fs dp n = some (fs1, dp1, FR_OK) →
        nent ≤ dp1.index + 1 ∧ dp1.index < 65536 := by
  intro fuel
  induction fuel with
  | zero => intro fs dp n fs1 dp1 _ _ h; cases h
  | succ fuel ih =>
    intro fs dp n fs1 dp1 hi hn h
    rw [dir_alloc_loop] at h
    dsimp only at h
    by_cases c1 : (move_window fs dp.sect).2 ≠ FR_OK
    · rw [if_pos c1] at h
      rw [Option.some.injEq] at h
      exact absurd (congrArg (fun x => x.2.2) h) c1
    rw [if_neg c1] at h
    by_cases c2 : (decide (dirByte (move_window fs dp.sect).1 dp 0 = DDE ∨
        dirByte (move_window fs dp.sect).1 dp 0 = 0) = true) ∧ add32 n 1 = nent
    · rw [if_pos c2] at h
      rw [Option.some.injEq] at h
      have e : dp = dp1 := congrArg (fun x => x.2.1) h
      rw [← e, ← c2.2]
      unfold add32
      omega
    rw [if_neg c2] at h
    cases hn1 : dir_next (move_window fs dp.sect).1 dp true with
    | none => rw [hn1] at h; cases h
    | some x =>
      obtain ⟨fs2, dp2, r⟩ := x
      rw [hn1] at h
      dsimp only at h
      by_cases c3 : r = FR_OK
      · rw [if_pos c3] at h
        subst c3
        have hx := dir_next_index (move_window fs dp.sect).1 dp true fs2 dp2 hn1 hi
        refine ih fs2 dp2 _ fs1 dp1 hx.2 ?_ h
        split_ifs
        · unfold add32; omega
        · omega
      · rw [if_neg c3] at h
        rw [Option.some.injEq] at h
        exact absurd (congrArg (fun x => x.2.2) h) c3

theorem dir_alloc_index (fs : FATFS) (dp : FF_DIR) (nent : Nat) (fs1 : FATFS) (dp1 : FF_DIR)
    (h : dir_alloc fs dp nent = some (fs1, dp1, FR_OK)) :
    nent ≤ dp1.index + 1 ∧ dp1.index < 65536 := by
  unfold dir_alloc at h
  cases hs : dir_sdi fs dp 0 with
  | none => rw [hs] at h; cases h
  | some x =>
    obtain ⟨fs2, dp2, r⟩ := x
    rw [hs] at h
    dsimp only at h
    have hi := dir_sdi_index fs dp 0 fs2 dp2 r hs
    by_cases c1 : r = FR_OK
    · rw [if_pos c1] at h
      cases hl : dir_alloc_loop nent 65537 fs2 dp2 0 with
      | none => rw [hl] at h; cases h
      | some y =>
        obtain ⟨fs3, dp3, r3⟩ := y
        rw [hl] at h
        simp only [Option.map_some', Option.some.injEq] at h
        by_cases c2 : r3 = FR_NO_FILE
        · rw [if_pos c2] at h
          have e3 : FR_DENIED = FR_OK := congrArg (fun x => x.2.2) h
          cases e3
        · rw [if_neg c2] at h
          have e1 : fs3 = fs1 := congrArg (fun x => x.1) h
          have e2 : dp3 = dp1 := congrArg (fun x => x.2.1) h
          have e3 : r3 = FR_OK := congrArg (fun x => x.2.2) h
          subst e1 e2 e3
          exact dir_alloc_loop_index nent 65537 fs2 dp2 0 fs3 dp3 (by rw [hi]; decide)
            (Nat.zero_le _) hl
    · rw [if_neg c1] at h
      rw [Option.some.injEq] at h
      by_cases c2 : r = FR_NO_FILE
      · rw [if_pos c2] at h
        have e3 : FR_DENIED = FR_OK := congrArg (fun x => x.2.2) h
        cases e3
      · rw [if_neg c2] at h
        exact absurd (congrArg (fun x => x.2.2) h) c1

/-- The numbered-name loop of `dir_register` ends with `FR_OK` only when all
99 numbers are taken. -/
theorem dir_register_numname_ok (w : Nat → Nat) (sn : Nat → Nat) (lfn : List Nat) :
    ∀ (fuel n : Nat) (fs : FATFS) (dp : FF_DIR) (res : FRESULT) (fs1 : FATFS) (dp1 : FF_DIR)
      (n1 : Nat), fuel + n = 100 →
      dir_register_numname w sn lfn fuel n fs dp res = some (fs1, dp1, FR_OK, n1) → n1 = 100 := by
  intro fuel
  induction fuel with
  | zero =>
    intro n fs dp res fs1 dp1 n1 hn h
    rw [dir_register_numname, Option.some.injEq] at h
    have e : n = n1 := congrArg (fun x => x.2.2.2) h
    omega
  | succ fuel ih =>
    intro n fs dp res fs1 dp1 n1 hn h
    rw [dir_register_numname] at h
    rw [if_pos (by omega)] at h
    dsimp only at h
    cases hf : dir_find w fs { dp with fn := gen_numname dp.fn sn lfn n } with
    | none => rw [hf] at h; cases h
    | some x =>
      obtain ⟨fs2, dp2, r⟩ := x
      rw [hf] at h
      dsimp only at h
      by_cases c : r ≠ FR_OK
      · rw [if_pos c] at h
        rw [Option.some.injEq] at h
        exact absurd (congrArg (fun x => x.2.2.1) h) c
      · rw [if_neg c] at h
        exact ih (n + 1) fs2 dp2 r fs1 dp1 n1 (by omega) h

theorem sync_window_meta (fs : FATFS) : (sync_window fs).1.meta = fs.meta := by
  unfold sync_window
  by_cases h0 : fs.wflag ≠ 0
  · rw [if_pos h0]
    dsimp only
    cases hd : disk_write fs.disk fs.win fs.winsect with
    | none => rfl
    | some d =>
      dsimp only
      split_ifs <;> rfl
  · rw [if_neg h0]

theorem sync_window_mirror_stat (fsize : Nat) (win : Nat → Nat) :
    ∀ (nf wsect : Nat) (d : Disk), (sync_window_mirror fsize win nf wsect d).stat = d.stat := by
  intro nf
  induction nf with
  | zero => intro wsect d; rfl
  | succ nf ih =>
    intro wsect d
    rw [sync_window_mirror]
    by_cases h : nf + 1 ≥ 2
    · rw [if_pos h]
      dsimp only
      rw [ih]
      unfold disk_write
      split_ifs <;> rfl
    · rw [if_neg h]

theorem sync_window_stat (fs : FATFS) : (sync_window fs).1.disk.stat = fs.disk.stat := by
  unfold sync_window
  by_cases h0 : fs.wflag ≠ 0
  · rw [if_pos h0]
    dsimp only
    cases hd : disk_write fs.disk fs.win fs.winsect with
    | none => rfl
    | some d =>
      have hds : d.stat = fs.disk.stat := by
        unfold disk_write at hd
        split_ifs at hd
        cases hd
        rfl
      dsimp only
      split_ifs
      · show (sync_window_mirror _ _ _ _ _).stat = _
        rw [sync_window_mirror_stat]
        exact hds
      · exact hds
  · rw [if_neg h0]

theorem move_window_stat (fs : FATFS) (s : Nat) : (move_window fs s).1.disk.stat = fs.disk.stat := by
  unfold move_window
  by_cases h : s ≠ fs.winsect
  · rw [if_pos h]
    have hr : (if ¬ fs.readonly = true then sync_window fs else (fs, FR_OK)).1.disk.stat
        = fs.disk.stat := by
      split_ifs
      · rfl
      · exact sync_window_stat fs
    generalize (if ¬ fs.readonly = true then sync_window fs else (fs, FR_OK)) = r at hr
    dsimp only
    split_ifs
    · exact hr
    · cases hd : disk_read r.1.disk s with
      | none => exact hr
      | some b => exact hr
  · rw [if_neg h]

theorem fatRel_refl (fs : FATFS) : fs.fatRel fs := ⟨rfl, Or.inl rfl, fun _ _ _ => rfl⟩

theorem fatRel_trans (a b c : FATFS) (hg : b.fatbase = a.fatbase ∧ b.fsize = a.fsize ∧
    b.n_fats = a.n_fats) (h1 : a.fatRel b) (h2 : b.fatRel c) : a.fatRel c := by
  obtain ⟨x1, x2, x3⟩ := h1
  obtain ⟨y1, y2, y3⟩ := h2
  obtain ⟨g1, g2, g3⟩ := hg
  refine ⟨y1.trans x1, ?_, fun s k hs => ?_⟩
  · rw [g1, g2] at y2
    rcases y2 with y | y
    · rw [y]; exact x2
    · exact Or.inr y
  · rw [y3 s k (by rw [g1, g2, g3]; exact hs), x3 s k hs]

theorem fat_sector_range (fs : FATFS) (b : Nat) (hb : b < fs.fsize * fs.ssize) :
    fs.fatbase ≤ fs.fatbase + b / fs.ssize ∧ fs.fatbase + b / fs.ssize < fs.fatbase + fs.fsize := by
  have hq : b / fs.ssize < fs.fsize := Nat.div_lt_of_lt_mul (by rw [Nat.mul_comm]; exact hb)
  generalize b / fs.ssize = q at hq
  omega

theorem get_fat_sys (fs : FATFS) (hok : fs.fatOk) (c : Nat) (h2 : 2 ≤ c) (hc : c < fs.n_fatent) :
    (get_fat fs c).1.disk.stat = fs.disk.stat ∧
    (fs.fatbase ≤ (get_fat fs c).1.winsect ∧ (get_fat fs c).1.winsect < fs.fatbase + fs.fsize) := by
  have hent := hok.entries
  have hfit := hok.fits
  obtain ⟨q, hq, hs4, hs2, hs1⟩ := fatOk_ssize fs hok
  unfold get_fat
  rw [if_neg (by omega)]
  by_cases h12 : fs.fs_type = FS_FAT12
  · rw [if_pos h12]
    have hfb : fatBytes fs = (fs.n_fatent * 3 + 1) / 2 := by unfold fatBytes; rw [if_pos h12]
    have hbc : add32 c (c / 2) = c + c / 2 := by unfold add32; exact Nat.mod_eq_of_lt (by omega)
    have hbc1 : add32 (c + c / 2) 1 = c + c / 2 + 1 := by
      unfold add32; exact Nat.mod_eq_of_lt (by omega)
    have hb0 : c + c / 2 < fs.fsize * fs.ssize := by omega
    have hb1 : c + c / 2 + 1 < fs.fsize * fs.ssize := by omega
    simp only [hbc, hbc1, (fat_sector fs hok _ hb0).1, (fat_sector fs hok _ hb1).1]
    obtain ⟨a1, a2, a3, a4⟩ := move_window_fat fs fs hok (moved_refl fs hok.good) _ hb0
    obtain ⟨b1, b2, b3, b4⟩ := move_window_fat fs _ hok a3 _ hb1
    rw [if_neg (by rw [a1]; simp), if_neg (by rw [b1]; simp)]
    dsimp only
    refine ⟨by rw [move_window_stat, move_window_stat], ?_⟩
    rw [b2]
    exact fat_sector_range fs _ hb1
  · rw [if_neg h12]
    by_cases h16 : fs.fs_type = FS_FAT16
    · rw [if_pos h16]
      have hfb : fatBytes fs = fs.n_fatent * 2 := by
        unfold fatBytes; rw [if_neg h12, if_pos h16]
      have hb0 : c * 2 < fs.fsize * fs.ssize := by omega
      have e0 := div_mod_scaled 2 (2 * q) c 0 (by omega) (by omega)
      have hss : fs.ssize = 2 * (2 * q) := by omega
      rw [hs2]
      have hsec2 : add32 fs.fatbase (c / (2 * q)) = fs.fatbase + c * 2 / fs.ssize := by
        rw [← (fat_sector fs hok _ hb0).1, hss, Nat.mul_comm c 2]
        have := e0.1; rw [Nat.add_zero] at this; rw [this]
      rw [hsec2]
      obtain ⟨a1, a2, a3, a4⟩ := move_window_fat fs fs hok (moved_refl fs hok.good) _ hb0
      rw [if_neg (by rw [a1]; simp)]
      dsimp only
      refine ⟨move_window_stat _ _, ?_⟩
      rw [a2]
      exact fat_sector_range fs _ hb0
    · rw [if_neg h16]
      have h32 : fs.fs_type = FS_FAT32 := by
        rcases hok.subtype with h | h | h
        · exact absurd h h12
        · exact absurd h h16
        · exact h
      rw [if_pos h32]
      have hfb : fatBytes fs = fs.n_fatent * 4 := by
        unfold fatBytes; rw [if_neg h12, if_neg h16]
      have hb0 : c * 4 < fs.fsize * fs.ssize := by omega
      have e0 := div_mod_scaled 4 q c 0 hq (by omega)
      rw [Nat.add_zero] at e0
      rw [hs1]
      have hsec2 : add32 fs.fatbase (c / q) = fs.fatbase + c * 4 / fs.ssize := by
        rw [← (fat_sector fs hok _ hb0).1, hs4, Nat.mul_comm c 4, e0.1]
      rw [hsec2]
      obtain ⟨a1, a2, a3, a4⟩ := move_window_fat fs fs hok (moved_refl fs hok.good) _ hb0
      rw [if_neg (by rw [a1]; simp)]
      dsimp only
      refine ⟨move_window_stat _ _, ?_⟩
      rw [a2]
      exact fat_sector_range fs _ hb0

theorem outside_not_mirror (fs : FATFS) (s : Nat)
    (hs : s < fs.fatbase ∨ fs.fatbase + fs.n_fats * fs.fsize ≤ s) : ¬ mirrorArea fs s := by
  unfold mirrorArea
  omega

theorem outside_first (fs : FATFS) (hg : fs.good) (s : Nat)
    (hs : s < fs.fatbase ∨ fs.fatbase + fs.n_fats * fs.fsize ≤ s) :
    s < fs.fatbase ∨ fs.fatbase + fs.fsize ≤ s := by
  have h2 : fs.fsize ≤ fs.n_fats * fs.fsize := Nat.le_mul_of_pos_left _ hg.fats
  omega

theorem get_fat_fatRel (fs : FATFS) (hok : fs.fatOk) (c : Nat) (h2 : 2 ≤ c)
    (hc : c < fs.n_fatent) : fs.fatRel (get_fat fs c).1 := by
  obtain ⟨y1, y2⟩ := get_fat_sys fs hok c h2 hc
  obtain ⟨-, g2⟩ := get_fat_spec fs hok c h2 hc
  exact ⟨y1, Or.inr y2, fun s k hs => g2.2.2.2 s k (outside_not_mirror fs s hs)⟩

theorem move_window_winsect_cases (fs : FATFS) (s : Nat) :
    (move_window fs s).1.winsect = s ∨ (move_window fs s).1.winsect = fs.winsect := by
  unfold move_window
  by_cases h : s ≠ fs.winsect
  · rw [if_pos h]
    have hr : (if ¬ fs.readonly = true then sync_window fs else (fs, FR_OK)).1.winsect
        = fs.winsect := by
      split_ifs
      · rfl
      · exact sync_window_winsect fs
    generalize (if ¬ fs.readonly = true then sync_window fs else (fs, FR_OK)) = r at hr
    dsimp only
    split_ifs
    · exact Or.inr hr
    · cases hd : disk_read r.1.disk s with
      | none => exact Or.inr hr
      | some b => exact Or.inl rfl
  · rw [if_neg h]
    exact Or.inr rfl

theorem winAt_move (fs x : FATFS) (s : Nat) (hs : fs.fatbase ≤ s ∧ s < fs.fatbase + fs.fsize)
    (h : winAt fs x) : winAt fs (move_window x s).1 := by
  rcases move_window_winsect_cases x s with e | e
  · exact Or.inr (by rw [e]; exact hs)
  · unfold winAt
    rw [e]
    exact h

theorem put_fat_stat (fs : FATFS) (c v : Nat) : (put_fat fs c v).1.disk.stat = fs.disk.stat := by
  unfold put_fat
  dsimp only
  split_ifs <;> simp only [move_window_stat]

theorem put_fat_winAt (fs : FATFS) (hok : fs.fatOk) (c v : Nat) (h2 : 2 ≤ c)
    (hc : c < fs.n_fatent) : winAt fs (put_fat fs c v).1 := by
  have hent := hok.entries
  have hfit := hok.fits
  obtain ⟨q, hq, hs4, hs2, hs1⟩ := fatOk_ssize fs hok
  have h0 : winAt fs fs := Or.inl rfl
  unfold put_fat
  rw [if_neg (by omega)]
  by_cases h12 : fs.fs_type = FS_FAT12
  · rw [if_pos h12]
    have hfb : fatBytes fs = (fs.n_fatent * 3 + 1) / 2 := by unfold fatBytes; rw [if_pos h12]
    have hbc : add32 c (c / 2) = c + c / 2 := by unfold add32; exact Nat.mod_eq_of_lt (by omega)
    have hbc1 : add32 (c + c / 2) 1 = c + c / 2 + 1 := by
      unfold add32; exact Nat.mod_eq_of_lt (by omega)
    have hb0 : c + c / 2 < fs.fsize * fs.ssize := by omega
    have hb1 : c + c / 2 + 1 < fs.fsize * fs.ssize := by omega
    simp only [hbc, hbc1, (fat_sector fs hok _ hb0).1, (fat_sector fs hok _ hb1).1]
    have w1 := winAt_move fs fs _ (fat_sector_range fs _ hb0) h0
    split_ifs <;> first
      | exact w1
      | (apply winAt_move fs _ _ (fat_sector_range fs _ hb1); exact w1)
  · rw [if_neg h12]
    by_cases h16 : fs.fs_type = FS_FAT16
    · rw [if_pos h16]
      have hfb : fatBytes fs = fs.n_fatent * 2 := by
        unfold fatBytes; rw [if_neg h12, if_pos h16]
      have hb0 : c * 2 < fs.fsize * fs.ssize := by omega
      have e0 := div_mod_scaled 2 (2 * q) c 0 (by omega) (by omega)
      have hss : fs.ssize = 2 * (2 * q) := by omega
      rw [hs2]
      have hsec2 : add32 fs.fatbase (c / (2 * q)) = fs.fatbase + c * 2 / fs.ssize := by
        rw [← (fat_sector fs hok _ hb0).1, hss, Nat.mul_comm c 2]
        have := e0.1; rw [Nat.add_zero] at this; rw [this]
      rw [hsec2]
      have w1 := winAt_move fs fs _ (fat_sector_range fs _ hb0) h0
      dsimp only
      split_ifs <;> exact w1
    · rw [if_neg h16]
      have h32 : fs.fs_type = FS_FAT32 := by
        rcases hok.subtype with h | h | h
        · exact absurd h h12
        · exact absurd h h16
        · exact h
      rw [if_pos h32]
      have hfb : fatBytes fs = fs.n_fatent * 4 := by
        unfold fatBytes; rw [if_neg h12, if_neg h16]
      have hb0 : c * 4 < fs.fsize * fs.ssize := by omega
      have e0 := div_mod_scaled 4 q c 0 hq (by omega)
      rw [Nat.add_zero] at e0
      rw [hs1]
      have hsec2 : add32 fs.fatbase (c / q) = fs.fatbase + c * 4 / fs.ssize := by
        rw [← (fat_sector fs hok _ hb0).1, hs4, Nat.mul_comm c 4, e0.1]
      rw [hsec2]
      have w1 := winAt_move fs fs _ (fat_sector_range fs _ hb0) h0
      dsimp only
      split_ifs <;> exact w1

theorem put_fat_fatRel (fs : FATFS) (hok : fs.fatOk) (c v : Nat) (h2 : 2 ≤ c)
    (hc : c < fs.n_fatent) : fs.fatRel (put_fat fs c v).1 := by
  obtain ⟨-, -, -, -, p5, -⟩ := put_fat_spec fs hok c v h2 hc
  exact ⟨put_fat_stat fs c v, put_fat_winAt fs hok c v h2 hc,
    fun s k hs => p5 s k (outside_not_mirror fs s hs) (outside_first fs hok.good s hs)⟩

theorem geom_of_meta (a b : FATFS) (h : b.meta = a.meta) :
    b.fatbase = a.fatbase ∧ b.fsize = a.fsize ∧ b.n_fats = a.n_fats := by
  obtain ⟨-, e2, -, -, e5, e6, -⟩ := meta_fields a b h
  exact ⟨e6, e5, e2⟩

theorem get_fat_any (fs : FATFS) (hok : fs.fatOk) (hbo : fs.bytesOk) (c : Nat) :
    fs.fatRel (get_fat fs c).1 ∧ (get_fat fs c).1.fatOk ∧ (get_fat fs c).1.bytesOk ∧
    (get_fat fs c).1.meta = fs.meta := by
  by_cases h : c < 2 ∨ c ≥ fs.n_fatent
  · have : get_fat fs c = (fs, 1) := by unfold get_fat; rw [if_pos h]
    rw [this]
    exact ⟨fatRel_refl fs, hok, hbo, rfl⟩
  · obtain ⟨-, g2, g3, g4, -⟩ := get_fat_ok fs hok hbo c (by omega) (by omega)
    exact ⟨get_fat_fatRel fs hok c (by omega) (by omega), g2, g3, g4⟩

theorem put_fat_any (fs : FATFS) (hok : fs.fatOk) (hbo : fs.bytesOk) (c v : Nat) :
    fs.fatRel (put_fat fs c v).1 ∧ (put_fat fs c v).1.fatOk ∧ (put_fat fs c v).1.bytesOk ∧
    (put_fat fs c v).1.meta = fs.meta := by
  by_cases h : c < 2 ∨ c ≥ fs.n_fatent
  · have : put_fat fs c v = (fs, FR_INT_ERR) := by unfold put_fat; rw [if_pos h]
    rw [this]
    exact ⟨fatRel_refl fs, hok, hbo, rfl⟩
  · obtain ⟨-, p2, p3, p4, -⟩ := put_fat_ok fs hok hbo c v (by omega) (by omega)
    exact ⟨put_fat_fatRel fs hok c v (by omega) (by omega), p2, p3, p4⟩

theorem create_chain_scan_rel (scl : Nat) :
    ∀ (fuel : Nat) (fs0 : FATFS) (ncl : Nat) (fs1 : FATFS) (x : Nat ⊕ Nat),
      fs0.fatOk → fs0.bytesOk → create_chain_scan scl fuel fs0 ncl = some (fs1, x) →
      fs0.fatRel fs1 ∧ fs1.fatOk ∧ fs1.bytesOk ∧ fs1.meta = fs0.meta := by
  intro fuel
  induction fuel with
  | zero => intro fs0 ncl fs1 x _ _ h; rw [create_chain_scan] at h; cases h
  | succ f ih =>
    intro fs0 ncl fs1 x hok hbo h
    rw [create_chain_scan] at h
    dsimp only at h
    by_cases h1 : add32 ncl 1 ≥ fs0.n_fatent ∧ 2 > scl
    · rw [if_pos h1] at h
      simp only [Option.some.injEq, Prod.mk.injEq] at h
      obtain ⟨rfl, -⟩ := h
      exact ⟨fatRel_refl _, hok, hbo, rfl⟩
    rw [if_neg h1] at h
    obtain ⟨c, hc⟩ : ∃ c, c = (if add32 ncl 1 ≥ fs0.n_fatent then 2 else add32 ncl 1) := ⟨_, rfl⟩
    rw [← hc] at h
    obtain ⟨g1, g2, g3, g4⟩ := get_fat_any fs0 hok hbo c
    by_cases h2 : (get_fat fs0 c).2 = 0
    · rw [if_pos h2] at h
      simp only [Option.some.injEq, Prod.mk.injEq] at h
      obtain ⟨rfl, -⟩ := h
      exact ⟨g1, g2, g3, g4⟩
    rw [if_neg h2] at h
    by_cases h3 : (get_fat fs0 c).2 = 0xFFFFFFFF ∨ (get_fat fs0 c).2 = 1
    · rw [if_pos h3] at h
      simp only [Option.some.injEq, Prod.mk.injEq] at h
      obtain ⟨rfl, -⟩ := h
      exact ⟨g1, g2, g3, g4⟩
    rw [if_neg h3] at h
    by_cases h4 : c = scl
    · rw [if_pos h4] at h
      simp only [Option.some.injEq, Prod.mk.injEq] at h
      obtain ⟨rfl, -⟩ := h
      exact ⟨g1, g2, g3, g4⟩
    rw [if_neg h4] at h
    obtain ⟨i1, i2, i3, i4⟩ := ih _ _ _ _ g2 g3 h
    exact ⟨fatRel_trans _ _ _ (geom_of_meta _ _ g4) g1 i1, i2, i3, i4.trans g4⟩

theorem hints_fatRel (x : FATFS) (a b f : Nat) :
    x.fatRel { x with last_clust := a, free_clust := b, fsi_flag := f } :=
  ⟨rfl, Or.inl rfl, fun _ _ _ => rfl⟩

theorem create_chain_rel (fs : FATFS) (hok : fs.fatOk) (hbo : fs.bytesOk) (clst : Nat)
    (fs1 : FATFS) (r : Nat) (h : create_chain fs clst = some (fs1, r)) : fs.fatRel fs1 := by
  unfold create_chain at h
  dsimp only at h
  -- the state and start cluster of the scan
  have key : ∀ (fs0 : FATFS) (scl : Nat), fs.fatRel fs0 → fs0.fatOk → fs0.bytesOk →
      fs0.meta = fs.meta →
      (match create_chain_scan scl (fs.n_fatent + 1) fs0 scl with
        | none => none
        | some (fs1, .inl v) => some (fs1, v)
        | some (fs1, .inr ncl) =>
          if (if (put_fat fs1 ncl 0x0FFFFFFF).2 = FR_OK ∧ clst ≠ 0
              then put_fat (put_fat fs1 ncl 0x0FFFFFFF).1 clst ncl
              else put_fat fs1 ncl 0x0FFFFFFF).2 = FR_OK then
            some (if (if (put_fat fs1 ncl 0x0FFFFFFF).2 = FR_OK ∧ clst ≠ 0
                  then put_fat (put_fat fs1 ncl 0x0FFFFFFF).1 clst ncl
                  else put_fat fs1 ncl 0x0FFFFFFF).1.free_clust ≠ 0xFFFFFFFF then
                { (if (put_fat fs1 ncl 0x0FFFFFFF).2 = FR_OK ∧ clst ≠ 0
                    then put_fat (put_fat fs1 ncl 0x0FFFFFFF).1 clst ncl
                    else put_fat fs1 ncl 0x0FFFFFFF).1 with
                  last_clust := ncl,
                  free_clust := sub32 (if (put_fat fs1 ncl 0x0FFFFFFF).2 = FR_OK ∧ clst ≠ 0
                    then put_fat (put_fat fs1 ncl 0x0FFFFFFF).1 clst ncl
                    else put_fat fs1 ncl 0x0FFFFFFF).1.free_clust 1,
                  fsi_flag := (if (put_fat fs1 ncl 0x0FFFFFFF).2 = FR_OK ∧ clst ≠ 0
                    then put_fat (put_fat fs1 ncl 0x0FFFFFFF).1 clst ncl
                    else put_fat fs1 ncl 0x0FFFFFFF).1.fsi_flag ||| 1 }
              else { (if (put_fat fs1 ncl 0x0FFFFFFF).2 = FR_OK ∧ clst ≠ 0
                    then put_fat (put_fat fs1 ncl 0x0FFFFFFF).1 clst ncl
                    else put_fat fs1 ncl 0x0FFFFFFF).1 with last_clust := ncl }, ncl)
          else some ((if (put_fat fs1 ncl 0x0FFFFFFF).2 = FR_OK ∧ clst ≠ 0
              then put_fat (put_fat fs1 ncl 0x0FFFFFFF).1 clst ncl
              else put_fat fs1 ncl 0x0FFFFFFF).1,
            if (if (put_fat fs1 ncl 0x0FFFFFFF).2 = FR_OK ∧ clst ≠ 0
              then put_fat (put_fat fs1 ncl 0x0FFFFFFF).1 clst ncl
              else put_fat fs1 ncl 0x0FFFFFFF).2 = FR_DISK_ERR then 0xFFFFFFFF else 1)) =
        some (fs1, r) → fs.fatRel fs1 := by
    intro fs0 scl hrel hok0 hbo0 hm0 hh
    cases hs : create_chain_scan scl (fs.n_fatent + 1) fs0 scl with
    | none => rw [hs] at hh; cases hh
    | some y =>
      obtain ⟨fsa, x⟩ := y
      obtain ⟨s1, s2, s3, s4⟩ := create_chain_scan_rel scl _ _ _ _ _ hok0 hbo0 hs
      have hra : fs.fatRel fsa := fatRel_trans _ _ _ (geom_of_meta _ _ hm0) hrel s1
      have hma : fsa.meta = fs.meta := s4.trans hm0
      rw [hs] at hh
      cases x with
      | inl v =>
        simp only [Option.some.injEq, Prod.mk.injEq] at hh
        obtain ⟨rfl, -⟩ := hh
        exact hra
      | inr ncl =>
        dsimp only at hh
        obtain ⟨p1, p2, p3, p4⟩ := put_fat_any fsa s2 s3 ncl 0x0FFFFFFF
        obtain ⟨q, hq⟩ : ∃ q, q = (if (put_fat fsa ncl 0x0FFFFFFF).2 = FR_OK ∧ clst ≠ 0
            then put_fat (put_fat fsa ncl 0x0FFFFFFF).1 clst ncl
            else put_fat fsa ncl 0x0FFFFFFF) := ⟨_, rfl⟩
        rw [← hq] at hh
        have hqr : fs.fatRel q.1 := by
          rw [hq]
          split_ifs
          · obtain ⟨t1, -⟩ := put_fat_any _ p2 p3 clst ncl
            exact fatRel_trans _ _ _ (geom_of_meta _ _ (p4.trans hma))
              (fatRel_trans _ _ _ (geom_of_meta _ _ hma) hra p1) t1
          · exact fatRel_trans _ _ _ (geom_of_meta _ _ hma) hra p1
        have hqg : q.1.fatbase = fs.fatbase ∧ q.1.fsize = fs.fsize ∧ q.1.n_fats = fs.n_fats := by
          rw [hq]
          split_ifs
          · obtain ⟨-, -, -, t4⟩ := put_fat_any _ p2 p3 clst ncl
            exact geom_of_meta _ _ (t4.trans (p4.trans hma))
          · exact geom_of_meta _ _ (p4.trans hma)
        by_cases hA : q.2 = FR_OK
        · rw [if_pos hA] at hh
          simp only [Option.some.injEq, Prod.mk.injEq] at hh
          obtain ⟨hh1, -⟩ := hh
          rw [← hh1]
          split_ifs
          · exact fatRel_trans _ _ _ hqg hqr (hints_fatRel q.1 ncl _ _)
          · exact fatRel_trans _ _ _ hqg hqr (hints_fatRel q.1 ncl q.1.free_clust q.1.fsi_flag)
        · rw [if_neg hA] at hh
          simp only [Option.some.injEq, Prod.mk.injEq] at hh
          obtain ⟨hh1, -⟩ := hh
          rw [← hh1]
          exact hqr
  by_cases hc0 : clst = 0
  · rw [if_pos hc0] at h
    dsimp only at h
    exact key fs _ (fatRel_refl fs) hok hbo rfl h
  · rw [if_neg hc0] at h
    obtain ⟨g1, g2, g3, g4⟩ := get_fat_any fs hok hbo clst
    by_cases a1 : (get_fat fs clst).2 < 2
    · rw [if_pos a1] at h
      simp only [Option.some.injEq, Prod.mk.injEq] at h
      obtain ⟨rfl, -⟩ := h
      exact g1
    rw [if_neg a1] at h
    by_cases a2 : (get_fat fs clst).2 = 0xFFFFFFFF
    · rw [if_pos a2] at h
      simp only [Option.some.injEq, Prod.mk.injEq] at h
      obtain ⟨rfl, -⟩ := h
      exact g1
    rw [if_neg a2] at h
    by_cases a3 : (get_fat fs clst).2 < fs.n_fatent
    · rw [if_pos a3] at h
      simp only [Option.some.injEq, Prod.mk.injEq] at h
      obtain ⟨rfl, -⟩ := h
      exact g1
    rw [if_neg a3] at h
    dsimp only at h
    exact key _ _ g1 g2 g3 g4 h

/-! ### bits of the flag byte -/

theorem or_and_distrib (x y z : Nat) : (x ||| y) &&& z = (x &&& z) ||| (y &&& z) := by
  apply Nat.eq_of_testBit_eq; intro i
  simp only [Nat.testBit_and, Nat.testBit_or]
  cases x.testBit i <;> cases y.testBit i <;> cases z.testBit i <;> rfl

theorem flag_clear_read (x : Nat) : (x &&& (255 - FA__DIRTY)) &&& FA_READ = x &&& FA_READ := by
  rw [Nat.and_assoc]; congr 1

theorem flag_clear_write (x : Nat) : (x &&& (255 - FA__DIRTY)) &&& FA_WRITE = x &&& FA_WRITE := by
  rw [Nat.and_assoc]; congr 1

theorem flag_clear_dirty (x : Nat) : (x &&& (255 - FA__DIRTY)) &&& FA__DIRTY = 0 := by
  rw [Nat.and_assoc]
  have : (255 - FA__DIRTY) &&& FA__DIRTY = 0 := by decide
  rw [this]; exact Nat.and_zero x

theorem flag_set_read (x : Nat) : (x ||| FA__DIRTY) &&& FA_READ = x &&& FA_READ := by
  rw [or_and_distrib]
  have : FA__DIRTY &&& FA_READ = 0 := by decide
  rw [this]; exact Nat.or_zero _

theorem flag_set_write (x : Nat) : (x ||| FA__DIRTY) &&& FA_WRITE = x &&& FA_WRITE := by
  rw [or_and_distrib]
  have : FA__DIRTY &&& FA_WRITE = 0 := by decide
  rw [this]; exact Nat.or_zero _

theorem flag_set_dirty (x : Nat) : (x ||| FA__DIRTY) &&& FA__DIRTY ≠ 0 := by
  rw [or_and_distrib]
  have : FA__DIRTY &&& FA__DIRTY = 64 := by decide
  rw [this]
  intro h
  have h6 := congrArg (fun n => n.testBit 6) h
  simp only [Nat.testBit_or, Nat.zero_testBit] at h6
  have h64 : Nat.testBit 64 6 = true := by decide
  rw [h64, Bool.or_true] at h6
  cases h6

theorem flag_written_read (x : Nat) : (x ||| FA__WRITTEN) &&& FA_READ = x &&& FA_READ := by
  rw [or_and_distrib]
  have : FA__WRITTEN &&& FA_READ = 0 := by decide
  rw [this]; exact Nat.or_zero _

theorem flag_written_write (x : Nat) : (x ||| FA__WRITTEN) &&& FA_WRITE = x &&& FA_WRITE := by
  rw [or_and_distrib]
  have : FA__WRITTEN &&& FA_WRITE = 0 := by decide
  rw [this]; exact Nat.or_zero _

theorem flag_written_dirty (x : Nat) : (x ||| FA__WRITTEN) &&& FA__DIRTY = x &&& FA__DIRTY := by
  rw [or_and_distrib]
  have : FA__WRITTEN &&& FA__DIRTY = 0 := by decide
  rw [this]; exact Nat.or_zero _

/-! ### sector arithmetic -/

theorem mul_add_inj (m a b k l : Nat) (hk : k < m) (hl : l < m) (h : a * m + k = b * m + l) :
    a = b ∧ k = l := by
  have hm : 0 < m := by omega
  have h1 : (a * m + k) / m = a := by
    rw [Nat.add_comm, Nat.mul_comm, Nat.add_mul_div_left _ _ hm, Nat.div_eq_of_lt hk, Nat.zero_add]
  have h2 : (b * m + l) / m = b := by
    rw [Nat.add_comm, Nat.mul_comm, Nat.add_mul_div_left _ _ hm, Nat.div_eq_of_lt hl, Nat.zero_add]
  have e : a = b := by rw [← h1, ← h2, h]
  subst e
  exact ⟨rfl, by omega⟩

theorem csect_eq (fs : FATFS) (hd : fs.dataOk) (p : Nat) :
    (p / fs.ssize &&& sub32 fs.csize 1) % 256 = p / fs.ssize % fs.csize ∧
    p / fs.ssize % fs.csize < fs.csize := by
  obtain ⟨k, hk, hc⟩ := hd.csize_pow
  have hc1 : 1 ≤ fs.csize := by rw [hc]; exact Nat.one_le_two_pow
  have hc2 : fs.csize ≤ 128 := by
    rw [hc]; calc 2 ^ k ≤ 2 ^ 7 := Nat.pow_le_pow_right (by decide) hk
      _ = 128 := by decide
  have hs : sub32 fs.csize 1 = 2 ^ k - 1 := by
    unfold sub32; rw [← hc]; omega
  rw [hs, Nat.and_pow_two_sub_one_eq_mod, ← hc]
  have hlt : p / fs.ssize % fs.csize < fs.csize := Nat.mod_lt _ (by omega)
  exact ⟨Nat.mod_eq_of_lt (by omega), hlt⟩

theorem dataOk_pos (fs : FATFS) (hd : fs.dataOk) :
    1 ≤ fs.csize ∧ fs.csize ≤ 128 ∧ 1 ≤ fs.ssize ∧ fs.ssize ≤ 32768 ∧
    fs.csize * fs.ssize ≤ 4194304 ∧ 1 ≤ fs.csize * fs.ssize := by
  obtain ⟨k, hk, hc⟩ := hd.csize_pow
  obtain ⟨j, hj, hs⟩ := hd.ssize_pow
  have hc1 : 1 ≤ fs.csize := by rw [hc]; exact Nat.one_le_two_pow
  have hc2 : fs.csize ≤ 128 := by
    rw [hc]; calc 2 ^ k ≤ 2 ^ 7 := Nat.pow_le_pow_right (by decide) hk
      _ = 128 := by decide
  have hs1 : 1 ≤ fs.ssize := by rw [hs]; exact Nat.one_le_two_pow
  have hs2 : fs.ssize ≤ 32768 := by
    rw [hs]; calc 2 ^ j ≤ 2 ^ 15 := Nat.pow_le_pow_right (by decide) hj
      _ = 32768 := by decide
  refine ⟨hc1, hc2, hs1, hs2, ?_, Nat.mul_pos hc1 hs1⟩
  calc fs.csize * fs.ssize ≤ 128 * 32768 := Nat.mul_le_mul hc2 hs2
    _ = 4194304 := by decide

theorem clust2sect_eq (fs : FATFS) (hd : fs.dataOk) (c : Nat) (h2 : 2 ≤ c) (hc : c < fs.n_fatent) :
    clust2sect fs c = fs.database + (c - 2) * fs.csize ∧
    fs.database + (c - 2) * fs.csize + fs.csize ≤ 4294967296 ∧ 1 ≤ fs.database := by
  have hent := hd.fat.entries
  have hde := hd.data_end
  obtain ⟨hc1, hc2, -⟩ := dataOk_pos fs hd
  have hmul : (c - 2) * fs.csize + fs.csize ≤ (fs.n_fatent - 2) * fs.csize := by
    have : (c - 2 + 1) * fs.csize ≤ (fs.n_fatent - 2) * fs.csize :=
      Nat.mul_le_mul_right _ (by omega)
    rw [Nat.add_mul, Nat.one_mul] at this
    exact this
  have hdb : 1 ≤ fs.database := by
    have hfit := hd.fat.fits
    have hfb : 1 ≤ fatBytes fs := by
      unfold fatBytes
      split_ifs <;> omega
    have hfs : 1 ≤ fs.fsize := by
      rcases Nat.eq_zero_or_pos fs.fsize with h | h
      · rw [h, Nat.zero_mul] at hfit; omega
      · exact h
    have hnf := hd.fat.good.fats
    have : 1 ≤ fs.n_fats * fs.fsize := Nat.mul_pos hnf hfs
    have := hd.fat_before
    omega
  refine ⟨?_, by omega, hdb⟩
  unfold clust2sect
  dsimp only
  have e1 : sub32 c 2 = c - 2 := by unfold sub32; omega
  have e2 : sub32 fs.n_fatent 2 = fs.n_fatent - 2 := by unfold sub32; omega
  rw [e1, e2, if_neg (by omega)]
  unfold add32
  rw [Nat.mod_eq_of_lt (by omega : (c - 2) * fs.csize < 4294967296)]
  rw [Nat.mod_eq_of_lt (by omega)]
  omega

theorem geo_fields (a b : FATFS) (h : b.geo = a.geo) :
    b.fs_type = a.fs_type ∧ b.csize = a.csize ∧ b.n_fats = a.n_fats ∧ b.id = a.id ∧
    b.ssize = a.ssize ∧ b.readonly = a.readonly ∧ b.sobj_timeout = a.sobj_timeout ∧
    b.n_fatent = a.n_fatent ∧ b.fsize = a.fsize ∧ b.fatbase = a.fatbase ∧
    b.database = a.database := by
  unfold FATFS.geo at h
  simp only [Prod.mk.injEq] at h
  exact h

theorem geo_of_meta (a b : FATFS) (h : b.meta = a.meta) : b.geo = a.geo := by
  unfold FATFS.meta at h
  simp only [Prod.mk.injEq] at h
  obtain ⟨h1, h2, h3, h4, h5, h6, h7, h8, h9, h10, h11, h12, h13, h14, h15, h16, h17, h18⟩ := h
  unfold FATFS.geo
  rw [h1, h2, h3, h5, h7, h8, h10, h13, h14, h16, h18]

theorem geo_of_hints (a b : FATFS) (n : Nat) (h : b.meta = (allocHints a n).meta) :
    b.geo = a.geo := geo_of_meta (allocHints a n) b h

theorem secAt_inChain (fs : FATFS) (L : List Nat) (hc : 0 < fs.csize) (i : Nat)
    (hi : i < L.length * fs.csize) : inChain fs L (secAt fs L i) := by
  have hq : i / fs.csize < L.length := (Nat.div_lt_iff_lt_mul hc).2 hi
  refine ⟨L.getD (i / fs.csize) 0, i % fs.csize, ?_, Nat.mod_lt _ hc, rfl⟩
  rw [List.getD_eq_getElem _ _ hq]
  exact List.getElem_mem hq

theorem secAt_inj (fs : FATFS) (L : List Nat) (hc : 0 < fs.csize) (hnd : L.Nodup)
    (hr : ∀ c ∈ L, 2 ≤ c ∧ c < fs.n_fatent) (i j : Nat) (hi : i < L.length * fs.csize)
    (hj : j < L.length * fs.csize) (h : secAt fs L i = secAt fs L j) : i = j := by
  have hqi : i / fs.csize < L.length := (Nat.div_lt_iff_lt_mul hc).2 hi
  have hqj : j / fs.csize < L.length := (Nat.div_lt_iff_lt_mul hc).2 hj
  unfold secAt at h
  rw [List.getD_eq_getElem _ _ hqi, List.getD_eq_getElem _ _ hqj] at h
  have h1 := mul_add_inj fs.csize (L[i / fs.csize] - 2) (L[j / fs.csize] - 2) (i % fs.csize)
    (j % fs.csize) (Nat.mod_lt _ hc) (Nat.mod_lt _ hc) (by omega)
  have r1 := hr _ (List.getElem_mem hqi)
  have r2 := hr _ (List.getElem_mem hqj)
  have e : L[i / fs.csize] = L[j / fs.csize] := by omega
  have e2 : i / fs.csize = j / fs.csize := (List.Nodup.getElem_inj_iff hnd).1 e
  have d1 := Nat.div_add_mod i fs.csize
  have d2 := Nat.div_add_mod j fs.csize
  rw [e2, h1.2] at d1
  omega

theorem secAt_append (fs : FATFS) (L l : List Nat) (hc : 0 < fs.csize) (i : Nat)
    (hi : i < L.length * fs.csize) : secAt fs (L ++ l) i = secAt fs L i := by
  have hq : i / fs.csize < L.length := (Nat.div_lt_iff_lt_mul hc).2 hi
  unfold secAt
  rw [List.getD_append _ _ _ _ hq]

theorem inChain_range (fs : FATFS) (hd : fs.dataOk) (L : List Nat)
    (hr : ∀ c ∈ L, 2 ≤ c ∧ c < fs.n_fatent) (s : Nat) (h : inChain fs L s) :
    fs.database ≤ s ∧ s < 4294967296 ∧ 1 ≤ s := by
  obtain ⟨c, k, hc, hk, rfl⟩ := h
  obtain ⟨r1, r2⟩ := hr c hc
  obtain ⟨-, c2, c3⟩ := clust2sect_eq fs hd c r1 r2
  omega

theorem inChain_append (fs : FATFS) (L l : List Nat) (s : Nat) (h : inChain fs L s) :
    inChain fs (L ++ l) s := by
  obtain ⟨c, k, hc, hk, e⟩ := h
  exact ⟨c, k, List.mem_append_left _ hc, hk, e⟩

/-- Position arithmetic: sector index of a position inside a known sector. -/
theorem div_of_bounds (ss i x : Nat) (h1 : i * ss ≤ x) (h2 : x < (i + 1) * ss) : x / ss = i := by
  have hss : 0 < ss := by
    rcases Nat.eq_zero_or_pos ss with h | h
    · rw [h] at h2; simp at h2
    · exact h
  apply Nat.div_eq_of_lt_le
  · exact h1
  · exact h2

theorem pos_split (ss x : Nat) : x / ss * ss + x % ss = x := by
  rw [Nat.mul_comm]; exact Nat.div_add_mod x ss

theorem cluster_index (fs : FATFS) (x : Nat) :
    x / (fs.csize * fs.ssize) = x / fs.ssize / fs.csize := by
  rw [Nat.div_div_eq_div_mul, Nat.mul_comm]

theorem fatVal_data (fs fs1 : FATFS) (hok : fs.fatOk) (e1 : fs1.fs_type = fs.fs_type)
    (e3 : fs1.ssize = fs.ssize) (e6 : fs1.fatbase = fs.fatbase)
    (hv : ∀ s k, s < fs.fatbase + fs.fsize → view fs1 s k = view fs s k) (d : Nat)
    (hd : d < fs.n_fatent) : fatVal fs1 d = fatVal fs d := by
  have hent := hok.entries
  have hfit := hok.fits
  have fb : ∀ b, b < fs.fsize * fs.ssize → fbyte fs1 b = fbyte fs b := by
    intro b hb
    unfold fbyte
    rw [e3, e6]
    have h1 : b / fs.ssize < fs.fsize := Nat.div_lt_of_lt_mul (by rw [Nat.mul_comm]; exact hb)
    exact hv _ _ (by omega)
  unfold fatVal
  rw [e1]
  unfold fatBytes at hfit
  by_cases h12 : fs.fs_type = FS_FAT12
  · rw [if_pos h12] at hfit
    rw [if_pos h12, if_pos h12, fb _ (show d + d / 2 < _ by omega),
      fb _ (show d + d / 2 + 1 < _ by omega)]
  · rw [if_neg h12, if_neg h12]
    rw [if_neg h12] at hfit
    by_cases h16 : fs.fs_type = FS_FAT16
    · rw [if_pos h16] at hfit
      rw [if_pos h16, if_pos h16, fb _ (show d * 2 < _ by omega),
        fb _ (show d * 2 + 1 < _ by omega)]
    · rw [if_neg h16] at hfit
      rw [if_neg h16, if_neg h16, fb _ (show d * 4 < _ by omega),
        fb _ (show d * 4 + 1 < _ by omega),
        fb _ (show d * 4 + 2 < _ by omega),
        fb _ (show d * 4 + 3 < _ by omega)]

theorem dataOk_of (fs fs1 : FATFS) (hd : fs.dataOk) (hok : fs1.fatOk) (hbo : fs1.bytesOk)
    (hg : fs1.geo = fs.geo) (hst : fs1.disk.stat = fs.disk.stat) : fs1.dataOk := by
  obtain ⟨g1, g2, g3, g4, g5, g6, g7, g8, g9, g10, g11⟩ := geo_fields fs fs1 hg
  exact ⟨hok, hbo, by rw [g1, g8]; exact hd.hmax, by rw [g2]; exact hd.csize_pow,
    by rw [g5]; exact hd.ssize_pow, by rw [g10, g3, g9, g11]; exact hd.fat_before,
    by rw [g11, g8, g2]; exact hd.data_end, by rw [hst]; exact hd.ready,
    by rw [g7]; exact hd.lockable⟩

theorem inChain_geo (fs fs1 : FATFS) (hg : fs1.geo = fs.geo) (L : List Nat) (s : Nat) :
    inChain fs1 L s ↔ inChain fs L s := by
  obtain ⟨g1, g2, g3, g4, g5, g6, g7, g8, g9, g10, g11⟩ := geo_fields fs fs1 hg
  unfold inChain
  rw [g2, g11]

theorem secAt_geo (fs fs1 : FATFS) (hg : fs1.geo = fs.geo) (L : List Nat) (i : Nat) :
    secAt fs1 L i = secAt fs L i := by
  obtain ⟨g1, g2, g3, g4, g5, g6, g7, g8, g9, g10, g11⟩ := geo_fields fs fs1 hg
  unfold secAt
  rw [g2, g11]

theorem secOf_geo (fs fs1 : FATFS) (hg : fs1.geo = fs.geo) (L : List Nat) (p : Nat) :
    secOf fs1 L p = secOf fs L p := by
  obtain ⟨g1, g2, g3, g4, g5, g6, g7, g8, g9, g10, g11⟩ := geo_fields fs fs1 hg
  unfold secOf
  rw [g5, secAt_geo fs fs1 hg]

/-- A FAT operation that keeps every in-range FAT entry keeps the file object
well formed and the data sectors of its chain unchanged. -/
theorem base_fat (fs fs1 : FATFS) (fp : FF_FIL) (L : List Nat) (h : FilBase fs fp L)
    (hrel : fs.fatRel fs1) (hok : fs1.fatOk) (hbo : fs1.bytesOk) (hg : fs1.geo = fs.geo)
    (hv : ∀ d, d < fs.n_fatent → fatVal fs1 d = fatVal fs d) :
    FilBase fs1 fp L ∧ ∀ s k, inChain fs L s → fs1.disk.data s k = fs.disk.data s k := by
  obtain ⟨g1, g2, g3, g4, g5, g6, g7, g8, g9, g10, g11⟩ := geo_fields fs fs1 hg
  obtain ⟨r1, r2, r3⟩ := hrel
  have hfb := h.vol.fat_before
  have hnf := h.vol.fat.good.fats
  have hfs : fs.fatbase + fs.fsize ≤ fs.database := by
    have : fs.fsize ≤ fs.n_fats * fs.fsize := Nat.le_mul_of_pos_left _ hnf
    omega
  have hwin : ∀ c k, 2 ≤ c → c < fs.n_fatent → (c ∈ L ∨ fatVal fs c = 0) → k < fs.csize →
      fs.database + (c - 2) * fs.csize + k ≠ fs1.winsect := by
    intro c k h2 hc hm hk
    rcases r2 with e | e
    · rw [e]; exact h.win c k h2 hc hm hk
    · omega
  have hdat : ∀ s k, inChain fs L s → fs1.disk.data s k = fs.disk.data s k := by
    intro s k hs
    obtain ⟨c, j, hc, hj, rfl⟩ := hs
    obtain ⟨i2, i3⟩ := h.inrange c hc
    have v := r3 (fs.database + (c - 2) * fs.csize + j) k (Or.inr (by omega))
    unfold view at v
    rw [if_neg (hwin c j i2 i3 (Or.inl hc) hj), if_neg (h.win c j i2 i3 (Or.inl hc) hj)] at v
    exact v
  refine ⟨⟨dataOk_of fs fs1 h.vol hok hbo hg r1, h.fsnz, by rw [g4]; exact h.idok, h.noerr, h.rd,
    h.wr, h.fsize32, ?_, h.nodup, by rw [g8]; exact h.inrange, ?_, h.head, ?_, h.dirty, h.bufb,
    ?_, by rw [g2, g5]; exact h.fptr_le, by rw [g5, secOf_geo fs fs1 hg]; exact h.cur⟩, hdat⟩
  · intro hz
    rw [inChain_geo fs fs1 hg]
    exact h.cached hz
  · exact isChain_congr fs fs1 g8 L h.chain (fun c hc => hv c (h.inrange c hc).2)
  · intro hcl hz k hk
    rw [hdat _ _ (h.cached hz)]
    exact h.clean hcl hz k (by rw [← g5]; exact hk)
  · intro c k h2 hc hm hk
    rw [g11, g2]
    rw [g8] at hc
    rw [g2] at hk
    refine hwin c k h2 hc ?_ hk
    rcases hm with e | e
    · exact Or.inl e
    · rw [hv c hc] at e; exact Or.inr e

/-- The allocation of the free cluster `n` at the end of the chain. -/
theorem base_alloc (fs fs1 : FATFS) (fp : FF_FIL) (L : List Nat) (n sc cl : Nat)
    (h : FilBase fs fp L)
    (hrel : fs.fatRel fs1) (hok : fs1.fatOk) (hbo : fs1.bytesOk) (hg : fs1.geo = fs.geo)
    (hn2 : 2 ≤ n) (hn : n < fs.n_fatent) (hfree : fatVal fs n = 0)
    (heoc : fatVal fs1 n = fatMask fs 0x0FFFFFFF)
    (hlink : ∀ a, L.getLast? = some a → fatVal fs1 a = n)
    (hoth : ∀ d, 2 ≤ d → d < fs.n_fatent → d ≠ n → L.getLast? ≠ some d →
      fatVal fs1 d = fatVal fs d)
    (hsc : sc = (L ++ [n]).headD 0) :
    FilBase fs1 { fp with sclust := sc, clust := cl } (L ++ [n]) ∧
    ∀ s k, inChain fs L s → fs1.disk.data s k = fs.disk.data s k := by
  obtain ⟨g1, g2, g3, g4, g5, g6, g7, g8, g9, g10, g11⟩ := geo_fields fs fs1 hg
  obtain ⟨r1, r2, r3⟩ := hrel
  have hfb := h.vol.fat_before
  have hnf := h.vol.fat.good.fats
  have hfs : fs.fatbase + fs.fsize ≤ fs.database := by
    have : fs.fsize ≤ fs.n_fats * fs.fsize := Nat.le_mul_of_pos_left _ hnf
    omega
  have hnz : ∀ c ∈ L, fatVal fs c ≠ 0 :=
    isChain_ne_zero fs (by omega) L h.chain (fun c hc => (h.inrange c hc).1)
  have hnL : n ∉ L := fun hm => hnz n hm hfree
  have hwin : ∀ c k, 2 ≤ c → c < fs.n_fatent → (c ∈ L ∨ fatVal fs c = 0) → k < fs.csize →
      fs.database + (c - 2) * fs.csize + k ≠ fs1.winsect := by
    intro c k h2 hc hm hk
    rcases r2 with e | e
    · rw [e]; exact h.win c k h2 hc hm hk
    · omega
  have hdat : ∀ s k, inChain fs L s → fs1.disk.data s k = fs.disk.data s k := by
    intro s k hs
    obtain ⟨c, j, hc, hj, rfl⟩ := hs
    obtain ⟨i2, i3⟩ := h.inrange c hc
    have v := r3 (fs.database + (c - 2) * fs.csize + j) k (Or.inr (by omega))
    unfold view at v
    rw [if_neg (hwin c j i2 i3 (Or.inl hc) hj), if_neg (h.win c j i2 i3 (Or.inl hc) hj)] at v
    exact v
  have heoc2 : fs1.n_fatent ≤ fatVal fs1 n := by
    rw [heoc, g8]; exact fatMask_eoc fs h.vol.hmax h.vol.fat
  have hpos := dataOk_pos fs h.vol
  have hcache : fp.dsect ≠ 0 → inChain fs1 (L ++ [n]) fp.dsect := by
    intro hz
    rw [inChain_geo fs fs1 hg]
    exact inChain_append fs L [n] _ (h.cached hz)
  refine ⟨⟨dataOk_of fs fs1 h.vol hok hbo hg r1, h.fsnz, by rw [g4]; exact h.idok, h.noerr, h.rd,
    h.wr, h.fsize32, hcache, ?_, ?_, ?_, hsc, ?_, h.dirty, h.bufb,
    ?_, ?_, ?_⟩, hdat⟩
  · rw [List.nodup_append]
    refine ⟨h.nodup, List.nodup_singleton n, ?_⟩
    intro a ha hb
    rw [List.mem_singleton] at hb
    rw [hb] at ha
    exact hnL ha
  · intro c hc
    rw [g8]
    rcases List.mem_append.1 hc with e | e
    · exact h.inrange c e
    · rw [List.mem_singleton] at e; rw [e]; exact ⟨hn2, hn⟩
  · refine isChain_snoc fs fs1 n g8 heoc2 L h.chain h.nodup hlink ?_
    intro c hc hl
    refine hoth c (h.inrange c hc).1 (h.inrange c hc).2 ?_ hl
    intro e; rw [e] at hc; exact hnL hc
  · intro hcl hz k hk
    show fp.buf k = fs1.disk.data fp.dsect k
    rw [hdat _ _ (h.cached hz)]
    exact h.clean hcl hz k (by rw [← g5]; exact hk)
  · intro c k h2 hc hm hk
    rw [g11, g2]
    rw [g8] at hc
    rw [g2] at hk
    refine hwin c k h2 hc ?_ hk
    rcases hm with e | e
    · rcases List.mem_append.1 e with e1 | e1
      · exact Or.inl e1
      · rw [List.mem_singleton] at e1; rw [e1]; exact Or.inr hfree
    · by_cases hcn : c = n
      · rw [hcn] at e; rw [e, g8] at heoc2; omega
      · by_cases hl : L.getLast? = some c
        · have := hlink c hl
          omega
        · rw [hoth c h2 hc hcn hl] at e; exact Or.inr e
  · show fp.fptr ≤ (L ++ [n]).length * (fs1.csize * fs1.ssize)
    rw [g2, g5, List.length_append, Nat.add_mul]
    have := h.fptr_le
    omega
  · intro hm
    show fp.dsect = secOf fs1 (L ++ [n]) fp.fptr
    have hm2 : fp.fptr % fs.ssize ≠ 0 := by rw [← g5]; exact hm
    rw [secOf_geo fs fs1 hg, h.cur hm2]
    unfold secOf
    rw [secAt_append fs L [n] (by omega)]
    have hle := h.fptr_le
    have hlt : fp.fptr / fs.ssize * fs.ssize < L.length * fs.csize * fs.ssize := by
      have := pos_split fs.ssize fp.fptr
      rw [Nat.mul_assoc]
      omega
    exact Nat.lt_of_mul_lt_mul_right hlt

theorem not_inChain_winsect (fs : FATFS) (fp : FF_FIL) (L : List Nat) (h : FilBase fs fp L) :
    ¬ inChain fs L fs.winsect := by
  intro hin
  obtain ⟨c, k, hc, hk, e⟩ := hin
  exact h.win c k (h.inrange c hc).1 (h.inrange c hc).2 (Or.inl hc) hk e.symm

/-- A change of the data sectors of the chain and of the sector cache of the
file object. -/
theorem base_update (fs : FATFS) (fp : FF_FIL) (L : List Nat) (h : FilBase fs fp L)
    (D : Nat → Nat → Nat) (flag1 dsect1 fptr1 : Nat) (buf1 : Nat → Nat)
    (hD : ∀ s k, s < 4294967296 → ¬ inChain fs L s → D s k = fs.disk.data s k)
    (hDb : ∀ s k, D s k < 256)
    (hrd : flag1 &&& FA_READ ≠ 0) (hwr : flag1 &&& FA_WRITE ≠ 0)
    (hcached : dsect1 ≠ 0 → inChain fs L dsect1)
    (hclean : flag1 &&& FA__DIRTY = 0 → dsect1 ≠ 0 → ∀ k, k < fs.ssize → buf1 k = D dsect1 k)
    (hdirty : flag1 &&& FA__DIRTY ≠ 0 → dsect1 ≠ 0)
    (hbuf : ∀ k, buf1 k < 256)
    (hle : fptr1 ≤ L.length * (fs.csize * fs.ssize))
    (hcur : fptr1 % fs.ssize ≠ 0 → dsect1 = secOf fs L fptr1) :
    FilBase { fs with disk := { fs.disk with data := D } }
      { fp with flag := flag1, dsect := dsect1, buf := buf1, fptr := fptr1 } L := by
  have hnw := not_inChain_winsect fs fp L h
  have hfb := h.vol.fat_before
  have hnf := h.vol.fat.good.fats
  have hfs : fs.fatbase + fs.fsize ≤ fs.database := by
    have : fs.fsize ≤ fs.n_fats * fs.fsize := Nat.le_mul_of_pos_left _ hnf
    omega
  have hlow : ∀ s k, s < fs.database → D s k = fs.disk.data s k := by
    intro s k hs
    have hde := h.vol.data_end
    apply hD _ _ (by omega)
    intro hin
    have := (inChain_range fs h.vol L h.inrange s hin).1
    omega
  have hgood : FATFS.good { fs with disk := { fs.disk with data := D } } :=
    ⟨h.vol.fat.good.writable, h.vol.fat.good.faithful, h.vol.fat.good.fats,
      h.vol.fat.good.nowrap, h.vol.fat.good.winsect_lt, fun hw k => by
        show fs.win k = D fs.winsect k
        rw [hD _ _ h.vol.fat.good.winsect_lt hnw]; exact h.vol.fat.good.coherent hw k⟩
  have hok : FATFS.fatOk { fs with disk := { fs.disk with data := D } } :=
    ⟨hgood, h.vol.fat.subtype, h.vol.fat.ssize_pos, h.vol.fat.ssize_mul, h.vol.fat.entries,
      h.vol.fat.fits⟩
  have hbo : FATFS.bytesOk { fs with disk := { fs.disk with data := D } } :=
    ⟨h.vol.bytes.1, hDb⟩
  have hv : ∀ d, d < fs.n_fatent →
      fatVal { fs with disk := { fs.disk with data := D } } d = fatVal fs d := by
    intro d hd
    refine fatVal_data fs { fs with disk := { fs.disk with data := D } } h.vol.fat rfl rfl rfl
      ?_ d hd
    intro s k hs
    unfold view
    show (if s = fs.winsect then fs.win k else D s k) = _
    rw [hlow s k (by omega)]
  refine ⟨⟨hok, hbo, h.vol.hmax, h.vol.csize_pow, h.vol.ssize_pow, h.vol.fat_before,
    h.vol.data_end, h.vol.ready, h.vol.lockable⟩, h.fsnz, h.idok, h.noerr, hrd, hwr, h.fsize32,
    hcached, h.nodup, h.inrange, ?_, h.head, hclean, hdirty, hbuf, ?_, hle, hcur⟩
  · exact isChain_congr fs { fs with disk := { fs.disk with data := D } } rfl L h.chain
      (fun c hc => hv c (h.inrange c hc).2)
  · intro c k h2 hc hm hk
    refine h.win c k h2 hc ?_ hk
    rcases hm with e | e
    · exact Or.inl e
    · rw [hv c hc] at e; exact Or.inr e

/-- The volume mutex does not matter for a file object. -/
theorem base_sobj (fs : FATFS) (fp : FF_FIL) (L : List Nat) (h : FilBase fs fp L) (x : Nat) :
    FilBase { fs with sobj := x } fp L := by
  have hgood : FATFS.good { fs with sobj := x } :=
    ⟨h.vol.fat.good.writable, h.vol.fat.good.faithful, h.vol.fat.good.fats,
      h.vol.fat.good.nowrap, h.vol.fat.good.winsect_lt, h.vol.fat.good.coherent⟩
  have hok : FATFS.fatOk { fs with sobj := x } :=
    ⟨hgood, h.vol.fat.subtype, h.vol.fat.ssize_pos, h.vol.fat.ssize_mul, h.vol.fat.entries,
      h.vol.fat.fits⟩
  refine ⟨⟨hok, h.vol.bytes, h.vol.hmax, h.vol.csize_pow, h.vol.ssize_pow, h.vol.fat_before,
    h.vol.data_end, h.vol.ready, h.vol.lockable⟩, h.fsnz, h.idok, h.noerr, h.rd, h.wr, h.fsize32,
    h.cached, h.nodup, h.inrange, ?_, h.head, h.clean, h.dirty, h.bufb, h.win, h.fptr_le, h.cur⟩
  exact isChain_congr fs { fs with sobj := x } rfl L h.chain (fun c hc => rfl)

/-- The fields `clust`, `fsize` and the written bit of the flag do not
matter for the base invariant. -/
theorem base_fields (fs : FATFS) (fp : FF_FIL) (L : List Nat) (h : FilBase fs fp L)
    (cl fsz flag1 : Nat) (hf : fsz < 4294967296) (hrd : flag1 &&& FA_READ ≠ 0)
    (hwr : flag1 &&& FA_WRITE ≠ 0) (hdi : flag1 &&& FA__DIRTY = fp.flag &&& FA__DIRTY) :
    FilBase fs { fp with clust := cl, fsize := fsz, flag := flag1 } L :=
  ⟨h.vol, h.fsnz, h.idok, h.noerr, hrd, hwr, hf, h.cached, h.nodup, h.inrange, h.chain, h.head,
    fun hc => h.clean (by rw [← hdi]; exact hc), fun hc => h.dirty (by rw [← hdi]; exact hc),
    h.bufb, h.win, h.fptr_le, h.cur⟩

theorem isChain_get (fs : FATFS) : ∀ (L : List Nat) (i : Nat), isChain fs L → i + 1 < L.length →
    fatVal fs (L.getD i 0) = L.getD (i + 1) 0
  | [], _, _, h => by simp at h
  | [_], _, _, h => by simp at h
  | a :: b :: rest, 0, hc, _ => by
    have h1 : fatVal fs a = b ∧ isChain fs (b :: rest) := hc
    simpa using h1.1
  | a :: b :: rest, i + 1, hc, h => by
    have h1 : fatVal fs a = b ∧ isChain fs (b :: rest) := hc
    have := isChain_get fs (b :: rest) i h1.2 (by simpa using h)
    simpa using this

theorem getLast_getD (L : List Nat) (hL : L ≠ []) : L.getLast? = some (L.getD (L.length - 1) 0) := by
  have hlen : 0 < L.length := List.length_pos.2 hL
  rw [List.getLast?_eq_getElem?, List.getD_eq_getElem?_getD]
  rw [List.getElem?_eq_getElem (by omega)]
  rfl

theorem getD_mem (L : List Nat) (i : Nat) (hi : i < L.length) : L.getD i 0 ∈ L := by
  rw [List.getD_eq_getElem _ _ hi]
  exact List.getElem_mem hi

/-- `create_chain` on a cluster of the chain: the next cluster of the chain
when there is one; at the end of the chain (or for a new chain) no free
cluster, an internal error, or a free cluster that becomes the new last
cluster. -/
theorem create_chain_base (fs : FATFS) (fp : FF_FIL) (L : List Nat) (h : FilBase fs fp L)
    (clst i : Nat) (hcl : (clst = 0 ∧ L = [] ∧ i = 0) ∨ (i < L.length ∧ clst = L.getD i 0 ∧ i + 1 ≤ L.length)) :
    ∃ fs1 r, create_chain fs clst = some (fs1, r) ∧ fs1.geo = fs.geo ∧
      ((i + 1 < L.length ∧ r = L.getD (i + 1) 0 ∧ FilBase fs1 fp L ∧
          ∀ s k, inChain fs L s → fs1.disk.data s k = fs.disk.data s k) ∨
       (L.length ≤ i + 1 ∧
         ((r = 0 ∧ FilBase fs1 fp L) ∨ r = 1 ∨
          (2 ≤ r ∧ r < fs.n_fatent ∧
            (∀ sc cl, sc = (L ++ [r]).headD 0 →
              FilBase fs1 { fp with sclust := sc, clust := cl } (L ++ [r])) ∧
            ∀ s k, inChain fs L s → fs1.disk.data s k = fs.disk.data s k)))) := by
  have hrange : clst = 0 ∨ (2 ≤ clst ∧ clst < fs.n_fatent) := by
    rcases hcl with ⟨e, -, -⟩ | ⟨hi, e, -⟩
    · exact Or.inl e
    · rw [e]; exact Or.inr (h.inrange _ (getD_mem L i hi))
  obtain ⟨fs1, r, e, hok1, hbo1, hcase⟩ := create_chain_spec fs h.vol.fat h.vol.bytes clst hrange
  have hrel := create_chain_rel fs h.vol.fat h.vol.bytes clst fs1 r e
  have hgeo : fs1.geo = fs.geo := by
    rcases hcase with ⟨-, -, -, hm, -⟩ | ⟨-, ⟨-, -, hm, -⟩ | ⟨-, -, hm, -⟩ | ⟨-, -, -, hm, -⟩⟩
    · exact geo_of_meta fs fs1 hm
    · exact geo_of_meta fs fs1 hm
    · exact geo_of_meta fs fs1 hm
    · exact geo_of_hints fs fs1 r hm
  refine ⟨fs1, r, e, hgeo, ?_⟩
  rcases hcase with ⟨hne, hlt, hr, hm, hv⟩ | ⟨hend, hcase2⟩
  · -- the entry of `clst` is below `n_fatent`: the chain goes on
    rcases hcl with ⟨e0, -, -⟩ | ⟨hi, e1, -⟩
    · exact absurd e0 hne
    have hnext : i + 1 < L.length := by
      by_contra hcon
      have hlast : L.getLast? = some clst := by
        have hL : L ≠ [] := by intro hh; rw [hh] at hi; simp at hi
        rw [getLast_getD L hL, e1]
        congr 2
        omega
      have := isChain_last fs L clst h.chain hlast
      omega
    have hval : fatVal fs clst = L.getD (i + 1) 0 := by
      rw [e1]; exact isChain_get fs L i h.chain hnext
    have hr2 := (h.inrange _ (getD_mem L (i + 1) hnext)).1
    rw [hval] at hr
    rw [if_neg (by omega)] at hr
    obtain ⟨b1, b2⟩ := base_fat fs fs1 fp L h hrel hok1 hbo1 (geo_of_meta fs fs1 hm) hv
    exact Or.inl ⟨hnext, hr, b1, b2⟩
  · have hlen : L.length ≤ i + 1 := by
      rcases hcl with ⟨-, eL, e0⟩ | ⟨hi, e1, hle⟩
      · rw [eL, e0]; simp
      · by_contra hcon
        have hnext : i + 1 < L.length := by omega
        have hval : fatVal fs clst = L.getD (i + 1) 0 := by
          rw [e1]; exact isChain_get fs L i h.chain hnext
        have hr2 := (h.inrange _ (getD_mem L (i + 1) hnext)).2
        rcases hend with e0 | e0
        · have := (h.inrange _ (getD_mem L i hi)).1
          omega
        · omega
    refine Or.inr ⟨hlen, ?_⟩
    rcases hcase2 with ⟨hr, -, hm, hv⟩ | ⟨hr, -⟩ | ⟨hr2, hrn, hfree, hm, heoc, hlink, hoth⟩
    · exact Or.inl ⟨hr, (base_fat fs fs1 fp L h hrel hok1 hbo1 (geo_of_meta fs fs1 hm) hv).1⟩
    · exact Or.inr (Or.inl hr)
    · have hl : ∀ a, L.getLast? = some a → fatVal fs1 a = r := by
        intro a ha
        rcases hcl with ⟨-, eL, -⟩ | ⟨hi, e1, hle⟩
        · rw [eL] at ha; simp at ha
        · have hL : L ≠ [] := by intro hh; rw [hh] at hi; simp at hi
          have hc2 := (h.inrange _ (getD_mem L i hi)).1
          rw [getLast_getD L hL] at ha
          have hii : L.length - 1 = i := by omega
          rw [hii, ← e1] at ha
          have hac : a = clst := by simpa using ha.symm
          rw [hac, hlink (by omega), fatMask_small fs h.vol.fat h.vol.hmax r hrn]
      have ho : ∀ d, 2 ≤ d → d < fs.n_fatent → d ≠ r → L.getLast? ≠ some d →
          fatVal fs1 d = fatVal fs d := by
        intro d hd2 hd hdr hdl
        refine hoth d hd hdr ?_
        intro hdc
        rcases hcl with ⟨e0, -, -⟩ | ⟨hi, e1, hle⟩
        · omega
        · apply hdl
          have hL : L ≠ [] := by intro hh; rw [hh] at hi; simp at hi
          rw [getLast_getD L hL]
          have hii : L.length - 1 = i := by omega
          rw [hii, ← e1, hdc]
      refine Or.inr (Or.inr ⟨hr2, hrn, ?_, ?_⟩)
      · intro sc cl hsc
        exact (base_alloc fs fs1 fp L r sc cl h hrel hok1 hbo1 (geo_of_hints fs fs1 r hm) hr2 hrn
          hfree heoc hl ho hsc).1
      · exact (base_alloc fs fs1 fp L r _ 0 h hrel hok1 hbo1 (geo_of_hints fs fs1 r hm) hr2 hrn
          hfree heoc hl ho rfl).2

/-! ### the content of a file -/

theorem fptr_sector (fs : FATFS) (hd : fs.dataOk) (len p : Nat)
    (h : p < len * (fs.csize * fs.ssize)) : p / fs.ssize < len * fs.csize := by
  obtain ⟨-, -, hs1, -⟩ := dataOk_pos fs hd
  rw [Nat.div_lt_iff_lt_mul hs1, Nat.mul_assoc]
  exact h

theorem secOf_inChain (fs : FATFS) (hd : fs.dataOk) (L : List Nat) (p : Nat)
    (h : p < L.length * (fs.csize * fs.ssize)) : inChain fs L (secOf fs L p) :=
  secAt_inChain fs L (dataOk_pos fs hd).1 _ (fptr_sector fs hd _ p h)

/-- With a clean sector cache the file object sees the bytes of the
device. -/
theorem clean_content (fs : FATFS) (fp : FF_FIL) (L : List Nat) (h : FilBase fs fp L)
    (hc : fp.flag &&& FA__DIRTY = 0) (s k : Nat) (hs : s ≠ 0) (hk : k < fs.ssize) :
    cdata fs fp s k = fs.disk.data s k := by
  unfold cdata
  by_cases e : s = fp.dsect
  · rw [if_pos e, h.clean hc (by rw [← e]; exact hs) k hk, e]
  · rw [if_neg e]

/-- The write-back of a dirty sector cache. -/
theorem base_flush (fs : FATFS) (fp : FF_FIL) (L : List Nat) (h : FilBase fs fp L)
    (hdi : fp.flag &&& FA__DIRTY ≠ 0) :
    FilBase { fs with disk := { fs.disk with data := Function.update fs.disk.data fp.dsect fp.buf } }
      { fp with flag := fp.flag &&& (255 - FA__DIRTY) } L := by
  have hin := h.cached (h.dirty hdi)
  refine base_update fs fp L h (Function.update fs.disk.data fp.dsect fp.buf)
    (fp.flag &&& (255 - FA__DIRTY)) fp.dsect fp.fptr fp.buf ?_ ?_ ?_ ?_ h.cached ?_ ?_ h.bufb
    h.fptr_le h.cur
  · intro s k _ hs
    have hne : s ≠ fp.dsect := by intro e; rw [e] at hs; exact hs hin
    rw [Function.update_noteq hne]
  · intro s k
    by_cases e : s = fp.dsect
    · rw [e, Function.update_same]; exact h.bufb k
    · rw [Function.update_noteq e]; exact h.vol.bytes.2 s k
  · rw [flag_clear_read]; exact h.rd
  · rw [flag_clear_write]; exact h.wr
  · intro _ _ k _
    rw [Function.update_same]
  · intro hc
    exact absurd (flag_clear_dirty fp.flag) hc

theorem flush_cdata (fs : FATFS) (fp : FF_FIL) (s k : Nat) :
    cdata { fs with disk := { fs.disk with data := Function.update fs.disk.data fp.dsect fp.buf } }
      { fp with flag := fp.flag &&& (255 - FA__DIRTY) } s k = cdata fs fp s k := by
  unfold cdata
  show (if s = fp.dsect then fp.buf k else Function.update fs.disk.data fp.dsect fp.buf s k) = _
  by_cases e : s = fp.dsect
  · rw [if_pos e, if_pos e]
  · rw [if_neg e, if_neg e, Function.update_noteq e]

/-! ### the faithful device -/

theorem disk_write_n_faithful (d : Disk) (hf : d.faithful) (ss : Nat) (buf : Nat → Nat)
    (off sect cc : Nat) :
    disk_write_n d ss buf off sect cc = some { d with
      data := fun s j =>
        if sub32 s sect < cc then buf (off + sub32 s sect * ss + j) else d.data s j } := by
  unfold disk_write_n
  have : (List.range cc).any (fun k => d.wfail (add32 sect k)) = false := by
    rw [List.any_eq_false]
    intro x _
    rw [hf.2]; decide
  rw [this]
  rfl

theorem disk_read_n_faithful (d : Disk) (hf : d.faithful) (ss sect cc : Nat) :
    disk_read_n d ss sect cc = some fun j => d.data (add32 sect (j / ss)) (j % ss) := by
  unfold disk_read_n
  have : (List.range cc).any (fun k => d.rfail (add32 sect k)) = false := by
    rw [List.any_eq_false]
    intro x _
    rw [hf.1]; decide
  rw [this]
  rfl

theorem same_sector (ss F x : Nat) (hss : 0 < ss) (h1 : F ≤ x) (h2 : x < F - F % ss + ss) :
    x / ss = F / ss := by
  have hs := pos_split ss F
  apply div_of_bounds ss (F / ss) x
  · have := Nat.mod_lt F hss; omega
  · rw [Nat.add_mul, Nat.one_mul]; omega

theorem mod_same_sector (ss F x : Nat) (hss : 0 < ss) (h1 : F ≤ x) (h2 : x < F - F % ss + ss) :
    x % ss = F % ss + (x - F) := by
  have e := same_sector ss F x hss h1 h2
  have hs := pos_split ss F
  have hx := pos_split ss x
  rw [e] at hx
  omega

theorem sector_end_le (fs : FATFS) (hd : fs.dataOk) (len F : Nat)
    (h : F < len * (fs.csize * fs.ssize)) : F - F % fs.ssize + fs.ssize ≤ len * (fs.csize * fs.ssize) := by
  have hi := fptr_sector fs hd len F h
  have hs := pos_split fs.ssize F
  have h1 : (F / fs.ssize + 1) * fs.ssize ≤ len * fs.csize * fs.ssize :=
    Nat.mul_le_mul_right _ hi
  rw [Nat.add_mul, Nat.one_mul, Nat.mul_assoc] at h1
  omega

/-- The file object after a transfer of `n` bytes through the sector cache,
which holds the sector of the file pointer `F`. -/
theorem wstep_cache (fs : FATFS) (fp0 : FF_FIL) (L : List Nat) (h : FilBase fs fp0 L)
    (F n cl dsect1 flag1 : Nat) (buf1 : Nat → Nat)
    (hlt : F < L.length * (fs.csize * fs.ssize))
    (hds : dsect1 = secOf fs L F) (hbuf : ∀ k, buf1 k < 256)
    (hrd : flag1 &&& FA_READ ≠ 0) (hwr : flag1 &&& FA_WRITE ≠ 0)
    (hcl : flag1 &&& FA__DIRTY = 0 → ∀ k, k < fs.ssize → buf1 k = fs.disk.data dsect1 k)
    (hn1 : 1 ≤ n) (hn2 : n ≤ fs.ssize - F % fs.ssize) (hF32 : F + n < 4294967296)
    (hcl1 : cl = L.getD (F / (fs.csize * fs.ssize)) 0) :
    FilOk fs { fp0 with clust := cl, dsect := dsect1, buf := buf1, flag := flag1,
                        fptr := add32 F n } L := by
  obtain ⟨hc1, -, hs1, -⟩ := dataOk_pos fs h.vol
  have hadd : add32 F n = F + n := by unfold add32; exact Nat.mod_eq_of_lt hF32
  have hin : inChain fs L dsect1 := by rw [hds]; exact secOf_inChain fs h.vol L F hlt
  have hnz : dsect1 ≠ 0 := by
    have := (inChain_range fs h.vol L h.inrange _ hin).2.2
    omega
  have hend := sector_end_le fs h.vol L.length F hlt
  have hmod := Nat.mod_lt F hs1
  have hb := base_update fs (fp0) L h fs.disk.data flag1 dsect1 (add32 F n) buf1
    (fun _ _ _ _ => rfl) h.vol.bytes.2 hrd hwr (fun _ => hin) (fun hc _ => hcl hc)
    (fun _ => hnz) hbuf (by rw [hadd]; omega) (by
      intro hm
      rw [hadd] at hm ⊢
      rw [hds]
      unfold secOf
      have hne : F + n ≠ F - F % fs.ssize + fs.ssize := by
        intro e
        apply hm
        have hs := pos_split fs.ssize F
        have : F + n = (F / fs.ssize + 1) * fs.ssize := by
          rw [Nat.add_mul, Nat.one_mul]; omega
        rw [this]; exact Nat.mul_mod_left _ _
      rw [same_sector fs.ssize F (F + n) hs1 (by omega) (by omega)])
  refine ⟨base_fields fs _ L hb cl fp0.fsize flag1 h.fsize32 hrd hwr rfl, ?_⟩
  intro _
  show cl = L.getD ((add32 F n - 1) / (fs.csize * fs.ssize)) 0
  rw [hcl1, hadd, cluster_index, cluster_index,
    same_sector fs.ssize F (F + n - 1) hs1 (by omega) (by omega)]

theorem div_mod_add (cs I i : Nat) (h : I % cs + i < cs) :
    (I + i) / cs = I / cs ∧ (I + i) % cs = I % cs + i := by
  have hcs : 0 < cs := by omega
  have e : I + i = (I % cs + i) + cs * (I / cs) := by
    have := Nat.div_add_mod I cs; omega
  rw [e, Nat.add_mul_div_left _ _ hcs, Nat.add_mul_mod_self_left, Nat.div_eq_of_lt h,
    Nat.mod_eq_of_lt h]
  omega

theorem secAt_add (fs : FATFS) (L : List Nat) (I i : Nat) (h : I % fs.csize + i < fs.csize) :
    secAt fs L (I + i) = secAt fs L I + i := by
  obtain ⟨e1, e2⟩ := div_mod_add fs.csize I i h
  unfold secAt
  rw [e1, e2]
  omega

theorem secAt_add_lt (fs : FATFS) (len I i : Nat) (hI : I < len * fs.csize)
    (h : I % fs.csize + i < fs.csize) : I + i < len * fs.csize := by
  have hcs : 0 < fs.csize := by omega
  obtain ⟨e1, e2⟩ := div_mod_add fs.csize I i h
  have h1 : I / fs.csize < len := (Nat.div_lt_iff_lt_mul hcs).2 hI
  rw [← e1] at h1
  exact (Nat.div_lt_iff_lt_mul hcs).1 h1

theorem secAt_end (fs : FATFS) (hd : fs.dataOk) (L : List Nat)
    (hr : ∀ c ∈ L, 2 ≤ c ∧ c < fs.n_fatent) (I : Nat) (hI : I < L.length * fs.csize) :
    secAt fs L I + (fs.csize - I % fs.csize) ≤ 4294967296 ∧ 1 ≤ secAt fs L I ∧
    secAt fs L I = clust2sect fs (L.getD (I / fs.csize) 0) + I % fs.csize := by
  obtain ⟨hc1, -⟩ := dataOk_pos fs hd
  have hq : I / fs.csize < L.length := (Nat.div_lt_iff_lt_mul hc1).2 hI
  obtain ⟨r1, r2⟩ := hr _ (getD_mem L _ hq)
  obtain ⟨c1, c2, c3⟩ := clust2sect_eq fs hd _ r1 r2
  have hm := Nat.mod_lt I hc1
  unfold secAt
  rw [c1]
  omega

/-- The bytes of the device after a write of `cc` whole sectors at the
sector-aligned file pointer `F`. -/
theorem multi_content (fs : FATFS) (hd : fs.dataOk) (L : List Nat) (hnd : L.Nodup)
    (hr : ∀ c ∈ L, 2 ≤ c ∧ c < fs.n_fatent) (F cc off : Nat) (buff : Nat → Nat)
    (hF0 : F % fs.ssize = 0) (hlt : F < L.length * (fs.csize * fs.ssize))
    (hcc2 : F / fs.ssize % fs.csize + cc ≤ fs.csize) (p : Nat)
    (hp : p < L.length * (fs.csize * fs.ssize)) :
    (if sub32 (secOf fs L p) (secOf fs L F) < cc
      then buff (off + sub32 (secOf fs L p) (secOf fs L F) * fs.ssize + p % fs.ssize)
      else fs.disk.data (secOf fs L p) (p % fs.ssize)) =
    if F ≤ p ∧ p < F + fs.ssize * cc then buff (off + (p - F))
    else fs.disk.data (secOf fs L p) (p % fs.ssize) := by
  obtain ⟨hc1, -, hs1, -⟩ := dataOk_pos fs hd
  have hI := fptr_sector fs hd L.length F hlt
  have hi := fptr_sector fs hd L.length p hp
  obtain ⟨e1, e2, -⟩ := secAt_end fs hd L hr _ hI
  obtain ⟨f1, f2, -⟩ := secAt_end fs hd L hr _ hi
  have hsF := pos_split fs.ssize F
  have hsp := pos_split fs.ssize p
  have hmp := Nat.mod_lt p hs1
  rw [hF0] at hsF
  unfold secOf
  by_cases hin : F ≤ p ∧ p < F + fs.ssize * cc
  · rw [if_pos hin]
    have hle : F / fs.ssize ≤ p / fs.ssize := Nat.div_le_div_right hin.1
    have hlt2 : p / fs.ssize < F / fs.ssize + cc := by
      rw [Nat.div_lt_iff_lt_mul hs1, Nat.add_mul, Nat.mul_comm cc]
      omega
    obtain ⟨j, hj⟩ : ∃ j, p / fs.ssize = F / fs.ssize + j := ⟨p / fs.ssize - F / fs.ssize, by omega⟩
    have hjc : j < cc := by omega
    rw [hj, secAt_add fs L _ j (by omega)]
    have hsub : sub32 (secAt fs L (F / fs.ssize) + j) (secAt fs L (F / fs.ssize)) = j := by
      unfold sub32; omega
    rw [hsub, if_pos hjc]
    congr 1
    rw [hj, Nat.add_mul] at hsp
    omega
  · rw [if_neg hin]
    by_cases hsub : sub32 (secAt fs L (p / fs.ssize)) (secAt fs L (F / fs.ssize)) < cc
    · exfalso
      apply hin
      obtain ⟨j, hj⟩ : ∃ j, j = sub32 (secAt fs L (p / fs.ssize)) (secAt fs L (F / fs.ssize)) :=
        ⟨_, rfl⟩
      rw [← hj] at hsub
      have hs : secAt fs L (p / fs.ssize) = secAt fs L (F / fs.ssize) + j := by
        unfold sub32 at hj; omega
      rw [← secAt_add fs L _ j (by omega)] at hs
      have := secAt_inj fs L hc1 hnd hr _ _ hi
        (secAt_add_lt fs L.length _ j hI (by omega)) hs
      rw [this, Nat.add_mul] at hsp
      have hjm : j * fs.ssize + fs.ssize ≤ cc * fs.ssize := by
        have : (j + 1) * fs.ssize ≤ cc * fs.ssize := Nat.mul_le_mul_right _ hsub
        rw [Nat.add_mul, Nat.one_mul] at this
        exact this
      rw [Nat.mul_comm fs.ssize cc]
      omega
    · rw [if_neg hsub]

/-- The file object after a write of `cc` whole sectors at the
sector-aligned file pointer `F`. -/
theorem wstep_multi (fs : FATFS) (fp : FF_FIL) (L : List Nat) (h : FilBase fs fp L)
    (F cl cc off flag1 : Nat) (buff buf1 : Nat → Nat)
    (hF0 : F % fs.ssize = 0) (hlt : F < L.length * (fs.csize * fs.ssize))
    (hcc1 : 1 ≤ cc) (hcc2 : F / fs.ssize % fs.csize + cc ≤ fs.csize)
    (hF32 : F + fs.ssize * cc < 4294967296) (hb : ∀ k, buff k < 256) (hbuf : ∀ k, buf1 k < 256)
    (hrd : flag1 &&& FA_READ ≠ 0) (hwr : flag1 &&& FA_WRITE ≠ 0)
    (hfl : flag1 &&& FA__DIRTY = 0)
    (hcl : fp.dsect ≠ 0 → ∀ k, k < fs.ssize → buf1 k =
      (if sub32 fp.dsect (secOf fs L F) < cc
        then buff (off + sub32 fp.dsect (secOf fs L F) * fs.ssize + k)
        else fs.disk.data fp.dsect k))
    (hcl1 : cl = L.getD (F / (fs.csize * fs.ssize)) 0) :
    FilOk { fs with disk := { fs.disk with
              data := fun s j =>
                if sub32 s (secOf fs L F) < cc
                  then buff (off + sub32 s (secOf fs L F) * fs.ssize + j)
                  else fs.disk.data s j } }
      { fp with clust := cl, buf := buf1, flag := flag1, fptr := add32 F (fs.ssize * cc) } L := by
  obtain ⟨hc1, -, hs1, -⟩ := dataOk_pos fs h.vol
  have hadd : add32 F (fs.ssize * cc) = F + fs.ssize * cc := by
    unfold add32; exact Nat.mod_eq_of_lt hF32
  have hI := fptr_sector fs h.vol L.length F hlt
  obtain ⟨e1, e2, -⟩ := secAt_end fs h.vol L h.inrange _ hI
  have hsF := pos_split fs.ssize F
  rw [hF0] at hsF
  have hIc := secAt_add_lt fs L.length (F / fs.ssize) (cc - 1) hI (by omega)
  have hend : F + fs.ssize * cc ≤ L.length * (fs.csize * fs.ssize) := by
    have h1 : (F / fs.ssize + (cc - 1) + 1) * fs.ssize ≤ L.length * fs.csize * fs.ssize :=
      Nat.mul_le_mul_right _ hIc
    have h2 : F / fs.ssize + (cc - 1) + 1 = F / fs.ssize + cc := by omega
    rw [h2, Nat.add_mul, Nat.mul_assoc, Nat.mul_comm cc] at h1
    omega
  have hmod : (F + fs.ssize * cc) % fs.ssize = 0 := by
    rw [Nat.add_mul_mod_self_left]; exact hF0
  have hbase := base_update fs fp L h (fun s j =>
      if sub32 s (secOf fs L F) < cc
        then buff (off + sub32 s (secOf fs L F) * fs.ssize + j)
        else fs.disk.data s j) flag1 fp.dsect (add32 F (fs.ssize * cc)) buf1
    (by
      intro s k hs hnin
      dsimp only
      by_cases hsub : sub32 s (secOf fs L F) < cc
      · exfalso
        apply hnin
        obtain ⟨j, hj⟩ : ∃ j, j = sub32 s (secOf fs L F) := ⟨_, rfl⟩
        rw [← hj] at hsub
        unfold secOf at hj
        have hs2 : s = secAt fs L (F / fs.ssize) + j := by
          unfold sub32 at hj; omega
        rw [← secAt_add fs L _ j (by omega)] at hs2
        rw [hs2]
        exact secAt_inChain fs L hc1 _ (secAt_add_lt fs L.length _ j hI (by omega))
      · rw [if_neg hsub])
    (by
      intro s k
      dsimp only
      split_ifs
      · exact hb _
      · exact h.vol.bytes.2 s k)
    hrd hwr h.cached (fun _ hz k hk => hcl hz k hk) (fun hc => absurd hfl hc) hbuf
    (by rw [hadd]; exact hend) (by rw [hadd]; intro hm; exact absurd hmod hm)
  refine ⟨base_fields _ _ L hbase cl fp.fsize flag1 h.fsize32 hrd hwr rfl, ?_⟩
  intro _
  show cl = L.getD ((add32 F (fs.ssize * cc) - 1) / (fs.csize * fs.ssize)) 0
  rw [hcl1, hadd, cluster_index, cluster_index]
  have hpos : 0 < fs.ssize * cc := Nat.mul_pos hs1 hcc1
  have hdiv : (F + fs.ssize * cc - 1) / fs.ssize = F / fs.ssize + (cc - 1) := by
    apply div_of_bounds
    · rw [Nat.add_mul]
      have : (cc - 1) * fs.ssize + fs.ssize = cc * fs.ssize := by
        rw [← Nat.succ_mul]; congr 1; omega
      rw [Nat.mul_comm fs.ssize cc]
      omega
    · have : (F / fs.ssize + (cc - 1) + 1) * fs.ssize = F / fs.ssize * fs.ssize + cc * fs.ssize := by
        rw [← Nat.add_mul]; congr 1; omega
      rw [this, Nat.mul_comm fs.ssize cc]
      rw [Nat.mul_comm fs.ssize cc] at hpos
      omega
  rw [hdiv, (div_mod_add fs.csize (F / fs.ssize) (cc - 1) (by omega)).1]

theorem fileByte_flushed (fs : FATFS) (fp : FF_FIL) (L : List Nat) (h : FilBase fs fp L)
    (hc : fp.flag &&& FA__DIRTY = 0) (p : Nat) (hp : p < L.length * (fs.csize * fs.ssize)) :
    fileByte fs fp L p = fs.disk.data (secOf fs L p) (p % fs.ssize) := by
  obtain ⟨-, -, hs1, -⟩ := dataOk_pos fs h.vol
  have hin := secOf_inChain fs h.vol L p hp
  have hnz := (inChain_range fs h.vol L h.inrange _ hin).2.2
  exact clean_content fs fp L h hc _ _ (by omega) (Nat.mod_lt _ hs1)

/-- The transfer part of one round of the write loop, entered at a
sector-aligned file pointer with a clean sector cache and `fp->clust` the
cluster of the file pointer. -/
theorem write_xfer (buff : Nat → Nat) (hb : ∀ k, buff k < 256) (O T fsz fuel : Nat)
    (hT : O + T ≤ 4294967295)
    (ih : ∀ st L, st.todo < fuel → FilOk st.fs st.fp L → WriteInv buff O T fsz st L →
      ∃ res, f_write_loop fuel st = some res ∧ WritePost buff O T fsz res)
    (fs : FATFS) (fp : FF_FIL) (off cnt todo : Nat) (L : List Nat) (ss csect : Nat)
    (hss : ss = fs.ssize) (hcs : csect = fp.fptr / fs.ssize % fs.csize)
    (hbase : FilBase fs fp L) (hclean : fp.flag &&& FA__DIRTY = 0)
    (hinv : WriteInv buff O T fsz ⟨fs, fp, buff, off, cnt, todo⟩ L)
    (hF0 : fp.fptr % fs.ssize = 0)
    (hlt : fp.fptr < L.length * (fs.csize * fs.ssize))
    (hcl : fp.clust = L.getD (fp.fptr / (fs.csize * fs.ssize)) 0)
    (ht : todo ≠ 0) (hfuel : todo ≤ fuel) :
    ∃ res,
      (let partial_ (st : RWState) : Option ((RWState × FRESULT) ⊕ RWState) :=
          let wcnt := ss - st.fp.fptr % ss
          let wcnt := if wcnt > st.todo then st.todo else wcnt
          let fp : FF_FIL := { st.fp with buf := memcpy st.fp.buf (st.fp.fptr % ss) st.buff st.off wcnt,
                                          flag := st.fp.flag ||| FA__DIRTY }
          f_write_loop fuel (rw_advance { st with fp := fp } wcnt)
        let st : RWState := ⟨fs, fp, buff, off, cnt, todo⟩
        let sect := clust2sect fs fp.clust
        if sect = 0 then some (.inl (rw_abort st FR_INT_ERR))
        else
          let sect := add32 sect csect
          let cc := st.todo / ss
          if cc ≠ 0 then
            let cc := if csect + cc > fs.csize then fs.csize - csect else cc
            match disk_write_n fs.disk ss st.buff st.off sect cc with
            | none => some (.inl (rw_abort st FR_DISK_ERR))
            | some d =>
              let fp : FF_FIL :=
                if sub32 fp.dsect sect < cc then
                  { fp with buf := memcpy fp.buf 0 st.buff (st.off + sub32 fp.dsect sect * ss) ss,
                            flag := fp.flag &&& (255 - FA__DIRTY) }
                else fp
              f_write_loop fuel (rw_advance { st with fs := { fs with disk := d }, fp := fp } (ss * cc))
          else
            let load : Option FF_FIL :=
              if fp.dsect ≠ sect ∧ fp.fptr < fp.fsize then
                match disk_read fs.disk sect with
                | none => none
                | some b => some { fp with buf := b }
              else some fp
            match load with
            | none => some (.inl (rw_abort st FR_DISK_ERR))
            | some fp => partial_ { st with fp := { fp with dsect := sect } }) = some res ∧
      WritePost buff O T fsz res := by
  subst hss
  subst hcs
  obtain ⟨-, hfp, hcnt, hsum, hfsz, hcont⟩ := hinv
  dsimp only at hfp hcnt hsum hfsz hcont
  obtain ⟨hc1, -, hs1, -⟩ := dataOk_pos fs hbase.vol
  have hI := fptr_sector fs hbase.vol L.length fp.fptr hlt
  obtain ⟨e1, e2, e3⟩ := secAt_end fs hbase.vol L hbase.inrange _ hI
  have hcl2 : fp.clust = L.getD (fp.fptr / fs.ssize / fs.csize) 0 := by
    rw [hcl, cluster_index]
  have hmod := Nat.mod_lt (fp.fptr / fs.ssize) hc1
  have hsect : add32 (clust2sect fs fp.clust) (fp.fptr / fs.ssize % fs.csize) =
      secOf fs L fp.fptr := by
    unfold secOf
    rw [e3, ← hcl2]
    unfold add32
    apply Nat.mod_eq_of_lt
    rw [e3, ← hcl2] at e1
    omega
  have hsect0 : clust2sect fs fp.clust ≠ 0 := by
    have hq : fp.fptr / fs.ssize / fs.csize < L.length := (Nat.div_lt_iff_lt_mul hc1).2 hI
    obtain ⟨r1, r2⟩ := hbase.inrange _ (getD_mem L _ hq)
    obtain ⟨c1, c2, c3⟩ := clust2sect_eq fs hbase.vol _ r1 r2
    rw [hcl2, c1]
    omega
  have hfaith := hbase.vol.fat.good.faithful
  have hsF := pos_split fs.ssize fp.fptr
  rw [hF0] at hsF
  dsimp only
  rw [if_neg hsect0, hsect]
  have hqm := pos_split fs.ssize todo
  have hqr := Nat.mod_lt todo hs1
  generalize hq : todo / fs.ssize = q at hqm
  generalize hcsd : fp.fptr / fs.ssize % fs.csize = csect at hmod hsect e1 e3
  by_cases hcc : q ≠ 0
  · rw [if_pos hcc]
    obtain ⟨cc, hccd⟩ : ∃ cc, cc = (if csect + q > fs.csize
        then fs.csize - csect else q) := ⟨_, rfl⟩
    rw [← hccd]
    have hcc1 : 1 ≤ cc := by rw [hccd]; split_ifs <;> omega
    have hcc2 : csect + cc ≤ fs.csize := by
      rw [hccd]; split_ifs <;> omega
    have hcc3 : fs.ssize * cc ≤ todo := by
      have h1 : cc ≤ q := by rw [hccd]; split_ifs <;> omega
      have h2 : cc * fs.ssize ≤ q * fs.ssize := Nat.mul_le_mul_right _ h1
      rw [Nat.mul_comm]; omega
    have hpos : 0 < fs.ssize * cc := Nat.mul_pos hs1 hcc1
    rw [disk_write_n_faithful _ hfaith]
    dsimp only
    have hF32 : fp.fptr + fs.ssize * cc < 4294967296 := by omega
    have hadd : add32 fp.fptr (fs.ssize * cc) = fp.fptr + fs.ssize * cc := by
      unfold add32; exact Nat.mod_eq_of_lt hF32
    have hcc2b : fp.fptr / fs.ssize % fs.csize + cc ≤ fs.csize := by rw [hcsd]; exact hcc2
    -- the file object after the write, whatever happens to its sector cache
    have fin : ∀ (flag1 : Nat) (buf1 : Nat → Nat), (∀ k, buf1 k < 256) →
        flag1 &&& FA_READ ≠ 0 → flag1 &&& FA_WRITE ≠ 0 → flag1 &&& FA__DIRTY = 0 →
        (fp.dsect ≠ 0 → ∀ k, k < fs.ssize → buf1 k =
          (if sub32 fp.dsect (secOf fs L fp.fptr) < cc
            then buff (off + sub32 fp.dsect (secOf fs L fp.fptr) * fs.ssize + k)
            else fs.disk.data fp.dsect k)) →
        ∃ res, f_write_loop fuel
          ⟨{ fs with disk := { fs.disk with
              data := fun s j =>
                if sub32 s (secOf fs L fp.fptr) < cc
                  then buff (off + sub32 s (secOf fs L fp.fptr) * fs.ssize + j)
                  else fs.disk.data s j } },
            { fp with buf := buf1, flag := flag1, fptr := add32 fp.fptr (fs.ssize * cc) },
            buff, off + fs.ssize * cc, add32 cnt (fs.ssize * cc), sub32 todo (fs.ssize * cc)⟩ =
            some res ∧ WritePost buff O T fsz res := by
      intro flag1 buf1 hbuf hrd hwr hfl hcl1
      have hnew := wstep_multi fs fp L hbase fp.fptr fp.clust cc off flag1 buff buf1 hF0 hlt hcc1
        hcc2b hF32 hb hbuf hrd hwr hfl hcl1 hcl
      have hsub : sub32 todo (fs.ssize * cc) = todo - fs.ssize * cc := by
        unfold sub32; omega
      have haddc : add32 cnt (fs.ssize * cc) = cnt + fs.ssize * cc := by
        unfold add32; apply Nat.mod_eq_of_lt; omega
      refine ih _ L ?_ hnew ⟨rfl, ?_, ?_, ?_, hfsz, ?_⟩
      · show sub32 todo (fs.ssize * cc) < fuel
        rw [hsub]; omega
      · show add32 fp.fptr (fs.ssize * cc) = O + (off + fs.ssize * cc)
        rw [hadd]; omega
      · show add32 cnt (fs.ssize * cc) = off + fs.ssize * cc
        rw [haddc]; omega
      · show off + fs.ssize * cc + sub32 todo (fs.ssize * cc) = T
        rw [hsub]; omega
      · intro p hp1 hp2
        have hp2b : p < fp.fptr + fs.ssize * cc := by rw [← hadd]; exact hp2
        have hle := hnew.base.fptr_le
        have hp3 : p < L.length * (fs.csize * fs.ssize) := lt_of_lt_of_le hp2 hle
        rw [fileByte_flushed _ _ L hnew.base hfl p hp3]
        show (if sub32 (secOf fs L p) (secOf fs L fp.fptr) < cc
          then buff (off + sub32 (secOf fs L p) (secOf fs L fp.fptr) * fs.ssize + p % fs.ssize)
          else fs.disk.data (secOf fs L p) (p % fs.ssize)) = _
        rw [multi_content fs hbase.vol L hbase.nodup hbase.inrange fp.fptr cc off buff hF0 hlt
          hcc2b p hp3]
        by_cases hin : fp.fptr ≤ p ∧ p < fp.fptr + fs.ssize * cc
        · rw [if_pos hin]
          congr 1
          omega
        · rw [if_neg hin, ← fileByte_flushed fs fp L hbase hclean p hp3]
          exact hcont p hp1 (by omega)
    by_cases hr : sub32 fp.dsect (secOf fs L fp.fptr) < cc
    · rw [if_pos hr]
      refine fin _ _ ?_ ?_ ?_ ?_ ?_
      · intro k
        unfold memcpy
        try dsimp only
        split_ifs
        · exact hb _
        · exact hbase.bufb k
      · rw [flag_clear_read]; exact hbase.rd
      · rw [flag_clear_write]; exact hbase.wr
      · exact flag_clear_dirty _
      · intro _ k hk
        rw [if_pos hr]
        unfold memcpy
        try dsimp only
        rw [if_pos ⟨Nat.zero_le _, by omega⟩]
        congr 1
        omega
    · rw [if_neg hr]
      refine fin fp.flag fp.buf hbase.bufb hbase.rd hbase.wr hclean ?_
      intro hz k hk
      rw [if_neg hr]
      exact hbase.clean hclean hz k hk
  · rw [if_neg hcc]
    have hq0 : q = 0 := by omega
    have htl : todo < fs.ssize := by rw [hq0] at hqm; omega
    have hw : (if fs.ssize - fp.fptr % fs.ssize > todo then todo
        else fs.ssize - fp.fptr % fs.ssize) = todo := by
      rw [hF0, if_pos (by omega)]
    have hF32 : fp.fptr + todo < 4294967296 := by omega
    have hadd : add32 fp.fptr todo = fp.fptr + todo := by
      unfold add32; exact Nat.mod_eq_of_lt hF32
    have fin : ∀ (buf0 : Nat → Nat), (∀ k, buf0 k < 256) →
        ∃ res, f_write_loop fuel
          ⟨fs, { fp with dsect := secOf fs L fp.fptr, buf := memcpy buf0 0 buff off todo,
                         flag := fp.flag ||| FA__DIRTY, fptr := add32 fp.fptr todo },
            buff, off + todo, add32 cnt todo, sub32 todo todo⟩ =
            some res ∧ WritePost buff O T fsz res := by
      intro buf0 hbuf0
      have hbuf : ∀ k, memcpy buf0 0 buff off todo k < 256 := by
        intro k
        unfold memcpy
        try dsimp only
        split_ifs
        · exact hb _
        · exact hbuf0 k
      have hnew := wstep_cache fs fp L hbase fp.fptr todo fp.clust (secOf fs L fp.fptr)
        (fp.flag ||| FA__DIRTY) (memcpy buf0 0 buff off todo) hlt rfl hbuf
        (by rw [flag_set_read]; exact hbase.rd) (by rw [flag_set_write]; exact hbase.wr)
        (fun hc => absurd hc (flag_set_dirty _)) (by omega) (by omega) hF32 hcl
      have hsub : sub32 todo todo = 0 := by unfold sub32; omega
      have haddc : add32 cnt todo = cnt + todo := by
        unfold add32; apply Nat.mod_eq_of_lt; omega
      refine ih _ L ?_ hnew ⟨rfl, ?_, ?_, ?_, hfsz, ?_⟩
      · show sub32 todo todo < fuel
        rw [hsub]; omega
      · show add32 fp.fptr todo = O + (off + todo)
        rw [hadd]; omega
      · show add32 cnt todo = off + todo
        rw [haddc]; omega
      · show off + todo + sub32 todo todo = T
        rw [hsub]; omega
      · intro p hp1 hp2
        have hp2b : p < fp.fptr + todo := by rw [← hadd]; exact hp2
        have hle := hnew.base.fptr_le
        have hp3 : p < L.length * (fs.csize * fs.ssize) := lt_of_lt_of_le hp2 hle
        show (if secOf fs L p = secOf fs L fp.fptr then memcpy buf0 0 buff off todo (p % fs.ssize)
          else fs.disk.data (secOf fs L p) (p % fs.ssize)) = _
        by_cases hpF : p < fp.fptr
        · have hne : secOf fs L p ≠ secOf fs L fp.fptr := by
            intro e
            unfold secOf at e
            have := secAt_inj fs L hc1 hbase.nodup hbase.inrange _ _
              (fptr_sector fs hbase.vol L.length p hp3) hI e
            have hsp := pos_split fs.ssize p
            rw [this] at hsp
            omega
          rw [if_neg hne, ← fileByte_flushed fs fp L hbase hclean p hp3]
          exact hcont p hp1 hpF
        · have hsame := same_sector fs.ssize fp.fptr p hs1 (by omega) (by omega)
          have hmods := mod_same_sector fs.ssize fp.fptr p hs1 (by omega) (by omega)
          have hse : secOf fs L p = secOf fs L fp.fptr := by unfold secOf; rw [hsame]
          rw [if_pos hse]
          unfold memcpy
          try dsimp only
          rw [if_pos ⟨Nat.zero_le _, by omega⟩]
          congr 1
          omega
    by_cases hload : fp.dsect ≠ secOf fs L fp.fptr ∧ fp.fptr < fp.fsize
    · rw [if_pos hload, disk_read_faithful _ _ hfaith]
      dsimp only
      rw [hw, hF0]
      exact fin _ (fun k => hbase.vol.bytes.2 _ k)
    · rw [if_neg hload]
      dsimp only
      rw [hw, hF0]
      exact fin _ hbase.bufb

/-- At a cluster boundary behind the start of the file. -/
theorem cluster_bdry (fs : FATFS) (hd : fs.dataOk) (F : Nat) (hF0 : F % fs.ssize = 0)
    (hc0 : F / fs.ssize % fs.csize = 0) (hpos : 0 < F) :
    (F - 1) / (fs.csize * fs.ssize) + 1 = F / (fs.csize * fs.ssize) ∧
    F / (fs.csize * fs.ssize) * (fs.csize * fs.ssize) = F := by
  obtain ⟨hc1, -, hs1, -, -, hB⟩ := dataOk_pos fs hd
  have h1 := pos_split fs.ssize F
  have h2 := pos_split fs.csize (F / fs.ssize)
  rw [hF0] at h1
  rw [hc0] at h2
  have h3 : F / fs.ssize / fs.csize * (fs.csize * fs.ssize) = F := by
    rw [← Nat.mul_assoc]
    have : F / fs.ssize / fs.csize * fs.csize = F / fs.ssize := by omega
    rw [this]; omega
  have h4 : F / (fs.csize * fs.ssize) = F / fs.ssize / fs.csize := cluster_index fs F
  rw [h4]
  refine ⟨?_, h3⟩
  generalize F / fs.ssize / fs.csize = J at h3
  generalize fs.csize * fs.ssize = B at h3 hB ⊢
  have hJ : 1 ≤ J := by
    rcases Nat.eq_zero_or_pos J with e | e
    · rw [e, Nat.zero_mul] at h3; omega
    · exact e
  have : (F - 1) / B = J - 1 := by
    apply div_of_bounds
    · have : (J - 1) * B + B = J * B := by
        rw [← Nat.succ_mul]; congr 1; omega
      omega
    · have : (J - 1 + 1) * B = J * B := by congr 1; omega
      omega
  omega

/-- At a sector boundary inside a cluster. -/
theorem cluster_inside (fs : FATFS) (hd : fs.dataOk) (F : Nat) (hF0 : F % fs.ssize = 0)
    (hc : F / fs.ssize % fs.csize ≠ 0) :
    (F - 1) / (fs.csize * fs.ssize) = F / (fs.csize * fs.ssize) ∧ 0 < F ∧
    ∀ len, F ≤ len * (fs.csize * fs.ssize) → F < len * (fs.csize * fs.ssize) := by
  obtain ⟨hc1, -, hs1, -, -, hB⟩ := dataOk_pos fs hd
  have h1 := pos_split fs.ssize F
  have h2 := pos_split fs.csize (F / fs.ssize)
  rw [hF0] at h1
  have hm := Nat.mod_lt (F / fs.ssize) hc1
  have hI : 1 ≤ F / fs.ssize := by
    rcases Nat.eq_zero_or_pos (F / fs.ssize) with e | e
    · rw [e] at hc; simp at hc
    · exact e
  have hFpos : 0 < F := by
    rcases Nat.eq_zero_or_pos F with e | e
    · rw [e] at hI; simp at hI
    · exact e
  refine ⟨?_, hFpos, ?_⟩
  · rw [cluster_index, cluster_index]
    have e1 : (F - 1) / fs.ssize = F / fs.ssize - 1 := by
      apply div_of_bounds
      · have : (F / fs.ssize - 1) * fs.ssize + fs.ssize = F / fs.ssize * fs.ssize := by
          rw [← Nat.succ_mul]; congr 1; omega
        omega
      · have : (F / fs.ssize - 1 + 1) * fs.ssize = F / fs.ssize * fs.ssize := by
          congr 1; omega
        omega
    rw [e1]
    apply div_of_bounds
    · omega
    · rw [Nat.add_mul, Nat.one_mul]; omega
  · intro len hle
    rcases Nat.lt_or_ge F (len * (fs.csize * fs.ssize)) with h | h
    · exact h
    · exfalso
      have e : F = len * (fs.csize * fs.ssize) := by omega
      apply hc
      rw [e, ← Nat.mul_assoc, Nat.mul_div_cancel _ hs1, Nat.mul_mod_left]

/-- A FAT operation keeps the bytes of the file. -/
theorem content_fat (fs fs1 : FATFS) (fp fp1 : FF_FIL) (L l : List Nat) (hd : fs.dataOk)
    (hg : fs1.geo = fs.geo)
    (hfr : ∀ s k, inChain fs L s → fs1.disk.data s k = fs.disk.data s k)
    (hds : fp1.dsect = fp.dsect) (hbf : fp1.buf = fp.buf) (p : Nat)
    (hp : p < L.length * (fs.csize * fs.ssize)) :
    fileByte fs1 fp1 (L ++ l) p = fileByte fs fp L p := by
  obtain ⟨g1, g2, g3, g4, g5, g6, g7, g8, g9, g10, g11⟩ := geo_fields fs fs1 hg
  obtain ⟨hc1, -, hs1, -⟩ := dataOk_pos fs hd
  unfold fileByte cdata
  rw [secOf_geo fs fs1 hg, g5, hds, hbf]
  have e : secOf fs (L ++ l) p = secOf fs L p := by
    unfold secOf
    exact secAt_append fs L l hc1 _ (fptr_sector fs hd L.length p hp)
  rw [e, hfr _ _ (secOf_inChain fs hd L p hp)]

/-- One round of the write loop behind the choice of the cluster: the
write-back of the sector cache and the transfer. -/
theorem write_rest (buff : Nat → Nat) (hb : ∀ k, buff k < 256) (O T fsz fuel : Nat)
    (hT : O + T ≤ 4294967295)
    (ih : ∀ st L, st.todo < fuel → FilOk st.fs st.fp L → WriteInv buff O T fsz st L →
      ∃ res, f_write_loop fuel st = some res ∧ WritePost buff O T fsz res)
    (fs : FATFS) (fp : FF_FIL) (off cnt todo : Nat) (L : List Nat) (ss csect : Nat)
    (hss : ss = fs.ssize) (hcs : csect = fp.fptr / fs.ssize % fs.csize)
    (hbase : FilBase fs fp L)
    (hinv : WriteInv buff O T fsz ⟨fs, fp, buff, off, cnt, todo⟩ L)
    (hF0 : fp.fptr % fs.ssize = 0)
    (hlt : fp.fptr < L.length * (fs.csize * fs.ssize))
    (hcl : fp.clust = L.getD (fp.fptr / (fs.csize * fs.ssize)) 0)
    (ht : todo ≠ 0) (hfuel : todo ≤ fuel) :
    ∃ res,
      (let partial_ (st : RWState) : Option ((RWState × FRESULT) ⊕ RWState) :=
          let wcnt := ss - st.fp.fptr % ss
          let wcnt := if wcnt > st.todo then st.todo else wcnt
          let fp : FF_FIL := { st.fp with buf := memcpy st.fp.buf (st.fp.fptr % ss) st.buff st.off wcnt,
                                          flag := st.fp.flag ||| FA__DIRTY }
          f_write_loop fuel (rw_advance { st with fp := fp } wcnt)
        let st : RWState := ⟨fs, fp, buff, off, cnt, todo⟩
        let wb : Option RWState :=
          if st.fp.flag &&& FA__DIRTY ≠ 0 then
            match disk_write st.fs.disk st.fp.buf st.fp.dsect with
            | none => none
            | some d => some { st with fs := { st.fs with disk := d },
                                       fp := { st.fp with flag := st.fp.flag &&& (255 - FA__DIRTY) } }
          else some st
        match wb with
        | none => some (.inl (rw_abort st FR_DISK_ERR))
        | some st =>
          let fs := st.fs
          let fp := st.fp
          let sect := clust2sect fs fp.clust
          if sect = 0 then some (.inl (rw_abort st FR_INT_ERR))
          else
            let sect := add32 sect csect
            let cc := st.todo / ss
            if cc ≠ 0 then
              let cc := if csect + cc > fs.csize then fs.csize - csect else cc
              match disk_write_n fs.disk ss st.buff st.off sect cc with
              | none => some (.inl (rw_abort st FR_DISK_ERR))
              | some d =>
                let fp : FF_FIL :=
                  if sub32 fp.dsect sect < cc then
                    { fp with buf := memcpy fp.buf 0 st.buff (st.off + sub32 fp.dsect sect * ss) ss,
                              flag := fp.flag &&& (255 - FA__DIRTY) }
                  else fp
                f_write_loop fuel (rw_advance { st with fs := { fs with disk := d }, fp := fp } (ss * cc))
            else
              let load : Option FF_FIL :=
                if fp.dsect ≠ sect ∧ fp.fptr < fp.fsize then
                  match disk_read fs.disk sect with
                  | none => none
                  | some b => some { fp with buf := b }
                else some fp
              match load with
              | none => some (.inl (rw_abort st FR_DISK_ERR))
              | some fp => partial_ { st with fp := { fp with dsect := sect } }) = some res ∧
      WritePost buff O T fsz res := by
  obtain ⟨-, hfp, hcnt, hsum, hfsz, hcont⟩ := hinv
  dsimp only at hfp hcnt hsum hfsz hcont
  have hfaith := hbase.vol.fat.good.faithful
  dsimp only
  by_cases hdi : fp.flag &&& FA__DIRTY ≠ 0
  · rw [if_pos hdi, disk_write_faithful _ _ _ hfaith]
    dsimp only
    exact write_xfer buff hb O T fsz fuel hT ih
      { fs with disk := { fs.disk with data := Function.update fs.disk.data fp.dsect fp.buf } }
      { fp with flag := fp.flag &&& (255 - FA__DIRTY) } off cnt todo L ss csect hss hcs
      (base_flush fs fp L hbase hdi) (flag_clear_dirty _)
      ⟨rfl, hfp, hcnt, hsum, hfsz, fun p hp1 hp2 => by
        have := hcont p hp1 hp2
        unfold fileByte at this ⊢
        rw [← this]
        exact flush_cdata fs fp _ _⟩ hF0 hlt hcl ht hfuel
  · rw [if_neg hdi]
    dsimp only
    exact write_xfer buff hb O T fsz fuel hT ih fs fp off cnt todo L ss csect hss hcs
      hbase (by simpa using hdi) ⟨rfl, hfp, hcnt, hsum, hfsz, hcont⟩ hF0 hlt hcl ht hfuel

theorem sector_inside (fs : FATFS) (hd : fs.dataOk) (F : Nat) (h : F % fs.ssize ≠ 0) :
    (F - 1) / (fs.csize * fs.ssize) = F / (fs.csize * fs.ssize) ∧ 0 < F ∧
    ∀ len, F ≤ len * (fs.csize * fs.ssize) → F < len * (fs.csize * fs.ssize) := by
  obtain ⟨hc1, -, hs1, -, -, hB⟩ := dataOk_pos fs hd
  have hFpos : 0 < F := by
    rcases Nat.eq_zero_or_pos F with e | e
    · rw [e] at h; simp at h
    · exact e
  have hm := Nat.mod_lt F hs1
  refine ⟨?_, hFpos, ?_⟩
  · rw [cluster_index, cluster_index]
    have hs := pos_split fs.ssize F
    have : (F - 1) / fs.ssize = F / fs.ssize := by
      apply div_of_bounds
      · omega
      · rw [Nat.add_mul, Nat.one_mul]; omega
    rw [this]
  · intro len hle
    rcases Nat.lt_or_ge F (len * (fs.csize * fs.ssize)) with h1 | h1
    · exact h1
    · exfalso
      have e : F = len * (fs.csize * fs.ssize) := by omega
      apply h
      rw [e, ← Nat.mul_assoc, Nat.mul_mod_left]

theorem headD_getD (L : List Nat) : L.headD 0 = L.getD 0 0 := by
  cases L <;> rfl

/-- The choice of the cluster at a cluster boundary in the write loop. -/
theorem write_pick (fs : FATFS) (fp : FF_FIL) (L : List Nat) (hok : FilOk fs fp L)
    (hF0 : fp.fptr % fs.ssize = 0) (hc0 : fp.fptr / fs.ssize % fs.csize = 0) :
    ∃ fs1 r,
      (if fp.fptr = 0 then
          (if fp.sclust = 0 then create_chain fs 0 else some (fs, fp.sclust))
        else create_chain fs fp.clust) = some (fs1, r) ∧ fs1.geo = fs.geo ∧
      (r = 0 ∨ r = 1 ∨
        (2 ≤ r ∧ r < fs.n_fatent ∧ ∃ l,
          (fp.sclust = 0 → FilBase fs1 { fp with clust := r, sclust := r } (L ++ l)) ∧
          (fp.sclust ≠ 0 → FilBase fs1 { fp with clust := r } (L ++ l)) ∧
          (∀ s k, inChain fs L s → fs1.disk.data s k = fs.disk.data s k) ∧
          fp.fptr < (L ++ l).length * (fs.csize * fs.ssize) ∧
          r = (L ++ l).getD (fp.fptr / (fs.csize * fs.ssize)) 0)) := by
  have hbase := hok.base
  have hd := hbase.vol
  obtain ⟨hc1, -, hs1, -, -, hB⟩ := dataOk_pos fs hd
  have hhead := hbase.head
  have hnil : fp.sclust = 0 → L = [] := by
    intro h0
    cases L with
    | nil => rfl
    | cons a t =>
      have := (hbase.inrange a (by simp)).1
      rw [h0] at hhead
      simp at hhead
      omega
  have hne : fp.sclust ≠ 0 → L ≠ [] := by
    intro h0 e
    rw [e] at hhead
    exact h0 hhead
  -- the outcome of `create_chain`
  have key : ∀ (clst i : Nat),
      ((clst = 0 ∧ L = [] ∧ i = 0) ∨ (i < L.length ∧ clst = L.getD i 0 ∧ i + 1 ≤ L.length)) →
      (L ≠ [] → fp.fptr / (fs.csize * fs.ssize) = i + 1) → fp.fptr ≤ L.length * (fs.csize * fs.ssize) →
      (L = [] → fp.fptr = 0) →
      ∃ fs1 r, create_chain fs clst = some (fs1, r) ∧ fs1.geo = fs.geo ∧
      (r = 0 ∨ r = 1 ∨
        (2 ≤ r ∧ r < fs.n_fatent ∧ ∃ l,
          (fp.sclust = 0 → FilBase fs1 { fp with clust := r, sclust := r } (L ++ l)) ∧
          (fp.sclust ≠ 0 → FilBase fs1 { fp with clust := r } (L ++ l)) ∧
          (∀ s k, inChain fs L s → fs1.disk.data s k = fs.disk.data s k) ∧
          fp.fptr < (L ++ l).length * (fs.csize * fs.ssize) ∧
          r = (L ++ l).getD (fp.fptr / (fs.csize * fs.ssize)) 0)) := by
    intro clst i hcl hidx hle hz
    obtain ⟨fs1, r, e, hg, hcase⟩ := create_chain_base fs fp L hbase clst i hcl
    refine ⟨fs1, r, e, hg, ?_⟩
    rcases hcase with ⟨hnext, hr, b1, b2⟩ | ⟨hlen, ⟨hr, -⟩ | hr | ⟨hr2, hrn, b1, b2⟩⟩
    · -- the next cluster of the chain
      have hLne : L ≠ [] := by intro e0; rw [e0] at hnext; simp at hnext
      have hr2 := hbase.inrange _ (getD_mem L (i + 1) hnext)
      rw [← hr] at hr2
      refine Or.inr (Or.inr ⟨hr2.1, hr2.2, [], ?_, ?_, b2, ?_, ?_⟩)
      · intro h0; exact absurd (hnil h0) hLne
      · intro _
        rw [List.append_nil]
        exact base_fields fs1 fp L b1 r fp.fsize fp.flag hbase.fsize32 hbase.rd hbase.wr rfl
      · rw [List.append_nil]
        have hq : fp.fptr / (fs.csize * fs.ssize) < L.length := by rw [hidx hLne]; exact hnext
        exact (Nat.div_lt_iff_lt_mul hB).1 hq
      · rw [List.append_nil, hidx hLne]; exact hr
    · exact Or.inl hr
    · exact Or.inr (Or.inl hr)
    · refine Or.inr (Or.inr ⟨hr2, hrn, [r], ?_, ?_, b2, ?_, ?_⟩)
      · intro h0
        have := b1 r r (by rw [hnil h0]; rfl)
        exact this
      · intro h0
        have hLne := hne h0
        have := b1 fp.sclust r (by
          rw [hhead]
          cases L with
          | nil => exact absurd rfl hLne
          | cons a t => rfl)
        exact this
      · rw [List.length_append, Nat.add_mul]
        simp only [List.length_singleton, Nat.one_mul]
        omega
      · have hq : fp.fptr / (fs.csize * fs.ssize) = L.length := by
          by_cases hL : L = []
          · rw [hz hL, hL]; simp
          · have h1 := hidx hL
            have h2 : fp.fptr / (fs.csize * fs.ssize) ≤ L.length := by
              apply Nat.div_le_of_le_mul
              rw [Nat.mul_comm]; exact hle
            rcases hcl with ⟨-, e0, -⟩ | ⟨hi, -, -⟩
            · exact absurd e0 hL
            · omega
        rw [hq]
        simp
  by_cases hf0 : fp.fptr = 0
  · rw [if_pos hf0]
    by_cases hs0 : fp.sclust = 0
    · rw [if_pos hs0]
      exact key 0 0 (Or.inl ⟨rfl, hnil hs0, rfl⟩) (fun h => absurd (hnil hs0) h) hbase.fptr_le
        (fun _ => hf0)
    · rw [if_neg hs0]
      have hLne := hne hs0
      have hlen : 0 < L.length := List.length_pos.2 hLne
      have hr := hbase.inrange _ (getD_mem L 0 hlen)
      rw [← headD_getD, ← hhead] at hr
      refine ⟨fs, fp.sclust, rfl, rfl, Or.inr (Or.inr ⟨hr.1, hr.2, [], ?_, ?_, fun _ _ _ => rfl,
        ?_, ?_⟩)⟩
      · intro h0; exact absurd h0 hs0
      · intro _
        rw [List.append_nil]
        exact base_fields fs fp L hbase fp.sclust fp.fsize fp.flag hbase.fsize32 hbase.rd
          hbase.wr rfl
      · rw [List.append_nil, hf0]
        exact Nat.mul_pos hlen hB
      · rw [List.append_nil, hf0, Nat.zero_div, hhead, headD_getD]
  · rw [if_neg hf0]
    obtain ⟨k1, k2⟩ := cluster_bdry fs hd fp.fptr hF0 hc0 (by omega)
    have hLne : L ≠ [] := by
      intro e
      have := hbase.fptr_le
      rw [e] at this
      simp at this
      exact hf0 this
    have h2 : fp.fptr / (fs.csize * fs.ssize) ≤ L.length := by
      apply Nat.div_le_of_le_mul
      rw [Nat.mul_comm]; exact hbase.fptr_le
    exact key fp.clust ((fp.fptr - 1) / (fs.csize * fs.ssize))
      (Or.inr ⟨by omega, hok.clust (by omega), by omega⟩) (fun _ => k1.symm) hbase.fptr_le
      (fun e => absurd e hLne)

/-- The write loop of `f_write` on a well-formed file object returns, and
when it has written all the bytes the file holds them. -/
theorem f_write_loop_spec (buff : Nat → Nat) (hb : ∀ k, buff k < 256) (O T fsz : Nat)
    (hT : O + T ≤ 4294967295) :
    ∀ (fuel : Nat) (st : RWState) (L : List Nat), st.todo < fuel → FilOk st.fs st.fp L →
      WriteInv buff O T fsz st L →
      ∃ res, f_write_loop fuel st = some res ∧ WritePost buff O T fsz res := by
  intro fuel
  induction fuel with
  | zero => intro st L h; omega
  | succ fuel ih =>
    intro st L hfuel hok hinv
    obtain ⟨fs, fp, bf, off, cnt, todo⟩ := st
    have hbf : buff = bf := hinv.1.symm
    subst hbf
    have hinv0 := hinv
    obtain ⟨-, hfp, hcnt, hsum, hfsz, hcont⟩ := hinv
    dsimp only at hfp hcnt hsum hfsz hcont hfuel hok hinv0
    have hbase := hok.base
    have hd := hbase.vol
    obtain ⟨hc1, -, hs1, -, -, hB⟩ := dataOk_pos fs hd
    rw [f_write_loop]
    dsimp only
    by_cases ht : todo = 0
    · rw [if_pos ht]
      refine ⟨_, rfl, ?_⟩
      show cnt + todo = T ∧ (todo = 0 → ∃ L, FilOk fs fp L ∧ fp.fptr = O + T ∧ fp.fsize = fsz ∧
        ∀ p, O ≤ p → p < O + T → fileByte fs fp L p = buff (p - O))
      exact ⟨by omega, fun _ => ⟨L, hok, by omega, hfsz, fun p h1 h2 => hcont p h1 (by omega)⟩⟩
    rw [if_neg ht]
    by_cases hp : fp.fptr % fs.ssize = 0
    · rw [if_pos hp]
      obtain ⟨hce, hcl⟩ := csect_eq fs hd fp.fptr
      rw [hce]
      by_cases hc0 : fp.fptr / fs.ssize % fs.csize = 0
      · rw [if_pos hc0]
        obtain ⟨fs1, r, hg, hgeo, hcase⟩ := write_pick fs fp L hok hp hc0
        obtain ⟨g1, g2, g3, g4, g5, g6, g7, g8, g9, g10, g11⟩ := geo_fields fs fs1 hgeo
        rw [hg]
        dsimp only
        by_cases hr0 : r = 0
        · rw [if_pos hr0]
          dsimp only
          refine ⟨_, rfl, ?_⟩
          show cnt + todo = T ∧ _
          exact ⟨by omega, fun h => absurd h ht⟩
        rw [if_neg hr0]
        by_cases hr1 : r = 1
        · rw [if_pos hr1]
          dsimp only
          refine ⟨_, rfl, ?_⟩
          show FR_INT_ERR ≠ FR_OK
          decide
        rw [if_neg hr1]
        by_cases hrF : r = 0xFFFFFFFF
        · rw [if_pos hrF]
          dsimp only
          refine ⟨_, rfl, ?_⟩
          show FR_DISK_ERR ≠ FR_OK
          decide
        rw [if_neg hrF]
        rcases hcase with e | e | ⟨hr2, hrn, l, b0, b1, bfr, blt, bcl⟩
        · exact absurd e hr0
        · exact absurd e hr1
        have hcont1 : ∀ (fp1 : FF_FIL), fp1.dsect = fp.dsect → fp1.buf = fp.buf →
            ∀ p, O ≤ p → p < fp.fptr → fileByte fs1 fp1 (L ++ l) p = buff (p - O) := by
          intro fp1 e1 e2 p hp1 hp2
          rw [content_fat fs fs1 fp fp1 L l hd hgeo bfr e1 e2 p
            (lt_of_lt_of_le hp2 hbase.fptr_le)]
          exact hcont p hp1 hp2
        by_cases hs0 : fp.sclust = 0
        · rw [if_pos hs0]
          dsimp only
          exact write_rest buff hb O T fsz fuel hT ih fs1 { fp with clust := r, sclust := r }
            off cnt todo (L ++ l) fs.ssize (fp.fptr / fs.ssize % fs.csize) g5.symm
            (by rw [g2, g5]) (b0 hs0)
            ⟨rfl, hfp, hcnt, hsum, hfsz, hcont1 _ rfl rfl⟩ (by rw [g5]; exact hp)
            (by rw [g2, g5]; exact blt) (by rw [g2, g5]; exact bcl) ht (by omega)
        · rw [if_neg hs0]
          dsimp only
          exact write_rest buff hb O T fsz fuel hT ih fs1 { fp with clust := r }
            off cnt todo (L ++ l) fs.ssize (fp.fptr / fs.ssize % fs.csize) g5.symm
            (by rw [g2, g5]) (b1 hs0)
            ⟨rfl, hfp, hcnt, hsum, hfsz, hcont1 _ rfl rfl⟩ (by rw [g5]; exact hp)
            (by rw [g2, g5]; exact blt) (by rw [g2, g5]; exact bcl) ht (by omega)
      · rw [if_neg hc0]
        dsimp only
        obtain ⟨k1, k2, k3⟩ := cluster_inside fs hd fp.fptr hp hc0
        exact write_rest buff hb O T fsz fuel hT ih fs fp off cnt todo L fs.ssize
          (fp.fptr / fs.ssize % fs.csize) rfl rfl hbase hinv0 hp (k3 _ hbase.fptr_le)
          (by rw [hok.clust k2, k1]) ht (by omega)
    · rw [if_neg hp]
      obtain ⟨k1, k2, k3⟩ := sector_inside fs hd fp.fptr hp
      have hlt := k3 _ hbase.fptr_le
      have hm := Nat.mod_lt fp.fptr hs1
      obtain ⟨n, hn⟩ : ∃ n, n = (if fs.ssize - fp.fptr % fs.ssize > todo then todo
          else fs.ssize - fp.fptr % fs.ssize) := ⟨_, rfl⟩
      rw [← hn]
      have hn1 : 1 ≤ n := by rw [hn]; split_ifs <;> omega
      have hn2 : n ≤ fs.ssize - fp.fptr % fs.ssize := by rw [hn]; split_ifs <;> omega
      have hn3 : n ≤ todo := by rw [hn]; split_ifs <;> omega
      have hF32 : fp.fptr + n < 4294967296 := by omega
      have hadd : add32 fp.fptr n = fp.fptr + n := by
        unfold add32; exact Nat.mod_eq_of_lt hF32
      have hsub : sub32 todo n = todo - n := by unfold sub32; omega
      have haddc : add32 cnt n = cnt + n := by
        unfold add32; apply Nat.mod_eq_of_lt; omega
      have hbuf : ∀ k, memcpy fp.buf (fp.fptr % fs.ssize) buff off n k < 256 := by
        intro k
        unfold memcpy
        try dsimp only
        split_ifs
        · exact hb _
        · exact hbase.bufb k
      have hcur := hbase.cur hp
      have hnew := wstep_cache fs fp L hbase fp.fptr n fp.clust fp.dsect
        (fp.flag ||| FA__DIRTY) (memcpy fp.buf (fp.fptr % fs.ssize) buff off n) hlt hcur hbuf
        (by rw [flag_set_read]; exact hbase.rd) (by rw [flag_set_write]; exact hbase.wr)
        (fun hc => absurd hc (flag_set_dirty _)) hn1 hn2 hF32 (by rw [hok.clust k2, k1])
      unfold rw_advance
      dsimp only
      refine ih _ L ?_ hnew ⟨rfl, ?_, ?_, ?_, hfsz, ?_⟩
      · show sub32 todo n < fuel
        rw [hsub]; omega
      · show add32 fp.fptr n = O + (off + n)
        rw [hadd]; omega
      · show add32 cnt n = off + n
        rw [haddc]; omega
      · show off + n + sub32 todo n = T
        rw [hsub]; omega
      · intro p hp1 hp2
        have hp2b : p < fp.fptr + n := by rw [← hadd]; exact hp2
        have hle := hnew.base.fptr_le
        have hp3 : p < L.length * (fs.csize * fs.ssize) := lt_of_lt_of_le hp2 hle
        have hI := fptr_sector fs hd L.length fp.fptr hlt
        show (if secOf fs L p = fp.dsect
          then memcpy fp.buf (fp.fptr % fs.ssize) buff off n (p % fs.ssize)
          else fs.disk.data (secOf fs L p) (p % fs.ssize)) = _
        by_cases hpF : p < fp.fptr
        · have hold := hcont p hp1 hpF
          unfold fileByte cdata at hold
          by_cases hse : secOf fs L p = fp.dsect
          · rw [if_pos hse] at hold ⊢
            rw [hcur] at hse
            unfold secOf at hse
            have hsame := secAt_inj fs L hc1 hbase.nodup hbase.inrange _ _
              (fptr_sector fs hd L.length p hp3) hI hse
            have hsp := pos_split fs.ssize p
            have hsF := pos_split fs.ssize fp.fptr
            rw [hsame] at hsp
            unfold memcpy
            try dsimp only
            rw [if_neg (by omega)]
            exact hold
          · rw [if_neg hse] at hold ⊢
            exact hold
        · have hsame := same_sector fs.ssize fp.fptr p hs1 (by omega) (by omega)
          have hmods := mod_same_sector fs.ssize fp.fptr p hs1 (by omega) (by omega)
          have hse : secOf fs L p = fp.dsect := by rw [hcur]; unfold secOf; rw [hsame]
          rw [if_pos hse]
          unfold memcpy
          try dsimp only
          rw [if_pos ⟨by omega, by omega⟩]
          congr 1
          omega

theorem validate_ok (fs : FATFS) (fp : FF_FIL) (L : List Nat) (h : FilBase fs fp L) :
    validate fs fp = ({ fs with sobj := fs.sobj + 1 }, FR_OK) := by
  unfold validate
  have h1 : ¬ (fp.fs = 0 ∨ fs.fs_type = 0 ∨ fs.id ≠ fp.id ∨ fs.disk.stat &&& STA_NOINIT ≠ 0) := by
    intro hc
    rcases hc with e | e | e | e
    · exact h.fsnz e
    · rcases h.vol.fat.subtype with t | t | t <;> rw [t] at e <;> revert e <;> decide
    · exact e h.idok
    · exact e h.vol.ready
  rw [if_neg h1]
  unfold lock_fs
  rw [h.vol.lockable]
  rfl

theorem leave_ok (fs : FATFS) (fp : FF_FIL) (hz : fp.fs ≠ 0) :
    leave_ff fs fp FR_OK = { fs with sobj := fs.sobj - 1 } := by
  unfold leave_ff
  rw [if_pos hz]
  unfold unlock_fs
  rw [if_pos (by decide)]

/-- The end of `f_write`: the file size, the written bit and the release of
the volume. -/
theorem write_finish (fs : FATFS) (fp : FF_FIL) (L : List Nat) (k1 : FilOk fs fp L) (fsz : Nat)
    (hfsz : fsz < 4294967296) :
    FilOk (leave_ff fs { fp with fsize := fsz, flag := fp.flag ||| FA__WRITTEN } FR_OK)
      { fp with fsize := fsz, flag := fp.flag ||| FA__WRITTEN } L ∧
    ∀ p, fileByte (leave_ff fs { fp with fsize := fsz, flag := fp.flag ||| FA__WRITTEN } FR_OK)
      { fp with fsize := fsz, flag := fp.flag ||| FA__WRITTEN } L p = fileByte fs fp L p := by
  have kb := k1.base
  have hl : leave_ff fs { fp with fsize := fsz, flag := fp.flag ||| FA__WRITTEN } FR_OK =
      { fs with sobj := fs.sobj - 1 } :=
    leave_ok fs { fp with fsize := fsz, flag := fp.flag ||| FA__WRITTEN } kb.fsnz
  rw [hl]
  have b2 := base_fields fs fp L kb fp.clust fsz (fp.flag ||| FA__WRITTEN) hfsz
    (by rw [flag_written_read]; exact kb.rd) (by rw [flag_written_write]; exact kb.wr)
    (flag_written_dirty _)
  exact ⟨⟨base_sobj _ _ L b2 _, k1.clust⟩, fun p => rfl⟩

/-- `f_write` on a well-formed file object returns; when it reports `FR_OK`
and `N` bytes written, the file object is well formed again, the file pointer
has advanced by `N`, and the file holds the bytes of the buffer. -/
theorem f_write_spec (fs : FATFS) (fp : FF_FIL) (L : List Nat) (buff : Nat → Nat) (N : Nat)
    (hok : FilOk fs fp L) (hb : ∀ k, buff k < 256) (hN : fp.fptr + N ≤ 4294967295) :
    ∃ fs1 fp1 bw res, f_write fs fp buff N = some (fs1, fp1, bw, res) ∧
      (res = FR_OK → bw = N → ∃ L1, FilOk fs1 fp1 L1 ∧ fp1.fptr = fp.fptr + N ∧
        fp1.fptr ≤ fp1.fsize ∧ fp1.fsize < 4294967296 ∧
        ∀ p, fp.fptr ≤ p → p < fp.fptr + N → fileByte fs1 fp1 L1 p = buff (p - fp.fptr)) := by
  have hbase := hok.base
  unfold f_write
  rw [validate_ok fs fp L hbase]
  dsimp only
  rw [if_neg (by decide), if_neg (by rw [hbase.noerr]; decide), if_neg hbase.wr]
  have hbtw : (if add32 fp.fptr N < fp.fptr then 0 else N) = N := by
    rw [if_neg]
    unfold add32
    rw [Nat.mod_eq_of_lt (by omega)]
    omega
  rw [hbtw]
  have hok1 : FilOk { fs with sobj := fs.sobj + 1 } fp L :=
    ⟨base_sobj fs fp L hbase _, hok.clust⟩
  obtain ⟨res, hres, hpost⟩ := f_write_loop_spec buff hb fp.fptr N fp.fsize hN (N + 1)
    ⟨{ fs with sobj := fs.sobj + 1 }, fp, buff, 0, 0, N⟩ L (by show N < N + 1; omega) hok1
    ⟨rfl, rfl, rfl, by show 0 + N = N; omega, rfl, fun p h1 h2 => by
      exfalso
      have : p < fp.fptr := h2
      omega⟩
  rw [hres]
  cases res with
  | inl x =>
    obtain ⟨st, e⟩ := x
    refine ⟨_, _, _, _, rfl, ?_⟩
    intro he
    exact absurd he hpost
  | inr st =>
    obtain ⟨h1, h2⟩ := hpost
    refine ⟨_, _, _, _, rfl, ?_⟩
    intro _ hbw
    have ht0 : st.todo = 0 := by omega
    obtain ⟨L1, k1, k2, k3, k4⟩ := h2 ht0
    have kb := k1.base
    by_cases hgt : st.fp.fptr > st.fp.fsize
    · rw [if_pos hgt]
      obtain ⟨w1, w2⟩ := write_finish st.fs st.fp L1 k1 st.fp.fptr (by omega)
      refine ⟨L1, w1, k2, Nat.le_refl _, by show st.fp.fptr < _; omega, ?_⟩
      intro p hp1 hp2
      exact (w2 p).trans (k4 p hp1 hp2)
    · rw [if_neg hgt]
      obtain ⟨w1, w2⟩ := write_finish st.fs st.fp L1 k1 st.fp.fsize kb.fsize32
      refine ⟨L1, w1, k2, by show st.fp.fptr ≤ st.fp.fsize; omega, kb.fsize32, ?_⟩
      intro p hp1 hp2
      exact (w2 p).trans (k4 p hp1 hp2)

/-- The mask `~(bcs - 1)` rounds down to a multiple of the cluster size. -/
theorem mask_floor (m x : Nat) (hm : m ≤ 31) (hx : x < 4294967296) :
    x &&& (4294967295 - sub32 (2 ^ m) 1) = x / 2 ^ m * 2 ^ m := by
  have hpow : 2 ^ m * 2 ^ (32 - m) = 4294967296 := by
    rw [← Nat.pow_add]
    have : m + (32 - m) = 32 := by omega
    rw [this]
  have hp1 : 1 ≤ 2 ^ m := Nat.one_le_two_pow
  have hp2 : 1 ≤ 2 ^ (32 - m) := Nat.one_le_two_pow
  have hlt : 2 ^ m < 4294967296 := by
    calc 2 ^ m ≤ 2 ^ 31 := Nat.pow_le_pow_right (by decide) hm
      _ < 4294967296 := by decide
  have hs : sub32 (2 ^ m) 1 = 2 ^ m - 1 := by unfold sub32; omega
  have hmask : 4294967295 - (2 ^ m - 1) = 2 ^ m * (2 ^ (32 - m) - 1) := by
    rw [Nat.mul_sub, Nat.mul_one, hpow]
    omega
  rw [hs, hmask]
  have hx2 : x = 2 ^ m * (x / 2 ^ m) + x % 2 ^ m := (Nat.div_add_mod x (2 ^ m)).symm
  have hq : x / 2 ^ m < 2 ^ (32 - m) := by
    rw [Nat.div_lt_iff_lt_mul (by omega), Nat.mul_comm, hpow]
    exact hx
  conv_lhs => rw [hx2]
  rw [and_high m (x / 2 ^ m) (x % 2 ^ m) (2 ^ (32 - m) - 1) (Nat.mod_lt _ (by omega)),
    Nat.and_pow_two_sub_one_eq_mod, Nat.mod_eq_of_lt hq, Nat.mul_comm]

theorem bcs_pow (fs : FATFS) (hd : fs.dataOk) :
    ∃ m, m ≤ 31 ∧ fs.csize * fs.ssize = 2 ^ m ∧
      fs.csize * fs.ssize % 4294967296 = fs.csize * fs.ssize := by
  obtain ⟨k, hk, hc⟩ := hd.csize_pow
  obtain ⟨j, hj, hs⟩ := hd.ssize_pow
  obtain ⟨-, -, -, -, hB, -⟩ := dataOk_pos fs hd
  refine ⟨k + j, by omega, by rw [hc, hs, Nat.pow_add], Nat.mod_eq_of_lt (by omega)⟩

/-- A move of the file pointer. -/
theorem base_seek (fs : FATFS) (fp : FF_FIL) (L : List Nat) (h : FilBase fs fp L) (F cl : Nat)
    (hle : F ≤ L.length * (fs.csize * fs.ssize))
    (hcur : F % fs.ssize ≠ 0 → fp.dsect = secOf fs L F) :
    FilBase fs { fp with clust := cl, fptr := F } L :=
  ⟨h.vol, h.fsnz, h.idok, h.noerr, h.rd, h.wr, h.fsize32, h.cached, h.nodup, h.inrange, h.chain,
    h.head, h.clean, h.dirty, h.bufb, h.win, hle, hcur⟩

theorem fp_eta (fp : FF_FIL) (cl F : Nat) (h1 : fp.clust = cl) (h2 : fp.fptr = F) :
    fp = { fp with clust := cl, fptr := F } := by
  subst h1
  subst h2
  rfl

/-- The cluster-following loop of `f_lseek` inside the chain: it stops at the
cluster that holds the byte before the target offset `O`. -/
theorem lseek_follow_spec (L : List Nat) (O B : Nat) (hO32 : O < 4294967296) :
    ∀ (fuel : Nat) (fs : FATFS) (fp : FF_FIL) (i r : Nat), r < fuel → FilBase fs fp L →
      B = fs.csize * fs.ssize → fp.fptr = i * B → fp.clust = L.getD i 0 → i * B + r = O →
      1 ≤ r → O ≤ L.length * B →
      ∃ fs2 i2 r2, f_lseek_follow B fuel fs fp (L.getD i 0) r =
          some (fs2, { fp with clust := L.getD i2 0, fptr := i2 * B }, .inr (L.getD i2 0, r2)) ∧
        FilBase fs2 { fp with clust := L.getD i2 0, fptr := i2 * B } L ∧ fs2.geo = fs.geo ∧
        (∀ s k, inChain fs L s → fs2.disk.data s k = fs.disk.data s k) ∧
        i2 * B + r2 = O ∧ 1 ≤ r2 ∧ r2 ≤ B := by
  intro fuel
  induction fuel with
  | zero => intro fs fp i r h; omega
  | succ fuel ih =>
    intro fs fp i r hfuel hbase hB hfp hcl hsum hr1 hO
    obtain ⟨hc1, -, hs1, -, hB4, hB1⟩ := dataOk_pos fs hbase.vol
    rw [← hB] at hB4 hB1
    have hi : i < L.length := by
      have : i * B < L.length * B := by omega
      exact Nat.lt_of_mul_lt_mul_right this
    rw [f_lseek_follow]
    by_cases hgt : r > B
    · rw [if_pos hgt]
      have hnext : i + 1 < L.length := by
        have : (i + 1) * B < L.length * B := by rw [Nat.add_mul, Nat.one_mul]; omega
        exact Nat.lt_of_mul_lt_mul_right this
      have hw : ¬ fs.readonly = true ∧ fp.flag &&& FA_WRITE ≠ 0 :=
        ⟨by rw [hbase.vol.fat.good.writable]; decide, hbase.wr⟩
      dsimp only
      rw [if_pos hw]
      obtain ⟨fs1, c, hcc, hgeo, hcase⟩ := create_chain_base fs fp L hbase (L.getD i 0) i
        (Or.inr ⟨hi, rfl, by omega⟩)
      obtain ⟨g1, g2, g3, g4, g5, g6, g7, g8, g9, g10, g11⟩ := geo_fields fs fs1 hgeo
      rcases hcase with ⟨-, hc, b1, b2⟩ | ⟨hlen, -⟩
      · rw [hcc]
        dsimp only
        have hr := hbase.inrange _ (getD_mem L (i + 1) hnext)
        rw [← hc] at hr
        have hent := hbase.vol.fat.entries
        rw [if_neg (by omega), if_neg (by omega), if_neg (by rw [g8]; omega)]
        have hadd : add32 fp.fptr B = (i + 1) * B := by
          unfold add32
          rw [hfp, Nat.add_mul, Nat.one_mul]
          apply Nat.mod_eq_of_lt
          omega
        rw [hadd, hc]
        have hb2 : FilBase fs1 { fp with clust := L.getD (i + 1) 0, fptr := (i + 1) * B } L := by
          refine base_seek fs1 fp L b1 _ _ ?_ ?_
          · rw [g2, g5, ← hB]
            exact Nat.mul_le_mul_right _ (by omega)
          · intro hm
            exfalso
            apply hm
            rw [hB, g5, ← Nat.mul_assoc]
            exact Nat.mul_mod_left _ _
        obtain ⟨fs2, i2, r2, e, k1, k2, k3, k4, k5, k6⟩ := ih fs1
          { fp with clust := L.getD (i + 1) 0, fptr := (i + 1) * B } (i + 1) (r - B)
          (by omega) hb2 (by rw [g2, g5]; exact hB) rfl rfl
          (by rw [Nat.add_mul, Nat.one_mul]; omega) (by omega) hO
        refine ⟨fs2, i2, r2, e, k1, k2.trans hgeo, ?_, k4, k5, k6⟩
        intro s k hs
        rw [k3 s k ((inChain_geo fs fs1 hgeo L s).2 hs), b2 s k hs]
      · omega
    · rw [if_neg hgt]
      refine ⟨fs, i, r, ?_, ?_, rfl, fun _ _ _ => rfl, hsum, hr1, by omega⟩
      · rw [← fp_eta fp _ _ hcl hfp]
      · rw [← fp_eta fp _ _ hcl hfp]
        exact hbase

/-- The end of `f_lseek`: the sector cache is filled when the new file
pointer lies inside a sector, and the volume is released. -/
theorem lseek_fill (fs : FATFS) (fp0 : FF_FIL) (L : List Nat) (O cl nsect : Nat)
    (hb : FilBase fs fp0 L) (hO : O ≤ L.length * (fs.csize * fs.ssize))
    (hcl : 0 < O → cl = L.getD ((O - 1) / (fs.csize * fs.ssize)) 0)
    (hns : O % fs.ssize ≠ 0 → nsect = secOf fs L O) (hfs : O ≤ fp0.fsize) :
    ∃ fs2 fp2,
      (let abort (fs : FATFS) (fp : FF_FIL) (e : FRESULT) : Option (FATFS × FF_FIL × FRESULT) :=
          let fp : FF_FIL := { fp with err := e.toNat }
          some (leave_ff fs fp e, fp, e)
        let fp : FF_FIL := { fp0 with clust := cl, fptr := O }
        let fill : (FATFS × FF_FIL) ⊕ (FATFS × FF_FIL) :=
          if fp.fptr % fs.ssize ≠ 0 ∧ nsect ≠ fp.dsect then
            let wb : Option (FATFS × FF_FIL) :=
              if ¬ fs.readonly ∧ fp.flag &&& FA__DIRTY ≠ 0 then
                match disk_write fs.disk fp.buf fp.dsect with
                | none => none
                | some d => some ({ fs with disk := d }, { fp with flag := fp.flag &&& (255 - FA__DIRTY) })
              else some (fs, fp)
            match wb with
            | none => .inl (fs, fp)
            | some (fs, fp) =>
              match disk_read fs.disk nsect with
              | none => .inl (fs, fp)
              | some b => .inr (fs, { fp with buf := b, dsect := nsect })
          else .inr (fs, fp)
        match fill with
        | .inl (fs, fp) => abort fs fp FR_DISK_ERR
        | .inr (fs, fp) =>
          let fp : FF_FIL := if ¬ fs.readonly ∧ fp.fptr > fp.fsize then
              { fp with fsize := fp.fptr, flag := fp.flag ||| FA__WRITTEN } else fp
          some (leave_ff fs fp FR_OK, fp, FR_OK)) = some (fs2, fp2, FR_OK) ∧
      FilOk fs2 fp2 L ∧ fp2.fptr = O ∧ fp2.fsize = fp0.fsize ∧ fs2.geo = fs.geo ∧
      ∀ p, p < L.length * (fs.csize * fs.ssize) → fileByte fs2 fp2 L p = fileByte fs fp0 L p := by
  obtain ⟨hc1, -, hs1, -, -, hB⟩ := dataOk_pos fs hb.vol
  have hfaith := hb.vol.fat.good.faithful
  have hrw := hb.vol.fat.good.writable
  -- the final state, for any cache that holds what the file object saw before
  have fin : ∀ (fs1 : FATFS) (fp1 : FF_FIL), FilBase fs1 fp1 L → fp1.fptr = O → fp1.clust = cl →
      fp1.fsize = fp0.fsize → fs1.geo = fs.geo →
      (∀ p, p < L.length * (fs.csize * fs.ssize) → fileByte fs1 fp1 L p = fileByte fs fp0 L p) →
      ∃ fs2 fp2,
        (let fp : FF_FIL := (if ¬ fs1.readonly ∧ fp1.fptr > fp1.fsize then
              { fp1 with fsize := fp1.fptr, flag := fp1.flag ||| FA__WRITTEN } else fp1)
         some (leave_ff fs1 fp FR_OK, fp, FR_OK)) = some (fs2, fp2, FR_OK) ∧
        FilOk fs2 fp2 L ∧ fp2.fptr = O ∧ fp2.fsize = fp0.fsize ∧ fs2.geo = fs.geo ∧
        ∀ p, p < L.length * (fs.csize * fs.ssize) → fileByte fs2 fp2 L p = fileByte fs fp0 L p := by
    intro fs1 fp1 hb1 e1 e2 e3 hg hc
    dsimp only
    rw [if_neg (by intro hh; omega)]
    rw [leave_ok fs1 fp1 hb1.fsnz]
    obtain ⟨g1, g2, g3, g4, g5, g6, g7, g8, g9, g10, g11⟩ := geo_fields fs fs1 hg
    refine ⟨_, _, rfl, ⟨base_sobj fs1 fp1 L hb1 _, ?_⟩, e1, e3, hg, ?_⟩
    · intro hpos
      show fp1.clust = L.getD ((fp1.fptr - 1) / (fs1.csize * fs1.ssize)) 0
      rw [e1, e2, g2, g5]
      exact hcl (by rw [← e1]; exact hpos)
    · intro p hp
      exact hc p hp
  dsimp only
  by_cases hfill : O % fs.ssize ≠ 0 ∧ nsect ≠ fp0.dsect
  · rw [if_pos hfill]
    have hns2 := hns hfill.1
    obtain ⟨k1, k2, k3⟩ := sector_inside fs hb.vol O hfill.1
    have hlt := k3 _ hO
    have hin : inChain fs L nsect := by rw [hns2]; exact secOf_inChain fs hb.vol L O hlt
    have hnz : nsect ≠ 0 := by
      have := (inChain_range fs hb.vol L hb.inrange _ hin).2.2
      omega
    by_cases hdi : fp0.flag &&& FA__DIRTY ≠ 0
    · rw [if_pos ⟨by rw [hrw]; decide, hdi⟩, disk_write_faithful _ _ _ hfaith]
      dsimp only
      rw [disk_read_faithful
        { fs.disk with data := Function.update fs.disk.data fp0.dsect fp0.buf } nsect hfaith]
      dsimp only
      have hbf := base_flush fs fp0 L hb hdi
      have hbu := base_update _ _ L hbf
        (Function.update fs.disk.data fp0.dsect fp0.buf) (fp0.flag &&& (255 - FA__DIRTY)) nsect O
        (Function.update fs.disk.data fp0.dsect fp0.buf nsect)
        (fun _ _ _ _ => rfl) hbf.vol.bytes.2 hbf.rd hbf.wr (fun _ => hin) (fun _ _ _ _ => rfl)
        (fun _ => hnz) (fun k => hbf.vol.bytes.2 _ k) hO (fun _ => hns2)
      have hbc := base_fields _ _ L hbu cl fp0.fsize (fp0.flag &&& (255 - FA__DIRTY)) hb.fsize32
        hbf.rd hbf.wr rfl
      refine fin _ _ hbc rfl rfl rfl rfl ?_
      intro p hp
      have hsin := secOf_inChain fs hb.vol L p hp
      have hsnz := (inChain_range fs hb.vol L hb.inrange _ hsin).2.2
      have hpm := Nat.mod_lt p hs1
      have h1 := clean_content _ _ L hbf (flag_clear_dirty _) (secOf fs L p) (p % fs.ssize)
        (by omega) hpm
      rw [flush_cdata] at h1
      unfold fileByte
      rw [h1]
      unfold cdata
      show (if secOf fs L p = nsect then Function.update fs.disk.data fp0.dsect fp0.buf nsect (p % fs.ssize)
        else Function.update fs.disk.data fp0.dsect fp0.buf (secOf fs L p) (p % fs.ssize)) = _
      split_ifs with e
      · rw [e]
      · rfl
    · rw [if_neg (by intro hh; exact hdi hh.2)]
      dsimp only
      rw [disk_read_faithful _ _ hfaith]
      dsimp only
      have hcln : fp0.flag &&& FA__DIRTY = 0 := by simpa using hdi
      have hbu := base_update fs fp0 L hb fs.disk.data fp0.flag nsect O (fs.disk.data nsect)
        (fun _ _ _ _ => rfl) hb.vol.bytes.2 hb.rd hb.wr (fun _ => hin) (fun _ _ _ _ => rfl)
        (fun _ => hnz) (fun k => hb.vol.bytes.2 _ k) hO (fun _ => hns2)
      have hbc := base_fields _ _ L hbu cl fp0.fsize fp0.flag hb.fsize32 hb.rd hb.wr rfl
      refine fin _ _ hbc rfl rfl rfl rfl ?_
      intro p hp
      have hsin := secOf_inChain fs hb.vol L p hp
      have hsnz := (inChain_range fs hb.vol L hb.inrange _ hsin).2.2
      have hpm := Nat.mod_lt p hs1
      have h1 := clean_content fs fp0 L hb hcln (secOf fs L p) (p % fs.ssize) (by omega) hpm
      unfold fileByte
      rw [h1]
      unfold cdata
      show (if secOf fs L p = nsect then fs.disk.data nsect (p % fs.ssize)
        else fs.disk.data (secOf fs L p) (p % fs.ssize)) = _
      split_ifs with e
      · rw [e]
      · rfl
  · rw [if_neg hfill]
    dsimp only
    have hbs := base_seek fs fp0 L hb O cl hO (by
      intro hm
      by_contra hne
      exact hfill ⟨hm, by rw [hns hm]; exact fun e => hne e.symm⟩)
    exact fin _ _ hbs rfl rfl rfl rfl (fun p _ => rfl)

/-- The sector of the target offset `O = i * bcs + r` of a seek. -/
theorem seek_sector (fs : FATFS) (hd : fs.dataOk) (L : List Nat)
    (hr : ∀ c ∈ L, 2 ≤ c ∧ c < fs.n_fatent) (i r O : Nat)
    (hsum : i * (fs.csize * fs.ssize) + r = O) (hr1 : 1 ≤ r) (hrB : r ≤ fs.csize * fs.ssize)
    (hO : O ≤ L.length * (fs.csize * fs.ssize)) :
    (O - 1) / (fs.csize * fs.ssize) = i ∧ i < L.length ∧ O % fs.ssize = r % fs.ssize ∧
    (r % fs.ssize ≠ 0 → clust2sect fs (L.getD i 0) ≠ 0 ∧
      add32 (clust2sect fs (L.getD i 0)) (r / fs.ssize) = secOf fs L O) := by
  obtain ⟨hc1, -, hs1, -, -, hB⟩ := dataOk_pos fs hd
  have hi : i < L.length := by
    have : i * (fs.csize * fs.ssize) < L.length * (fs.csize * fs.ssize) := by omega
    exact Nat.lt_of_mul_lt_mul_right this
  have hmod : O % fs.ssize = r % fs.ssize := by
    rw [← hsum, ← Nat.mul_assoc, Nat.add_comm, Nat.add_mul_mod_self_right]
  refine ⟨?_, hi, hmod, ?_⟩
  · apply div_of_bounds
    · omega
    · rw [Nat.add_mul, Nat.one_mul]; omega
  · intro hm
    obtain ⟨r1, r2⟩ := hr _ (getD_mem L i hi)
    obtain ⟨c1, c2, c3⟩ := clust2sect_eq fs hd _ r1 r2
    have hrlt : r < fs.csize * fs.ssize := by
      rcases Nat.lt_or_ge r (fs.csize * fs.ssize) with h | h
      · exact h
      · exfalso
        apply hm
        have : r = fs.csize * fs.ssize := by omega
        rw [this]; exact Nat.mul_mod_left _ _
    have hq : r / fs.ssize < fs.csize := by
      rw [Nat.div_lt_iff_lt_mul hs1]; exact hrlt
    have hdiv : O / fs.ssize = i * fs.csize + r / fs.ssize := by
      rw [← hsum, ← Nat.mul_assoc, Nat.add_comm, Nat.add_mul_div_right _ _ hs1, Nat.add_comm]
    refine ⟨by rw [c1]; omega, ?_⟩
    unfold secOf secAt
    rw [hdiv]
    have e1 : (i * fs.csize + r / fs.ssize) / fs.csize = i := by
      rw [Nat.add_comm, Nat.add_mul_div_right _ _ hc1, Nat.div_eq_of_lt hq, Nat.zero_add]
    have e2 : (i * fs.csize + r / fs.ssize) % fs.csize = r / fs.ssize := by
      rw [Nat.add_comm, Nat.add_mul_mod_self_right, Nat.mod_eq_of_lt hq]
    rw [e1, e2, c1]
    unfold add32
    apply Nat.mod_eq_of_lt
    omega

/-- `f_lseek` to an offset inside the chain and inside the file returns
`FR_OK`, leaves a well-formed file object with the file pointer at the
offset, and keeps the bytes of the file. -/
theorem f_lseek_spec (fs : FATFS) (fp : FF_FIL) (L : List Nat) (O : Nat) (hok : FilOk fs fp L)
    (hO1 : O ≤ fp.fsize) (hO2 : O ≤ L.length * (fs.csize * fs.ssize))
    (hf32 : fp.fptr < 4294967296) :
    ∃ fs2 fp2, f_lseek fs fp O = some (fs2, fp2, FR_OK) ∧ FilOk fs2 fp2 L ∧ fp2.fptr = O ∧
      fp2.fsize = fp.fsize ∧ fs2.geo = fs.geo ∧
      ∀ p, p < L.length * (fs.csize * fs.ssize) → fileByte fs2 fp2 L p = fileByte fs fp L p := by
  have hbase0 := hok.base
  have hbase := base_sobj fs fp L hbase0 (fs.sobj + 1)
  obtain ⟨hc1, -, hs1, -, hB4, hB⟩ := dataOk_pos fs hbase0.vol
  obtain ⟨m, hm, hBm, hbcs⟩ := bcs_pow fs hbase0.vol
  have hrw := hbase0.vol.fat.good.writable
  have hO32 : O < 4294967296 := lt_of_le_of_lt hO1 hbase0.fsize32
  unfold f_lseek
  rw [validate_ok fs fp L hbase0]
  dsimp only
  rw [if_neg (by decide), if_neg (by rw [hbase0.noerr]; decide)]
  have hofs : (if fs.readonly = true then if O > fp.fsize then fp.fsize else O
      else if O > fp.fsize ∧ fp.flag &&& FA_WRITE = 0 then fp.fsize else O) = O := by
    rw [hrw, if_neg (by decide), if_neg (by intro hh; omega)]
  rw [hofs, hbcs]
  by_cases hO0 : O = 0
  · rw [if_neg (by intro hh; exact hh hO0)]
    dsimp only
    have := lseek_fill { fs with sobj := fs.sobj + 1 } fp L 0 fp.clust 0 hbase (Nat.zero_le _)
      (fun h => absurd h (by decide)) (fun h => absurd (Nat.zero_mod _) h) (Nat.zero_le _)
    rw [hO0]
    exact this
  · rw [if_pos hO0]
    have hmask : (fp.fptr - 1) &&& (4294967295 - sub32 (fs.csize * fs.ssize) 1) =
        (fp.fptr - 1) / (fs.csize * fs.ssize) * (fs.csize * fs.ssize) := by
      rw [hBm]; exact mask_floor m _ hm (by omega)
    have hLne : L ≠ [] := by
      intro e
      rw [e] at hO2
      simp at hO2
      exact hO0 hO2
    have hlen : 0 < L.length := List.length_pos.2 hLne
    have hhead : fp.sclust = L.getD 0 0 := by rw [hbase0.head, headD_getD]
    have hsc := hbase0.inrange _ (getD_mem L 0 hlen)
    rw [← hhead] at hsc
    by_cases hst : fp.fptr > 0 ∧ (O - 1) / (fs.csize * fs.ssize) ≥ (fp.fptr - 1) / (fs.csize * fs.ssize)
    · rw [if_pos hst, hmask]
      dsimp only
      have hclu := hok.clust hst.1
      have hile : (fp.fptr - 1) / (fs.csize * fs.ssize) * (fs.csize * fs.ssize) ≤ O - 1 :=
        (Nat.le_div_iff_mul_le hB).1 hst.2
      have hilt : (fp.fptr - 1) / (fs.csize * fs.ssize) < L.length := by
        have : (fp.fptr - 1) / (fs.csize * fs.ssize) * (fs.csize * fs.ssize) <
            L.length * (fs.csize * fs.ssize) := by omega
        exact Nat.lt_of_mul_lt_mul_right this
      have hcr := hbase0.inrange _ (getD_mem L _ hilt)
      rw [← hclu] at hcr
      rw [if_pos (by omega)]
      have hbS : FilBase { fs with sobj := fs.sobj + 1 }
          { fp with clust := fp.clust,
                    fptr := (fp.fptr - 1) / (fs.csize * fs.ssize) * (fs.csize * fs.ssize) } L :=
        base_seek _ fp L hbase _ _ (by
          show _ ≤ L.length * (fs.csize * fs.ssize)
          omega) (fun h => absurd (by
            show (fp.fptr - 1) / (fs.csize * fs.ssize) * (fs.csize * fs.ssize) % fs.ssize = 0
            rw [← Nat.mul_assoc]; exact Nat.mul_mod_left _ _) h)
      obtain ⟨fs2, i2, r2, hfol, k1, k2, k3, k4, k5, k6⟩ := lseek_follow_spec L O
        (fs.csize * fs.ssize) hO32
        (O - (fp.fptr - 1) / (fs.csize * fs.ssize) * (fs.csize * fs.ssize) + 1)
        { fs with sobj := fs.sobj + 1 }
        { fp with clust := fp.clust,
                  fptr := (fp.fptr - 1) / (fs.csize * fs.ssize) * (fs.csize * fs.ssize) }
        ((fp.fptr - 1) / (fs.csize * fs.ssize))
        (O - (fp.fptr - 1) / (fs.csize * fs.ssize) * (fs.csize * fs.ssize))
        (by omega) hbS rfl rfl hclu (by omega) (by omega) hO2
      rw [← hclu] at hfol
      rw [hfol]
      dsimp only
      obtain ⟨g1, g2, g3, g4, g5, g6, g7, g8, g9, g10, g11⟩ := geo_fields _ fs2 k2
      dsimp only at g1 g2 g3 g4 g5 g6 g7 g8 g9 g10 g11
      have hadd : add32 (i2 * (fs.csize * fs.ssize)) r2 = O := by
        unfold add32
        rw [k4]
        exact Nat.mod_eq_of_lt hO32
      obtain ⟨s1, s2, s3, s4⟩ := seek_sector fs2 k1.vol L k1.inrange i2 r2 O
        (by rw [g2, g5]; exact k4) k5 (by rw [g2, g5]; exact k6) (by rw [g2, g5]; exact hO2)
      have hcont : ∀ (fs3 : FATFS) (fp3 : FF_FIL),
          (∀ p, p < L.length * (fs2.csize * fs2.ssize) →
            fileByte fs3 fp3 L p = fileByte fs2 { fp with clust := L.getD i2 0, fptr := i2 * (fs.csize * fs.ssize) } L p) →
          ∀ p, p < L.length * (fs.csize * fs.ssize) → fileByte fs3 fp3 L p = fileByte fs fp L p := by
        intro fs3 fp3 h3 p hp
        rw [h3 p (by rw [g2, g5]; exact hp)]
        have := content_fat { fs with sobj := fs.sobj + 1 } fs2 fp { fp with clust := L.getD i2 0, fptr := i2 * (fs.csize * fs.ssize) } L []
          hbase.vol k2 k3 rfl rfl p hp
        rw [List.append_nil] at this
        exact this
      by_cases hr : r2 % fs2.ssize ≠ 0
      · rw [if_pos hr, if_neg (s4 hr).1]
        dsimp only
        rw [hadd]
        obtain ⟨fs3, fp3, e, q1, q2, q3, qg, q4⟩ := lseek_fill fs2 { fp with clust := L.getD i2 0, fptr := i2 * (fs.csize * fs.ssize) } L O (L.getD i2 0)
          (add32 (clust2sect fs2 (L.getD i2 0)) (r2 / fs2.ssize)) k1 (by rw [g2, g5]; exact hO2)
          (fun _ => by rw [s1]) (fun _ => (s4 hr).2) hO1
        exact ⟨fs3, fp3, e, q1, q2, q3, qg.trans k2, hcont fs3 fp3 q4⟩
      · rw [if_neg hr]
        dsimp only
        rw [hadd]
        obtain ⟨fs3, fp3, e, q1, q2, q3, qg, q4⟩ := lseek_fill fs2 { fp with clust := L.getD i2 0, fptr := i2 * (fs.csize * fs.ssize) } L O (L.getD i2 0) 0 k1
          (by rw [g2, g5]; exact hO2) (fun _ => by rw [s1])
          (fun h => absurd (by rw [s3]; simpa using hr) h) hO1
        exact ⟨fs3, fp3, e, q1, q2, q3, qg.trans k2, hcont fs3 fp3 q4⟩
    · rw [if_neg hst, if_neg (by intro hh; omega)]
      dsimp only
      rw [if_pos (by omega)]
      have hbS : FilBase { fs with sobj := fs.sobj + 1 } { fp with clust := fp.sclust, fptr := 0 } L :=
        base_seek _ fp L hbase _ _ (Nat.zero_le _) (fun h => absurd (Nat.zero_mod _) h)
      obtain ⟨fs2, i2, r2, hfol, k1, k2, k3, k4, k5, k6⟩ := lseek_follow_spec L O
        (fs.csize * fs.ssize) hO32 (O + 1) { fs with sobj := fs.sobj + 1 }
        { fp with clust := fp.sclust, fptr := 0 } 0 O (by omega) hbS rfl (by simp) hhead
        (by omega) (by omega) hO2
      rw [← hhead] at hfol
      rw [hfol]
      dsimp only
      obtain ⟨g1, g2, g3, g4, g5, g6, g7, g8, g9, g10, g11⟩ := geo_fields _ fs2 k2
      dsimp only at g1 g2 g3 g4 g5 g6 g7 g8 g9 g10 g11
      have hadd : add32 (i2 * (fs.csize * fs.ssize)) r2 = O := by
        unfold add32
        rw [k4]
        exact Nat.mod_eq_of_lt hO32
      obtain ⟨s1, s2, s3, s4⟩ := seek_sector fs2 k1.vol L k1.inrange i2 r2 O
        (by rw [g2, g5]; exact k4) k5 (by rw [g2, g5]; exact k6) (by rw [g2, g5]; exact hO2)
      have hcont : ∀ (fs3 : FATFS) (fp3 : FF_FIL),
          (∀ p, p < L.length * (fs2.csize * fs2.ssize) →
            fileByte fs3 fp3 L p = fileByte fs2 { fp with clust := L.getD i2 0, fptr := i2 * (fs.csize * fs.ssize) } L p) →
          ∀ p, p < L.length * (fs.csize * fs.ssize) → fileByte fs3 fp3 L p = fileByte fs fp L p := by
        intro fs3 fp3 h3 p hp
        rw [h3 p (by rw [g2, g5]; exact hp)]
        have := content_fat { fs with sobj := fs.sobj + 1 } fs2 fp { fp with clust := L.getD i2 0, fptr := i2 * (fs.csize * fs.ssize) } L []
          hbase.vol k2 k3 rfl rfl p hp
        rw [List.append_nil] at this
        exact this
      by_cases hr : r2 % fs2.ssize ≠ 0
      · rw [if_pos hr, if_neg (s4 hr).1]
        dsimp only
        rw [hadd]
        obtain ⟨fs3, fp3, e, q1, q2, q3, qg, q4⟩ := lseek_fill fs2 { fp with clust := L.getD i2 0, fptr := i2 * (fs.csize * fs.ssize) } L O (L.getD i2 0)
          (add32 (clust2sect fs2 (L.getD i2 0)) (r2 / fs2.ssize)) k1 (by rw [g2, g5]; exact hO2)
          (fun _ => by rw [s1]) (fun _ => (s4 hr).2) hO1
        exact ⟨fs3, fp3, e, q1, q2, q3, qg.trans k2, hcont fs3 fp3 q4⟩
      · rw [if_neg hr]
        dsimp only
        rw [hadd]
        obtain ⟨fs3, fp3, e, q1, q2, q3, qg, q4⟩ := lseek_fill fs2 { fp with clust := L.getD i2 0, fptr := i2 * (fs.csize * fs.ssize) } L O (L.getD i2 0) 0 k1
          (by rw [g2, g5]; exact hO2) (fun _ => by rw [s1])
          (fun h => absurd (by rw [s3]; simpa using hr) h) hO1
        exact ⟨fs3, fp3, e, q1, q2, q3, qg.trans k2, hcont fs3 fp3 q4⟩

/-- A transfer of `n` bytes from the sector cache to the caller's buffer. -/
theorem read_cache (C : Nat → Nat) (O T fuel : Nat) (hT : O + T ≤ 4294967295)
    (ih : ∀ st L, st.todo < fuel → FilOk st.fs st.fp L → ReadInv C O T st L →
      ∃ res, f_read_loop fuel st = some res ∧ ReadPost C O T res)
    (fs : FATFS) (fp0 : FF_FIL) (L : List Nat) (hb : FilBase fs fp0 L)
    (F n cl dsect1 flag1 off cnt todo : Nat) (buf1 buff : Nat → Nat)
    (hlt : F < L.length * (fs.csize * fs.ssize))
    (hds : dsect1 = secOf fs L F) (hbuf : ∀ k, buf1 k < 256)
    (hrd : flag1 &&& FA_READ ≠ 0) (hwr : flag1 &&& FA_WRITE ≠ 0)
    (hcl : flag1 &&& FA__DIRTY = 0 → ∀ k, k < fs.ssize → buf1 k = fs.disk.data dsect1 k)
    (hn1 : 1 ≤ n) (hn2 : n ≤ fs.ssize - F % fs.ssize) (hn3 : n ≤ todo) (hfuel : todo ≤ fuel)
    (hcl1 : cl = L.getD (F / (fs.csize * fs.ssize)) 0)
    (hF : F = O + off) (hcnt : cnt = off) (hsum : off + todo = T)
    (hend : O + T ≤ L.length * (fs.csize * fs.ssize))
    (hcont : ∀ p, p < L.length * (fs.csize * fs.ssize) →
      (if secOf fs L p = dsect1 then buf1 (p % fs.ssize)
        else fs.disk.data (secOf fs L p) (p % fs.ssize)) = C p)
    (hbuff : ∀ k, k < off → buff k = C (O + k)) :
    ∃ res, f_read_loop fuel
      ⟨fs, { fp0 with clust := cl, dsect := dsect1, buf := buf1, flag := flag1,
                      fptr := add32 F n },
        memcpy buff off buf1 (F % fs.ssize) n, off + n, add32 cnt n, sub32 todo n⟩ = some res ∧
      ReadPost C O T res := by
  obtain ⟨hc1, -, hs1, -⟩ := dataOk_pos fs hb.vol
  have hF32 : F + n < 4294967296 := by omega
  have hadd : add32 F n = F + n := by unfold add32; exact Nat.mod_eq_of_lt hF32
  have hsub : sub32 todo n = todo - n := by unfold sub32; omega
  have haddc : add32 cnt n = cnt + n := by unfold add32; apply Nat.mod_eq_of_lt; omega
  have hnew := wstep_cache fs fp0 L hb F n cl dsect1 flag1 buf1 hlt hds hbuf hrd hwr hcl hn1 hn2
    hF32 hcl1
  have hm := Nat.mod_lt F hs1
  refine ih _ L ?_ hnew ⟨?_, ?_, ?_, hend, ?_, ?_⟩
  · show sub32 todo n < fuel
    rw [hsub]; omega
  · show add32 F n = O + (off + n)
    rw [hadd]; omega
  · show add32 cnt n = off + n
    rw [haddc]; omega
  · show off + n + sub32 todo n = T
    rw [hsub]; omega
  · intro p hp
    exact hcont p hp
  · intro k hk
    have hk2 : k < off + n := hk
    show memcpy buff off buf1 (F % fs.ssize) n k = C (O + k)
    unfold memcpy
    try dsimp only
    by_cases hko : k < off
    · rw [if_neg (by omega)]
      exact hbuff k hko
    · rw [if_pos ⟨by omega, by omega⟩]
      have hp : O + k < L.length * (fs.csize * fs.ssize) := by omega
      have hsame := same_sector fs.ssize F (O + k) hs1 (by omega) (by omega)
      have hmods := mod_same_sector fs.ssize F (O + k) hs1 (by omega) (by omega)
      have hse : secOf fs L (O + k) = dsect1 := by rw [hds]; unfold secOf; rw [hsame]
      have := hcont (O + k) hp
      rw [if_pos hse, hmods] at this
      rw [← this]
      congr 1
      omega

/-- The positions of a run of `cc` whole sectors inside one cluster. -/
theorem multi_sector (fs : FATFS) (hd : fs.dataOk) (L : List Nat)
    (hr : ∀ c ∈ L, 2 ≤ c ∧ c < fs.n_fatent) (F cc : Nat)
    (hF0 : F % fs.ssize = 0) (hlt : F < L.length * (fs.csize * fs.ssize))
    (hcc2 : F / fs.ssize % fs.csize + cc ≤ fs.csize) (j : Nat) (hj : j < fs.ssize * cc) :
    secOf fs L (F + j) = secOf fs L F + j / fs.ssize ∧ (F + j) % fs.ssize = j % fs.ssize ∧
    j / fs.ssize < cc ∧ secOf fs L F + cc ≤ 4294967296 ∧ 1 ≤ secOf fs L F := by
  obtain ⟨hc1, -, hs1, -⟩ := dataOk_pos fs hd
  have hI := fptr_sector fs hd L.length F hlt
  obtain ⟨e1, e2, -⟩ := secAt_end fs hd L hr _ hI
  have hsF := pos_split fs.ssize F
  rw [hF0] at hsF
  have hq : j / fs.ssize < cc := by
    rw [Nat.div_lt_iff_lt_mul hs1, Nat.mul_comm]; exact hj
  have hdiv : (F + j) / fs.ssize = F / fs.ssize + j / fs.ssize := by
    have : F + j = j + fs.ssize * (F / fs.ssize) := by rw [Nat.mul_comm]; omega
    rw [this, Nat.add_mul_div_left _ _ hs1, Nat.add_comm]
  have hmod : (F + j) % fs.ssize = j % fs.ssize := by
    have : F + j = j + fs.ssize * (F / fs.ssize) := by rw [Nat.mul_comm]; omega
    rw [this, Nat.add_mul_mod_self_left]
  refine ⟨?_, hmod, hq, ?_, ?_⟩
  · unfold secOf
    rw [hdiv, secAt_add fs L _ _ (by omega)]
  · unfold secOf; omega
  · unfold secOf; exact e2

/-- The file object after a read of `cc` whole sectors at the sector-aligned
file pointer `F`. -/
theorem rstep_multi (fs : FATFS) (fp : FF_FIL) (L : List Nat) (h : FilBase fs fp L)
    (F cl cc : Nat) (hF0 : F % fs.ssize = 0) (hlt : F < L.length * (fs.csize * fs.ssize))
    (hcc1 : 1 ≤ cc) (hcc2 : F / fs.ssize % fs.csize + cc ≤ fs.csize)
    (hF32 : F + fs.ssize * cc < 4294967296)
    (hcl1 : cl = L.getD (F / (fs.csize * fs.ssize)) 0) :
    FilOk fs { fp with clust := cl, fptr := add32 F (fs.ssize * cc) } L := by
  obtain ⟨hc1, -, hs1, -⟩ := dataOk_pos fs h.vol
  have hadd : add32 F (fs.ssize * cc) = F + fs.ssize * cc := by
    unfold add32; exact Nat.mod_eq_of_lt hF32
  have hI := fptr_sector fs h.vol L.length F hlt
  have hsF := pos_split fs.ssize F
  rw [hF0] at hsF
  have hIc := secAt_add_lt fs L.length (F / fs.ssize) (cc - 1) hI (by omega)
  have hend : F + fs.ssize * cc ≤ L.length * (fs.csize * fs.ssize) := by
    have h1 : (F / fs.ssize + (cc - 1) + 1) * fs.ssize ≤ L.length * fs.csize * fs.ssize :=
      Nat.mul_le_mul_right _ hIc
    have h2 : F / fs.ssize + (cc - 1) + 1 = F / fs.ssize + cc := by omega
    rw [h2, Nat.add_mul, Nat.mul_assoc, Nat.mul_comm cc] at h1
    omega
  have hmod : (F + fs.ssize * cc) % fs.ssize = 0 := by
    rw [Nat.add_mul_mod_self_left]; exact hF0
  refine ⟨base_seek fs fp L h _ cl (by rw [hadd]; exact hend)
    (by rw [hadd]; intro hm; exact absurd hmod hm), ?_⟩
  intro _
  show cl = L.getD ((add32 F (fs.ssize * cc) - 1) / (fs.csize * fs.ssize)) 0
  rw [hcl1, hadd, cluster_index, cluster_index]
  have hpos : 0 < fs.ssize * cc := Nat.mul_pos hs1 hcc1
  have hdiv : (F + fs.ssize * cc - 1) / fs.ssize = F / fs.ssize + (cc - 1) := by
    apply div_of_bounds
    · rw [Nat.add_mul]
      have : (cc - 1) * fs.ssize + fs.ssize = cc * fs.ssize := by
        rw [← Nat.succ_mul]; congr 1; omega
      rw [Nat.mul_comm fs.ssize cc]
      omega
    · have : (F / fs.ssize + (cc - 1) + 1) * fs.ssize = F / fs.ssize * fs.ssize + cc * fs.ssize := by
        rw [← Nat.add_mul]; congr 1; omega
      rw [this, Nat.mul_comm fs.ssize cc]
      rw [Nat.mul_comm fs.ssize cc] at hpos
      omega
  rw [hdiv, (div_mod_add fs.csize (F / fs.ssize) (cc - 1) (by omega)).1]

/-- The bytes that a read of `cc` whole sectors at the sector-aligned file
pointer `F` puts into the caller's buffer: the bytes of the device, with the
sector cache of the file object laid over them when it is dirty. -/
theorem multi_read_content (fs : FATFS) (fp : FF_FIL) (L : List Nat) (h : FilBase fs fp L)
    (F cc off : Nat) (buff : Nat → Nat)
    (hF0 : F % fs.ssize = 0) (hlt : F < L.length * (fs.csize * fs.ssize))
    (hcc2 : F / fs.ssize % fs.csize + cc ≤ fs.csize) (k : Nat) :
    (if ¬ fs.readonly ∧ fp.flag &&& FA__DIRTY ≠ 0 ∧ sub32 fp.dsect (secOf fs L F) < cc
      then memcpy (memcpy buff off
          (fun j => fs.disk.data (add32 (secOf fs L F) (j / fs.ssize)) (j % fs.ssize)) 0
          (cc * fs.ssize))
        (off + sub32 fp.dsect (secOf fs L F) * fs.ssize) fp.buf 0 fs.ssize
      else memcpy buff off
          (fun j => fs.disk.data (add32 (secOf fs L F) (j / fs.ssize)) (j % fs.ssize)) 0
          (cc * fs.ssize)) k =
    if off ≤ k ∧ k < off + fs.ssize * cc then fileByte fs fp L (F + (k - off)) else buff k := by
  obtain ⟨hc1, -, hs1, -⟩ := dataOk_pos fs h.vol
  have hrw := h.vol.fat.good.writable
  have hds32 : fp.dsect < 4294967296 := by
    by_cases hz : fp.dsect = 0
    · omega
    · exact (inChain_range fs h.vol L h.inrange _ (h.cached hz)).2.1
  by_cases hin : off ≤ k ∧ k < off + fs.ssize * cc
  · rw [if_pos hin]
    obtain ⟨j, hj⟩ : ∃ j, j = k - off := ⟨_, rfl⟩
    have hjl : j < fs.ssize * cc := by omega
    obtain ⟨m1, m2, m3, m4, m5⟩ := multi_sector fs h.vol L h.inrange F cc hF0 hlt hcc2 j hjl
    have hjs := pos_split fs.ssize j
    have hjm := Nat.mod_lt j hs1
    have hadd : add32 (secOf fs L F) (j / fs.ssize) = secOf fs L F + j / fs.ssize := by
      unfold add32; apply Nat.mod_eq_of_lt; omega
    have hdat : memcpy buff off
        (fun j => fs.disk.data (add32 (secOf fs L F) (j / fs.ssize)) (j % fs.ssize)) 0
        (cc * fs.ssize) k = fs.disk.data (secOf fs L F + j / fs.ssize) (j % fs.ssize) := by
      unfold memcpy
      try dsimp only
      rw [if_pos ⟨hin.1, by rw [Nat.mul_comm]; exact hin.2⟩, Nat.add_zero, ← hj, hadd]
    rw [← hj]
    unfold fileByte cdata
    rw [m1, m2]
    by_cases hov : ¬ fs.readonly ∧ fp.flag &&& FA__DIRTY ≠ 0 ∧ sub32 fp.dsect (secOf fs L F) < cc
    · rw [if_pos hov]
      obtain ⟨-, hdi, hsub⟩ := hov
      obtain ⟨x, hx⟩ : ∃ x, x = sub32 fp.dsect (secOf fs L F) := ⟨_, rfl⟩
      rw [← hx] at hsub ⊢
      have hxe : fp.dsect = secOf fs L F + x := by unfold sub32 at hx; omega
      by_cases hsec : j / fs.ssize = x
      · rw [if_pos (by omega)]
        unfold memcpy
        try dsimp only
        have hxs : x * fs.ssize + fs.ssize ≤ cc * fs.ssize + 0 := by
          have : (x + 1) * fs.ssize ≤ cc * fs.ssize := Nat.mul_le_mul_right _ hsub
          rw [Nat.add_mul, Nat.one_mul] at this
          omega
        rw [hsec] at hjs
        rw [if_pos ⟨by omega, by omega⟩]
        congr 1
        omega
      · rw [if_neg (by omega)]
        have hout : ¬ (off + x * fs.ssize ≤ k ∧ k < off + x * fs.ssize + fs.ssize) := by
          intro hh
          apply hsec
          apply div_of_bounds
          · omega
          · rw [Nat.add_mul, Nat.one_mul]; omega
        have : memcpy (memcpy buff off
            (fun j => fs.disk.data (add32 (secOf fs L F) (j / fs.ssize)) (j % fs.ssize)) 0
            (cc * fs.ssize)) (off + x * fs.ssize) fp.buf 0 fs.ssize k =
            memcpy buff off
            (fun j => fs.disk.data (add32 (secOf fs L F) (j / fs.ssize)) (j % fs.ssize)) 0
            (cc * fs.ssize) k := by
          unfold memcpy
          try dsimp only
          rw [if_neg hout]
        rw [this, hdat]
    · rw [if_neg hov, hdat]
      by_cases hsec : secOf fs L F + j / fs.ssize = fp.dsect
      · rw [if_pos hsec]
        have hcln : fp.flag &&& FA__DIRTY = 0 := by
          by_contra hdi
          apply hov
          refine ⟨by rw [hrw]; decide, hdi, ?_⟩
          rw [← hsec]
          generalize j / fs.ssize = q at m3
          unfold sub32; omega
        have hdz : fp.dsect ≠ 0 := by
          rw [← hsec]
          generalize j / fs.ssize = q
          omega
        rw [h.clean hcln hdz _ hjm, hsec]
      · rw [if_neg hsec]
  · rw [if_neg hin]
    have hdat : memcpy buff off
        (fun j => fs.disk.data (add32 (secOf fs L F) (j / fs.ssize)) (j % fs.ssize)) 0
        (cc * fs.ssize) k = buff k := by
      unfold memcpy
      try dsimp only
      rw [if_neg (by rw [Nat.mul_comm]; exact hin)]
    by_cases hov : ¬ fs.readonly ∧ fp.flag &&& FA__DIRTY ≠ 0 ∧ sub32 fp.dsect (secOf fs L F) < cc
    · rw [if_pos hov]
      obtain ⟨-, hdi, hsub⟩ := hov
      obtain ⟨x, hx⟩ : ∃ x, x = sub32 fp.dsect (secOf fs L F) := ⟨_, rfl⟩
      rw [← hx] at hsub ⊢
      have hxs : x * fs.ssize + fs.ssize ≤ cc * fs.ssize := by
        have : (x + 1) * fs.ssize ≤ cc * fs.ssize := Nat.mul_le_mul_right _ hsub
        rw [Nat.add_mul, Nat.one_mul] at this
        exact this
      have hout : ¬ (off + x * fs.ssize ≤ k ∧ k < off + x * fs.ssize + fs.ssize) := by
        intro hh
        apply hin
        rw [Nat.mul_comm fs.ssize cc]
        omega
      have : memcpy (memcpy buff off
          (fun j => fs.disk.data (add32 (secOf fs L F) (j / fs.ssize)) (j % fs.ssize)) 0
          (cc * fs.ssize)) (off + x * fs.ssize) fp.buf 0 fs.ssize k =
          memcpy buff off
          (fun j => fs.disk.data (add32 (secOf fs L F) (j / fs.ssize)) (j % fs.ssize)) 0
          (cc * fs.ssize) k := by
        unfold memcpy
        try dsimp only
        rw [if_neg hout]
      rw [this, hdat]
    · rw [if_neg hov, hdat]

/-- One round of the read loop behind the choice of the cluster, entered at a
sector-aligned file pointer with `fp->clust` the cluster of the file
pointer. -/
theorem read_rest (C : Nat → Nat) (O T fuel : Nat) (hT : O + T ≤ 4294967295)
    (ih : ∀ st L, st.todo < fuel → FilOk st.fs st.fp L → ReadInv C O T st L →
      ∃ res, f_read_loop fuel st = some res ∧ ReadPost C O T res)
    (fs : FATFS) (fp : FF_FIL) (buff : Nat → Nat) (off cnt todo : Nat) (L : List Nat)
    (ss csect : Nat)
    (hss : ss = fs.ssize) (hcs : csect = fp.fptr / fs.ssize % fs.csize)
    (hbase : FilBase fs fp L)
    (hinv : ReadInv C O T ⟨fs, fp, buff, off, cnt, todo⟩ L)
    (hF0 : fp.fptr % fs.ssize = 0)
    (hlt : fp.fptr < L.length * (fs.csize * fs.ssize))
    (hcl : fp.clust = L.getD (fp.fptr / (fs.csize * fs.ssize)) 0)
    (ht : todo ≠ 0) (hfuel : todo ≤ fuel) :
    ∃ res,
      (let partial_ (st : RWState) : Option ((RWState × FRESULT) ⊕ RWState) :=
          let rcnt := ss - st.fp.fptr % ss
          let rcnt := if rcnt > st.todo then st.todo else rcnt
          f_read_loop fuel
            (rw_advance { st with buff := memcpy st.buff st.off st.fp.buf (st.fp.fptr % ss) rcnt } rcnt)
        let st : RWState := ⟨fs, fp, buff, off, cnt, todo⟩
        let sect := clust2sect fs fp.clust
        if sect = 0 then some (.inl (rw_abort st FR_INT_ERR))
        else
          let sect := add32 sect csect
          let cc := st.todo / ss
          if cc ≠ 0 then
            let cc := if csect + cc > fs.csize then fs.csize - csect else cc
            match disk_read_n fs.disk ss sect cc with
            | none => some (.inl (rw_abort st FR_DISK_ERR))
            | some data =>
              let buff := memcpy st.buff st.off data 0 (cc * ss)
              let buff := if ¬ fs.readonly ∧ fp.flag &&& FA__DIRTY ≠ 0 ∧ sub32 fp.dsect sect < cc
                then memcpy buff (st.off + sub32 fp.dsect sect * ss) fp.buf 0 ss else buff
              f_read_loop fuel (rw_advance { st with buff := buff } (ss * cc))
          else
            let load : (FATFS × FF_FIL) ⊕ (FATFS × FF_FIL) :=
              if fp.dsect ≠ sect then
                let wb : Option (FATFS × FF_FIL) :=
                  if ¬ fs.readonly ∧ fp.flag &&& FA__DIRTY ≠ 0 then
                    match disk_write fs.disk fp.buf fp.dsect with
                    | none => none
                    | some d => some ({ fs with disk := d },
                                      { fp with flag := fp.flag &&& (255 - FA__DIRTY) })
                  else some (fs, fp)
                match wb with
                | none => .inl (fs, fp)
                | some (fs, fp) =>
                  match disk_read fs.disk sect with
                  | none => .inl (fs, fp)
                  | some b => .inr (fs, { fp with buf := b })
              else .inr (fs, fp)
            match load with
            | .inl (fs, fp) => some (.inl (rw_abort { st with fs := fs, fp := fp } FR_DISK_ERR))
            | .inr (fs, fp) => partial_ { st with fs := fs, fp := { fp with dsect := sect } }) =
          some res ∧
      ReadPost C O T res := by
  subst hss
  subst hcs
  obtain ⟨hfp, hcnt, hsum, hend, hcont, hbuff⟩ := hinv
  dsimp only at hfp hcnt hsum hend hcont hbuff
  obtain ⟨hc1, -, hs1, -⟩ := dataOk_pos fs hbase.vol
  have hI := fptr_sector fs hbase.vol L.length fp.fptr hlt
  obtain ⟨e1, e2, e3⟩ := secAt_end fs hbase.vol L hbase.inrange _ hI
  have hcl2 : fp.clust = L.getD (fp.fptr / fs.ssize / fs.csize) 0 := by
    rw [hcl, cluster_index]
  have hmod := Nat.mod_lt (fp.fptr / fs.ssize) hc1
  have hsect : add32 (clust2sect fs fp.clust) (fp.fptr / fs.ssize % fs.csize) =
      secOf fs L fp.fptr := by
    unfold secOf
    rw [e3, ← hcl2]
    unfold add32
    apply Nat.mod_eq_of_lt
    rw [e3, ← hcl2] at e1
    omega
  have hsect0 : clust2sect fs fp.clust ≠ 0 := by
    have hq : fp.fptr / fs.ssize / fs.csize < L.length := (Nat.div_lt_iff_lt_mul hc1).2 hI
    obtain ⟨r1, r2⟩ := hbase.inrange _ (getD_mem L _ hq)
    obtain ⟨c1, c2, c3⟩ := clust2sect_eq fs hbase.vol _ r1 r2
    rw [hcl2, c1]
    omega
  have hfaith := hbase.vol.fat.good.faithful
  have hrw := hbase.vol.fat.good.writable
  have hsF := pos_split fs.ssize fp.fptr
  rw [hF0] at hsF
  have hin : inChain fs L (secOf fs L fp.fptr) := secOf_inChain fs hbase.vol L _ hlt
  have hnz : secOf fs L fp.fptr ≠ 0 := by
    have := (inChain_range fs hbase.vol L hbase.inrange _ hin).2.2
    omega
  dsimp only
  rw [if_neg hsect0, hsect]
  have hqm := pos_split fs.ssize todo
  have hqr := Nat.mod_lt todo hs1
  generalize hq : todo / fs.ssize = q at hqm
  have hcc2g : ∀ cc, fp.fptr / fs.ssize % fs.csize + cc ≤ fs.csize →
      fp.fptr / fs.ssize % fs.csize + cc ≤ fs.csize := fun _ h => h
  generalize hcsd : fp.fptr / fs.ssize % fs.csize = csect at hmod hsect e1 e3
  by_cases hcc : q ≠ 0
  · rw [if_pos hcc]
    obtain ⟨cc, hccd⟩ : ∃ cc, cc = (if csect + q > fs.csize
        then fs.csize - csect else q) := ⟨_, rfl⟩
    rw [← hccd]
    have hcc1 : 1 ≤ cc := by rw [hccd]; split_ifs <;> omega
    have hcc2 : csect + cc ≤ fs.csize := by
      rw [hccd]; split_ifs <;> omega
    have hcc3 : fs.ssize * cc ≤ todo := by
      have h1 : cc ≤ q := by rw [hccd]; split_ifs <;> omega
      have h2 : cc * fs.ssize ≤ q * fs.ssize := Nat.mul_le_mul_right _ h1
      rw [Nat.mul_comm]; omega
    have hpos : 0 < fs.ssize * cc := Nat.mul_pos hs1 hcc1
    rw [disk_read_n_faithful _ hfaith]
    dsimp only
    have hF32 : fp.fptr + fs.ssize * cc < 4294967296 := by omega
    have hadd : add32 fp.fptr (fs.ssize * cc) = fp.fptr + fs.ssize * cc := by
      unfold add32; exact Nat.mod_eq_of_lt hF32
    have hcc2b : fp.fptr / fs.ssize % fs.csize + cc ≤ fs.csize := by rw [hcsd]; exact hcc2
    have hnew := rstep_multi fs fp L hbase fp.fptr fp.clust cc hF0 hlt hcc1 hcc2b hF32 hcl
    have hsub : sub32 todo (fs.ssize * cc) = todo - fs.ssize * cc := by
      unfold sub32; omega
    have haddc : add32 cnt (fs.ssize * cc) = cnt + fs.ssize * cc := by
      unfold add32; apply Nat.mod_eq_of_lt; omega
    unfold rw_advance
    dsimp only
    refine ih _ L ?_ hnew ⟨?_, ?_, ?_, hend, ?_, ?_⟩
    · show sub32 todo (fs.ssize * cc) < fuel
      rw [hsub]; omega
    · show add32 fp.fptr (fs.ssize * cc) = O + (off + fs.ssize * cc)
      rw [hadd]; omega
    · show add32 cnt (fs.ssize * cc) = off + fs.ssize * cc
      rw [haddc]; omega
    · show off + fs.ssize * cc + sub32 todo (fs.ssize * cc) = T
      rw [hsub]; omega
    · intro p hp
      exact hcont p hp
    · intro k hk
      have hk2 : k < off + fs.ssize * cc := hk
      have := multi_read_content fs fp L hbase fp.fptr cc off buff hF0 hlt hcc2b k
      refine Eq.trans this ?_
      by_cases hko : off ≤ k
      · rw [if_pos ⟨hko, hk2⟩, hcont _ (by omega)]
        congr 1
        omega
      · rw [if_neg (by omega)]
        exact hbuff k (by omega)
  · rw [if_neg hcc]
    have hq0 : q = 0 := by omega
    have htl : todo < fs.ssize := by rw [hq0] at hqm; omega
    have hw : (if fs.ssize - fp.fptr % fs.ssize > todo then todo
        else fs.ssize - fp.fptr % fs.ssize) = todo := by
      rw [hF0, if_pos (by omega)]
    have hpm : ∀ p, p % fs.ssize < fs.ssize := fun p => Nat.mod_lt p hs1
    have hsnz : ∀ p, p < L.length * (fs.csize * fs.ssize) → secOf fs L p ≠ 0 := by
      intro p hp
      have := (inChain_range fs hbase.vol L hbase.inrange _
        (secOf_inChain fs hbase.vol L p hp)).2.2
      omega
    have hn1 : 1 ≤ todo := by omega
    have hn2 : todo ≤ fs.ssize - fp.fptr % fs.ssize := by omega
    by_cases hload : fp.dsect ≠ secOf fs L fp.fptr
    · rw [if_pos hload]
      by_cases hdi : fp.flag &&& FA__DIRTY ≠ 0
      · rw [if_pos ⟨by rw [hrw]; decide, hdi⟩, disk_write_faithful _ _ _ hfaith]
        dsimp only
        rw [disk_read_faithful
          { fs.disk with data := Function.update fs.disk.data fp.dsect fp.buf } _ hfaith]
        dsimp only
        unfold rw_advance
        dsimp only
        rw [hw]
        have hbf := base_flush fs fp L hbase hdi
        exact read_cache C O T fuel hT ih
          { fs with disk := { fs.disk with data := Function.update fs.disk.data fp.dsect fp.buf } }
          { fp with flag := fp.flag &&& (255 - FA__DIRTY) } L hbf fp.fptr todo fp.clust
          (secOf fs L fp.fptr) (fp.flag &&& (255 - FA__DIRTY)) off cnt todo
          (Function.update fs.disk.data fp.dsect fp.buf (secOf fs L fp.fptr)) buff hlt rfl
          (fun k => hbf.vol.bytes.2 _ k) hbf.rd hbf.wr (fun _ _ _ => rfl) hn1 hn2
          (Nat.le_refl _) hfuel hcl hfp hcnt hsum hend
          (fun p hp => by
            have h1 := clean_content _ _ L hbf (flag_clear_dirty _) (secOf fs L p) (p % fs.ssize)
              (hsnz p hp) (hpm p)
            rw [flush_cdata] at h1
            have h2 := hcont p hp
            unfold fileByte at h2
            rw [h1] at h2
            rw [← h2]
            show (if secOf fs L p = secOf fs L fp.fptr
              then Function.update fs.disk.data fp.dsect fp.buf (secOf fs L fp.fptr) (p % fs.ssize)
              else Function.update fs.disk.data fp.dsect fp.buf (secOf fs L p) (p % fs.ssize)) = _
            split_ifs with e
            · rw [e]
            · rfl) hbuff
      · rw [if_neg (by intro hh; exact hdi hh.2)]
        dsimp only
        rw [disk_read_faithful _ _ hfaith]
        dsimp only
        unfold rw_advance
        dsimp only
        rw [hw]
        have hcln : fp.flag &&& FA__DIRTY = 0 := by simpa using hdi
        exact read_cache C O T fuel hT ih fs fp L hbase fp.fptr todo fp.clust
          (secOf fs L fp.fptr) fp.flag off cnt todo
          (fs.disk.data (secOf fs L fp.fptr)) buff hlt rfl
          (fun k => hbase.vol.bytes.2 _ k) hbase.rd hbase.wr (fun _ _ _ => rfl) hn1
          hn2 (Nat.le_refl _) hfuel hcl hfp hcnt hsum hend
          (fun p hp => by
            have h1 := clean_content fs fp L hbase hcln (secOf fs L p) (p % fs.ssize)
              (hsnz p hp) (hpm p)
            have h2 := hcont p hp
            unfold fileByte at h2
            rw [h1] at h2
            rw [← h2]
            split_ifs with e
            · rw [e]
            · rfl) hbuff
    · rw [if_neg hload]
      dsimp only
      unfold rw_advance
      dsimp only
      rw [hw]
      have hds : fp.dsect = secOf fs L fp.fptr := by
        by_contra hne
        exact hload hne
      exact read_cache C O T fuel hT ih fs fp L hbase fp.fptr todo fp.clust
        (secOf fs L fp.fptr) fp.flag off cnt todo fp.buf buff hlt rfl hbase.bufb hbase.rd
        hbase.wr (fun hc k hk => by rw [← hds]; exact hbase.clean hc (by rw [hds]; exact hnz) k hk)
        hn1 hn2 (Nat.le_refl _) hfuel hcl hfp hcnt hsum hend
        (fun p hp => by
          have h2 := hcont p hp
          unfold fileByte cdata at h2
          rw [hds] at h2
          exact h2) hbuff

/-- The read loop of `f_read` on a well-formed file object, for a range
inside the cluster chain: it runs to its exit and delivers the bytes of the
file. -/
theorem f_read_loop_spec (C : Nat → Nat) (O T : Nat) (hT : O + T ≤ 4294967295) :
    ∀ (fuel : Nat) (st : RWState) (L : List Nat), st.todo < fuel → FilOk st.fs st.fp L →
      ReadInv C O T st L →
      ∃ res, f_read_loop fuel st = some res ∧ ReadPost C O T res := by
  intro fuel
  induction fuel with
  | zero => intro st L h; omega
  | succ fuel ih =>
    intro st L hfuel hok hinv
    obtain ⟨fs, fp, buff, off, cnt, todo⟩ := st
    have hinv0 := hinv
    obtain ⟨hfp, hcnt, hsum, hend, hcont, hbuff⟩ := hinv
    dsimp only at hfp hcnt hsum hend hcont hbuff hfuel hok hinv0
    have hbase := hok.base
    have hd := hbase.vol
    obtain ⟨hc1, -, hs1, -, -, hB⟩ := dataOk_pos fs hd
    rw [f_read_loop]
    dsimp only
    by_cases ht : todo = 0
    · rw [if_pos ht]
      refine ⟨_, rfl, ?_⟩
      show cnt = T ∧ ∀ k, k < T → buff k = C (O + k)
      exact ⟨by omega, fun k hk => hbuff k (by omega)⟩
    rw [if_neg ht]
    have hlt : fp.fptr < L.length * (fs.csize * fs.ssize) := by omega
    by_cases hp : fp.fptr % fs.ssize = 0
    · rw [if_pos hp]
      obtain ⟨hce, hcl⟩ := csect_eq fs hd fp.fptr
      rw [hce]
      by_cases hc0 : fp.fptr / fs.ssize % fs.csize = 0
      · rw [if_pos hc0]
        by_cases hf0 : fp.fptr = 0
        · rw [if_pos hf0]
          dsimp only
          have hlen : 0 < L.length := by
            rcases Nat.eq_zero_or_pos L.length with e | e
            · rw [e] at hlt; simp at hlt
            · exact e
          have hsc := hbase.inrange _ (getD_mem L 0 hlen)
          have hhead : fp.sclust = L.getD 0 0 := by rw [hbase.head, headD_getD]
          rw [← hhead] at hsc
          have hent := hd.fat.entries
          rw [if_neg (by omega), if_neg (by omega)]
          dsimp only
          exact read_rest C O T fuel hT ih fs { fp with clust := fp.sclust } buff off cnt todo L
            fs.ssize (fp.fptr / fs.ssize % fs.csize) rfl rfl
            (base_fields fs fp L hbase fp.sclust fp.fsize fp.flag hbase.fsize32 hbase.rd hbase.wr rfl)
            ⟨hfp, hcnt, hsum, hend, fun p hp => hcont p hp, hbuff⟩ hp hlt
            (by show fp.sclust = _; rw [hf0, Nat.zero_div]; exact hhead) ht (by omega)
        · rw [if_neg hf0]
          obtain ⟨k1, k2⟩ := cluster_bdry fs hd fp.fptr hp hc0 (by omega)
          have hclu := hok.clust (by omega)
          have hq : fp.fptr / (fs.csize * fs.ssize) < L.length :=
            (Nat.div_lt_iff_lt_mul hB).2 hlt
          have hi : (fp.fptr - 1) / (fs.csize * fs.ssize) < L.length := by omega
          have hcr := hbase.inrange _ (getD_mem L _ hi)
          rw [← hclu] at hcr
          obtain ⟨v1, v2, v3, v4, v5⟩ := get_fat_ok fs hd.fat hd.bytes fp.clust hcr.1 hcr.2
          obtain ⟨a1, -⟩ := get_fat_any fs hd.fat hd.bytes fp.clust
          have hgeo := geo_of_meta fs _ v4
          obtain ⟨g1, g2, g3, g4, g5, g6, g7, g8, g9, g10, g11⟩ := geo_fields fs _ hgeo
          have hval : (get_fat fs fp.clust).2 = L.getD (fp.fptr / (fs.csize * fs.ssize)) 0 := by
            rw [v1, hclu, isChain_get fs L _ hbase.chain (by omega), k1]
          have hnr := hbase.inrange _ (getD_mem L _ hq)
          rw [← hval] at hnr
          have hent := hd.fat.entries
          rw [if_neg (by omega), if_neg (by omega)]
          dsimp only
          obtain ⟨b1, b2⟩ := base_fat fs (get_fat fs fp.clust).1 fp L hbase a1 v2 v3 hgeo v5
          exact read_rest C O T fuel hT ih (get_fat fs fp.clust).1
            { fp with clust := (get_fat fs fp.clust).2 } buff off cnt todo L
            fs.ssize (fp.fptr / fs.ssize % fs.csize) g5.symm (by rw [g2, g5])
            (base_fields _ fp L b1 _ fp.fsize fp.flag hbase.fsize32 hbase.rd hbase.wr rfl)
            ⟨hfp, hcnt, hsum, by rw [g2, g5]; exact hend, fun p hp => by
              have hp2 : p < L.length * (fs.csize * fs.ssize) := by rw [← g2, ← g5]; exact hp
              have := content_fat fs (get_fat fs fp.clust).1 fp
                { fp with clust := (get_fat fs fp.clust).2 } L [] hd hgeo b2 rfl rfl p hp2
              rw [List.append_nil] at this
              rw [this]
              exact hcont p hp2, hbuff⟩
            (by rw [g5]; exact hp) (by rw [g2, g5]; exact hlt)
            (by rw [g2, g5]; exact hval) ht (by omega)
      · rw [if_neg hc0]
        dsimp only
        obtain ⟨k1, k2, k3⟩ := cluster_inside fs hd fp.fptr hp hc0
        exact read_rest C O T fuel hT ih fs fp buff off cnt todo L fs.ssize
          (fp.fptr / fs.ssize % fs.csize) rfl rfl hbase hinv0 hp hlt
          (by rw [hok.clust k2, k1]) ht (by omega)
    · rw [if_neg hp]
      obtain ⟨k1, k2, k3⟩ := sector_inside fs hd fp.fptr hp
      have hm := Nat.mod_lt fp.fptr hs1
      obtain ⟨n, hn⟩ : ∃ n, n = (if fs.ssize - fp.fptr % fs.ssize > todo then todo
          else fs.ssize - fp.fptr % fs.ssize) := ⟨_, rfl⟩
      rw [← hn]
      have hn1 : 1 ≤ n := by rw [hn]; split_ifs <;> omega
      have hn2 : n ≤ fs.ssize - fp.fptr % fs.ssize := by rw [hn]; split_ifs <;> omega
      have hn3 : n ≤ todo := by rw [hn]; split_ifs <;> omega
      have hcur := hbase.cur hp
      have hin : inChain fs L fp.dsect := by rw [hcur]; exact secOf_inChain fs hd L _ hlt
      have hnz : fp.dsect ≠ 0 := by
        have := (inChain_range fs hd L hbase.inrange _ hin).2.2
        omega
      unfold rw_advance
      dsimp only
      exact read_cache C O T fuel hT ih fs fp L hbase fp.fptr n fp.clust fp.dsect fp.flag
        off cnt todo fp.buf buff hlt hcur hbase.bufb hbase.rd hbase.wr
        (fun hc k hk => hbase.clean hc hnz k hk) hn1 hn2 hn3 (by omega)
        (by rw [hok.clust k2, k1]) hfp hcnt hsum hend (fun p hp => hcont p hp) hbuff

/-- `f_read` of `N` bytes inside the file and inside the cluster chain
returns `FR_OK`, `N` bytes read and the bytes of the file from the file
pointer on. -/
theorem f_read_spec (fs : FATFS) (fp : FF_FIL) (L : List Nat) (rbuf : Nat → Nat) (N : Nat)
    (hok : FilOk fs fp L) (h1 : fp.fptr + N ≤ fp.fsize)
    (h2 : fp.fptr + N ≤ L.length * (fs.csize * fs.ssize)) :
    ∃ fs3 fp3 out, f_read fs fp rbuf N = some (fs3, fp3, out, N, FR_OK) ∧
      ∀ k, k < N → out k = fileByte fs fp L (fp.fptr + k) := by
  have hbase := hok.base
  have hf32 := hbase.fsize32
  unfold f_read
  rw [validate_ok fs fp L hbase]
  dsimp only
  rw [if_neg (by decide), if_neg (by rw [hbase.noerr]; decide), if_neg hbase.rd]
  have hrem : sub32 fp.fsize fp.fptr = fp.fsize - fp.fptr := by unfold sub32; omega
  have hbtr : (if N > sub32 fp.fsize fp.fptr then sub32 fp.fsize fp.fptr else N) = N := by
    rw [hrem, if_neg (by omega)]
  rw [hbtr]
  have hok1 : FilOk { fs with sobj := fs.sobj + 1 } fp L :=
    ⟨base_sobj fs fp L hbase _, hok.clust⟩
  obtain ⟨res, hres, hpost⟩ := f_read_loop_spec (fileByte fs fp L) fp.fptr N (by omega) (N + 1)
    ⟨{ fs with sobj := fs.sobj + 1 }, fp, rbuf, 0, 0, N⟩ L (by show N < N + 1; omega) hok1
    ⟨rfl, rfl, by show 0 + N = N; omega, h2, fun p _ => rfl, fun k hk => by
      exfalso
      have : k < 0 := hk
      omega⟩
  rw [hres]
  cases res with
  | inl x => exact absurd hpost (fun h => h)
  | inr st =>
    obtain ⟨c1, c2⟩ := hpost
    refine ⟨leave_ff st.fs st.fp FR_OK, st.fp, st.buff, ?_, c2⟩
    dsimp only
    rw [c1]

/-- C1: on a writable volume with a faithful block device, for a well-formed
file object open for reading and writing whose cluster chain is `L`: when
`f_write` of the `N` bytes of `buff` at the file pointer `O = fp.fptr`, with
`O + N <= 2^32 - 1`, returns `FR_OK` with `*bw = N`, then `f_lseek` back to
`O` returns `FR_OK` and `f_read` of `N` bytes on the same file object returns
`FR_OK` with `*br = N` and exactly the bytes that were written, whatever
sector and cluster boundaries the range crosses and whatever the sector
cache of the file object holds. -/
theorem C1_read_after_write (fs : FATFS) (fp : FF_FIL) (L : List Nat) (buff rbuf : Nat → Nat)
    (N : Nat) (hok : FilOk fs fp L) (hb : ∀ k, buff k < 256)
    (hN : fp.fptr + N ≤ 4294967295)
    (hw : (f_write fs fp buff N).map (fun r => (r.2.2.1, r.2.2.2)) = some (N, FR_OK)) :
    ∃ fs1 fp1 fs2 fp2 fs3 fp3 out,
      f_write fs fp buff N = some (fs1, fp1, N, FR_OK) ∧
      f_lseek fs1 fp1 fp.fptr = some (fs2, fp2, FR_OK) ∧
      f_read fs2 fp2 rbuf N = some (fs3, fp3, out, N, FR_OK) ∧
      ∀ k, k < N → out k = buff k := by
  obtain ⟨fs1, fp1, bw, res, e, hpost⟩ := f_write_spec fs fp L buff N hok hb hN
  rw [e] at hw
  simp only [Option.map_some', Option.some.injEq, Prod.mk.injEq] at hw
  obtain ⟨hbw, hres⟩ := hw
  subst hbw
  subst hres
  obtain ⟨L1, w1, w2, w3, w4, w5⟩ := hpost rfl rfl
  have hle := w1.base.fptr_le
  obtain ⟨fs2, fp2, e2, s1, s2, s3, s4, s5⟩ := f_lseek_spec fs1 fp1 L1 fp.fptr w1 (by omega)
    (by omega) (by omega)
  obtain ⟨g1, g2, g3, g4, g5, g6, g7, g8, g9, g10, g11⟩ := geo_fields fs1 fs2 s4
  obtain ⟨fs3, fp3, out, e3, r1⟩ := f_read_spec fs2 fp2 L1 rbuf bw s1 (by rw [s2, s3]; omega)
    (by rw [s2, g2, g5]; omega)
  refine ⟨fs1, fp1, fs2, fp2, fs3, fp3, out, e, e2, e3, ?_⟩
  intro k hk
  rw [r1 k hk, s2, s5 _ (by omega), w5 _ (by omega) (by omega)]
  congr 1
  omega

theorem tailFil_ok : FilOk (oneFreeVol 0) tailFil [2] := by
  refine ⟨⟨⟨(oneFreeVol_ok 0).1, (oneFreeVol_ok 0).2, by decide, ⟨0, by decide, rfl⟩,
    ⟨9, by decide, rfl⟩, by decide, by decide, by decide, rfl⟩, by decide, rfl, rfl, by decide,
    by decide, by decide, ?_, by decide, ?_, ?_, rfl, ?_, ?_, fun _ => (by decide : (0 : Nat) < 256), ?_,
    by decide, ?_⟩, ?_⟩
  · intro _
    exact ⟨2, 0, by decide, by decide, rfl⟩
  · intro c hc
    have : c = 2 := by simpa using hc
    subst this
    decide
  · show (oneFreeVol 0).n_fatent ≤ fatVal (oneFreeVol 0) 2
    decide
  · intro _ _ k _
    rfl
  · intro h
    exact absurd h (by decide)
  · intro c k h2 hc _ hk
    show 3 + (c - 2) * 1 + k ≠ 4294967295
    have : c < 4 := hc
    have : k < 1 := hk
    omega
  · intro _
    rfl
  · intro _
    rfl

theorem C1_read_after_write_witness :
    ∃ fs1 fp1 fs2 fp2 fs3 fp3 out,
      f_write (oneFreeVol 0) tailFil (bytes [1, 2, 3, 4, 5]) 5 = some (fs1, fp1, 5, FR_OK) ∧
      f_lseek fs1 fp1 tailFil.fptr = some (fs2, fp2, FR_OK) ∧
      f_read fs2 fp2 (fun _ => 0) 5 = some (fs3, fp3, out, 5, FR_OK) ∧
      ∀ k, k < 5 → out k = bytes [1, 2, 3, 4, 5] k :=
  C1_read_after_write (oneFreeVol 0) tailFil [2] (bytes [1, 2, 3, 4, 5]) (fun _ => 0) 5
    tailFil_ok (bytes_lt _ (by decide)) (by decide) (by decide)

/-! ## Directories in general: registering and removing a name -/

theorem dir_register_eq (w : Nat → Nat) (fs : FATFS) (dp : FF_DIR) :
    dir_register w fs dp =
      match (if dp.fn NS &&& NS_LOSS ≠ 0 then
          match dir_register_numname w dp.fn (lfn_chars (dp.lfn.getD fun _ => 0)) 99 1 fs
              { dp with fn := Function.update dp.fn NS 0, lfn := none } FR_OK with
          | none => none
          | some (fs1, dp1, r, n) =>
            if n = 100 then some (fs1, dp1, some FR_DENIED)
            else if r ≠ FR_NO_FILE then some (fs1, dp1, some r)
            else some (fs1, { dp1 with fn := Function.update dp1.fn NS (dp.fn NS), lfn := dp.lfn },
              none)
        else some (fs, dp, none) : Option (FATFS × FF_DIR × Option FRESULT)) with
      | none => none
      | some (fs, dp, some e) => some (fs, dp, e)
      | some (fs, dp1, none) =>
        dir_register_store (dp.lfn.getD fun _ => 0)
          (if dp.fn NS &&& NS_LFN ≠ 0
            then (lfn_len (dp.lfn.getD fun _ => 0) (_MAX_LFN + 1) 0 + 25) / 13 else 1) fs dp1 := by
  unfold dir_register dir_register_store dir_register_fill
  rfl

theorem sysRel_refl (fs : FATFS) (hg : fs.good) : fs.sysRel fs := ⟨hg, rfl, fun _ _ _ => rfl⟩

theorem sysRel_moved (fs0 fs1 fs2 : FATFS) (h1 : fs0.sysRel fs1) (h2 : fs1.moved fs2) :
    fs0.sysRel fs2 := by
  obtain ⟨e1, e2, e3, e4, e5, e6, -⟩ := meta_fields fs0 fs1 h1.2.1
  refine ⟨h2.1, h2.2.1.trans h1.2.1, fun s k hs => ?_⟩
  rw [h2.2.2.2 s k (by unfold mirrorArea; rw [e6, e5]; omega)]
  exact h1.2.2 s k hs

theorem sysRel_mirror (fs0 fs1 : FATFS) (h1 : fs0.sysRel fs1) (s : Nat) :
    mirrorArea fs1 s ↔ mirrorArea fs0 s := mirrorArea_of_meta fs0 fs1 h1.2.1 s

/-- Storing a 32-byte entry at offset `off` of the sector `s` behind the FAT
copies: the window moves to `s`, the entry is in the window, and every other
byte of the volume outside the mirrored FAT copies reads as before. -/
theorem store_at (fs0 fs1 : FATFS) (hrel : fs0.sysRel fs1) (s off : Nat) (hs : s < 4294967296)
    (hb : fs0.fatbase + fs0.n_fats * fs0.fsize ≤ s) (dp : FF_DIR) (hsect : dp.sect = s)
    (hdir : dp.dir = some off) (e : Nat → Nat) (fs2 : FATFS)
    (h2 : fs2 = { putEntry (move_window fs1 dp.sect).1 dp e with wflag := 1 }) :
    (move_window fs1 dp.sect).2 = FR_OK ∧
    (∀ k, dirEntry (move_window fs1 dp.sect).1 dp k = view fs1 s (off + k)) ∧
    fs0.sysRel fs2 ∧ fs2.winsect = s ∧
    ∀ s1 k, ¬ mirrorArea fs0 s1 → view fs2 s1 k =
      if s1 = s ∧ off ≤ k ∧ k < off + SZ_DIR then e (k - off) else view fs1 s1 k := by
  obtain ⟨e1, e2, e3, e4, e5, e6, -⟩ := meta_fields fs0 fs1 hrel.2.1
  have hnm : ¬ mirrorArea fs0 s := by unfold mirrorArea; omega
  have hnm1 : ¬ mirrorArea fs1 s := by rw [sysRel_mirror fs0 fs1 hrel]; exact hnm
  rw [hsect] at h2 ⊢
  obtain ⟨a1, a2, a3, a4, a5, a6⟩ := move_window_moved fs1 s hrel.1 hs
  have hrel1 : fs0.sysRel (move_window fs1 s).1 := sysRel_moved fs0 fs1 _ hrel ⟨a3, a4, a5, a6⟩
  have hwin : ∀ k, (move_window fs1 s).1.win k = view fs1 s k := by
    intro k
    rw [← a6 s k hnm1]
    unfold view
    rw [if_pos a2.symm]
  obtain ⟨g1, g2, -, g4⟩ := setwin_good (move_window fs1 s).1
    (memcpy (move_window fs1 s).1.win off e 0 SZ_DIR) a3
  have hfs2 : fs2 = { (move_window fs1 s).1 with
      win := memcpy (move_window fs1 s).1.win off e 0 SZ_DIR, wflag := 1 } := by
    rw [h2]
    unfold putEntry
    rw [hdir]
    rfl
  rw [← hfs2] at g1 g2 g4
  have hws : fs2.winsect = s := by rw [hfs2]; exact a2
  have hns : ∀ s1, s1 < fs0.fatbase + fs0.fsize → s1 ≠ s := by
    intro s1 h1 h2
    have hf := hrel.1.fats
    rw [e2] at hf
    have : fs0.fsize ≤ fs0.n_fats * fs0.fsize := Nat.le_mul_of_pos_left _ hf
    omega
  refine ⟨a1, fun k => ?_, ⟨g1, g2.trans hrel1.2.1, fun s1 k h1 => ?_⟩, hws, fun s1 k h1 => ?_⟩
  · unfold dirEntry
    rw [hdir]
    exact hwin _
  · rw [g4 s1 k, a2, if_neg (hns s1 h1)]
    exact hrel1.2.2 s1 k h1
  · rw [g4 s1 k, a2]
    by_cases hss : s1 = s
    · rw [if_pos hss]
      unfold memcpy
      by_cases hk : off ≤ k ∧ k < off + SZ_DIR
      · rw [if_pos hk, if_pos ⟨hss, hk⟩, Nat.add_zero]
      · rw [if_neg hk, if_neg (fun hx => hk hx.2), hwin, hss]
    · rw [if_neg hss, if_neg (fun hx => hss hx.1)]
      exact a6 s1 k (by rw [sysRel_mirror fs0 fs1 hrel]; exact h1)

theorem entryAt_congr (fs fs1 : FATFS) (hs : fs1.ssize = fs.ssize) (s i : Nat)
    (h : ∀ k, view fs1 s k = view fs s k) : entryAt fs1 s i = entryAt fs s i := by
  unfold entryAt rootOff
  rw [hs]
  apply List.map_congr_left
  intro k _
  exact h _

theorem entryAt_moved (fs0 fs1 fs2 : FATFS) (h1 : fs0.sysRel fs1) (h2 : fs1.moved fs2) (s i : Nat)
    (hb : fs0.fatbase + fs0.n_fats * fs0.fsize ≤ s) : entryAt fs2 s i = entryAt fs1 s i := by
  obtain ⟨e1, e2, e3, e4, e5, e6, -⟩ := meta_fields fs1 fs2 h2.2.1
  obtain ⟨d1, d2, d3, d4, d5, d6, -⟩ := meta_fields fs0 fs1 h1.2.1
  refine entryAt_congr fs1 fs2 e3 s i (fun k => h2.2.2.2 s k ?_)
  unfold mirrorArea
  rw [d6, d5, d2]
  omega

/-- Storing an entry at index `i` of a directory: entry `i` holds the stored
bytes, every other entry of the directory is as before. -/
theorem walk_store (fs0 : FATFS) (sclust cap : Nat) (clustOf sectOf : Nat → Nat)
    (W : DirWalk fs0 sclust cap clustOf sectOf) (fs1 : FATFS) (hrel : fs0.sysRel fs1) (i : Nat)
    (hi : i < cap) (dp : FF_DIR) (e : Nat → Nat) (fs2 : FATFS)
    (h2 : fs2 = { putEntry (move_window fs1 (sectOf i)).1 (dp.setAt fs0 (clustOf i) (sectOf i) i) e
      with wflag := 1 }) :
    (move_window fs1 (sectOf i)).2 = FR_OK ∧ fs0.sysRel fs2 ∧ fs2.winsect = sectOf i ∧
    (∀ k, dirEntry (move_window fs1 (sectOf i)).1 (dp.setAt fs0 (clustOf i) (sectOf i) i) k =
      view fs1 (sectOf i) (rootOff fs0 i + k)) ∧
    ∀ j, j < cap → entryAt fs2 (sectOf j) j =
      if j = i then entryBytes e else entryAt fs1 (sectOf j) j := by
  obtain ⟨s1, s2, s3, s4, s5⟩ := store_at fs0 fs1 hrel (sectOf i) (rootOff fs0 i) (W.sect_lt i hi)
    (W.behind i hi) (dp.setAt fs0 (clustOf i) (sectOf i) i) rfl rfl e fs2 h2
  obtain ⟨e1, e2, e3, e4, e5, e6, -⟩ := meta_fields fs0 fs2 s3.2.1
  obtain ⟨d1, d2, d3, d4, d5, d6, -⟩ := meta_fields fs0 fs1 hrel.2.1
  refine ⟨s1, s3, s4, s2, fun j hj => ?_⟩
  have hnm : ¬ mirrorArea fs0 (sectOf j) := by
    have := W.behind j hj
    unfold mirrorArea
    omega
  have ho2 : rootOff fs2 j = rootOff fs0 j := by unfold rootOff; rw [e3]
  have ho1 : rootOff fs1 j = rootOff fs0 j := by unfold rootOff; rw [d3]
  by_cases hji : j = i
  · subst hji
    rw [if_pos rfl]
    unfold entryAt entryBytes
    rw [ho2]
    apply List.map_congr_left
    intro k hk
    have hk32 : k < SZ_DIR := List.mem_range.1 hk
    rw [s5 _ _ hnm, if_pos ⟨rfl, Nat.le_add_right _ _, by omega⟩, Nat.add_sub_cancel_left]
  · rw [if_neg hji]
    unfold entryAt
    rw [ho2, ho1]
    apply List.map_congr_left
    intro k hk
    have hk32 : k < 32 := List.mem_range.1 hk
    rw [s5 _ _ hnm, if_neg]
    intro hx
    have hmod : j % (fs0.ssize / SZ_DIR) ≠ i % (fs0.ssize / SZ_DIR) := fun hm =>
      hji (W.inj j i hj hi hx.1 hm)
    unfold rootOff SZ_DIR at hx
    unfold SZ_DIR at hmod
    omega

/-- The LFN loop of `dir_register` in a directory: it writes `nent` entries
at the indices `i, i + 1, ...` and leaves the directory object at
`i + nent`; every other entry of the directory is as before. -/
theorem dir_register_lfn_walk (fs0 : FATFS) (sclust cap : Nat) (clustOf sectOf : Nat → Nat)
    (W : DirWalk fs0 sclust cap clustOf sectOf) (dp : FF_DIR) (lfn : Nat → Nat) (sum : Nat) :
    ∀ (nent fuel : Nat) (fs1 : FATFS) (i : Nat), 1 ≤ nent → nent ≤ fuel → nent < 256 →
      i + nent < cap → fs0.sysRel fs1 →
      ∃ fs2, dir_register_lfn lfn sum fuel fs1 (dp.setAt fs0 (clustOf i) (sectOf i) i) nent =
          some (fs2, dp.setAt fs0 (clustOf (i + nent)) (sectOf (i + nent)) (i + nent), FR_OK) ∧
        fs0.sysRel fs2 ∧
        ∀ j, j < cap → (j < i ∨ i + nent ≤ j) →
          entryAt fs2 (sectOf j) j = entryAt fs1 (sectOf j) j := by
  intro nent
  induction nent with
  | zero => intro fuel fs1 i h; omega
  | succ nent ih =>
    intro fuel fs1 i _ hf h256 hi hrel
    obtain ⟨f1, rfl⟩ : ∃ f1, fuel = f1 + 1 := ⟨fuel - 1, by omega⟩
    have hi0 : i < cap := by omega
    obtain ⟨s1, s3, s4, s2, s7⟩ := walk_store fs0 sclust cap clustOf sectOf W fs1 hrel i hi0 dp
      (fit_lfn lfn (dirEntry (move_window fs1 (sectOf i)).1 (dp.setAt fs0 (clustOf i) (sectOf i) i))
        ((nent + 1) % 256) sum) _ rfl
    obtain ⟨fsn, hn, hmv⟩ := W.next _ dp i false s3 (by omega)
    have hreln := sysRel_moved fs0 _ fsn s3 hmv
    have hsub : sub32 (nent + 1) 1 = nent := by unfold sub32; omega
    have hsect : (dp.setAt fs0 (clustOf i) (sectOf i) i).sect = sectOf i := rfl
    rw [dir_register_lfn]
    simp only []
    rw [hsect, if_neg (by rw [s1]; simp), hn]
    simp only [hsub, true_and]
    have hkeep : ∀ j, j < cap → j ≠ i → entryAt fsn (sectOf j) j = entryAt fs1 (sectOf j) j := by
      intro j hj hne
      rw [entryAt_moved fs0 _ fsn s3 hmv _ _ (W.behind j hj), s7 j hj, if_neg hne]
    by_cases hn0 : nent = 0
    · rw [if_neg (by rw [hn0]; simp)]
      subst hn0
      exact ⟨_, rfl, hreln, fun j hj hx => hkeep j hj (by omega)⟩
    · rw [if_pos hn0]
      obtain ⟨fs2, e1, e2, e4⟩ := ih f1 fsn (i + 1) (by omega) (by omega) (by omega) (by omega) hreln
      have hidx : i + 1 + nent = i + (nent + 1) := by omega
      rw [hidx] at e1
      refine ⟨fs2, e1, e2, fun j hj hx => ?_⟩
      rw [e4 j hj (by omega)]
      exact hkeep j hj (by omega)

/-- The loop of `dir_remove` in a directory: from index `i0` up to `i` it
leaves `0xE5` and 31 zero bytes in every entry; every other entry of the
directory is as before. -/
theorem dir_remove_loop_walk (fs0 : FATFS) (sclust cap : Nat) (clustOf sectOf : Nat → Nat)
    (W : DirWalk fs0 sclust cap clustOf sectOf) (dp : FF_DIR) (i : Nat) (hi : i < cap) :
    ∀ (d fuel : Nat) (fs1 : FATFS) (i0 : Nat), i0 + d = i → d + 1 ≤ fuel → fs0.sysRel fs1 →
      ∃ fs2, dir_remove_loop i fuel fs1 (dp.setAt fs0 (clustOf i0) (sectOf i0) i0) =
          some (fs2, dp.setAt fs0 (clustOf i) (sectOf i) i, FR_OK) ∧
        fs0.sysRel fs2 ∧
        (∀ j, i0 ≤ j → j ≤ i → entryAt fs2 (sectOf j) j = deletedEntry) ∧
        ∀ j, j < cap → (j < i0 ∨ i < j) → entryAt fs2 (sectOf j) j = entryAt fs1 (sectOf j) j := by
  intro d
  induction d with
  | zero =>
    intro fuel fs1 i0 h0 hf hrel
    obtain ⟨f1, rfl⟩ : ∃ f1, fuel = f1 + 1 := ⟨fuel - 1, by omega⟩
    have hi0 : i0 = i := by omega
    subst hi0
    obtain ⟨s1, s3, s4, s2, s7⟩ := walk_store fs0 sclust cap clustOf sectOf W fs1 hrel i0 hi dp
      (Function.update (memset (dirEntry (move_window fs1 (sectOf i0)).1
        (dp.setAt fs0 (clustOf i0) (sectOf i0) i0)) 0 0 SZ_DIR) 0 DDE) _ rfl
    have hsect : (dp.setAt fs0 (clustOf i0) (sectOf i0) i0).sect = sectOf i0 := rfl
    rw [dir_remove_loop]
    simp only []
    rw [hsect, if_neg (by rw [s1]; simp),
      if_pos (show (dp.setAt fs0 (clustOf i0) (sectOf i0) i0).index ≥ i0 from Nat.le_refl _)]
    refine ⟨_, rfl, s3, fun j h1 h2 => ?_, fun j hj hx => ?_⟩
    · have : j = i0 := by omega
      rw [s7 j (by omega), if_pos this]
      exact entryBytes_deleted _
    · rw [s7 j hj, if_neg (by omega)]
  | succ d ih =>
    intro fuel fs1 i0 h0 hf hrel
    obtain ⟨f1, rfl⟩ : ∃ f1, fuel = f1 + 1 := ⟨fuel - 1, by omega⟩
    have hi0 : i0 < cap := by omega
    obtain ⟨s1, s3, s4, s2, s7⟩ := walk_store fs0 sclust cap clustOf sectOf W fs1 hrel i0 hi0 dp
      (Function.update (memset (dirEntry (move_window fs1 (sectOf i0)).1
        (dp.setAt fs0 (clustOf i0) (sectOf i0) i0)) 0 0 SZ_DIR) 0 DDE) _ rfl
    obtain ⟨fsn, hn, hmv⟩ := W.next _ dp i0 false s3 (by omega)
    have hreln := sysRel_moved fs0 _ fsn s3 hmv
    obtain ⟨fs2, e1, e2, e4, e5⟩ := ih f1 fsn (i0 + 1) (by omega) (by omega) hreln
    have hsect : (dp.setAt fs0 (clustOf i0) (sectOf i0) i0).sect = sectOf i0 := rfl
    have hstep : ∀ j, j < cap → entryAt fsn (sectOf j) j =
        if j = i0 then entryBytes (Function.update (memset (dirEntry (move_window fs1 (sectOf i0)).1
          (dp.setAt fs0 (clustOf i0) (sectOf i0) i0)) 0 0 SZ_DIR) 0 DDE)
        else entryAt fs1 (sectOf j) j := by
      intro j hj
      rw [entryAt_moved fs0 _ fsn s3 hmv _ _ (W.behind j hj), s7 j hj]
    rw [dir_remove_loop]
    simp only []
    rw [hsect, if_neg (by rw [s1]; simp),
      if_neg (show ¬ (dp.setAt fs0 (clustOf i0) (sectOf i0) i0).index ≥ i by show ¬ i0 ≥ i; omega),
      hn]
    simp only [if_true]
    refine ⟨fs2, e1, e2, fun j h1 h2 => ?_, fun j hj hx => ?_⟩
    · by_cases hj : j = i0
      · rw [e5 j (by omega) (by omega), hstep j (by omega), if_pos hj]
        exact entryBytes_deleted _
      · exact e4 j (by omega) h2
    · rw [e5 j hj (by omega), hstep j hj, if_neg (by omega)]

/-- What `dir_remove` does in a directory for a name whose entries are those
from index `i0` to `i`. -/
theorem dir_remove_walk (fs0 : FATFS) (sclust cap : Nat) (clustOf sectOf : Nat → Nat)
    (W : DirWalk fs0 sclust cap clustOf sectOf) (fs1 : FATFS) (hrel : fs0.sysRel fs1) (dp : FF_DIR)
    (hsc : dp.sclust = sclust) (i0 i : Nat) (hidx : dp.index = i) (hi : i < cap) (hlo : i0 ≤ i)
    (hlfn : (if dp.lfn_idx = 0xFFFF then i else dp.lfn_idx) = i0) :
    ∃ fs2, dir_remove fs1 dp = some (fs2, dp.setAt fs0 (clustOf i) (sectOf i) i, FR_OK) ∧
      fs0.sysRel fs2 ∧
      (∀ j, i0 ≤ j → j ≤ i → entryAt fs2 (sectOf j) j = deletedEntry) ∧
      ∀ j, j < cap → (j < i0 ∨ i < j) → entryAt fs2 (sectOf j) j = entryAt fs1 (sectOf j) j := by
  obtain ⟨fsa, ha, hmv⟩ := W.sdi fs1 dp i0 hrel hsc (by omega)
  have hrela := sysRel_moved fs0 fs1 fsa hrel hmv
  have hcap := W.cap_le
  obtain ⟨fs2, e1, e2, e4, e5⟩ := dir_remove_loop_walk fs0 sclust cap clustOf sectOf W dp i hi
    (i - i0) 65537 fsa i0 (by omega) (by omega) hrela
  refine ⟨fs2, ?_, e2, e4, fun j hj hx => ?_⟩
  · unfold dir_remove
    dsimp only
    rw [hidx, hlfn, ha]
    dsimp only
    rw [if_pos rfl, e1]
    rfl
  · rw [e5 j hj hx]
    exact entryAt_moved fs0 fs1 fsa hrel hmv _ _ (W.behind j hj)

/-- The part of `dir_register` after a successful `dir_alloc` that ended at
index `j`, in a directory: the `nent - 1` LFN entries and the short entry
are stored in the entries `j + 1 - nent .. j`; every other entry of the
directory is as before. -/
theorem dir_register_fill_walk (fs0 : FATFS) (sclust cap : Nat) (clustOf sectOf : Nat → Nat)
    (W : DirWalk fs0 sclust cap clustOf sectOf) (lfnb : Nat → Nat) (nent : Nat) (fs1 : FATFS)
    (hrel : fs0.sysRel fs1) (dp : FF_DIR) (hsc : dp.sclust = sclust) (j : Nat) (hj : j < cap)
    (h1 : 1 ≤ nent) (h2 : nent ≤ j + 1) (h3 : nent ≤ 256) :
    ∃ fs2, dir_register_fill lfnb nent fs1 (dp.setAt fs0 (clustOf j) (sectOf j) j) FR_OK =
        some (fs2, dp.setAt fs0 (clustOf j) (sectOf j) j, FR_OK) ∧
      fs0.sysRel fs2 ∧
      ∀ i, i < cap → (i + nent ≤ j ∨ j < i) →
        entryAt fs2 (sectOf i) i = entryAt fs1 (sectOf i) i := by
  have hcap := W.cap_le
  have hfin : ∀ (fs3 : FATFS), fs0.sysRel fs3 →
      (∀ i, i < cap → (i + nent ≤ j ∨ j < i) →
        entryAt fs3 (sectOf i) i = entryAt fs1 (sectOf i) i) →
      ∃ fs2,
        (if (move_window fs3 (dp.setAt fs0 (clustOf j) (sectOf j) j).sect).2 = FR_OK then
          some ({ putEntry (move_window fs3 (dp.setAt fs0 (clustOf j) (sectOf j) j).sect).1
              (dp.setAt fs0 (clustOf j) (sectOf j) j)
              (sfn_entry (dirEntry (move_window fs3 (dp.setAt fs0 (clustOf j) (sectOf j) j).sect).1
                (dp.setAt fs0 (clustOf j) (sectOf j) j)) (dp.setAt fs0 (clustOf j) (sectOf j) j).fn)
              with wflag := 1 }, dp.setAt fs0 (clustOf j) (sectOf j) j, FR_OK)
        else some ((move_window fs3 (dp.setAt fs0 (clustOf j) (sectOf j) j).sect).1,
          dp.setAt fs0 (clustOf j) (sectOf j) j,
          (move_window fs3 (dp.setAt fs0 (clustOf j) (sectOf j) j).sect).2)) =
          some (fs2, dp.setAt fs0 (clustOf j) (sectOf j) j, FR_OK) ∧
        fs0.sysRel fs2 ∧
        ∀ i, i < cap → (i + nent ≤ j ∨ j < i) →
          entryAt fs2 (sectOf i) i = entryAt fs1 (sectOf i) i := by
    intro fs3 hrel3 e3
    obtain ⟨s1, s3, s4, s2, s7⟩ := walk_store fs0 sclust cap clustOf sectOf W fs3 hrel3 j hj dp
      (sfn_entry (dirEntry (move_window fs3 (sectOf j)).1 (dp.setAt fs0 (clustOf j) (sectOf j) j))
        (dp.setAt fs0 (clustOf j) (sectOf j) j).fn) _ rfl
    have hsect : (dp.setAt fs0 (clustOf j) (sectOf j) j).sect = sectOf j := rfl
    rw [hsect, if_pos s1]
    refine ⟨_, rfl, s3, fun i hi hx => ?_⟩
    rw [s7 i hi, if_neg (by omega), e3 i hi hx]
  unfold dir_register_fill
  dsimp only
  by_cases hA : nent - 1 ≠ 0
  · rw [if_pos ⟨rfl, hA⟩]
    have hidx : sub32 (dp.setAt fs0 (clustOf j) (sectOf j) j).index (nent - 1) = j - (nent - 1) := by
      show sub32 j (nent - 1) = _
      unfold sub32
      omega
    obtain ⟨fsa, ha, hmv⟩ := W.sdi fs1 (dp.setAt fs0 (clustOf j) (sectOf j) j) (j - (nent - 1)) hrel
      hsc (by omega)
    have hrela := sysRel_moved fs0 fs1 fsa hrel hmv
    rw [hidx, ha]
    dsimp only
    rw [if_pos rfl]
    have hsame : ∀ c s i, (dp.setAt fs0 (clustOf j) (sectOf j) j).setAt fs0 c s i =
        dp.setAt fs0 c s i := fun _ _ _ => rfl
    rw [hsame]
    obtain ⟨fs3, e1, e2, e4⟩ := dir_register_lfn_walk fs0 sclust cap clustOf sectOf W dp lfnb
      (sum_sfn (dp.setAt fs0 (clustOf (j - (nent - 1))) (sectOf (j - (nent - 1)))
        (j - (nent - 1))).fn) (nent - 1) (nent - 1) fsa (j - (nent - 1)) (by omega) (Nat.le_refl _)
      (by omega) (by omega) hrela
    have hback : j - (nent - 1) + (nent - 1) = j := by omega
    rw [hback] at e1
    rw [e1]
    dsimp only
    rw [if_pos rfl]
    exact hfin fs3 e2 (fun i hi hx => by
      rw [e4 i hi (by omega)]
      exact entryAt_moved fs0 fs1 fsa hrel hmv _ _ (W.behind i hi))
  · rw [if_neg (fun hx => hA hx.2)]
    dsimp only
    rw [if_pos rfl]
    exact hfin fs1 hrel (fun _ _ _ => rfl)

/-- The static root directory of a FAT12 or FAT16 volume as a directory to
walk. -/
theorem rootWalk (fs : FATFS) (hr : fs.rootOk) :
    DirWalk fs 0 fs.n_rootdir (fun _ => 0) (rootSect fs) := by
  have hs := hr.small
  refine ⟨hr.good, by omega, hr.persect, fun i hi => ?_, fun i hi => ?_, fun i j hi hj h1 h2 => ?_,
    fun fs1 dp i hrel hsc hi => ?_, fun fs1 dp i s hrel hi => ?_⟩
  · obtain ⟨f1, f2, -⟩ := rootSect_facts fs hr i hi
    omega
  · have := hr.behind
    unfold rootSect
    generalize i / (fs.ssize / SZ_DIR) = q
    generalize fs.n_fats * fs.fsize = c at this
    omega
  · unfold rootSect at h1
    have hd : i / (fs.ssize / SZ_DIR) = j / (fs.ssize / SZ_DIR) := by omega
    rw [← Nat.div_add_mod i (fs.ssize / SZ_DIR), ← Nat.div_add_mod j (fs.ssize / SZ_DIR), hd, h2]
  · refine ⟨fs1, ?_, moved_refl fs1 hrel.1⟩
    rw [dir_sdi_root fs fs1 hr hrel.2.1 dp hsc i hi]
    rfl
  · refine ⟨fs1, ?_, moved_refl fs1 hrel.1⟩
    have h := (dir_next_at fs fs1 hr hrel.2.1 { dp with clust := 0 } rfl i (by omega) s).1 hi
    exact h

theorem dirIc_pos (fs : FATFS) (sclust : Nat) (L : List Nat) (h : ChainOk fs sclust L) :
    0 < dirIc fs ∧ 0 < fs.csize ∧ fs.csize ≤ 128 := by
  obtain ⟨k, hk, hc⟩ := h.csize_pow
  have hp : 0 < fs.csize := by rw [hc]; exact Nat.one_le_two_pow
  have h128 : fs.csize ≤ 128 := by
    rw [hc]
    calc 2 ^ k ≤ 2 ^ 7 := Nat.pow_le_pow_right (by decide) hk
      _ = 128 := rfl
  exact ⟨Nat.mul_pos h.persect hp, hp, h128⟩

/-- Where the sectors of a cluster of a well-formed volume lie. -/
theorem chain_clust2sect (fs : FATFS) (sclust : Nat) (L : List Nat) (h : ChainOk fs sclust L)
    (c : Nat) (h2 : 2 ≤ c) (hc : c < fs.n_fatent) :
    clust2sect fs c = fs.database + (c - 2) * fs.csize ∧
    fs.database + (c - 2) * fs.csize + fs.csize ≤ 4294967296 ∧ 1 ≤ fs.database := by
  have hent := h.fat.entries
  have hde := h.data_end
  obtain ⟨-, hc1, hc2⟩ := dirIc_pos fs sclust L h
  have hmul : (c - 2) * fs.csize + fs.csize ≤ (fs.n_fatent - 2) * fs.csize := by
    have : (c - 2 + 1) * fs.csize ≤ (fs.n_fatent - 2) * fs.csize :=
      Nat.mul_le_mul_right _ (by omega)
    rw [Nat.add_mul, Nat.one_mul] at this
    exact this
  have hdb : 1 ≤ fs.database := by
    have hfit := h.fat.fits
    have hfb : 1 ≤ fatBytes fs := by
      unfold fatBytes
      split_ifs <;> omega
    have hfs : 1 ≤ fs.fsize := by
      rcases Nat.eq_zero_or_pos fs.fsize with h0 | h0
      · rw [h0, Nat.zero_mul] at hfit; omega
      · exact h0
    have hnf := h.fat.good.fats
    have : 1 ≤ fs.n_fats * fs.fsize := Nat.mul_pos hnf hfs
    have := h.fat_before
    omega
  refine ⟨?_, by omega, hdb⟩
  unfold clust2sect
  dsimp only
  have e1 : sub32 c 2 = c - 2 := by unfold sub32; omega
  have e2 : sub32 fs.n_fatent 2 = fs.n_fatent - 2 := by unfold sub32; omega
  rw [e1, e2, if_neg (by omega)]
  unfold add32
  rw [Nat.mod_eq_of_lt (by omega : (c - 2) * fs.csize < 4294967296)]
  rw [Nat.mod_eq_of_lt (by omega)]
  omega

/-- Entry `i` of a chain directory lies in a cluster of the chain, in a
sector of that cluster behind the FAT copies. -/
theorem chain_pos (fs : FATFS) (sclust : Nat) (L : List Nat) (h : ChainOk fs sclust L) (i : Nat)
    (hi : i < L.length * dirIc fs) :
    chainClust fs L i ∈ L ∧ 2 ≤ chainClust fs L i ∧ chainClust fs L i < fs.n_fatent ∧
    i % dirIc fs / (fs.ssize / SZ_DIR) < fs.csize ∧
    chainSect fs L i = clust2sect fs (chainClust fs L i) + i % dirIc fs / (fs.ssize / SZ_DIR) ∧
    chainSect fs L i < 4294967296 ∧ fs.fatbase + fs.n_fats * fs.fsize ≤ chainSect fs L i ∧
    chainSect fs L i ≠ 0 ∧ clust2sect fs (chainClust fs L i) ≠ 0 := by
  obtain ⟨hic, hc1, hc2⟩ := dirIc_pos fs sclust L h
  have hq : i / dirIc fs < L.length := (Nat.div_lt_iff_lt_mul hic).2 hi
  have hmem : chainClust fs L i ∈ L := by
    unfold chainClust
    rw [List.getD_eq_getElem _ _ hq]
    exact List.getElem_mem hq
  obtain ⟨r1, r2⟩ := h.inrange _ hmem
  obtain ⟨k1, k2, k3⟩ := chain_clust2sect fs sclust L h _ r1 r2
  have hr : i % dirIc fs / (fs.ssize / SZ_DIR) < fs.csize := by
    rw [Nat.div_lt_iff_lt_mul h.persect, Nat.mul_comm]
    exact Nat.mod_lt _ hic
  have hfb := h.fat_before
  have hcs : chainSect fs L i = fs.database + (chainClust fs L i - 2) * fs.csize +
      i % dirIc fs / (fs.ssize / SZ_DIR) := rfl
  generalize i % dirIc fs / (fs.ssize / SZ_DIR) = r at hr hcs ⊢
  generalize (chainClust fs L i - 2) * fs.csize = m at k1 k2 hcs
  generalize fs.n_fats * fs.fsize = nf at hfb ⊢
  refine ⟨hmem, r1, r2, hr, ?_, ?_, ?_, ?_, ?_⟩
  · rw [k1, hcs]
  · omega
  · omega
  · omega
  · omega

theorem chain_inj (fs : FATFS) (sclust : Nat) (L : List Nat) (h : ChainOk fs sclust L) (i j : Nat)
    (hi : i < L.length * dirIc fs) (hj : j < L.length * dirIc fs)
    (hs : chainSect fs L i = chainSect fs L j)
    (hm : i % (fs.ssize / SZ_DIR) = j % (fs.ssize / SZ_DIR)) : i = j := by
  obtain ⟨hic, hc1, hc2⟩ := dirIc_pos fs sclust L h
  obtain ⟨a1, a2, a3, a4, -⟩ := chain_pos fs sclust L h i hi
  obtain ⟨b1, b2, b3, b4, -⟩ := chain_pos fs sclust L h j hj
  have hqi : i / dirIc fs < L.length := (Nat.div_lt_iff_lt_mul hic).2 hi
  have hqj : j / dirIc fs < L.length := (Nat.div_lt_iff_lt_mul hic).2 hj
  unfold chainSect at hs
  have h1 := mul_add_inj fs.csize (chainClust fs L i - 2) (chainClust fs L j - 2)
    (i % dirIc fs / (fs.ssize / SZ_DIR)) (j % dirIc fs / (fs.ssize / SZ_DIR)) a4 b4
    (Nat.add_left_cancel (by rw [← Nat.add_assoc, ← Nat.add_assoc]; exact hs))
  have e : chainClust fs L i = chainClust fs L j := by omega
  unfold chainClust at e
  rw [List.getD_eq_getElem _ _ hqi, List.getD_eq_getElem _ _ hqj] at e
  have e2 : i / dirIc fs = j / dirIc fs := (List.Nodup.getElem_inj_iff h.nodup).1 e
  have m1 : i % dirIc fs % (fs.ssize / SZ_DIR) = i % (fs.ssize / SZ_DIR) := by
    unfold dirIc; exact Nat.mod_mul_right_mod _ _ _
  have m2 : j % dirIc fs % (fs.ssize / SZ_DIR) = j % (fs.ssize / SZ_DIR) := by
    unfold dirIc; exact Nat.mod_mul_right_mod _ _ _
  have e3 : i % dirIc fs = j % dirIc fs := by
    rw [← Nat.div_add_mod (i % dirIc fs) (fs.ssize / SZ_DIR),
      ← Nat.div_add_mod (j % dirIc fs) (fs.ssize / SZ_DIR), h1.2, m1, m2, hm]
  rw [← Nat.div_add_mod i (dirIc fs), ← Nat.div_add_mod j (dirIc fs), e2, e3]

theorem ChainOk_sysRel (fs fs1 : FATFS) (sclust : Nat) (L : List Nat) (h : ChainOk fs sclust L)
    (hrel : fs.sysRel fs1) : ChainOk fs1 sclust L := by
  obtain ⟨e1, e2, e3, e4, e5, e6, -⟩ := meta_fields fs fs1 hrel.2.1
  obtain ⟨g1, g2, g3, g4, g5, g6, g7, g8, g9, g10, g11⟩ := geo_fields fs fs1
    (geo_of_meta fs fs1 hrel.2.1)
  obtain ⟨r1, r2, r3, r4, -⟩ := meta_fields_root fs fs1 hrel.2.1
  have hfv : ∀ d, d < fs.n_fatent → fatVal fs1 d = fatVal fs d :=
    fun d hd => fatVal_data fs fs1 h.fat e1 e3 e6 hrel.2.2 d hd
  refine ⟨fatOk_of_meta fs fs1 h.fat hrel.1 hrel.2.1, by rw [e1, e4]; exact h.hmax,
    by rw [g2]; exact h.csize_pow, by rw [e3]; exact h.persect,
    by rw [e6, e2, e5, g11]; exact h.fat_before, by rw [g11, e4, g2]; exact h.data_end,
    by rw [e1, r4]; exact h.start, h.nodup, fun c hc => by rw [e4]; exact h.inrange c hc, ?_⟩
  exact isChain_congr fs fs1 e4 L h.chain (fun c hc => hfv c (h.inrange c hc).2)

theorem sysRel_of_moved (fs fs1 : FATFS) (hg : fs.good) (h : fs.moved fs1) : fs.sysRel fs1 :=
  sysRel_moved fs fs fs1 (sysRel_refl fs hg) h

/-- The cluster-following loop of `dir_sdi` on a chain directory: from the
cluster at position `m` of the chain it walks `idx / ic` links. -/
theorem dir_sdi_follow_chain (sclust : Nat) (L : List Nat) :
    ∀ (q fuel : Nat) (fs1 : FATFS) (m idx : Nat), ChainOk fs1 sclust L → m + q < L.length →
      idx / dirIc fs1 = q → q + 1 ≤ fuel →
      ∃ fs2, dir_sdi_follow (dirIc fs1) fuel fs1 (L.getD m 0) idx =
          some (fs2, .inr (L.getD (m + q) 0, idx % dirIc fs1)) ∧ fs1.moved fs2 := by
  intro q
  induction q with
  | zero =>
    intro fuel fs1 m idx h hm hq hf
    obtain ⟨f1, rfl⟩ : ∃ f1, fuel = f1 + 1 := ⟨fuel - 1, by omega⟩
    obtain ⟨hic, -, -⟩ := dirIc_pos fs1 sclust L h
    have hlt : idx < dirIc fs1 := by
      rcases Nat.lt_or_ge idx (dirIc fs1) with h1 | h1
      · exact h1
      · have := Nat.div_pos h1 hic
        omega
    rw [dir_sdi_follow, if_neg (by omega), Nat.mod_eq_of_lt hlt]
    exact ⟨fs1, rfl, moved_refl fs1 h.fat.good⟩
  | succ q ih =>
    intro fuel fs1 m idx h hm hq hf
    obtain ⟨f1, rfl⟩ : ∃ f1, fuel = f1 + 1 := ⟨fuel - 1, by omega⟩
    obtain ⟨hic, -, -⟩ := dirIc_pos fs1 sclust L h
    have hge : idx ≥ dirIc fs1 := by
      rcases Nat.lt_or_ge idx (dirIc fs1) with h1 | h1
      · rw [Nat.div_eq_of_lt h1] at hq; omega
      · exact h1
    have hmem : L.getD m 0 ∈ L := by
      rw [List.getD_eq_getElem _ _ (by omega)]
      exact List.getElem_mem _
    have hmem1 : L.getD (m + 1) 0 ∈ L := by
      rw [List.getD_eq_getElem _ _ (by omega)]
      exact List.getElem_mem _
    obtain ⟨r1, r2⟩ := h.inrange _ hmem
    obtain ⟨t1, t2⟩ := h.inrange _ hmem1
    obtain ⟨g1, g2⟩ := get_fat_spec fs1 h.fat (L.getD m 0) r1 r2
    have hval : (get_fat fs1 (L.getD m 0)).2 = L.getD (m + 1) 0 := by
      rw [g1]
      exact isChain_get fs1 L m h.chain (by omega)
    have hrel := sysRel_of_moved fs1 _ h.fat.good g2
    have h1 := ChainOk_sysRel fs1 _ sclust L h hrel
    obtain ⟨e1, e2, e3, e4, -⟩ := meta_fields fs1 _ g2.2.1
    obtain ⟨k1, k2, -⟩ := geo_fields fs1 _ (geo_of_meta fs1 _ g2.2.1)
    have hicq : dirIc (get_fat fs1 (L.getD m 0)).1 = dirIc fs1 := by
      unfold dirIc; rw [e3, k2]
    have hent := h.fat.entries
    have hdq : (idx - dirIc fs1) / dirIc fs1 = q := by
      have hsplit : idx = idx - dirIc fs1 + dirIc fs1 := by omega
      rw [hsplit, Nat.add_div_right _ hic] at hq
      omega
    have hdm : (idx - dirIc fs1) % dirIc fs1 = idx % dirIc fs1 := by
      have := Nat.mod_eq_sub_mod hge
      exact this.symm
    obtain ⟨fs2, j1, j2⟩ := ih f1 (get_fat fs1 (L.getD m 0)).1 (m + 1) (idx - dirIc fs1) h1
      (by omega) (by rw [hicq]; exact hdq) (by omega)
    rw [hicq, hdm] at j1
    rw [dir_sdi_follow, if_pos hge]
    dsimp only
    rw [hval, if_neg (by omega), e4, if_neg (by omega), j1]
    have hidx : m + 1 + q = m + (q + 1) := by omega
    rw [hidx]
    exact ⟨fs2, rfl, moved_trans fs1 _ fs2 g2 j2⟩

theorem chain_start (fs : FATFS) (sclust : Nat) (L : List Nat) (h : ChainOk fs sclust L) :
    L.getD 0 0 = (if sclust = 0 ∧ fs.fs_type = FS_FAT32 then fs.dirbase else sclust) ∧
    0 < L.length ∧ ¬ (sclust = 1 ∨ sclust ≥ fs.n_fatent) ∧
    (if sclust = 0 ∧ fs.fs_type = FS_FAT32 then fs.dirbase else sclust) ≠ 0 := by
  have hs := h.start
  cases L with
  | nil => cases hs
  | cons a rest =>
    have ha : a = (if sclust = 0 ∧ fs.fs_type = FS_FAT32 then fs.dirbase else sclust) := by
      simpa using hs
    obtain ⟨r1, r2⟩ := h.inrange a (List.mem_cons_self _ _)
    refine ⟨ha, by simp, ?_, by rw [← ha]; omega⟩
    rw [ha] at r1 r2
    by_cases c : sclust = 0 ∧ fs.fs_type = FS_FAT32
    · rw [c.1]; omega
    · rw [if_neg c] at r1 r2
      omega

/-- `dir_sdi` on a chain directory finds entry `i`. -/
theorem dir_sdi_chain (fs : FATFS) (sclust : Nat) (L : List Nat) (h : ChainOk fs sclust L)
    (dp : FF_DIR) (hsc : dp.sclust = sclust) (i : Nat) (hi : i < L.length * dirIc fs)
    (hi2 : i < 65536) :
    ∃ fs2, dir_sdi fs dp i =
        some (fs2, dp.setAt fs (chainClust fs L i) (chainSect fs L i) i, FR_OK) ∧
      fs.moved fs2 := by
  subst hsc
  obtain ⟨hic, hc1, hc2⟩ := dirIc_pos fs dp.sclust L h
  obtain ⟨s1, s2, s3, s4⟩ := chain_start fs dp.sclust L h
  obtain ⟨a1, a2, a3, a4, a5, a6, a7, a8, a9⟩ := chain_pos fs dp.sclust L h i hi
  have hq : i / dirIc fs < L.length := (Nat.div_lt_iff_lt_mul hic).2 hi
  obtain ⟨fs2, j1, j2⟩ := dir_sdi_follow_chain dp.sclust L (i / dirIc fs) (i + 1) fs 0 i h
    (by omega) rfl (by
      have := Nat.div_le_self i (dirIc fs)
      omega)
  rw [Nat.zero_add, s1] at j1
  obtain ⟨e1, e2, e3, e4, -⟩ := meta_fields fs fs2 j2.2.1
  obtain ⟨k1, k2, k3, k4, k5, k6, k7, k8, k9, k10, k11⟩ := geo_fields fs fs2
    (geo_of_meta fs fs2 j2.2.1)
  have hcs : clust2sect fs2 (L.getD (i / dirIc fs) 0) = clust2sect fs (chainClust fs L i) := by
    unfold clust2sect chainClust
    rw [k8, k2, k11]
  have hmod : i % 65536 = i := Nat.mod_eq_of_lt hi2
  have hadd : add32 (clust2sect fs (chainClust fs L i)) (i % dirIc fs / (fs.ssize / SZ_DIR)) =
      chainSect fs L i := by
    rw [a5]
    unfold add32
    rw [← a5]
    exact Nat.mod_eq_of_lt a6
  have hoff : i % dirIc fs % (fs.ssize / SZ_DIR) * SZ_DIR = rootOff fs i := by
    unfold rootOff dirIc
    rw [Nat.mod_mul_right_mod]
  refine ⟨fs2, ?_, j2⟩
  unfold dir_sdi
  dsimp only
  rw [if_neg s3, if_neg s4]
  have hicd : fs.ssize / SZ_DIR * fs.csize = dirIc fs := rfl
  rw [hicd, j1]
  dsimp only
  rw [hcs, if_neg a9, e3, hadd, hoff, hmod]
  rfl

theorem land_pow2 (x c : Nat) (hc : ∃ k, k ≤ 7 ∧ c = 2 ^ k) :
    x &&& sub32 c 1 = x % c := by
  obtain ⟨k, hk, rfl⟩ := hc
  have h1 : 1 ≤ 2 ^ k := Nat.one_le_two_pow
  have h2 : 2 ^ k ≤ 128 := by
    calc 2 ^ k ≤ 2 ^ 7 := Nat.pow_le_pow_right (by decide) hk
      _ = 128 := rfl
  have e : sub32 (2 ^ k) 1 = 2 ^ k - 1 := by unfold sub32; omega
  rw [e]
  exact Nat.and_pow_two_sub_one_eq_mod x k

/-- Positions of consecutive entries of a chain directory. -/
theorem chain_succ (E C : Nat) (i : Nat) :
    ((i + 1) % E ≠ 0 → (i + 1) / (E * C) = i / (E * C) ∧
      (i + 1) % (E * C) / E = i % (E * C) / E) ∧
    ((i + 1) % E = 0 → (i + 1) / E % C ≠ 0 → (i + 1) / (E * C) = i / (E * C) ∧
      (i + 1) % (E * C) / E = i % (E * C) / E + 1) ∧
    ((i + 1) % E = 0 → (i + 1) / E % C = 0 → (i + 1) / (E * C) = i / (E * C) + 1 ∧
      (i + 1) % (E * C) / E = 0 ∧ (i + 1) % (E * C) = 0) := by
  have hd := succ_div_of_mod i E
  have d1 : ∀ x, x / (E * C) = x / E / C := fun x => (Nat.div_div_eq_div_mul x E C).symm
  have d2 : ∀ x, x % (E * C) / E = x / E % C := fun x => Nat.mod_mul_right_div_self x E C
  refine ⟨fun h => ?_, fun h1 h2 => ?_, fun h1 h2 => ?_⟩
  · rw [if_neg h] at hd
    rw [d1, d1, d2, d2, hd]
    exact ⟨rfl, rfl⟩
  · rw [if_pos h1] at hd
    rw [d1, d1, d2, d2, hd]
    rw [hd] at h2
    have hd2 := succ_div_of_mod (i / E) C
    rw [if_neg h2] at hd2
    refine ⟨hd2, ?_⟩
    have m1 := Nat.div_add_mod (i / E) C
    have m2 := Nat.div_add_mod (i / E + 1) C
    rw [hd2] at m2
    generalize C * (i / E / C) = p at m1 m2
    omega
  · rw [if_pos h1] at hd
    rw [d1, d1, d2, hd]
    rw [hd] at h2
    have hd2 := succ_div_of_mod (i / E) C
    rw [if_pos h2] at hd2
    refine ⟨hd2, h2, ?_⟩
    have m := Nat.div_add_mod ((i + 1) % (E * C)) E
    rw [d2, hd, h2, Nat.mul_zero, Nat.zero_add, Nat.mod_mul_right_mod] at m
    rw [← m]
    exact h1

/-- `dir_next` inside a chain directory steps from entry `i` to entry
`i + 1`. -/
theorem dir_next_chain (fs : FATFS) (sclust : Nat) (L : List Nat) (h : ChainOk fs sclust L)
    (dp : FF_DIR) (i : Nat) (hi : i + 1 < L.length * dirIc fs) (hi2 : i + 1 < 65536) (s : Bool) :
    ∃ fs2, dir_next fs (dp.setAt fs (chainClust fs L i) (chainSect fs L i) i) s =
        some (fs2, dp.setAt fs (chainClust fs L (i + 1)) (chainSect fs L (i + 1)) (i + 1), FR_OK) ∧
      fs.moved fs2 := by
  obtain ⟨hic, hc1, hc2⟩ := dirIc_pos fs sclust L h
  obtain ⟨a1, a2, a3, a4, a5, a6, a7, a8, a9⟩ := chain_pos fs sclust L h i (by omega)
  obtain ⟨b1, b2, b3, b4, b5, b6, b7, b8, b9⟩ := chain_pos fs sclust L h (i + 1) hi
  obtain ⟨k1, k2, k3⟩ := chain_clust2sect fs sclust L h _ b2 b3
  obtain ⟨u1, u2, u3⟩ := chain_succ (fs.ssize / SZ_DIR) fs.csize i
  have hicd : fs.ssize / SZ_DIR * fs.csize = dirIc fs := rfl
  rw [hicd] at u1 u2 u3
  have hmod : (i + 1) % 65536 = i + 1 := Nat.mod_eq_of_lt hi2
  have hix : (dp.setAt fs (chainClust fs L i) (chainSect fs L i) i).index = i := rfl
  have hsx : (dp.setAt fs (chainClust fs L i) (chainSect fs L i) i).sect = chainSect fs L i := rfl
  have hcx : (dp.setAt fs (chainClust fs L i) (chainSect fs L i) i).clust = chainClust fs L i := rfl
  unfold dir_next
  dsimp only
  rw [hix, hsx, land_65535, hmod, if_neg (by omega)]
  by_cases c2 : (i + 1) % (fs.ssize / SZ_DIR) = 0
  swap
  · rw [if_neg c2]
    obtain ⟨v1, v2⟩ := u1 c2
    refine ⟨fs, ?_, moved_refl fs h.fat.good⟩
    have hcl : chainClust fs L (i + 1) = chainClust fs L i := by unfold chainClust; rw [v1]
    have hse : chainSect fs L (i + 1) = chainSect fs L i := by
      unfold chainSect; rw [hcl, v2]
    rw [hcl, hse]
    rfl
  rw [if_pos c2, hcx, if_neg (by omega), land_pow2 _ _ h.csize_pow]
  by_cases c3 : (i + 1) / (fs.ssize / SZ_DIR) % fs.csize = 0
  swap
  · rw [if_neg c3]
    obtain ⟨v1, v2⟩ := u2 c2 c3
    refine ⟨fs, ?_, moved_refl fs h.fat.good⟩
    have hcl : chainClust fs L (i + 1) = chainClust fs L i := by unfold chainClust; rw [v1]
    have hse : chainSect fs L (i + 1) = chainSect fs L i + 1 := by
      unfold chainSect; rw [hcl, v2]; omega
    have hadd : add32 (chainSect fs L i) 1 = chainSect fs L (i + 1) := by
      unfold add32
      rw [hse]
      exact Nat.mod_eq_of_lt (by omega)
    rw [hadd, hcl]
    rfl
  rw [if_pos c3]
  obtain ⟨v1, v2, v3⟩ := u3 c2 c3
  have hq : (i + 1) / dirIc fs < L.length := (Nat.div_lt_iff_lt_mul hic).2 hi
  obtain ⟨g1, g2⟩ := get_fat_spec fs h.fat (chainClust fs L i) a2 a3
  have hval : (get_fat fs (chainClust fs L i)).2 = chainClust fs L (i + 1) := by
    rw [g1]
    unfold chainClust
    rw [v1]
    exact isChain_get fs L (i / dirIc fs) h.chain (by omega)
  obtain ⟨e1, e2, e3, e4, -⟩ := meta_fields fs _ g2.2.1
  obtain ⟨j1, j2, j3, j4, j5, j6, j7, j8, j9, j10, j11⟩ := geo_fields fs _
    (geo_of_meta fs _ g2.2.1)
  have hent := h.fat.entries
  have hcs : clust2sect (get_fat fs (chainClust fs L i)).1 (chainClust fs L (i + 1)) =
      chainSect fs L (i + 1) := by
    rw [b5, v2]
    unfold clust2sect
    rw [j8, j2, j11]
    exact (Nat.add_zero _).symm
  rw [hval, if_neg (by omega), if_neg (by omega), e4, if_neg (by omega), e3, hcs]
  refine ⟨(get_fat fs (chainClust fs L i)).1, ?_, g2⟩
  rfl

/-- A chain directory as a directory to walk. -/
theorem chainWalk (fs : FATFS) (sclust : Nat) (L : List Nat) (h : ChainOk fs sclust L) :
    DirWalk fs sclust (min (L.length * dirIc fs) 65536) (chainClust fs L) (chainSect fs L) := by
  refine ⟨h.fat.good, Nat.min_le_right _ _, h.persect, fun i hi => ?_, fun i hi => ?_,
    fun i j hi hj h1 h2 => ?_, fun fs1 dp i hrel hsc hi => ?_, fun fs1 dp i s hrel hi => ?_⟩
  · exact (chain_pos fs sclust L h i (by omega)).2.2.2.2.2.1
  · exact (chain_pos fs sclust L h i (by omega)).2.2.2.2.2.2.1
  · exact chain_inj fs sclust L h i j (by omega) (by omega) h1 h2
  · have h1 := ChainOk_sysRel fs fs1 sclust L h hrel
    obtain ⟨j1, j2, j3, j4, j5, j6, j7, j8, j9, j10, j11⟩ := geo_fields fs fs1
      (geo_of_meta fs fs1 hrel.2.1)
    have hic : dirIc fs1 = dirIc fs := by unfold dirIc; rw [j5, j2]
    obtain ⟨fs2, k1, k2⟩ := dir_sdi_chain fs1 sclust L h1 dp hsc i (by rw [hic]; omega) (by omega)
    have hc : chainClust fs1 L i = chainClust fs L i := by unfold chainClust; rw [hic]
    have hs : chainSect fs1 L i = chainSect fs L i := by
      unfold chainSect; rw [hc, hic, j11, j2, j5]
    have hset : dp.setAt fs1 (chainClust fs L i) (chainSect fs L i) i =
        dp.setAt fs (chainClust fs L i) (chainSect fs L i) i := by
      unfold FF_DIR.setAt rootOff; rw [j5]
    rw [hc, hs, hset] at k1
    exact ⟨fs2, k1, k2⟩
  · have h1 := ChainOk_sysRel fs fs1 sclust L h hrel
    obtain ⟨j1, j2, j3, j4, j5, j6, j7, j8, j9, j10, j11⟩ := geo_fields fs fs1
      (geo_of_meta fs fs1 hrel.2.1)
    have hic : dirIc fs1 = dirIc fs := by unfold dirIc; rw [j5, j2]
    obtain ⟨fs2, k1, k2⟩ := dir_next_chain fs1 sclust L h1 dp i (by rw [hic]; omega) (by omega) s
    have hc : ∀ x, chainClust fs1 L x = chainClust fs L x := by
      intro x; unfold chainClust; rw [hic]
    have hs : ∀ x, chainSect fs1 L x = chainSect fs L x := by
      intro x; unfold chainSect; rw [hc, hic, j11, j2, j5]
    have hset : ∀ c s x, dp.setAt fs1 c s x = dp.setAt fs c s x := by
      intro c s x; unfold FF_DIR.setAt rootOff; rw [j5]
    rw [hc, hs, hc, hs, hset, hset] at k1
    exact ⟨fs2, k1, k2⟩

/-- Writing back a dirty window that lies behind the first FAT copy stores
the window in its sector and nothing else. -/
theorem sync_window_behind (fs : FATFS) (hf : fs.disk.faithful) (hw : fs.wflag ≠ 0)
    (hs : fs.fatbase + fs.fsize ≤ fs.winsect) (hlt : fs.winsect < 4294967296) :
    sync_window fs = ({ fs with disk := { fs.disk with
        data := Function.update fs.disk.data fs.winsect fs.win }, wflag := 0 }, FR_OK) := by
  unfold sync_window disk_write
  rw [if_pos hw]
  dsimp only
  rw [hf.2, if_neg (by decide)]
  dsimp only
  rw [if_neg]
  unfold sub32
  omega

/-- The zero-filling loop of `dir_next` on `n` sectors behind the first FAT
copy: every one of them receives the window. -/
theorem dir_next_fill_spec : ∀ (n : Nat) (fs : FATFS), fs.disk.faithful →
    fs.fatbase + fs.fsize ≤ fs.winsect → fs.winsect < 4294967296 →
    fs.winsect + n ≤ 4294967296 →
    (dir_next_fill n fs).2 = FR_OK ∧ (dir_next_fill n fs).1.meta = fs.meta ∧
    (dir_next_fill n fs).1.win = fs.win ∧
    (dir_next_fill n fs).1.winsect = (fs.winsect + n) % 4294967296 ∧
    (1 ≤ n → (dir_next_fill n fs).1.wflag = 0) ∧
    (dir_next_fill n fs).1.disk.faithful ∧
    ∀ s, (dir_next_fill n fs).1.disk.data s =
      if fs.winsect ≤ s ∧ s < fs.winsect + n then fs.win else fs.disk.data s
  | 0, fs, hf, _, hw, hlt => by
    refine ⟨rfl, rfl, rfl, ?_, fun h => absurd h (by decide), hf, fun s => ?_⟩
    · show fs.winsect = _
      rw [Nat.add_zero, Nat.mod_eq_of_lt (by omega)]
    · show fs.disk.data s = _
      rw [if_neg (by omega)]
  | n + 1, fs, hf, hs, hw, hlt => by
    have hsw := sync_window_behind { fs with wflag := 1 } hf Nat.one_ne_zero hs hw
    unfold dir_next_fill
    dsimp only
    rw [hsw]
    dsimp only
    rw [if_neg (by decide)]
    cases n with
    | zero =>
      refine ⟨rfl, rfl, rfl, ?_, fun _ => rfl, hf, fun s => ?_⟩
      · show add32 fs.winsect 1 = _
        rfl
      · show Function.update fs.disk.data fs.winsect fs.win s = _
        by_cases c : s = fs.winsect
        · subst c
          rw [Function.update_same, if_pos (by omega)]
        · rw [Function.update_noteq c, if_neg (by omega)]
    | succ n =>
      have hadd : add32 fs.winsect 1 = fs.winsect + 1 := by
        unfold add32
        exact Nat.mod_eq_of_lt (by omega)
      obtain ⟨a1, a2, a3, a4, a5, a6, a7⟩ := dir_next_fill_spec (n + 1)
        { fs with disk := { fs.disk with data := Function.update fs.disk.data fs.winsect fs.win },
                  wflag := 0, winsect := add32 fs.winsect 1 } hf
        (by show fs.fatbase + fs.fsize ≤ add32 fs.winsect 1; rw [hadd]; omega)
        (by show add32 fs.winsect 1 < 4294967296; rw [hadd]; omega)
        (by show add32 fs.winsect 1 + (n + 1) ≤ 4294967296; rw [hadd]; omega)
      refine ⟨a1, a2, a3, ?_, fun _ => a5 (by omega), a6, fun s => ?_⟩
      · rw [a4]
        show (add32 fs.winsect 1 + (n + 1)) % 4294967296 = _
        rw [hadd]
        congr 1
        omega
      · rw [a7]
        show (if add32 fs.winsect 1 ≤ s ∧ s < add32 fs.winsect 1 + (n + 1) then fs.win
          else Function.update fs.disk.data fs.winsect fs.win s) = _
        rw [hadd]
        by_cases c : s = fs.winsect
        · subst c
          rw [Function.update_same, if_neg (by omega), if_pos (by omega)]
        · rw [Function.update_noteq c]
          by_cases c2 : fs.winsect + 1 ≤ s ∧ s < fs.winsect + 1 + (n + 1)
          · rw [if_pos c2, if_pos (by omega)]
          · rw [if_neg c2, if_neg (by omega)]

theorem dir_next_fill_at (fs : FATFS) (w : Nat → Nat) (s n : Nat) (hf : fs.disk.faithful)
    (hs : fs.fatbase + fs.fsize ≤ s) (hlt : s < 4294967296) (hle : s + n ≤ 4294967296) :
    (dir_next_fill n { fs with win := w, winsect := s }).2 = FR_OK ∧
    (dir_next_fill n { fs with win := w, winsect := s }).1.meta = fs.meta ∧
    (dir_next_fill n { fs with win := w, winsect := s }).1.win = w ∧
    (dir_next_fill n { fs with win := w, winsect := s }).1.winsect = (s + n) % 4294967296 ∧
    (1 ≤ n → (dir_next_fill n { fs with win := w, winsect := s }).1.wflag = 0) ∧
    (dir_next_fill n { fs with win := w, winsect := s }).1.disk.faithful ∧
    ∀ t, (dir_next_fill n { fs with win := w, winsect := s }).1.disk.data t =
      if s ≤ t ∧ t < s + n then w else fs.disk.data t :=
  dir_next_fill_spec n { fs with win := w, winsect := s } hf hs hlt hle

/-- Going back by the size of a cluster from the sector after a cluster,
in 32-bit arithmetic. -/
theorem sub32_add_mod (s c : Nat) (h1 : s + c ≤ 4294967296) (h2 : 1 ≤ s) (h0 : 1 ≤ c) :
    sub32 ((s + c) % 4294967296) c = s := by
  have hcm : c % 4294967296 = c := Nat.mod_eq_of_lt (by omega)
  unfold sub32
  rw [Nat.mod_mod, hcm]
  by_cases h : s + c = 4294967296
  · have h5 : 4294967296 - c < 4294967296 := by omega
    rw [h, Nat.mod_self, Nat.zero_add, Nat.mod_eq_of_lt h5]
    omega
  · have h6 : s + c < 4294967296 := by omega
    have h7 : s < 4294967296 := by omega
    have h3 : (s + c) % 4294967296 = s + c := Nat.mod_eq_of_lt h6
    have h4 : s + c + 4294967296 - c = s + 4294967296 := by omega
    rw [h3, h4, Nat.add_mod_right]
    exact Nat.mod_eq_of_lt h7

/-- A chain directory whose chain got one more cluster. -/
theorem ChainOk_snoc (fs A : FATFS) (sclust : Nat) (L : List Nat) (h : ChainOk fs sclust L)
    (hL : L ≠ []) (r : Nat) (hr2 : 2 ≤ r) (hrn : r < fs.n_fatent) (hnot : r ∉ L)
    (hfat : A.fatOk) (hgeo : A.geo = fs.geo) (hdb : A.dirbase = fs.dirbase)
    (heoc : fs.n_fatent ≤ fatVal A r) (hlast : ∀ a, L.getLast? = some a → fatVal A a = r)
    (hoth : ∀ c ∈ L, L.getLast? ≠ some c → fatVal A c = fatVal fs c) :
    ChainOk A sclust (L ++ [r]) := by
  obtain ⟨g1, g2, g3, g4, g5, g6, g7, g8, g9, g10, g11⟩ := geo_fields fs A hgeo
  refine ⟨hfat, by rw [g1, g8]; exact h.hmax, by rw [g2]; exact h.csize_pow,
    by rw [g5]; exact h.persect, by rw [g10, g3, g9, g11]; exact h.fat_before,
    by rw [g11, g8, g2]; exact h.data_end, ?_, ?_, ?_, ?_⟩
  · rw [g1, hdb, List.head?_append_of_ne_nil L hL]
    exact h.start
  · rw [List.nodup_append]
    refine ⟨h.nodup, List.nodup_singleton r, ?_⟩
    intro a ha hb
    rw [List.mem_singleton] at hb
    subst hb
    exact hnot ha
  · intro c hc
    rw [g8]
    rcases List.mem_append.1 hc with hc | hc
    · exact h.inrange c hc
    · rw [List.mem_singleton] at hc
      subst hc
      exact ⟨hr2, hrn⟩
  · exact isChain_snoc fs A r g8 (by rw [g8]; exact heoc) L h.chain h.nodup hlast hoth

/-- The volume after `dir_next` appended the cluster `r` to the chain of a
directory and filled it with zeros, from what `get_fat`, `create_chain`,
`sync_window` and the zero-filling loop are known to do. -/
theorem stretch_state (fs : FATFS) (sclust : Nat) (L : List Nat) (h : ChainOk fs sclust L)
    (i : Nat) (hi1 : i < L.length * dirIc fs)
    (hlast : L.getLast? = some (chainClust fs L i)) (fsg : FATFS) (g2 : fs.moved fsg)
    (fsc : FATFS) (r : Nat) (c2 : fsc.fatOk) (crel : fsg.fatRel fsc) (c5 : 2 ≤ r)
    (c6 : r < fs.n_fatent) (c7 : fatVal fsg r = 0) (c8 : fsc.meta = (allocHints fsg r).meta)
    (c9 : fatVal fsc r = fatMask fsg 0x0FFFFFFF)
    (c10 : chainClust fs L i ≠ 0 → fatVal fsc (chainClust fs L i) = fatMask fsg r)
    (c11 : ∀ d, d < fsg.n_fatent → d ≠ r → d ≠ chainClust fs L i → fatVal fsc d = fatVal fsg d)
    (fsy : FATFS) (y2 : fsy.wflag = 0) (y3 : fsy.good)
    (y4 : ∀ s k, ¬ mirrorArea fsc s → view fsy s k = view fsc s k)
    (ymeta : fsy.meta = fsc.meta) (ybytes : fsy.bytesOk) (ff : FATFS)
    (F2 : ff.meta = fsy.meta) (F3 : ff.win = memset fsy.win 0 0 fsy.ssize)
    (F4 : ff.winsect = (clust2sect fsy r + fsy.csize) % 4294967296)
    (F6 : ff.disk.faithful)
    (F7 : ∀ t, ff.disk.data t =
      if clust2sect fsy r ≤ t ∧ t < clust2sect fsy r + fsy.csize
      then memset fsy.win 0 0 fsy.ssize else fsy.disk.data t)
    (A : FATFS) (hA : A = { ff with winsect := sub32 ff.winsect ff.csize }) :
    r ∉ L ∧ ChainOk A sclust (L ++ [r]) ∧ A.bytesOk ∧ A.geo = fs.geo ∧
      clust2sect A r = fs.database + (r - 2) * fs.csize ∧ ff.ssize = fs.ssize ∧
      (∀ s k, fs.fatbase + fs.n_fats * fs.fsize ≤ s →
        (∀ q, q < fs.csize → s ≠ fs.database + (r - 2) * fs.csize + q) →
        view A s k = view fs s k) ∧
      (∀ q k, q < fs.csize → k < fs.ssize →
        view A (fs.database + (r - 2) * fs.csize + q) k = 0) := by
  obtain ⟨hic, hc1, hc2⟩ := dirIc_pos fs sclust L h
  have hLne : L ≠ [] := fun h0 => by rw [h0] at hlast; cases hlast
  obtain ⟨a1, a2, a3, a4, a5, a6, a7, a8, a9⟩ := chain_pos fs sclust L h i hi1
  have hrelg := sysRel_of_moved fs fsg h.fat.good g2
  have hg := ChainOk_sysRel fs fsg sclust L h hrelg
  obtain ⟨j1, j2, j3, j4, j5, j6, j7, j8, j9, j10, j11⟩ := geo_fields fs fsg
    (geo_of_meta fs fsg g2.2.1)
  obtain ⟨r1, r2, r3, r4, -⟩ := meta_fields_root fs fsg g2.2.1
  have hent := h.fat.entries
  have hfvg : ∀ d, d < fs.n_fatent → fatVal fsg d = fatVal fs d :=
    fun d hd => fatVal_moved fs fsg h.fat g2 d hd
  have hgeoc : fsc.geo = fs.geo := (geo_of_hints fsg fsc r c8).trans (geo_of_meta fs fsg g2.2.1)
  have hgeoy : fsy.geo = fs.geo := (geo_of_meta fsc fsy ymeta).trans hgeoc
  obtain ⟨q1, q2, q3, q4, q5, q6, q7, q8, q9, q10, q11⟩ := geo_fields fs fsy hgeoy
  obtain ⟨p1, p2, p3, p4, p5, p6, p7, p8, p9, p10, p11⟩ := geo_fields fs fsc hgeoc
  obtain ⟨k1, k2, k3⟩ := chain_clust2sect fs sclust L h r c5 c6
  have hcs : clust2sect fsy r = fs.database + (r - 2) * fs.csize := by
    rw [← k1]
    unfold clust2sect
    rw [q8, q2, q11]
  have hfb : fs.fatbase + fs.fsize ≤ fs.fatbase + fs.n_fats * fs.fsize :=
    Nat.add_le_add_left (Nat.le_mul_of_pos_left _ h.fat.good.fats) _
  have hfbd := h.fat_before
  have hAmeta : A.meta = fsc.meta := by
    rw [hA]
    exact F2.trans ymeta
  have hAgeo : A.geo = fs.geo := (geo_of_meta fsc A hAmeta).trans hgeoc
  obtain ⟨z1, z2, z3, z4, z5, z6, z7, z8, z9, z10, z11⟩ := geo_fields fs A hAgeo
  have hffc : ff.csize = fs.csize := by
    have : A.csize = ff.csize := by rw [hA]
    rw [← this]; exact z2
  have hAwinsect : A.winsect = fs.database + (r - 2) * fs.csize := by
    rw [hA]
    show sub32 ff.winsect ff.csize = _
    rw [F4, hcs, q2, hffc]
    exact sub32_add_mod _ _ k2 (Nat.le_trans k3 (Nat.le_add_right _ _)) hc1
  have hAwin : A.win = memset fsy.win 0 0 fs.ssize := by
    rw [hA, ← q5]
    exact F3
  have hAdata : ∀ s, A.disk.data s =
      if fs.database + (r - 2) * fs.csize ≤ s ∧ s < fs.database + (r - 2) * fs.csize + fs.csize
      then memset fsy.win 0 0 fs.ssize else fsy.disk.data s := by
    intro s
    have := F7 s
    rw [hcs, q2, q5] at this
    rw [hA]
    exact this
  have hAgood : A.good := by
    refine ⟨by rw [z6]; exact h.fat.good.writable, by rw [hA]; exact F6,
      by rw [z3]; exact h.fat.good.fats, by rw [z10, z3, z9]; exact h.fat.good.nowrap,
      by rw [hAwinsect]; clear * - k2 hc1; omega, fun _ k => ?_⟩
    rw [hAwin, hAwinsect, hAdata, if_pos ⟨Nat.le_refl _, by clear * - hc1; omega⟩]
  have hAdb : A.dirbase = fs.dirbase := by
    have t1 := (meta_fields_root fsc A hAmeta).2.2.2.1
    have t2 : fsc.dirbase = fsg.dirbase := (meta_fields_root (allocHints fsg r) fsc c8).2.2.2.1
    rw [t1, t2, r4]
  have hAfat : A.fatOk := fatOk_of_meta fsc A c2 hAgood hAmeta
  have hvy : ∀ s k, view fsy s k = fsy.disk.data s k := by
    intro s k
    unfold view
    by_cases c : s = fsy.winsect
    · rw [if_pos c, c]
      exact y3.coherent y2 k
    · rw [if_neg c]
  have hview : ∀ s k, ¬ mirrorArea fsc s →
      ¬ (fs.database + (r - 2) * fs.csize ≤ s ∧ s < fs.database + (r - 2) * fs.csize + fs.csize) →
      view A s k = view fsc s k := by
    intro s k hm hn
    rw [← y4 s k hm, hvy]
    unfold view
    rw [hAwinsect, if_neg (by clear * - hn hc1; omega), hAdata, if_neg hn]
  have hzero : ∀ s k, fs.database + (r - 2) * fs.csize ≤ s →
      s < fs.database + (r - 2) * fs.csize + fs.csize → k < fs.ssize → view A s k = 0 := by
    intro s k h1 h2 hk
    have hm : memset fsy.win 0 0 fs.ssize k = 0 := by
      unfold memset
      rw [if_pos ⟨Nat.zero_le _, by clear * - hk; omega⟩]
    unfold view
    by_cases c : s = A.winsect
    · rw [if_pos c, hAwin, hm]
    · rw [if_neg c, hAdata, if_pos ⟨h1, h2⟩, hm]
  have hfvA : ∀ d, d < fs.n_fatent → fatVal A d = fatVal fsc d := by
    intro d hd
    refine fatVal_data fsc A c2 (z1.trans p1.symm) (z5.trans p5.symm) (z10.trans p10.symm)
      (fun s k hs => ?_) d (by rw [p8]; exact hd)
    rw [p10, p9] at hs
    refine hview s k (fun hm => ?_) (by clear * - hs hfb hfbd; omega)
    unfold mirrorArea at hm
    rw [p10, p9] at hm
    clear * - hm hs
    omega
  have hnot : r ∉ L := by
    intro hr
    have := isChain_ne_zero fsg (by rw [j8]; clear * - c6; omega) L hg.chain
      (fun c hc => (hg.inrange c hc).1) r hr
    exact this c7
  have hchain : ChainOk A sclust (L ++ [r]) := by
    refine ChainOk_snoc fs A sclust L h hLne r c5 c6 hnot hAfat hAgeo hAdb ?_ ?_ ?_
    · rw [hfvA r c6, c9, ← j8]
      exact fatMask_eoc fsg hg.hmax hg.fat
    · intro a ha
      rw [hlast] at ha
      have ha : chainClust fs L i = a := Option.some.inj ha
      rw [← ha, hfvA _ a3, c10 (by clear * - a2; omega)]
      exact fatMask_small fsg hg.fat hg.hmax r (by rw [j8]; exact c6)
    · intro c hc hl
      have hcr := (h.inrange c hc).2
      have hne : c ≠ chainClust fs L i := fun e => hl (by rw [e]; exact hlast)
      have hne2 : c ≠ r := fun e => hnot (by rw [← e]; exact hc)
      rw [hfvA c hcr, c11 c (by rw [j8]; exact hcr) hne2 hne, hfvg c hcr]
  have hAbytes : A.bytesOk := by
    have hm : ∀ k, memset fsy.win 0 0 fs.ssize k < 256 := by
      intro k
      unfold memset
      by_cases c : 0 ≤ k ∧ k < 0 + fs.ssize
      · rw [if_pos c]; decide
      · rw [if_neg c]; exact ybytes.1 k
    refine ⟨fun k => by rw [hAwin]; exact hm k, fun s k => ?_⟩
    rw [hAdata]
    by_cases c : fs.database + (r - 2) * fs.csize ≤ s ∧
        s < fs.database + (r - 2) * fs.csize + fs.csize
    · rw [if_pos c]; exact hm k
    · rw [if_neg c]; exact ybytes.2 s k
  have hcA : clust2sect A r = fs.database + (r - 2) * fs.csize := by
    rw [← k1]
    unfold clust2sect
    rw [z8, z2, z11]
  have hffs : ff.ssize = fs.ssize := by
    have : A.ssize = ff.ssize := by rw [hA]
    rw [← this]; exact z5
  refine ⟨hnot, hchain, hAbytes, hAgeo, hcA, hffs, ?_, ?_⟩
  · intro s k hs hq
    have hn : ¬ (fs.database + (r - 2) * fs.csize ≤ s ∧
        s < fs.database + (r - 2) * fs.csize + fs.csize) := by
      intro hh
      exact hq (s - (fs.database + (r - 2) * fs.csize)) (by clear * - hh; omega)
        (by clear * - hh; omega)
    have hm : ¬ mirrorArea fsc s := by
      unfold mirrorArea
      rw [p10, p9, p3]
      clear * - hs
      omega
    rw [hview s k hm hn, crel.2.2 s k (Or.inr (by rw [j10, j3, j9]; exact hs))]
    refine g2.2.2.2 s k ?_
    unfold mirrorArea
    clear * - hs hfb
    omega
  · intro q k hq hk
    exact hzero _ k (by clear * - hq; omega) (by clear * - hq; omega) hk

/-- A step of `dir_alloc` past the last entry of a chain directory that
succeeds appends a cluster to the chain: the cluster was free, its sectors
read zero afterwards, and every other sector behind the FAT copies reads as
before. -/
theorem dir_next_stretch (fs : FATFS) (sclust : Nat) (L : List Nat) (h : ChainOk fs sclust L)
    (hb : fs.bytesOk) (dp : FF_DIR) (i : Nat) (hi : i + 1 = L.length * dirIc fs)
    (hi2 : i + 1 < 65536) (fs1 : FATFS) (dp1 : FF_DIR)
    (hres : dir_next fs (dp.setAt fs (chainClust fs L i) (chainSect fs L i) i) true =
      some (fs1, dp1, FR_OK)) :
    ∃ n, n ∉ L ∧ 2 ≤ n ∧ n < fs.n_fatent ∧ ChainOk fs1 sclust (L ++ [n]) ∧ fs1.bytesOk ∧
      fs1.geo = fs.geo ∧
      dp1 = dp.setAt fs n (fs.database + (n - 2) * fs.csize) (i + 1) ∧
      (∀ s k, fs.fatbase + fs.n_fats * fs.fsize ≤ s →
        (∀ q, q < fs.csize → s ≠ fs.database + (n - 2) * fs.csize + q) →
        view fs1 s k = view fs s k) ∧
      (∀ q k, q < fs.csize → k < fs.ssize →
        view fs1 (fs.database + (n - 2) * fs.csize + q) k = 0) := by
  obtain ⟨hic, hc1, hc2⟩ := dirIc_pos fs sclust L h
  have hLpos : 0 < L.length := by
    rcases Nat.eq_zero_or_pos L.length with h0 | h0
    · rw [h0, Nat.zero_mul] at hi
      omega
    · exact h0
  have hLne : L ≠ [] := fun h0 => by rw [h0] at hLpos; exact absurd hLpos (by decide)
  have hi1 : i < L.length * dirIc fs := by clear * - hi; omega
  obtain ⟨a1, a2, a3, a4, a5, a6, a7, a8, a9⟩ := chain_pos fs sclust L h i hi1
  have hicd : dirIc fs = fs.ssize / SZ_DIR * fs.csize := rfl
  have hE : (i + 1) % (fs.ssize / SZ_DIR) = 0 := by
    rw [hi, hicd, Nat.mul_comm (fs.ssize / SZ_DIR), ← Nat.mul_assoc]
    exact Nat.mul_mod_left _ _
  have hC : (i + 1) / (fs.ssize / SZ_DIR) % fs.csize = 0 := by
    rw [hi, hicd, Nat.mul_comm (fs.ssize / SZ_DIR), ← Nat.mul_assoc,
      Nat.mul_div_cancel _ h.persect]
    exact Nat.mul_mod_left _ _
  have hq : i / dirIc fs = L.length - 1 := by
    apply Nat.div_eq_of_lt_le
    · have : (L.length - 1) * dirIc fs + dirIc fs = L.length * dirIc fs := by
        rw [← Nat.succ_mul]
        congr 1
        omega
      omega
    · have : L.length - 1 + 1 = L.length := by omega
      rw [this]
      exact hi1
  have hlast : L.getLast? = some (chainClust fs L i) := by
    rw [getLast_getD L hLne]
    unfold chainClust
    rw [hq]
  have heoc := isChain_last fs L _ h.chain hlast
  have hfle := fatVal_le fs hb (chainClust fs L i)
  obtain ⟨g1, g2⟩ := get_fat_spec fs h.fat (chainClust fs L i) a2 a3
  have hmod : (i + 1) % 65536 = i + 1 := Nat.mod_eq_of_lt hi2
  have hix : (dp.setAt fs (chainClust fs L i) (chainSect fs L i) i).index = i := rfl
  have hsx : (dp.setAt fs (chainClust fs L i) (chainSect fs L i) i).sect = chainSect fs L i := rfl
  have hcx : (dp.setAt fs (chainClust fs L i) (chainSect fs L i) i).clust = chainClust fs L i := rfl
  unfold dir_next at hres
  dsimp only at hres
  rw [hix, hsx, land_65535, hmod, if_neg (by clear * - a8; omega), if_pos hE, hcx,
    if_neg (by clear * - a2; omega),
    land_pow2 _ _ h.csize_pow, if_pos hC, g1] at hres
  obtain ⟨fsg, hfsg⟩ : ∃ x, x = (get_fat fs (chainClust fs L i)).1 := ⟨_, rfl⟩
  rw [← hfsg] at hres g2
  clear hfsg g1
  have hrelg := sysRel_of_moved fs fsg h.fat.good g2
  have hg := ChainOk_sysRel fs fsg sclust L h hrelg
  have hbg : fsg.bytesOk := g2.2.2.1 hb
  obtain ⟨j1, j2, j3, j4, j5, j6, j7, j8, j9, j10, j11⟩ := geo_fields fs fsg
    (geo_of_meta fs fsg g2.2.1)
  obtain ⟨r1, r2, r3, r4, -⟩ := meta_fields_root fs fsg g2.2.1
  have hent := h.fat.entries
  have hfvg : ∀ d, d < fs.n_fatent → fatVal fsg d = fatVal fs d :=
    fun d hd => fatVal_moved fs fsg h.fat g2 d hd
  rw [if_neg (by clear * - heoc a2 a3; omega), if_neg (by clear * - hfle; omega), j8,
    if_pos heoc, j6, h.fat.good.writable,
    if_pos (by decide), if_neg (by decide)] at hres
  obtain ⟨fsc, r, c1, c2, c3, c4⟩ := create_chain_spec fsg hg.fat hbg (chainClust fs L i)
    (Or.inr ⟨a2, by rw [j8]; exact a3⟩)
  have crel := create_chain_rel fsg hg.fat hbg _ fsc r c1
  rw [c1] at hres
  dsimp only at hres
  rcases c4 with ⟨-, c5, -⟩ | ⟨-, c4⟩
  · rw [hfvg _ a3, j8] at c5
    clear * - c5 heoc
    omega
  rcases c4 with ⟨c5, -⟩ | ⟨c5, -⟩ | ⟨c5, c6, c7, c8, c9, c10, c11⟩
  · rw [if_pos c5] at hres
    have e3 : FR_DENIED = FR_OK := congrArg (fun x => x.2.2) (Option.some.inj hres)
    cases e3
  · rw [if_neg (by clear * - c5; omega), if_pos c5] at hres
    have e3 : FR_INT_ERR = FR_OK := congrArg (fun x => x.2.2) (Option.some.inj hres)
    cases e3
  rw [j8] at c6
  rw [if_neg (by clear * - c5; omega), if_neg (by clear * - c5; omega),
    if_neg (by clear * - c6 hent; omega)] at hres
  -- the states after the window was written back
  obtain ⟨y1, y2, y3, y4⟩ := sync_window_good fsc c2.good
  have ymeta := sync_window_meta fsc
  have ybytes := sync_window_bytes fsc c3
  generalize sync_window fsc = y at hres y1 y2 y3 y4 ymeta ybytes
  obtain ⟨fsy, ry⟩ := y
  dsimp only at hres y1 y2 y3 y4 ymeta ybytes
  subst y1
  rw [if_neg (by decide)] at hres
  have hgeoc : fsc.geo = fs.geo := (geo_of_hints fsg fsc r c8).trans (geo_of_meta fs fsg g2.2.1)
  have hgeoy : fsy.geo = fs.geo := (geo_of_meta fsc fsy ymeta).trans hgeoc
  obtain ⟨q1, q2, q3, q4, q5, q6, q7, q8, q9, q10, q11⟩ := geo_fields fs fsy hgeoy
  obtain ⟨p1, p2, p3, p4, p5, p6, p7, p8, p9, p10, p11⟩ := geo_fields fs fsc hgeoc
  obtain ⟨k1, k2, k3⟩ := chain_clust2sect fs sclust L h r c5 c6
  have hcs : clust2sect fsy r = fs.database + (r - 2) * fs.csize := by
    rw [← k1]
    unfold clust2sect
    rw [q8, q2, q11]
  have hfb : fs.fatbase + fs.fsize ≤ fs.fatbase + fs.n_fats * fs.fsize :=
    Nat.add_le_add_left (Nat.le_mul_of_pos_left _ h.fat.good.fats) _
  have hfbd := h.fat_before
  have F := dir_next_fill_at fsy (memset fsy.win 0 0 fsy.ssize) (clust2sect fsy r) fsy.csize
    y3.faithful (by rw [q10, q9, hcs]; clear * - hfb hfbd; omega)
    (by rw [hcs]; clear * - k2 hc1; omega) (by rw [hcs, q2]; clear * - k2; omega)
  generalize dir_next_fill fsy.csize
    { fsy with win := memset fsy.win 0 0 fsy.ssize, winsect := clust2sect fsy r } = f at hres F
  obtain ⟨ff, rf⟩ := f
  obtain ⟨F1, F2, F3, F4, F5, F6, F7⟩ := F
  dsimp only at hres F1 F2 F3 F4 F5 F6 F7
  subst F1
  rw [if_neg (by decide)] at hres
  obtain ⟨A, hA⟩ : ∃ x, x = ({ ff with winsect := sub32 ff.winsect ff.csize } : FATFS) :=
    ⟨_, rfl⟩
  rw [← hA] at hres
  obtain ⟨hfs1, hrest⟩ := Prod.mk.inj (Option.some.inj hres)
  obtain ⟨hdp1, -⟩ := Prod.mk.inj hrest
  clear hres hrest
  subst hfs1
  obtain ⟨b1, b2, b3, b4, b5, b6, b7, b8⟩ := stretch_state fs sclust L h i hi1 hlast fsg g2 fsc r
    c2 crel c5 c6 c7 c8 c9 c10 c11 fsy y2 y3 y4 ymeta ybytes ff F2 F3 F4 F6 F7 A hA
  refine ⟨r, b1, c5, c6, b2, b3, b4, ?_, b7, b8⟩
  rw [← hdp1, b5, b6]
  rfl

/-- The positions of the entries of a chain directory depend on the layout
of the volume only. -/
theorem chain_geo (fs fs1 : FATFS) (hg : fs1.geo = fs.geo) :
    dirIc fs1 = dirIc fs ∧ (∀ L x, chainClust fs1 L x = chainClust fs L x) ∧
    (∀ L x, chainSect fs1 L x = chainSect fs L x) ∧
    (∀ (dp : FF_DIR) c s x, dp.setAt fs1 c s x = dp.setAt fs c s x) ∧
    ∀ s x, entryAt fs1 s x = (List.range SZ_DIR).map fun k => view fs1 s (rootOff fs x + k) := by
  obtain ⟨j1, j2, j3, j4, j5, j6, j7, j8, j9, j10, j11⟩ := geo_fields fs fs1 hg
  have hic : dirIc fs1 = dirIc fs := by unfold dirIc; rw [j5, j2]
  have hc : ∀ L x, chainClust fs1 L x = chainClust fs L x := by
    intro L x; unfold chainClust; rw [hic]
  refine ⟨hic, hc, fun L x => ?_, fun dp c s x => ?_, fun s x => ?_⟩
  · unfold chainSect; rw [hc, hic, j11, j2, j5]
  · unfold FF_DIR.setAt rootOff; rw [j5]
  · unfold entryAt rootOff; rw [j5]

/-- An entry in a sector that reads zero is 32 zero bytes. -/
theorem entryAt_zero (fs : FATFS) (hp : 0 < fs.ssize / SZ_DIR) (s x : Nat)
    (h : ∀ k, k < fs.ssize → view fs s k = 0) : entryAt fs s x = List.replicate 32 0 := by
  have hlt : x % (fs.ssize / SZ_DIR) < fs.ssize / SZ_DIR := Nat.mod_lt _ hp
  have hle : fs.ssize / SZ_DIR * SZ_DIR ≤ fs.ssize := Nat.div_mul_le_self _ _
  have hb : (x % (fs.ssize / SZ_DIR) + 1) * SZ_DIR ≤ fs.ssize / SZ_DIR * SZ_DIR :=
    Nat.mul_le_mul_right _ hlt
  rw [Nat.add_mul, Nat.one_mul] at hb
  unfold entryAt
  have : List.replicate 32 0 = (List.range SZ_DIR).map fun _ => 0 := by decide
  rw [this]
  apply List.map_congr_left
  intro k hk
  rw [List.mem_range] at hk
  apply h
  unfold rootOff
  omega

/-- The entries of a chain keep their place when the chain gets longer. -/
theorem chain_append (fs : FATFS) (L ext : List Nat) (hic : 0 < dirIc fs) (t : Nat)
    (ht : t < L.length * dirIc fs) :
    chainClust fs (L ++ ext) t = chainClust fs L t ∧
    chainSect fs (L ++ ext) t = chainSect fs L t := by
  have hq : t / dirIc fs < L.length := (Nat.div_lt_iff_lt_mul hic).2 ht
  have hc : chainClust fs (L ++ ext) t = chainClust fs L t := by
    unfold chainClust
    exact List.getD_append L ext 0 _ hq
  refine ⟨hc, ?_⟩
  unfold chainSect
  rw [hc]

/-- The entries of the cluster appended to a chain. -/
theorem chain_new (fs : FATFS) (L : List Nat) (n : Nat) (hic : 0 < dirIc fs)
    (hp : 0 < fs.ssize / SZ_DIR) (t : Nat)
    (h1 : L.length * dirIc fs ≤ t) (h2 : t < (L ++ [n]).length * dirIc fs) :
    chainClust fs (L ++ [n]) t = n ∧
    ∃ q, q < fs.csize ∧ chainSect fs (L ++ [n]) t = fs.database + (n - 2) * fs.csize + q := by
  have hq : t / dirIc fs = L.length := by
    apply Nat.div_eq_of_lt_le h1
    rw [List.length_append] at h2
    exact h2
  have hc : chainClust fs (L ++ [n]) t = n := by
    unfold chainClust
    rw [hq, List.getD_append_right L [n] 0 _ (Nat.le_refl _), Nat.sub_self]
    rfl
  refine ⟨hc, t % dirIc fs / (fs.ssize / SZ_DIR), ?_, ?_⟩
  · apply (Nat.div_lt_iff_lt_mul hp).2
    rw [Nat.mul_comm]
    exact Nat.mod_lt _ hic
  · unfold chainSect
    rw [hc]

/-- One round of the loop of `dir_alloc` that leads to success: it stops at
the entry it looks at, or `dir_next` steps on and the loop goes on. -/
theorem dir_alloc_loop_step (nent fuel : Nat) (fs : FATFS) (dp : FF_DIR) (n : Nat)
    (fs2 : FATFS) (dp2 : FF_DIR)
    (h : dir_alloc_loop nent (fuel + 1) fs dp n = some (fs2, dp2, FR_OK)) :
    (fs2 = (move_window fs dp.sect).1 ∧ dp2 = dp) ∨
    ∃ fs1 dp1 n1, dir_next (move_window fs dp.sect).1 dp true = some (fs1, dp1, FR_OK) ∧
      dir_alloc_loop nent fuel fs1 dp1 n1 = some (fs2, dp2, FR_OK) := by
  rw [dir_alloc_loop] at h
  dsimp only at h
  by_cases c1 : (move_window fs dp.sect).2 ≠ FR_OK
  · rw [if_pos c1] at h
    rw [Option.some.injEq] at h
    exact absurd (congrArg (fun x => x.2.2) h) c1
  rw [if_neg c1] at h
  by_cases c2 : (decide (dirByte (move_window fs dp.sect).1 dp 0 = DDE ∨
      dirByte (move_window fs dp.sect).1 dp 0 = 0) = true) ∧ add32 n 1 = nent
  · rw [if_pos c2] at h
    rw [Option.some.injEq] at h
    exact Or.inl ⟨(congrArg (fun x => x.1) h).symm, (congrArg (fun x => x.2.1) h).symm⟩
  rw [if_neg c2] at h
  cases hn1 : dir_next (move_window fs dp.sect).1 dp true with
  | none => rw [hn1] at h; cases h
  | some x =>
    obtain ⟨fs1, dp1, r⟩ := x
    rw [hn1] at h
    dsimp only at h
    by_cases c3 : r = FR_OK
    · rw [if_pos c3] at h
      subst c3
      exact Or.inr ⟨fs1, dp1, _, rfl, h⟩
    · rw [if_neg c3] at h
      rw [Option.some.injEq] at h
      exact absurd (congrArg (fun x => x.2.2) h) c3

/-- Sectors of different clusters are different. -/
theorem clust_sect_ne (D m c n q1 q2 : Nat) (h1 : 2 ≤ c) (h2 : 2 ≤ n) (hne : c ≠ n)
    (hq1 : q1 < m) (hq2 : q2 < m) : D + (c - 2) * m + q1 ≠ D + (n - 2) * m + q2 := by
  intro h
  have h3 : (c - 2) * m + q1 = (n - 2) * m + q2 := by omega
  have := (mul_add_inj m _ _ _ _ hq1 hq2 h3).1
  omega

/-- The loop of `dir_alloc` on a chain directory, when it succeeds: the
chain may have got longer, the entries it had are as before and the entries
of the appended clusters are zero. -/
theorem dir_alloc_loop_chain (sclust : Nat) (dp : FF_DIR) (nent : Nat) :
    ∀ (fuel : Nat) (fs1 : FATFS) (L1 : List Nat) (i n : Nat) (fs2 : FATFS) (dp2 : FF_DIR),
      ChainOk fs1 sclust L1 → fs1.bytesOk → i < L1.length * dirIc fs1 → i < 65536 →
      dir_alloc_loop nent fuel fs1
        (dp.setAt fs1 (chainClust fs1 L1 i) (chainSect fs1 L1 i) i) n = some (fs2, dp2, FR_OK) →
      ∃ ext j, ChainOk fs2 sclust (L1 ++ ext) ∧ fs2.bytesOk ∧ fs2.geo = fs1.geo ∧
        j < (L1 ++ ext).length * dirIc fs1 ∧ j < 65536 ∧
        dp2 = dp.setAt fs1 (chainClust fs1 (L1 ++ ext) j) (chainSect fs1 (L1 ++ ext) j) j ∧
        (∀ t, t < L1.length * dirIc fs1 →
          entryAt fs2 (chainSect fs1 L1 t) t = entryAt fs1 (chainSect fs1 L1 t) t) ∧
        (∀ t, L1.length * dirIc fs1 ≤ t → t < (L1 ++ ext).length * dirIc fs1 →
          entryAt fs2 (chainSect fs1 (L1 ++ ext) t) t = List.replicate 32 0) := by
  intro fuel
  induction fuel with
  | zero => intro fs1 L1 i n fs2 dp2 _ _ _ _ h; cases h
  | succ fuel ih =>
    intro fs1 L1 i n fs2 dp2 h hb hi hi2 hres
    obtain ⟨hic, hc1, hc2⟩ := dirIc_pos fs1 sclust L1 h
    obtain ⟨a1, a2, a3, a4, a5, a6, a7, a8, a9⟩ := chain_pos fs1 sclust L1 h i hi
    obtain ⟨m1, m2, m3⟩ := move_window_moved fs1 (chainSect fs1 L1 i) h.fat.good a6
    have hsx : (dp.setAt fs1 (chainClust fs1 L1 i) (chainSect fs1 L1 i) i).sect =
      chainSect fs1 L1 i := rfl
    have hstep := dir_alloc_loop_step nent fuel fs1 _ n fs2 dp2 hres
    rw [hsx] at hstep
    obtain ⟨fm, hfm⟩ : ∃ x, x = (move_window fs1 (chainSect fs1 L1 i)).1 := ⟨_, rfl⟩
    rw [← hfm] at hstep m3
    clear hfm m1 m2
    have hrel := sysRel_of_moved fs1 fm h.fat.good m3
    have hm := ChainOk_sysRel fs1 fm sclust L1 h hrel
    have hbm := m3.2.2.1 hb
    have hgeo := geo_of_meta fs1 fm m3.2.1
    obtain ⟨G1, G2, G3, G4, G5⟩ := chain_geo fs1 fm hgeo
    obtain ⟨j1, j2, j3, j4, j5, j6, j7, j8, j9, j10, j11⟩ := geo_fields fs1 fm hgeo
    have hent : ∀ t, t < L1.length * dirIc fs1 →
        entryAt fm (chainSect fs1 L1 t) t = entryAt fs1 (chainSect fs1 L1 t) t := fun t ht =>
      entryAt_moved fs1 fs1 fm (sysRel_refl fs1 h.fat.good) m3 _ _
        (chain_pos fs1 sclust L1 h t ht).2.2.2.2.2.2.1
    rcases hstep with ⟨e1, e2⟩ | ⟨fsn, dpn, n1, hn, hloop⟩
    · subst e1 e2
      refine ⟨[], i, ?_, hbm, hgeo, ?_, hi2, ?_, hent, ?_⟩
      · rw [List.append_nil]; exact hm
      · rw [List.append_nil]; exact hi
      · rw [List.append_nil]
      · intro t h1 h2
        rw [List.append_nil] at h2
        omega
    have hidx := dir_next_index fm _ true fsn dpn hn hi2
    have hi3 : i + 1 < 65536 := by
      have : dpn.index = i + 1 := hidx.1
      omega
    rw [← G4, ← G2, ← G3] at hn
    by_cases hin : i + 1 < L1.length * dirIc fs1
    · -- inside the chain
      obtain ⟨fsx, k1, k2⟩ := dir_next_chain fm sclust L1 hm dp i (by rw [G1]; exact hin) hi3 true
      rw [hn] at k1
      obtain ⟨k3, k4⟩ := Prod.mk.inj (Option.some.inj k1)
      obtain ⟨k5, -⟩ := Prod.mk.inj k4
      subst k3
      have hgeo2 : fsn.geo = fs1.geo := (geo_of_meta fm fsn k2.2.1).trans hgeo
      obtain ⟨H1, H2, H3, H4, H5⟩ := chain_geo fs1 fsn hgeo2
      have hrel2 := sysRel_of_moved fm fsn hm.fat.good k2
      have hn2 := ChainOk_sysRel fm fsn sclust L1 hm hrel2
      rw [k5, G2, G3, G4, ← H4, ← H2, ← H3] at hloop
      obtain ⟨ext, j, b1, b2, b3, b4, b5, b6, b7, b8⟩ := ih fsn L1 (i + 1) n1 fs2 dp2 hn2
        (k2.2.2.1 hbm) (by rw [H1]; exact hin) hi3 hloop
      refine ⟨ext, j, b1, b2, b3.trans hgeo2, by rw [← H1]; exact b4, b5,
        by rw [b6, H2, H3, H4], fun t ht => ?_, fun t h1 h2 => ?_⟩
      · have := b7 t (by rw [H1]; exact ht)
        rw [H3] at this
        rw [this, ← hent t ht]
        exact entryAt_moved fs1 fm fsn hrel k2 _ _
          (chain_pos fs1 sclust L1 h t ht).2.2.2.2.2.2.1
      · have := b8 t (by rw [H1]; exact h1) (by rw [H1]; exact h2)
        rw [H3] at this
        exact this
    · -- at the end of the chain
      have hend : i + 1 = L1.length * dirIc fm := by rw [G1]; omega
      obtain ⟨c, s1, s2, s3, s4, s5, s6, s7, s8, s9⟩ :=
        dir_next_stretch fm sclust L1 hm hbm dp i hend hi3 fsn dpn hn
      rw [j8] at s3
      rw [j10, j3, j9, j11, j2] at s8
      rw [j11, j2, j5] at s9
      rw [j11, j2] at s7
      have hgeo2 : fsn.geo = fs1.geo := s6.trans hgeo
      obtain ⟨H1, H2, H3, H4, H5⟩ := chain_geo fs1 fsn hgeo2
      obtain ⟨z1, z2, z3, z4, z5, z6, z7, z8, z9, z10, z11⟩ := geo_fields fs1 fsn hgeo2
      have hlen : (L1 ++ [c]).length = L1.length + 1 := by
        rw [List.length_append]; rfl
      have hi4 : i + 1 < (L1 ++ [c]).length * dirIc fs1 := by
        rw [hlen, Nat.add_mul, Nat.one_mul]
        omega
      obtain ⟨n1c, q, n2c, n3c⟩ := chain_new fs1 L1 c hic h.persect (i + 1) (by omega) hi4
      have hq0 : chainSect fs1 (L1 ++ [c]) (i + 1) = fs1.database + (c - 2) * fs1.csize := by
        unfold chainSect
        rw [n1c]
        have : (i + 1) % dirIc fs1 = 0 := by
          have : i + 1 = L1.length * dirIc fs1 := by omega
          rw [this]
          exact Nat.mul_mod_left _ _
        rw [this, Nat.zero_div, Nat.add_zero]
      have hdp : dp.setAt fm c (fs1.database + (c - 2) * fs1.csize) (i + 1) =
          dp.setAt fsn (chainClust fsn (L1 ++ [c]) (i + 1))
            (chainSect fsn (L1 ++ [c]) (i + 1)) (i + 1) := by
        rw [H2, H3, H4, n1c, hq0, G4]
      rw [s7, hdp] at hloop
      obtain ⟨ext, j, b1, b2, b3, b4, b5, b6, b7, b8⟩ := ih fsn (L1 ++ [c]) (i + 1) n1 fs2 dp2
        s4 s5 (by rw [H1]; exact hi4) hi3 hloop
      rw [H1] at b4 b7 b8
      rw [List.append_assoc] at b1 b4 b6 b8
      have hnew : ∀ t, L1.length * dirIc fs1 ≤ t → t < (L1 ++ [c]).length * dirIc fs1 →
          entryAt fsn (chainSect fs1 (L1 ++ [c]) t) t = List.replicate 32 0 := by
        intro t h1 h2
        obtain ⟨-, q, w1, w2⟩ := chain_new fs1 L1 c hic h.persect t h1 h2
        rw [w2]
        refine entryAt_zero fsn (by rw [z5]; exact h.persect) _ t (fun k hk => ?_)
        rw [z5] at hk
        exact s9 q k w1 hk
      refine ⟨[c] ++ ext, j, b1, b2, b3.trans hgeo2, b4, b5,
        by rw [b6, H2, H3, H4], fun t ht => ?_, fun t h1 h2 => ?_⟩
      · have ht2 : t < (L1 ++ [c]).length * dirIc fs1 := by
          rw [hlen, Nat.add_mul, Nat.one_mul]; omega
        have := b7 t ht2
        rw [H3, (chain_append fs1 L1 [c] hic t ht).2] at this
        rw [this, ← hent t ht]
        obtain ⟨p1, p2, p3, p4, p5, p6, p7, p8, p9⟩ := chain_pos fs1 sclust L1 h t ht
        refine entryAt_congr fm fsn (z5.trans j5.symm) _ t (fun k => s8 _ k p7 (fun q hq => ?_))
        unfold chainSect
        exact clust_sect_ne _ _ _ _ _ _ p2 s2 (fun e => s1 (by rw [← e]; exact p1)) p4 hq
      · by_cases h3 : t < (L1 ++ [c]).length * dirIc fs1
        · have := b7 t h3
          rw [H3] at this
          have hp : chainSect fs1 (L1 ++ ([c] ++ ext)) t = chainSect fs1 (L1 ++ [c]) t := by
            rw [← List.append_assoc]
            exact (chain_append fs1 (L1 ++ [c]) ext hic t h3).2
          rw [hp, this]
          exact hnew t h1 h3
        · have := b8 t (by omega) h2
          rw [H3] at this
          exact this

/-- A `dir_next` that may not stretch the directory only moves the window,
whatever it returns. -/
theorem dir_next_false_moved (fs : FATFS) (dp : FF_DIR) (hg : fs.good)
    (hc : dp.clust ≠ 0 → fs.fatOk ∧ 2 ≤ dp.clust ∧ dp.clust < fs.n_fatent) :
    ∀ r, dir_next fs dp false = some r → fs.moved r.1 := by
  intro r h
  have h0 := moved_refl fs hg
  unfold dir_next at h
  dsimp only at h
  by_cases c1 : dp.index + 1 &&& 65535 = 0 ∨ dp.sect = 0
  · rw [if_pos c1] at h; cases h; exact h0
  rw [if_neg c1] at h
  by_cases c2 : (dp.index + 1) % (fs.ssize / SZ_DIR) = 0
  swap
  · rw [if_neg c2] at h; cases h; exact h0
  rw [if_pos c2] at h
  by_cases c3 : dp.clust = 0
  · rw [if_pos c3] at h
    by_cases c4 : dp.index + 1 ≥ fs.n_rootdir
    · rw [if_pos c4] at h; cases h; exact h0
    · rw [if_neg c4] at h; cases h; exact h0
  rw [if_neg c3] at h
  obtain ⟨hok, h2, h3⟩ := hc c3
  have hgm := (get_fat_spec fs hok dp.clust h2 h3).2
  by_cases c5 : (dp.index + 1) / (fs.ssize / SZ_DIR) &&& sub32 fs.csize 1 = 0
  swap
  · rw [if_neg c5] at h; cases h; exact h0
  rw [if_pos c5] at h
  by_cases c6 : (get_fat fs dp.clust).2 ≤ 1
  · rw [if_pos c6] at h; cases h; exact hgm
  rw [if_neg c6] at h
  by_cases c7 : (get_fat fs dp.clust).2 = 4294967295
  · rw [if_pos c7] at h; cases h; exact hgm
  rw [if_neg c7] at h
  by_cases c8 : (get_fat fs dp.clust).2 ≥ (get_fat fs dp.clust).1.n_fatent
  swap
  · rw [if_neg c8] at h; cases h; exact hgm
  rw [if_pos c8] at h
  by_cases c9 : ¬ (get_fat fs dp.clust).1.readonly = true
  swap
  · rw [if_neg c9] at h; cases h; exact hgm
  rw [if_pos c9, if_pos (by decide)] at h
  cases h
  exact hgm

/-- The part of one round of `dir_find` after the entry was examined, in a
directory: whatever it returns, the window was moved only. -/
theorem dir_find_tail_walk (w : Nat → Nat) (fs0 : FATFS) (sclust cap : Nat)
    (clustOf sectOf : Nat → Nat) (W : DirWalk fs0 sclust cap clustOf sectOf)
    (hend : ∀ i fs1 dp r, i < cap → ¬ i + 1 < cap → fs0.sysRel fs1 →
      dir_next fs1 (FF_DIR.setAt dp fs0 (clustOf i) (sectOf i) i) false = some r →
      fs1.moved r.1 ∧ r.2.2 ≠ FR_OK) (fuel : Nat)
    (ih : ∀ (fs1 : FATFS) (dp : FF_DIR) (i ord sum : Nat) (r : FATFS × FF_DIR × FRESULT),
      fs0.sysRel fs1 → i < cap →
      dir_find_loop w fuel fs1 (dp.setAt fs0 (clustOf i) (sectOf i) i) ord sum = some r →
      fs1.moved r.1 ∧ r.2.1.sclust = dp.sclust)
    (fs1 : FATFS) (dp : FF_DIR) (i : Nat) (hrel : fs0.sysRel fs1) (hi : i < cap)
    (step : Option (FF_DIR × Nat × Nat))
    (r : FATFS × FF_DIR × FRESULT)
    (h : (match step with
       | none => some (fs1, dp.setAt fs0 (clustOf i) (sectOf i) i, FR_OK)
       | some (dp1, ord1, sum1) =>
         match dir_next fs1 dp1 false with
         | none => none
         | some (fs2, dp2, r) =>
           if r = FR_OK then dir_find_loop w fuel fs2 dp2 ord1 sum1
           else some (fs2, dp2, r)) = some r)
    (hstep : ∀ x, step = some x →
      ∃ li, x.1 = { dp.setAt fs0 (clustOf i) (sectOf i) i with lfn_idx := li }) :
    fs1.moved r.1 ∧ r.2.1.sclust = dp.sclust := by
  cases step with
  | none =>
    dsimp only at h
    cases h
    exact ⟨moved_refl fs1 hrel.1, rfl⟩
  | some x =>
    obtain ⟨dp1, ord1, sum1⟩ := x
    obtain ⟨li, hli⟩ := hstep _ rfl
    dsimp only at hli h
    subst hli
    have hset : ({ dp.setAt fs0 (clustOf i) (sectOf i) i with lfn_idx := li } : FF_DIR) =
        FF_DIR.setAt { dp with lfn_idx := li } fs0 (clustOf i) (sectOf i) i := rfl
    rw [hset] at h
    by_cases hnx : i + 1 < cap
    · obtain ⟨fs2, k1, k2⟩ := W.next fs1 { dp with lfn_idx := li } i false hrel hnx
      rw [k1] at h
      dsimp only at h
      rw [if_pos rfl] at h
      obtain ⟨e1, e2⟩ := ih fs2 { dp with lfn_idx := li } (i + 1) ord1 sum1 r
        (sysRel_moved fs0 fs1 fs2 hrel k2) hnx h
      exact ⟨moved_trans fs1 fs2 r.1 k2 e1, e2⟩
    · cases hn : dir_next fs1 (FF_DIR.setAt { dp with lfn_idx := li } fs0 (clustOf i) (sectOf i) i)
          false with
      | none => rw [hn] at h; cases h
      | some y =>
        obtain ⟨fs2, dp2, r2⟩ := y
        obtain ⟨hmv, hne⟩ := hend i fs1 { dp with lfn_idx := li } _ hi hnx hrel hn
        obtain ⟨-, k2, -⟩ := dir_next_keep fs1 _ false _ hn
        rw [hn] at h
        dsimp only at h hmv k2 hne
        rw [if_neg hne] at h
        cases h
        exact ⟨hmv, k2⟩

/-- The loop of `dir_find` in a directory: whatever it returns, the window
was moved only and the directory object is still on the directory. -/
theorem dir_find_loop_walk (w : Nat → Nat) (fs0 : FATFS) (sclust cap : Nat)
    (clustOf sectOf : Nat → Nat) (W : DirWalk fs0 sclust cap clustOf sectOf)
    (hend : ∀ i fs1 dp r, i < cap → ¬ i + 1 < cap → fs0.sysRel fs1 →
      dir_next fs1 (FF_DIR.setAt dp fs0 (clustOf i) (sectOf i) i) false = some r →
      fs1.moved r.1 ∧ r.2.2 ≠ FR_OK) :
    ∀ (fuel : Nat) (fs1 : FATFS) (dp : FF_DIR) (i ord sum : Nat) (r : FATFS × FF_DIR × FRESULT),
      fs0.sysRel fs1 → i < cap →
      dir_find_loop w fuel fs1 (dp.setAt fs0 (clustOf i) (sectOf i) i) ord sum = some r →
      fs1.moved r.1 ∧ r.2.1.sclust = dp.sclust := by
  intro fuel
  induction fuel with
  | zero => intro fs1 dp i ord sum r _ _ h; cases h
  | succ fuel ih =>
    intro fs1 dp i ord sum r hrel hi h
    obtain ⟨m1, m2, m3⟩ := move_window_moved fs1 (sectOf i) hrel.1 (W.sect_lt i hi)
    have hsectx : move_window fs1 (dp.setAt fs0 (clustOf i) (sectOf i) i).sect =
      move_window fs1 (sectOf i) := rfl
    rw [dir_find_loop] at h
    dsimp only at h
    rw [hsectx, if_neg (by rw [m1]; simp)] at h
    by_cases hc0 : dirEntry (move_window fs1 (sectOf i)).1 (dp.setAt fs0 (clustOf i) (sectOf i) i)
        DIR_Name = 0
    · rw [if_pos hc0] at h
      cases h
      exact ⟨m3, rfl⟩
    rw [if_neg hc0] at h
    have key := dir_find_tail_walk w fs0 sclust cap clustOf sectOf W hend fuel ih
      (move_window fs1 (sectOf i)).1 dp i (sysRel_moved fs0 fs1 _ hrel m3) hi _ r h
    refine (fun p => ⟨moved_trans fs1 _ r.1 m3 p.1, p.2⟩) (key ?_)
    intro x hx
    obtain ⟨e, he⟩ : ∃ e, e = dirEntry (move_window fs1 (sectOf i)).1
      (dp.setAt fs0 (clustOf i) (sectOf i) i) := ⟨_, rfl⟩
    rw [← he] at hx
    by_cases c1 : e DIR_Name = DDE ∨ e DIR_Attr &&& AM_MASK &&& AM_VOL ≠ 0 ∧ e DIR_Attr &&& AM_MASK ≠ AM_LFN
    · rw [if_pos c1, Option.some.injEq] at hx
      rw [← hx]
      exact ⟨_, rfl⟩
    rw [if_neg c1] at hx
    by_cases c2 : e DIR_Attr &&& AM_MASK = AM_LFN
    · rw [if_pos c2] at hx
      split at hx
      · rw [Option.some.injEq] at hx
        rw [← hx]
        exact ⟨(dp.setAt fs0 (clustOf i) (sectOf i) i).lfn_idx, rfl⟩
      · rw [Option.some.injEq] at hx
        rw [← hx]
        dsimp only
        split_ifs
        · exact ⟨_, rfl⟩
        · exact ⟨(dp.setAt fs0 (clustOf i) (sectOf i) i).lfn_idx, rfl⟩
    rw [if_neg c2] at hx
    by_cases c3 : ord = 0 ∧ sum = sum_sfn e
    · rw [if_pos c3] at hx; cases hx
    rw [if_neg c3] at hx
    by_cases c4 : (dp.setAt fs0 (clustOf i) (sectOf i) i).fn NS &&& NS_LOSS = 0 ∧
        memeq e (dp.setAt fs0 (clustOf i) (sectOf i) i).fn 11 = true
    · rw [if_pos c4] at hx; cases hx
    rw [if_neg c4, Option.some.injEq] at hx
    rw [← hx]
    exact ⟨_, rfl⟩

/-- A finished `dir_find` in a directory moved the window only and left the
directory object on the directory. -/
theorem dir_find_walk (w : Nat → Nat) (fs0 : FATFS) (sclust cap : Nat)
    (clustOf sectOf : Nat → Nat) (W : DirWalk fs0 sclust cap clustOf sectOf) (hcap : 0 < cap)
    (hend : ∀ i fs1 dp r, i < cap → ¬ i + 1 < cap → fs0.sysRel fs1 →
      dir_next fs1 (FF_DIR.setAt dp fs0 (clustOf i) (sectOf i) i) false = some r →
      fs1.moved r.1 ∧ r.2.2 ≠ FR_OK)
    (fs1 : FATFS) (hrel : fs0.sysRel fs1) (dp : FF_DIR) (hsc : dp.sclust = sclust)
    (r : FATFS × FF_DIR × FRESULT) (h : dir_find w fs1 dp = some r) :
    fs1.moved r.1 ∧ r.2.1.sclust = sclust := by
  obtain ⟨fsa, ha, hmv⟩ := W.sdi fs1 dp 0 hrel hsc hcap
  unfold dir_find at h
  rw [ha] at h
  dsimp only at h
  rw [if_neg (by decide)] at h
  have hset : ({ dp.setAt fs0 (clustOf 0) (sectOf 0) 0 with lfn_idx := 0xFFFF } : FF_DIR) =
      FF_DIR.setAt { dp with lfn_idx := 0xFFFF } fs0 (clustOf 0) (sectOf 0) 0 := rfl
  rw [hset] at h
  obtain ⟨e1, e2⟩ := dir_find_loop_walk w fs0 sclust cap clustOf sectOf W hend 65537 fsa
    { dp with lfn_idx := 0xFFFF } 0 0xFF 0xFF r (sysRel_moved fs0 fs1 fsa hrel hmv) hcap h
  exact ⟨moved_trans fs1 fsa r.1 hmv e1, e2.trans hsc⟩

/-- The search for a free numbered name in a directory, when it returns:
the window was moved only and the directory object is still on the
directory. -/
theorem dir_register_numname_walk (w : Nat → Nat) (fs0 : FATFS) (sclust cap : Nat)
    (clustOf sectOf : Nat → Nat) (W : DirWalk fs0 sclust cap clustOf sectOf) (hcap : 0 < cap)
    (hend : ∀ i fs1 dp r, i < cap → ¬ i + 1 < cap → fs0.sysRel fs1 →
      dir_next fs1 (FF_DIR.setAt dp fs0 (clustOf i) (sectOf i) i) false = some r →
      fs1.moved r.1 ∧ r.2.2 ≠ FR_OK) (sn : Nat → Nat) (lfn : List Nat) :
    ∀ (fuel n : Nat) (fs1 : FATFS) (dp : FF_DIR) (res : FRESULT)
      (r : FATFS × FF_DIR × FRESULT × Nat), fs0.sysRel fs1 → dp.sclust = sclust →
      dir_register_numname w sn lfn fuel n fs1 dp res = some r →
      fs1.moved r.1 ∧ r.2.1.sclust = sclust := by
  intro fuel
  induction fuel with
  | zero =>
    intro n fs1 dp res r hrel hsc h
    cases h
    exact ⟨moved_refl fs1 hrel.1, hsc⟩
  | succ fuel ih =>
    intro n fs1 dp res r hrel hsc h
    rw [dir_register_numname] at h
    by_cases c : n < 100
    swap
    · rw [if_neg c] at h
      cases h
      exact ⟨moved_refl fs1 hrel.1, hsc⟩
    rw [if_pos c] at h
    dsimp only at h
    cases hf : dir_find w fs1 { dp with fn := gen_numname dp.fn sn lfn n } with
    | none => rw [hf] at h; cases h
    | some x =>
      obtain ⟨fs2, dp2, r2⟩ := x
      obtain ⟨e1, e2⟩ := dir_find_walk w fs0 sclust cap clustOf sectOf W hcap hend fs1 hrel
        { dp with fn := gen_numname dp.fn sn lfn n } hsc _ hf
      rw [hf] at h
      dsimp only at h e1 e2
      by_cases hr0 : r2 ≠ FR_OK
      · rw [if_pos hr0] at h
        cases h
        exact ⟨e1, e2⟩
      · rw [if_neg hr0] at h
        obtain ⟨g1, g2⟩ := ih (n + 1) fs2 dp2 r2 r (sysRel_moved fs0 fs1 fs2 hrel e1) e2 h
        exact ⟨moved_trans fs1 fs2 r.1 e1 g1, g2⟩

/-- At the last entry of the static root directory, `dir_next` stops. -/
theorem dir_next_root_end (fs : FATFS) (hr : fs.rootOk) (i : Nat) (fs1 : FATFS) (dp : FF_DIR)
    (r : FATFS × FF_DIR × FRESULT) (hi : i < fs.n_rootdir) (hn : ¬ i + 1 < fs.n_rootdir)
    (hrel : fs.sysRel fs1)
    (h : dir_next fs1 (FF_DIR.setAt dp fs 0 (rootSect fs i) i) false = some r) :
    fs1.moved r.1 ∧ r.2.2 ≠ FR_OK := by
  obtain ⟨dp1, h1⟩ := (dir_next_at fs fs1 hr hrel.2.1 { dp with clust := 0 } rfl i hi false).2 hn
  have h2 : dir_next fs1 (FF_DIR.setAt dp fs 0 (rootSect fs i) i) false =
      some (fs1, dp1, FR_NO_FILE) := h1
  rw [h2] at h
  cases h
  exact ⟨moved_refl fs1 hrel.1, (show FR_NO_FILE ≠ FR_OK by decide)⟩

/-- At the last entry of a chain directory, a `dir_next` that may not
stretch the directory stops. -/
theorem dir_next_chain_end (fs : FATFS) (sclust : Nat) (L : List Nat) (h : ChainOk fs sclust L)
    (dp : FF_DIR) (i : Nat) (hi : i < L.length * dirIc fs) (hi2 : i < 65536)
    (hn : ¬ (i + 1 < L.length * dirIc fs ∧ i + 1 < 65536)) (r : FATFS × FF_DIR × FRESULT)
    (hres : dir_next fs (dp.setAt fs (chainClust fs L i) (chainSect fs L i) i) false = some r) :
    r.2.2 ≠ FR_OK := by
  obtain ⟨hic, hc1, hc2⟩ := dirIc_pos fs sclust L h
  obtain ⟨a1, a2, a3, a4, a5, a6, a7, a8, a9⟩ := chain_pos fs sclust L h i hi
  have hix : (dp.setAt fs (chainClust fs L i) (chainSect fs L i) i).index = i := rfl
  have hsx : (dp.setAt fs (chainClust fs L i) (chainSect fs L i) i).sect = chainSect fs L i := rfl
  have hcx : (dp.setAt fs (chainClust fs L i) (chainSect fs L i) i).clust = chainClust fs L i := rfl
  unfold dir_next at hres
  dsimp only at hres
  rw [hix, hsx, land_65535] at hres
  by_cases c0 : i + 1 = 65536
  · rw [if_pos (Or.inl (by rw [c0]))] at hres
    cases hres
    exact (show FR_NO_FILE ≠ FR_OK by decide)
  have hend : i + 1 = L.length * dirIc fs := by omega
  have hLpos : 0 < L.length := by
    rcases Nat.eq_zero_or_pos L.length with h0 | h0
    · rw [h0, Nat.zero_mul] at hend
      omega
    · exact h0
  have hLne : L ≠ [] := fun h0 => by rw [h0] at hLpos; exact absurd hLpos (by decide)
  have hicd : dirIc fs = fs.ssize / SZ_DIR * fs.csize := rfl
  have hE : (i + 1) % (fs.ssize / SZ_DIR) = 0 := by
    rw [hend, hicd, Nat.mul_comm (fs.ssize / SZ_DIR), ← Nat.mul_assoc]
    exact Nat.mul_mod_left _ _
  have hC : (i + 1) / (fs.ssize / SZ_DIR) % fs.csize = 0 := by
    rw [hend, hicd, Nat.mul_comm (fs.ssize / SZ_DIR), ← Nat.mul_assoc,
      Nat.mul_div_cancel _ h.persect]
    exact Nat.mul_mod_left _ _
  have hq : i / dirIc fs = L.length - 1 := by
    apply Nat.div_eq_of_lt_le
    · have : (L.length - 1) * dirIc fs + dirIc fs = L.length * dirIc fs := by
        rw [← Nat.succ_mul]
        congr 1
        omega
      omega
    · have : L.length - 1 + 1 = L.length := by omega
      rw [this]
      exact hi
  have hlast : L.getLast? = some (chainClust fs L i) := by
    rw [getLast_getD L hLne]
    unfold chainClust
    rw [hq]
  have heoc := isChain_last fs L _ h.chain hlast
  obtain ⟨g1, g2⟩ := get_fat_spec fs h.fat (chainClust fs L i) a2 a3
  obtain ⟨j1, j2, j3, j4, j5, j6, j7, j8, j9, j10, j11⟩ := geo_fields fs _
    (geo_of_meta fs _ g2.2.1)
  have hmod : (i + 1) % 65536 = i + 1 := Nat.mod_eq_of_lt (by omega)
  rw [hmod, if_neg (by omega), if_pos hE, hcx, if_neg (by omega),
    land_pow2 _ _ h.csize_pow, if_pos hC, g1, if_neg (by omega)] at hres
  by_cases c7 : fatVal fs (chainClust fs L i) = 4294967295
  · rw [if_pos c7] at hres
    cases hres
    exact (show FR_DISK_ERR ≠ FR_OK by decide)
  rw [if_neg c7, j8, if_pos heoc, j6, h.fat.good.writable, if_pos (by decide),
    if_pos (by decide)] at hres
  cases hres
  exact (show FR_NO_FILE ≠ FR_OK by decide)

/-- The end of a chain directory as seen from a volume on which only
directory sectors changed. -/
theorem chainEnd (fs : FATFS) (sclust : Nat) (L : List Nat) (h : ChainOk fs sclust L) (i : Nat)
    (fs1 : FATFS) (dp : FF_DIR) (r : FATFS × FF_DIR × FRESULT)
    (hi : i < min (L.length * dirIc fs) 65536) (hn : ¬ i + 1 < min (L.length * dirIc fs) 65536)
    (hrel : fs.sysRel fs1)
    (hres : dir_next fs1 (FF_DIR.setAt dp fs (chainClust fs L i) (chainSect fs L i) i) false =
      some r) : fs1.moved r.1 ∧ r.2.2 ≠ FR_OK := by
  have h1 := ChainOk_sysRel fs fs1 sclust L h hrel
  obtain ⟨G1, G2, G3, G4, G5⟩ := chain_geo fs fs1 (geo_of_meta fs fs1 hrel.2.1)
  obtain ⟨a1, a2, a3, -⟩ := chain_pos fs1 sclust L h1 i (by rw [G1]; omega)
  rw [G2] at a2 a3
  refine ⟨dir_next_false_moved fs1 _ hrel.1 (fun _ => ⟨h1.fat, a2, a3⟩) r hres, ?_⟩
  rw [← G4, ← G2, ← G3] at hres
  exact dir_next_chain_end fs1 sclust L h1 dp i (by rw [G1]; omega) (by omega)
    (by rw [G1]; omega) r hres

/-- A successful `dir_alloc` in a chain directory: the chain may have got
longer, the entries it had are as before and the entries of the appended
clusters are zero. -/
theorem dir_alloc_chain (fs : FATFS) (sclust : Nat) (L : List Nat) (h : ChainOk fs sclust L)
    (hb : fs.bytesOk) (dp : FF_DIR) (hsc : dp.sclust = sclust) (nent : Nat) (fs2 : FATFS)
    (dp2 : FF_DIR) (hres : dir_alloc fs dp nent = some (fs2, dp2, FR_OK)) :
    ∃ ext j, ChainOk fs2 sclust (L ++ ext) ∧ fs2.bytesOk ∧ fs2.geo = fs.geo ∧
      j < (L ++ ext).length * dirIc fs ∧ j < 65536 ∧ nent ≤ j + 1 ∧
      dp2 = dp.setAt fs (chainClust fs (L ++ ext) j) (chainSect fs (L ++ ext) j) j ∧
      (∀ t, t < L.length * dirIc fs →
        entryAt fs2 (chainSect fs L t) t = entryAt fs (chainSect fs L t) t) ∧
      (∀ t, L.length * dirIc fs ≤ t → t < (L ++ ext).length * dirIc fs →
        entryAt fs2 (chainSect fs (L ++ ext) t) t = List.replicate 32 0) := by
  obtain ⟨hic, hc1, hc2⟩ := dirIc_pos fs sclust L h
  have hLne : L ≠ [] := by
    intro h0
    have := h.start
    rw [h0] at this
    cases this
  have hLpos : 0 < L.length := List.length_pos.2 hLne
  have h0 : 0 < L.length * dirIc fs := Nat.mul_pos hLpos hic
  obtain ⟨fsa, ha, hmv⟩ := dir_sdi_chain fs sclust L h dp hsc 0 h0 (by decide)
  obtain ⟨i1, i2⟩ := dir_alloc_index fs dp nent fs2 dp2 hres
  unfold dir_alloc at hres
  rw [ha] at hres
  dsimp only at hres
  rw [if_pos rfl] at hres
  cases hl : dir_alloc_loop nent 65537 fsa
      (dp.setAt fs (chainClust fs L 0) (chainSect fs L 0) 0) 0 with
  | none => rw [hl] at hres; cases hres
  | some x =>
    obtain ⟨fx, dx, rx⟩ := x
    rw [hl] at hres
    have hrx : rx = FR_OK := by
      by_cases c : rx = FR_NO_FILE
      · subst c
        have e3 : FR_DENIED = FR_OK := congrArg (fun x => x.2.2) (Option.some.inj hres)
        cases e3
      · have e3 : (if rx = FR_NO_FILE then (fx, dx, FR_DENIED) else (fx, dx, rx)) =
            (fs2, dp2, FR_OK) := Option.some.inj hres
        rw [if_neg c] at e3
        exact congrArg (fun x => x.2.2) e3
    subst hrx
    have e3 : (fx, dx, FR_OK) = (fs2, dp2, FR_OK) := Option.some.inj hres
    obtain ⟨e4, e5⟩ := Prod.mk.inj e3
    obtain ⟨e6, -⟩ := Prod.mk.inj e5
    subst e4 e6
    have hrel := sysRel_of_moved fs fsa h.fat.good hmv
    have hca := ChainOk_sysRel fs fsa sclust L h hrel
    have hgeo := geo_of_meta fs fsa hmv.2.1
    obtain ⟨G1, G2, G3, G4, G5⟩ := chain_geo fs fsa hgeo
    rw [← G4, ← G2, ← G3] at hl
    obtain ⟨ext, j, b1, b2, b3, b4, b5, b6, b7, b8⟩ := dir_alloc_loop_chain sclust dp nent 65537
      fsa L 0 0 fx dx hca (hmv.2.2.1 hb) (by rw [G1]; exact h0) (by decide) hl
    rw [G1] at b4 b7 b8
    have hj : dx.index = j := by rw [b6]; rfl
    refine ⟨ext, j, b1, b2, b3.trans hgeo, b4, b5, by omega, by rw [b6, G2, G3, G4],
      fun t ht => ?_, fun t h1 h2 => ?_⟩
    · have := b7 t ht
      rw [G3] at this
      rw [this]
      exact entryAt_moved fs fs fsa (sysRel_refl fs h.fat.good) hmv _ _
        (chain_pos fs sclust L h t ht).2.2.2.2.2.2.1
    · have := b8 t h1 h2
      rw [G3] at this
      exact this

/-- The part of `dir_register` after `dir_alloc` passes a failure of
`dir_alloc` on. -/
theorem dir_register_fill_ok (lfnb : Nat → Nat) (nent : Nat) (fs : FATFS) (dp : FF_DIR)
    (r : FRESULT) (fs1 : FATFS) (dp1 : FF_DIR)
    (h : dir_register_fill lfnb nent fs dp r = some (fs1, dp1, FR_OK)) : r = FR_OK := by
  by_contra hr
  unfold dir_register_fill at h
  dsimp only at h
  rw [if_neg (fun c => hr c.1)] at h
  dsimp only at h
  rw [if_neg hr] at h
  exact hr (congrArg (fun x => x.2.2) (Option.some.inj h))

/-- A successful `dir_register` in a directory: the search for a numbered
name moved the window only, and the rest is `dir_alloc` and the storing of
the entries. -/
theorem dir_register_split (w : Nat → Nat) (fs0 : FATFS) (sclust cap : Nat)
    (clustOf sectOf : Nat → Nat) (W : DirWalk fs0 sclust cap clustOf sectOf) (hcap : 0 < cap)
    (hend : ∀ i fs1 dp r, i < cap → ¬ i + 1 < cap → fs0.sysRel fs1 →
      dir_next fs1 (FF_DIR.setAt dp fs0 (clustOf i) (sectOf i) i) false = some r →
      fs1.moved r.1 ∧ r.2.2 ≠ FR_OK)
    (dp : FF_DIR) (hsc : dp.sclust = sclust) (fs1 : FATFS) (dp1 : FF_DIR)
    (h : dir_register w fs0 dp = some (fs1, dp1, FR_OK)) :
    ∃ fsn dpn fsa dpa, fs0.moved fsn ∧ dpn.sclust = sclust ∧
      dir_alloc fsn dpn (if dp.fn NS &&& NS_LFN ≠ 0
        then (lfn_len (dp.lfn.getD fun _ => 0) (_MAX_LFN + 1) 0 + 25) / 13 else 1) =
        some (fsa, dpa, FR_OK) ∧
      dir_register_fill (dp.lfn.getD fun _ => 0) (if dp.fn NS &&& NS_LFN ≠ 0
        then (lfn_len (dp.lfn.getD fun _ => 0) (_MAX_LFN + 1) 0 + 25) / 13 else 1) fsa dpa
        FR_OK = some (fs1, dp1, FR_OK) := by
  have hg := W.good
  have key : ∀ fsn dpn, fs0.moved fsn → dpn.sclust = sclust →
      dir_register_store (dp.lfn.getD fun _ => 0) (if dp.fn NS &&& NS_LFN ≠ 0
        then (lfn_len (dp.lfn.getD fun _ => 0) (_MAX_LFN + 1) 0 + 25) / 13 else 1) fsn dpn =
        some (fs1, dp1, FR_OK) →
      ∃ fsn dpn fsa dpa, fs0.moved fsn ∧ dpn.sclust = sclust ∧
        dir_alloc fsn dpn (if dp.fn NS &&& NS_LFN ≠ 0
          then (lfn_len (dp.lfn.getD fun _ => 0) (_MAX_LFN + 1) 0 + 25) / 13 else 1) =
          some (fsa, dpa, FR_OK) ∧
        dir_register_fill (dp.lfn.getD fun _ => 0) (if dp.fn NS &&& NS_LFN ≠ 0
          then (lfn_len (dp.lfn.getD fun _ => 0) (_MAX_LFN + 1) 0 + 25) / 13 else 1) fsa dpa
          FR_OK = some (fs1, dp1, FR_OK) := by
    intro fsn dpn hmv hs hst
    unfold dir_register_store at hst
    cases ha : dir_alloc fsn dpn (if dp.fn NS &&& NS_LFN ≠ 0
        then (lfn_len (dp.lfn.getD fun _ => 0) (_MAX_LFN + 1) 0 + 25) / 13 else 1) with
    | none => rw [ha] at hst; cases hst
    | some x =>
      obtain ⟨fsa, dpa, ra⟩ := x
      rw [ha] at hst
      dsimp only at hst
      have hra := dir_register_fill_ok _ _ _ _ _ _ _ hst
      subst hra
      exact ⟨fsn, dpn, fsa, dpa, hmv, hs, ha, hst⟩
  rw [dir_register_eq] at h
  by_cases c : dp.fn NS &&& NS_LOSS ≠ 0
  swap
  · rw [if_neg c] at h
    exact key fs0 dp (moved_refl fs0 hg) hsc h
  rw [if_pos c] at h
  cases hn : dir_register_numname w dp.fn (lfn_chars (dp.lfn.getD fun _ => 0)) 99 1 fs0
      { dp with fn := Function.update dp.fn NS 0, lfn := none } FR_OK with
  | none => rw [hn] at h; cases h
  | some x =>
    obtain ⟨fsn, dpn, r, n⟩ := x
    obtain ⟨e1, e2⟩ := dir_register_numname_walk w fs0 sclust cap clustOf sectOf W hcap hend
      dp.fn (lfn_chars (dp.lfn.getD fun _ => 0)) 99 1 fs0
      { dp with fn := Function.update dp.fn NS 0, lfn := none } FR_OK _
      (sysRel_refl fs0 hg) hsc hn
    rw [hn] at h
    dsimp only at h e1 e2
    by_cases c1 : n = 100
    · rw [if_pos c1] at h
      have e3 : FR_DENIED = FR_OK := congrArg (fun x => x.2.2) (Option.some.inj h)
      cases e3
    rw [if_neg c1] at h
    by_cases c2 : r ≠ FR_NO_FILE
    · rw [if_pos c2] at h
      have e3 : r = FR_OK := congrArg (fun x => x.2.2) (Option.some.inj h)
      subst e3
      exact absurd (dir_register_numname_ok w dp.fn _ 99 1 fs0 _ FR_OK fsn dpn n rfl hn) c1
    rw [if_neg c2] at h
    dsimp only at h
    exact key fsn { dpn with fn := Function.update dpn.fn NS (dp.fn NS), lfn := dp.lfn } e1 e2 h

/-- Storing the entries of a name after `dir_alloc` ended at entry `j` of a
directory, and removing the name again: the entries of the name hold `0xE5`
and zeros, every other entry of the directory is as after `dir_alloc`. -/
theorem fill_remove_walk (fsB : FATFS) (sclust cap : Nat) (clustOf sectOf : Nat → Nat)
    (W : DirWalk fsB sclust cap clustOf sectOf) (lfnb : Nat → Nat) (nent : Nat) (fsa : FATFS)
    (hrel : fsB.sysRel fsa) (dpx : FF_DIR) (hsc : dpx.sclust = sclust) (j : Nat) (hj : j < cap)
    (h1 : 1 ≤ nent) (h2 : nent ≤ j + 1) (h3 : nent ≤ 256) (fs1 : FATFS) (dp1 : FF_DIR)
    (hfill : dir_register_fill lfnb nent fsa (dpx.setAt fsB (clustOf j) (sectOf j) j) FR_OK =
      some (fs1, dp1, FR_OK)) :
    dp1.index = j ∧ ∃ fs2 dp2,
      dir_remove fs1 { dp1 with lfn_idx := if nent = 1 then 0xFFFF else dp1.index + 1 - nent } =
        some (fs2, dp2, FR_OK) ∧ fsB.sysRel fs2 ∧
      (∀ i, j + 1 - nent ≤ i → i ≤ j → entryAt fs2 (sectOf i) i = deletedEntry) ∧
      ∀ i, i < cap → (i + nent ≤ j ∨ j < i) →
        entryAt fs2 (sectOf i) i = entryAt fsa (sectOf i) i := by
  have hcap := W.cap_le
  obtain ⟨fsf, f1, f2, f3⟩ := dir_register_fill_walk fsB sclust cap clustOf sectOf W lfnb nent
    fsa hrel dpx hsc j hj h1 h2 h3
  rw [f1] at hfill
  obtain ⟨e1, e2⟩ := Prod.mk.inj (Option.some.inj hfill)
  obtain ⟨e3, -⟩ := Prod.mk.inj e2
  subst e1 e3
  have hidx : (dpx.setAt fsB (clustOf j) (sectOf j) j).index = j := rfl
  refine ⟨hidx, ?_⟩
  rw [hidx]
  obtain ⟨fs2, r1, r2, r3, r4⟩ := dir_remove_walk fsB sclust cap clustOf sectOf W fsf f2
    { dpx.setAt fsB (clustOf j) (sectOf j) j with
      lfn_idx := if nent = 1 then 0xFFFF else j + 1 - nent } hsc (j + 1 - nent) j rfl hj
    (by omega) (by
      show (if (if nent = 1 then 0xFFFF else j + 1 - nent) = 0xFFFF then j
        else (if nent = 1 then 0xFFFF else j + 1 - nent)) = j + 1 - nent
      by_cases c : nent = 1
      · rw [if_pos c, if_pos rfl, c]
        omega
      · rw [if_neg c, if_neg (by omega)])
  refine ⟨fs2, _, r1, r2, r3, fun i hi hx => ?_⟩
  rw [r4 i hi (by omega)]
  exact f3 i hi hx

theorem dirEnt_root (fs fs2 : FATFS) (hm : fs2.meta = fs.meta) (i : Nat) :
    dirEnt fs2 [] i = entryAt fs2 (rootSect fs i) i := by
  obtain ⟨e1, e2, e3, e4, -⟩ := meta_fields_root fs fs2 hm
  unfold dirEnt dirSect rootSect
  rw [if_pos rfl, e2, e4]

theorem dirEnt_chain (fs fs2 : FATFS) (hg : fs2.geo = fs.geo) (L : List Nat) (hL : L ≠ [])
    (i : Nat) : dirEnt fs2 L i = entryAt fs2 (chainSect fs L i) i := by
  obtain ⟨G1, G2, G3, G4, G5⟩ := chain_geo fs fs2 hg
  unfold dirEnt dirSect
  rw [if_neg hL, G3]

/-- The number of entries a name takes is between 1 and 256. -/
theorem nent_bounds (dp : FF_DIR) :
    1 ≤ (if dp.fn NS &&& NS_LFN ≠ 0
      then (lfn_len (dp.lfn.getD fun _ => 0) (_MAX_LFN + 1) 0 + 25) / 13 else 1) ∧
    (if dp.fn NS &&& NS_LFN ≠ 0
      then (lfn_len (dp.lfn.getD fun _ => 0) (_MAX_LFN + 1) 0 + 25) / 13 else 1) ≤ 256 := by
  have h : lfn_len (dp.lfn.getD fun _ => 0) (_MAX_LFN + 1) 0 ≤ 256 :=
    lfn_len_le (dp.lfn.getD fun _ => 0) (_MAX_LFN + 1) 0
  generalize lfn_len (dp.lfn.getD fun _ => 0) (_MAX_LFN + 1) 0 = x at h
  split_ifs <;> omega

/-- Registering a name in the static root directory and removing it. -/
theorem register_remove_root (w : Nat → Nat) (fs : FATFS) (dp : FF_DIR) (hs0 : dp.sclust = 0)
    (hr : fs.rootOk) (nent : Nat)
    (hnent : nent = (if dp.fn NS &&& NS_LFN ≠ 0
      then (lfn_len (dp.lfn.getD fun _ => 0) (_MAX_LFN + 1) 0 + 25) / 13 else 1))
    (fs1 : FATFS) (dp1 : FF_DIR) (hreg : dir_register w fs dp = some (fs1, dp1, FR_OK)) :
    ∃ fs2 dp2, dp1.index < fs.n_rootdir ∧ nent ≤ dp1.index + 1 ∧
      dir_remove fs1 { dp1 with lfn_idx := if nent = 1 then 0xFFFF else dp1.index + 1 - nent } =
        some (fs2, dp2, FR_OK) ∧ fs2.meta = fs.meta ∧
      (∀ i, dp1.index + 1 - nent ≤ i → i ≤ dp1.index →
        entryAt fs2 (rootSect fs i) i = deletedEntry) ∧
      ∀ i, i < fs.n_rootdir → (i + nent ≤ dp1.index ∨ dp1.index < i) →
        entryAt fs2 (rootSect fs i) i = entryAt fs (rootSect fs i) i := by
  obtain ⟨hn1, hn2⟩ := nent_bounds dp
  rw [← hnent] at hn1 hn2
  have W := rootWalk fs hr
  obtain ⟨fsn, dpn, fsa, dpa, hmv, hsn, halloc, hfill⟩ := dir_register_split w fs 0 fs.n_rootdir
    (fun _ => 0) (rootSect fs) W hr.nonempty
    (fun i x d r hi hn hrel h => dir_next_root_end fs hr i x d r hi hn hrel h)
    dp hs0 fs1 dp1 hreg
  rw [← hnent] at halloc hfill
  have hrn := rootOk_of_meta fs fsn hr hmv.1 hmv.2.1
  obtain ⟨e1, e2, e3, e4, -⟩ := meta_fields_root fs fsn hmv.2.1
  obtain ⟨j, j1, j2, j3, j4, j5, -⟩ := dir_alloc_root fsn hrn dpn hsn nent fsa dpa halloc
  rw [e3] at j1
  have hdpa : dpa = dpn.setAt fs 0 (rootSect fs j) j := by
    rw [j4]
    unfold FF_DIR.setRoot FF_DIR.setAt rootSect rootOff
    rw [e2, e4]
  have hreln := sysRel_of_moved fs fsn hr.good hmv
  have hrela := sysRel_moved fs fsn fsa hreln j5
  rw [hdpa] at hfill
  obtain ⟨k1, fs2, dp2, k2, k3, k4, k5⟩ := fill_remove_walk fs 0 fs.n_rootdir (fun _ => 0)
    (rootSect fs) W (dp.lfn.getD fun _ => 0) nent fsa hrela dpn hsn j j1 hn1 j2 hn2 fs1 dp1 hfill
  rw [← k1] at j1 j2 k4 k5
  refine ⟨fs2, dp2, j1, j2, k2, k3.2.1, k4, fun i hi hx => ?_⟩
  rw [k5 i hi hx, entryAt_moved fs fsn fsa hreln j5 _ _ (W.behind i hi)]
  exact entryAt_moved fs fs fsn (sysRel_refl fs hr.good) hmv _ _ (W.behind i hi)

/-- Registering a name in a chain directory and removing it. -/
theorem register_remove_chain (w : Nat → Nat) (fs : FATFS) (dp : FF_DIR) (L : List Nat)
    (hc : ChainOk fs dp.sclust L) (hb : fs.bytesOk) (nent : Nat)
    (hnent : nent = (if dp.fn NS &&& NS_LFN ≠ 0
      then (lfn_len (dp.lfn.getD fun _ => 0) (_MAX_LFN + 1) 0 + 25) / 13 else 1))
    (fs1 : FATFS) (dp1 : FF_DIR) (hreg : dir_register w fs dp = some (fs1, dp1, FR_OK)) :
    ∃ fs2 dp2 ext, ChainOk fs2 dp.sclust (L ++ ext) ∧ fs2.geo = fs.geo ∧
      dp1.index < min ((L ++ ext).length * dirIc fs) 65536 ∧ nent ≤ dp1.index + 1 ∧
      dir_remove fs1 { dp1 with lfn_idx := if nent = 1 then 0xFFFF else dp1.index + 1 - nent } =
        some (fs2, dp2, FR_OK) ∧
      (∀ i, dp1.index + 1 - nent ≤ i → i ≤ dp1.index →
        entryAt fs2 (chainSect fs (L ++ ext) i) i = deletedEntry) ∧
      (∀ i, i < min (L.length * dirIc fs) 65536 → (i + nent ≤ dp1.index ∨ dp1.index < i) →
        entryAt fs2 (chainSect fs (L ++ ext) i) i = entryAt fs (chainSect fs L i) i) ∧
      ∀ i, L.length * dirIc fs ≤ i → i < min ((L ++ ext).length * dirIc fs) 65536 →
        (i + nent ≤ dp1.index ∨ dp1.index < i) →
        entryAt fs2 (chainSect fs (L ++ ext) i) i = List.replicate 32 0 := by
  obtain ⟨hn1, hn2⟩ := nent_bounds dp
  rw [← hnent] at hn1 hn2
  obtain ⟨hic, hc1, hc2⟩ := dirIc_pos fs dp.sclust L hc
  have hLpos : 0 < L.length := (chain_start fs dp.sclust L hc).2.1
  have W := chainWalk fs dp.sclust L hc
  obtain ⟨fsn, dpn, fsa, dpa, hmv, hsn, halloc, hfill⟩ := dir_register_split w fs dp.sclust
    (min (L.length * dirIc fs) 65536) (chainClust fs L) (chainSect fs L) W
    (by
      have := Nat.mul_pos hLpos hic
      omega)
    (fun i x d r hi hn hrel h => chainEnd fs dp.sclust L hc i x d r hi hn hrel h)
    dp rfl fs1 dp1 hreg
  rw [← hnent] at halloc hfill
  have hreln := sysRel_of_moved fs fsn hc.fat.good hmv
  have hcn := ChainOk_sysRel fs fsn dp.sclust L hc hreln
  have hgn := geo_of_meta fs fsn hmv.2.1
  obtain ⟨N1, N2, N3, N4, N5⟩ := chain_geo fs fsn hgn
  obtain ⟨ext, j, a1, a2, a3, a4, a5, a6, a7, a8, a9⟩ := dir_alloc_chain fsn dp.sclust L hcn
    (hmv.2.2.1 hb) dpn hsn nent fsa dpa halloc
  rw [N1] at a4 a8 a9
  have hga : fsa.geo = fs.geo := a3.trans hgn
  obtain ⟨A1, A2, A3, A4, A5⟩ := chain_geo fs fsa hga
  have W2 := chainWalk fsa dp.sclust (L ++ ext) a1
  rw [A1] at W2
  have hdpa : dpa = dpn.setAt fsa (chainClust fsa (L ++ ext) j) (chainSect fsa (L ++ ext) j) j := by
    rw [a7, N2, N3, N4, A2, A3, A4]
  rw [hdpa] at hfill
  obtain ⟨k1, fs2, dp2, k2, k3, k4, k5⟩ := fill_remove_walk fsa dp.sclust
    (min ((L ++ ext).length * dirIc fs) 65536) (chainClust fsa (L ++ ext))
    (chainSect fsa (L ++ ext)) W2 (dp.lfn.getD fun _ => 0) nent fsa
    (sysRel_refl fsa a1.fat.good) dpn hsn j (by omega) hn1 a6 hn2 fs1 dp1 hfill
  rw [← k1] at a4 a5 a6 k4 k5
  have hlen : L.length * dirIc fs ≤ (L ++ ext).length * dirIc fs := by
    rw [List.length_append]
    exact Nat.mul_le_mul_right _ (Nat.le_add_right _ _)
  refine ⟨fs2, dp2, ext, ChainOk_sysRel fsa fs2 dp.sclust (L ++ ext) a1 k3,
    (geo_of_meta fsa fs2 k3.2.1).trans hga, by omega, a6, k2, fun i h1 h2 => ?_,
    fun i hi hx => ?_, fun i h1 h2 hx => ?_⟩
  · rw [← A3]
    exact k4 i h1 h2
  · have hi1 : i < L.length * dirIc fs := by omega
    have hs : chainSect fs (L ++ ext) i = chainSect fs L i :=
      (chain_append fs L ext hic i hi1).2
    rw [← A3, k5 i (by omega) hx, A3, hs]
    have := a8 i hi1
    rw [N3] at this
    rw [this]
    exact entryAt_moved fs fs fsn (sysRel_refl fs hc.fat.good) hmv _ _
      (chain_pos fs dp.sclust L hc i hi1).2.2.2.2.2.2.1
  · rw [← A3, k5 i h2 hx, A3]
    have := a9 i h1 (by omega)
    rw [N3] at this
    exact this

/-- C14 amended: in a directory of a well-formed volume, the static root
directory of a FAT12 or FAT16 volume (`L = []`) or a directory held in the
cluster chain `L` (a sub-directory or the root of a FAT32 volume), a
`dir_register` that returns `FR_OK` took the `nent` entries that end at the
index it leaves in `dp`, possibly after `dir_alloc` appended clusters to the
chain (`L1`), and `dir_remove` of that name, with `lfn_idx` as `dir_find`
sets it, returns `FR_OK`; afterwards each entry of the name holds `0xE5`
followed by 31 zero bytes, every other entry the directory had before the
registration is byte-for-byte what it was, and every other entry of an
appended cluster is 32 zero bytes. Names of every kind are covered: short
names, names with LFN entries and names that get a numbered short name. -/
theorem C14_register_then_remove (w : Nat → Nat) (fs : FATFS) (dp : FF_DIR) (L : List Nat)
    (hd : DirOk fs dp.sclust L)
    (hreg : (dir_register w fs dp).map (fun x => x.2.2) = some FR_OK) :
    ∃ fs1 dp1 fs2 dp2 L1 nent,
      nent = (if dp.fn NS &&& NS_LFN ≠ 0
        then (lfn_len (dp.lfn.getD fun _ => 0) (_MAX_LFN + 1) 0 + 25) / 13 else 1) ∧
      dir_register w fs dp = some (fs1, dp1, FR_OK) ∧
      (∃ ext, L1 = L ++ ext) ∧ (L = [] → L1 = []) ∧ (L ≠ [] → ChainOk fs2 dp.sclust L1) ∧
      dp1.index < dirCap fs L1 ∧ 1 ≤ nent ∧ nent ≤ dp1.index + 1 ∧
      dir_remove fs1 { dp1 with lfn_idx := if nent = 1 then 0xFFFF else dp1.index + 1 - nent } =
        some (fs2, dp2, FR_OK) ∧
      (∀ i, dp1.index + 1 - nent ≤ i → i ≤ dp1.index → dirEnt fs2 L1 i = deletedEntry) ∧
      (∀ i, i < dirCap fs L → (i + nent ≤ dp1.index ∨ dp1.index < i) →
        dirEnt fs2 L1 i = dirEnt fs L i) ∧
      (∀ i, dirCap fs L ≤ i → i < dirCap fs L1 → (i + nent ≤ dp1.index ∨ dp1.index < i) →
        dirEnt fs2 L1 i = List.replicate 32 0) := by
  obtain ⟨hn1, -⟩ := nent_bounds dp
  cases hr : dir_register w fs dp with
  | none => rw [hr] at hreg; cases hreg
  | some x =>
    obtain ⟨fs1, dp1, r⟩ := x
    rw [hr] at hreg
    have hrr : r = FR_OK := Option.some.inj hreg
    subst hrr
    rcases hd with ⟨hL, hs0, hroot⟩ | ⟨hc, hb⟩
    · subst hL
      obtain ⟨fs2, dp2, k1, k2, k3, k4, k5, k6⟩ := register_remove_root w fs dp hs0 hroot _ rfl
        fs1 dp1 hr
      have hcap : dirCap fs [] = fs.n_rootdir := by unfold dirCap; rw [if_pos rfl]
      refine ⟨fs1, dp1, fs2, dp2, [], _, rfl, rfl, ⟨[], rfl⟩, fun _ => rfl,
        fun h => absurd rfl h, by rw [hcap]; exact k1, hn1, k2, k3, fun i h1 h2 => ?_,
        fun i hi hx => ?_, fun i h1 h2 _ => ?_⟩
      · rw [dirEnt_root fs fs2 k4]
        exact k5 i h1 h2
      · rw [hcap] at hi
        rw [dirEnt_root fs fs2 k4, dirEnt_root fs fs rfl]
        exact k6 i hi hx
      · omega
    · obtain ⟨fs2, dp2, ext, k1, k2, k3, k4, k5, k6, k7, k8⟩ := register_remove_chain w fs dp L
        hc hb _ rfl fs1 dp1 hr
      have hLne : L ≠ [] := List.length_pos.1 (chain_start fs dp.sclust L hc).2.1
      have hLne2 : L ++ ext ≠ [] := fun h => hLne (List.append_eq_nil.1 h).1
      have hcap : dirCap fs L = min (L.length * dirIc fs) 65536 := by
        unfold dirCap; rw [if_neg hLne]
      have hcap2 : dirCap fs (L ++ ext) = min ((L ++ ext).length * dirIc fs) 65536 := by
        unfold dirCap; rw [if_neg hLne2]
      refine ⟨fs1, dp1, fs2, dp2, L ++ ext, _, rfl, rfl, ⟨ext, rfl⟩, fun h => absurd h hLne,
        fun _ => k1, by rw [hcap2]; exact k3, hn1, k4, k5, fun i h1 h2 => ?_,
        fun i hi hx => ?_, fun i h1 h2 hx => ?_⟩
      · rw [dirEnt_chain fs fs2 k2 _ hLne2]
        exact k6 i h1 h2
      · rw [hcap] at hi
        rw [dirEnt_chain fs fs2 k2 _ hLne2, dirEnt_chain fs fs rfl _ hLne]
        exact k7 i hi hx
      · rw [hcap] at h1
        rw [hcap2] at h2
        rw [dirEnt_chain fs fs2 k2 _ hLne2]
        refine k8 i ?_ h2 hx
        have hlen : L.length * dirIc fs ≤ (L ++ ext).length * dirIc fs := by
          rw [List.length_append]
          exact Nat.mul_le_mul_right _ (Nat.le_add_right _ _)
        omega

/-- Every byte of the example volume with the full sub-directory is below
256. -/
theorem fullSubVol_bytesOk : fullSubVol.bytesOk :=
  ⟨fun _ => (by decide : (0 : Nat) < 256), fun s k => by
    unfold fullSubVol mkDisk
    dsimp only
    split_ifs
    · exact bytes_lt _ (by decide) _
    · exact bytes_lt _ (by decide) _
    · dsimp only
      split_ifs
      · exact bytes_lt _ (by decide) _
      · exact (by decide : (0 : Nat) < 256)
    · exact (by decide : (0 : Nat) < 256)⟩

/-- Witness for C14: the name of 14 letters `a` as `create_name` leaves it
(two LFN entries and the numbered short name `AAAAAA~1`), registered in the
full sub-directory of `fullSubVol`, where `dir_alloc` appends cluster 3 to
the chain of the directory and the name takes the entries 16 to 18, and in
the root directory of the example volume. -/
theorem C14_register_then_remove_witness :
    ((dir_register exCfg.ff_wtoupper fullSubVol
      { namedDir (List.replicate 14 0x61) with sclust := 2 }).bind fun a =>
      (dir_remove a.1 { a.2.1 with lfn_idx := 16 }).map fun b =>
        (a.2.2, a.2.1.index, b.2.2)) = some (FR_OK, 18, FR_OK) ∧
    ((dir_register exCfg.ff_wtoupper fullSubVol
      { namedDir (List.replicate 14 0x61) with sclust := 2 }).bind fun a =>
      (dir_remove a.1 { a.2.1 with lfn_idx := 16 }).map fun b =>
        (dirEnt b.1 [2, 3] 16, dirEnt b.1 [2, 3] 18, dirEnt b.1 [2, 3] 19)) =
      some (deletedEntry, deletedEntry, List.replicate 32 0) ∧
    ((dir_register exCfg.ff_wtoupper fullSubVol
      { namedDir (List.replicate 14 0x61) with sclust := 2 }).bind fun a =>
      (dir_remove a.1 { a.2.1 with lfn_idx := 16 }).map fun b =>
        (fatVal b.1 2, fatVal b.1 3, fatVal b.1 4)) = some (3, 0xFFF, 0) ∧
    (∃ fs1 dp1 fs2 dp2 L1 nent,
      nent = (if { namedDir (List.replicate 14 0x61) with sclust := 2 }.fn NS &&& NS_LFN ≠ 0
        then (lfn_len ({ namedDir (List.replicate 14 0x61) with sclust := 2 }.lfn.getD fun _ => 0) (_MAX_LFN + 1) 0 + 25) / 13 else 1) ∧
      dir_register exCfg.ff_wtoupper fullSubVol { namedDir (List.replicate 14 0x61) with sclust := 2 } = some (fs1, dp1, FR_OK) ∧
      (∃ ext, L1 = [2] ++ ext) ∧ ([2] = [] → L1 = []) ∧ ([2] ≠ [] → ChainOk fs2 2 L1) ∧
      dp1.index < dirCap fullSubVol L1 ∧ 1 ≤ nent ∧ nent ≤ dp1.index + 1 ∧
      dir_remove fs1 { dp1 with lfn_idx := if nent = 1 then 0xFFFF else dp1.index + 1 - nent } =
        some (fs2, dp2, FR_OK) ∧
      (∀ i, dp1.index + 1 - nent ≤ i → i ≤ dp1.index → dirEnt fs2 L1 i = deletedEntry) ∧
      (∀ i, i < dirCap fullSubVol [2] → (i + nent ≤ dp1.index ∨ dp1.index < i) →
        dirEnt fs2 L1 i = dirEnt fullSubVol [2] i) ∧
      (∀ i, dirCap fullSubVol [2] ≤ i → i < dirCap fullSubVol L1 → (i + nent ≤ dp1.index ∨ dp1.index < i) →
        dirEnt fs2 L1 i = List.replicate 32 0)) ∧
    (∃ fs1 dp1 fs2 dp2 L1 nent,
      nent = (if (namedDir (List.replicate 14 0x61)).fn NS &&& NS_LFN ≠ 0
        then (lfn_len ((namedDir (List.replicate 14 0x61)).lfn.getD fun _ => 0) (_MAX_LFN + 1) 0 + 25) / 13 else 1) ∧
      dir_register exCfg.ff_wtoupper exVol (namedDir (List.replicate 14 0x61)) = some (fs1, dp1, FR_OK) ∧
      (∃ ext, L1 = ([] : List Nat) ++ ext) ∧ (([] : List Nat) = [] → L1 = []) ∧ (([] : List Nat) ≠ [] → ChainOk fs2 0 L1) ∧
      dp1.index < dirCap exVol L1 ∧ 1 ≤ nent ∧ nent ≤ dp1.index + 1 ∧
      dir_remove fs1 { dp1 with lfn_idx := if nent = 1 then 0xFFFF else dp1.index + 1 - nent } =
        some (fs2, dp2, FR_OK) ∧
      (∀ i, dp1.index + 1 - nent ≤ i → i ≤ dp1.index → dirEnt fs2 L1 i = deletedEntry) ∧
      (∀ i, i < dirCap exVol ([] : List Nat) → (i + nent ≤ dp1.index ∨ dp1.index < i) →
        dirEnt fs2 L1 i = dirEnt exVol ([] : List Nat) i) ∧
      (∀ i, dirCap exVol ([] : List Nat) ≤ i → i < dirCap exVol L1 → (i + nent ≤ dp1.index ∨ dp1.index < i) →
        dirEnt fs2 L1 i = List.replicate 32 0)) :=
  ⟨by decide, by decide, by decide,
    C14_register_then_remove exCfg.ff_wtoupper fullSubVol
      { namedDir (List.replicate 14 0x61) with sclust := 2 } [2]
      (Or.inr ⟨⟨⟨⟨rfl, ⟨fun _ => rfl, fun _ => rfl⟩, by decide, by decide, by decide,
            fun _ _ => rfl⟩, by decide, by decide, by decide, by decide, by decide⟩,
          by decide, ⟨0, by decide, rfl⟩, by decide, by decide, by decide, by decide,
          by decide, by decide, (by decide : fullSubVol.n_fatent ≤ fatVal fullSubVol 2)⟩,
        fullSubVol_bytesOk⟩)
      (by decide),
    C14_register_then_remove exCfg.ff_wtoupper exVol (namedDir (List.replicate 14 0x61)) []
      (Or.inl ⟨rfl, rfl,
        ⟨⟨rfl, ⟨fun _ => rfl, fun _ => rfl⟩, by decide, by decide, by decide, fun _ _ => rfl⟩,
          by decide, by decide, by decide, by decide, by decide, by decide, by decide,
          by decide, by decide⟩⟩)
      (by decide)⟩

end Zeke
